import Mathlib

set_option autoImplicit false
set_option maxRecDepth 8192

/-!
Ape scripting engine: values, heap objects and maps

A shallow embedding of `object.c`, `collections.c`, `gc.c` and the parts of `vm.c` that
work on values.  Machine words are natural numbers; every arithmetic step that can wrap
in C carries its modulus.  A `double` is represented by its 64-bit pattern.

Conventions of the embedding:
* `allocator_malloc` is taken to succeed, so the `NULL` branches of the allocation sites are
  not represented;
* reading memory that holds no object (a dangling pointer) yields a zeroed default;
* whether plain `char` is signed is a parameter (`char_signed`), as it is
  implementation-defined in C.
-/

namespace Ape

/-! ## IEEE-754 binary64 on bit patterns -/

/-- Index of the highest set bit, by halving.  The first argument bounds the recursion. -/
def ilog2_aux : Nat → Nat → Nat
  | 0, _ => 0
  | fuel + 1, n => if n < 2 then 0 else ilog2_aux fuel (n / 2) + 1

/-- Index of the highest set bit of `n` (0 for `n = 0`). -/
def ilog2 (n : Nat) : Nat := ilog2_aux n n

/-- Round `m / 2^s` to the nearest integer, ties to even. -/
def rne_shift (m s : Nat) : Nat :=
  let q := m >>> s
  let r := m % 2 ^ s
  let half := 2 ^ (s - 1)
  if 0 < s ∧ (half < r ∨ (r = half ∧ q % 2 = 1)) then q + 1 else q

/-- Bit pattern of positive infinity. -/
def DBL_INF : Nat := 0x7ff0000000000000

/-- Overflow to infinity of a magnitude bit pattern. -/
def double_clamp (bits : Nat) : Nat := if DBL_INF ≤ bits then DBL_INF else bits

/-- Magnitude bits (sign bit clear) of the double nearest to `m * 2^e`,
round-to-nearest-even, overflowing to infinity. -/
def round_dyadic (m : Nat) (e : Int) : Nat :=
  if m = 0 then 0 else
  let u : Int := max ((ilog2 m : Int) + e - 52) (-1074)
  let q := if u ≤ e then m * 2 ^ (e - u).toNat else rne_shift m (u - e).toNat
  double_clamp ((u + 1074).toNat * 2 ^ 52 + q)

/-- Conversion of an integer to `double`: `(double)z`. -/
def double_of_int (z : Int) : Nat :=
  (if z < 0 then 2 ^ 63 else 0) + round_dyadic z.natAbs 0

/-- Magnitude bits of a double. -/
def double_mag (x : Nat) : Nat := x % 2 ^ 63

/-- Sign bit of a double. -/
def double_sign (x : Nat) : Bool := decide (2 ^ 63 ≤ x % 2 ^ 64)

/-- NaN test on a bit pattern. -/
def double_is_nan (x : Nat) : Bool := decide (DBL_INF < double_mag x)

/-- Mantissa and exponent of a finite magnitude `b`: its value is `m * 2^e`. -/
def double_decode (b : Nat) : Nat × Int :=
  let ef : Nat := b / 2 ^ 52
  let mf : Nat := b % 2 ^ 52
  if ef = 0 then (mf, -1074) else (2 ^ 52 + mf, (ef : Int) - 1075)

/-- Exact value of a finite double as an integer multiple of `2^e0`, for `e0` not above
its exponent. -/
def double_scaled (x : Nat) (e0 : Int) : Int :=
  let d := double_decode (double_mag x)
  let v : Int := ((d.1 * 2 ^ (d.2 - e0).toNat : Nat) : Int)
  if double_sign x then -v else v

/-- Quiet NaN produced by an invalid operation. -/
def DBL_NAN : Nat := 0x7ff8000000000000

/-- IEEE subtraction `x - y` in round-to-nearest-even.  A NaN result is returned as the
default quiet NaN (the payload is platform-specific). -/
def double_sub (x y : Nat) : Nat :=
  if double_is_nan x ∨ double_is_nan y then DBL_NAN
  else if double_mag x = DBL_INF then
    (if double_mag y = DBL_INF ∧ double_sign x = double_sign y then DBL_NAN else x % 2 ^ 64)
  else if double_mag y = DBL_INF then
    (if double_sign y then DBL_INF else 2 ^ 63 + DBL_INF)
  else
    let e0 : Int := min (double_decode (double_mag x)).2 (double_decode (double_mag y)).2
    let d : Int := double_scaled x e0 - double_scaled y e0
    if d = 0 then
      (if double_sign x ∧ ¬ double_sign y then 2 ^ 63 else 0)
    else (if d < 0 then 2 ^ 63 else 0) + round_dyadic d.natAbs e0

/-- C library `fabs`. -/
def fabs (x : Nat) : Nat := double_mag x

/-- Comparison `x < y` of doubles; false when either is a NaN. -/
def double_lt (x y : Nat) : Bool :=
  if double_is_nan x ∨ double_is_nan y then false
  else
    let kx : Int := if double_sign x then -(double_mag x : Int) else (double_mag x : Int)
    let ky : Int := if double_sign y then -(double_mag y : Int) else (double_mag y : Int)
    decide (kx < ky)

/-- `DBL_EPSILON` of float.h, `2^-52`. -/
def DBL_EPSILON : Nat := 0x3cb0000000000000

/-- Macro `APE_DBLEQ(a, b)`: `fabs((a) - (b)) < DBL_EPSILON`. -/
def APE_DBLEQ (a b : Nat) : Bool := double_lt (fabs (double_sub a b)) DBL_EPSILON

/-! ## Values: the NaN-boxed word (object.h, object.c) -/

/-- Enumeration `object_type_t`. -/
inductive object_type_t where
  | OBJECT_NONE
  | OBJECT_ERROR
  | OBJECT_NUMBER
  | OBJECT_BOOL
  | OBJECT_STRING
  | OBJECT_NULL
  | OBJECT_NATIVE_FUNCTION
  | OBJECT_ARRAY
  | OBJECT_MAP
  | OBJECT_FUNCTION
  | OBJECT_EXTERNAL
  | OBJECT_FREED
  | OBJECT_ANY
  deriving DecidableEq, Repr

open object_type_t

/-- Union `object_t`: `handle` and `number` share the same 64 bits. -/
structure object_t where
  handle : Nat
  deriving DecidableEq, Repr

def OBJECT_PATTERN : Nat := 0xfff8000000000000
def OBJECT_HEADER_MASK : Nat := 0xffff000000000000
def OBJECT_ALLOCATED_HEADER : Nat := 0xfffc000000000000
def OBJECT_BOOL_HEADER : Nat := 0xfff9000000000000
def OBJECT_NULL_PATTERN : Nat := 0xfffa000000000000

/-- Complement of a 64-bit word: the C operator `~` on `uint64_t`. -/
def not64 (x : Nat) : Nat := 0xffffffffffffffff ^^^ (x % 2 ^ 64)

/-- Function `get_type_tag`. -/
def get_type_tag (type : object_type_t) : Nat :=
  match type with
  | OBJECT_NONE => 0
  | OBJECT_BOOL => 1
  | OBJECT_NULL => 2
  | _ => 4

/-- Function `object_make_from_data`; `data` is the address of the object body. -/
def object_make_from_data (type : object_type_t) (data : Nat) : object_t :=
  let handle := OBJECT_PATTERN
  let type_tag := get_type_tag type &&& 0x7
  let handle := handle ||| ((type_tag <<< 48) % 2 ^ 64)
  let handle := handle ||| (data % 2 ^ 64)
  { handle := handle }

/-- Function `object_make_number`; `val` is the bit pattern of the double. -/
def object_make_number (val : Nat) : object_t :=
  if val &&& OBJECT_PATTERN = OBJECT_PATTERN then { handle := 0x7ff8000000000000 }
  else { handle := val }

/-- Function `object_make_bool`. -/
def object_make_bool (val : Bool) : object_t :=
  { handle := OBJECT_BOOL_HEADER ||| (if val then 1 else 0) }

/-- Function `object_make_null`. -/
def object_make_null : object_t := { handle := OBJECT_NULL_PATTERN }

/-- Function `object_is_number`. -/
def object_is_number (o : object_t) : Bool :=
  decide (o.handle &&& OBJECT_PATTERN ≠ OBJECT_PATTERN)

/-- Function `object_is_allocated`. -/
def object_is_allocated (object : object_t) : Bool :=
  decide (object.handle &&& OBJECT_ALLOCATED_HEADER = OBJECT_ALLOCATED_HEADER)

/-- Function `object_get_allocated_data`: the address held in the low 48 bits. -/
def object_get_allocated_data (object : object_t) : Nat :=
  object.handle &&& not64 OBJECT_HEADER_MASK

/-- Function `object_get_bool`. -/
def object_get_bool (obj : object_t) : Bool :=
  if object_is_number obj then decide (obj.handle ≠ 0)
  else decide (obj.handle &&& not64 OBJECT_HEADER_MASK ≠ 0)

/-- Function `object_get_number`, returning the bit pattern of the double. -/
def object_get_number (obj : object_t) : Nat :=
  if object_is_number obj then obj.handle
  else double_of_int ((obj.handle &&& not64 OBJECT_HEADER_MASK : Nat) : Int)

/-! ## Heap objects (object.h, collections.c, gc.h) -/

/-- Structure `src_pos_t`; `file` is the address of the compiled file. -/
structure src_pos_t where
  file : Nat
  line : Int
  column : Int
  deriving DecidableEq, Repr

/-- Constant `src_pos_invalid`. -/
def src_pos_invalid : src_pos_t := { file := 0, line := -1, column := -1 }

/-- Structure `array_t_` instantiated at `object_t`: `items` are the `count` live
elements `data[0 .. count)`. -/
structure array_t_ where
  items : List object_t
  capacity : Nat
  lock_capacity : Bool
  deriving DecidableEq, Repr

/-- The functions ever installed with `valdict_set_hash_function`. -/
inductive collections_hash_fn where
  | object_hash
  deriving DecidableEq, Repr

/-- The functions ever installed with `valdict_set_equals_function`. -/
inductive collections_equals_fn where
  | object_equals_wrapped
  deriving DecidableEq, Repr

/-- Structure `valdict_t_` with 8-byte keys and values (`object_t`).  The arrays `keys`,
`values`, `cell_ixs` and `hashes` have `item_capacity` slots, `cells` has `cell_capacity`. -/
structure valdict_t_ where
  cells : List Nat
  hashes : List Nat
  keys : List object_t
  values : List object_t
  cell_ixs : List Nat
  count : Nat
  item_capacity : Nat
  cell_capacity : Nat
  _hash_key : Option collections_hash_fn
  _keys_equals : Option collections_equals_fn
  deriving DecidableEq, Repr

/-- Structure `compilation_result_t`. -/
structure compilation_result_t where
  bytecode : List Nat
  src_positions : List src_pos_t
  count : Nat
  deriving DecidableEq, Repr

/-- Structure `function_t`; `free_vals` is `free_vals_buf` or the block behind
`free_vals_allocated`. -/
structure function_t where
  free_vals : List object_t
  name : String
  comp_result : compilation_result_t
  num_locals : Int
  num_args : Int
  free_vals_count : Int
  owns_data : Bool
  deriving DecidableEq, Repr

/-- Structure `native_function_t`; `fn` identifies the host function. -/
structure native_function_t where
  name : String
  fn : Nat
  data : List Nat
  data_len : Int
  deriving DecidableEq, Repr

/-- Structure `external_data_t`; the callbacks are identified by their addresses
(0 for `NULL`). -/
structure external_data_t where
  data : Nat
  data_destroy_fn : Nat
  data_copy_fn : Nat
  deriving DecidableEq, Repr

/-- Structure `traceback_item_t`. -/
structure traceback_item_t where
  function_name : String
  pos : src_pos_t
  deriving DecidableEq, Repr

/-- Structure `object_error_t`; `traceback` is the list of items behind the pointer, `none`
for `NULL`. -/
structure object_error_t where
  message : String
  traceback : Option (List traceback_item_t)
  deriving DecidableEq, Repr

/-- Structure `object_string_t`.  `value` is the character buffer (`value_buf` or the
block behind `value_allocated`), each element an unsigned byte. -/
structure object_string_t where
  value : List Nat
  hash : Nat
  is_allocated : Bool
  capacity : Int
  length : Int
  deriving DecidableEq, Repr

/-- The anonymous union inside `object_data_t`. -/
inductive object_payload where
  | zeroed
  | string (s : object_string_t)
  | error (e : object_error_t)
  | array (a : array_t_)
  | map (m : valdict_t_)
  | function (f : function_t)
  | native_function (n : native_function_t)
  | external (x : external_data_t)
  deriving DecidableEq, Repr

/-- Structure `object_data_t` (the back pointer `mem` is implicit). -/
structure object_data_t where
  payload : object_payload
  gcmark : Bool
  type : object_type_t
  deriving DecidableEq, Repr

/-- Structure `gcmem_t` together with the memory it manages: `data p` is the object body
stored at address `p`, `next_addr` the next address `allocator_malloc` hands out. -/
structure gcmem_t where
  data : Nat → Option object_data_t
  next_addr : Nat
  allocations_since_sweep : Nat
  objects : List Nat
  objects_back : List Nat
  objects_not_gced : List object_t
  data_only_pool : List Nat
  pool_array : List Nat
  pool_map : List Nat
  pool_string : List Nat

/-- A zeroed `object_data_t`, as left by `memset(data, 0, ...)`. -/
def object_data_zero : object_data_t :=
  { payload := object_payload.zeroed, gcmark := false, type := OBJECT_NONE }

/-- Dereference of an `object_data_t *`. -/
def gcmem_t.deref (mem : gcmem_t) (p : Nat) : object_data_t :=
  (mem.data p).getD object_data_zero

/-- Store through an `object_data_t *`. -/
def gcmem_t.store (mem : gcmem_t) (p : Nat) (d : object_data_t) : gcmem_t :=
  { mem with data := fun q => if q = p then some d else mem.data q }

/-- Function `object_get_type`. -/
def object_get_type (mem : gcmem_t) (obj : object_t) : object_type_t :=
  if object_is_number obj then OBJECT_NUMBER
  else
    let tag := (obj.handle >>> 48) &&& 0x7
    if tag = 0 then OBJECT_NONE
    else if tag = 1 then OBJECT_BOOL
    else if tag = 2 then OBJECT_NULL
    else if tag = 4 then (mem.deref (object_get_allocated_data obj)).type
    else OBJECT_NONE

/-- Function `object_is_numeric`. -/
def object_is_numeric (mem : gcmem_t) (obj : object_t) : Bool :=
  let type := object_get_type mem obj
  decide (type = OBJECT_NUMBER ∨ type = OBJECT_BOOL)

/-- Function `object_is_null`. -/
def object_is_null (mem : gcmem_t) (obj : object_t) : Bool :=
  decide (object_get_type mem obj = OBJECT_NULL)

/-- Function `object_is_callable`. -/
def object_is_callable (mem : gcmem_t) (obj : object_t) : Bool :=
  let type := object_get_type mem obj
  decide (type = OBJECT_NATIVE_FUNCTION ∨ type = OBJECT_FUNCTION)

/-- Function `object_is_hashable`. -/
def object_is_hashable (mem : gcmem_t) (obj : object_t) : Bool :=
  match object_get_type mem obj with
  | OBJECT_STRING => true
  | OBJECT_NUMBER => true
  | OBJECT_BOOL => true
  | _ => false

/-- The kinds of object that live in an `object_data_t`. -/
def is_allocated_kind (type : object_type_t) : Bool :=
  match type with
  | OBJECT_STRING | OBJECT_ARRAY | OBJECT_MAP | OBJECT_FUNCTION
  | OBJECT_NATIVE_FUNCTION | OBJECT_ERROR | OBJECT_EXTERNAL => true
  | _ => false

/-! ## Strings (object.c) -/

/-- The `string` member of an `object_data_t`. -/
def object_data_t.string (data : object_data_t) : object_string_t :=
  match data.payload with
  | object_payload.string s => s
  | _ => { value := [], hash := 0, is_allocated := false, capacity := 0, length := 0 }

/-- The `array` member of an `object_data_t`. -/
def object_data_t.array (data : object_data_t) : array_t_ :=
  match data.payload with
  | object_payload.array a => a
  | _ => { items := [], capacity := 0, lock_capacity := false }

/-- The `map` member of an `object_data_t`. -/
def object_data_t.map (data : object_data_t) : valdict_t_ :=
  match data.payload with
  | object_payload.map m => m
  | _ => { cells := [], hashes := [], keys := [], values := [], cell_ixs := [], count := 0,
           item_capacity := 0, cell_capacity := 0, _hash_key := none, _keys_equals := none }

/-- Value of a plain `char` holding byte `c`, promoted to `int`. -/
def char_to_int (char_signed : Bool) (c : Nat) : Int :=
  if char_signed = true ∧ 128 ≤ c then (c : Int) - 256 else (c : Int)

/-- Conversion of an `int` to `unsigned long` (64 bits). -/
def int_to_ulong (z : Int) : Nat := (z % (2 ^ 64 : Int)).toNat

/-- One round of the loop of `object_hash_string`:
`hash = ((hash << 5) + hash) + c` on `unsigned long`. -/
def object_hash_string_step (char_signed : Bool) (hash c : Nat) : Nat :=
  ((((hash <<< 5) % 2 ^ 64 + hash) % 2 ^ 64) + int_to_ulong (char_to_int char_signed c)) % 2 ^ 64

/-- The loop `while ((c = *str++))` of `object_hash_string` over the memory at `str`;
the end of the modelled buffer reads as the terminator. -/
def object_hash_string_loop (char_signed : Bool) : List Nat → Nat → Nat
  | [], hash => hash
  | c :: str, hash =>
    if c = 0 then hash
    else object_hash_string_loop char_signed str (object_hash_string_step char_signed hash c)

/-- Function `object_hash_string`. -/
def object_hash_string (char_signed : Bool) (str : List Nat) : Nat :=
  object_hash_string_loop char_signed str 5381

/-- Function `object_hash_double`: the two 32-bit halves of the double, low half first
(little-endian). -/
def object_hash_double (val : Nat) : Nat :=
  let lo := val % 2 ^ 32
  let hi := (val / 2 ^ 32) % 2 ^ 32
  let hash := 5381
  let hash := (((hash <<< 5) % 2 ^ 64 + hash) % 2 ^ 64 + lo) % 2 ^ 64
  let hash := (((hash <<< 5) % 2 ^ 64 + hash) % 2 ^ 64 + hi) % 2 ^ 64
  hash

/-- Function `object_get_string`: the character buffer of the string body. -/
def object_get_string (mem : gcmem_t) (object : object_t) : List Nat :=
  (mem.deref (object_get_allocated_data object)).string.value

/-- Function `object_get_string_length`. -/
def object_get_string_length (mem : gcmem_t) (object : object_t) : Int :=
  (mem.deref (object_get_allocated_data object)).string.length

/-- Function `object_get_string_hash`: the hash and the memory with the hash cached.
The write to `data->string.hash` is represented for bodies that hold a string. -/
def object_get_string_hash (char_signed : Bool) (mem : gcmem_t) (obj : object_t) :
    Nat × gcmem_t :=
  let p := object_get_allocated_data obj
  let data := mem.deref p
  if data.string.hash = 0 then
    let hash := object_hash_string char_signed (object_get_string mem obj)
    let hash := if hash = 0 then 1 else hash
    match data.payload with
    | object_payload.string s =>
      (hash, mem.store p { data with payload := object_payload.string { s with hash := hash } })
    | _ => (hash, mem)
  else (data.string.hash, mem)

/-- C library `strcmp` on the memory at the two pointers: the difference of the first
differing bytes (only the sign is fixed by the C standard). -/
def strcmp : List Nat → List Nat → Int
  | [], [] => 0
  | [], c :: _ => -(c : Int)
  | c :: _, [] => (c : Int)
  | c1 :: s1, c2 :: s2 =>
    if c1 ≠ c2 then (c1 : Int) - (c2 : Int)
    else if c1 = 0 then 0
    else strcmp s1 s2

/-- Function `object_compare`: the returned double, the flag `*out_ok` (`out_ok` on entry)
and the memory afterwards. -/
def object_compare (char_signed : Bool) (mem : gcmem_t) (a b : object_t) (out_ok : Bool) :
    Nat × Bool × gcmem_t :=
  if a.handle = b.handle then (double_of_int 0, out_ok, mem)
  else
    let a_type := object_get_type mem a
    let b_type := object_get_type mem b
    if (a_type = OBJECT_NUMBER ∨ a_type = OBJECT_BOOL ∨ a_type = OBJECT_NULL)
        ∧ (b_type = OBJECT_NUMBER ∨ b_type = OBJECT_BOOL ∨ b_type = OBJECT_NULL) then
      let left_val := object_get_number a
      let right_val := object_get_number b
      (double_sub left_val right_val, true, mem)
    else if a_type = b_type ∧ a_type = OBJECT_STRING then
      let a_len := object_get_string_length mem a
      let b_len := object_get_string_length mem b
      if a_len ≠ b_len then (double_of_int (a_len - b_len), true, mem)
      else
        let (a_hash, mem) := object_get_string_hash char_signed mem a
        let (b_hash, mem) := object_get_string_hash char_signed mem b
        if a_hash ≠ b_hash then
          (double_of_int (((a_hash + 2 ^ 64 - b_hash) % 2 ^ 64 : Nat) : Int), true, mem)
        else
          let a_string := object_get_string mem a
          let b_string := object_get_string mem b
          (double_of_int (strcmp a_string b_string), true, mem)
    else if (object_is_allocated a ∨ object_is_null mem a)
        ∧ (object_is_allocated b ∨ object_is_null mem b) then
      let a_data_val : Int := (object_get_allocated_data a : Int)
      let b_data_val : Int := (object_get_allocated_data b : Int)
      (double_of_int (a_data_val - b_data_val), true, mem)
    else (double_of_int 1, false, mem)

/-- Function `object_equals`. -/
def object_equals (char_signed : Bool) (mem : gcmem_t) (a b : object_t) : Bool × gcmem_t :=
  let a_type := object_get_type mem a
  let b_type := object_get_type mem b
  if a_type ≠ b_type then (false, mem)
  else
    let ok := false
    let (res, _, mem) := object_compare char_signed mem a b ok
    (APE_DBLEQ res (double_of_int 0), mem)

/-- Function `object_hash`. -/
def object_hash (char_signed : Bool) (mem : gcmem_t) (obj : object_t) : Nat × gcmem_t :=
  match object_get_type mem obj with
  | OBJECT_NUMBER => (object_hash_double (object_get_number obj), mem)
  | OBJECT_BOOL => ((if object_get_bool obj then 1 else 0), mem)
  | OBJECT_STRING => object_get_string_hash char_signed mem obj
  | _ => (0, mem)

/-- The bytes of a string body: the first `length` bytes of its buffer. -/
def string_bytes (s : object_string_t) : List Nat := s.value.take s.length.toNat

/-- Representation invariant of a string body as every constructor leaves it: the
buffer holds `length` non-NUL bytes followed by the terminating NUL. -/
def string_wf (s : object_string_t) : Prop :=
  0 ≤ s.length ∧ s.length.toNat < s.value.length
  ∧ s.value.get? s.length.toNat = some 0
  ∧ ∀ c ∈ string_bytes s, 0 < c ∧ c < 256

/-- The hash that `object_get_string_hash` computes for a buffer. -/
def string_hash_of (char_signed : Bool) (value : List Nat) : Nat :=
  if object_hash_string char_signed value = 0 then 1 else object_hash_string char_signed value

/-- Spec: djb2 of a byte string — start at 5381, then `hash = hash * 33 + byte` for each
byte, modulo `2^64`. -/
def djb2 (b : List Nat) : Nat := b.foldl (fun hash byte => (hash * 33 + byte) % 2 ^ 64) 5381

/-- Sign of a double as -1, 0 or 1 (0 for both zeros; NaN has no sign and gives 0). -/
def double_sgn (x : Nat) : Int :=
  if double_is_nan x ∨ double_mag x = 0 then 0
  else if double_sign x then -1 else 1

/-- Lexicographic comparison of byte strings: -1, 0 or 1. -/
def lex_cmp : List Nat → List Nat → Int
  | [], [] => 0
  | [], _ :: _ => -1
  | _ :: _, [] => 1
  | c1 :: s1, c2 :: s2 => if c1 < c2 then -1 else if c2 < c1 then 1 else lex_cmp s1 s2

/-- A short string holding `bytes`, NUL-terminated in the inline buffer of 24 bytes. -/
def mk_string (bytes : List Nat) (hash : Nat) : object_string_t :=
  { value := bytes ++ List.replicate (24 - bytes.length) 0, hash := hash,
    is_allocated := false, capacity := 23, length := bytes.length }

/-- A string body holding `bytes`. -/
def mk_string_data (bytes : List Nat) (hash : Nat) : object_data_t :=
  { payload := object_payload.string (mk_string bytes hash), gcmark := false,
    type := OBJECT_STRING }

/-- An empty `gcmem_t` whose memory holds nothing. -/
def gcmem_empty : gcmem_t :=
  { data := fun _ => none, next_addr := 4096, allocations_since_sweep := 0, objects := [],
    objects_back := [], objects_not_gced := [], data_only_pool := [], pool_array := [],
    pool_map := [], pool_string := [] }

/-- The value `obj` is a String whose body is `s`. -/
def string_at (mem : gcmem_t) (obj : object_t) (s : object_string_t) : Prop :=
  object_get_type mem obj = OBJECT_STRING
  ∧ (mem.deref (object_get_allocated_data obj)).payload = object_payload.string s

/-- The hash `object_get_string_hash` returns for a string body: the cached one unless it
is the sentinel 0. -/
def string_hash_val (char_signed : Bool) (s : object_string_t) : Nat :=
  if s.hash = 0 then string_hash_of char_signed s.value else s.hash

/-- The memory after `n` calls of `object_get_string_hash` on `obj`. -/
def after_hash_calls (char_signed : Bool) (obj : object_t) (n : Nat) (mem : gcmem_t) : gcmem_t :=
  (fun m => (object_get_string_hash char_signed m obj).2)^[n] mem

/-- Memory with one string body holding `bytes` at address 4096. -/
def mem_one_string (bytes : List Nat) (hash : Nat) : gcmem_t :=
  gcmem_empty.store 4096 (mk_string_data bytes hash)

/-- Memory with two string bodies, at addresses 4096 and 4160. -/
def mem_two_strings (bytes1 bytes2 : List Nat) : gcmem_t :=
  (gcmem_empty.store 4096 (mk_string_data bytes1 0)).store 4160 (mk_string_data bytes2 0)

/-! ## Value dictionary (collections.c) -/

/-- Macro `VALDICT_INVALID_IX` (`UINT_MAX`). -/
def VALDICT_INVALID_IX : Nat := 0xffffffff

/-- Macro `DICT_INITIAL_SIZE`. -/
def DICT_INITIAL_SIZE : Nat := 32

/-- The value `x - 1` in `unsigned int` arithmetic. -/
def u32_pred (x : Nat) : Nat := (x + 0xffffffff) % 2 ^ 32

/-- Function `upper_power_of_two` on `unsigned int`. -/
def upper_power_of_two (v : Nat) : Nat :=
  let v := u32_pred v
  let v := v ||| (v >>> 1)
  let v := v ||| (v >>> 2)
  let v := v ||| (v >>> 4)
  let v := v ||| (v >>> 8)
  let v := v ||| (v >>> 16)
  (v + 1) % 2 ^ 32

/-- Function `collections_hash` over the 8 bytes of an `object_t` key, lowest byte first. -/
def collections_hash (key : object_t) : Nat :=
  (List.range 8).foldl
    (fun hash i => (((hash <<< 5) % 2 ^ 64 + hash) % 2 ^ 64 + (key.handle >>> (8 * i)) % 256) % 2 ^ 64)
    5381

/-- Function `valdict_init`.  The blocks `allocator_malloc` returns are represented
zero-filled.  `(unsigned int)(initial_capacity * 0.7f)` is computed exactly: `0.7f` is
`11744051 / 2^24` and the product is exact for the capacities that occur (powers of two). -/
def valdict_init (initial_capacity : Nat) : valdict_t_ :=
  let cell_capacity := initial_capacity
  let item_capacity := initial_capacity * 11744051 / 16777216
  { cells := List.replicate cell_capacity VALDICT_INVALID_IX
    hashes := List.replicate item_capacity 0
    keys := List.replicate item_capacity { handle := 0 }
    values := List.replicate item_capacity { handle := 0 }
    cell_ixs := List.replicate item_capacity 0
    count := 0
    item_capacity := item_capacity
    cell_capacity := cell_capacity
    _hash_key := none
    _keys_equals := none }

/-- Function `valdict_make_with_capacity`. -/
def valdict_make_with_capacity (min_capacity : Nat) : valdict_t_ :=
  let capacity := upper_power_of_two ((min_capacity * 2) % 2 ^ 32)
  valdict_init capacity

/-- Function `valdict_make_`. -/
def valdict_make_ : valdict_t_ := valdict_make_with_capacity DICT_INITIAL_SIZE

/-- Function `valdict_set_hash_function`. -/
def valdict_set_hash_function (dict : valdict_t_) (hash_fn : collections_hash_fn) : valdict_t_ :=
  { dict with _hash_key := some hash_fn }

/-- Function `valdict_set_equals_function`. -/
def valdict_set_equals_function (dict : valdict_t_) (equals_fn : collections_equals_fn) :
    valdict_t_ :=
  { dict with _keys_equals := some equals_fn }

/-- Function `valdict_hash_key`. -/
def valdict_hash_key (char_signed : Bool) (mem : gcmem_t) (dict : valdict_t_) (key : object_t) :
    Nat × gcmem_t :=
  match dict._hash_key with
  | some collections_hash_fn.object_hash => object_hash char_signed mem key
  | none => (collections_hash key, mem)

/-- Function `valdict_keys_are_equal`; `memcmp` of two 8-byte keys is 0 when the words agree. -/
def valdict_keys_are_equal (char_signed : Bool) (mem : gcmem_t) (dict : valdict_t_)
    (a b : object_t) : Bool × gcmem_t :=
  match dict._keys_equals with
  | some collections_equals_fn.object_equals_wrapped => object_equals char_signed mem a b
  | none => (decide (a.handle % 2 ^ 64 = b.handle % 2 ^ 64), mem)

/-- Function `valdict_get_key_at`: the key in slot `ix`, `none` for `NULL`. -/
def valdict_get_key_at (dict : valdict_t_) (ix : Nat) : Option object_t :=
  if ix ≥ dict.count then none else some (dict.keys.getD ix { handle := 0 })

/-- Function `valdict_get_value_at`: the value in slot `ix`, `none` for `NULL`. -/
def valdict_get_value_at (dict : valdict_t_) (ix : Nat) : Option object_t :=
  if ix ≥ dict.count then none else some (dict.values.getD ix { handle := 0 })

/-- Function `valdict_set_value_at`. -/
def valdict_set_value_at (dict : valdict_t_) (ix : Nat) (value : object_t) : Bool × valdict_t_ :=
  if ix ≥ dict.count then (false, dict)
  else (true, { dict with values := dict.values.set ix value })

/-- Function `valdict_set_key_at`. -/
def valdict_set_key_at (dict : valdict_t_) (ix : Nat) (key : object_t) : Bool × valdict_t_ :=
  if ix ≥ dict.count then (false, dict)
  else (true, { dict with keys := dict.keys.set ix key })

/-- Function `valdict_count`. -/
def valdict_count (dict : valdict_t_) : Nat := dict.count

/-- The `for` loop of `valdict_get_cell_ix`, with `n` rounds left at counter `i`.
A cell that is read outside `cells` counts as empty, a key slot outside `keys` as zero. -/
def valdict_get_cell_ix_loop (char_signed : Bool) (dict : valdict_t_) (key : object_t)
    (hash cell_ix : Nat) : Nat → Nat → gcmem_t → Nat × Bool × gcmem_t
  | 0, _, mem => (VALDICT_INVALID_IX, false, mem)
  | n + 1, i, mem =>
    let ix := ((cell_ix + i) % 2 ^ 32) &&& u32_pred dict.cell_capacity
    let cell := dict.cells.getD ix VALDICT_INVALID_IX
    if cell = VALDICT_INVALID_IX then (ix, false, mem)
    else
      let hash_to_check := dict.hashes.getD cell 0
      if hash ≠ hash_to_check then
        valdict_get_cell_ix_loop char_signed dict key hash cell_ix n (i + 1) mem
      else
        let key_to_check := dict.keys.getD cell { handle := 0 }
        let r := valdict_keys_are_equal char_signed mem dict key key_to_check
        if r.1 then (ix, true, r.2)
        else valdict_get_cell_ix_loop char_signed dict key hash cell_ix n (i + 1) r.2

/-- Function `valdict_get_cell_ix`: the cell index, `*out_found` and the memory. -/
def valdict_get_cell_ix (char_signed : Bool) (mem : gcmem_t) (dict : valdict_t_) (key : object_t)
    (hash : Nat) : Nat × Bool × gcmem_t :=
  let cell_ix := (hash &&& u32_pred dict.cell_capacity) % 2 ^ 32
  valdict_get_cell_ix_loop char_signed dict key hash cell_ix dict.cell_capacity 0 mem

/-- The insertion at the end of `valdict_set`, once the key was not found. -/
def valdict_append (dict : valdict_t_) (cell_ix : Nat) (key value : object_t) (hash : Nat) :
    valdict_t_ :=
  let last_ix := dict.count
  let dict := { dict with count := (dict.count + 1) % 2 ^ 32 }
  let dict := { dict with cells := dict.cells.set cell_ix last_ix }
  let dict := (valdict_set_key_at dict last_ix key).2
  let dict := (valdict_set_value_at dict last_ix value).2
  let dict := { dict with cell_ixs := dict.cell_ixs.set last_ix cell_ix }
  { dict with hashes := dict.hashes.set last_ix hash }

/-- The copy loop of `valdict_grow_and_rehash`: `n` items left, starting at item `i`;
`set` is `valdict_set`. -/
def valdict_rehash_loop (set : gcmem_t → valdict_t_ → object_t → object_t → Bool × valdict_t_ × gcmem_t)
    (dict : valdict_t_) : Nat → Nat → valdict_t_ → gcmem_t → Bool × valdict_t_ × gcmem_t
  | 0, _, new_dict, mem => (true, new_dict, mem)
  | n + 1, i, new_dict, mem =>
    let key := dict.keys.getD i { handle := 0 }
    let value := dict.values.getD i { handle := 0 }
    let r := set mem new_dict key value
    if r.1 then valdict_rehash_loop set dict n (i + 1) r.2.1 r.2.2
    else (false, r.2.1, r.2.2)

/-- Function `valdict_grow_and_rehash`, given `valdict_set`: on success the new dictionary
replaces the old one, on failure the old one is kept. -/
def valdict_grow_and_rehash_with
    (set : gcmem_t → valdict_t_ → object_t → object_t → Bool × valdict_t_ × gcmem_t)
    (mem : gcmem_t) (dict : valdict_t_) : Bool × valdict_t_ × gcmem_t :=
  let new_capacity :=
    if dict.cell_capacity = 0 then DICT_INITIAL_SIZE else (dict.cell_capacity * 2) % 2 ^ 32
  let new_dict := valdict_init new_capacity
  let new_dict := { new_dict with _keys_equals := dict._keys_equals, _hash_key := dict._hash_key }
  let r := valdict_rehash_loop set dict dict.count 0 new_dict mem
  if r.1 then (true, r.2.1, r.2.2) else (false, dict, r.2.2)

/-- Function `valdict_set`; the first argument bounds the nesting of `valdict_set` inside
`valdict_grow_and_rehash` inside `valdict_set`. -/
def valdict_set_aux (char_signed : Bool) :
    Nat → gcmem_t → valdict_t_ → object_t → object_t → Bool × valdict_t_ × gcmem_t
  | 0, mem, dict, _, _ => (false, dict, mem)
  | fuel + 1, mem, dict, key, value =>
    let h := valdict_hash_key char_signed mem dict key
    let hash := h.1
    let c := valdict_get_cell_ix char_signed h.2 dict key hash
    if c.2.1 then
      let item_ix := dict.cells.getD c.1 VALDICT_INVALID_IX
      (true, (valdict_set_value_at dict item_ix value).2, c.2.2)
    else if dict.count ≥ dict.item_capacity then
      let g := valdict_grow_and_rehash_with (valdict_set_aux char_signed fuel) c.2.2 dict
      if g.1 then
        let c2 := valdict_get_cell_ix char_signed g.2.2 g.2.1 key hash
        (true, valdict_append g.2.1 c2.1 key value hash, c2.2.2)
      else (false, g.2.1, g.2.2)
    else (true, valdict_append dict c.1 key value hash, c.2.2)

/-- Function `valdict_set`.  Each nested call works on a dictionary with fewer items, so
`count + 2` levels are never exhausted. -/
def valdict_set (char_signed : Bool) (mem : gcmem_t) (dict : valdict_t_) (key value : object_t) :
    Bool × valdict_t_ × gcmem_t :=
  valdict_set_aux char_signed (dict.count + 2) mem dict key value

/-- Function `valdict_get`: the value, `none` for `NULL`. -/
def valdict_get (char_signed : Bool) (mem : gcmem_t) (dict : valdict_t_) (key : object_t) :
    Option object_t × gcmem_t :=
  let h := valdict_hash_key char_signed mem dict key
  let c := valdict_get_cell_ix char_signed h.2 dict key h.1
  if c.2.1 then
    let item_ix := dict.cells.getD c.1 VALDICT_INVALID_IX
    (valdict_get_value_at dict item_ix, c.2.2)
  else (none, c.2.2)

/-- Function `valdict_clear`. -/
def valdict_clear (dict : valdict_t_) : valdict_t_ :=
  { dict with count := 0, cells := List.replicate dict.cell_capacity VALDICT_INVALID_IX }

/-! ## Maps and arrays as objects (object.c) -/

/-- Function `object_get_map_length`. -/
def object_get_map_length (mem : gcmem_t) (object : object_t) : Nat :=
  valdict_count (mem.deref (object_get_allocated_data object)).map

/-- Function `object_get_map_key_at`. -/
def object_get_map_key_at (mem : gcmem_t) (object : object_t) (ix : Nat) : object_t :=
  match valdict_get_key_at (mem.deref (object_get_allocated_data object)).map ix with
  | none => object_make_null
  | some res => res

/-- Function `object_get_map_value_at`. -/
def object_get_map_value_at (mem : gcmem_t) (object : object_t) (ix : Nat) : object_t :=
  match valdict_get_value_at (mem.deref (object_get_allocated_data object)).map ix with
  | none => object_make_null
  | some res => res

/-- Write back of the dictionary behind `data->map`. -/
def gcmem_t.store_map (mem : gcmem_t) (p : Nat) (dict : valdict_t_) : gcmem_t :=
  mem.store p { mem.deref p with payload := object_payload.map dict }

/-- Function `object_set_map_value`. -/
def object_set_map_value (char_signed : Bool) (mem : gcmem_t) (object key val : object_t) :
    Bool × gcmem_t :=
  let p := object_get_allocated_data object
  let r := valdict_set char_signed mem (mem.deref p).map key val
  (r.1, r.2.2.store_map p r.2.1)

/-- Function `object_get_map_value`. -/
def object_get_map_value (char_signed : Bool) (mem : gcmem_t) (object key : object_t) :
    object_t × gcmem_t :=
  let p := object_get_allocated_data object
  let r := valdict_get char_signed mem (mem.deref p).map key
  match r.1 with
  | none => (object_make_null, r.2)
  | some res => (res, r.2)

/-- Function `object_map_has_key`. -/
def object_map_has_key (char_signed : Bool) (mem : gcmem_t) (object key : object_t) :
    Bool × gcmem_t :=
  let p := object_get_allocated_data object
  let r := valdict_get char_signed mem (mem.deref p).map key
  (r.1.isSome, r.2)

/-- The item slot in which the lookup of `valdict_set` and `valdict_get` finds `key`:
`cells[cell_ix]` when `valdict_get_cell_ix` reports the key found. -/
def valdict_find (char_signed : Bool) (mem : gcmem_t) (dict : valdict_t_) (key : object_t) :
    Option Nat :=
  let h := valdict_hash_key char_signed mem dict key
  let c := valdict_get_cell_ix char_signed h.2 dict key h.1
  if c.2.1 then some (dict.cells.getD c.1 VALDICT_INVALID_IX) else none

/-! ## Predicates used to state properties of maps -/

/-- Two bodies that differ at most in a cached string hash which yields the same
`object_get_string_hash`. -/
def body_cache_eq (char_signed : Bool) (d d2 : object_data_t) : Prop :=
  d.type = d2.type ∧ d.gcmark = d2.gcmark
  ∧ (d.payload = d2.payload
    ∨ ∃ s s2, d.payload = object_payload.string s ∧ d2.payload = object_payload.string s2
      ∧ s.value = s2.value ∧ s.length = s2.length ∧ s.capacity = s2.capacity
      ∧ s.is_allocated = s2.is_allocated
      ∧ string_hash_val char_signed s = string_hash_val char_signed s2)

/-- Two memories that differ at most in cached string hashes. -/
def cache_eq (char_signed : Bool) (mem mem2 : gcmem_t) : Prop :=
  ∀ q, body_cache_eq char_signed (mem.deref q) (mem2.deref q)

/-- The value `obj` is a Map whose dictionary is `d`. -/
def map_at (mem : gcmem_t) (obj : object_t) (d : valdict_t_) : Prop :=
  object_get_type mem obj = OBJECT_MAP
  ∧ (mem.deref (object_get_allocated_data obj)).payload = object_payload.map d

/-- The keys `a` (looked up) and `b` (stored) collide in dictionary `d`: same hash and
`valdict_keys_are_equal`. -/
def keys_collide (char_signed : Bool) (mem : gcmem_t) (d : valdict_t_) (a b : object_t) : Prop :=
  (valdict_hash_key char_signed mem d a).1 = (valdict_hash_key char_signed mem d b).1
  ∧ (valdict_keys_are_equal char_signed mem d a b).1 = true

/-- Representation invariant of a dictionary: the item arrays have `item_capacity` slots,
of which `count` are used; `item_capacity` is 0.7 times the cell capacity; every cell is
empty or names a used item; and no two stored keys collide. -/
def valdict_wf (char_signed : Bool) (mem : gcmem_t) (d : valdict_t_) : Prop :=
  d.keys.length = d.item_capacity ∧ d.values.length = d.item_capacity
  ∧ d.hashes.length = d.item_capacity ∧ d.cell_ixs.length = d.item_capacity
  ∧ d.cells.length = d.cell_capacity
  ∧ d.count ≤ d.item_capacity
  ∧ d.item_capacity = d.cell_capacity * 11744051 / 16777216
  ∧ d.cell_capacity < 2 ^ 31
  ∧ (∀ c ∈ d.cells, c = VALDICT_INVALID_IX ∨ c < d.count)
  ∧ (∀ i j, i < j → j < d.count →
      ¬ keys_collide char_signed mem d (d.keys.getD j { handle := 0 })
          (d.keys.getD i { handle := 0 }))

/-- State of the copy loop of `valdict_grow_and_rehash` after `j` items of `dict` were set
in `new_dict`. -/
def rehash_inv (char_signed : Bool) (mem : gcmem_t) (dict new_dict : valdict_t_) (j : Nat) :
    Prop :=
  new_dict.count = j
  ∧ new_dict.keys.length = new_dict.item_capacity
  ∧ new_dict.values.length = new_dict.item_capacity
  ∧ new_dict.hashes.length = new_dict.item_capacity
  ∧ new_dict.cell_ixs.length = new_dict.item_capacity
  ∧ new_dict.cells.length = new_dict.cell_capacity
  ∧ new_dict._hash_key = dict._hash_key
  ∧ new_dict._keys_equals = dict._keys_equals
  ∧ (∀ c ∈ new_dict.cells, c = VALDICT_INVALID_IX ∨ c < j)
  ∧ (∀ i, i < j →
      new_dict.keys.getD i { handle := 0 } = dict.keys.getD i { handle := 0 }
      ∧ new_dict.values.getD i { handle := 0 } = dict.values.getD i { handle := 0 }
      ∧ new_dict.hashes.getD i 0
          = (valdict_hash_key char_signed mem dict (dict.keys.getD i { handle := 0 })).1)

/-- A dictionary as `object_make_map_with_capacity(mem, 1)` sets it up (2 cells, 1 item
slot), after `valdict_set` of the number 1.0 with value 2.0. -/
def dict_one : valdict_t_ :=
  (valdict_set false gcmem_empty
    (valdict_set_equals_function
      (valdict_set_hash_function (valdict_make_with_capacity 1) collections_hash_fn.object_hash)
      collections_equals_fn.object_equals_wrapped)
    (object_make_number 0x3ff0000000000000) (object_make_number 0x4000000000000000)).2.1

/-- Memory with one map body, holding `dict_one`, at address 4096. -/
def mem_one_map : gcmem_t :=
  gcmem_empty.store 4096
    { payload := object_payload.map dict_one, gcmark := false, type := OBJECT_MAP }

/-! ## Errors (errors.h, errors.c) -/

/-- Enumeration `error_type_t`. -/
inductive error_type_t where
  | ERROR_NONE
  | ERROR_PARSING
  | ERROR_COMPILATION
  | ERROR_RUNTIME
  | ERROR_TIMEOUT
  | ERROR_ALLOCATION
  | ERROR_USER
  deriving DecidableEq, Repr

open error_type_t

/-- Structure `error_t`. -/
structure error_t where
  type : error_type_t
  message : String
  pos : src_pos_t
  traceback : Option (List traceback_item_t)
  deriving DecidableEq, Repr

/-- Structure `errors_t`: `errors` are the `count` recorded entries `errors[0 .. count)`. -/
structure errors_t where
  errors : List error_t
  deriving DecidableEq, Repr

def ERRORS_MAX_COUNT : Nat := 16
def ERROR_MESSAGE_MAX_LENGTH : Nat := 255

/-- Function `errors_get_count`. -/
def errors_get_count (errors : errors_t) : Nat := errors.errors.length

/-- Function `errors_has_errors`. -/
def errors_has_errors (errors : errors_t) : Bool := decide (errors_get_count errors > 0)

/-- The first `n` characters of a string. -/
def str_take (s : String) (n : Nat) : String := String.mk (s.data.take n)

/-- Function `errors_add_error`: the message is cut to `ERROR_MESSAGE_MAX_LENGTH - 1`
characters. -/
def errors_add_error (errors : errors_t) (type : error_type_t) (pos : src_pos_t)
    (message : String) : errors_t :=
  if errors_get_count errors ≥ ERRORS_MAX_COUNT then errors
  else
    { errors := errors.errors ++
        [{ type := type, message := str_take message (ERROR_MESSAGE_MAX_LENGTH - 1), pos := pos,
           traceback := none }] }

/-- Function `errors_add_errorf`, given the formatted text. -/
def errors_add_errorf (errors : errors_t) (type : error_type_t) (pos : src_pos_t)
    (formatted : String) : errors_t :=
  errors_add_error errors type pos (str_take formatted (ERROR_MESSAGE_MAX_LENGTH - 1))

/-- Function `errors_clear`. -/
def errors_clear (_errors : errors_t) : errors_t := { errors := [] }

/-- Function `errors_get_last_error`. -/
def errors_get_last_error (errors : errors_t) : Option error_t := errors.errors.getLast?

/-- Function `object_get_type_name`. -/
def object_get_type_name (type : object_type_t) : String :=
  match type with
  | OBJECT_NONE => "NONE"
  | OBJECT_FREED => "NONE"
  | OBJECT_NUMBER => "NUMBER"
  | OBJECT_BOOL => "BOOL"
  | OBJECT_STRING => "STRING"
  | OBJECT_NULL => "NULL"
  | OBJECT_NATIVE_FUNCTION => "NATIVE_FUNCTION"
  | OBJECT_ARRAY => "ARRAY"
  | OBJECT_MAP => "MAP"
  | OBJECT_FUNCTION => "FUNCTION"
  | OBJECT_EXTERNAL => "EXTERNAL"
  | OBJECT_ERROR => "ERROR"
  | OBJECT_ANY => "ANY"

/-! ## Frames and the virtual machine state (frame.h, vm.h) -/

/-- Enumeration `opcode_t`. -/
inductive opcode_t where
  | OPCODE_NONE | OPCODE_CONSTANT | OPCODE_ADD | OPCODE_POP | OPCODE_SUB | OPCODE_MUL
  | OPCODE_DIV | OPCODE_MOD | OPCODE_TRUE | OPCODE_FALSE | OPCODE_COMPARE | OPCODE_COMPARE_EQ
  | OPCODE_EQUAL | OPCODE_NOT_EQUAL | OPCODE_GREATER_THAN | OPCODE_GREATER_THAN_EQUAL
  | OPCODE_MINUS | OPCODE_BANG | OPCODE_JUMP | OPCODE_JUMP_IF_FALSE | OPCODE_JUMP_IF_TRUE
  | OPCODE_NULL | OPCODE_GET_MODULE_GLOBAL | OPCODE_SET_MODULE_GLOBAL
  | OPCODE_DEFINE_MODULE_GLOBAL | OPCODE_ARRAY | OPCODE_MAP_START | OPCODE_MAP_END
  | OPCODE_GET_THIS | OPCODE_GET_INDEX | OPCODE_SET_INDEX | OPCODE_GET_VALUE_AT | OPCODE_CALL
  | OPCODE_RETURN_VALUE | OPCODE_RETURN | OPCODE_GET_LOCAL | OPCODE_DEFINE_LOCAL
  | OPCODE_SET_LOCAL | OPCODE_GET_APE_GLOBAL | OPCODE_FUNCTION | OPCODE_GET_FREE
  | OPCODE_SET_FREE | OPCODE_CURRENT_FUNCTION | OPCODE_DUP | OPCODE_NUMBER | OPCODE_LEN
  | OPCODE_SET_RECOVER | OPCODE_OR | OPCODE_XOR | OPCODE_AND | OPCODE_LSHIFT | OPCODE_RSHIFT
  | OPCODE_MAX
  deriving DecidableEq, Repr

open opcode_t

/-- Structure `frame_t`; `src_positions` is `none` for `NULL`. -/
structure frame_t where
  function : object_t
  ip : Int
  base_pointer : Int
  src_positions : Option (List src_pos_t)
  bytecode : List Nat
  src_ip : Int
  bytecode_size : Int
  recover_ip : Int
  is_recovering : Bool
  deriving DecidableEq, Repr

def VM_STACK_SIZE : Int := 2048
def VM_MAX_GLOBALS : Int := 2048
def VM_MAX_FRAMES : Int := 2048
def VM_THIS_STACK_SIZE : Int := 2048

/-- Structure `vm_t` with the `gcmem_t` and `errors_t` it points to.  The arrays `stack`,
`this_stack`, `frames` and `globals` are given by index; `current_frame` is the index into
`frames` of the frame pointed to, `none` for `NULL`. -/
structure vm_t where
  mem : gcmem_t
  errors : errors_t
  globals : Int → object_t
  globals_count : Int
  stack : Int → object_t
  sp : Int
  this_stack : Int → object_t
  this_sp : Int
  frames : Int → frame_t
  frames_count : Int
  last_popped : object_t
  current_frame : Option Int
  running : Bool
  operator_oveload_keys : opcode_t → object_t

/-- A zeroed `frame_t`. -/
def frame_zero : frame_t :=
  { function := { handle := 0 }, ip := 0, base_pointer := 0, src_positions := none,
    bytecode := [], src_ip := 0, bytecode_size := 0, recover_ip := 0, is_recovering := false }

/-- The `function` member of an `object_data_t`. -/
def object_data_t.function (data : object_data_t) : function_t :=
  match data.payload with
  | object_payload.function f => f
  | _ => { free_vals := [], name := "", comp_result := { bytecode := [], src_positions := [], count := 0 },
           num_locals := 0, num_args := 0, free_vals_count := 0, owns_data := false }

/-- The `native_function` member of an `object_data_t`. -/
def object_data_t.native_function (data : object_data_t) : native_function_t :=
  match data.payload with
  | object_payload.native_function n => n
  | _ => { name := "", fn := 0, data := [], data_len := 0 }

/-- The `error` member of an `object_data_t`. -/
def object_data_t.error (data : object_data_t) : object_error_t :=
  match data.payload with
  | object_payload.error e => e
  | _ => { message := "", traceback := none }

/-- Function `object_get_function`. -/
def object_get_function (mem : gcmem_t) (object : object_t) : function_t :=
  (mem.deref (object_get_allocated_data object)).function

/-- Function `object_get_native_function`. -/
def object_get_native_function (mem : gcmem_t) (obj : object_t) : native_function_t :=
  (mem.deref (object_get_allocated_data obj)).native_function

/-- Function `object_get_function_name`. -/
def object_get_function_name (mem : gcmem_t) (obj : object_t) : String :=
  (object_get_function mem obj).name

/-- Function `frame_init`: `none` when it returns false. -/
def frame_init (mem : gcmem_t) (function_obj : object_t) (base_pointer : Int) : Option frame_t :=
  if object_get_type mem function_obj ≠ OBJECT_FUNCTION then none
  else
    let function := object_get_function mem function_obj
    some { function := function_obj, ip := 0, base_pointer := base_pointer, src_ip := 0,
           bytecode := function.comp_result.bytecode,
           src_positions := some function.comp_result.src_positions,
           bytecode_size := function.comp_result.count, recover_ip := -1,
           is_recovering := false }

/-- Function `frame_src_position`. -/
def frame_src_position (frame : frame_t) : src_pos_t :=
  match frame.src_positions with
  | some positions => positions.getD frame.src_ip.toNat src_pos_invalid
  | none => src_pos_invalid

/-- The expression `frame_src_position(vm->current_frame)`; without a current frame the
invalid position stands for the result. -/
def vm_src_position (vm : vm_t) : src_pos_t :=
  match vm.current_frame with
  | some ix => frame_src_position (vm.frames ix)
  | none => src_pos_invalid

/-- Function `set_sp`: the slots between the old and the new `sp` are zeroed. -/
def set_sp (vm : vm_t) (new_sp : Int) : vm_t :=
  if new_sp > vm.sp then
    { vm with
      stack := fun i => if vm.sp ≤ i ∧ i < new_sp then { handle := 0 } else vm.stack i
      sp := new_sp }
  else { vm with sp := new_sp }

/-- Function `stack_push`; `ape_debug` tells whether `APE_DEBUG` is defined.  This is the
state in which the call returns.  It follows the C text for `0 <= sp < VM_STACK_SIZE`;
there the assertions of the debug block are taken as compiled out.  At `sp >=
VM_STACK_SIZE` the branch for `APE_DEBUG` is that of a build with `NDEBUG`, and the
branch without it writes a slot of the unbounded `stack` of the model, where the C
function stores outside `stack[]`: `stack_push_run` below follows the call at the limit
in each build. -/
def stack_push (ape_debug : Bool) (vm : vm_t) (obj : object_t) : vm_t :=
  if ape_debug = true ∧ vm.sp ≥ VM_STACK_SIZE then
    { vm with errors := (errors_add_error vm.errors ERROR_RUNTIME (vm_src_position vm)
        "Stack overflow") }
  else
    { vm with stack := fun i => if i = vm.sp then obj else vm.stack i, sp := vm.sp + 1 }

/-- Function `stack_pop`: the popped value and the state in which the call returns.  It
follows the C text for `1 <= sp <= VM_STACK_SIZE`, with the assertions of the debug block
taken as compiled out.  At `sp = 0` the branch for `APE_DEBUG` is that of a build with
`NDEBUG`, and the branch without it reads slot -1 of the unbounded `stack` of the model,
where the C function loads from outside `stack[]`: `stack_pop_run` below follows the
call at the limit in each build. -/
def stack_pop (ape_debug : Bool) (vm : vm_t) : object_t × vm_t :=
  if ape_debug = true ∧ vm.sp = 0 then
    (object_make_null,
      { vm with errors := (errors_add_error vm.errors ERROR_RUNTIME (vm_src_position vm)
          "Stack underflow") })
  else
    let res := vm.stack (vm.sp - 1)
    (res, { vm with sp := vm.sp - 1, last_popped := res })

/-- Function `stack_get`. -/
def stack_get (ape_debug : Bool) (vm : vm_t) (nth_item : Int) : object_t × vm_t :=
  let ix := vm.sp - 1 - nth_item
  if ape_debug = true ∧ (ix < 0 ∨ ix ≥ VM_STACK_SIZE) then
    (object_make_null,
      { vm with errors := (errors_add_errorf vm.errors ERROR_RUNTIME (vm_src_position vm)
          ("Invalid stack index: " ++ toString nth_item)) })
  else (vm.stack ix, vm)

/-- Function `this_stack_push`. -/
def this_stack_push (ape_debug : Bool) (vm : vm_t) (obj : object_t) : vm_t :=
  if ape_debug = true ∧ vm.this_sp ≥ VM_THIS_STACK_SIZE then
    { vm with errors := (errors_add_error vm.errors ERROR_RUNTIME (vm_src_position vm)
        "this stack overflow") }
  else
    { vm with this_stack := fun i => if i = vm.this_sp then obj else vm.this_stack i,
              this_sp := vm.this_sp + 1 }

/-- Function `this_stack_pop`. -/
def this_stack_pop (ape_debug : Bool) (vm : vm_t) : object_t × vm_t :=
  if ape_debug = true ∧ vm.this_sp = 0 then
    (object_make_null,
      { vm with errors := (errors_add_error vm.errors ERROR_RUNTIME (vm_src_position vm)
          "this stack underflow") })
  else (vm.this_stack (vm.this_sp - 1), { vm with this_sp := vm.this_sp - 1 })

/-- Function `push_frame`. -/
def push_frame (vm : vm_t) (frame : frame_t) : Bool × vm_t :=
  if vm.frames_count ≥ VM_MAX_FRAMES then (false, vm)
  else
    let vm := { vm with
      frames := fun i => if i = vm.frames_count then frame else vm.frames i
      current_frame := some vm.frames_count
      frames_count := vm.frames_count + 1 }
    let frame_function := object_get_function vm.mem frame.function
    (true, set_sp vm (frame.base_pointer + frame_function.num_locals))

/-- Function `pop_frame`. -/
def pop_frame (vm : vm_t) : Bool × vm_t :=
  let base_pointer := match vm.current_frame with
    | some ix => (vm.frames ix).base_pointer
    | none => 0
  let vm := set_sp vm (base_pointer - 1)
  if vm.frames_count ≤ 0 then (false, { vm with current_frame := none })
  else
    let vm := { vm with frames_count := vm.frames_count - 1 }
    if vm.frames_count = 0 then (false, { vm with current_frame := none })
    else (true, { vm with current_frame := some (vm.frames_count - 1) })

/-- Function `traceback_append_from_vm`: the frames from the innermost outwards. -/
def traceback_append_from_vm (traceback : List traceback_item_t) (vm : vm_t) :
    List traceback_item_t :=
  traceback ++ ((List.range vm.frames_count.toNat).reverse.map fun i =>
    { function_name := object_get_function_name vm.mem (vm.frames i).function,
      pos := frame_src_position (vm.frames i) })

/-- Function `object_set_error_traceback`. -/
def object_set_error_traceback (mem : gcmem_t) (object : object_t)
    (traceback : List traceback_item_t) : gcmem_t :=
  if object_get_type mem object ≠ OBJECT_ERROR then mem
  else
    let p := object_get_allocated_data object
    let data := mem.deref p
    mem.store p { data with payload := object_payload.error { data.error with traceback := some traceback } }

/-- A host function behind a `native_fn` pointer: from the state, the function record and
the arguments to the returned value and the state it leaves. -/
abbrev native_call_t := vm_t → native_function_t → List object_t → object_t × vm_t

/-- Function `call_native_function`; `args` are the `argc` argument values. -/
def call_native_function (natives : native_call_t) (vm : vm_t) (callee : object_t)
    (src_pos : src_pos_t) (args : List object_t) : object_t × vm_t :=
  let native_fun := object_get_native_function vm.mem callee
  let r := natives vm native_fun args
  let res := r.1
  let vm := r.2
  if errors_has_errors vm.errors = true ∧ native_fun.name ≠ "crash" then
    let errs := vm.errors.errors
    let errs := match errs.getLast? with
      | some err =>
        errs.dropLast ++ [{ err with
          pos := src_pos
          traceback := some [{ function_name := native_fun.name, pos := src_pos_invalid }] }]
      | none => errs
    (object_make_null, { vm with errors := { errors := errs } })
  else if object_get_type vm.mem res = OBJECT_ERROR then
    let traceback : List traceback_item_t :=
      if native_fun.name ≠ "error" then
        [{ function_name := native_fun.name, pos := src_pos_invalid }]
      else []
    let traceback := traceback_append_from_vm traceback vm
    (res, { vm with mem := object_set_error_traceback vm.mem res traceback })
  else (res, vm)

/-- Function `vm_has_errors`. -/
def vm_has_errors (vm : vm_t) : Bool := decide (errors_get_count vm.errors > 0)

/-- Function `call_object`. -/
def call_object (ape_debug : Bool) (natives : native_call_t) (vm : vm_t) (callee : object_t)
    (num_args : Int) : Bool × vm_t :=
  let callee_type := object_get_type vm.mem callee
  if callee_type = OBJECT_FUNCTION then
    let callee_function := object_get_function vm.mem callee
    if num_args ≠ callee_function.num_args then
      (false, { vm with errors := (errors_add_errorf vm.errors ERROR_RUNTIME (vm_src_position vm)
        ("Invalid number of arguments to \"" ++ object_get_function_name vm.mem callee
          ++ "\", expected " ++ toString callee_function.num_args ++ ", got "
          ++ toString num_args)) })
    else
      match frame_init vm.mem callee (vm.sp - num_args) with
      | none =>
        (false, { vm with errors := (errors_add_error vm.errors ERROR_RUNTIME src_pos_invalid
          "Frame init failed in call_object") })
      | some callee_frame =>
        let r := push_frame vm callee_frame
        if r.1 then (true, r.2)
        else
          (false, { r.2 with errors := (errors_add_error r.2.errors ERROR_RUNTIME src_pos_invalid
            "Pushing frame failed in call_object") })
  else if callee_type = OBJECT_NATIVE_FUNCTION then
    let args := (List.range num_args.toNat).map fun i => vm.stack (vm.sp - num_args + i)
    let r := call_native_function natives vm callee (vm_src_position vm) args
    if vm_has_errors r.2 then (false, r.2)
    else
      let vm := set_sp r.2 (r.2.sp - num_args - 1)
      (true, stack_push ape_debug vm r.1)
  else
    (false, { vm with errors := (errors_add_errorf vm.errors ERROR_RUNTIME (vm_src_position vm)
      (object_get_type_name callee_type ++ " object is not callable")) })

/-- Function `check_assign`. -/
def check_assign (vm : vm_t) (old_value new_value : object_t) : Bool × vm_t :=
  let old_value_type := object_get_type vm.mem old_value
  let new_value_type := object_get_type vm.mem new_value
  if old_value_type = OBJECT_NULL ∨ new_value_type = OBJECT_NULL then (true, vm)
  else if old_value_type ≠ new_value_type then
    (false, { vm with errors := (errors_add_errorf vm.errors ERROR_RUNTIME (vm_src_position vm)
      ("Trying to assign variable of type " ++ object_get_type_name new_value_type ++ " to "
        ++ object_get_type_name old_value_type)) })
  else (true, vm)

/-- The tail of `try_overload_operator` once a callable `callee` is found: the operands are
pushed and the callee is called. -/
def overload_call (ape_debug : Bool) (natives : native_call_t) (vm : vm_t)
    (callee left right : object_t) (num_operands : Int) : Bool × Bool × vm_t :=
  let vm := stack_push ape_debug vm callee
  let vm := stack_push ape_debug vm left
  let vm := if num_operands = 2 then stack_push ape_debug vm right else vm
  let r := call_object ape_debug natives vm callee num_operands
  (r.1, true, r.2)

/-- Function `try_overload_operator`: the returned flag, `*out_overload_found` and the
state. -/
def try_overload_operator (char_signed ape_debug : Bool) (natives : native_call_t) (vm : vm_t)
    (left right : object_t) (op : opcode_t) : Bool × Bool × vm_t :=
  let left_type := object_get_type vm.mem left
  let right_type := object_get_type vm.mem right
  if left_type ≠ OBJECT_MAP ∧ right_type ≠ OBJECT_MAP then (true, false, vm)
  else
    let num_operands : Int := if op = OPCODE_MINUS ∨ op = OPCODE_BANG then 1 else 2
    let key := vm.operator_oveload_keys op
    let c1 : object_t × gcmem_t :=
      if left_type = OBJECT_MAP then object_get_map_value char_signed vm.mem left key
      else (object_make_null, vm.mem)
    let vm := { vm with mem := c1.2 }
    if ¬ object_is_callable vm.mem c1.1 then
      let c2 : object_t × gcmem_t :=
        if right_type = OBJECT_MAP then object_get_map_value char_signed vm.mem right key
        else (c1.1, vm.mem)
      let vm := { vm with mem := c2.2 }
      if ¬ object_is_callable vm.mem c2.1 then (true, false, vm)
      else overload_call ape_debug natives vm c2.1 left right num_operands
    else overload_call ape_debug natives vm c1.1 left right num_operands

/-! ## Instruction handlers of `vm_execute_function` (vm.c) -/

/-- Conversion `(int)x` of a double: truncation toward zero.  For a NaN and for a value
outside the range of `int` the C conversion is undefined; the value of the x86-64
conversion instruction, `INT_MIN`, stands for it. -/
def double_to_int (x : Nat) : Int :=
  if double_is_nan x ∨ double_mag x = DBL_INF then -(2 ^ 31)
  else
    let d := double_decode (double_mag x)
    let v : Nat := if 0 ≤ d.2 then d.1 * 2 ^ d.2.toNat else d.1 / 2 ^ (-d.2).toNat
    let z : Int := if double_sign x then -(v : Int) else (v : Int)
    if z < -(2 ^ 31) ∨ 2 ^ 31 ≤ z then -(2 ^ 31) else z

/-- Function `array_count`. -/
def array_count (arr : array_t_) : Nat := arr.items.length

/-- Function `array_set`. -/
def array_set (arr : array_t_) (ix : Nat) (value : object_t) : Bool × array_t_ :=
  if ix ≥ array_count arr then (false, arr)
  else (true, { arr with items := arr.items.set ix value })

/-- Function `object_get_array_length`. -/
def object_get_array_length (mem : gcmem_t) (object : object_t) : Int :=
  array_count (mem.deref (object_get_allocated_data object)).array

/-- Function `object_set_array_value_at`. -/
def object_set_array_value_at (mem : gcmem_t) (object : object_t) (ix : Int) (val : object_t) :
    Bool × gcmem_t :=
  let p := object_get_allocated_data object
  let data := mem.deref p
  let array := data.array
  if ix < 0 ∨ ix ≥ array_count array then (false, mem)
  else
    let r := array_set array ix.toNat val
    (r.1, mem.store p { data with payload := object_payload.array r.2 })

/-- The case `OPCODE_COMPARE` / `OPCODE_COMPARE_EQ`; the flag is false when control goes to
`err`. -/
def vm_op_compare (char_signed ape_debug : Bool) (natives : native_call_t) (vm : vm_t)
    (opcode : opcode_t) : Bool × vm_t :=
  let p1 := stack_pop ape_debug vm
  let right := p1.1
  let p2 := stack_pop ape_debug p1.2
  let left := p2.1
  let vm := p2.2
  let r := try_overload_operator char_signed ape_debug natives vm left right OPCODE_COMPARE
  let ok := r.1
  let is_overloaded := r.2.1
  let vm := r.2.2
  if ¬ ok then (false, vm)
  else if ¬ is_overloaded then
    let c := object_compare char_signed vm.mem left right ok
    let comparison_res := c.1
    let ok := c.2.1
    let vm := { vm with mem := c.2.2 }
    if ok = true ∨ opcode = OPCODE_COMPARE_EQ then
      (true, stack_push ape_debug vm (object_make_number comparison_res))
    else
      let right_type_string := object_get_type_name (object_get_type vm.mem right)
      let left_type_string := object_get_type_name (object_get_type vm.mem left)
      (false, { vm with errors := (errors_add_errorf vm.errors ERROR_RUNTIME (vm_src_position vm)
        ("Cannot compare " ++ left_type_string ++ " and " ++ right_type_string)) })
  else (true, vm)

/-- The loop of the case `OPCODE_MAP_END` over the pairs `kv_pairs[i], kv_pairs[i + 1]`. -/
def vm_op_map_end_loop (char_signed : Bool) (map_obj : object_t) :
    vm_t → List object_t → Bool × vm_t
  | vm, key :: val :: rest =>
    if ¬ object_is_hashable vm.mem key then
      let key_type := object_get_type vm.mem key
      let key_type_name := object_get_type_name key_type
      (false, { vm with errors := (errors_add_errorf vm.errors ERROR_RUNTIME (vm_src_position vm)
        ("Key of type " ++ key_type_name ++ " is not hashable")) })
    else
      let r := object_set_map_value char_signed vm.mem map_obj key val
      let vm := { vm with mem := r.2 }
      if ¬ r.1 then (false, vm)
      else vm_op_map_end_loop char_signed map_obj vm rest
  | vm, _ => (true, vm)

/-- The case `OPCODE_MAP_END` with its operand `kvp_count`, already read from the
bytecode. -/
def vm_op_map_end (char_signed ape_debug : Bool) (vm : vm_t) (kvp_count : Nat) : Bool × vm_t :=
  let items_count : Nat := kvp_count * 2 % 2 ^ 16
  let p := this_stack_pop ape_debug vm
  let map_obj := p.1
  let vm := p.2
  let kv_pairs := (List.range items_count).map fun i => vm.stack (vm.sp - items_count + i)
  let r := vm_op_map_end_loop char_signed map_obj vm kv_pairs
  if ¬ r.1 then r
  else
    let vm := set_sp r.2 (r.2.sp - items_count)
    (true, stack_push ape_debug vm map_obj)

/-- The case `OPCODE_SET_INDEX`. -/
def vm_op_set_index (char_signed ape_debug : Bool) (vm : vm_t) : Bool × vm_t :=
  let p1 := stack_pop ape_debug vm
  let index := p1.1
  let p2 := stack_pop ape_debug p1.2
  let left := p2.1
  let p3 := stack_pop ape_debug p2.2
  let new_value := p3.1
  let vm := p3.2
  let left_type := object_get_type vm.mem left
  let index_type := object_get_type vm.mem index
  let left_type_name := object_get_type_name left_type
  let index_type_name := object_get_type_name index_type
  if left_type ≠ OBJECT_ARRAY ∧ left_type ≠ OBJECT_MAP then
    (false, { vm with errors := (errors_add_errorf vm.errors ERROR_RUNTIME (vm_src_position vm)
      ("Type " ++ left_type_name ++ " is not indexable")) })
  else if left_type = OBJECT_ARRAY then
    if index_type ≠ OBJECT_NUMBER then
      (false, { vm with errors := (errors_add_errorf vm.errors ERROR_RUNTIME (vm_src_position vm)
        ("Cannot index " ++ left_type_name ++ " with " ++ index_type_name)) })
    else
      let ix := double_to_int (object_get_number index)
      let r := object_set_array_value_at vm.mem left ix new_value
      if ¬ r.1 then
        (false, { vm with errors := (errors_add_error vm.errors ERROR_RUNTIME (vm_src_position vm)
          "Setting array item failed (out of bounds?)") })
      else (true, { vm with mem := r.2 })
  else
    let g := object_get_map_value char_signed vm.mem left index
    let old_value := g.1
    let vm := { vm with mem := g.2 }
    let c := check_assign vm old_value new_value
    if ¬ c.1 then (false, c.2)
    else
      let s := object_set_map_value char_signed c.2.mem left index new_value
      if ¬ s.1 then (false, { c.2 with mem := s.2 })
      else (true, { c.2 with mem := s.2 })

/-! ## Allocation of object bodies (gc.c) and constructors (object.c)

`allocator_malloc` is taken to succeed.  For an `object_data_t` it returns the address
`next_addr`, which is then advanced by the size of the body. -/

/-- Size of an `object_data_t` in bytes. -/
def OBJECT_DATA_SIZE : Nat := 64

/-- Function `gcmem_alloc_object_data`: the address of the body and the memory. -/
def gcmem_alloc_object_data (mem : gcmem_t) (type : object_type_t) : Nat × gcmem_t :=
  let mem := { mem with allocations_since_sweep := mem.allocations_since_sweep + 1 }
  let r : Nat × gcmem_t :=
    if mem.data_only_pool.length > 0 then
      (mem.data_only_pool.getLastD 0, { mem with data_only_pool := mem.data_only_pool.dropLast })
    else (mem.next_addr, { mem with next_addr := mem.next_addr + OBJECT_DATA_SIZE })
  let data := r.1
  let mem := r.2.store data object_data_zero
  let mem := { mem with objects_back := mem.objects_back ++ [data] }
  let mem := { mem with objects := mem.objects ++ [data] }
  (data, mem.store data { mem.deref data with type := type })

/-- Function `get_pool_for_type`: the live entries of the pool, `none` for `NULL`. -/
def get_pool_for_type (mem : gcmem_t) (type : object_type_t) : Option (List Nat) :=
  match type with
  | OBJECT_ARRAY => some mem.pool_array
  | OBJECT_MAP => some mem.pool_map
  | OBJECT_STRING => some mem.pool_string
  | _ => none

/-- The statement `pool->count--` for the pool of `type`. -/
def pool_pop (mem : gcmem_t) (type : object_type_t) : gcmem_t :=
  match type with
  | OBJECT_ARRAY => { mem with pool_array := mem.pool_array.dropLast }
  | OBJECT_MAP => { mem with pool_map := mem.pool_map.dropLast }
  | OBJECT_STRING => { mem with pool_string := mem.pool_string.dropLast }
  | _ => mem

/-- Function `gcmem_get_object_data_from_pool`: the address, `none` for `NULL`. -/
def gcmem_get_object_data_from_pool (mem : gcmem_t) (type : object_type_t) :
    Option Nat × gcmem_t :=
  match get_pool_for_type mem type with
  | none => (none, mem)
  | some pool =>
    match pool.getLast? with
    | none => (none, mem)
    | some data =>
      let mem := { mem with objects_back := mem.objects_back ++ [data] }
      let mem := { mem with objects := mem.objects ++ [data] }
      (some data, pool_pop mem type)

def OBJECT_STRING_BUF_SIZE : Nat := 24

/-- Update of the `string` member of the body at `p`. -/
def gcmem_t.store_string (mem : gcmem_t) (p : Nat) (s : object_string_t) : gcmem_t :=
  mem.store p { mem.deref p with payload := object_payload.string s }

/-- The `string` member of a body just zeroed: the inline buffer holds 24 zero bytes. -/
def string_zero : object_string_t :=
  { value := List.replicate OBJECT_STRING_BUF_SIZE 0, hash := 0, is_allocated := false,
    capacity := 0, length := 0 }

/-- Function `object_data_string_reserve_capacity`.  A buffer that `allocator_malloc`
returns, and the inline buffer when the body switches back to it, hold zero bytes. -/
def object_data_string_reserve_capacity (mem : gcmem_t) (data : Nat) (capacity : Int) :
    Bool × gcmem_t :=
  let string := { (mem.deref data).string with length := 0, hash := 0 }
  if capacity ≤ string.capacity then (true, mem.store_string data string)
  else if capacity ≤ (OBJECT_STRING_BUF_SIZE : Int) - 1 then
    (true, mem.store_string data
      { string with
        value := (if string.is_allocated then List.replicate OBJECT_STRING_BUF_SIZE 0
                  else string.value)
        capacity := (OBJECT_STRING_BUF_SIZE : Int) - 1
        is_allocated := false })
  else
    (true, mem.store_string data
      { string with
        value := List.replicate (capacity + 1).toNat 0
        is_allocated := true
        capacity := capacity })

/-- The part of `object_make_string_with_capacity` after the body `data` is obtained: the
string is emptied and room for `capacity` bytes is reserved. -/
def object_string_prepare (mem : gcmem_t) (data : Nat) (capacity : Int) : object_t × gcmem_t :=
  let mem := mem.store_string data { (mem.deref data).string with length := 0, hash := 0 }
  if capacity > (mem.deref data).string.capacity then
    let k := object_data_string_reserve_capacity mem data capacity
    if ¬ k.1 then (object_make_null, k.2)
    else (object_make_from_data OBJECT_STRING data, k.2)
  else (object_make_from_data OBJECT_STRING data, mem)

/-- Function `object_make_string_with_capacity`. -/
def object_make_string_with_capacity (mem : gcmem_t) (capacity : Int) : object_t × gcmem_t :=
  let r := gcmem_get_object_data_from_pool mem OBJECT_STRING
  match r.1 with
  | some data => object_string_prepare r.2 data capacity
  | none =>
    let a := gcmem_alloc_object_data r.2 OBJECT_STRING
    object_string_prepare
      (a.2.store_string a.1
        { string_zero with capacity := (OBJECT_STRING_BUF_SIZE : Int) - 1, is_allocated := false })
      a.1 capacity

/-- C library `strlen` on a buffer. -/
def strlen (s : List Nat) : Nat := (s.takeWhile fun c => c ≠ 0).length

/-- Conversion `(int)n` of a `size_t`. -/
def size_to_int (n : Nat) : Int := ((n : Int) + 2 ^ 31) % 2 ^ 32 - 2 ^ 31

/-- Function `object_string_append`: `len` bytes of `src` are copied behind the current
contents and a NUL is written after them. -/
def object_string_append (mem : gcmem_t) (obj : object_t) (src : List Nat) (len : Int) :
    Bool × gcmem_t :=
  let p := object_get_allocated_data obj
  let string := (mem.deref p).string
  let current_len := string.length
  let capacity := string.capacity
  if len + current_len > capacity then (false, mem)
  else
    let value := string.value.take current_len.toNat ++ src.take len.toNat ++ [0]
      ++ string.value.drop (current_len + len + 1).toNat
    (true, mem.store_string p { string with value := value, length := current_len + len })

/-- Function `object_make_string`; `string` is the memory at the pointer. -/
def object_make_string (mem : gcmem_t) (string : List Nat) : object_t × gcmem_t :=
  let len := size_to_int (strlen string)
  let r := object_make_string_with_capacity mem len
  if object_is_null r.2 r.1 then r
  else
    let a := object_string_append r.2 r.1 string len
    if ¬ a.1 then (object_make_null, a.2) else (r.1, a.2)

/-- Update of the `array` member of the body at `p`. -/
def gcmem_t.store_array (mem : gcmem_t) (p : Nat) (a : array_t_) : gcmem_t :=
  mem.store p { mem.deref p with payload := object_payload.array a }

/-- Function `array_make_with_capacity`. -/
def array_make_with_capacity (capacity : Nat) : array_t_ :=
  { items := [], capacity := capacity, lock_capacity := false }

/-- Function `array_clear`. -/
def array_clear (arr : array_t_) : array_t_ := { arr with items := [] }

/-- Function `array_add`. -/
def array_add (arr : array_t_) (value : object_t) : Bool × array_t_ :=
  if array_count arr ≥ arr.capacity then
    if arr.lock_capacity then (false, arr)
    else
      let new_capacity := if arr.capacity > 0 then arr.capacity * 2 % 2 ^ 32 else 1
      (true, { arr with capacity := new_capacity, items := arr.items ++ [value] })
  else (true, { arr with items := arr.items ++ [value] })

/-- Function `object_make_array_with_capacity`. -/
def object_make_array_with_capacity (mem : gcmem_t) (capacity : Nat) : object_t × gcmem_t :=
  let r := gcmem_get_object_data_from_pool mem OBJECT_ARRAY
  match r.1 with
  | some data =>
    (object_make_from_data OBJECT_ARRAY data,
      r.2.store_array data (array_clear (r.2.deref data).array))
  | none =>
    let a := gcmem_alloc_object_data r.2 OBJECT_ARRAY
    (object_make_from_data OBJECT_ARRAY a.1,
      a.2.store_array a.1 (array_make_with_capacity capacity))

/-- Function `object_get_array_value_at`. -/
def object_get_array_value_at (mem : gcmem_t) (object : object_t) (ix : Int) : object_t :=
  let array := (mem.deref (object_get_allocated_data object)).array
  if ix < 0 ∨ ix ≥ array_count array then object_make_null
  else array.items.getD ix.toNat object_make_null

/-- Function `object_add_array_value`. -/
def object_add_array_value (mem : gcmem_t) (object val : object_t) : Bool × gcmem_t :=
  let p := object_get_allocated_data object
  let r := array_add (mem.deref p).array val
  (r.1, mem.store_array p r.2)

/-- Function `object_make_map_with_capacity`. -/
def object_make_map_with_capacity (mem : gcmem_t) (capacity : Nat) : object_t × gcmem_t :=
  let r := gcmem_get_object_data_from_pool mem OBJECT_MAP
  match r.1 with
  | some data =>
    (object_make_from_data OBJECT_MAP data,
      r.2.store_map data (valdict_clear (r.2.deref data).map))
  | none =>
    let a := gcmem_alloc_object_data r.2 OBJECT_MAP
    let map := valdict_make_with_capacity capacity
    let map := valdict_set_hash_function map collections_hash_fn.object_hash
    let map := valdict_set_equals_function map collections_equals_fn.object_equals_wrapped
    (object_make_from_data OBJECT_MAP a.1, a.2.store_map a.1 map)

/-- Function `object_make_map`. -/
def object_make_map (mem : gcmem_t) : object_t × gcmem_t := object_make_map_with_capacity mem 32

/-! ## Copies (object.c) -/

/-- Update of the `function` member of the body at `p`. -/
def gcmem_t.store_function (mem : gcmem_t) (p : Nat) (f : function_t) : gcmem_t :=
  mem.store p { mem.deref p with payload := object_payload.function f }

/-- Update of the `external` member of the body at `p`. -/
def gcmem_t.store_external (mem : gcmem_t) (p : Nat) (x : external_data_t) : gcmem_t :=
  mem.store p { mem.deref p with payload := object_payload.external x }

/-- The `external` member of an `object_data_t`. -/
def object_data_t.external (data : object_data_t) : external_data_t :=
  match data.payload with
  | object_payload.external x => x
  | _ => { data := 0, data_destroy_fn := 0, data_copy_fn := 0 }

/-- Function `freevals_are_allocated`. -/
def freevals_are_allocated (function : function_t) : Bool := decide (function.free_vals_count ≥ 2)

/-- Function `object_make_function` with a name given; the block for the free values, when
one is allocated, holds zero words. -/
def object_make_function (mem : gcmem_t) (name : String) (comp_res : compilation_result_t)
    (owns_data : Bool) (num_locals num_args free_vals_count : Int) : object_t × gcmem_t :=
  let a := gcmem_alloc_object_data mem OBJECT_FUNCTION
  let free_vals : List object_t :=
    if free_vals_count ≥ 2 then List.replicate free_vals_count.toNat { handle := 0 }
    else [{ handle := 0 }, { handle := 0 }]
  (object_make_from_data OBJECT_FUNCTION a.1,
    a.2.store_function a.1
      { free_vals := free_vals, name := name, comp_result := comp_res, num_locals := num_locals,
        num_args := num_args, free_vals_count := free_vals_count, owns_data := owns_data })

/-- Function `object_get_function_free_val`. -/
def object_get_function_free_val (mem : gcmem_t) (obj : object_t) (ix : Int) : object_t :=
  let function := object_get_function mem obj
  if ix < 0 ∨ ix ≥ function.free_vals_count then object_make_null
  else function.free_vals.getD ix.toNat { handle := 0 }

/-- Function `object_set_function_free_val`. -/
def object_set_function_free_val (mem : gcmem_t) (obj : object_t) (ix : Int) (val : object_t) :
    gcmem_t :=
  let p := object_get_allocated_data obj
  let function := object_get_function mem obj
  if ix < 0 ∨ ix ≥ function.free_vals_count then mem
  else mem.store_function p { function with free_vals := function.free_vals.set ix.toNat val }

/-- Function `object_make_external`. -/
def object_make_external (mem : gcmem_t) (data : Nat) : object_t × gcmem_t :=
  let a := gcmem_alloc_object_data mem OBJECT_EXTERNAL
  (object_make_from_data OBJECT_EXTERNAL a.1,
    a.2.store_external a.1 { data := data, data_destroy_fn := 0, data_copy_fn := 0 })

/-- A host callback `external_data_copy_fn`: from the callback and the data to the copy. -/
abbrev external_copy_t := Nat → Nat → Nat

/-- The loop of `object_copy` over the items of an array. -/
def object_copy_array_loop (obj copy : object_t) : Nat → Int → gcmem_t → object_t × gcmem_t
  | 0, _, mem => (copy, mem)
  | n + 1, i, mem =>
    let item := object_get_array_value_at mem obj i
    let r := object_add_array_value mem copy item
    if ¬ r.1 then (object_make_null, r.2)
    else object_copy_array_loop obj copy n (i + 1) r.2

/-- The loop of `object_copy` over the entries of a map; the first argument bounds the
number of rounds. -/
def object_copy_map_loop (char_signed : Bool) (obj copy : object_t) :
    Nat → Nat → gcmem_t → Option (object_t × gcmem_t)
  | 0, _, _ => none
  | n + 1, i, mem =>
    if i < object_get_map_length mem obj then
      let key := object_get_map_key_at mem obj i
      let val := object_get_map_value_at mem obj i
      let r := object_set_map_value char_signed mem copy key val
      if ¬ r.1 then some (object_make_null, r.2)
      else object_copy_map_loop char_signed obj copy n (i + 1) r.2
    else some (copy, mem)

/-- Function `object_copy`; `none` when `fuel` rounds do not finish the loop over a map. -/
def object_copy (char_signed : Bool) (host_copy : external_copy_t) (fuel : Nat) (mem : gcmem_t)
    (obj : object_t) : Option (object_t × gcmem_t) :=
  match object_get_type mem obj with
  | OBJECT_ANY | OBJECT_FREED | OBJECT_NONE => some (object_make_null, mem)
  | OBJECT_NUMBER | OBJECT_BOOL | OBJECT_NULL | OBJECT_FUNCTION | OBJECT_NATIVE_FUNCTION
  | OBJECT_ERROR => some (obj, mem)
  | OBJECT_STRING => some (object_make_string mem (object_get_string mem obj))
  | OBJECT_ARRAY =>
    let len := object_get_array_length mem obj
    let r := object_make_array_with_capacity mem len.toNat
    if object_is_null r.2 r.1 then some (object_make_null, r.2)
    else some (object_copy_array_loop obj r.1 len.toNat 0 r.2)
  | OBJECT_MAP =>
    let r := object_make_map mem
    object_copy_map_loop char_signed obj r.1 fuel 0 r.2
  | OBJECT_EXTERNAL =>
    let r := object_make_external mem 0
    if object_is_null r.2 r.1 then some (object_make_null, r.2)
    else
      let external := (r.2.deref (object_get_allocated_data obj)).external
      let data_copy :=
        if external.data_copy_fn ≠ 0 then host_copy external.data_copy_fn external.data
        else external.data
      let p := object_get_allocated_data r.1
      some (r.1, r.2.store_external p
        { data := data_copy, data_destroy_fn := external.data_destroy_fn,
          data_copy_fn := external.data_copy_fn })

/-- The result of `object_deep_copy_internal`: the copy, the memory and the dictionary
`copies`. -/
abbrev deep_copy_result := object_t × gcmem_t × valdict_t_

/-- The loop of `object_deep_copy_internal` over the free values of a function; `rec` is
the recursive call and the first argument bounds the number of rounds. -/
def deep_copy_free_vals_loop (rec : gcmem_t → object_t → valdict_t_ → Option deep_copy_result)
    (obj copy : object_t) : Nat → Int → gcmem_t → valdict_t_ → Option deep_copy_result
  | 0, _, _, _ => none
  | n + 1, i, mem, copies =>
    if i < (object_get_function mem obj).free_vals_count then
      let free_val := object_get_function_free_val mem obj i
      match rec mem free_val copies with
      | none => none
      | some (free_val_copy, mem, copies) =>
        if ¬ object_is_null mem free_val ∧ object_is_null mem free_val_copy then
          some (object_make_null, mem, copies)
        else
          deep_copy_free_vals_loop rec obj copy n (i + 1)
            (object_set_function_free_val mem copy i free_val_copy) copies
    else some (copy, mem, copies)

/-- The loop of `object_deep_copy_internal` over the `len` items of an array. -/
def deep_copy_array_loop (rec : gcmem_t → object_t → valdict_t_ → Option deep_copy_result)
    (obj copy : object_t) : Nat → Int → gcmem_t → valdict_t_ → Option deep_copy_result
  | 0, _, mem, copies => some (copy, mem, copies)
  | n + 1, i, mem, copies =>
    let item := object_get_array_value_at mem obj i
    match rec mem item copies with
    | none => none
    | some (item_copy, mem, copies) =>
      if ¬ object_is_null mem item ∧ object_is_null mem item_copy then
        some (object_make_null, mem, copies)
      else
        let r := object_add_array_value mem copy item_copy
        if ¬ r.1 then some (object_make_null, r.2, copies)
        else deep_copy_array_loop rec obj copy n (i + 1) r.2 copies

/-- The loop of `object_deep_copy_internal` over the entries of a map; the first argument
bounds the number of rounds. -/
def deep_copy_map_loop (char_signed : Bool)
    (rec : gcmem_t → object_t → valdict_t_ → Option deep_copy_result)
    (obj copy : object_t) : Nat → Nat → gcmem_t → valdict_t_ → Option deep_copy_result
  | 0, _, _, _ => none
  | n + 1, i, mem, copies =>
    if i < object_get_map_length mem obj then
      let key := object_get_map_key_at mem obj i
      let val := object_get_map_value_at mem obj i
      match rec mem key copies with
      | none => none
      | some (key_copy, mem, copies) =>
        if ¬ object_is_null mem key ∧ object_is_null mem key_copy then
          some (object_make_null, mem, copies)
        else
          match rec mem val copies with
          | none => none
          | some (val_copy, mem, copies) =>
            if ¬ object_is_null mem val ∧ object_is_null mem val_copy then
              some (object_make_null, mem, copies)
            else
              let r := object_set_map_value char_signed mem copy key_copy val_copy
              if ¬ r.1 then some (object_make_null, r.2, copies)
              else deep_copy_map_loop char_signed rec obj copy n (i + 1) r.2 copies
    else some (copy, mem, copies)

/-- Function `object_deep_copy_internal`.  The first argument bounds the depth of the
recursion and the number of rounds of each loop; `none` when it is used up. -/
def object_deep_copy_internal (char_signed : Bool) (host_copy : external_copy_t) :
    Nat → gcmem_t → object_t → valdict_t_ → Option deep_copy_result
  | 0, _, _, _ => none
  | fuel + 1, mem, obj, copies =>
    let g := valdict_get char_signed mem copies obj
    match g.1 with
    | some copy => some (copy, g.2, copies)
    | none =>
      let mem := g.2
      match object_get_type mem obj with
      | OBJECT_FREED | OBJECT_ANY | OBJECT_NONE => some (object_make_null, mem, copies)
      | OBJECT_NUMBER | OBJECT_BOOL | OBJECT_NULL | OBJECT_NATIVE_FUNCTION =>
        some (obj, mem, copies)
      | OBJECT_STRING =>
        let r := object_make_string mem (object_get_string mem obj)
        some (r.1, r.2, copies)
      | OBJECT_FUNCTION =>
        let function := object_get_function mem obj
        let count := function.comp_result.count
        let comp_res_copy : compilation_result_t :=
          { bytecode := function.comp_result.bytecode.take count,
            src_positions := function.comp_result.src_positions.take count,
            count := count }
        let r := object_make_function mem (object_get_function_name mem obj) comp_res_copy true
          function.num_locals function.num_args 0
        if object_is_null r.2 r.1 then some (object_make_null, r.2, copies)
        else
          let copy := r.1
          let s := valdict_set char_signed r.2 copies obj copy
          if ¬ s.1 then some (object_make_null, s.2.2, s.2.1)
          else
            let mem := s.2.2
            let copies := s.2.1
            let p := object_get_allocated_data copy
            let function := object_get_function mem obj
            let function_copy := object_get_function mem copy
            let function_copy :=
              if freevals_are_allocated function then
                { function_copy with
                  free_vals := List.replicate function.free_vals_count.toNat { handle := 0 } }
              else function_copy
            let function_copy := { function_copy with free_vals_count := function.free_vals_count }
            let mem := mem.store_function p function_copy
            deep_copy_free_vals_loop (object_deep_copy_internal char_signed host_copy fuel)
              obj copy fuel 0 mem copies
      | OBJECT_ARRAY =>
        let len := object_get_array_length mem obj
        let r := object_make_array_with_capacity mem len.toNat
        if object_is_null r.2 r.1 then some (object_make_null, r.2, copies)
        else
          let copy := r.1
          let s := valdict_set char_signed r.2 copies obj copy
          if ¬ s.1 then some (object_make_null, s.2.2, s.2.1)
          else
            deep_copy_array_loop (object_deep_copy_internal char_signed host_copy fuel)
              obj copy len.toNat 0 s.2.2 s.2.1
      | OBJECT_MAP =>
        let r := object_make_map mem
        if object_is_null r.2 r.1 then some (object_make_null, r.2, copies)
        else
          let copy := r.1
          let s := valdict_set char_signed r.2 copies obj copy
          if ¬ s.1 then some (object_make_null, s.2.2, s.2.1)
          else
            deep_copy_map_loop char_signed
              (object_deep_copy_internal char_signed host_copy fuel) obj copy fuel 0 s.2.2 s.2.1
      | OBJECT_EXTERNAL =>
        match object_copy char_signed host_copy fuel mem obj with
        | none => none
        | some r => some (r.1, r.2, copies)
      | OBJECT_ERROR => some (obj, mem, copies)

/-- Function `object_deep_copy`: the copy and the memory; `none` when `fuel` is used up. -/
def object_deep_copy (char_signed : Bool) (host_copy : external_copy_t) (fuel : Nat)
    (mem : gcmem_t) (obj : object_t) : Option (object_t × gcmem_t) :=
  let copies := valdict_make_
  match object_deep_copy_internal char_signed host_copy fuel mem obj copies with
  | none => none
  | some res => some (res.1, res.2.1)

/-! ## Heap predicates -/

/-- The body at address `p` is in use: it was handed out by `allocator_malloc` and waits in
no pool for reuse. -/
def heap_live (mem : gcmem_t) (p : Nat) : Prop :=
  p < mem.next_addr ∧ p ∉ mem.data_only_pool ∧ p ∉ mem.pool_array ∧ p ∉ mem.pool_map
    ∧ p ∉ mem.pool_string

/-- Addresses fit the 48 bits of a handle, and the pools hold bodies handed out before. -/
def heap_wf (mem : gcmem_t) : Prop :=
  mem.next_addr + OBJECT_DATA_SIZE ≤ 2 ^ 48
  ∧ (∀ q ∈ mem.data_only_pool, q < mem.next_addr)
  ∧ (∀ q ∈ mem.pool_array, q < mem.next_addr)
  ∧ (∀ q ∈ mem.pool_map, q < mem.next_addr)
  ∧ (∀ q ∈ mem.pool_string, q < mem.next_addr)

/-- The memory `mem2` comes from `mem` by writes to bodies at addresses in `F` that keep
the type of every body; the allocator state is the same. -/
def mem_frame (F : Nat → Prop) (mem mem2 : gcmem_t) : Prop :=
  mem2 = { mem with data := mem2.data }
  ∧ (∀ q, (mem2.deref q).type = (mem.deref q).type)
  ∧ (∀ q, ¬ F q → mem2.deref q = mem.deref q)

/-- The memory `mem2` extends `mem`: every body in use stays in use and keeps its type. -/
def heap_le (mem mem2 : gcmem_t) : Prop :=
  ∀ q, heap_live mem q → heap_live mem2 q ∧ (mem2.deref q).type = (mem.deref q).type

/-- Every String among the keys of `d` has its body at an address in `F`. -/
def keys_in (F : Nat → Prop) (mem : gcmem_t) (d : valdict_t_) : Prop :=
  ∀ k ∈ d.keys, object_get_type mem k = OBJECT_STRING → F (object_get_allocated_data k)

/-- What an allocation leaves of the heap: the body at `p`, which was not in use, is handed
out; every body in use stays in use and unchanged. -/
def alloc_step (mem mem2 : gcmem_t) (p : Nat) : Prop :=
  ¬ heap_live mem p
  ∧ (heap_wf mem → p < 2 ^ 48)
  ∧ (∀ q, heap_live mem q → heap_live mem2 q)
  ∧ (∀ q, q ≠ p → mem2.deref q = mem.deref q)


/-- The bodies that wait in the string pool are String bodies whose buffer has room for
`capacity` bytes and the NUL, with at least the inline capacity. -/
def string_pool_wf (mem : gcmem_t) : Prop :=
  ∀ q ∈ mem.pool_string, (mem.deref q).type = OBJECT_STRING
    ∧ ∃ s, (mem.deref q).payload = object_payload.string s
      ∧ (OBJECT_STRING_BUF_SIZE : Int) - 1 ≤ s.capacity
      ∧ s.value.length = (s.capacity + 1).toNat

/-- The property of a recursive call that the loops pass on: the memory it returns extends
the memory it was given. -/
def rec_le (rec : gcmem_t → object_t → valdict_t_ → Option deep_copy_result) : Prop :=
  ∀ mem obj copies res, rec mem obj copies = some res → heap_le mem res.2.1


/-! ## The dictionary `copies` of `object_deep_copy`

`valdict_make` installs no hash and no equality function, so `copies` hashes the 8 bytes
of a key with `collections_hash` and compares keys with `memcmp`.  The probe loop of such a
dictionary does not touch the memory; `probe_loop` is that loop without the memory. -/

/-- `memcmp` of two 8-byte keys gives 0. -/
def key_eq (a b : object_t) : Bool := decide (a.handle % 2 ^ 64 = b.handle % 2 ^ 64)

/-- The cell that the probe loop looks at in round `t`. -/
def probe_pos (d : valdict_t_) (cell_ix t : Nat) : Nat :=
  ((cell_ix + t) % 2 ^ 32) &&& u32_pred d.cell_capacity

/-- The item in slot `c` has the hash `hash` and a key equal to `k`. -/
def probe_match (d : valdict_t_) (k : object_t) (hash c : Nat) : Prop :=
  hash = d.hashes.getD c 0 ∧ key_eq k (d.keys.getD c { handle := 0 }) = true

instance (d : valdict_t_) (k : object_t) (hash c : Nat) : Decidable (probe_match d k hash c) := by
  unfold probe_match
  exact inferInstance

/-- The loop of `valdict_get_cell_ix` for a dictionary without an equality function. -/
def probe_loop (d : valdict_t_) (k : object_t) (hash cell_ix : Nat) : Nat → Nat → Nat × Bool
  | 0, _ => (VALDICT_INVALID_IX, false)
  | n + 1, i =>
    let ix := probe_pos d cell_ix i
    let cell := d.cells.getD ix VALDICT_INVALID_IX
    if cell = VALDICT_INVALID_IX then (ix, false)
    else if probe_match d k hash cell then (ix, true)
    else probe_loop d k hash cell_ix n (i + 1)

/-- The rounds `i ≤ s < t` of the probe loop all see a used cell whose item does not
match. -/
def probe_skips (d : valdict_t_) (k : object_t) (hash cell_ix i t : Nat) : Prop :=
  ∀ s, i ≤ s → s < t →
    d.cells.getD (probe_pos d cell_ix s) VALDICT_INVALID_IX ≠ VALDICT_INVALID_IX
    ∧ ¬ probe_match d k hash (d.cells.getD (probe_pos d cell_ix s) VALDICT_INVALID_IX)

/-- The slot in which a dictionary without functions finds `k`. -/
def memo_find (d : valdict_t_) (k : object_t) : Option Nat :=
  let hash := collections_hash k
  let r := probe_loop d k hash ((hash &&& u32_pred d.cell_capacity) % 2 ^ 32) d.cell_capacity 0
  if r.2 then some (d.cells.getD r.1 VALDICT_INVALID_IX) else none

/-- Representation invariant of the dictionary `copies`. -/
structure memo_wf (d : valdict_t_) : Prop where
  no_hash : d._hash_key = none
  no_equals : d._keys_equals = none
  keys_len : d.keys.length = d.item_capacity
  values_len : d.values.length = d.item_capacity
  hashes_len : d.hashes.length = d.item_capacity
  cell_ixs_len : d.cell_ixs.length = d.item_capacity
  cells_len : d.cells.length = d.cell_capacity
  cap_pow : ∃ e, d.cell_capacity = 2 ^ e ∧ e ≤ 30
  item_cap : d.item_capacity = d.cell_capacity * 11744051 / 16777216
  count_le : d.count ≤ d.item_capacity
  handles : ∀ j, j < d.count → (d.keys.getD j { handle := 0 }).handle < 2 ^ 64
  cells_ok : ∀ c ∈ d.cells, c = VALDICT_INVALID_IX ∨ c < d.count
  empty_count : d.cells.count VALDICT_INVALID_IX + d.count = d.cell_capacity
  hashes_ok : ∀ j, j < d.count →
    d.hashes.getD j 0 = collections_hash (d.keys.getD j { handle := 0 })
  find_ok : ∀ j, j < d.count → memo_find d (d.keys.getD j { handle := 0 }) = some j
  distinct : ∀ i j, i < j → j < d.count →
    d.keys.getD i { handle := 0 } ≠ d.keys.getD j { handle := 0 }

/-- The item that `valdict_set` appends to `d` for a key not found. -/
def memo_push (d : valdict_t_) (k v : object_t) : valdict_t_ :=
  valdict_append d
    (probe_loop d k (collections_hash k)
      ((collections_hash k &&& u32_pred d.cell_capacity) % 2 ^ 32) d.cell_capacity 0).1
    k v (collections_hash k)

/-! ## Example states -/

/-- An array body holding `items`. -/
def mk_array_data (items : List object_t) : object_data_t :=
  { payload := object_payload.array { items := items, capacity := items.length,
                                      lock_capacity := false },
    gcmark := false, type := OBJECT_ARRAY }

/-- A map body as `object_make_map_with_capacity` sets it up: no items, the functions
`object_hash` and `object_equals_wrapped` installed. -/
def mk_map_data (capacity : Nat) : object_data_t :=
  { payload := object_payload.map
      (valdict_set_equals_function
        (valdict_set_hash_function (valdict_make_with_capacity capacity)
          collections_hash_fn.object_hash)
        collections_equals_fn.object_equals_wrapped),
    gcmark := false, type := OBJECT_MAP }

def example_key : object_t := object_make_from_data OBJECT_STRING 4096
def example_string : object_t := object_make_from_data OBJECT_STRING 4160
def example_array : object_t := object_make_from_data OBJECT_ARRAY 4224
def example_map : object_t := object_make_from_data OBJECT_MAP 4288
def example_pair : object_t := object_make_from_data OBJECT_ARRAY 4352

/-- Memory with five bodies in use and empty pools: the string "__cmp__" at 4096, the
string "a" at 4160, an empty array at 4224, an empty map at 4288 and the array
`[1.0, "a"]` at 4352; the next body is allocated at 4416. -/
def mem_example : gcmem_t :=
  { ((((gcmem_empty.store 4096 (mk_string_data [95, 95, 99, 109, 112, 95, 95] 0)).store 4160
      (mk_string_data [97] 0)).store 4224 (mk_array_data [])).store 4288
      (mk_map_data 32)).store 4352
      (mk_array_data [object_make_number 0x3ff0000000000000, example_string]) with
    next_addr := 4416 }

/-- A host without copy callbacks: the data pointer is handed on. -/
def host_copy_none : external_copy_t := fun _ data => data

/-- A host that provides no native function: every call returns null. -/
def natives_none : native_call_t := fun vm _ _ => (object_make_null, vm)

/-- A machine over `mem_example` in its one frame, with `stack` as the value stack and
`this_stack` as the stack of maps under construction (tops last), no error recorded, and
"__cmp__" as the overload key of COMPARE. -/
def vm_example_this (stack this_stack : List object_t) : vm_t :=
  { mem := mem_example
    errors := { errors := [] }
    globals := fun _ => { handle := 0 }
    globals_count := 0
    stack := fun i => if 0 ≤ i then stack.getD i.toNat { handle := 0 } else { handle := 0 }
    sp := stack.length
    this_stack := fun i =>
      if 0 ≤ i then this_stack.getD i.toNat { handle := 0 } else { handle := 0 }
    this_sp := this_stack.length
    frames := fun _ => frame_zero
    frames_count := 1
    last_popped := object_make_null
    current_frame := some 0
    running := true
    operator_oveload_keys := fun op =>
      if op = OPCODE_COMPARE then example_key else object_make_null }

/-- The machine `vm_example_this` with no map under construction. -/
def vm_example (stack : List object_t) : vm_t := vm_example_this stack []

/-! ## Operations on a String body (object.c) -/

/-- Function `object_set_string_length`. -/
def object_set_string_length (mem : gcmem_t) (object : object_t) (len : Int) : gcmem_t :=
  let p := object_get_allocated_data object
  mem.store_string p { (mem.deref p).string with length := len }

/-- Spec: the invariant of the cached hash in the words of the specification, the bytes
of a string being the first `length` bytes of its buffer: the cached hash is 0 or djb2
of the bytes. -/
def hash_cache_spec (s : object_string_t) : Prop :=
  s.hash = 0 ∨ s.hash = djb2 (string_bytes s)

/-- The invariant of the cached hash with the value `object_get_string_hash` caches where
djb2 of the bytes is 0: the cached hash is 0, or djb2 of the bytes, or 1 where djb2 of
the bytes is 0. -/
def hash_cache_ok (s : object_string_t) : Prop :=
  s.hash = 0 ∨ s.hash = (if djb2 (string_bytes s) = 0 then 1 else djb2 (string_bytes s))

/-- The operations that work on an existing String. -/
inductive string_op where
  | append (src : List Nat) (len : Int)
  | set_length (len : Int)
  | get_hash
  deriving DecidableEq, Repr

/-- The operation is `object_get_string_hash`. -/
def string_op.is_hash : string_op → Bool
  | string_op.get_hash => true
  | _ => false

/-- The operation is `object_string_append`. -/
def string_op.is_append : string_op → Bool
  | string_op.append _ _ => true
  | _ => false

/-- One operation on the String `obj`. -/
def string_op.apply (char_signed : Bool) (obj : object_t) (op : string_op) (mem : gcmem_t) :
    gcmem_t :=
  match op with
  | string_op.append src len => (object_string_append mem obj src len).2
  | string_op.set_length len => object_set_string_length mem obj len
  | string_op.get_hash => (object_get_string_hash char_signed mem obj).2

/-- The operations `ops` on the String `obj`, first to last. -/
def string_ops_apply (char_signed : Bool) (obj : object_t) (ops : List string_op)
    (mem : gcmem_t) : gcmem_t :=
  ops.foldl (fun m op => op.apply char_signed obj m) mem

/-! ## The list of values exempt from collection (gc.c, collections.c)

`objects_not_gced` is an `array(object_t)`: `count` items of 8 bytes in a block whose first
item is at the address `data`.  `array_get_index` compares the address of each slot with
the pointer it is given. -/

/-- Size of an `object_t` in bytes, the `element_size` of `objects_not_gced`. -/
def OBJECT_SIZE : Nat := 8

/-- Function `array_get_const` as far as the pointer goes: the address of slot `ix`,
`none` for `NULL`. -/
def array_get_const_ptr (data count ix : Nat) : Option Nat :=
  if ix ≥ count then none else some (data + ix * OBJECT_SIZE)

/-- The loop of `array_get_index`: `n` rounds left at counter `i`. -/
def array_get_index_loop (data count ptr : Nat) : Nat → Nat → Int
  | 0, _ => -1
  | n + 1, i =>
    if array_get_const_ptr data count i = some ptr then (i : Int)
    else array_get_index_loop data count ptr n (i + 1)

/-- Function `array_get_index` on an array whose items are at `data`. -/
def array_get_index (data count ptr : Nat) : Int :=
  array_get_index_loop data count ptr count 0

/-- Function `array_contains`. -/
def array_contains (data count ptr : Nat) : Bool :=
  decide (array_get_index data count ptr ≥ 0)

/-- Function `array_remove_at` on the items: all three branches leave the items without
the one at `ix`. -/
def array_remove_at (items : List object_t) (ix : Nat) : Bool × List object_t :=
  if ix ≥ items.length then (false, items) else (true, items.eraseIdx ix)

/-- Function `array_remove_item`. -/
def array_remove_item (items : List object_t) (data ptr : Nat) : Bool × List object_t :=
  let ix := array_get_index data items.length ptr
  if ix < 0 then (false, items) else array_remove_at items ix.toNat

/-- Function `gc_disable_on_object`.  `items_addr` is the address of the items of
`objects_not_gced`, `obj_addr` the address of the parameter `obj`; `array_add` is taken
to succeed. -/
def gc_disable_on_object (mem : gcmem_t) (items_addr obj_addr : Nat) (obj : object_t) :
    Bool × gcmem_t :=
  if ¬ object_is_allocated obj then (false, mem)
  else if array_contains items_addr mem.objects_not_gced.length obj_addr then (false, mem)
  else (true, { mem with objects_not_gced := mem.objects_not_gced ++ [obj] })

/-- Function `gc_enable_on_object`. -/
def gc_enable_on_object (mem : gcmem_t) (items_addr obj_addr : Nat) (obj : object_t) : gcmem_t :=
  if ¬ object_is_allocated obj then mem
  else
    { mem with
      objects_not_gced := (array_remove_item mem.objects_not_gced items_addr obj_addr).2 }

/-! ## Garbage collection (gc.c, vm.c)

`gc_mark_object` is recursive; its first argument bounds the depth of the recursion and
the number of rounds of the loop over the free values of a function (whose bound is read
again in every round).  `none` when that is used up. -/

/-- Macro `GCMEM_POOL_SIZE`. -/
def GCMEM_POOL_SIZE : Nat := 2048

/-- Function `gc_unmark_all`. -/
def gc_unmark_all (mem : gcmem_t) : gcmem_t :=
  mem.objects.foldl (fun m p => m.store p { m.deref p with gcmark := false }) mem

/-- The test `object_is_allocated(val) && !val_data->gcmark` of the loops in
`gc_mark_object`. -/
def gc_unmarked (mem : gcmem_t) (val : object_t) : Bool :=
  object_is_allocated val && !(mem.deref (object_get_allocated_data val)).gcmark

/-- The loop of `gc_mark_object` over the `len` entries of a map: `n` rounds left at
counter `i`; `rec` is the recursive call. -/
def gc_mark_map_loop (rec : gcmem_t → object_t → Option gcmem_t) (obj : object_t) :
    Nat → Nat → gcmem_t → Option gcmem_t
  | 0, _, mem => some mem
  | n + 1, i, mem =>
    let key := object_get_map_key_at mem obj i
    match (if gc_unmarked mem key then rec mem key else some mem) with
    | none => none
    | some mem =>
      let val := object_get_map_value_at mem obj i
      match (if gc_unmarked mem val then rec mem val else some mem) with
      | none => none
      | some mem => gc_mark_map_loop rec obj n (i + 1) mem

/-- The loop of `gc_mark_object` over the `len` items of an array. -/
def gc_mark_array_loop (rec : gcmem_t → object_t → Option gcmem_t) (obj : object_t) :
    Nat → Int → gcmem_t → Option gcmem_t
  | 0, _, mem => some mem
  | n + 1, i, mem =>
    let val := object_get_array_value_at mem obj i
    match (if gc_unmarked mem val then rec mem val else some mem) with
    | none => none
    | some mem => gc_mark_array_loop rec obj n (i + 1) mem

/-- The loop of `gc_mark_object` over the free values of a function; the first argument
bounds the number of rounds. -/
def gc_mark_free_vals_loop (rec : gcmem_t → object_t → Option gcmem_t) (obj : object_t) :
    Nat → Int → gcmem_t → Option gcmem_t
  | 0, _, _ => none
  | n + 1, i, mem =>
    if i < (object_get_function mem obj).free_vals_count then
      let free_val := object_get_function_free_val mem obj i
      match rec mem free_val with
      | none => none
      | some mem =>
        match (if gc_unmarked mem free_val then rec mem free_val else some mem) with
        | none => none
        | some mem => gc_mark_free_vals_loop rec obj n (i + 1) mem
    else some mem

/-- Function `gc_mark_object`. -/
def gc_mark_object : Nat → gcmem_t → object_t → Option gcmem_t
  | 0, _, _ => none
  | fuel + 1, mem, obj =>
    if ¬ object_is_allocated obj then some mem
    else
      let p := object_get_allocated_data obj
      let data := mem.deref p
      if data.gcmark then some mem
      else
        let mem := mem.store p { data with gcmark := true }
        match data.type with
        | OBJECT_MAP =>
          gc_mark_map_loop (gc_mark_object fuel) obj (object_get_map_length mem obj) 0 mem
        | OBJECT_ARRAY =>
          gc_mark_array_loop (gc_mark_object fuel) obj (object_get_array_length mem obj).toNat
            0 mem
        | OBJECT_FUNCTION => gc_mark_free_vals_loop (gc_mark_object fuel) obj fuel 0 mem
        | _ => some mem

/-- Function `gc_mark_objects` on the `count` values `objects`. -/
def gc_mark_objects (fuel : Nat) : List object_t → gcmem_t → Option gcmem_t
  | [], mem => some mem
  | obj :: rest, mem =>
    match gc_mark_object fuel mem obj with
    | none => none
    | some mem => gc_mark_objects fuel rest mem

/-- Function `can_data_be_put_in_pool` for the body at `p`. -/
def can_data_be_put_in_pool (mem : gcmem_t) (p : Nat) : Bool :=
  let data := mem.deref p
  let obj := object_make_from_data data.type p
  let small : Bool :=
    match data.type with
    | OBJECT_ARRAY => decide (¬ object_get_array_length mem obj > 1024)
    | OBJECT_MAP => decide (¬ object_get_map_length mem obj > 1024)
    | OBJECT_STRING => decide (¬ (¬ data.string.is_allocated ∨ data.string.capacity > 4096))
    | _ => true
  if ¬ small then false
  else
    match get_pool_for_type mem data.type with
    | none => false
    | some pool => decide (¬ pool.length ≥ GCMEM_POOL_SIZE)

/-- The statements `pool->data[pool->count] = data; pool->count++` for the pool of `type`. -/
def pool_put (mem : gcmem_t) (type : object_type_t) (p : Nat) : gcmem_t :=
  match type with
  | OBJECT_ARRAY => { mem with pool_array := mem.pool_array ++ [p] }
  | OBJECT_MAP => { mem with pool_map := mem.pool_map ++ [p] }
  | OBJECT_STRING => { mem with pool_string := mem.pool_string ++ [p] }
  | _ => mem

/-- Function `object_data_deinit`: what the members point to is freed, which leaves no
member to read, and the type becomes `OBJECT_FREED`. -/
def object_data_deinit (data : object_data_t) : object_data_t :=
  match data.type with
  | OBJECT_FREED => data
  | _ => { data with payload := object_payload.zeroed, type := OBJECT_FREED }

/-- Function `allocator_free` on an `object_data_t`. -/
def gcmem_t.free (mem : gcmem_t) (p : Nat) : gcmem_t :=
  { mem with data := fun q => if q = p then none else mem.data q }

/-- One round of the loop of `gc_sweep`, for the body at `p`. -/
def gc_sweep_step (mem : gcmem_t) (p : Nat) : gcmem_t :=
  let data := mem.deref p
  if data.gcmark then { mem with objects_back := mem.objects_back ++ [p] }
  else if can_data_be_put_in_pool mem p then pool_put mem data.type p
  else
    let mem := mem.store p (object_data_deinit data)
    if mem.data_only_pool.length < GCMEM_POOL_SIZE then
      { mem with data_only_pool := mem.data_only_pool ++ [p] }
    else mem.free p

/-- Function `gc_sweep`. -/
def gc_sweep (fuel : Nat) (mem : gcmem_t) : Option gcmem_t :=
  match gc_mark_objects fuel mem.objects_not_gced mem with
  | none => none
  | some mem =>
    let mem := { mem with objects_back := [] }
    let mem := mem.objects.foldl gc_sweep_step mem
    some { mem with objects := mem.objects_back, objects_back := mem.objects,
                    allocations_since_sweep := 0 }

/-- The opcodes below `OPCODE_MAX`, in the order of the enumeration: the indices of
`operator_oveload_keys`. -/
def opcode_all : List opcode_t :=
  [OPCODE_NONE, OPCODE_CONSTANT, OPCODE_ADD, OPCODE_POP, OPCODE_SUB, OPCODE_MUL, OPCODE_DIV,
   OPCODE_MOD, OPCODE_TRUE, OPCODE_FALSE, OPCODE_COMPARE, OPCODE_COMPARE_EQ, OPCODE_EQUAL,
   OPCODE_NOT_EQUAL, OPCODE_GREATER_THAN, OPCODE_GREATER_THAN_EQUAL, OPCODE_MINUS, OPCODE_BANG,
   OPCODE_JUMP, OPCODE_JUMP_IF_FALSE, OPCODE_JUMP_IF_TRUE, OPCODE_NULL,
   OPCODE_GET_MODULE_GLOBAL, OPCODE_SET_MODULE_GLOBAL, OPCODE_DEFINE_MODULE_GLOBAL,
   OPCODE_ARRAY, OPCODE_MAP_START, OPCODE_MAP_END, OPCODE_GET_THIS, OPCODE_GET_INDEX,
   OPCODE_SET_INDEX, OPCODE_GET_VALUE_AT, OPCODE_CALL, OPCODE_RETURN_VALUE, OPCODE_RETURN,
   OPCODE_GET_LOCAL, OPCODE_DEFINE_LOCAL, OPCODE_SET_LOCAL, OPCODE_GET_APE_GLOBAL,
   OPCODE_FUNCTION, OPCODE_GET_FREE, OPCODE_SET_FREE, OPCODE_CURRENT_FUNCTION, OPCODE_DUP,
   OPCODE_NUMBER, OPCODE_LEN, OPCODE_SET_RECOVER, OPCODE_OR, OPCODE_XOR, OPCODE_AND,
   OPCODE_LSHIFT, OPCODE_RSHIFT]

/-- The first `count` entries of an array given by index. -/
def array_first {α : Type} (a : Int → α) (count : Int) : List α :=
  (List.range count.toNat).map fun i => a (i : Int)

/-- Function `run_gc` as far as the memory goes; `store_objects` are the objects of
`vm->global_store`. -/
def run_gc_mem (fuel : Nat) (vm : vm_t) (constants store_objects : List object_t) :
    Option gcmem_t :=
  let mem := gc_unmark_all vm.mem
  match gc_mark_objects fuel store_objects mem with
  | none => none
  | some mem =>
  match gc_mark_objects fuel constants mem with
  | none => none
  | some mem =>
  match gc_mark_objects fuel (array_first vm.globals vm.globals_count) mem with
  | none => none
  | some mem =>
  match gc_mark_objects fuel ((array_first vm.frames vm.frames_count).map fun f => f.function)
      mem with
  | none => none
  | some mem =>
  match gc_mark_objects fuel (array_first vm.stack vm.sp) mem with
  | none => none
  | some mem =>
  match gc_mark_objects fuel (array_first vm.this_stack vm.this_sp) mem with
  | none => none
  | some mem =>
  match gc_mark_object fuel mem vm.last_popped with
  | none => none
  | some mem =>
  match gc_mark_objects fuel (opcode_all.map vm.operator_oveload_keys) mem with
  | none => none
  | some mem => gc_sweep fuel mem

/-- Function `run_gc`. -/
def run_gc (fuel : Nat) (vm : vm_t) (constants store_objects : List object_t) : Option vm_t :=
  match run_gc_mem fuel vm constants store_objects with
  | none => none
  | some mem => some { vm with mem := mem }

/-! ## Reachability -/

/-- The value `c` is an element of the array, a key or a value of the map, or a free value
of the function in the body at `p`. -/
def gc_child (mem : gcmem_t) (p : Nat) (c : object_t) : Prop :=
  match (mem.deref p).type with
  | OBJECT_MAP =>
    ∃ i, i < (mem.deref p).map.count
      ∧ (c = (mem.deref p).map.keys.getD i { handle := 0 }
        ∨ c = (mem.deref p).map.values.getD i { handle := 0 })
  | OBJECT_ARRAY => c ∈ (mem.deref p).array.items
  | OBJECT_FUNCTION =>
    ∃ i : Nat, (i : Int) < (mem.deref p).function.free_vals_count
      ∧ c = (mem.deref p).function.free_vals.getD i { handle := 0 }
  | _ => False

/-- The bodies reachable from the values `roots`. -/
inductive gc_reach (mem : gcmem_t) (roots : List object_t) : Nat → Prop where
  | root (o : object_t) : o ∈ roots → object_is_allocated o = true →
      gc_reach mem roots (object_get_allocated_data o)
  | step (p : Nat) (c : object_t) : gc_reach mem roots p → gc_child mem p c →
      object_is_allocated c = true → gc_reach mem roots (object_get_allocated_data c)

/-- The roots of `run_gc`: the objects of the global store, the constants, the globals
below `globals_count`, the functions of the frames below `frames_count`, the stack below
`sp`, the this-stack below `this_sp`, `last_popped`, the operator-overload keys, and the
values exempt from collection. -/
def gc_roots (vm : vm_t) (constants store_objects : List object_t) : List object_t :=
  store_objects ++ constants ++ array_first vm.globals vm.globals_count
    ++ (array_first vm.frames vm.frames_count).map (fun f => f.function)
    ++ array_first vm.stack vm.sp ++ array_first vm.this_stack vm.this_sp
    ++ [vm.last_popped] ++ opcode_all.map vm.operator_oveload_keys
    ++ vm.mem.objects_not_gced

/-! ## Predicates used to state properties of the collector -/

/-- The memory `mem2` comes from `mem` by setting mark bits. -/
def mark_rel (mem mem2 : gcmem_t) : Prop :=
  mem2 = { mem with data := mem2.data }
  ∧ ∀ q, (mem2.deref q).payload = (mem.deref q).payload
    ∧ (mem2.deref q).type = (mem.deref q).type
    ∧ ((mem.deref q).gcmark = true → (mem2.deref q).gcmark = true)

/-- The values held by the bodies at the addresses `O` point to bodies at addresses in
`O`. -/
def gc_closed (mem : gcmem_t) (O : List Nat) : Prop :=
  ∀ p ∈ O, ∀ c, gc_child mem p c → object_is_allocated c = true →
    object_get_allocated_data c ∈ O

/-- Every marked body of `O` outside `G` holds only values whose bodies are marked. -/
def gray_closed (O : List Nat) (G : Nat → Prop) (mem : gcmem_t) : Prop :=
  ∀ p ∈ O, (mem.deref p).gcmark = true → ¬ G p → ∀ c, gc_child mem p c →
    object_is_allocated c = true → (mem.deref (object_get_allocated_data c)).gcmark = true

/-- The number of entries of `O` whose body is not marked. -/
def gc_unmarked_count (O : List Nat) (mem : gcmem_t) : Nat :=
  O.countP fun p => !(mem.deref p).gcmark

/-- A bound on the number of free values of the functions at the addresses `O`. -/
def free_vals_bound (mem : gcmem_t) (O : List Nat) : Nat :=
  (O.map fun p => (mem.deref p).function.free_vals_count.toNat).foldl max 0

/-- The property of a recursive call that the loops of `gc_mark_object` pass on: from a
memory that comes from `base` by marking, the call returns, only sets mark bits, marks the
body of the value given and keeps `gray_closed`. -/
def rec_marks (O : List Nat) (G : Nat → Prop) (base : gcmem_t)
    (rec : gcmem_t → object_t → Option gcmem_t) : Prop :=
  ∀ m c, mark_rel base m → gray_closed O G m →
    (object_is_allocated c = true → object_get_allocated_data c ∈ O) →
    ∃ m2, rec m c = some m2 ∧ mark_rel m m2 ∧ gray_closed O G m2
      ∧ (object_is_allocated c = true →
          (m2.deref (object_get_allocated_data c)).gcmark = true)

/-- State of the loop of `gc_sweep` after the entries `done` of the active list, started
in the memory `mm`: marked bodies are as they were, no mark bit was set, `objects_back`
holds the marked entries of `done`, and the pools received unmarked bodies only. -/
structure sweep_inv (mm : gcmem_t) (done : List Nat) (st : gcmem_t) : Prop where
  kept : ∀ q, (mm.deref q).gcmark = true → st.deref q = mm.deref q
  marks : ∀ q, (st.deref q).gcmark = true → (mm.deref q).gcmark = true
  back : ∀ q, q ∈ st.objects_back ↔ q ∈ done ∧ (mm.deref q).gcmark = true
  pool_a : ∀ q ∈ st.pool_array, q ∈ mm.pool_array ∨ (mm.deref q).gcmark = false
  pool_m : ∀ q ∈ st.pool_map, q ∈ mm.pool_map ∨ (mm.deref q).gcmark = false
  pool_s : ∀ q ∈ st.pool_string, q ∈ mm.pool_string ∨ (mm.deref q).gcmark = false
  pool_d : ∀ q ∈ st.data_only_pool, q ∈ mm.data_only_pool ∨ (mm.deref q).gcmark = false
  objects_eq : st.objects = mm.objects

/-- State of the marking phase after the roots `S`: the memory comes from `base` by
marking, every marked body of `O` holds only values with marked bodies, and the bodies of
the values `S` are marked. -/
def gc_marked_state (base : gcmem_t) (O : List Nat) (S : List object_t) (m : gcmem_t) : Prop :=
  mark_rel base m ∧ gray_closed O (fun _ => False) m
  ∧ ∀ o ∈ S, object_is_allocated o = true →
      (m.deref (object_get_allocated_data o)).gcmark = true

/-! ## An example state for the collector -/

/-- The array at 4096 of `mem_gc_example`. -/
def example_cycle : object_t := object_make_from_data OBJECT_ARRAY 4096

/-- Memory with three bodies in the active list: at 4096 an array that holds itself and
the string at 4160, at 4160 the string "a", and at 4224 an empty map that nothing points
to. -/
def mem_gc_example : gcmem_t :=
  { (((gcmem_empty.store 4096
        (mk_array_data [example_cycle, object_make_from_data OBJECT_STRING 4160])).store 4160
      (mk_string_data [97] 0)).store 4224 (mk_map_data 32)) with
    next_addr := 4288
    objects := [4096, 4160, 4224]
    objects_back := [4096, 4160, 4224] }

/-- A machine over `mem_gc_example` whose only root is the array at 4096, on the stack. -/
def vm_gc_example : vm_t :=
  { mem := mem_gc_example
    errors := { errors := [] }
    globals := fun _ => object_make_null
    globals_count := 0
    stack := fun i => if i = 0 then example_cycle else object_make_null
    sp := 1
    this_stack := fun _ => object_make_null
    this_sp := 0
    frames := fun _ => frame_zero
    frames_count := 0
    last_popped := object_make_null
    current_frame := none
    running := false
    operator_oveload_keys := fun _ => object_make_null }

/-! ## Calls, returns and the handling of errors in `vm_execute_function` (vm.c) -/

/-- Function `frame_read_uint8`: the byte read and the frame. -/
def frame_read_uint8 (frame : frame_t) : Nat × frame_t :=
  (frame.bytecode.getD frame.ip.toNat 0, { frame with ip := frame.ip + 1 })

/-- The frame `vm->current_frame` points to. -/
def vm_current (vm : vm_t) : frame_t :=
  match vm.current_frame with
  | some ix => vm.frames ix
  | none => frame_zero

/-- A write through `vm->current_frame`. -/
def vm_set_current (vm : vm_t) (frame : frame_t) : vm_t :=
  match vm.current_frame with
  | some ix => { vm with frames := fun i => if i = ix then frame else vm.frames i }
  | none => vm

/-- Where an instruction leaves the `switch`: by `break`, by `goto err` or by
`goto end`. -/
inductive vm_goto where
  | next
  | err
  | finish
  deriving DecidableEq, Repr

/-- The case `OPCODE_CALL`. -/
def vm_op_call (ape_debug : Bool) (natives : native_call_t) (vm : vm_t) : vm_goto × vm_t :=
  let r := frame_read_uint8 (vm_current vm)
  let num_args : Int := r.1
  let vm := vm_set_current vm r.2
  let g := stack_get ape_debug vm num_args
  let c := call_object ape_debug natives g.2 g.1 num_args
  if ¬ c.1 then (vm_goto.err, c.2) else (vm_goto.next, c.2)

/-- The case `OPCODE_RETURN_VALUE`. -/
def vm_op_return_value (ape_debug : Bool) (vm : vm_t) : vm_goto × vm_t :=
  let p := stack_pop ape_debug vm
  let f := pop_frame p.2
  if ¬ f.1 then (vm_goto.finish, f.2) else (vm_goto.next, stack_push ape_debug f.2 p.1)

/-- Function `object_make_error`; `ape_strdup` is taken to succeed. -/
def object_make_error (mem : gcmem_t) (error : String) : object_t × gcmem_t :=
  let a := gcmem_alloc_object_data mem OBJECT_ERROR
  (object_make_from_data OBJECT_ERROR a.1,
    a.2.store a.1 { a.2.deref a.1 with
      payload := object_payload.error { message := error, traceback := none } })

/-- Function `object_get_error_message`. -/
def object_get_error_message (mem : gcmem_t) (object : object_t) : String :=
  (mem.deref (object_get_allocated_data object)).error.message

/-- Function `object_get_error_traceback`. -/
def object_get_error_traceback (mem : gcmem_t) (object : object_t) :
    Option (List traceback_item_t) :=
  (mem.deref (object_get_allocated_data object)).error.traceback

/-- The loop of the recover handling that looks for the innermost frame with a handler:
`n` frames are left to look at, from index `n - 1` down; -1 when there is none. -/
def find_recover_frame (vm : vm_t) : Nat → Int
  | 0 => -1
  | n + 1 =>
    if (vm.frames (n : Int)).recover_ip ≥ 0 ∧ ¬ (vm.frames (n : Int)).is_recovering then (n : Int)
    else find_recover_frame vm n

/-- The loop `while (vm->frames_count > recover_frame_ix + 1) pop_frame(vm)`, with `n`
rounds at most. -/
def pop_frames_to (target : Int) : Nat → vm_t → vm_t
  | 0, vm => vm
  | n + 1, vm =>
    if vm.frames_count > target then pop_frames_to target n (pop_frame vm).2 else vm

/-- The statements at the label `err`, up to the test of `gc_should_sweep`: where control
goes and the state.  `traceback_make` is taken to succeed. -/
def vm_recover (ape_debug : Bool) (vm : vm_t) : vm_goto × vm_t :=
  if errors_get_count vm.errors > 0 then
    match errors_get_last_error vm.errors with
    | none => (vm_goto.next, vm)
    | some err =>
      if err.type = ERROR_RUNTIME ∧ errors_get_count vm.errors = 1 then
        let recover_frame_ix := find_recover_frame vm vm.frames_count.toNat
        if recover_frame_ix < 0 then (vm_goto.finish, vm)
        else
          let traceback := traceback_append_from_vm (err.traceback.getD []) vm
          let vm := { vm with errors := { errors :=
            vm.errors.errors.dropLast ++ [{ err with traceback := some traceback }] } }
          let vm := pop_frames_to (recover_frame_ix + 1)
            (vm.frames_count - (recover_frame_ix + 1)).toNat vm
          let e := object_make_error vm.mem err.message
          let vm := { vm with mem := e.2 }
          let vm :=
            if ¬ object_is_null vm.mem e.1 then
              { vm with
                mem := object_set_error_traceback vm.mem e.1 traceback
                errors := { errors :=
                  vm.errors.errors.dropLast ++ [{ err with traceback := none }] } }
            else vm
          let vm := stack_push ape_debug vm e.1
          let frame := vm_current vm
          let vm := vm_set_current vm { frame with ip := frame.recover_ip }
          let frame := vm_current vm
          let vm := vm_set_current vm { frame with is_recovering := true }
          (vm_goto.next, { vm with errors := errors_clear vm.errors })
      else (vm_goto.finish, vm)
  else (vm_goto.next, vm)

/-- The statements from the label `end` of `vm_execute_function`: the value returned and
the state; `none` when `run_gc` does not return within `fuel`. -/
def vm_finish (fuel : Nat) (vm : vm_t) (constants store_objects : List object_t) :
    Option (Bool × vm_t) :=
  let vm :=
    if errors_get_count vm.errors > 0 then
      match errors_get_last_error vm.errors with
      | none => vm
      | some err =>
        { vm with errors := { errors := vm.errors.errors.dropLast ++
            [{ err with
               traceback := some (traceback_append_from_vm (err.traceback.getD []) vm) }] } }
    else vm
  match run_gc fuel vm constants store_objects with
  | none => none
  | some vm =>
    let vm := { vm with running := false }
    some (decide (errors_get_count vm.errors = 0), vm)

/-! ## An example state for calls -/

/-- The function at 4096 of `mem_call_example`. -/
def example_fn : object_t := object_make_from_data OBJECT_FUNCTION 4096

/-- Memory with one body in the active list: at 4096 a function "f" of one parameter and
two locals whose code is the single instruction `OPCODE_RETURN_VALUE`. -/
def mem_call_example : gcmem_t :=
  { (gcmem_empty.store 4096
      { payload := object_payload.function
          { free_vals := [{ handle := 0 }, { handle := 0 }], name := "f",
            comp_result := { bytecode := [33], src_positions := [src_pos_invalid], count := 1 },
            num_locals := 2, num_args := 1, free_vals_count := 0, owns_data := true },
        gcmark := false, type := OBJECT_FUNCTION }) with
    next_addr := 4160
    objects := [4096]
    objects_back := [4096] }

/-- A frame whose code is `OPCODE_CALL 1`, with the opcode read. -/
def frame_call_example : frame_t :=
  { frame_zero with bytecode := [32, 1], ip := 1, bytecode_size := 2, recover_ip := -1 }

/-- A machine over `mem_call_example` with `frames_count` frames, each about to read the
operand of `OPCODE_CALL 1`, and the function and the number 1.0 on the stack. -/
def vm_call_example (frames_count : Int) : vm_t :=
  { mem := mem_call_example
    errors := { errors := [] }
    globals := fun _ => object_make_null
    globals_count := 0
    stack := fun i =>
      if i = 0 then example_fn else if i = 1 then object_make_number 0x3ff0000000000000
      else object_make_null
    sp := 2
    this_stack := fun _ => object_make_null
    this_sp := 0
    frames := fun _ => frame_call_example
    frames_count := frames_count
    last_popped := object_make_null
    current_frame := some (frames_count - 1)
    running := true
    operator_oveload_keys := fun _ => object_make_null }

/-- The machine `vm_call_example 1` with one error of the given type recorded and a recover
handler at `ip` 0 installed in its frame. -/
def vm_err_example (type : error_type_t) : vm_t :=
  { vm_call_example 1 with
    errors := { errors := [{ type := type, message := "boom", pos := src_pos_invalid,
                             traceback := none }] }
    frames := fun _ => { frame_call_example with recover_ip := 0 } }

/-- The machine `vm_call_example 3` with one Runtime error recorded: frame 0 has a handler
at `ip` 0, frame 1 (base pointer 1) a handler at `ip` 1, and frame 2 (base pointer 2), the
current one, has none. -/
def vm_unwind_example : vm_t :=
  { vm_call_example 3 with
    errors := { errors := [{ type := ERROR_RUNTIME, message := "boom", pos := src_pos_invalid,
                             traceback := none }] }
    frames := fun i =>
      if i = 0 then { frame_call_example with recover_ip := 0 }
      else if i = 1 then { frame_call_example with recover_ip := 1, base_pointer := 1 }
      else { frame_call_example with base_pointer := 2 } }

/-! ## Constant folding (optimisation.c), the code of literal, prefix and infix
expressions (compiler.c) and the instructions that evaluate it (vm.c) -/

/-- C unary minus on a double: the sign bit is flipped. -/
def double_neg (x : Nat) : Nat := (x % 2 ^ 64 + 2 ^ 63) % 2 ^ 64

/-- IEEE addition `x + y` in round-to-nearest-even.  A NaN result is returned as the
default quiet NaN. -/
def double_add (x y : Nat) : Nat :=
  if double_is_nan x ∨ double_is_nan y then DBL_NAN
  else if double_mag x = DBL_INF then
    (if double_mag y = DBL_INF ∧ double_sign x ≠ double_sign y then DBL_NAN else x % 2 ^ 64)
  else if double_mag y = DBL_INF then y % 2 ^ 64
  else
    let e0 : Int := min (double_decode (double_mag x)).2 (double_decode (double_mag y)).2
    let d : Int := double_scaled x e0 + double_scaled y e0
    if d = 0 then
      (if double_sign x ∧ double_sign y then 2 ^ 63 else 0)
    else (if d < 0 then 2 ^ 63 else 0) + round_dyadic d.natAbs e0

/-- Sign bit of a product or quotient. -/
def double_sign_xor (x y : Nat) : Nat := if double_sign x ≠ double_sign y then 2 ^ 63 else 0

/-- IEEE multiplication `x * y` in round-to-nearest-even. -/
def double_mul (x y : Nat) : Nat :=
  if double_is_nan x ∨ double_is_nan y then DBL_NAN
  else if double_mag x = DBL_INF ∨ double_mag y = DBL_INF then
    (if double_mag x = 0 ∨ double_mag y = 0 then DBL_NAN else double_sign_xor x y + DBL_INF)
  else
    let dx := double_decode (double_mag x)
    let dy := double_decode (double_mag y)
    double_sign_xor x y + round_dyadic (dx.1 * dy.1) (dx.2 + dy.2)

/-- IEEE division `x / y` in round-to-nearest-even: the quotient of the mantissas is taken
with 128 more bits and a sticky bit for the remainder, then rounded. -/
def double_div (x y : Nat) : Nat :=
  if double_is_nan x ∨ double_is_nan y then DBL_NAN
  else if double_mag x = DBL_INF then
    (if double_mag y = DBL_INF then DBL_NAN else double_sign_xor x y + DBL_INF)
  else if double_mag y = DBL_INF then double_sign_xor x y
  else if double_mag y = 0 then
    (if double_mag x = 0 then DBL_NAN else double_sign_xor x y + DBL_INF)
  else
    let dx := double_decode (double_mag x)
    let dy := double_decode (double_mag y)
    let n := dx.1 * 2 ^ 128
    let sticky : Nat := if n % dy.1 = 0 then 0 else 1
    double_sign_xor x y + round_dyadic (2 * (n / dy.1) + sticky) (dx.2 - dy.2 - 129)

/-- C library `fmod`: the remainder has the sign of `x` and is exact. -/
def fmod (x y : Nat) : Nat :=
  if double_is_nan x ∨ double_is_nan y ∨ double_mag x = DBL_INF ∨ double_mag y = 0 then DBL_NAN
  else if double_mag y = DBL_INF then x % 2 ^ 64
  else
    let e0 : Int := min (double_decode (double_mag x)).2 (double_decode (double_mag y)).2
    let a := (double_scaled x e0).natAbs
    let b := (double_scaled y e0).natAbs
    (if double_sign x then 2 ^ 63 else 0) + round_dyadic (a % b) e0

/-- Comparison `x <= y` of doubles; false when either is a NaN. -/
def double_le (x y : Nat) : Bool :=
  if double_is_nan x ∨ double_is_nan y then false
  else
    let kx : Int := if double_sign x then -(double_mag x : Int) else (double_mag x : Int)
    let ky : Int := if double_sign y then -(double_mag y : Int) else (double_mag y : Int)
    decide (kx ≤ ky)

/-- Conversion `(int64_t)x` of a double: truncation toward zero.  For a NaN and for a value
outside the range of `int64_t` the C conversion is undefined; the value of the x86-64
conversion instruction, `INT64_MIN`, stands for it. -/
def double_to_int64 (x : Nat) : Int :=
  if double_is_nan x ∨ double_mag x = DBL_INF then -(2 ^ 63)
  else
    let d := double_decode (double_mag x)
    let v : Nat := if 0 ≤ d.2 then d.1 * 2 ^ d.2.toNat else d.1 / 2 ^ (-d.2).toNat
    let z : Int := if double_sign x then -(v : Int) else (v : Int)
    if z < -(2 ^ 63) ∨ 2 ^ 63 ≤ z then -(2 ^ 63) else z

/-- The `int64_t` with the low 64 bits of `z`. -/
def int64_wrap (z : Int) : Int := (z + 2 ^ 63) % 2 ^ 64 - 2 ^ 63

/-- The 64 bits of an `int64_t`, as an unsigned number. -/
def int64_bits (z : Int) : Nat := (z % 2 ^ 64).toNat

/-- Operator `&` on `int64_t`. -/
def int64_and (l r : Int) : Int := int64_wrap ((int64_bits l &&& int64_bits r : Nat) : Int)

/-- Operator `|` on `int64_t`. -/
def int64_or (l r : Int) : Int := int64_wrap ((int64_bits l ||| int64_bits r : Nat) : Int)

/-- Operator `^` on `int64_t`. -/
def int64_xor (l r : Int) : Int := int64_wrap ((int64_bits l ^^^ int64_bits r : Nat) : Int)

/-- Operator `<<` on `int64_t`.  A count outside 0..63 and a negative left operand are
undefined in C; the x86-64 shift, which takes the count modulo 64 and keeps the low 64
bits, stands for them. -/
def int64_shl (l r : Int) : Int := int64_wrap (l * 2 ^ (int64_bits r % 64))

/-- Operator `>>` on `int64_t`, an arithmetic shift; the count is taken modulo 64 as the
x86-64 shift does. -/
def int64_shr (l r : Int) : Int := l / 2 ^ (int64_bits r % 64)

/-- Enumeration `operator_t` (ast.h). -/
inductive operator_t where
  | OPERATOR_NONE | OPERATOR_ASSIGN | OPERATOR_PLUS | OPERATOR_MINUS | OPERATOR_BANG
  | OPERATOR_ASTERISK | OPERATOR_SLASH | OPERATOR_LT | OPERATOR_LTE | OPERATOR_GT
  | OPERATOR_GTE | OPERATOR_EQ | OPERATOR_NOT_EQ | OPERATOR_MODULUS | OPERATOR_LOGICAL_AND
  | OPERATOR_LOGICAL_OR | OPERATOR_BIT_AND | OPERATOR_BIT_OR | OPERATOR_BIT_XOR
  | OPERATOR_LSHIFT | OPERATOR_RSHIFT
  deriving DecidableEq, Repr

open operator_t

/-- Structure `expression_t` (ast.h), by its `type`: identifiers, the literals of numbers,
booleans, strings and null, and prefix and infix expressions.  A number literal is the bit
pattern of its double, a string literal the characters at the pointer.  The other kinds
(array, map and function literals, calls, indexing, assignments, logical and ternary
expressions) are not represented, nor is the source position `pos`. -/
inductive expression_t where
  | EXPRESSION_IDENT (value : List Nat)
  | EXPRESSION_NUMBER_LITERAL (number_literal : Nat)
  | EXPRESSION_BOOL_LITERAL (bool_literal : Bool)
  | EXPRESSION_STRING_LITERAL (string_literal : List Nat)
  | EXPRESSION_NULL_LITERAL
  | EXPRESSION_PREFIX (op : operator_t) (right : expression_t)
  | EXPRESSION_INFIX (op : operator_t) (left right : expression_t)
  deriving DecidableEq, Repr

open expression_t

/-- The characters of a C string: the buffer up to the first NUL. -/
def c_str (s : List Nat) : List Nat := s.takeWhile fun c => c ≠ 0

/-- The test `type == EXPRESSION_NUMBER_LITERAL || type == EXPRESSION_BOOL_LITERAL`. -/
def expression_is_numeric (expr : expression_t) : Bool :=
  match expr with
  | EXPRESSION_NUMBER_LITERAL _ => true
  | EXPRESSION_BOOL_LITERAL _ => true
  | _ => false

/-- The value `type == EXPRESSION_NUMBER_LITERAL ? number_literal : bool_literal` as a
double, for a numeric literal. -/
def expression_numeric_value (expr : expression_t) : Nat :=
  match expr with
  | EXPRESSION_NUMBER_LITERAL v => v
  | EXPRESSION_BOOL_LITERAL b => double_of_int (if b then 1 else 0)
  | _ => 0

/-- Function `optimise_infix_expression`, given the results `left_optimised` and
`right_optimised` of `optimise_expression` on the operands; `none` for `NULL`. -/
def optimise_infix_expression (op : operator_t) (left right : expression_t)
    (left_optimised right_optimised : Option expression_t) : Option expression_t :=
  let left := match left_optimised with
    | some l => l
    | none => left
  let right := match right_optimised with
    | some r => r
    | none => right
  let left_is_numeric := expression_is_numeric left
  let right_is_numeric := expression_is_numeric right
  if left_is_numeric = true ∧ right_is_numeric = true then
    let left_val := expression_numeric_value left
    let right_val := expression_numeric_value right
    let left_val_int := double_to_int64 left_val
    let right_val_int := double_to_int64 right_val
    match op with
    | OPERATOR_PLUS => some (EXPRESSION_NUMBER_LITERAL (double_add left_val right_val))
    | OPERATOR_MINUS => some (EXPRESSION_NUMBER_LITERAL (double_sub left_val right_val))
    | OPERATOR_ASTERISK => some (EXPRESSION_NUMBER_LITERAL (double_mul left_val right_val))
    | OPERATOR_SLASH => some (EXPRESSION_NUMBER_LITERAL (double_div left_val right_val))
    | OPERATOR_LT => some (EXPRESSION_BOOL_LITERAL (double_lt left_val right_val))
    | OPERATOR_LTE => some (EXPRESSION_BOOL_LITERAL (double_le left_val right_val))
    | OPERATOR_GT => some (EXPRESSION_BOOL_LITERAL (double_lt right_val left_val))
    | OPERATOR_GTE => some (EXPRESSION_BOOL_LITERAL (double_le right_val left_val))
    | OPERATOR_EQ => some (EXPRESSION_BOOL_LITERAL (APE_DBLEQ left_val right_val))
    | OPERATOR_NOT_EQ => some (EXPRESSION_BOOL_LITERAL (! APE_DBLEQ left_val right_val))
    | OPERATOR_MODULUS => some (EXPRESSION_NUMBER_LITERAL (fmod left_val right_val))
    | OPERATOR_BIT_AND =>
      some (EXPRESSION_NUMBER_LITERAL (double_of_int (int64_and left_val_int right_val_int)))
    | OPERATOR_BIT_OR =>
      some (EXPRESSION_NUMBER_LITERAL (double_of_int (int64_or left_val_int right_val_int)))
    | OPERATOR_BIT_XOR =>
      some (EXPRESSION_NUMBER_LITERAL (double_of_int (int64_xor left_val_int right_val_int)))
    | OPERATOR_LSHIFT =>
      some (EXPRESSION_NUMBER_LITERAL (double_of_int (int64_shl left_val_int right_val_int)))
    | OPERATOR_RSHIFT =>
      some (EXPRESSION_NUMBER_LITERAL (double_of_int (int64_shr left_val_int right_val_int)))
    | _ => none
  else
    match op, left, right with
    | OPERATOR_PLUS, EXPRESSION_STRING_LITERAL left_val, EXPRESSION_STRING_LITERAL right_val =>
      some (EXPRESSION_STRING_LITERAL (c_str left_val ++ c_str right_val))
    | _, _, _ => none

/-- Function `optimise_prefix_expression`, given the result `right_optimised` of
`optimise_expression` on the operand. -/
def optimise_prefix_expression (op : operator_t) (right : expression_t)
    (right_optimised : Option expression_t) : Option expression_t :=
  let right := match right_optimised with
    | some r => r
    | none => right
  match op, right with
  | OPERATOR_MINUS, EXPRESSION_NUMBER_LITERAL v => some (EXPRESSION_NUMBER_LITERAL (double_neg v))
  | OPERATOR_BANG, EXPRESSION_BOOL_LITERAL b => some (EXPRESSION_BOOL_LITERAL (! b))
  | _, _ => none

/-- Function `optimise_expression`. -/
def optimise_expression : expression_t → Option expression_t
  | EXPRESSION_INFIX op left right =>
    optimise_infix_expression op left right (optimise_expression left)
      (optimise_expression right)
  | EXPRESSION_PREFIX op right =>
    optimise_prefix_expression op right (optimise_expression right)
  | _ => none

/-- Function `opcode_get_name`: the names in `g_definitions` (code.c). -/
def opcode_get_name (op : opcode_t) : String :=
  match op with
  | OPCODE_NONE => "" | OPCODE_CONSTANT => "CONSTANT" | OPCODE_ADD => "ADD"
  | OPCODE_POP => "POP" | OPCODE_SUB => "SUB" | OPCODE_MUL => "MUL" | OPCODE_DIV => "DIV"
  | OPCODE_MOD => "MOD" | OPCODE_TRUE => "TRUE" | OPCODE_FALSE => "FALSE"
  | OPCODE_COMPARE => "COMPARE" | OPCODE_COMPARE_EQ => "COMPARE_EQ" | OPCODE_EQUAL => "EQUAL"
  | OPCODE_NOT_EQUAL => "NOT_EQUAL" | OPCODE_GREATER_THAN => "GREATER_THAN"
  | OPCODE_GREATER_THAN_EQUAL => "GREATER_THAN_EQUAL" | OPCODE_MINUS => "MINUS"
  | OPCODE_BANG => "BANG" | OPCODE_JUMP => "JUMP" | OPCODE_JUMP_IF_FALSE => "JUMP_IF_FALSE"
  | OPCODE_JUMP_IF_TRUE => "JUMP_IF_TRUE" | OPCODE_NULL => "NULL"
  | OPCODE_GET_MODULE_GLOBAL => "GET_MODULE_GLOBAL"
  | OPCODE_SET_MODULE_GLOBAL => "SET_MODULE_GLOBAL"
  | OPCODE_DEFINE_MODULE_GLOBAL => "DEFINE_MODULE_GLOBAL" | OPCODE_ARRAY => "ARRAY"
  | OPCODE_MAP_START => "MAP_START" | OPCODE_MAP_END => "MAP_END" | OPCODE_GET_THIS => "GET_THIS"
  | OPCODE_GET_INDEX => "GET_INDEX" | OPCODE_SET_INDEX => "SET_INDEX"
  | OPCODE_GET_VALUE_AT => "GET_VALUE_AT" | OPCODE_CALL => "CALL"
  | OPCODE_RETURN_VALUE => "RETURN_VALUE" | OPCODE_RETURN => "RETURN"
  | OPCODE_GET_LOCAL => "GET_LOCAL" | OPCODE_DEFINE_LOCAL => "DEFINE_LOCAL"
  | OPCODE_SET_LOCAL => "SET_LOCAL" | OPCODE_GET_APE_GLOBAL => "GET_APE_GLOBAL"
  | OPCODE_FUNCTION => "FUNCTION" | OPCODE_GET_FREE => "GET_FREE" | OPCODE_SET_FREE => "SET_FREE"
  | OPCODE_CURRENT_FUNCTION => "CURRENT_FUNCTION" | OPCODE_DUP => "DUP" | OPCODE_NUMBER => "NUMBER"
  | OPCODE_LEN => "LEN" | OPCODE_SET_RECOVER => "SET_RECOVER" | OPCODE_OR => "OR"
  | OPCODE_XOR => "XOR" | OPCODE_AND => "AND" | OPCODE_LSHIFT => "LSHIFT"
  | OPCODE_RSHIFT => "RSHIFT" | OPCODE_MAX => ""

/-- An instruction of the bytecode: the opcode and its operands.  `code_make` lays the
operands out as big-endian bytes and the `frame_read_` functions read them back; here the
operand values are kept. -/
structure instruction_t where
  op : opcode_t
  operands : List Nat
  deriving DecidableEq, Repr

/-- The parts of `compiler_t` that the code of literal, prefix and infix expressions uses:
the memory, the errors, the constants, the positions of the string constants and the
bytecode of the current compilation scope. -/
structure compiler_t where
  mem : gcmem_t
  errors : errors_t
  constants : List object_t
  string_constants_positions : List (List Nat × Nat)
  bytecode : List instruction_t

/-- Function `emit`; the source positions recorded with the code are not represented. -/
def emit (comp : compiler_t) (op : opcode_t) (operands : List Nat) : compiler_t :=
  { comp with bytecode := comp.bytecode ++ [{ op := op, operands := operands }] }

/-- Function `add_constant`: the position of the constant and the compiler. -/
def add_constant (comp : compiler_t) (obj : object_t) : Nat × compiler_t :=
  (comp.constants.length, { comp with constants := comp.constants ++ [obj] })

/-- The first `switch` of the case `EXPRESSION_INFIX` of `compile_expression`: the opcode
and the flag `rearrange`; `none` at `default`. -/
def infix_opcode (op : operator_t) : Option (opcode_t × Bool) :=
  match op with
  | OPERATOR_PLUS => some (OPCODE_ADD, false)
  | OPERATOR_MINUS => some (OPCODE_SUB, false)
  | OPERATOR_ASTERISK => some (OPCODE_MUL, false)
  | OPERATOR_SLASH => some (OPCODE_DIV, false)
  | OPERATOR_MODULUS => some (OPCODE_MOD, false)
  | OPERATOR_EQ => some (OPCODE_EQUAL, false)
  | OPERATOR_NOT_EQ => some (OPCODE_NOT_EQUAL, false)
  | OPERATOR_GT => some (OPCODE_GREATER_THAN, false)
  | OPERATOR_GTE => some (OPCODE_GREATER_THAN_EQUAL, false)
  | OPERATOR_LT => some (OPCODE_GREATER_THAN, true)
  | OPERATOR_LTE => some (OPCODE_GREATER_THAN_EQUAL, true)
  | OPERATOR_BIT_OR => some (OPCODE_OR, false)
  | OPERATOR_BIT_XOR => some (OPCODE_XOR, false)
  | OPERATOR_BIT_AND => some (OPCODE_AND, false)
  | OPERATOR_LSHIFT => some (OPCODE_LSHIFT, false)
  | OPERATOR_RSHIFT => some (OPCODE_RSHIFT, false)
  | _ => none

/-- The second `switch` of the case `EXPRESSION_INFIX`: the comparison instruction emitted
before the opcode, if any. -/
def infix_compare_opcode (op : operator_t) : Option opcode_t :=
  match op with
  | OPERATOR_EQ => some OPCODE_COMPARE_EQ
  | OPERATOR_NOT_EQ => some OPCODE_COMPARE_EQ
  | OPERATOR_GT => some OPCODE_COMPARE
  | OPERATOR_GTE => some OPCODE_COMPARE
  | OPERATOR_LT => some OPCODE_COMPARE
  | OPERATOR_LTE => some OPCODE_COMPARE
  | _ => none

/-- The case `EXPRESSION_STRING_LITERAL` of `compile_expression`. -/
def compile_string_literal (comp : compiler_t) (string_literal : List Nat) :
    Bool × compiler_t :=
  match comp.string_constants_positions.find? (fun kv => kv.1 = c_str string_literal) with
  | some kv => (true, emit comp OPCODE_CONSTANT [kv.2])
  | none =>
    let o := object_make_string comp.mem string_literal
    let comp := { comp with mem := o.2 }
    if object_is_null comp.mem o.1 then (false, comp)
    else
      let c := add_constant comp o.1
      let comp := { c.2 with string_constants_positions :=
        (c.2.string_constants_positions ++ [(c_str string_literal, c.1)]) }
      (true, emit comp OPCODE_CONSTANT [c.1])

/-- The cases of the `switch` of `compile_expression` for the expressions represented,
without the call of `optimise_expression` that `compile_expression` starts with: the code
of the expression as it is written.  The flag is false at `error`; the symbol table is not
represented, so an identifier gives no code. -/
def compile_expression_unfolded : expression_t → compiler_t → Bool × compiler_t
  | EXPRESSION_INFIX op left right, comp =>
    match infix_opcode op with
    | none =>
      (false, { comp with errors := (errors_add_errorf comp.errors ERROR_COMPILATION
        src_pos_invalid "Unknown infix operator") })
    | some (opcode, rearrange) =>
      let c1 :=
        if rearrange then compile_expression_unfolded right comp
        else compile_expression_unfolded left comp
      if ¬ c1.1 then (false, c1.2)
      else
        let c2 :=
          if rearrange then compile_expression_unfolded left c1.2
          else compile_expression_unfolded right c1.2
        if ¬ c2.1 then (false, c2.2)
        else
          let comp := match infix_compare_opcode op with
            | some cmp => emit c2.2 cmp []
            | none => c2.2
          (true, emit comp opcode [])
  | EXPRESSION_NUMBER_LITERAL number, comp => (true, emit comp OPCODE_NUMBER [number])
  | EXPRESSION_STRING_LITERAL string_literal, comp => compile_string_literal comp string_literal
  | EXPRESSION_NULL_LITERAL, comp => (true, emit comp OPCODE_NULL [])
  | EXPRESSION_BOOL_LITERAL bool_literal, comp =>
    (true, emit comp (if bool_literal then OPCODE_TRUE else OPCODE_FALSE) [])
  | EXPRESSION_PREFIX op right, comp =>
    let c := compile_expression_unfolded right comp
    if ¬ c.1 then (false, c.2)
    else
      match op with
      | OPERATOR_MINUS => (true, emit c.2 OPCODE_MINUS [])
      | OPERATOR_BANG => (true, emit c.2 OPCODE_BANG [])
      | _ =>
        (false, { c.2 with errors := (errors_add_errorf c.2.errors ERROR_COMPILATION
          src_pos_invalid "Unknown prefix operator.") })
  | EXPRESSION_IDENT _, comp => (false, comp)

/-- The case `OPCODE_CONSTANT`. -/
def vm_op_constant (ape_debug : Bool) (constants : List object_t) (vm : vm_t)
    (constant_ix : Nat) : vm_goto × vm_t :=
  match constants.get? constant_ix with
  | none =>
    (vm_goto.err, { vm with errors := (errors_add_errorf vm.errors ERROR_RUNTIME
      (vm_src_position vm) ("Constant at " ++ toString constant_ix ++ " not found")) })
  | some constant => (vm_goto.next, stack_push ape_debug vm constant)

/-- The cases `OPCODE_ADD` ... `OPCODE_RSHIFT`. -/
def vm_op_binary (char_signed ape_debug : Bool) (natives : native_call_t) (vm : vm_t)
    (opcode : opcode_t) : vm_goto × vm_t :=
  let p1 := stack_pop ape_debug vm
  let right := p1.1
  let p2 := stack_pop ape_debug p1.2
  let left := p2.1
  let vm := p2.2
  let left_type := object_get_type vm.mem left
  let right_type := object_get_type vm.mem right
  if object_is_numeric vm.mem left = true ∧ object_is_numeric vm.mem right = true then
    let right_val := object_get_number right
    let left_val := object_get_number left
    let left_val_int := double_to_int64 left_val
    let right_val_int := double_to_int64 right_val
    let res : Nat :=
      match opcode with
      | OPCODE_ADD => double_add left_val right_val
      | OPCODE_SUB => double_sub left_val right_val
      | OPCODE_MUL => double_mul left_val right_val
      | OPCODE_DIV => double_div left_val right_val
      | OPCODE_MOD => fmod left_val right_val
      | OPCODE_OR => double_of_int (int64_or left_val_int right_val_int)
      | OPCODE_XOR => double_of_int (int64_xor left_val_int right_val_int)
      | OPCODE_AND => double_of_int (int64_and left_val_int right_val_int)
      | OPCODE_LSHIFT => double_of_int (int64_shl left_val_int right_val_int)
      | OPCODE_RSHIFT => double_of_int (int64_shr left_val_int right_val_int)
      | _ => double_of_int 0
    (vm_goto.next, stack_push ape_debug vm (object_make_number res))
  else if left_type = OBJECT_STRING ∧ right_type = OBJECT_STRING ∧ opcode = OPCODE_ADD then
    let left_len := object_get_string_length vm.mem left
    let right_len := object_get_string_length vm.mem right
    if left_len = 0 then (vm_goto.next, stack_push ape_debug vm right)
    else if right_len = 0 then (vm_goto.next, stack_push ape_debug vm left)
    else
      let left_val := object_get_string vm.mem left
      let right_val := object_get_string vm.mem right
      let r := object_make_string_with_capacity vm.mem (left_len + right_len)
      let res := r.1
      let vm := { vm with mem := r.2 }
      if object_is_null vm.mem res then (vm_goto.err, vm)
      else
        let a1 := object_string_append vm.mem res left_val left_len
        let vm := { vm with mem := a1.2 }
        if ¬ a1.1 then (vm_goto.err, vm)
        else
          let a2 := object_string_append vm.mem res right_val right_len
          let vm := { vm with mem := a2.2 }
          if ¬ a2.1 then (vm_goto.err, vm)
          else (vm_goto.next, stack_push ape_debug vm res)
  else
    let r := try_overload_operator char_signed ape_debug natives vm left right opcode
    let vm := r.2.2
    if ¬ r.1 then (vm_goto.err, vm)
    else if ¬ r.2.1 then
      (vm_goto.err, { vm with errors := (errors_add_errorf vm.errors ERROR_RUNTIME
        (vm_src_position vm)
        ("Invalid operand types for " ++ opcode_get_name opcode ++ ", got "
          ++ object_get_type_name left_type ++ " and " ++ object_get_type_name right_type)) })
    else (vm_goto.next, vm)

/-- The cases `OPCODE_EQUAL`, `OPCODE_NOT_EQUAL`, `OPCODE_GREATER_THAN` and
`OPCODE_GREATER_THAN_EQUAL`. -/
def vm_op_equal (ape_debug : Bool) (vm : vm_t) (opcode : opcode_t) : vm_t :=
  let p := stack_pop ape_debug vm
  let value := p.1
  let comparison_res := object_get_number value
  let res_val : Bool :=
    match opcode with
    | OPCODE_EQUAL => APE_DBLEQ comparison_res (double_of_int 0)
    | OPCODE_NOT_EQUAL => ! APE_DBLEQ comparison_res (double_of_int 0)
    | OPCODE_GREATER_THAN => double_lt (double_of_int 0) comparison_res
    | OPCODE_GREATER_THAN_EQUAL =>
      double_lt (double_of_int 0) comparison_res || APE_DBLEQ comparison_res (double_of_int 0)
    | _ => false
  stack_push ape_debug p.2 (object_make_bool res_val)

/-- The case `OPCODE_MINUS`. -/
def vm_op_minus (char_signed ape_debug : Bool) (natives : native_call_t) (vm : vm_t) :
    vm_goto × vm_t :=
  let p := stack_pop ape_debug vm
  let operand := p.1
  let vm := p.2
  let operand_type := object_get_type vm.mem operand
  if operand_type = OBJECT_NUMBER then
    let val := object_get_number operand
    (vm_goto.next, stack_push ape_debug vm (object_make_number (double_neg val)))
  else
    let r := try_overload_operator char_signed ape_debug natives vm operand object_make_null
      OPCODE_MINUS
    let vm := r.2.2
    if ¬ r.1 then (vm_goto.err, vm)
    else if ¬ r.2.1 then
      (vm_goto.err, { vm with errors := (errors_add_errorf vm.errors ERROR_RUNTIME
        (vm_src_position vm)
        ("Invalid operand type for MINUS, got " ++ object_get_type_name operand_type)) })
    else (vm_goto.next, vm)

/-- The case `OPCODE_BANG`. -/
def vm_op_bang (char_signed ape_debug : Bool) (natives : native_call_t) (vm : vm_t) :
    vm_goto × vm_t :=
  let p := stack_pop ape_debug vm
  let operand := p.1
  let vm := p.2
  let type := object_get_type vm.mem operand
  if type = OBJECT_BOOL then
    (vm_goto.next, stack_push ape_debug vm (object_make_bool (! object_get_bool operand)))
  else if type = OBJECT_NULL then
    (vm_goto.next, stack_push ape_debug vm (object_make_bool true))
  else
    let r := try_overload_operator char_signed ape_debug natives vm operand object_make_null
      OPCODE_BANG
    let vm := r.2.2
    if ¬ r.1 then (vm_goto.err, vm)
    else if ¬ r.2.1 then (vm_goto.next, stack_push ape_debug vm (object_make_bool false))
    else (vm_goto.next, vm)

/-- The `switch` of `vm_execute_function` on one instruction, for the opcodes of the code
of literal, prefix and infix expressions; `none` for an opcode that is not represented. -/
def vm_execute_instruction (char_signed ape_debug : Bool) (natives : native_call_t)
    (constants : List object_t) (vm : vm_t) (ins : instruction_t) : Option (vm_goto × vm_t) :=
  match ins.op with
  | OPCODE_CONSTANT => some (vm_op_constant ape_debug constants vm (ins.operands.headD 0))
  | OPCODE_ADD | OPCODE_SUB | OPCODE_MUL | OPCODE_DIV | OPCODE_MOD | OPCODE_OR | OPCODE_XOR
  | OPCODE_AND | OPCODE_LSHIFT | OPCODE_RSHIFT =>
    some (vm_op_binary char_signed ape_debug natives vm ins.op)
  | OPCODE_TRUE => some (vm_goto.next, stack_push ape_debug vm (object_make_bool true))
  | OPCODE_FALSE => some (vm_goto.next, stack_push ape_debug vm (object_make_bool false))
  | OPCODE_COMPARE | OPCODE_COMPARE_EQ =>
    let r := vm_op_compare char_signed ape_debug natives vm ins.op
    some (if r.1 then vm_goto.next else vm_goto.err, r.2)
  | OPCODE_EQUAL | OPCODE_NOT_EQUAL | OPCODE_GREATER_THAN | OPCODE_GREATER_THAN_EQUAL =>
    some (vm_goto.next, vm_op_equal ape_debug vm ins.op)
  | OPCODE_MINUS => some (vm_op_minus char_signed ape_debug natives vm)
  | OPCODE_BANG => some (vm_op_bang char_signed ape_debug natives vm)
  | OPCODE_NULL => some (vm_goto.next, stack_push ape_debug vm object_make_null)
  | OPCODE_NUMBER =>
    some (vm_goto.next, stack_push ape_debug vm (object_make_number (ins.operands.headD 0)))
  | _ => none

/-- The loop of `vm_execute_function` over straight-line code: the instructions are
executed in order as long as each leaves the `switch` by `break`. -/
def vm_execute_code (char_signed ape_debug : Bool) (natives : native_call_t)
    (constants : List object_t) : List instruction_t → vm_t → Option (vm_goto × vm_t)
  | [], vm => some (vm_goto.next, vm)
  | ins :: rest, vm =>
    match vm_execute_instruction char_signed ape_debug natives constants vm ins with
    | none => none
    | some (vm_goto.next, vm) => vm_execute_code char_signed ape_debug natives constants rest vm
    | some r => some r

/-- A compiler with nothing compiled yet, over the memory `mem`. -/
def compiler_empty (mem : gcmem_t) : compiler_t :=
  { mem := mem, errors := { errors := [] }, constants := [], string_constants_positions := [],
    bytecode := [] }

/-- Evaluation of the expression as written on the machine `vm`: its code, compiled over
the memory of `vm` without folding, is executed; the result is the value left on top of
the stack, with the state.  `none` when the code does not compile or the execution does
not end by leaving a value. -/
def vm_evaluate_unfolded (char_signed ape_debug : Bool) (natives : native_call_t) (vm : vm_t)
    (expr : expression_t) : Option (object_t × vm_t) :=
  let c := compile_expression_unfolded expr (compiler_empty vm.mem)
  if ¬ c.1 then none
  else
    match vm_execute_code char_signed ape_debug natives c.2.constants c.2.bytecode
        { vm with mem := c.2.mem } with
    | some (vm_goto.next, vm2) => some (vm2.stack (vm2.sp - 1), vm2)
    | _ => none

/-- The value of a literal as the machine holds it: the object of a number or boolean
literal; for a string literal, that the object is a string with the characters of the
literal. -/
def object_is_literal (mem : gcmem_t) (obj : object_t) (literal : expression_t) : Prop :=
  match literal with
  | EXPRESSION_NUMBER_LITERAL v => obj = object_make_number v
  | EXPRESSION_BOOL_LITERAL b => obj = object_make_bool b
  | EXPRESSION_STRING_LITERAL s =>
    object_get_type mem obj = OBJECT_STRING
    ∧ c_str (object_get_string mem obj) = c_str s
  | EXPRESSION_NULL_LITERAL => obj = object_make_null
  | _ => False

/-- The double 0.5. -/
def DBL_HALF : Nat := 0x3fe0000000000000

/-- The double that follows 0.5, `0.5 + 2^-53`, which the literal `0.5000000000000001`
denotes. -/
def DBL_HALF_NEXT : Nat := 0x3fe0000000000001

/-- The expression `0.5 >= 0.5000000000000001`. -/
def example_gte : expression_t :=
  EXPRESSION_INFIX OPERATOR_GTE (EXPRESSION_NUMBER_LITERAL DBL_HALF)
    (EXPRESSION_NUMBER_LITERAL DBL_HALF_NEXT)

/-! ## Import paths (collections.c)

C strings are lists of characters. -/

/-- Library function `strchr`, as a test: the character occurs in the string. -/
def strchr (s : List Char) (c : Char) : Bool := decide (c ∈ s)

/-- Library function `strstr`: the offset of the first occurrence of `needle` in `s`. -/
def strstr : List Char → List Char → Option Nat
  | [], needle => if needle = [] then some 0 else none
  | c :: s, needle =>
    if needle.isPrefixOf (c :: s) = true then some 0
    else (strstr s needle).map (fun k => k + 1)

/-- Function `kg_streq`. -/
def kg_streq (a b : List Char) : Bool := decide (a = b)

/-- The loop of `kg_split_string`: `line_start` is the rest of the string still to be
split; after a match the rest starts one character behind the match. -/
def kg_split_string_loop : Nat → List Char → List Char → Option (List (List Char))
  | 0, _, _ => none
  | fuel + 1, line_start, delimiter =>
    match strstr line_start delimiter with
    | some len =>
      (kg_split_string_loop fuel (line_start.drop (len + 1)) delimiter).map
        (fun res => line_start.take len :: res)
    | none => some [line_start]

/-- Function `kg_split_string` (allocation taken to succeed). -/
def kg_split_string (str delimiter : List Char) : Option (List (List Char)) :=
  kg_split_string_loop (str.length + 1) str delimiter

/-- Function `kg_join`: the items, with `sep` after every item but the last. -/
def kg_join : List (List Char) → List Char → List Char
  | [], _ => []
  | [item], _ => item
  | item :: next :: items, sep => item ++ sep ++ kg_join (next :: items) sep

/-- The loop of `kg_canonicalise_path` over the index `i`; after a removal the index is
set to -1 and incremented, so the loop starts again at 0. -/
def kg_canonicalise_loop : Nat → List (List Char) → Nat → Option (List (List Char))
  | 0, _, _ => none
  | fuel + 1, split, i =>
    if (i : Int) < (split.length : Int) - 1 then
      let item := split.getD i []
      let next_item := split.getD (i + 1) []
      if kg_streq item ".".toList = true then
        kg_canonicalise_loop fuel (split.eraseIdx i) 0
      else if kg_streq next_item "..".toList = true then
        kg_canonicalise_loop fuel ((split.eraseIdx i).eraseIdx i) 0
      else kg_canonicalise_loop fuel split (i + 1)
    else some split

/-- Function `kg_canonicalise_path` (allocation taken to succeed).  The loop is given
`(count + 1)^2` steps, which is enough for it to finish. -/
def kg_canonicalise_path (path : List Char) : Option (List Char) :=
  if strchr path '/' = false ∨
      ((strstr path "/../".toList).isNone = true ∧ (strstr path "./".toList).isNone = true) then
    some path
  else
    match kg_split_string path "/".toList with
    | none => none
    | some split =>
      match kg_canonicalise_loop ((split.length + 1) * (split.length + 1)) split 0 with
      | none => none
      | some split => some (kg_join split "/".toList)

/-- Function `kg_is_path_absolute`. -/
def kg_is_path_absolute (path : List Char) : Bool := decide (path.head? = some '/')

/-! ### Lexical resolution of a path, as the specification words it -/

/-- One segment applied to the directories reached so far (the last one first): `.` is a
no-op, `..` removes the preceding directory segment and is kept when there is none to
remove, any other segment is entered. -/
def spec_resolve_segment (dirs : List (List Char)) (segment : List Char) : List (List Char) :=
  if segment = ".".toList then dirs
  else if segment = "..".toList then
    match dirs with
    | [] => segment :: dirs
    | top :: below => if top = "..".toList then segment :: dirs else below
  else segment :: dirs

/-- The segments of a path: the pieces between the slashes. -/
def spec_segments : List Char → List (List Char)
  | [] => [[]]
  | c :: s =>
    if c = '/' then [] :: spec_segments s
    else
      match spec_segments s with
      | [] => [[c]]
      | segment :: segments => (c :: segment) :: segments

/-- The location a path denotes when resolved lexically against the base directory `base`
(its segments, outermost first): whether it is absolute, and the segments reached.  An
absolute path is resolved from the root, a relative one from `base`. -/
def spec_resolve (base : List (List Char)) (path : List Char) : Bool × List (List Char) :=
  if path.head? = some '/' then
    (true, ((spec_segments path.tail).foldl spec_resolve_segment []).reverse)
  else
    (false, ((spec_segments path).foldl spec_resolve_segment base.reverse).reverse)

/-- No step of the canonicalisation loop applies at any index below `i`. -/
def canon_settled (L : List (List Char)) (i : Nat) : Prop :=
  ∀ j, j < i → j + 1 < L.length →
    L.getD j [] ≠ ".".toList ∧ L.getD (j + 1) [] ≠ "..".toList

/-! ## Symbol tables (symbol_table.h, symbol_table.c, global_store.c)

A string-keyed dictionary `dict(T)` is represented by the map it implements: its keys
and values in insertion order (`keys[i]`, `values[i]`); the hash cells are left out.  The
type `κ` of the keys is the representation of the C strings used as keys: `String` for
names, lists of bytes for string literals. -/

/-- Enumeration `symbol_type_t`. -/
inductive symbol_type_t where
  | SYMBOL_NONE
  | SYMBOL_MODULE_GLOBAL
  | SYMBOL_LOCAL
  | SYMBOL_APE_GLOBAL
  | SYMBOL_FREE
  | SYMBOL_FUNCTION
  | SYMBOL_THIS
  deriving DecidableEq, Repr

open symbol_type_t

/-- Structure `symbol_t`. -/
structure symbol_t where
  type : symbol_type_t
  name : String
  index : Int
  assignable : Bool
  deriving DecidableEq, Repr

/-- Structure `dict_t_`: the items `(keys[i], values[i])` for `i < count`. -/
abbrev dict_t_ (κ α : Type) : Type := List (κ × α)

/-- Function `dict_get`: the value stored under `key`, if any. -/
def dict_get {κ α : Type} [DecidableEq κ] : dict_t_ κ α → κ → Option α
  | [], _ => none
  | (k, v) :: items, key => if k = key then some v else dict_get items key

/-- Function `dict_set`: replaces the value of an existing key, otherwise appends the
item. -/
def dict_set {κ α : Type} [DecidableEq κ] : dict_t_ κ α → κ → α → dict_t_ κ α
  | [], key, value => [(key, value)]
  | (k, v) :: items, key, value =>
    if k = key then (k, value) :: items else (k, v) :: dict_set items key value

/-- Function `dict_copy_with_items`: sets a copy of every item, in order, in a new
dictionary. -/
def dict_copy_with_items {κ α : Type} [DecidableEq κ] (copy_fn : α → α)
    (dict : dict_t_ κ α) : dict_t_ κ α :=
  dict.foldl (fun dict_copy item => dict_set dict_copy item.1 (copy_fn item.2)) []

/-- Function `ptrarray_copy_with_items`. -/
def ptrarray_copy_with_items {α : Type} (copy_fn : α → α) (arr : List α) : List α :=
  arr.foldl (fun arr_copy item => arr_copy ++ [copy_fn item]) []

/-- Function `symbol_make`. -/
def symbol_make (name : String) (type : symbol_type_t) (index : Int) (assignable : Bool) :
    symbol_t :=
  { type := type, name := name, index := index, assignable := assignable }

/-- Function `symbol_copy`. -/
def symbol_copy (symbol : symbol_t) : symbol_t :=
  symbol_make symbol.name symbol.type symbol.index symbol.assignable

/-- Structure `global_store_t`. -/
structure global_store_t where
  symbols : dict_t_ String symbol_t
  objects : List object_t

/-- Function `global_store_get_symbol`. -/
def global_store_get_symbol (store : global_store_t) (name : String) : Option symbol_t :=
  dict_get store.symbols name

/-- Structure `block_scope_t`. -/
structure block_scope_t where
  store : dict_t_ String symbol_t
  offset : Int
  num_definitions : Int
  deriving DecidableEq, Repr

/-- Structure `symbol_table_t` without its pointer `outer`.  A table is handled together
with the tables reached through `outer`, as a list: the table first, then `outer`,
`outer->outer`, ...; the last table of the list is the one with `outer == NULL`, and the
empty list stands for a NULL table.  `block_scopes` has its top scope last. -/
structure symbol_table_t where
  global_store : global_store_t
  block_scopes : List block_scope_t
  free_symbols : List symbol_t
  module_global_symbols : List symbol_t
  max_num_definitions : Int
  module_global_offset : Int

/-- Function `block_scope_make`. -/
def block_scope_make (offset : Int) : block_scope_t :=
  { store := [], offset := offset, num_definitions := 0 }

/-- Function `block_scope_copy`. -/
def block_scope_copy (scope : block_scope_t) : block_scope_t :=
  { num_definitions := scope.num_definitions, offset := scope.offset,
    store := dict_copy_with_items symbol_copy scope.store }

/-- Function `symbol_table_push_block_scope`. -/
def symbol_table_push_block_scope (table : symbol_table_t) : symbol_table_t :=
  let block_scope_offset : Int :=
    match table.block_scopes.getLast? with
    | some prev_block_scope =>
      table.module_global_offset + prev_block_scope.offset + prev_block_scope.num_definitions
    | none => table.module_global_offset
  { table with block_scopes := table.block_scopes ++ [block_scope_make block_scope_offset] }

/-- Function `symbol_table_pop_block_scope`. -/
def symbol_table_pop_block_scope (table : symbol_table_t) : symbol_table_t :=
  { table with block_scopes := table.block_scopes.dropLast }

/-- Function `symbol_table_make`, without the pointer `outer`. -/
def symbol_table_make (global_store : global_store_t) (module_global_offset : Int) :
    symbol_table_t :=
  symbol_table_push_block_scope
    { global_store := global_store, block_scopes := [], free_symbols := [],
      module_global_symbols := [], max_num_definitions := 0,
      module_global_offset := module_global_offset }

/-- Function `symbol_table_copy`: the copy has the same `outer`. -/
def symbol_table_copy (table : symbol_table_t) : symbol_table_t :=
  { global_store := table.global_store,
    block_scopes := ptrarray_copy_with_items block_scope_copy table.block_scopes,
    free_symbols := ptrarray_copy_with_items symbol_copy table.free_symbols,
    module_global_symbols := ptrarray_copy_with_items symbol_copy table.module_global_symbols,
    max_num_definitions := table.max_num_definitions,
    module_global_offset := table.module_global_offset }

/-- Function `set_symbol`; `none` when there is no block scope (the source dereferences
the NULL top scope). -/
def set_symbol (table : symbol_table_t) (symbol : symbol_t) : Option symbol_table_t :=
  match table.block_scopes.getLast? with
  | none => none
  | some top_scope =>
    some { table with block_scopes := table.block_scopes.dropLast ++
      [{ top_scope with store := dict_set top_scope.store symbol.name symbol }] }

/-- Function `next_symbol_index`; `none` when there is no block scope. -/
def next_symbol_index (table : symbol_table_t) : Option Int :=
  match table.block_scopes.getLast? with
  | none => none
  | some top_scope => some (top_scope.offset + top_scope.num_definitions)

/-- Function `count_num_definitions`. -/
def count_num_definitions (table : symbol_table_t) : Int :=
  table.block_scopes.reverse.foldl (fun count scope => count + scope.num_definitions) 0

/-- Function `symbol_table_define` on a table and its outer tables (allocation taken to
succeed).  The result is the symbol returned, NULL being `none`, and the tables
afterwards. -/
def symbol_table_define (tables : List symbol_table_t) (name : String) (assignable : Bool) :
    Option (Option symbol_t × List symbol_table_t) :=
  match tables with
  | [] => none
  | table :: outer =>
    if (global_store_get_symbol table.global_store name).isSome = true then some (none, tables)
    else if strchr name.data ':' = true then some (none, tables)
    else if name = "this" then some (none, tables)
    else
      let symbol_type := if outer.isEmpty = true then SYMBOL_MODULE_GLOBAL else SYMBOL_LOCAL
      match next_symbol_index table with
      | none => none
      | some ix =>
        let symbol := symbol_make name symbol_type ix assignable
        let table1 :=
          if symbol_type = SYMBOL_MODULE_GLOBAL ∧ table.block_scopes.length = 1 then
            { table with
              module_global_symbols := table.module_global_symbols ++ [symbol_copy symbol] }
          else table
        match set_symbol table1 symbol with
        | none => none
        | some table2 =>
          match table2.block_scopes.getLast? with
          | none => none
          | some top_scope =>
            let table3 := { table2 with block_scopes := table2.block_scopes.dropLast ++
              [{ top_scope with num_definitions := top_scope.num_definitions + 1 }] }
            let definitions_count := count_num_definitions table3
            let table4 :=
              if definitions_count > table3.max_num_definitions then
                { table3 with max_num_definitions := definitions_count }
              else table3
            some (some symbol, table4 :: outer)

/-- Function `symbol_table_define_free` (allocation taken to succeed). -/
def symbol_table_define_free (st : symbol_table_t) (original : symbol_t) :
    Option (symbol_t × symbol_table_t) :=
  let copy := symbol_make original.name original.type original.index original.assignable
  let st1 := { st with free_symbols := st.free_symbols ++ [copy] }
  let symbol := symbol_make original.name SYMBOL_FREE ((st1.free_symbols.length : Int) - 1)
    original.assignable
  match set_symbol st1 symbol with
  | none => none
  | some st2 => some (symbol, st2)

/-- Function `symbol_table_define_function_name` (allocation taken to succeed). -/
def symbol_table_define_function_name (st : symbol_table_t) (name : String)
    (assignable : Bool) : Option (Option symbol_t × symbol_table_t) :=
  if strchr name.data ':' = true then some (none, st)
  else
    let symbol := symbol_make name SYMBOL_FUNCTION 0 assignable
    match set_symbol st symbol with
    | none => none
    | some st1 => some (some symbol, st1)

/-- Function `symbol_table_define_this` (allocation taken to succeed). -/
def symbol_table_define_this (st : symbol_table_t) : Option (symbol_t × symbol_table_t) :=
  let symbol := symbol_make "this" SYMBOL_THIS 0 false
  match set_symbol st symbol with
  | none => none
  | some st1 => some (symbol, st1)

/-- The loop of `symbol_table_resolve` over the block scopes, from the top scope down:
the first symbol found under `name`. -/
def resolve_block_scopes (block_scopes : List block_scope_t) (name : String) :
    Option symbol_t :=
  block_scopes.reverse.findSome? (fun scope => dict_get scope.store name)

/-- Function `symbol_table_resolve` on a table and its outer tables (allocation taken to
succeed).  The result is the symbol returned, NULL being `none`, and the tables
afterwards. -/
def symbol_table_resolve : List symbol_table_t → String →
    Option (Option symbol_t × List symbol_table_t)
  | [], _ => none
  | table :: outer, name =>
    match global_store_get_symbol table.global_store name with
    | some symbol => some (some symbol, table :: outer)
    | none =>
      match resolve_block_scopes table.block_scopes name with
      | some symbol =>
        if symbol.type = SYMBOL_THIS then
          (symbol_table_define_free table symbol).map (fun r => (some r.1, r.2 :: outer))
        else some (some symbol, table :: outer)
      | none =>
        if outer.isEmpty = true then some (none, table :: outer)
        else
          match symbol_table_resolve outer name with
          | none => none
          | some (none, outer1) => some (none, table :: outer1)
          | some (some symbol, outer1) =>
            if symbol.type = SYMBOL_MODULE_GLOBAL ∨ symbol.type = SYMBOL_APE_GLOBAL then
              some (some symbol, table :: outer1)
            else
              (symbol_table_define_free table symbol).map
                (fun r => (some r.1, r.2 :: outer1))

/-- Function `symbol_table_symbol_is_defined`; `none` when there is no block scope. -/
def symbol_table_symbol_is_defined (table : symbol_table_t) (name : String) : Option Bool :=
  if (global_store_get_symbol table.global_store name).isSome = true then some true
  else
    match table.block_scopes.getLast? with
    | none => none
    | some top_scope => some (dict_get top_scope.store name).isSome

/-- Function `symbol_table_is_module_global_scope`, given the outer tables. -/
def symbol_table_is_module_global_scope (outer : List symbol_table_t) : Bool := outer.isEmpty

/-- Function `symbol_table_is_top_block_scope`. -/
def symbol_table_is_top_block_scope (table : symbol_table_t) : Bool :=
  decide (table.block_scopes.length = 1)

/-- Every symbol of class `This` held by a block scope is stored under the name `this`
(only `symbol_table_define_this` makes such symbols). -/
def this_under_this (table : symbol_table_t) : Prop :=
  ∀ scope ∈ table.block_scopes, ∀ key symbol,
    dict_get scope.store key = some symbol → symbol.type = SYMBOL_THIS → key = "this"

/-! ### Example tables -/

/-- A host global store with one symbol, `len`. -/
def example_store : global_store_t :=
  { symbols := [("len", symbol_make "len" SYMBOL_APE_GLOBAL 0 false)], objects := [] }

/-- A function table with two block scopes, both defining `x`. -/
def example_inner_table : symbol_table_t :=
  { global_store := example_store,
    block_scopes :=
      [{ store := [("x", symbol_make "x" SYMBOL_LOCAL 0 true)], offset := 0,
         num_definitions := 1 },
       { store := [("x", symbol_make "x" SYMBOL_LOCAL 1 true)], offset := 1,
         num_definitions := 1 }],
    free_symbols := [], module_global_symbols := [], max_num_definitions := 2,
    module_global_offset := 0 }

/-- A function table with one block scope defining the local `y` at index 3. -/
def example_middle_table : symbol_table_t :=
  { global_store := example_store,
    block_scopes :=
      [{ store := [("y", symbol_make "y" SYMBOL_LOCAL 3 true)], offset := 3,
         num_definitions := 1 }],
    free_symbols := [], module_global_symbols := [], max_num_definitions := 1,
    module_global_offset := 0 }

/-- The module table, defining the module global `g`. -/
def example_module_table : symbol_table_t :=
  { global_store := example_store,
    block_scopes :=
      [{ store := [("g", symbol_make "g" SYMBOL_MODULE_GLOBAL 0 true)], offset := 0,
         num_definitions := 1 }],
    free_symbols := [],
    module_global_symbols := [symbol_make "g" SYMBOL_MODULE_GLOBAL 0 true],
    max_num_definitions := 1, module_global_offset := 0 }

/-! ## Bytecode (code.h, code.c, frame.c) -/

/-- The value of an enumerator of `opcode_val_t`. -/
def opcode_val (op : opcode_t) : Nat :=
  match op with
  | OPCODE_NONE => 0 | OPCODE_CONSTANT => 1 | OPCODE_ADD => 2 | OPCODE_POP => 3
  | OPCODE_SUB => 4 | OPCODE_MUL => 5 | OPCODE_DIV => 6 | OPCODE_MOD => 7
  | OPCODE_TRUE => 8 | OPCODE_FALSE => 9 | OPCODE_COMPARE => 10 | OPCODE_COMPARE_EQ => 11
  | OPCODE_EQUAL => 12 | OPCODE_NOT_EQUAL => 13 | OPCODE_GREATER_THAN => 14
  | OPCODE_GREATER_THAN_EQUAL => 15 | OPCODE_MINUS => 16 | OPCODE_BANG => 17
  | OPCODE_JUMP => 18 | OPCODE_JUMP_IF_FALSE => 19 | OPCODE_JUMP_IF_TRUE => 20
  | OPCODE_NULL => 21 | OPCODE_GET_MODULE_GLOBAL => 22 | OPCODE_SET_MODULE_GLOBAL => 23
  | OPCODE_DEFINE_MODULE_GLOBAL => 24 | OPCODE_ARRAY => 25 | OPCODE_MAP_START => 26
  | OPCODE_MAP_END => 27 | OPCODE_GET_THIS => 28 | OPCODE_GET_INDEX => 29
  | OPCODE_SET_INDEX => 30 | OPCODE_GET_VALUE_AT => 31 | OPCODE_CALL => 32
  | OPCODE_RETURN_VALUE => 33 | OPCODE_RETURN => 34 | OPCODE_GET_LOCAL => 35
  | OPCODE_DEFINE_LOCAL => 36 | OPCODE_SET_LOCAL => 37 | OPCODE_GET_APE_GLOBAL => 38
  | OPCODE_FUNCTION => 39 | OPCODE_GET_FREE => 40 | OPCODE_SET_FREE => 41
  | OPCODE_CURRENT_FUNCTION => 42 | OPCODE_DUP => 43 | OPCODE_NUMBER => 44 | OPCODE_LEN => 45
  | OPCODE_SET_RECOVER => 46 | OPCODE_OR => 47 | OPCODE_XOR => 48 | OPCODE_AND => 49
  | OPCODE_LSHIFT => 50 | OPCODE_RSHIFT => 51 | OPCODE_MAX => 52

/-- The enumerator of `opcode_val_t` with the value of a byte, if any. -/
def opcode_of_val (val : Nat) : Option opcode_t :=
  [OPCODE_NONE, OPCODE_CONSTANT, OPCODE_ADD, OPCODE_POP, OPCODE_SUB, OPCODE_MUL, OPCODE_DIV,
   OPCODE_MOD, OPCODE_TRUE, OPCODE_FALSE, OPCODE_COMPARE, OPCODE_COMPARE_EQ, OPCODE_EQUAL,
   OPCODE_NOT_EQUAL, OPCODE_GREATER_THAN, OPCODE_GREATER_THAN_EQUAL, OPCODE_MINUS, OPCODE_BANG,
   OPCODE_JUMP, OPCODE_JUMP_IF_FALSE, OPCODE_JUMP_IF_TRUE, OPCODE_NULL,
   OPCODE_GET_MODULE_GLOBAL, OPCODE_SET_MODULE_GLOBAL, OPCODE_DEFINE_MODULE_GLOBAL,
   OPCODE_ARRAY, OPCODE_MAP_START, OPCODE_MAP_END, OPCODE_GET_THIS, OPCODE_GET_INDEX,
   OPCODE_SET_INDEX, OPCODE_GET_VALUE_AT, OPCODE_CALL, OPCODE_RETURN_VALUE, OPCODE_RETURN,
   OPCODE_GET_LOCAL, OPCODE_DEFINE_LOCAL, OPCODE_SET_LOCAL, OPCODE_GET_APE_GLOBAL,
   OPCODE_FUNCTION, OPCODE_GET_FREE, OPCODE_SET_FREE, OPCODE_CURRENT_FUNCTION, OPCODE_DUP,
   OPCODE_NUMBER, OPCODE_LEN, OPCODE_SET_RECOVER, OPCODE_OR, OPCODE_XOR, OPCODE_AND,
   OPCODE_LSHIFT, OPCODE_RSHIFT, OPCODE_MAX].get? val

/-- Structure `opcode_definition_t`. -/
structure opcode_definition_t where
  name : String
  num_operands : Nat
  operand_widths : List Nat
  deriving DecidableEq, Repr

/-- The array `g_definitions`. -/
def g_definitions (op : opcode_t) : opcode_definition_t :=
  match op with
  | OPCODE_NONE => { name := "NONE", num_operands := 0, operand_widths := [0] }
  | OPCODE_CONSTANT => { name := "CONSTANT", num_operands := 1, operand_widths := [2] }
  | OPCODE_ADD => { name := "ADD", num_operands := 0, operand_widths := [0] }
  | OPCODE_POP => { name := "POP", num_operands := 0, operand_widths := [0] }
  | OPCODE_SUB => { name := "SUB", num_operands := 0, operand_widths := [0] }
  | OPCODE_MUL => { name := "MUL", num_operands := 0, operand_widths := [0] }
  | OPCODE_DIV => { name := "DIV", num_operands := 0, operand_widths := [0] }
  | OPCODE_MOD => { name := "MOD", num_operands := 0, operand_widths := [0] }
  | OPCODE_TRUE => { name := "TRUE", num_operands := 0, operand_widths := [0] }
  | OPCODE_FALSE => { name := "FALSE", num_operands := 0, operand_widths := [0] }
  | OPCODE_COMPARE => { name := "COMPARE", num_operands := 0, operand_widths := [0] }
  | OPCODE_COMPARE_EQ => { name := "COMPARE_EQ", num_operands := 0, operand_widths := [0] }
  | OPCODE_EQUAL => { name := "EQUAL", num_operands := 0, operand_widths := [0] }
  | OPCODE_NOT_EQUAL => { name := "NOT_EQUAL", num_operands := 0, operand_widths := [0] }
  | OPCODE_GREATER_THAN => { name := "GREATER_THAN", num_operands := 0, operand_widths := [0] }
  | OPCODE_GREATER_THAN_EQUAL =>
    { name := "GREATER_THAN_EQUAL", num_operands := 0, operand_widths := [0] }
  | OPCODE_MINUS => { name := "MINUS", num_operands := 0, operand_widths := [0] }
  | OPCODE_BANG => { name := "BANG", num_operands := 0, operand_widths := [0] }
  | OPCODE_JUMP => { name := "JUMP", num_operands := 1, operand_widths := [2] }
  | OPCODE_JUMP_IF_FALSE => { name := "JUMP_IF_FALSE", num_operands := 1, operand_widths := [2] }
  | OPCODE_JUMP_IF_TRUE => { name := "JUMP_IF_TRUE", num_operands := 1, operand_widths := [2] }
  | OPCODE_NULL => { name := "NULL", num_operands := 0, operand_widths := [0] }
  | OPCODE_GET_MODULE_GLOBAL =>
    { name := "GET_MODULE_GLOBAL", num_operands := 1, operand_widths := [2] }
  | OPCODE_SET_MODULE_GLOBAL =>
    { name := "SET_MODULE_GLOBAL", num_operands := 1, operand_widths := [2] }
  | OPCODE_DEFINE_MODULE_GLOBAL =>
    { name := "DEFINE_MODULE_GLOBAL", num_operands := 1, operand_widths := [2] }
  | OPCODE_ARRAY => { name := "ARRAY", num_operands := 1, operand_widths := [2] }
  | OPCODE_MAP_START => { name := "MAP_START", num_operands := 1, operand_widths := [2] }
  | OPCODE_MAP_END => { name := "MAP_END", num_operands := 1, operand_widths := [2] }
  | OPCODE_GET_THIS => { name := "GET_THIS", num_operands := 0, operand_widths := [0] }
  | OPCODE_GET_INDEX => { name := "GET_INDEX", num_operands := 0, operand_widths := [0] }
  | OPCODE_SET_INDEX => { name := "SET_INDEX", num_operands := 0, operand_widths := [0] }
  | OPCODE_GET_VALUE_AT => { name := "GET_VALUE_AT", num_operands := 0, operand_widths := [0] }
  | OPCODE_CALL => { name := "CALL", num_operands := 1, operand_widths := [1] }
  | OPCODE_RETURN_VALUE => { name := "RETURN_VALUE", num_operands := 0, operand_widths := [0] }
  | OPCODE_RETURN => { name := "RETURN", num_operands := 0, operand_widths := [0] }
  | OPCODE_GET_LOCAL => { name := "GET_LOCAL", num_operands := 1, operand_widths := [1] }
  | OPCODE_DEFINE_LOCAL => { name := "DEFINE_LOCAL", num_operands := 1, operand_widths := [1] }
  | OPCODE_SET_LOCAL => { name := "SET_LOCAL", num_operands := 1, operand_widths := [1] }
  | OPCODE_GET_APE_GLOBAL => { name := "GET_APE_GLOBAL", num_operands := 1, operand_widths := [2] }
  | OPCODE_FUNCTION => { name := "FUNCTION", num_operands := 2, operand_widths := [2, 1] }
  | OPCODE_GET_FREE => { name := "GET_FREE", num_operands := 1, operand_widths := [1] }
  | OPCODE_SET_FREE => { name := "SET_FREE", num_operands := 1, operand_widths := [1] }
  | OPCODE_CURRENT_FUNCTION =>
    { name := "CURRENT_FUNCTION", num_operands := 0, operand_widths := [0] }
  | OPCODE_DUP => { name := "DUP", num_operands := 0, operand_widths := [0] }
  | OPCODE_NUMBER => { name := "NUMBER", num_operands := 1, operand_widths := [8] }
  | OPCODE_LEN => { name := "LEN", num_operands := 0, operand_widths := [0] }
  | OPCODE_SET_RECOVER => { name := "SET_RECOVER", num_operands := 1, operand_widths := [2] }
  | OPCODE_OR => { name := "OR", num_operands := 0, operand_widths := [0] }
  | OPCODE_XOR => { name := "XOR", num_operands := 0, operand_widths := [0] }
  | OPCODE_AND => { name := "AND", num_operands := 0, operand_widths := [0] }
  | OPCODE_LSHIFT => { name := "LSHIFT", num_operands := 0, operand_widths := [0] }
  | OPCODE_RSHIFT => { name := "RSHIFT", num_operands := 0, operand_widths := [0] }
  | OPCODE_MAX => { name := "INVALID_MAX", num_operands := 0, operand_widths := [0] }

/-- Function `opcode_lookup`; `none` for NULL. -/
def opcode_lookup (op : opcode_t) : Option opcode_definition_t :=
  if opcode_val op ≤ opcode_val OPCODE_NONE ∨ opcode_val op ≥ opcode_val OPCODE_MAX then none
  else some (g_definitions op)

/-- The macro `APPEND_BYTE(n)` of `code_make`: byte `n` of the operand. -/
def APPEND_BYTE (operand n : Nat) : Nat := (operand / 2 ^ (n * 8)) % 256

/-- The bytes `code_make` appends for one operand of the given width, the most significant
byte first; nothing at `default`. -/
def code_make_operand (width operand : Nat) : List Nat :=
  match width with
  | 1 => [APPEND_BYTE operand 0]
  | 2 => [APPEND_BYTE operand 1, APPEND_BYTE operand 0]
  | 4 => [APPEND_BYTE operand 3, APPEND_BYTE operand 2, APPEND_BYTE operand 1,
          APPEND_BYTE operand 0]
  | 8 => [APPEND_BYTE operand 7, APPEND_BYTE operand 6, APPEND_BYTE operand 5,
          APPEND_BYTE operand 4, APPEND_BYTE operand 3, APPEND_BYTE operand 2,
          APPEND_BYTE operand 1, APPEND_BYTE operand 0]
  | _ => []

/-- The loop of `code_make` over the operands, from index `i`. -/
def code_make_operands (widths : List Nat) : Nat → List Nat → List Nat
  | _, [] => []
  | i, operand :: operands =>
    code_make_operand (widths.getD i 0) operand ++ code_make_operands widths (i + 1) operands

/-- Function `code_make` (the array taken to grow): the length returned and the bytes
appended to `res`; the length is 0, and nothing is appended, for an opcode without a
definition. -/
def code_make (op : opcode_t) (operands : List Nat) : Nat × List Nat :=
  match opcode_lookup op with
  | none => (0, [])
  | some definition =>
    let instr_len := 1 + ((definition.operand_widths.take definition.num_operands).foldl
      (fun len width => len + width) 0)
    (instr_len, opcode_val op :: code_make_operands definition.operand_widths 0 operands)

/-- The byte `frame->bytecode[ip]`; 0 stands for a byte outside the array. -/
def frame_byte (frame : frame_t) (ip : Int) : Nat :=
  if ip < 0 then 0 else frame.bytecode.getD ip.toNat 0

/-- Function `frame_read_opcode`: the byte read and the frame. -/
def frame_read_opcode (frame : frame_t) : Nat × frame_t :=
  frame_read_uint8 { frame with src_ip := frame.ip }

/-- Function `frame_read_uint16`: the value read and the frame. -/
def frame_read_uint16 (frame : frame_t) : Nat × frame_t :=
  (frame_byte frame frame.ip * 256 + frame_byte frame (frame.ip + 1),
    { frame with ip := frame.ip + 2 })

/-- Function `frame_read_uint64`: the value read and the frame. -/
def frame_read_uint64 (frame : frame_t) : Nat × frame_t :=
  (frame_byte frame (frame.ip + 7) + frame_byte frame (frame.ip + 6) * 2 ^ 8
      + frame_byte frame (frame.ip + 5) * 2 ^ 16 + frame_byte frame (frame.ip + 4) * 2 ^ 24
      + frame_byte frame (frame.ip + 3) * 2 ^ 32 + frame_byte frame (frame.ip + 2) * 2 ^ 40
      + frame_byte frame (frame.ip + 1) * 2 ^ 48 + frame_byte frame frame.ip * 2 ^ 56,
    { frame with ip := frame.ip + 8 })

/-! ## The cases of `vm_execute_function` on globals, locals, free values, arrays, maps and
functions (vm.c)

The arrays `globals` and `stack` are read and written at the index the bytecode gives,
as the source does, also where it is outside the array. -/

/-- Function `vm_set_global`. -/
def vm_set_global (vm : vm_t) (ix : Int) (val : object_t) : Bool × vm_t :=
  if ix ≥ VM_MAX_GLOBALS then
    (false, { vm with errors := (errors_add_error vm.errors ERROR_RUNTIME (vm_src_position vm)
      "Global write out of range") })
  else
    let vm := { vm with globals := fun i => if i = ix then val else vm.globals i }
    if ix ≥ vm.globals_count then (true, { vm with globals_count := ix + 1 }) else (true, vm)

/-- Function `vm_get_global`. -/
def vm_get_global (vm : vm_t) (ix : Int) : object_t × vm_t :=
  if ix ≥ VM_MAX_GLOBALS then
    (object_make_null,
      { vm with errors := (errors_add_error vm.errors ERROR_RUNTIME (vm_src_position vm)
        "Global read out of range") })
  else (vm.globals ix, vm)

/-- Function `this_stack_get`. -/
def this_stack_get (ape_debug : Bool) (vm : vm_t) (nth_item : Int) : object_t × vm_t :=
  let ix := vm.this_sp - 1 - nth_item
  if ape_debug = true ∧ (ix < 0 ∨ ix ≥ VM_THIS_STACK_SIZE) then
    (object_make_null,
      { vm with errors := (errors_add_errorf vm.errors ERROR_RUNTIME (vm_src_position vm)
          ("Invalid this stack index: " ++ toString nth_item)) })
  else (vm.this_stack ix, vm)

/-- Function `object_get_kv_pair_at`: the map made and the memory. -/
def object_get_kv_pair_at (char_signed : Bool) (mem : gcmem_t) (object : object_t) (ix : Int) :
    object_t × gcmem_t :=
  if ix ≥ (valdict_count (mem.deref (object_get_allocated_data object)).map : Int) then
    (object_make_null, mem)
  else
    let key := object_get_map_key_at mem object (ix % 2 ^ 32).toNat
    let val := object_get_map_value_at mem object (ix % 2 ^ 32).toNat
    let res := object_make_map mem
    if object_is_null res.2 res.1 then (object_make_null, res.2)
    else
      let key_obj := object_make_string res.2 [107, 101, 121, 0]
      if object_is_null key_obj.2 key_obj.1 then (object_make_null, key_obj.2)
      else
        let mem := (object_set_map_value char_signed key_obj.2 res.1 key_obj.1 key).2
        let val_obj := object_make_string mem [118, 97, 108, 117, 101, 0]
        if object_is_null val_obj.2 val_obj.1 then (object_make_null, val_obj.2)
        else (res.1, (object_set_map_value char_signed val_obj.2 res.1 val_obj.1 val).2)

/-- The case `OPCODE_DEFINE_MODULE_GLOBAL`. -/
def vm_op_define_module_global (ape_debug : Bool) (vm : vm_t) : vm_goto × vm_t :=
  let r := frame_read_uint16 (vm_current vm)
  let ix : Int := r.1
  let vm := vm_set_current vm r.2
  let p := stack_pop ape_debug vm
  let value := p.1
  (vm_goto.next, (vm_set_global p.2 ix value).2)

/-- The case `OPCODE_SET_MODULE_GLOBAL`. -/
def vm_op_set_module_global (ape_debug : Bool) (vm : vm_t) : vm_goto × vm_t :=
  let r := frame_read_uint16 (vm_current vm)
  let ix : Int := r.1
  let vm := vm_set_current vm r.2
  let p := stack_pop ape_debug vm
  let new_value := p.1
  let g := vm_get_global p.2 ix
  let old_value := g.1
  let c := check_assign g.2 old_value new_value
  if ¬ c.1 then (vm_goto.err, c.2)
  else (vm_goto.next, (vm_set_global c.2 ix new_value).2)

/-- The case `OPCODE_GET_MODULE_GLOBAL`. -/
def vm_op_get_module_global (ape_debug : Bool) (vm : vm_t) : vm_goto × vm_t :=
  let r := frame_read_uint16 (vm_current vm)
  let ix : Int := r.1
  let vm := vm_set_current vm r.2
  let global := vm.globals ix
  (vm_goto.next, stack_push ape_debug vm global)

/-- The loop of the case `OPCODE_ARRAY` over the items. -/
def vm_op_array_loop (array_obj : object_t) : gcmem_t → List object_t → Bool × gcmem_t
  | mem, [] => (true, mem)
  | mem, item :: items =>
    let r := object_add_array_value mem array_obj item
    if ¬ r.1 then (false, r.2) else vm_op_array_loop array_obj r.2 items

/-- The case `OPCODE_ARRAY`. -/
def vm_op_array (ape_debug : Bool) (vm : vm_t) : vm_goto × vm_t :=
  let r := frame_read_uint16 (vm_current vm)
  let count := r.1
  let vm := vm_set_current vm r.2
  let made := object_make_array_with_capacity vm.mem count
  let array_obj := made.1
  let vm := { vm with mem := made.2 }
  if object_is_null vm.mem array_obj = true then (vm_goto.err, vm)
  else
    let items := (List.range count).map fun i => vm.stack (vm.sp - count + i)
    let added := vm_op_array_loop array_obj vm.mem items
    let vm := { vm with mem := added.2 }
    if ¬ added.1 then (vm_goto.err, vm)
    else
      let vm := set_sp vm (vm.sp - count)
      (vm_goto.next, stack_push ape_debug vm array_obj)

/-- The case `OPCODE_MAP_START`. -/
def vm_op_map_start (ape_debug : Bool) (vm : vm_t) : vm_goto × vm_t :=
  let r := frame_read_uint16 (vm_current vm)
  let count := r.1
  let vm := vm_set_current vm r.2
  let made := object_make_map_with_capacity vm.mem count
  let map_obj := made.1
  let vm := { vm with mem := made.2 }
  if object_is_null vm.mem map_obj = true then (vm_goto.err, vm)
  else (vm_goto.next, this_stack_push ape_debug vm map_obj)

/-- The case `OPCODE_GET_THIS`. -/
def vm_op_get_this (ape_debug : Bool) (vm : vm_t) : vm_goto × vm_t :=
  let g := this_stack_get ape_debug vm 0
  (vm_goto.next, stack_push ape_debug g.2 g.1)

/-- The case `OPCODE_GET_INDEX`. -/
def vm_op_get_index (char_signed ape_debug : Bool) (vm : vm_t) : vm_goto × vm_t :=
  let p1 := stack_pop ape_debug vm
  let index := p1.1
  let p2 := stack_pop ape_debug p1.2
  let left := p2.1
  let vm := p2.2
  let left_type := object_get_type vm.mem left
  let index_type := object_get_type vm.mem index
  let left_type_name := object_get_type_name left_type
  let index_type_name := object_get_type_name index_type
  if left_type ≠ OBJECT_ARRAY ∧ left_type ≠ OBJECT_MAP ∧ left_type ≠ OBJECT_STRING then
    (vm_goto.err,
      { vm with errors := (errors_add_errorf vm.errors ERROR_RUNTIME (vm_src_position vm)
        ("Type " ++ left_type_name ++ " is not indexable")) })
  else if left_type = OBJECT_ARRAY then
    if index_type ≠ OBJECT_NUMBER then
      (vm_goto.err,
        { vm with errors := (errors_add_errorf vm.errors ERROR_RUNTIME (vm_src_position vm)
          ("Cannot index " ++ left_type_name ++ " with " ++ index_type_name)) })
    else
      let ix := double_to_int (object_get_number index)
      let ix := if ix < 0 then object_get_array_length vm.mem left + ix else ix
      let res :=
        if ix ≥ 0 ∧ ix < object_get_array_length vm.mem left then
          object_get_array_value_at vm.mem left ix
        else object_make_null
      (vm_goto.next, stack_push ape_debug vm res)
  else if left_type = OBJECT_MAP then
    let g := object_get_map_value char_signed vm.mem left index
    (vm_goto.next, stack_push ape_debug { vm with mem := g.2 } g.1)
  else
    let str := object_get_string vm.mem left
    let left_len := object_get_string_length vm.mem left
    let ix := double_to_int (object_get_number index)
    if ix ≥ 0 ∧ ix < left_len then
      let made := object_make_string vm.mem [str.getD ix.toNat 0, 0]
      (vm_goto.next, stack_push ape_debug { vm with mem := made.2 } made.1)
    else (vm_goto.next, stack_push ape_debug vm object_make_null)

/-- The case `OPCODE_GET_VALUE_AT`. -/
def vm_op_get_value_at (char_signed ape_debug : Bool) (vm : vm_t) : vm_goto × vm_t :=
  let p1 := stack_pop ape_debug vm
  let index := p1.1
  let p2 := stack_pop ape_debug p1.2
  let left := p2.1
  let vm := p2.2
  let left_type := object_get_type vm.mem left
  let index_type := object_get_type vm.mem index
  let left_type_name := object_get_type_name left_type
  let index_type_name := object_get_type_name index_type
  if left_type ≠ OBJECT_ARRAY ∧ left_type ≠ OBJECT_MAP ∧ left_type ≠ OBJECT_STRING then
    (vm_goto.err,
      { vm with errors := (errors_add_errorf vm.errors ERROR_RUNTIME (vm_src_position vm)
        ("Type " ++ left_type_name ++ " is not indexable")) })
  else if index_type ≠ OBJECT_NUMBER then
    (vm_goto.err,
      { vm with errors := (errors_add_errorf vm.errors ERROR_RUNTIME (vm_src_position vm)
        ("Cannot index " ++ left_type_name ++ " with " ++ index_type_name)) })
  else
    let ix := double_to_int (object_get_number index)
    if left_type = OBJECT_ARRAY then
      (vm_goto.next, stack_push ape_debug vm (object_get_array_value_at vm.mem left ix))
    else if left_type = OBJECT_MAP then
      let g := object_get_kv_pair_at char_signed vm.mem left ix
      (vm_goto.next, stack_push ape_debug { vm with mem := g.2 } g.1)
    else
      let str := object_get_string vm.mem left
      let left_len := object_get_string_length vm.mem left
      if ix ≥ 0 ∧ ix < left_len then
        let made := object_make_string vm.mem [str.getD ix.toNat 0, 0]
        (vm_goto.next, stack_push ape_debug { vm with mem := made.2 } made.1)
      else (vm_goto.next, stack_push ape_debug vm object_make_null)

/-- The case `OPCODE_DEFINE_LOCAL`. -/
def vm_op_define_local (ape_debug : Bool) (vm : vm_t) : vm_goto × vm_t :=
  let r := frame_read_uint8 (vm_current vm)
  let pos : Int := r.1
  let vm := vm_set_current vm r.2
  let slot := (vm_current vm).base_pointer + pos
  let p := stack_pop ape_debug vm
  (vm_goto.next, { p.2 with stack := fun i => if i = slot then p.1 else p.2.stack i })

/-- The case `OPCODE_SET_LOCAL`. -/
def vm_op_set_local (ape_debug : Bool) (vm : vm_t) : vm_goto × vm_t :=
  let r := frame_read_uint8 (vm_current vm)
  let pos : Int := r.1
  let vm := vm_set_current vm r.2
  let p := stack_pop ape_debug vm
  let new_value := p.1
  let vm := p.2
  let slot := (vm_current vm).base_pointer + pos
  let old_value := vm.stack slot
  let c := check_assign vm old_value new_value
  if ¬ c.1 then (vm_goto.err, c.2)
  else
    (vm_goto.next, { c.2 with stack := fun i => if i = slot then new_value else c.2.stack i })

/-- The case `OPCODE_GET_LOCAL`. -/
def vm_op_get_local (ape_debug : Bool) (vm : vm_t) : vm_goto × vm_t :=
  let r := frame_read_uint8 (vm_current vm)
  let pos : Int := r.1
  let vm := vm_set_current vm r.2
  let val := vm.stack ((vm_current vm).base_pointer + pos)
  (vm_goto.next, stack_push ape_debug vm val)

/-- The case `OPCODE_GET_APE_GLOBAL`; `store_objects` is the array `objects` of the global
store. -/
def vm_op_get_ape_global (ape_debug : Bool) (store_objects : List object_t) (vm : vm_t) :
    vm_goto × vm_t :=
  let r := frame_read_uint16 (vm_current vm)
  let ix := r.1
  let vm := vm_set_current vm r.2
  match store_objects.get? ix with
  | none =>
    (vm_goto.err,
      { vm with errors := (errors_add_errorf vm.errors ERROR_RUNTIME (vm_src_position vm)
        ("Global value " ++ toString ix ++ " not found")) })
  | some val => (vm_goto.next, stack_push ape_debug vm val)

/-- The case `OPCODE_FUNCTION`. -/
def vm_op_function (ape_debug : Bool) (constants : List object_t) (vm : vm_t) :
    vm_goto × vm_t :=
  let r := frame_read_uint16 (vm_current vm)
  let constant_ix := r.1
  let r8 := frame_read_uint8 r.2
  let num_free := r8.1
  let vm := vm_set_current vm r8.2
  match constants.get? constant_ix with
  | none =>
    (vm_goto.err,
      { vm with errors := (errors_add_errorf vm.errors ERROR_RUNTIME (vm_src_position vm)
        ("Constant " ++ toString constant_ix ++ " not found")) })
  | some constant =>
    let constant_type := object_get_type vm.mem constant
    if constant_type ≠ OBJECT_FUNCTION then
      let type_name := object_get_type_name constant_type
      (vm_goto.err,
        { vm with errors := (errors_add_errorf vm.errors ERROR_RUNTIME (vm_src_position vm)
          (type_name ++ " is not a function")) })
    else
      let constant_function := object_get_function vm.mem constant
      let made := object_make_function vm.mem (object_get_function_name vm.mem constant)
        constant_function.comp_result false constant_function.num_locals
        constant_function.num_args num_free
      let function_obj := made.1
      let vm := { vm with mem := made.2 }
      if object_is_null vm.mem function_obj = true then (vm_goto.err, vm)
      else
        let mem := (List.range num_free).foldl
          (fun mem i =>
            object_set_function_free_val mem function_obj i (vm.stack (vm.sp - num_free + i)))
          vm.mem
        let vm := set_sp { vm with mem := mem } (vm.sp - num_free)
        (vm_goto.next, stack_push ape_debug vm function_obj)

/-- The case `OPCODE_GET_FREE`. -/
def vm_op_get_free (ape_debug : Bool) (vm : vm_t) : vm_goto × vm_t :=
  let r := frame_read_uint8 (vm_current vm)
  let free_ix : Int := r.1
  let vm := vm_set_current vm r.2
  let val := object_get_function_free_val vm.mem (vm_current vm).function free_ix
  (vm_goto.next, stack_push ape_debug vm val)

/-- The case `OPCODE_SET_FREE`. -/
def vm_op_set_free (ape_debug : Bool) (vm : vm_t) : vm_goto × vm_t :=
  let r := frame_read_uint8 (vm_current vm)
  let free_ix : Int := r.1
  let vm := vm_set_current vm r.2
  let p := stack_pop ape_debug vm
  let val := p.1
  let vm := p.2
  (vm_goto.next,
    { vm with mem := object_set_function_free_val vm.mem (vm_current vm).function free_ix val })

/-- The case `OPCODE_CURRENT_FUNCTION`. -/
def vm_op_current_function (ape_debug : Bool) (vm : vm_t) : vm_goto × vm_t :=
  let current_function := (vm_current vm).function
  (vm_goto.next, stack_push ape_debug vm current_function)

/-- The case `OPCODE_LEN`. -/
def vm_op_len (ape_debug : Bool) (vm : vm_t) : vm_goto × vm_t :=
  let p := stack_pop ape_debug vm
  let val := p.1
  let vm := p.2
  let type := object_get_type vm.mem val
  if type = OBJECT_ARRAY then
    (vm_goto.next, stack_push ape_debug vm
      (object_make_number (double_of_int (object_get_array_length vm.mem val))))
  else if type = OBJECT_MAP then
    (vm_goto.next, stack_push ape_debug vm
      (object_make_number (double_of_int (object_get_map_length vm.mem val))))
  else if type = OBJECT_STRING then
    (vm_goto.next, stack_push ape_debug vm
      (object_make_number (double_of_int (object_get_string_length vm.mem val))))
  else
    let type_name := object_get_type_name type
    (vm_goto.err,
      { vm with errors := (errors_add_errorf vm.errors ERROR_RUNTIME (vm_src_position vm)
        ("Cannot get length of " ++ type_name)) })

/-! ## The syntax tree and the compiler (ast.h, optimisation.c, compilation_scope.c,
compiler.c)

The definitions of this part are in the namespace `compiler`.  They translate the
compiler on the whole syntax tree and at the level of the bytes of the code; the
definitions `expression_t`, `optimise_expression`, `compiler_t` and `emit` above are the
part of it for literal, prefix and infix expressions, with the code as a list of
instructions.

Source positions are not represented: the tree carries none, every node is taken to be at
`src_pos_zero`, which is then the position of every error and of every byte of code. -/

/-- Constant `src_pos_zero`. -/
def src_pos_zero : src_pos_t := { file := 0, line := 0, column := 0 }

namespace compiler

mutual
/-- Structure `expression_t`.  A number literal is the 64-bit pattern of the double, a
string literal the bytes of the string, an identifier its name; `name` of a function
literal is `none` for NULL. -/
inductive expression_t where
  | EXPRESSION_IDENT (ident : String)
  | EXPRESSION_NUMBER_LITERAL (number_literal : Nat)
  | EXPRESSION_BOOL_LITERAL (bool_literal : Bool)
  | EXPRESSION_STRING_LITERAL (string_literal : List Nat)
  | EXPRESSION_NULL_LITERAL
  | EXPRESSION_ARRAY_LITERAL (array : List expression_t)
  | EXPRESSION_MAP_LITERAL (keys : List expression_t) (values : List expression_t)
  | EXPRESSION_PREFIX (op : operator_t) (right : expression_t)
  | EXPRESSION_INFIX (op : operator_t) (left right : expression_t)
  | EXPRESSION_FUNCTION_LITERAL (name : Option String) (params : List String)
      (body : List statement_t)
  | EXPRESSION_CALL (function : expression_t) (args : List expression_t)
  | EXPRESSION_INDEX (left index : expression_t)
  | EXPRESSION_ASSIGN (dest source : expression_t) ( is_postfix : Bool)
  | EXPRESSION_LOGICAL (op : operator_t) (left right : expression_t)
  | EXPRESSION_TERNARY (test if_true if_false : expression_t)
/-- Structure `statement_t`.  A `code_block_t` is the list of its statements, an
`if_case_t` the pair of its test and its consequence; an expression or statement that may
be NULL is an `Option`. -/
inductive statement_t where
  | STATEMENT_DEFINE (name : String) (value : expression_t) (assignable : Bool)
  | STATEMENT_IF (cases : List (expression_t × List statement_t))
      (alternative : Option (List statement_t))
  | STATEMENT_RETURN_VALUE (return_value : Option expression_t)
  | STATEMENT_EXPRESSION (expression : expression_t)
  | STATEMENT_WHILE_LOOP (test : expression_t) (body : List statement_t)
  | STATEMENT_BREAK
  | STATEMENT_CONTINUE
  | STATEMENT_FOREACH (iterator : String) (source : expression_t) (body : List statement_t)
  | STATEMENT_FOR_LOOP (init : Option statement_t) (test update : Option expression_t)
      (body : List statement_t)
  | STATEMENT_BLOCK (block : List statement_t)
  | STATEMENT_IMPORT (path : String)
  | STATEMENT_RECOVER (error_ident : String) (body : List statement_t)
end

/-- The test `type == EXPRESSION_NUMBER_LITERAL || type == EXPRESSION_BOOL_LITERAL` of
`optimise_infix_expression`. -/
def expression_is_numeric : expression_t → Bool
  | .EXPRESSION_NUMBER_LITERAL _ => true
  | .EXPRESSION_BOOL_LITERAL _ => true
  | _ => false

/-- The value `type == EXPRESSION_NUMBER_LITERAL ? number_literal : bool_literal` of
`optimise_infix_expression`, as a double. -/
def expression_numeric_value : expression_t → Nat
  | .EXPRESSION_NUMBER_LITERAL number_literal => number_literal
  | .EXPRESSION_BOOL_LITERAL bool_literal =>
    if bool_literal = true then double_of_int 1 else double_of_int 0
  | _ => double_of_int 0

/-- The body of `optimise_infix_expression` after the operands have been optimised. -/
def optimise_infix_operands (op : operator_t) (left right : expression_t) :
    Option expression_t :=
  if expression_is_numeric left = true ∧ expression_is_numeric right = true then
    let left_val := expression_numeric_value left
    let right_val := expression_numeric_value right
    let left_val_int := double_to_int64 left_val
    let right_val_int := double_to_int64 right_val
    match op with
    | OPERATOR_PLUS => some (.EXPRESSION_NUMBER_LITERAL (double_add left_val right_val))
    | OPERATOR_MINUS => some (.EXPRESSION_NUMBER_LITERAL (double_sub left_val right_val))
    | OPERATOR_ASTERISK => some (.EXPRESSION_NUMBER_LITERAL (double_mul left_val right_val))
    | OPERATOR_SLASH => some (.EXPRESSION_NUMBER_LITERAL (double_div left_val right_val))
    | OPERATOR_LT => some (.EXPRESSION_BOOL_LITERAL (double_lt left_val right_val))
    | OPERATOR_LTE => some (.EXPRESSION_BOOL_LITERAL (double_le left_val right_val))
    | OPERATOR_GT => some (.EXPRESSION_BOOL_LITERAL (double_lt right_val left_val))
    | OPERATOR_GTE => some (.EXPRESSION_BOOL_LITERAL (double_le right_val left_val))
    | OPERATOR_EQ => some (.EXPRESSION_BOOL_LITERAL (APE_DBLEQ left_val right_val))
    | OPERATOR_NOT_EQ => some (.EXPRESSION_BOOL_LITERAL (! APE_DBLEQ left_val right_val))
    | OPERATOR_MODULUS => some (.EXPRESSION_NUMBER_LITERAL (fmod left_val right_val))
    | OPERATOR_BIT_AND =>
      some (.EXPRESSION_NUMBER_LITERAL (double_of_int (int64_and left_val_int right_val_int)))
    | OPERATOR_BIT_OR =>
      some (.EXPRESSION_NUMBER_LITERAL (double_of_int (int64_or left_val_int right_val_int)))
    | OPERATOR_BIT_XOR =>
      some (.EXPRESSION_NUMBER_LITERAL (double_of_int (int64_xor left_val_int right_val_int)))
    | OPERATOR_LSHIFT =>
      some (.EXPRESSION_NUMBER_LITERAL (double_of_int (int64_shl left_val_int right_val_int)))
    | OPERATOR_RSHIFT =>
      some (.EXPRESSION_NUMBER_LITERAL (double_of_int (int64_shr left_val_int right_val_int)))
    | _ => none
  else
    match op, left, right with
    | OPERATOR_PLUS, .EXPRESSION_STRING_LITERAL left_val, .EXPRESSION_STRING_LITERAL right_val =>
      some (.EXPRESSION_STRING_LITERAL (c_str left_val ++ c_str right_val))
    | _, _, _ => none

/-- The body of `optimise_prefix_expression` after the operand has been optimised. -/
def optimise_prefix_operand (op : operator_t) (right : expression_t) : Option expression_t :=
  match op, right with
  | OPERATOR_MINUS, .EXPRESSION_NUMBER_LITERAL number_literal =>
    some (.EXPRESSION_NUMBER_LITERAL (double_neg number_literal))
  | OPERATOR_BANG, .EXPRESSION_BOOL_LITERAL bool_literal =>
    some (.EXPRESSION_BOOL_LITERAL (! bool_literal))
  | _, _ => none

/-- Function `optimise_expression`, with `optimise_infix_expression` and
`optimise_prefix_expression`; `none` for NULL (allocation taken to succeed). -/
def optimise_expression : expression_t → Option expression_t
  | .EXPRESSION_INFIX op left right =>
    let left := match optimise_expression left with
      | some left_optimised => left_optimised
      | none => left
    let right := match optimise_expression right with
      | some right_optimised => right_optimised
      | none => right
    optimise_infix_operands op left right
  | .EXPRESSION_PREFIX op right =>
    let right := match optimise_expression right with
      | some right_optimised => right_optimised
      | none => right
    optimise_prefix_operand op right
  | _ => none

end compiler

namespace compiler

/-- Structure `compilation_scope_t` without its pointer `outer`.  As for the symbol
tables, a scope is handled together with the scopes reached through `outer`, as a list
with the scope itself first; the empty list stands for a NULL scope. -/
structure compilation_scope_t where
  bytecode : List Nat
  src_positions : List src_pos_t
  break_ip_stack : List Int
  continue_ip_stack : List Int
  last_opcode : opcode_t
  deriving DecidableEq, Repr

/-- Function `compilation_scope_make`, without the pointer `outer`. -/
def compilation_scope_make : compilation_scope_t :=
  { bytecode := [], src_positions := [], break_ip_stack := [], continue_ip_stack := [],
    last_opcode := OPCODE_NONE }

/-- Function `compilation_scope_orphan_result`: the result and the scope, whose arrays
are left empty. -/
def compilation_scope_orphan_result (scope : compilation_scope_t) :
    compilation_result_t × compilation_scope_t :=
  ({ bytecode := scope.bytecode, src_positions := scope.src_positions,
     count := scope.bytecode.length },
   { scope with bytecode := [], src_positions := [] })

/-- Structure `compiled_file_t`; the lines are not represented. -/
structure compiled_file_t where
  dir_path : String
  path : String
  deriving DecidableEq, Repr

/-- Function `compiled_file_make`: `dir_path` is the path up to its last slash, the slash
included, and empty for a path without a slash. -/
def compiled_file_make (path : String) : compiled_file_t :=
  { dir_path := String.mk (path.data.reverse.dropWhile (fun c => c ≠ '/')).reverse,
    path := path }

/-- Function `get_module_name`: what follows the last slash of the path. -/
def get_module_name (path : String) : String :=
  String.mk (path.data.reverse.takeWhile (fun c => c ≠ '/')).reverse

/-- Structure `module_t`. -/
structure module_t where
  name : String
  symbols : List symbol_t
  deriving DecidableEq, Repr

/-- Function `module_make`. -/
def module_make (name : String) : module_t := { name := name, symbols := [] }

/-- Function `module_copy`. -/
def module_copy (src : module_t) : module_t :=
  { name := src.name, symbols := ptrarray_copy_with_items symbol_copy src.symbols }

/-- Function `module_add_symbol`. -/
def module_add_symbol (module : module_t) (symbol : symbol_t) : module_t :=
  { module with symbols := module.symbols ++
      [symbol_make (module.name ++ "::" ++ symbol.name) SYMBOL_MODULE_GLOBAL symbol.index
        false] }

/-- Structure `file_scope_t`; `symbol_table` is the table with its outer tables, the
parser is not represented. -/
structure file_scope_t where
  symbol_table : List symbol_table_t
  file : compiled_file_t
  loaded_module_names : List String

/-- Structure `compiler_t`, with the `gcmem_t`, the `errors_t`, the list of files and the
`global_store_t` it points to.  `compilation_scope` is the current scope with its outer
scopes, `file_scopes` has its top scope last. -/
structure compiler_t where
  mem : gcmem_t
  errors : errors_t
  files : List compiled_file_t
  global_store : global_store_t
  constants : List object_t
  compilation_scope : List compilation_scope_t
  file_scopes : List file_scope_t
  modules : dict_t_ String module_t
  string_constants_positions : dict_t_ (List Nat) Int

/-- What the compiler calls outside the sources at hand: `parser_parse_all` (parser.c),
which gives the statements of a source text, or NULL after adding its errors, and the
function `config->fileio.read_file.read_file` of the host, `none` when it is not set. -/
structure host_t where
  parser_parse_all : String → errors_t → Option (List statement_t) × errors_t
  read_file : Option (String → Option String)

/-- The conversion of an `int` to `uint64_t`. -/
def uint64_of_int (x : Int) : Nat := (x % 2 ^ 64).toNat

/-- The statements `ok = ...; if (!ok) { return false; }`: `rest` goes on from the state
the call leaves when it returned true. -/
def ok_then (r : Option (Bool × compiler_t)) (rest : compiler_t → Option (Bool × compiler_t)) :
    Option (Bool × compiler_t) :=
  match r with
  | none => none
  | some (ok, comp) => if ok = true then rest comp else some (false, comp)

/-- Function `get_ip`; `none` when the compilation scope is NULL. -/
def get_ip (comp : compiler_t) : Option Int :=
  match comp.compilation_scope with
  | [] => none
  | compilation_scope :: _ => some compilation_scope.bytecode.length

/-- Function `emit` (the arrays taken to grow): the value returned and the compiler;
`none` when the compilation scope is NULL. -/
def emit (comp : compiler_t) (op : opcode_t) (operands : List Nat) :
    Option (Int × compiler_t) :=
  match comp.compilation_scope with
  | [] => none
  | compilation_scope :: outer =>
    let ip : Int := compilation_scope.bytecode.length
    let made := code_make op operands
    if made.1 = 0 then some (-1, comp)
    else
      some (ip, { comp with compilation_scope :=
        { compilation_scope with
          bytecode := compilation_scope.bytecode ++ made.2
          src_positions := compilation_scope.src_positions ++ List.replicate made.1 src_pos_zero
          last_opcode := op } :: outer })

/-- The statements `ip = emit(comp, op, ...); if (ip < 0) { return false; }`. -/
def emit_ok (comp : compiler_t) (op : opcode_t) (operands : List Nat) :
    Option (Bool × compiler_t) :=
  (emit comp op operands).map (fun r => (decide (r.1 ≥ 0), r.2))

/-- The statements `ip = emit(comp, op, ...); if (ip < 0) { return false; }` where `rest`
uses the value `ip`. -/
def emit_then (comp : compiler_t) (op : opcode_t) (operands : List Nat)
    (rest : Int → compiler_t → Option (Bool × compiler_t)) : Option (Bool × compiler_t) :=
  match emit comp op operands with
  | none => none
  | some (ip, comp) => if ip < 0 then some (false, comp) else rest ip comp

/-- Function `array_set` on the bytes: nothing is done for an index outside the array. -/
def array_set_byte (bytecode : List Nat) (ix : Int) (value : Nat) : List Nat :=
  if 0 ≤ ix ∧ ix < bytecode.length then bytecode.set ix.toNat value else bytecode

/-- Function `change_uint16_operand`; the operand is converted to `uint16_t` at the call.
`none` when the compilation scope is NULL. -/
def change_uint16_operand (comp : compiler_t) (ip : Int) (operand : Int) :
    Option compiler_t :=
  match comp.compilation_scope with
  | [] => none
  | compilation_scope :: outer =>
    let operand : Nat := (operand % 65536).toNat
    if ip + 1 ≥ compilation_scope.bytecode.length then some comp
    else
      let hi := (operand / 256) % 256
      let lo := operand % 256
      some { comp with compilation_scope :=
        { compilation_scope with
          bytecode := array_set_byte (array_set_byte compilation_scope.bytecode ip hi)
            (ip + 1) lo } :: outer }

/-- Function `get_last_opcode`; `none` when the compilation scope is NULL. -/
def get_last_opcode (comp : compiler_t) : Option opcode_t :=
  match comp.compilation_scope with
  | [] => none
  | compilation_scope :: _ => some compilation_scope.last_opcode

/-- Function `last_opcode_is`. -/
def last_opcode_is (comp : compiler_t) (op : opcode_t) : Option Bool :=
  (get_last_opcode comp).map (fun last_opcode => decide (last_opcode = op))

/-- Function `push_compilation_scope`. -/
def push_compilation_scope (comp : compiler_t) : compiler_t :=
  { comp with compilation_scope := compilation_scope_make :: comp.compilation_scope }

/-- Function `pop_compilation_scope`; `none` when the compilation scope is NULL. -/
def pop_compilation_scope (comp : compiler_t) : Option compiler_t :=
  match comp.compilation_scope with
  | [] => none
  | _ :: outer => some { comp with compilation_scope := outer }

/-- A write to the current compilation scope; `none` when it is NULL. -/
def update_compilation_scope (comp : compiler_t)
    (f : compilation_scope_t → compilation_scope_t) : Option compiler_t :=
  match comp.compilation_scope with
  | [] => none
  | compilation_scope :: outer =>
    some { comp with compilation_scope := f compilation_scope :: outer }

/-- Function `push_break_ip`. -/
def push_break_ip (comp : compiler_t) (ip : Int) : Option compiler_t :=
  update_compilation_scope comp
    (fun scope => { scope with break_ip_stack := scope.break_ip_stack ++ [ip] })

/-- Function `pop_break_ip`. -/
def pop_break_ip (comp : compiler_t) : Option compiler_t :=
  update_compilation_scope comp
    (fun scope => { scope with break_ip_stack := scope.break_ip_stack.dropLast })

/-- Function `get_break_ip`. -/
def get_break_ip (comp : compiler_t) : Option Int :=
  match comp.compilation_scope with
  | [] => none
  | compilation_scope :: _ => some (compilation_scope.break_ip_stack.getLast?.getD (-1))

/-- Function `push_continue_ip`. -/
def push_continue_ip (comp : compiler_t) (ip : Int) : Option compiler_t :=
  update_compilation_scope comp
    (fun scope => { scope with continue_ip_stack := scope.continue_ip_stack ++ [ip] })

/-- Function `pop_continue_ip`. -/
def pop_continue_ip (comp : compiler_t) : Option compiler_t :=
  update_compilation_scope comp
    (fun scope => { scope with continue_ip_stack := scope.continue_ip_stack.dropLast })

/-- Function `get_continue_ip`. -/
def get_continue_ip (comp : compiler_t) : Option Int :=
  match comp.compilation_scope with
  | [] => none
  | compilation_scope :: _ => some (compilation_scope.continue_ip_stack.getLast?.getD (-1))

/-- Function `compiler_get_symbol_table`: the table of the top file scope with its outer
tables; the empty list for NULL. -/
def compiler_get_symbol_table (comp : compiler_t) : List symbol_table_t :=
  match comp.file_scopes.getLast? with
  | none => []
  | some file_scope => file_scope.symbol_table

/-- Function `compiler_set_symbol_table`. -/
def compiler_set_symbol_table (comp : compiler_t) (table : List symbol_table_t) :
    compiler_t :=
  match comp.file_scopes.getLast? with
  | none => comp
  | some file_scope =>
    { comp with file_scopes :=
        comp.file_scopes.dropLast ++ [{ file_scope with symbol_table := table }] }

/-- A write through the pointer to the current symbol table; `none` when it is NULL. -/
def update_symbol_table (comp : compiler_t) (f : symbol_table_t → symbol_table_t) :
    Option compiler_t :=
  match compiler_get_symbol_table comp with
  | [] => none
  | table :: outer => some (compiler_set_symbol_table comp (f table :: outer))

/-- Function `push_symbol_table`. -/
def push_symbol_table (comp : compiler_t) (global_offset : Int) : Bool × compiler_t :=
  match comp.file_scopes.getLast? with
  | none => (false, comp)
  | some file_scope =>
    (true, compiler_set_symbol_table comp
      (symbol_table_make comp.global_store global_offset :: file_scope.symbol_table))

/-- Function `pop_symbol_table`. -/
def pop_symbol_table (comp : compiler_t) : compiler_t :=
  match comp.file_scopes.getLast? with
  | none => comp
  | some file_scope =>
    match file_scope.symbol_table with
    | [] => comp
    | _ :: outer => compiler_set_symbol_table comp outer

/-- Function `add_constant` (the array taken to grow): the position and the compiler. -/
def add_constant (comp : compiler_t) (obj : object_t) : Int × compiler_t :=
  (((comp.constants ++ [obj]).length : Int) - 1, { comp with constants := comp.constants ++ [obj] })

/-- An error of type `ERROR_COMPILATION` added to the errors of the compiler. -/
def add_error (comp : compiler_t) (message : String) : compiler_t :=
  { comp with errors := errors_add_errorf comp.errors ERROR_COMPILATION src_pos_zero message }

/-- Function `read_symbol`. -/
def read_symbol (comp : compiler_t) (symbol : symbol_t) : Option (Bool × compiler_t) :=
  match symbol.type with
  | SYMBOL_MODULE_GLOBAL => emit_ok comp OPCODE_GET_MODULE_GLOBAL [uint64_of_int symbol.index]
  | SYMBOL_APE_GLOBAL => emit_ok comp OPCODE_GET_APE_GLOBAL [uint64_of_int symbol.index]
  | SYMBOL_LOCAL => emit_ok comp OPCODE_GET_LOCAL [uint64_of_int symbol.index]
  | SYMBOL_FREE => emit_ok comp OPCODE_GET_FREE [uint64_of_int symbol.index]
  | SYMBOL_FUNCTION => emit_ok comp OPCODE_CURRENT_FUNCTION []
  | SYMBOL_THIS => emit_ok comp OPCODE_GET_THIS []
  | SYMBOL_NONE => some (false, comp)

/-- Function `write_symbol`. -/
def write_symbol (comp : compiler_t) (symbol : symbol_t) (define : Bool) :
    Option (Bool × compiler_t) :=
  match symbol.type with
  | SYMBOL_MODULE_GLOBAL =>
    if define = true then
      emit_ok comp OPCODE_DEFINE_MODULE_GLOBAL [uint64_of_int symbol.index]
    else emit_ok comp OPCODE_SET_MODULE_GLOBAL [uint64_of_int symbol.index]
  | SYMBOL_LOCAL =>
    if define = true then emit_ok comp OPCODE_DEFINE_LOCAL [uint64_of_int symbol.index]
    else emit_ok comp OPCODE_SET_LOCAL [uint64_of_int symbol.index]
  | SYMBOL_FREE => emit_ok comp OPCODE_SET_FREE [uint64_of_int symbol.index]
  | _ => some (false, comp)

/-- Function `symbol_table_is_top_global_scope`, on a table with its outer tables. -/
def symbol_table_is_top_global_scope (table : symbol_table_t) (outer : List symbol_table_t) :
    Bool :=
  symbol_table_is_module_global_scope outer && symbol_table_is_top_block_scope table

/-- Function `define_symbol`: the symbol returned, `none` for NULL, and the compiler. -/
def define_symbol (comp : compiler_t) (name : String) (assignable can_shadow : Bool) :
    Option (Option symbol_t × compiler_t) :=
  match compiler_get_symbol_table comp with
  | [] => none
  | table :: outer =>
    let resolved :=
      if can_shadow = false ∧ symbol_table_is_top_global_scope table outer = false then
        symbol_table_resolve (table :: outer) name
      else some (none, table :: outer)
    match resolved with
    | none => none
    | some (some _, tables) =>
      some (none, add_error (compiler_set_symbol_table comp tables)
        ("Symbol \"" ++ name ++ "\" is already defined"))
    | some (none, tables) =>
      match symbol_table_define tables name assignable with
      | none => none
      | some (none, tables) =>
        some (none, add_error (compiler_set_symbol_table comp tables)
          ("Cannot define symbol \"" ++ name ++ "\""))
      | some (some symbol, tables) => some (some symbol, compiler_set_symbol_table comp tables)

/-- The statements `symbol = define_symbol(...); if (!symbol) { return false; }` where
`rest` uses the symbol. -/
def define_symbol_then (comp : compiler_t) (name : String) (assignable can_shadow : Bool)
    (rest : symbol_t → compiler_t → Option (Bool × compiler_t)) : Option (Bool × compiler_t) :=
  match define_symbol comp name assignable can_shadow with
  | none => none
  | some (none, comp) => some (false, comp)
  | some (some symbol, comp) => rest symbol comp

/-- Function `symbol_table_add_module_symbol`, on the current table of the compiler. -/
def symbol_table_add_module_symbol (st : symbol_table_t) (symbol : symbol_t) :
    Option (Bool × symbol_table_t) :=
  if symbol.type ≠ SYMBOL_MODULE_GLOBAL then some (false, st)
  else
    match symbol_table_symbol_is_defined st symbol.name with
    | none => none
    | some true => some (true, st)
    | some false => (set_symbol st (symbol_copy symbol)).map (fun st => (true, st))

/-- Function `file_scope_make`. -/
def file_scope_make (file : compiled_file_t) : file_scope_t :=
  { symbol_table := [], file := file, loaded_module_names := [] }

/-- Function `push_file_scope` (allocation taken to succeed); `none` when the table of
the previous scope has no block scope. -/
def push_file_scope (comp : compiler_t) (filepath : String) : Option (Bool × compiler_t) :=
  let prev_st := if comp.file_scopes.length > 0 then compiler_get_symbol_table comp else []
  let file := compiled_file_make filepath
  let comp := { comp with files := comp.files ++ [file] }
  let comp := { comp with file_scopes := comp.file_scopes ++ [file_scope_make file] }
  let global_offset : Option Int :=
    match prev_st with
    | [] => some 0
    | prev_table :: _ =>
      match prev_table.block_scopes.getLast? with
      | none => none
      | some prev_st_top_scope =>
        some (prev_st_top_scope.offset + prev_st_top_scope.num_definitions)
  match global_offset with
  | none => none
  | some global_offset => some (push_symbol_table comp global_offset)

/-- Function `pop_file_scope`; `none` where the source dereferences a NULL table or
block scope. -/
def pop_file_scope (comp : compiler_t) : Option compiler_t :=
  match compiler_get_symbol_table comp with
  | [] => none
  | popped_st :: _ =>
    match popped_st.block_scopes.getLast? with
    | none => none
    | some popped_st_top_scope =>
      let popped_num_defs := popped_st_top_scope.num_definitions
      let comp := compiler_set_symbol_table comp []
      match comp.file_scopes.getLast? with
      | none => some comp
      | some _ =>
        let comp := { comp with file_scopes := comp.file_scopes.dropLast }
        if comp.file_scopes.length > 0 then
          match compiler_get_symbol_table comp with
          | [] => none
          | current_st :: outer =>
            match current_st.block_scopes.getLast? with
            | none => none
            | some current_st_top_scope =>
              some (compiler_set_symbol_table comp
                ({ current_st with block_scopes := current_st.block_scopes.dropLast ++
                    [{ current_st_top_scope with
                       num_definitions :=
                         current_st_top_scope.num_definitions + popped_num_defs }] } :: outer))
        else some comp

/-- The loop of `import_module` that adds the symbols of the module to the symbol
table. -/
def add_module_symbols : List symbol_t → symbol_table_t → Option (Bool × symbol_table_t)
  | [], st => some (true, st)
  | symbol :: symbols, st =>
    match symbol_table_add_module_symbol st symbol with
    | none => none
    | some (false, st) => some (false, st)
    | some (true, st) => add_module_symbols symbols st

/-- The loop of `compile_expression` over the operands of an infix expression: the code
of the first `switch`, the opcode and whether the operands are swapped. -/
def infix_operands (op : operator_t) (left right : expression_t) :
    Option (opcode_t × expression_t × expression_t) :=
  match infix_opcode op with
  | none => none
  | some (opcode, rearrange) =>
    some (opcode, if rearrange = true then right else left,
      if rearrange = true then left else right)

/-- The loops of `compile_expression` over the values of an array literal and over the
arguments of a call. -/
def compile_expressions (compile_expression : expression_t → compiler_t → Option (Bool × compiler_t)) :
    List expression_t → compiler_t → Option (Bool × compiler_t)
  | [], comp => some (true, comp)
  | expr :: exprs, comp =>
    ok_then (compile_expression expr comp) fun comp =>
    compile_expressions compile_expression exprs comp

/-- The loop of the case `EXPRESSION_MAP_LITERAL` over the keys; `none` when there is
a key without a value. -/
def compile_map_items (compile_expression : expression_t → compiler_t → Option (Bool × compiler_t)) :
    List expression_t → List expression_t → compiler_t → Option (Bool × compiler_t)
  | [], _, comp => some (true, comp)
  | _ :: _, [], _ => none
  | key :: keys, val :: values, comp =>
    ok_then (compile_expression key comp) fun comp =>
    ok_then (compile_expression val comp) fun comp =>
    compile_map_items compile_expression keys values comp

/-- The loop of `compile_statements` over the statements. -/
def compile_statements_loop (compile_statement : statement_t → compiler_t → Option (Bool × compiler_t)) :
    List statement_t → compiler_t → Option (Bool × compiler_t)
  | [], comp => some (true, comp)
  | stmt :: statements, comp =>
    ok_then (compile_statement stmt comp) fun comp =>
    compile_statements_loop compile_statement statements comp

/-- The loop of the case `STATEMENT_IF` over the cases: `has_alternative` tells whether
the statement has an alternative, `jump_to_end_ips` are the jumps recorded so far. -/
def compile_if_cases
    (compile_expression : expression_t → compiler_t → Option (Bool × compiler_t))
    (compile_code_block : List statement_t → compiler_t → Option (Bool × compiler_t)) :
    List (expression_t × List statement_t) → Bool → List Int → compiler_t →
    Option (Bool × List Int × compiler_t)
  | [], _, jump_to_end_ips, comp => some (true, jump_to_end_ips, comp)
  | (test, consequence) :: cases, has_alternative, jump_to_end_ips, comp =>
    match compile_expression test comp with
    | none => none
    | some (false, comp) => some (false, jump_to_end_ips, comp)
    | some (true, comp) =>
      match emit comp OPCODE_JUMP_IF_FALSE [0xbeef] with
      | none => none
      | some (next_case_jump_ip, comp) =>
        match compile_code_block consequence comp with
        | none => none
        | some (false, comp) => some (false, jump_to_end_ips, comp)
        | some (true, comp) =>
          let jumped : Option (List Int × compiler_t) :=
            if cases.isEmpty = false ∨ has_alternative = true then
              (emit comp OPCODE_JUMP [0xbeef]).map
                fun (r : Int × compiler_t) => (jump_to_end_ips ++ [r.1], r.2)
            else some (jump_to_end_ips, comp)
          match jumped with
          | none => none
          | some (jump_to_end_ips, comp) =>
            match get_ip comp with
            | none => none
            | some after_elif_ip =>
              match change_uint16_operand comp (next_case_jump_ip + 1) after_elif_ip with
              | none => none
              | some comp =>
                compile_if_cases compile_expression compile_code_block cases has_alternative
                  jump_to_end_ips comp

/-- The case `STATEMENT_IF` of `compile_statement`. -/
def compile_statement_if
    (compile_expression : expression_t → compiler_t → Option (Bool × compiler_t))
    (compile_code_block : List statement_t → compiler_t → Option (Bool × compiler_t))
    (cases : List (expression_t × List statement_t))
    (alternative : Option (List statement_t)) (comp : compiler_t) :
    Option (Bool × compiler_t) :=
  match compile_if_cases compile_expression compile_code_block cases alternative.isSome [] comp with
  | none => none
  | some (false, _, comp) => some (false, comp)
  | some (true, jump_to_end_ips, comp) =>
    ok_then
      (match alternative with
        | some alternative => compile_code_block alternative comp
        | none => some (true, comp)) fun comp =>
    (get_ip comp).bind fun after_alt_ip =>
    (jump_to_end_ips.foldl
      (fun comp pos => comp.bind fun comp => change_uint16_operand comp (pos + 1) after_alt_ip)
      (some comp)).map fun comp => (true, comp)

/-- The case `STATEMENT_RETURN_VALUE` of `compile_statement`. -/
def compile_statement_return_value
    (compile_expression : expression_t → compiler_t → Option (Bool × compiler_t))
    (return_value : Option expression_t) (comp : compiler_t) :
    Option (Bool × compiler_t) :=
  match comp.compilation_scope with
  | [] => none
  | [_] => some (false, add_error comp "Nothing to return from")
  | _ :: _ :: _ =>
    match return_value with
    | some return_value =>
      ok_then (compile_expression return_value comp) fun comp =>
      emit_ok comp OPCODE_RETURN_VALUE []
    | none => emit_ok comp OPCODE_RETURN []

/-- The case `STATEMENT_WHILE_LOOP` of `compile_statement`. -/
def compile_statement_while_loop
    (compile_expression : expression_t → compiler_t → Option (Bool × compiler_t))
    (compile_code_block : List statement_t → compiler_t → Option (Bool × compiler_t))
    (test : expression_t) (body : List statement_t) (comp : compiler_t) :
    Option (Bool × compiler_t) :=
  (get_ip comp).bind fun before_test_ip =>
  ok_then (compile_expression test comp) fun comp =>
  (get_ip comp).bind fun after_test_ip =>
  ok_then (emit_ok comp OPCODE_JUMP_IF_TRUE [uint64_of_int (after_test_ip + 6)]) fun comp =>
  emit_then comp OPCODE_JUMP [0xdead] fun jump_to_after_body_ip comp =>
  (push_continue_ip comp before_test_ip).bind fun comp =>
  (push_break_ip comp jump_to_after_body_ip).bind fun comp =>
  ok_then (compile_code_block body comp) fun comp =>
  (pop_break_ip comp).bind fun comp =>
  (pop_continue_ip comp).bind fun comp =>
  ok_then (emit_ok comp OPCODE_JUMP [uint64_of_int before_test_ip]) fun comp =>
  (get_ip comp).bind fun after_body_ip =>
  (change_uint16_operand comp (jump_to_after_body_ip + 1) after_body_ip).map fun comp =>
  (true, comp)

/-- The part of the case `STATEMENT_FOREACH` that gives the symbol of the source: the
symbol resolved for an identifier, otherwise the symbol `@source` defined for the value
of the expression.  The symbol is `none` where the case returns false. -/
def compile_foreach_source
    (compile_expression : expression_t → compiler_t → Option (Bool × compiler_t))
    (source : expression_t) (comp : compiler_t) : Option (Option symbol_t × compiler_t) :=
  match source with
  | .EXPRESSION_IDENT ident =>
    match symbol_table_resolve (compiler_get_symbol_table comp) ident with
    | none => none
    | some (none, tables) =>
      some (none, add_error (compiler_set_symbol_table comp tables)
        ("Symbol \"" ++ ident ++ "\" could not be resolved"))
    | some (some source_symbol, tables) =>
      some (some source_symbol, compiler_set_symbol_table comp tables)
  | _ =>
    match compile_expression source comp with
    | none => none
    | some (false, comp) => some (none, comp)
    | some (true, comp) =>
      match define_symbol comp "@source" false true with
      | none => none
      | some (none, comp) => some (none, comp)
      | some (some source_symbol, comp) =>
        match write_symbol comp source_symbol true with
        | none => none
        | some (false, comp) => some (none, comp)
        | some (true, comp) => some (some source_symbol, comp)

/-- The part `// Update` of the case `STATEMENT_FOREACH`; `rest` uses `update_ip`. -/
def compile_foreach_update (index_symbol : symbol_t) (comp : compiler_t)
    (rest : Int → compiler_t → Option (Bool × compiler_t)) : Option (Bool × compiler_t) :=
  emit_then comp OPCODE_JUMP [0xbeef] fun jump_to_after_update_ip comp =>
  (get_ip comp).bind fun update_ip =>
  ok_then (read_symbol comp index_symbol) fun comp =>
  ok_then (emit_ok comp OPCODE_NUMBER [double_of_int 1]) fun comp =>
  ok_then (emit_ok comp OPCODE_ADD []) fun comp =>
  ok_then (write_symbol comp index_symbol false) fun comp =>
  (get_ip comp).bind fun after_update_ip =>
  (change_uint16_operand comp (jump_to_after_update_ip + 1) after_update_ip).bind fun comp =>
  rest update_ip comp

/-- The part `// Test` of the case `STATEMENT_FOREACH`, up to the definition of the
iterator; `rest` uses `jump_to_after_body_ip`. -/
def compile_foreach_test (iterator : String) (index_symbol source_symbol : symbol_t)
    (comp : compiler_t) (rest : Int → compiler_t → Option (Bool × compiler_t)) :
    Option (Bool × compiler_t) :=
  ok_then (read_symbol comp source_symbol) fun comp =>
  ok_then (emit_ok comp OPCODE_LEN []) fun comp =>
  ok_then (read_symbol comp index_symbol) fun comp =>
  ok_then (emit_ok comp OPCODE_COMPARE []) fun comp =>
  ok_then (emit_ok comp OPCODE_EQUAL []) fun comp =>
  (get_ip comp).bind fun after_test_ip =>
  ok_then (emit_ok comp OPCODE_JUMP_IF_FALSE [uint64_of_int (after_test_ip + 6)]) fun comp =>
  emit_then comp OPCODE_JUMP [0xdead] fun jump_to_after_body_ip comp =>
  ok_then (read_symbol comp source_symbol) fun comp =>
  ok_then (read_symbol comp index_symbol) fun comp =>
  ok_then (emit_ok comp OPCODE_GET_VALUE_AT []) fun comp =>
  define_symbol_then comp iterator false false fun iter_symbol comp =>
  ok_then (write_symbol comp iter_symbol true) fun comp =>
  rest jump_to_after_body_ip comp

/-- The part `// Body` of the case `STATEMENT_FOREACH`, to the end of the case. -/
def compile_foreach_body
    (compile_code_block : List statement_t → compiler_t → Option (Bool × compiler_t))
    (body : List statement_t) (update_ip jump_to_after_body_ip : Int) (comp : compiler_t) :
    Option (Bool × compiler_t) :=
  (push_continue_ip comp update_ip).bind fun comp =>
  (push_break_ip comp jump_to_after_body_ip).bind fun comp =>
  ok_then (compile_code_block body comp) fun comp =>
  (pop_break_ip comp).bind fun comp =>
  (pop_continue_ip comp).bind fun comp =>
  ok_then (emit_ok comp OPCODE_JUMP [uint64_of_int update_ip]) fun comp =>
  (get_ip comp).bind fun after_body_ip =>
  (change_uint16_operand comp (jump_to_after_body_ip + 1) after_body_ip).bind fun comp =>
  (update_symbol_table comp symbol_table_pop_block_scope).map fun comp => (true, comp)

/-- The case `STATEMENT_FOREACH` of `compile_statement`. -/
def compile_statement_foreach
    (compile_expression : expression_t → compiler_t → Option (Bool × compiler_t))
    (compile_code_block : List statement_t → compiler_t → Option (Bool × compiler_t))
    (iterator : String) (source : expression_t) (body : List statement_t) (comp : compiler_t) :
    Option (Bool × compiler_t) :=
  (update_symbol_table comp symbol_table_push_block_scope).bind fun comp =>
  define_symbol_then comp "@i" false true fun index_symbol comp =>
  ok_then (emit_ok comp OPCODE_NUMBER [0]) fun comp =>
  ok_then (write_symbol comp index_symbol true) fun comp =>
  match compile_foreach_source compile_expression source comp with
  | none => none
  | some (none, comp) => some (false, comp)
  | some (some source_symbol, comp) =>
    compile_foreach_update index_symbol comp fun update_ip comp =>
    compile_foreach_test iterator index_symbol source_symbol comp
      fun jump_to_after_body_ip comp =>
    compile_foreach_body compile_code_block body update_ip jump_to_after_body_ip comp

/-- The case `STATEMENT_FOR_LOOP` of `compile_statement`. -/
def compile_statement_for_loop
    (compile_statement : statement_t → compiler_t → Option (Bool × compiler_t))
    (compile_expression : expression_t → compiler_t → Option (Bool × compiler_t))
    (compile_code_block : List statement_t → compiler_t → Option (Bool × compiler_t))
    (init : Option statement_t) (test update : Option expression_t)
    (body : List statement_t) (comp : compiler_t) :
    Option (Bool × compiler_t) :=
  (update_symbol_table comp symbol_table_push_block_scope).bind fun comp =>
  let init_result : Option (Bool × Int × compiler_t) :=
    match init with
    | some init =>
      match compile_statement init comp with
      | none => none
      | some (false, comp) => some (false, 0, comp)
      | some (true, comp) =>
        match emit comp OPCODE_JUMP [0xbeef] with
        | none => none
        | some (jump_to_after_update_ip, comp) =>
          some (decide (jump_to_after_update_ip ≥ 0), jump_to_after_update_ip, comp)
    | none => some (true, 0, comp)
  match init_result with
  | none => none
  | some (false, _, comp) => some (false, comp)
  | some (true, jump_to_after_update_ip, comp) =>
    (get_ip comp).bind fun update_ip =>
    ok_then
      (match update with
        | some update =>
          ok_then (compile_expression update comp) fun comp =>
          emit_ok comp OPCODE_POP []
        | none => some (true, comp)) fun comp =>
    (if init.isSome = true then
        (get_ip comp).bind fun after_update_ip =>
        change_uint16_operand comp (jump_to_after_update_ip + 1) after_update_ip
      else some comp).bind fun comp =>
    ok_then
      (match test with
        | some test => compile_expression test comp
        | none => emit_ok comp OPCODE_TRUE []) fun comp =>
    (get_ip comp).bind fun after_test_ip =>
    ok_then (emit_ok comp OPCODE_JUMP_IF_TRUE [uint64_of_int (after_test_ip + 6)])
      fun comp =>
    emit_then comp OPCODE_JUMP [0xdead] fun jmp_to_after_body_ip comp =>
    (push_continue_ip comp update_ip).bind fun comp =>
    (push_break_ip comp jmp_to_after_body_ip).bind fun comp =>
    ok_then (compile_code_block body comp) fun comp =>
    (pop_break_ip comp).bind fun comp =>
    (pop_continue_ip comp).bind fun comp =>
    ok_then (emit_ok comp OPCODE_JUMP [uint64_of_int update_ip]) fun comp =>
    (get_ip comp).bind fun after_body_ip =>
    (change_uint16_operand comp (jmp_to_after_body_ip + 1) after_body_ip).bind fun comp =>
    (update_symbol_table comp symbol_table_pop_block_scope).map fun comp => (true, comp)

/-- The case `STATEMENT_RECOVER` of `compile_statement`. -/
def compile_statement_recover
    (compile_code_block : List statement_t → compiler_t → Option (Bool × compiler_t))
    (error_ident : String) (body : List statement_t) (comp : compiler_t) :
    Option (Bool × compiler_t) :=
  match compiler_get_symbol_table comp with
  | [] => none
  | symbol_table :: outer =>
    if symbol_table_is_module_global_scope outer = true then
      some (false, add_error comp "Recover statement cannot be defined in global scope")
    else if symbol_table_is_top_block_scope symbol_table = false then
      some (false,
        add_error comp "Recover statement cannot be defined within other statements")
    else
      emit_then comp OPCODE_SET_RECOVER [0xbeef] fun recover_ip comp =>
      emit_then comp OPCODE_JUMP [0xbeef] fun jump_to_after_recover_ip comp =>
      (get_ip comp).bind fun after_jump_to_recover_ip =>
      (change_uint16_operand comp (recover_ip + 1) after_jump_to_recover_ip).bind fun comp =>
      (update_symbol_table comp symbol_table_push_block_scope).bind fun comp =>
      define_symbol_then comp error_ident false false fun error_symbol comp =>
      ok_then (write_symbol comp error_symbol true) fun comp =>
      ok_then (compile_code_block body comp) fun comp =>
      (last_opcode_is comp OPCODE_RETURN).bind fun is_return =>
      (last_opcode_is comp OPCODE_RETURN_VALUE).bind fun is_return_value =>
      if is_return = false ∧ is_return_value = false then
        some (false, add_error comp "Recover body must end with a return statement")
      else
        (update_symbol_table comp symbol_table_pop_block_scope).bind fun comp =>
        (get_ip comp).bind fun after_recover_ip =>
        (change_uint16_operand comp (jump_to_after_recover_ip + 1) after_recover_ip).map
          fun comp => (true, comp)

/-- The body of `compile_statement`.  The functions it calls are parameters: they stand
for the functions with the fuel that is left.  `none` is the result where a call has
none or where the source dereferences a NULL pointer.  The pointers `compilation_scope`
and `symbol_table` read at the start are those of the compiler at the places where they
are used. -/
def compile_statement_body
    (compile_statement : statement_t → compiler_t → Option (Bool × compiler_t))
    (compile_expression : expression_t → compiler_t → Option (Bool × compiler_t))
    (compile_code_block : List statement_t → compiler_t → Option (Bool × compiler_t))
    (import_module : String → compiler_t → Option (Bool × compiler_t)) :
    statement_t → compiler_t → Option (Bool × compiler_t)
  | .STATEMENT_EXPRESSION expression, comp =>
    ok_then (compile_expression expression comp) fun comp =>
    emit_ok comp OPCODE_POP []
  | .STATEMENT_DEFINE name value assignable, comp =>
    ok_then (compile_expression value comp) fun comp =>
    define_symbol_then comp name assignable false fun symbol comp =>
    write_symbol comp symbol true
  | .STATEMENT_IF cases alternative, comp =>
    compile_statement_if compile_expression compile_code_block cases alternative comp
  | .STATEMENT_RETURN_VALUE return_value, comp =>
    compile_statement_return_value compile_expression return_value comp
  | .STATEMENT_WHILE_LOOP test body, comp =>
    compile_statement_while_loop compile_expression compile_code_block test body comp
  | .STATEMENT_BREAK, comp =>
    (get_break_ip comp).bind fun break_ip =>
    if break_ip < 0 then some (false, add_error comp "Nothing to break from.")
    else emit_ok comp OPCODE_JUMP [uint64_of_int break_ip]
  | .STATEMENT_CONTINUE, comp =>
    (get_continue_ip comp).bind fun continue_ip =>
    if continue_ip < 0 then some (false, add_error comp "Nothing to continue from.")
    else emit_ok comp OPCODE_JUMP [uint64_of_int continue_ip]
  | .STATEMENT_FOREACH iterator source body, comp =>
    compile_statement_foreach compile_expression compile_code_block iterator source body comp
  | .STATEMENT_FOR_LOOP init test update body, comp =>
    compile_statement_for_loop compile_statement compile_expression compile_code_block init test update body comp
  | .STATEMENT_BLOCK block, comp => compile_code_block block comp
  | .STATEMENT_IMPORT path, comp => import_module path comp
  | .STATEMENT_RECOVER error_ident body, comp =>
    compile_statement_recover compile_code_block error_ident body comp

/-- The body of `compile_expression`; the functions it calls are parameters. -/
def compile_expression_body
    (compile_expression : expression_t → compiler_t → Option (Bool × compiler_t))
    (compile_statements : List statement_t → compiler_t → Option (Bool × compiler_t)) :
    expression_t → compiler_t → Option (Bool × compiler_t)
  | expr, comp =>
    let expr := match optimise_expression expr with
      | some expr_optimised => expr_optimised
      | none => expr
    match expr with
    | .EXPRESSION_INFIX op left right =>
      match infix_operands op left right with
      | none => some (false, add_error comp "Unknown infix operator")
      | some (opcode, left, right) =>
        ok_then (compile_expression left comp) fun comp =>
        ok_then (compile_expression right comp) fun comp =>
        ok_then
          (match infix_compare_opcode op with
            | some compare => emit_ok comp compare []
            | none => some (true, comp)) fun comp =>
        emit_ok comp opcode []
    | .EXPRESSION_NUMBER_LITERAL number_literal =>
      emit_ok comp OPCODE_NUMBER [number_literal]
    | .EXPRESSION_STRING_LITERAL string_literal =>
      match dict_get comp.string_constants_positions (c_str string_literal) with
      | some current_pos => emit_ok comp OPCODE_CONSTANT [uint64_of_int current_pos]
      | none =>
        let made := object_make_string comp.mem string_literal
        let comp := { comp with mem := made.2 }
        if object_is_null comp.mem made.1 = true then some (false, comp)
        else
          let added := add_constant comp made.1
          let comp := added.2
          if added.1 < 0 then some (false, comp)
          else
            let comp := { comp with string_constants_positions :=
              (dict_set comp.string_constants_positions (c_str string_literal) added.1) }
            emit_ok comp OPCODE_CONSTANT [uint64_of_int added.1]
    | .EXPRESSION_NULL_LITERAL => emit_ok comp OPCODE_NULL []
    | .EXPRESSION_BOOL_LITERAL bool_literal =>
      emit_ok comp (if bool_literal = true then OPCODE_TRUE else OPCODE_FALSE) []
    | .EXPRESSION_ARRAY_LITERAL array =>
      ok_then (compile_expressions compile_expression array comp) fun comp =>
      emit_ok comp OPCODE_ARRAY [array.length]
    | .EXPRESSION_MAP_LITERAL keys values =>
      ok_then (emit_ok comp OPCODE_MAP_START [keys.length]) fun comp =>
      ok_then (compile_map_items compile_expression keys values comp) fun comp =>
      emit_ok comp OPCODE_MAP_END [keys.length]
    | .EXPRESSION_PREFIX op right =>
      ok_then (compile_expression right comp) fun comp =>
      match op with
      | OPERATOR_MINUS => emit_ok comp OPCODE_MINUS []
      | OPERATOR_BANG => emit_ok comp OPCODE_BANG []
      | _ => some (false, add_error comp "Unknown prefix operator.")
    | .EXPRESSION_IDENT ident =>
      match symbol_table_resolve (compiler_get_symbol_table comp) ident with
      | none => none
      | some (none, tables) =>
        some (false, add_error (compiler_set_symbol_table comp tables)
          ("Symbol \"" ++ ident ++ "\" could not be resolved"))
      | some (some symbol, tables) => read_symbol (compiler_set_symbol_table comp tables) symbol
    | .EXPRESSION_INDEX left index =>
      ok_then (compile_expression left comp) fun comp =>
      ok_then (compile_expression index comp) fun comp =>
      emit_ok comp OPCODE_GET_INDEX []
    | .EXPRESSION_FUNCTION_LITERAL name params body =>
      let comp := push_compilation_scope comp
      ok_then (some (push_symbol_table comp 0)) fun comp =>
      ok_then
        (match name with
          | some name =>
            match compiler_get_symbol_table comp with
            | [] => none
            | symbol_table :: outer =>
              match symbol_table_define_function_name symbol_table name false with
              | none => none
              | some (none, symbol_table) =>
                some (false, add_error (compiler_set_symbol_table comp (symbol_table :: outer))
                  ("Cannot define symbol \"" ++ name ++ "\""))
              | some (some _, symbol_table) =>
                some (true, compiler_set_symbol_table comp (symbol_table :: outer))
          | none => some (true, comp)) fun comp =>
      (match compiler_get_symbol_table comp with
        | [] => none
        | symbol_table :: outer =>
          (symbol_table_define_this symbol_table).map
            fun (r : symbol_t × symbol_table_t) =>
              compiler_set_symbol_table comp (r.2 :: outer)).bind fun comp =>
      ok_then
        (params.foldl
          (fun r param => ok_then r fun comp =>
            define_symbol_then comp param true false fun _ comp => some (true, comp))
          (some (true, comp))) fun comp =>
      ok_then (compile_statements body comp) fun comp =>
      (last_opcode_is comp OPCODE_RETURN_VALUE).bind fun is_return_value =>
      (last_opcode_is comp OPCODE_RETURN).bind fun is_return =>
      ok_then
        (if is_return_value = false ∧ is_return = false then emit_ok comp OPCODE_RETURN []
          else some (true, comp)) fun comp =>
      match compiler_get_symbol_table comp, comp.compilation_scope with
      | symbol_table :: _, compilation_scope :: outer_scopes =>
        let free_symbols := symbol_table.free_symbols
        let num_locals := symbol_table.max_num_definitions
        let orphaned := compilation_scope_orphan_result compilation_scope
        let comp_res := orphaned.1
        let comp := { comp with compilation_scope := orphaned.2 :: outer_scopes }
        let comp := pop_symbol_table comp
        (pop_compilation_scope comp).bind fun comp =>
        let made := object_make_function comp.mem (name.getD "anonymous") comp_res true
          num_locals params.length 0
        let comp := { comp with mem := made.2 }
        if object_is_null comp.mem made.1 = true then some (false, comp)
        else
          ok_then
            (free_symbols.foldl (fun r symbol => ok_then r fun comp => read_symbol comp symbol)
              (some (true, comp))) fun comp =>
          let added := add_constant comp made.1
          let comp := added.2
          if added.1 < 0 then some (false, comp)
          else
            emit_ok comp OPCODE_FUNCTION [uint64_of_int added.1, free_symbols.length]
      | _, _ => none
    | .EXPRESSION_CALL function args =>
      ok_then (compile_expression function comp) fun comp =>
      ok_then (compile_expressions compile_expression args comp) fun comp =>
      emit_ok comp OPCODE_CALL [args.length]
    | .EXPRESSION_ASSIGN dest source is_postfix =>
      match dest with
      | .EXPRESSION_IDENT ident =>
        ok_then
          (if is_postfix = true then compile_expression dest comp
            else some (true, comp)) fun comp =>
        ok_then (compile_expression source comp) fun comp =>
        ok_then (emit_ok comp OPCODE_DUP []) fun comp =>
        match symbol_table_resolve (compiler_get_symbol_table comp) ident with
        | none => none
        | some (none, tables) =>
          some (false, add_error (compiler_set_symbol_table comp tables)
            ("Symbol \"" ++ ident ++ "\" could not be resolved"))
        | some (some symbol, tables) =>
          let comp := compiler_set_symbol_table comp tables
          if symbol.assignable = false then
            some (false, add_error comp ("Symbol \"" ++ ident ++ "\" is not assignable"))
          else
            ok_then (write_symbol comp symbol false) fun comp =>
            if is_postfix = true then emit_ok comp OPCODE_POP [] else some (true, comp)
      | .EXPRESSION_INDEX left index =>
        ok_then
          (if is_postfix = true then compile_expression dest comp
            else some (true, comp)) fun comp =>
        ok_then (compile_expression source comp) fun comp =>
        ok_then (emit_ok comp OPCODE_DUP []) fun comp =>
        ok_then (compile_expression left comp) fun comp =>
        ok_then (compile_expression index comp) fun comp =>
        ok_then (emit_ok comp OPCODE_SET_INDEX []) fun comp =>
        if is_postfix = true then emit_ok comp OPCODE_POP [] else some (true, comp)
      | _ => some (false, add_error comp "Expression is not assignable.")
    | .EXPRESSION_LOGICAL op left right =>
      ok_then (compile_expression left comp) fun comp =>
      ok_then (emit_ok comp OPCODE_DUP []) fun comp =>
      emit_then comp
        (if op = OPERATOR_LOGICAL_AND then OPCODE_JUMP_IF_FALSE else OPCODE_JUMP_IF_TRUE)
        [0xbeef] fun after_left_jump_ip comp =>
      ok_then (emit_ok comp OPCODE_POP []) fun comp =>
      ok_then (compile_expression right comp) fun comp =>
      (get_ip comp).bind fun after_right_ip =>
      (change_uint16_operand comp (after_left_jump_ip + 1) after_right_ip).map fun comp =>
      (true, comp)
    | .EXPRESSION_TERNARY test if_true if_false =>
      ok_then (compile_expression test comp) fun comp =>
      (emit comp OPCODE_JUMP_IF_FALSE [0xbeef]).bind fun else_jump =>
      ok_then (compile_expression if_true else_jump.2) fun comp =>
      (emit comp OPCODE_JUMP [0xbeef]).bind fun end_jump =>
      let comp := end_jump.2
      (get_ip comp).bind fun else_ip =>
      (change_uint16_operand comp (else_jump.1 + 1) else_ip).bind fun comp =>
      ok_then (compile_expression if_false comp) fun comp =>
      (get_ip comp).bind fun end_ip =>
      (change_uint16_operand comp (end_jump.1 + 1) end_ip).map fun comp => (true, comp)

/-- The body of `compile_code_block`; `compile_statement` is a parameter. -/
def compile_code_block_body
    (compile_statement : statement_t → compiler_t → Option (Bool × compiler_t)) :
    List statement_t → compiler_t → Option (Bool × compiler_t)
  | block, comp =>
    match compiler_get_symbol_table comp with
    | [] => some (false, comp)
    | _ :: _ =>
      (update_symbol_table comp symbol_table_push_block_scope).bind fun comp =>
      ok_then
        (if block.length = 0 then
            ok_then (emit_ok comp OPCODE_NULL []) fun comp =>
            emit_ok comp OPCODE_POP []
          else some (true, comp)) fun comp =>
      ok_then (compile_statements_loop compile_statement block comp) fun comp =>
      (update_symbol_table comp symbol_table_pop_block_scope).map fun comp => (true, comp)

/-- The body of `compile_code`; `none` when there is no file scope. -/
def compile_code_body (host : host_t)
    (compile_statements : List statement_t → compiler_t → Option (Bool × compiler_t)) :
    String → compiler_t → Option (Bool × compiler_t)
  | code, comp =>
    match comp.file_scopes.getLast? with
    | none => none
    | some _ =>
      let parsed := host.parser_parse_all code comp.errors
      let comp := { comp with errors := parsed.2 }
      match parsed.1 with
      | none => some (false, comp)
      | some statements => compile_statements statements comp

/-- The part of `import_module` that gets the module: the module of the registry, or a new
module, for which the file is read and compiled in a file scope of its own.  The result
is whether this succeeded, the module and the compiler. -/
def import_module_load (host : host_t)
    (compile_code : String → compiler_t → Option (Bool × compiler_t))
    (module_name filepath : String) (comp : compiler_t) :
    Option (Bool × module_t × compiler_t) :=
  match dict_get comp.modules filepath with
  | some module => some (true, module, comp)
  | none =>
    match host.read_file with
    | none =>
      some (false, module_make module_name,
        add_error comp ("Cannot import module \"" ++ filepath
          ++ "\", file read function not configured"))
    | some read_file =>
      match read_file filepath with
      | none =>
        some (false, module_make module_name,
          add_error comp ("Reading module file \"" ++ filepath ++ "\" failed"))
      | some code =>
        let module := module_make module_name
        match push_file_scope comp filepath with
        | none => none
        | some (false, comp) => some (false, module, comp)
        | some (true, comp) =>
          match compile_code code comp with
          | none => none
          | some (false, comp) => some (false, module, comp)
          | some (true, comp) =>
            match compiler_get_symbol_table comp with
            | [] => none
            | st :: _ =>
              let module :=
                st.module_global_symbols.foldl module_add_symbol module
              match pop_file_scope comp with
              | none => none
              | some comp =>
                some (true, module,
                  { comp with modules := dict_set comp.modules filepath module })

/-- The body of `import_module` (allocation taken to succeed); `compile_code` is a
parameter. -/
def import_module_body (host : host_t)
    (compile_code : String → compiler_t → Option (Bool × compiler_t)) :
    String → compiler_t → Option (Bool × compiler_t)
  | module_path, comp =>
    match comp.file_scopes.getLast? with
    | none => none
    | some file_scope =>
      let module_name := get_module_name module_path
      if module_name ∈ file_scope.loaded_module_names then
        some (false,
          add_error comp ("Module \"" ++ module_name ++ "\" was already imported"))
      else
        let filepath_non_canonicalised :=
          if kg_is_path_absolute module_path.data = true then module_path ++ ".ape"
          else file_scope.file.dir_path ++ module_path ++ ".ape"
        match kg_canonicalise_path filepath_non_canonicalised.data with
        | none => none
        | some filepath =>
          let filepath := String.mk filepath
          match file_scope.symbol_table with
          | [] => none
          | symbol_table :: outer =>
            if outer.isEmpty = false ∨ symbol_table.block_scopes.length > 1 then
              some (false, add_error comp "Modules can only be imported in global scope")
            else if comp.file_scopes.any (fun fs => decide (fs.file.path = filepath)) = true
            then
              some (false,
                add_error comp ("Cyclic reference of file \"" ++ filepath ++ "\""))
            else
              match import_module_load host compile_code module_name filepath comp with
              | none => none
              | some (false, _, comp) => some (false, comp)
              | some (true, module, comp) =>
                match compiler_get_symbol_table comp with
                | [] => none
                | symbol_table :: outer =>
                  match add_module_symbols module.symbols symbol_table with
                  | none => none
                  | some (false, symbol_table) =>
                    some (false, compiler_set_symbol_table comp (symbol_table :: outer))
                  | some (true, symbol_table) =>
                    let comp := compiler_set_symbol_table comp (symbol_table :: outer)
                    match comp.file_scopes.getLast? with
                    | none => none
                    | some file_scope =>
                      some (true, { comp with file_scopes := comp.file_scopes.dropLast ++
                        [{ file_scope with loaded_module_names :=
                            file_scope.loaded_module_names ++ [module_name] }] })

mutual

/-- Function `compile_statement`.  `fuel` bounds the depth of the calls; `none` is the
result when it is used up or where the source dereferences a NULL pointer. -/
def compile_statement (host : host_t) :
    Nat → statement_t → compiler_t → Option (Bool × compiler_t)
  | 0, _, _ => none
  | fuel + 1, stmt, comp =>
    compile_statement_body (compile_statement host fuel) (compile_expression host fuel)
      (compile_code_block host fuel) (import_module host fuel) stmt comp

/-- Function `compile_expression`. -/
def compile_expression (host : host_t) :
    Nat → expression_t → compiler_t → Option (Bool × compiler_t)
  | 0, _, _ => none
  | fuel + 1, expr, comp =>
    compile_expression_body (compile_expression host fuel) (compile_statements host fuel)
      expr comp

/-- Function `compile_code_block`. -/
def compile_code_block (host : host_t) :
    Nat → List statement_t → compiler_t → Option (Bool × compiler_t)
  | 0, _, _ => none
  | fuel + 1, block, comp => compile_code_block_body (compile_statement host fuel) block comp

/-- Function `compile_statements`. -/
def compile_statements (host : host_t) :
    Nat → List statement_t → compiler_t → Option (Bool × compiler_t)
  | 0, _, _ => none
  | fuel + 1, statements, comp =>
    compile_statements_loop (compile_statement host fuel) statements comp

/-- Function `compile_code`. -/
def compile_code (host : host_t) :
    Nat → String → compiler_t → Option (Bool × compiler_t)
  | 0, _, _ => none
  | fuel + 1, code, comp => compile_code_body host (compile_statements host fuel) code comp

/-- Function `import_module`. -/
def import_module (host : host_t) :
    Nat → String → compiler_t → Option (Bool × compiler_t)
  | 0, _, _ => none
  | fuel + 1, module_path, comp => import_module_body host (compile_code host fuel) module_path comp

end

end compiler

namespace compiler

/-- Function `compiler_init` (allocation taken to succeed): whether it succeeded and the
compiler.  The file scope it pushes adds the file `none` to the list of files. -/
def compiler_init (mem : gcmem_t) (errors : errors_t) (files : List compiled_file_t)
    (global_store : global_store_t) : Option (Bool × compiler_t) :=
  let comp : compiler_t :=
    { mem := mem, errors := errors, files := files, global_store := global_store,
      constants := [], compilation_scope := [], file_scopes := [], modules := [],
      string_constants_positions := [] }
  let comp := push_compilation_scope comp
  push_file_scope comp "none"

/-- Function `compiler_make`: the compiler, `none` for NULL. -/
def compiler_make (mem : gcmem_t) (errors : errors_t) (files : List compiled_file_t)
    (global_store : global_store_t) : Option compiler_t :=
  match compiler_init mem errors files global_store with
  | some (true, comp) => some comp
  | _ => none

/-- Function `compiler_init_shallow_copy` (allocation taken to succeed): whether it
succeeded, the copy, and `src`, whose list of files, which the copy shares, has grown by
the file `none`.  `none` when `src` has no symbol table. -/
def compiler_init_shallow_copy (src : compiler_t) : Option (Bool × compiler_t × compiler_t) :=
  match compiler_init src.mem src.errors src.files src.global_store with
  | none => none
  | some (false, copy) => some (false, copy, { src with files := copy.files })
  | some (true, copy) =>
    let src := { src with files := copy.files }
    match compiler_get_symbol_table src with
    | [] => none
    | src_st :: outer =>
      let src_st_copy := symbol_table_copy src_st
      let copy := compiler_set_symbol_table copy (src_st_copy :: outer)
      let copy := { copy with modules := dict_copy_with_items module_copy src.modules }
      let copy := { copy with constants := src.constants }
      let copy := { copy with string_constants_positions :=
        (src.string_constants_positions.foldl
          (fun positions (item : List Nat × Int) => dict_set positions item.1 item.2)
          copy.string_constants_positions) }
      match src.file_scopes.getLast?, copy.file_scopes.getLast? with
      | some src_file_scope, some copy_file_scope =>
        let copy := { copy with file_scopes := copy.file_scopes.dropLast ++
          [{ copy_file_scope with loaded_module_names :=
              (src_file_scope.loaded_module_names.foldl (fun names name => names ++ [name])
                copy_file_scope.loaded_module_names) }] }
        some (true, copy, src)
      | _, _ => none

/-- Function `compiler_compile` (allocation taken to succeed): the result, `none` for
NULL, and the compiler.  After a failure the compiler is the shallow copy made before;
the memory, the errors and the list of files, which the copy points to as well, are as
the failed compilation left them. -/
def compiler_compile (host : host_t) (fuel : Nat) (comp : compiler_t) (code : String) :
    Option (Option compilation_result_t × compiler_t) :=
  match update_compilation_scope comp
      (fun scope => { scope with bytecode := [], src_positions := [], break_ip_stack := [],
                                 continue_ip_stack := [] }) with
  | none => none
  | some comp =>
    match compiler_init_shallow_copy comp with
    | none => none
    | some (false, _, comp) => some (none, comp)
    | some (true, comp_shallow_copy, comp) =>
      match compile_code host fuel code comp with
      | none => none
      | some (false, comp) =>
        some (none, { comp_shallow_copy with
          mem := comp.mem, errors := comp.errors, files := comp.files })
      | some (true, comp) =>
        match comp.compilation_scope with
        | [] => none
        | compilation_scope :: outer =>
          let orphaned := compilation_scope_orphan_result compilation_scope
          some (some orphaned.1, { comp with compilation_scope := orphaned.2 :: outer })

end compiler

/-! ## The loop of `vm_execute_function` (vm.c) and `ape_execute` (ape.c) -/

def GCMEM_SWEEP_INTERVAL : Nat := 128

/-- Function `gc_should_sweep`. -/
def gc_should_sweep (mem : gcmem_t) : Bool :=
  decide (mem.allocations_since_sweep > GCMEM_SWEEP_INTERVAL)

/-- The cases `OPCODE_JUMP`, `OPCODE_JUMP_IF_FALSE` and `OPCODE_JUMP_IF_TRUE`. -/
def vm_op_jump (ape_debug : Bool) (vm : vm_t) (opcode : opcode_t) : vm_t :=
  let r := frame_read_uint16 (vm_current vm)
  let pos : Int := r.1
  let vm := vm_set_current vm r.2
  match opcode with
  | OPCODE_JUMP => vm_set_current vm { vm_current vm with ip := pos }
  | OPCODE_JUMP_IF_FALSE =>
    let p := stack_pop ape_debug vm
    if object_get_bool p.1 = false then vm_set_current p.2 { vm_current p.2 with ip := pos }
    else p.2
  | _ =>
    let p := stack_pop ape_debug vm
    if object_get_bool p.1 = true then vm_set_current p.2 { vm_current p.2 with ip := pos }
    else p.2

/-- The case `OPCODE_RETURN`. -/
def vm_op_return (ape_debug : Bool) (vm : vm_t) : vm_goto × vm_t :=
  let f := pop_frame vm
  let vm := stack_push ape_debug f.2 object_make_null
  if ¬ f.1 then (vm_goto.finish, (stack_pop ape_debug vm).2) else (vm_goto.next, vm)

/-- The `switch` of `vm_execute_function` on the opcode read: where the case leaves the
`switch` and the state.  Every case gives a result. -/
def vm_execute_opcode (char_signed ape_debug : Bool) (natives : native_call_t)
    (constants store_objects : List object_t) (vm : vm_t) (opcode : Nat) :
    Option (vm_goto × vm_t) :=
  match opcode_of_val opcode with
  | some OPCODE_CONSTANT =>
    let r := frame_read_uint16 (vm_current vm)
    some (vm_op_constant ape_debug constants (vm_set_current vm r.2) r.1)
  | some OPCODE_ADD => some (vm_op_binary char_signed ape_debug natives vm OPCODE_ADD)
  | some OPCODE_SUB => some (vm_op_binary char_signed ape_debug natives vm OPCODE_SUB)
  | some OPCODE_MUL => some (vm_op_binary char_signed ape_debug natives vm OPCODE_MUL)
  | some OPCODE_DIV => some (vm_op_binary char_signed ape_debug natives vm OPCODE_DIV)
  | some OPCODE_MOD => some (vm_op_binary char_signed ape_debug natives vm OPCODE_MOD)
  | some OPCODE_OR => some (vm_op_binary char_signed ape_debug natives vm OPCODE_OR)
  | some OPCODE_XOR => some (vm_op_binary char_signed ape_debug natives vm OPCODE_XOR)
  | some OPCODE_AND => some (vm_op_binary char_signed ape_debug natives vm OPCODE_AND)
  | some OPCODE_LSHIFT => some (vm_op_binary char_signed ape_debug natives vm OPCODE_LSHIFT)
  | some OPCODE_RSHIFT => some (vm_op_binary char_signed ape_debug natives vm OPCODE_RSHIFT)
  | some OPCODE_POP => some (vm_goto.next, (stack_pop ape_debug vm).2)
  | some OPCODE_TRUE => some (vm_goto.next, stack_push ape_debug vm (object_make_bool true))
  | some OPCODE_FALSE => some (vm_goto.next, stack_push ape_debug vm (object_make_bool false))
  | some OPCODE_COMPARE =>
    let r := vm_op_compare char_signed ape_debug natives vm OPCODE_COMPARE
    some (if r.1 then vm_goto.next else vm_goto.err, r.2)
  | some OPCODE_COMPARE_EQ =>
    let r := vm_op_compare char_signed ape_debug natives vm OPCODE_COMPARE_EQ
    some (if r.1 then vm_goto.next else vm_goto.err, r.2)
  | some OPCODE_EQUAL => some (vm_goto.next, vm_op_equal ape_debug vm OPCODE_EQUAL)
  | some OPCODE_NOT_EQUAL => some (vm_goto.next, vm_op_equal ape_debug vm OPCODE_NOT_EQUAL)
  | some OPCODE_GREATER_THAN =>
    some (vm_goto.next, vm_op_equal ape_debug vm OPCODE_GREATER_THAN)
  | some OPCODE_GREATER_THAN_EQUAL =>
    some (vm_goto.next, vm_op_equal ape_debug vm OPCODE_GREATER_THAN_EQUAL)
  | some OPCODE_MINUS => some (vm_op_minus char_signed ape_debug natives vm)
  | some OPCODE_BANG => some (vm_op_bang char_signed ape_debug natives vm)
  | some OPCODE_JUMP => some (vm_goto.next, vm_op_jump ape_debug vm OPCODE_JUMP)
  | some OPCODE_JUMP_IF_FALSE =>
    some (vm_goto.next, vm_op_jump ape_debug vm OPCODE_JUMP_IF_FALSE)
  | some OPCODE_JUMP_IF_TRUE => some (vm_goto.next, vm_op_jump ape_debug vm OPCODE_JUMP_IF_TRUE)
  | some OPCODE_NULL => some (vm_goto.next, stack_push ape_debug vm object_make_null)
  | some OPCODE_CALL => some (vm_op_call ape_debug natives vm)
  | some OPCODE_RETURN_VALUE => some (vm_op_return_value ape_debug vm)
  | some OPCODE_RETURN => some (vm_op_return ape_debug vm)
  | some OPCODE_DUP =>
    let g := stack_get ape_debug vm 0
    some (vm_goto.next, stack_push ape_debug g.2 g.1)
  | some OPCODE_NUMBER =>
    let r := frame_read_uint64 (vm_current vm)
    some (vm_goto.next,
      stack_push ape_debug (vm_set_current vm r.2) (object_make_number r.1))
  | some OPCODE_SET_RECOVER =>
    let r := frame_read_uint16 (vm_current vm)
    let vm := vm_set_current vm r.2
    some (vm_goto.next, vm_set_current vm { vm_current vm with recover_ip := (r.1 : Int) })
  | some OPCODE_DEFINE_MODULE_GLOBAL => some (vm_op_define_module_global ape_debug vm)
  | some OPCODE_SET_MODULE_GLOBAL => some (vm_op_set_module_global ape_debug vm)
  | some OPCODE_GET_MODULE_GLOBAL => some (vm_op_get_module_global ape_debug vm)
  | some OPCODE_ARRAY => some (vm_op_array ape_debug vm)
  | some OPCODE_MAP_START => some (vm_op_map_start ape_debug vm)
  | some OPCODE_MAP_END =>
    let r := frame_read_uint16 (vm_current vm)
    let e := vm_op_map_end char_signed ape_debug (vm_set_current vm r.2) r.1
    some (if e.1 then vm_goto.next else vm_goto.err, e.2)
  | some OPCODE_GET_THIS => some (vm_op_get_this ape_debug vm)
  | some OPCODE_GET_INDEX => some (vm_op_get_index char_signed ape_debug vm)
  | some OPCODE_SET_INDEX =>
    let e := vm_op_set_index char_signed ape_debug vm
    some (if e.1 then vm_goto.next else vm_goto.err, e.2)
  | some OPCODE_GET_VALUE_AT => some (vm_op_get_value_at char_signed ape_debug vm)
  | some OPCODE_DEFINE_LOCAL => some (vm_op_define_local ape_debug vm)
  | some OPCODE_SET_LOCAL => some (vm_op_set_local ape_debug vm)
  | some OPCODE_GET_LOCAL => some (vm_op_get_local ape_debug vm)
  | some OPCODE_GET_APE_GLOBAL => some (vm_op_get_ape_global ape_debug store_objects vm)
  | some OPCODE_FUNCTION => some (vm_op_function ape_debug constants vm)
  | some OPCODE_GET_FREE => some (vm_op_get_free ape_debug vm)
  | some OPCODE_SET_FREE => some (vm_op_set_free ape_debug vm)
  | some OPCODE_CURRENT_FUNCTION => some (vm_op_current_function ape_debug vm)
  | some OPCODE_LEN => some (vm_op_len ape_debug vm)
  | some OPCODE_NONE | some OPCODE_MAX | none =>
    some (vm_goto.err, { vm with errors := (errors_add_errorf vm.errors ERROR_RUNTIME
      (vm_src_position vm) ("Unknown opcode: 0x" ++ String.mk (Nat.toDigits 16 opcode))) })

/-- The loop `while (vm->current_frame->ip < vm->current_frame->bytecode_size)` of
`vm_execute_function`, for a machine without a limit of the execution time: the state
at the label `end`.  `fuel` bounds the number of instructions and the work of the
collector; `none` when it is used up. -/
def vm_execute_loop (char_signed ape_debug : Bool) (natives : native_call_t)
    (constants store_objects : List object_t) : Nat → vm_t → Option vm_t
  | 0, _ => none
  | fuel + 1, vm =>
    if (vm_current vm).ip < (vm_current vm).bytecode_size then
      let r := frame_read_opcode (vm_current vm)
      let vm := vm_set_current vm r.2
      match vm_execute_opcode char_signed ape_debug natives constants store_objects vm r.1 with
      | none => none
      | some (vm_goto.finish, vm) => some vm
      | some (_, vm) =>
        match vm_recover ape_debug vm with
        | (vm_goto.finish, vm) => some vm
        | (_, vm) =>
          if gc_should_sweep vm.mem = true then
            match run_gc fuel vm constants store_objects with
            | none => none
            | some vm =>
              vm_execute_loop char_signed ape_debug natives constants store_objects fuel vm
          else vm_execute_loop char_signed ape_debug natives constants store_objects fuel vm
    else some vm

/-- Function `vm_execute_function`, for a machine without a limit of the execution
time: the value returned and the state. -/
def vm_execute_function (char_signed ape_debug : Bool) (natives : native_call_t)
    (fuel : Nat) (vm : vm_t) (function : object_t) (constants store_objects : List object_t) :
    Option (Bool × vm_t) :=
  if vm.running = true then
    some (false, { vm with errors := (errors_add_error vm.errors ERROR_USER src_pos_invalid
      "VM is already executing code") })
  else
    let function_function := object_get_function vm.mem function
    match frame_init vm.mem function (vm.sp - function_function.num_args) with
    | none => some (false, vm)
    | some new_frame =>
      let pushed := push_frame vm new_frame
      if pushed.1 = false then
        some (false, { pushed.2 with errors := (errors_add_error pushed.2.errors ERROR_USER
          src_pos_invalid "Pushing frame failed") })
      else
        let vm := { pushed.2 with running := true, last_popped := object_make_null }
        match vm_execute_loop char_signed ape_debug natives constants store_objects fuel vm with
        | none => none
        | some vm => vm_finish fuel vm constants store_objects

/-- The loop `while (vm->frames_count > old_frames_count) pop_frame(vm)`, with `n`
rounds at most. -/
def pop_frames_above (old_frames_count : Int) : Nat → vm_t → vm_t
  | 0, vm => vm
  | n + 1, vm =>
    if vm.frames_count > old_frames_count then
      pop_frames_above old_frames_count n (pop_frame vm).2
    else vm

/-- Function `vm_run`: the value returned and the state. -/
def vm_run (char_signed ape_debug : Bool) (natives : native_call_t) (fuel : Nat) (vm : vm_t)
    (comp_res : compilation_result_t) (constants store_objects : List object_t) :
    Option (Bool × vm_t) :=
  let old_this_sp := vm.this_sp
  let old_frames_count := vm.frames_count
  let made := object_make_function vm.mem "main" comp_res false 0 0 0
  let vm := { vm with mem := made.2 }
  if object_is_null vm.mem made.1 = true then some (false, vm)
  else
    let vm := stack_push ape_debug vm made.1
    match vm_execute_function char_signed ape_debug natives fuel vm made.1 constants
        store_objects with
    | none => none
    | some (res, vm) =>
      let vm := pop_frames_above old_frames_count (vm.frames_count - old_frames_count).toNat vm
      some (res, { vm with this_sp := old_this_sp })

/-- Function `vm_reset`. -/
def vm_reset (vm : vm_t) : vm_t :=
  pop_frames_above 0 vm.frames_count.toNat { vm with sp := 0, this_sp := 0 }

/-- The strings of the operators that `vm_make` stores as keys. -/
def operator_overload_names : List (opcode_t × String) :=
  [(OPCODE_ADD, "__operator_add__"), (OPCODE_SUB, "__operator_sub__"),
   (OPCODE_MUL, "__operator_mul__"), (OPCODE_DIV, "__operator_div__"),
   (OPCODE_MOD, "__operator_mod__"), (OPCODE_OR, "__operator_or__"),
   (OPCODE_XOR, "__operator_xor__"), (OPCODE_AND, "__operator_and__"),
   (OPCODE_LSHIFT, "__operator_lshift__"), (OPCODE_RSHIFT, "__operator_rshift__"),
   (OPCODE_MINUS, "__operator_minus__"), (OPCODE_BANG, "__operator_bang__"),
   (OPCODE_COMPARE, "__cmp__")]

/-- Function `vm_make` (allocation taken to succeed) over the memory `mem` and the errors
`errors`. -/
def vm_make (mem : gcmem_t) (errors : errors_t) : vm_t :=
  let vm : vm_t :=
    { mem := mem, errors := errors, globals := fun _ => { handle := 0 }, globals_count := 0,
      stack := fun _ => { handle := 0 }, sp := 0, this_stack := fun _ => { handle := 0 },
      this_sp := 0, frames := fun _ => frame_zero, frames_count := 0,
      last_popped := object_make_null, current_frame := none, running := false,
      operator_oveload_keys := fun _ => object_make_null }
  operator_overload_names.foldl
    (fun vm item =>
      let key_obj := object_make_string vm.mem (item.2.data.map Char.toNat)
      { vm with
        mem := key_obj.2
        operator_oveload_keys := fun op =>
          if op = item.1 then key_obj.1 else vm.operator_oveload_keys op })
    vm

/-- Structure `ape_t`: the compiler and the machine, with the memory and the errors they
share kept in the machine, and the global store. -/
structure ape_t where
  global_store : global_store_t
  compiler : compiler.compiler_t
  vm : vm_t

/-- Function `ape_make` (allocation taken to succeed).  The builtin functions are not
part of the sources at hand: the global store is made without them. -/
def ape_make : Option ape_t :=
  let global_store : global_store_t := { symbols := [], objects := [] }
  match compiler.compiler_make gcmem_empty { errors := [] } [] global_store with
  | none => none
  | some comp =>
    some { global_store := global_store, compiler := comp,
           vm := vm_make comp.mem comp.errors }

/-- Function `ape_execute` with the function `reset_state`: the value returned, `none`
where it is `ape_object_make_null()` after `goto err`, and the engine.  The memory and
the errors pass from the compiler to the machine and back. -/
def ape_execute (char_signed ape_debug : Bool) (natives : native_call_t)
    (host : compiler.host_t) (fuel : Nat) (ape : ape_t) (code : String) :
    Option (Option object_t × ape_t) :=
  let vm := vm_reset { ape.vm with errors := errors_clear ape.vm.errors }
  let comp := { ape.compiler with mem := vm.mem, errors := vm.errors }
  match compiler.compiler_compile host fuel comp code with
  | none => none
  | some (comp_res, comp) =>
    let vm := { vm with mem := comp.mem, errors := comp.errors }
    let ape := { ape with compiler := comp, vm := vm }
    match comp_res with
    | none => some (none, ape)
    | some comp_res =>
      if errors_get_count vm.errors > 0 then some (none, ape)
      else
        match vm_run char_signed ape_debug natives fuel vm comp_res comp.constants
            ape.global_store.objects with
        | none => none
        | some (ok, vm) =>
          let ape := { ape with vm := vm,
                                compiler := { comp with mem := vm.mem, errors := vm.errors } }
          if ok = false ∨ errors_get_count vm.errors > 0 then some (none, ape)
          else
            let res := vm.last_popped
            if object_get_type vm.mem res = OBJECT_NONE then some (none, ape)
            else some (some res, ape)

/-- The statements of `1 + 2 * 3`. -/
def example_sum : List compiler.statement_t :=
  [.STATEMENT_EXPRESSION (.EXPRESSION_INFIX OPERATOR_PLUS
    (.EXPRESSION_NUMBER_LITERAL (double_of_int 1))
    (.EXPRESSION_INFIX OPERATOR_ASTERISK (.EXPRESSION_NUMBER_LITERAL (double_of_int 2))
      (.EXPRESSION_NUMBER_LITERAL (double_of_int 3))))]

/-- The statements of `fn() { recover (e) { if (true) { return 1 } } }`: the last
statement of the recover body is an if statement without an alternative. -/
def example_recover_if : List compiler.statement_t :=
  [.STATEMENT_EXPRESSION (.EXPRESSION_FUNCTION_LITERAL none []
    [.STATEMENT_RECOVER "e"
      [.STATEMENT_IF
        [(.EXPRESSION_BOOL_LITERAL true,
          [.STATEMENT_RETURN_VALUE (some (.EXPRESSION_NUMBER_LITERAL (double_of_int 1)))])]
        none]])]

/-- The statements of `fn() { recover (e) { 1 } }`. -/
def example_recover_expression : List compiler.statement_t :=
  [.STATEMENT_EXPRESSION (.EXPRESSION_FUNCTION_LITERAL none []
    [.STATEMENT_RECOVER "e"
      [.STATEMENT_EXPRESSION (.EXPRESSION_NUMBER_LITERAL (double_of_int 1))]])]

/-- The statements of `var y = "t"`. -/
def example_define : List compiler.statement_t :=
  [.STATEMENT_DEFINE "y" (.EXPRESSION_STRING_LITERAL [116]) true]

/-- The statements of `var x = "s"; break`: the break statement is outside any loop. -/
def example_define_break : List compiler.statement_t :=
  [.STATEMENT_DEFINE "x" (.EXPRESSION_STRING_LITERAL [115]) true, .STATEMENT_BREAK]

/-- The statement `while (true) { for (;;) { if (true) { break } continue } break }`. -/
def example_loops : compiler.statement_t :=
  .STATEMENT_WHILE_LOOP (.EXPRESSION_BOOL_LITERAL true)
    [.STATEMENT_FOR_LOOP none none none
      [.STATEMENT_IF [(.EXPRESSION_BOOL_LITERAL true, [.STATEMENT_BREAK])] none,
       .STATEMENT_CONTINUE],
     .STATEMENT_BREAK]

/-- The statement `null`. -/
def example_null : compiler.statement_t := .STATEMENT_EXPRESSION .EXPRESSION_NULL_LITERAL

/-- The statement `while (true) { null ... null break }` with 32768 statements `null`: its
code is 65549 bytes long. -/
def example_long_loop : compiler.statement_t :=
  .STATEMENT_WHILE_LOOP (.EXPRESSION_BOOL_LITERAL true)
    (List.replicate 32768 example_null ++ [.STATEMENT_BREAK])

/-- A host without a file read function whose parser knows the example texts. -/
def example_host : compiler.host_t :=
  { parser_parse_all := fun code errors =>
      if code = "1 + 2 * 3" then (some example_sum, errors)
      else if code = "fn() { recover (e) { if (true) { return 1 } } }" then
        (some example_recover_if, errors)
      else if code = "fn() { recover (e) { 1 } }" then (some example_recover_expression, errors)
      else if code = "var y = \"t\"" then (some example_define, errors)
      else if code = "var x = \"s\"; break" then (some example_define_break, errors)
      else (none, errors)
    read_file := none }

/-- A host function table whose functions return null. -/
def example_natives : native_call_t := fun vm _ _ => (object_make_null, vm)

/-- The compiler of a freshly made engine after it has compiled `var y = "t"`. -/
def example_compiler : Option compiler.compiler_t :=
  ape_make.bind fun ape =>
    (compiler.compiler_compile example_host 100 ape.compiler "var y = \"t\"").map
      (fun r => r.2)

/-- The keys of a dictionary are pairwise distinct. -/
def dict_keys_distinct {κ α : Type} (d : dict_t_ κ α) : Prop := (d.map Prod.fst).Nodup

instance {κ α : Type} [DecidableEq κ] (d : dict_t_ κ α) : Decidable (dict_keys_distinct d) := by
  unfold dict_keys_distinct; infer_instance


/-! ## Where the jumps of the loops go

The predicates below describe, for a statement and the range of addresses that holds its
code, the jumps that the statements `break` and `continue` and the loops are to have in
the bytecode. -/

namespace compiler

/-- The value that `get_break_ip` and `get_continue_ip` read from a stack: its top, -1
for an empty stack. -/
def ip_stack_top (stack : List Int) : Int := stack.getLast?.getD (-1)

/-- At address `a` the bytecode has the instruction `OPCODE_JUMP` whose operand, read as
`frame_read_uint16` reads it, is `target`. -/
def jump_at (bytecode : List Nat) (a : Nat) (target : Int) : Prop :=
  bytecode[a]? = some (opcode_val OPCODE_JUMP) ∧ a + 2 < bytecode.length ∧
    ((bytecode.getD (a + 1) 0 * 256 + bytecode.getD (a + 2) 0 : Nat) : Int) = target

instance (bytecode : List Nat) (a : Nat) (target : Int) :
    Decidable (jump_at bytecode a target) := by
  unfold jump_at; infer_instance

/-- The two arrays of bytes are the same from address `lo` up to `hi`. -/
def same_bytes (lo hi : Nat) (bytecode bytecode1 : List Nat) : Prop :=
  ∀ a, lo ≤ a → a < hi → bytecode[a]? = bytecode1[a]?

/-- The bytecode holds from `lo` up to `hi` the code of the expression: the bytes that
`compile_expression` appends for it to a compilation scope that has `lo` bytes. -/
def expression_code (host : host_t) (bytecode : List Nat) (lo hi : Nat)
    (expr : expression_t) : Prop :=
  ∃ (fuel : Nat) (comp comp1 : compiler_t) (scope scope1 : compilation_scope_t)
    (outer : List compilation_scope_t),
    compile_expression host fuel expr comp = some (true, comp1) ∧
    comp.compilation_scope = scope :: outer ∧ comp1.compilation_scope = scope1 :: outer ∧
    scope.bytecode.length = lo ∧ scope1.bytecode.length = hi ∧
    same_bytes lo hi bytecode scope1.bytecode

mutual
/-- The jumps of a statement whose code is in the bytecode from `lo` up to `hi`, where
`break_ip` and `continue_ip` are the targets of the innermost loop around it:
a `break` is a jump to `break_ip` and a `continue` a jump to `continue_ip`; a loop has its
exit jump, whose operand is the address `hi` after the loop, a body whose `break_ip` is
the address of that exit jump and whose `continue_ip` is the address where the code of
the test (while) or of the update (for, foreach) starts, and after the body the jump
back to that address. -/
inductive statement_jumps (host : host_t) (bytecode : List Nat) :
    Int → Int → Nat → Nat → statement_t → Prop
  | break_jump (break_ip continue_ip : Int) (lo : Nat) :
    jump_at bytecode lo break_ip →
    statement_jumps host bytecode break_ip continue_ip lo (lo + 3) .STATEMENT_BREAK
  | continue_jump (break_ip continue_ip : Int) (lo : Nat) :
    jump_at bytecode lo continue_ip →
    statement_jumps host bytecode break_ip continue_ip lo (lo + 3) .STATEMENT_CONTINUE
  | block (break_ip continue_ip : Int) (lo hi : Nat) (block : List statement_t) :
    block_jumps host bytecode break_ip continue_ip lo hi block →
    statement_jumps host bytecode break_ip continue_ip lo hi (.STATEMENT_BLOCK block)
  | if_cases (break_ip continue_ip : Int) (lo mid hi : Nat)
      (cases : List (expression_t × List statement_t))
      (alternative : Option (List statement_t)) :
    cases_jumps host bytecode break_ip continue_ip lo mid cases →
    mid ≤ hi →
    (∀ alt, alternative = some alt →
      block_jumps host bytecode break_ip continue_ip mid hi alt) →
    statement_jumps host bytecode break_ip continue_ip lo hi
      (.STATEMENT_IF cases alternative)
  | while_loop (break_ip continue_ip : Int) (lo after_test back : Nat)
      (test : expression_t) (body : List statement_t) :
    expression_code host bytecode lo after_test test →
    jump_at bytecode (after_test + 3) ((back + 3 : Nat) : Int) →
    block_jumps host bytecode ((after_test + 3 : Nat) : Int) (lo : Int) (after_test + 6) back
      body →
    jump_at bytecode back (lo : Int) →
    statement_jumps host bytecode break_ip continue_ip lo (back + 3)
      (.STATEMENT_WHILE_LOOP test body)
  | for_loop (break_ip continue_ip : Int) (lo update_ip exit_ip back : Nat)
      (init : Option statement_t) (test update : Option expression_t)
      (body : List statement_t) :
    lo ≤ update_ip → update_ip ≤ exit_ip →
    (∀ expr, update = some expr →
      ∃ after_update, expression_code host bytecode update_ip after_update expr) →
    jump_at bytecode exit_ip ((back + 3 : Nat) : Int) →
    block_jumps host bytecode (exit_ip : Int) (update_ip : Int) (exit_ip + 3) back body →
    jump_at bytecode back (update_ip : Int) →
    statement_jumps host bytecode break_ip continue_ip lo (back + 3)
      (.STATEMENT_FOR_LOOP init test update body)
  | foreach (break_ip continue_ip : Int) (lo update_ip exit_ip body_ip back : Nat)
      (iterator : String) (source : expression_t) (body : List statement_t) :
    lo ≤ update_ip → update_ip ≤ exit_ip → exit_ip + 3 ≤ body_ip →
    jump_at bytecode exit_ip ((back + 3 : Nat) : Int) →
    block_jumps host bytecode (exit_ip : Int) (update_ip : Int) body_ip back body →
    jump_at bytecode back (update_ip : Int) →
    statement_jumps host bytecode break_ip continue_ip lo (back + 3)
      (.STATEMENT_FOREACH iterator source body)
  | define (break_ip continue_ip : Int) (lo hi : Nat) (name : String) (value : expression_t)
      (assignable : Bool) :
    lo ≤ hi →
    statement_jumps host bytecode break_ip continue_ip lo hi
      (.STATEMENT_DEFINE name value assignable)
  | return_value (break_ip continue_ip : Int) (lo hi : Nat)
      (return_value : Option expression_t) :
    lo ≤ hi →
    statement_jumps host bytecode break_ip continue_ip lo hi
      (.STATEMENT_RETURN_VALUE return_value)
  | expression (break_ip continue_ip : Int) (lo hi : Nat) (expression : expression_t) :
    lo ≤ hi →
    statement_jumps host bytecode break_ip continue_ip lo hi
      (.STATEMENT_EXPRESSION expression)
  | import_module (break_ip continue_ip : Int) (lo hi : Nat) (path : String) :
    lo ≤ hi →
    statement_jumps host bytecode break_ip continue_ip lo hi (.STATEMENT_IMPORT path)
  | recover (break_ip continue_ip : Int) (lo hi : Nat) (error_ident : String)
      (body : List statement_t) :
    lo ≤ hi →
    statement_jumps host bytecode break_ip continue_ip lo hi
      (.STATEMENT_RECOVER error_ident body)
/-- The jumps of the statements of a code block whose code is in the bytecode from `lo` up
to `hi`: the code of a statement starts where the code of the statement before it ends. -/
inductive block_jumps (host : host_t) (bytecode : List Nat) :
    Int → Int → Nat → Nat → List statement_t → Prop
  | nil (break_ip continue_ip : Int) (lo hi : Nat) :
    lo ≤ hi → block_jumps host bytecode break_ip continue_ip lo hi []
  | cons (break_ip continue_ip : Int) (lo mid hi : Nat) (stmt : statement_t)
      (statements : List statement_t) :
    statement_jumps host bytecode break_ip continue_ip lo mid stmt →
    block_jumps host bytecode break_ip continue_ip mid hi statements →
    block_jumps host bytecode break_ip continue_ip lo hi (stmt :: statements)
/-- The jumps of the consequences of the cases of an if statement, whose code is in the
bytecode from `lo` up to `hi`, one case after the other. -/
inductive cases_jumps (host : host_t) (bytecode : List Nat) :
    Int → Int → Nat → Nat → List (expression_t × List statement_t) → Prop
  | nil (break_ip continue_ip : Int) (lo : Nat) :
    cases_jumps host bytecode break_ip continue_ip lo lo []
  | cons (break_ip continue_ip : Int) (lo consequence_ip after_ip mid hi : Nat)
      (test : expression_t) (consequence : List statement_t)
      (cases : List (expression_t × List statement_t)) :
    lo ≤ consequence_ip → after_ip ≤ mid →
    block_jumps host bytecode break_ip continue_ip consequence_ip after_ip consequence →
    cases_jumps host bytecode break_ip continue_ip mid hi cases →
    cases_jumps host bytecode break_ip continue_ip lo hi ((test, consequence) :: cases)
end

/-- The second compilation scope keeps the stacks of break and continue addresses of the
first one, and its bytecode starts with the bytecode of the first one. -/
def scope_kept (scope scope1 : compilation_scope_t) : Prop :=
  scope1.break_ip_stack = scope.break_ip_stack ∧
  scope1.continue_ip_stack = scope.continue_ip_stack ∧
  ∃ code, scope1.bytecode = scope.bytecode ++ code

/-- The second list of compilation scopes has the outer scopes of the first one, and its
current scope keeps the current scope of the first one. -/
def scopes_kept (scopes scopes1 : List compilation_scope_t) : Prop :=
  scopes1.tail = scopes.tail ∧ scopes1.length = scopes.length ∧
  ∀ scope ∈ scopes.head?, ∀ scope1 ∈ scopes1.head?, scope_kept scope scope1

/-- The result `r`, when it is a success, has a compiler for which `post` holds. -/
def on_success (r : Option (Bool × compiler_t)) (post : compiler_t → Prop) : Prop :=
  ∀ comp1, r = some (true, comp1) → post comp1

/-- The function keeps the compilation scopes whenever it succeeds, for a compiler that
has a compilation scope. -/
def keeps_scopes {α : Type} (f : α → compiler_t → Option (Bool × compiler_t)) : Prop :=
  ∀ x comp, comp.compilation_scope ≠ [] → on_success (f x comp)
    (fun comp1 => scopes_kept comp.compilation_scope comp1.compilation_scope)

/-- The result `r` of compiling `x` from `comp`, when it is a success, keeps the
compilation scopes, and the code it has appended gives the jumps `jumps` of `x`, in any
bytecode that has this code at its addresses, as long as the addresses fit 16 bits. -/
def lays_out_at {α : Type} (jumps : List Nat → Int → Int → Nat → Nat → α → Prop)
    (r : Option (Bool × compiler_t)) (comp : compiler_t) (x : α) : Prop :=
  ∀ comp1 scope outer, r = some (true, comp1) → comp.compilation_scope = scope :: outer →
    ∃ scope1, comp1.compilation_scope = scope1 :: outer ∧ scope_kept scope scope1 ∧
      ∀ bytecode, scope1.bytecode.length < 65536 →
        ip_stack_top scope.break_ip_stack < 65536 →
        ip_stack_top scope.continue_ip_stack < 65536 →
        same_bytes scope.bytecode.length scope1.bytecode.length bytecode scope1.bytecode →
        jumps bytecode (ip_stack_top scope.break_ip_stack)
          (ip_stack_top scope.continue_ip_stack) scope.bytecode.length
          scope1.bytecode.length x

/-- The function lays out the jumps `jumps` of what it compiles. -/
def lays_out {α : Type} (jumps : List Nat → Int → Int → Nat → Nat → α → Prop)
    (f : α → compiler_t → Option (Bool × compiler_t)) : Prop :=
  ∀ x comp, lays_out_at jumps (f x comp) comp x

/-- The compiler has the one compilation scope `scope`, and it has a symbol table. -/
def compiles_at (comp : compiler_t) (scope : compilation_scope_t) : Prop :=
  comp.compilation_scope = [scope] ∧ compiler_get_symbol_table comp ≠ []

/-- The code of `n` statements `null`: `OPCODE_NULL` and `OPCODE_POP` for each. -/
def nulls_code (n : Nat) : List Nat :=
  (List.replicate n [opcode_val OPCODE_NULL, opcode_val OPCODE_POP]).flatten

/-- The compilation scope after `n` statements `null` have been compiled into it. -/
def nulls_scope (n : Nat) (scope : compilation_scope_t) : compilation_scope_t :=
  { scope with
    bytecode := scope.bytecode ++ nulls_code n
    src_positions := scope.src_positions ++ List.replicate (2 * n) src_pos_zero
    last_opcode := if n = 0 then scope.last_opcode else OPCODE_POP }

end compiler


/-! ## Reading operands (code.c, vm.c) -/

/-- The value of a `uint8_t` shifted left as the `int` it is promoted to and then converted
to `uint64_t`: an `int` with the sign bit set is sign-extended.  (Such a shift overflows
`int`; the value two's complement machines give stands for it.) -/
def int_shl_to_uint64 (byte n : Nat) : Nat :=
  let v := (byte <<< n) % 2 ^ 32
  if v < 2 ^ 31 then v else v + (2 ^ 64 - 2 ^ 32)

/-- One round of the `switch` of `code_read_operands`: the operand of the given width at
`instr + offset`; `none` at `default`.  Bytes outside `instr` read as 0. -/
def code_read_operand (operand_width : Nat) (instr : List Nat) (offset : Nat) : Option Nat :=
  match operand_width with
  | 1 => some (instr.getD offset 0)
  | 2 => some ((0 ||| int_shl_to_uint64 (instr.getD offset 0) 8) ||| instr.getD (offset + 1) 0)
  | 4 =>
    some ((((0 ||| int_shl_to_uint64 (instr.getD (offset + 0) 0) 24)
      ||| int_shl_to_uint64 (instr.getD (offset + 1) 0) 16)
      ||| int_shl_to_uint64 (instr.getD (offset + 2) 0) 8)
      ||| instr.getD (offset + 3) 0)
  | 8 =>
    some ((((((((0 ||| (instr.getD (offset + 0) 0 <<< 56) % 2 ^ 64)
      ||| (instr.getD (offset + 1) 0 <<< 48) % 2 ^ 64)
      ||| (instr.getD (offset + 2) 0 <<< 40) % 2 ^ 64)
      ||| (instr.getD (offset + 3) 0 <<< 32) % 2 ^ 64)
      ||| (instr.getD (offset + 4) 0 <<< 24) % 2 ^ 64)
      ||| (instr.getD (offset + 5) 0 <<< 16) % 2 ^ 64)
      ||| (instr.getD (offset + 6) 0 <<< 8) % 2 ^ 64)
      ||| instr.getD (offset + 7) 0)
  | _ => none

/-- The loop of `code_read_operands` with `n` rounds left, at operand `i` and at
`offset`. -/
def code_read_operands_loop (definition : opcode_definition_t) (instr : List Nat) :
    Nat → Nat → Nat → Option (List Nat)
  | 0, _, _ => some []
  | n + 1, i, offset =>
    let operand_width := definition.operand_widths.getD i 0
    match code_read_operand operand_width instr offset with
    | none => none
    | some operand =>
      (code_read_operands_loop definition instr n (i + 1) (offset + operand_width)).map
        fun out_operands => operand :: out_operands

/-- Function `code_read_operands`: the operands `out_operands[0]`, ...; `none` where it
returns false. -/
def code_read_operands (definition : opcode_definition_t) (instr : List Nat) :
    Option (List Nat) :=
  code_read_operands_loop definition instr definition.num_operands 0 0

/-- The function of frame.c that the machine reads an operand of the given width with:
`frame_read_uint8`, `frame_read_uint16` or `frame_read_uint64`; there is none for another
width. -/
def frame_read_operand (width : Nat) (frame : frame_t) : Option (Nat × frame_t) :=
  match width with
  | 1 => some (frame_read_uint8 frame)
  | 2 => some (frame_read_uint16 frame)
  | 8 => some (frame_read_uint64 frame)
  | _ => none

/-- The operands of the given widths read one after the other from a frame. -/
def frame_read_operands : List Nat → frame_t → Option (List Nat × frame_t)
  | [], frame => some ([], frame)
  | width :: widths, frame =>
    match frame_read_operand width frame with
    | none => none
    | some (operand, frame) =>
      (frame_read_operands widths frame).map fun r => (operand :: r.1, r.2)

/-- The `width` bytes of `operand`, the most significant byte first. -/
def big_endian (width operand : Nat) : List Nat :=
  (List.range width).reverse.map fun n => operand / 256 ^ n % 256

/-- The bytes of an instruction as the specification gives them: the opcode byte and then
every operand in big-endian byte order, in the width the definition of the opcode
gives it. -/
def instruction_bytes (op : opcode_t) (definition : opcode_definition_t)
    (operands : List Nat) : List Nat :=
  opcode_val op :: (List.zipWith big_endian definition.operand_widths operands).flatten

/-! ## Removal from a value dictionary (collections.c) -/

/-- The `for` loop of `valdict_remove` that closes the gap, with `n` rounds left: the
dictionary and the cell `i` that is empty at the end.  A cell that is read outside `cells`
counts as empty. -/
def valdict_remove_loop : Nat → valdict_t_ → Nat → Nat → valdict_t_ × Nat
  | 0, dict, i, _ => (dict, i)
  | n + 1, dict, i, j =>
    let j := ((j + 1) % 2 ^ 32) &&& u32_pred dict.cell_capacity
    if dict.cells.getD j VALDICT_INVALID_IX = VALDICT_INVALID_IX then (dict, i)
    else
      let k := (dict.hashes.getD (dict.cells.getD j VALDICT_INVALID_IX) 0
        &&& u32_pred dict.cell_capacity) % 2 ^ 32
      if (j > i ∧ (k ≤ i ∨ k > j)) ∨ (j < i ∧ (k ≤ i ∧ k > j)) then
        let dict := { dict with
          cell_ixs := dict.cell_ixs.set (dict.cells.getD j VALDICT_INVALID_IX) i }
        let dict := { dict with
          cells := dict.cells.set i (dict.cells.getD j VALDICT_INVALID_IX) }
        valdict_remove_loop n dict j j
      else valdict_remove_loop n dict i j

/-- Function `valdict_remove`: the value returned, the dictionary and the memory; `none`
where `valdict_get_key_at` returns NULL and the source reads through it. -/
def valdict_remove (char_signed : Bool) (mem : gcmem_t) (dict : valdict_t_) (key : object_t) :
    Option (Bool × valdict_t_ × gcmem_t) :=
  let h := valdict_hash_key char_signed mem dict key
  let hash := h.1
  let c := valdict_get_cell_ix char_signed h.2 dict key hash
  if ¬ c.2.1 then some (false, dict, c.2.2)
  else
    let cell := c.1
    let item_ix := dict.cells.getD cell VALDICT_INVALID_IX
    let last_item_ix := u32_pred dict.count
    let moved : Option valdict_t_ :=
      if item_ix < last_item_ix then
        match valdict_get_key_at dict last_item_ix with
        | none => none
        | some last_key =>
          let dict := (valdict_set_key_at dict item_ix last_key).2
          match valdict_get_key_at dict last_item_ix with
          | none => none
          | some last_value =>
            let dict := (valdict_set_value_at dict item_ix last_value).2
            let dict := { dict with
              cell_ixs := dict.cell_ixs.set item_ix (dict.cell_ixs.getD last_item_ix 0) }
            let dict := { dict with
              hashes := dict.hashes.set item_ix (dict.hashes.getD last_item_ix 0) }
            some { dict with cells := dict.cells.set (dict.cell_ixs.getD item_ix 0) item_ix }
      else some dict
    match moved with
    | none => none
    | some dict =>
      let dict := { dict with count := u32_pred dict.count }
      let r := valdict_remove_loop (u32_pred dict.cell_capacity) dict cell cell
      some (true, { r.1 with cells := r.1.cells.set r.2 VALDICT_INVALID_IX }, c.2.2)

/-- A value dictionary as `valdict_make` gives it, after `valdict_set` of the keys 1 and 2
with the values 10 and 20. -/
def example_valdict : valdict_t_ :=
  (valdict_set false gcmem_empty
    (valdict_set false gcmem_empty valdict_make_ { handle := 1 } { handle := 10 }).2.1
    { handle := 2 } { handle := 20 }).2.1

/-! ## Copies of trees of the AST (ast.c)

Allocation is taken to succeed; `none` is the NULL the functions return. -/

namespace compiler

mutual
/-- Function `expression_copy` on an expression that is not NULL. -/
def expression_copy : expression_t → Option expression_t
  | .EXPRESSION_IDENT ident => some (.EXPRESSION_IDENT ident)
  | .EXPRESSION_NUMBER_LITERAL number_literal => some (.EXPRESSION_NUMBER_LITERAL number_literal)
  | .EXPRESSION_BOOL_LITERAL bool_literal => some (.EXPRESSION_BOOL_LITERAL bool_literal)
  | .EXPRESSION_STRING_LITERAL string_literal =>
    some (.EXPRESSION_STRING_LITERAL string_literal)
  | .EXPRESSION_NULL_LITERAL => some .EXPRESSION_NULL_LITERAL
  | .EXPRESSION_ARRAY_LITERAL array =>
    match expressions_copy array with
    | none => none
    | some values_copy => some (.EXPRESSION_ARRAY_LITERAL values_copy)
  | .EXPRESSION_MAP_LITERAL keys values =>
    match expressions_copy keys, expressions_copy values with
    | some keys_copy, some values_copy => some (.EXPRESSION_MAP_LITERAL keys_copy values_copy)
    | _, _ => none
  | .EXPRESSION_PREFIX op right =>
    match expression_copy right with
    | none => none
    | some right_copy => some (.EXPRESSION_PREFIX op right_copy)
  | .EXPRESSION_INFIX op left right =>
    match expression_copy left, expression_copy right with
    | some left_copy, some right_copy => some (.EXPRESSION_INFIX op left_copy right_copy)
    | _, _ => none
  | .EXPRESSION_FUNCTION_LITERAL name params body =>
    match code_block_copy body with
    | none => none
    | some body_copy => some (.EXPRESSION_FUNCTION_LITERAL name params body_copy)
  | .EXPRESSION_CALL function args =>
    match expression_copy function, expressions_copy args with
    | some function_copy, some args_copy => some (.EXPRESSION_CALL function_copy args_copy)
    | _, _ => none
  | .EXPRESSION_INDEX left index =>
    match expression_copy left, expression_copy index with
    | some left_copy, some index_copy => some (.EXPRESSION_INDEX left_copy index_copy)
    | _, _ => none
  | .EXPRESSION_ASSIGN dest source is_postfix1 =>
    match expression_copy dest, expression_copy source with
    | some dest_copy, some source_copy =>
      some (.EXPRESSION_ASSIGN dest_copy source_copy is_postfix1)
    | _, _ => none
  | .EXPRESSION_LOGICAL op left right =>
    match expression_copy left, expression_copy right with
    | some left_copy, some right_copy => some (.EXPRESSION_LOGICAL op left_copy right_copy)
    | _, _ => none
  | .EXPRESSION_TERNARY test if_true if_false =>
    match expression_copy test, expression_copy if_true, expression_copy if_false with
    | some test_copy, some if_true_copy, some if_false_copy =>
      some (.EXPRESSION_TERNARY test_copy if_true_copy if_false_copy)
    | _, _, _ => none
/-- Function `ptrarray_copy_with_items` with `expression_copy`. -/
def expressions_copy : List expression_t → Option (List expression_t)
  | [] => some []
  | item :: items =>
    match expression_copy item with
    | none => none
    | some item_copy =>
      match expressions_copy items with
      | none => none
      | some arr_copy => some (item_copy :: arr_copy)
/-- Function `statement_copy` on a statement that is not NULL. -/
def statement_copy : statement_t → Option statement_t
  | .STATEMENT_DEFINE name value assignable =>
    match expression_copy value with
    | none => none
    | some value_copy => some (.STATEMENT_DEFINE name value_copy assignable)
  | .STATEMENT_IF cases alternative =>
    let cases_copy := if_cases_copy cases
    let alternative_copy :=
      match alternative with
      | none => none
      | some block => code_block_copy block
    match cases_copy, alternative_copy with
    | some _, some _ =>
      -- `res = statement_make_if(...); if (res) { ...; return NULL; }`, and with
      -- `res == NULL` the test `if (!res)` after the `switch` returns NULL
      none
    | _, _ => none
  | .STATEMENT_RETURN_VALUE return_value =>
    match return_value with
    | none => none
    | some value =>
      match expression_copy value with
      | none => none
      | some value_copy => some (.STATEMENT_RETURN_VALUE (some value_copy))
  | .STATEMENT_EXPRESSION expression =>
    match expression_copy expression with
    | none => none
    | some value_copy => some (.STATEMENT_EXPRESSION value_copy)
  | .STATEMENT_WHILE_LOOP test body =>
    match expression_copy test, code_block_copy body with
    | some test_copy, some body_copy => some (.STATEMENT_WHILE_LOOP test_copy body_copy)
    | _, _ => none
  | .STATEMENT_BREAK => some .STATEMENT_BREAK
  | .STATEMENT_CONTINUE => some .STATEMENT_CONTINUE
  | .STATEMENT_FOREACH iterator source body =>
    match expression_copy source, code_block_copy body with
    | some source_copy, some body_copy => some (.STATEMENT_FOREACH iterator source_copy body_copy)
    | _, _ => none
  | .STATEMENT_FOR_LOOP init test update body =>
    let init_copy :=
      match init with
      | none => none
      | some stmt => statement_copy stmt
    let test_copy :=
      match test with
      | none => none
      | some expr => expression_copy expr
    let update_copy :=
      match update with
      | none => none
      | some expr => expression_copy expr
    match init_copy, test_copy, update_copy, code_block_copy body with
    | some init_copy, some test_copy, some update_copy, some body_copy =>
      some (.STATEMENT_FOR_LOOP (some init_copy) (some test_copy) (some update_copy) body_copy)
    | _, _, _, _ => none
  | .STATEMENT_BLOCK block =>
    match code_block_copy block with
    | none => none
    | some block_copy => some (.STATEMENT_BLOCK block_copy)
  | .STATEMENT_IMPORT path => some (.STATEMENT_IMPORT path)
  | .STATEMENT_RECOVER error_ident body =>
    match code_block_copy body with
    | none => none
    | some body_copy => some (.STATEMENT_RECOVER error_ident body_copy)
/-- Function `code_block_copy` on a block that is not NULL: `ptrarray_copy_with_items`
with `statement_copy` over its statements. -/
def code_block_copy : List statement_t → Option (List statement_t)
  | [] => some []
  | item :: items =>
    match statement_copy item with
    | none => none
    | some item_copy =>
      match code_block_copy items with
      | none => none
      | some arr_copy => some (item_copy :: arr_copy)
/-- Function `if_case_copy`. -/
def if_case_copy : expression_t × List statement_t → Option (expression_t × List statement_t)
  | (test, consequence) =>
    match expression_copy test with
    | none => none
    | some test_copy =>
      match code_block_copy consequence with
      | none => none
      | some consequence_copy => some (test_copy, consequence_copy)
/-- Function `ptrarray_copy_with_items` with `if_case_copy`. -/
def if_cases_copy :
    List (expression_t × List statement_t) → Option (List (expression_t × List statement_t))
  | [] => some []
  | item :: items =>
    match if_case_copy item with
    | none => none
    | some item_copy =>
      match if_cases_copy items with
      | none => none
      | some arr_copy => some (item_copy :: arr_copy)
end

end compiler

/-! ## An example state for assignments -/

/-- Memory with one function body at 4096, with one free value: the number 1.0. -/
def mem_assign_example : gcmem_t :=
  { (gcmem_empty.store 4096
      { payload := object_payload.function
          { free_vals := [object_make_number 0x3ff0000000000000, { handle := 0 }], name := "f",
            comp_result := { bytecode := [41, 0], src_positions := [src_pos_invalid, src_pos_invalid],
                             count := 2 },
            num_locals := 1, num_args := 0, free_vals_count := 1, owns_data := true },
        gcmark := false, type := OBJECT_FUNCTION }) with
    next_addr := 4160
    objects := [4096]
    objects_back := [4096] }

/-- A machine over `mem_assign_example` in the function at 4096, about to read the operand
0 of an instruction: the local 0, the module global 0 and the free value 0 all hold the
number 1.0, and the value `true` is on top of the stack. -/
def vm_assign_example : vm_t :=
  { mem := mem_assign_example
    errors := { errors := [] }
    globals := fun i => if i = 0 then object_make_number 0x3ff0000000000000 else object_make_null
    globals_count := 1
    stack := fun i =>
      if i = 0 then example_fn else if i = 1 then object_make_number 0x3ff0000000000000
      else if i = 2 then object_make_bool true else object_make_null
    sp := 3
    this_stack := fun _ => object_make_null
    this_sp := 0
    frames := fun _ =>
      { frame_zero with function := example_fn, bytecode := [41, 0], ip := 1, bytecode_size := 2,
                        base_pointer := 1, recover_ip := -1 }
    frames_count := 1
    last_popped := object_make_null
    current_frame := some 0
    running := true
    operator_oveload_keys := fun _ => object_make_null }

/-- The statements of `fn() { if (false) { return 1 } }(); 7`: the body of the function
is an if statement without an alternative whose consequence ends with a return
statement. -/
def example_fn_if : List compiler.statement_t :=
  [.STATEMENT_EXPRESSION (.EXPRESSION_CALL
    (.EXPRESSION_FUNCTION_LITERAL none []
      [.STATEMENT_IF
        [(.EXPRESSION_BOOL_LITERAL false,
          [.STATEMENT_RETURN_VALUE (some (.EXPRESSION_NUMBER_LITERAL (double_of_int 1)))])]
        none])
    []),
   .STATEMENT_EXPRESSION (.EXPRESSION_NUMBER_LITERAL (double_of_int 7))]

/-- The statements of `fn() { return 1 }(); 7`. -/
def example_fn_return : List compiler.statement_t :=
  [.STATEMENT_EXPRESSION (.EXPRESSION_CALL
    (.EXPRESSION_FUNCTION_LITERAL none []
      [.STATEMENT_RETURN_VALUE (some (.EXPRESSION_NUMBER_LITERAL (double_of_int 1)))])
    []),
   .STATEMENT_EXPRESSION (.EXPRESSION_NUMBER_LITERAL (double_of_int 7))]

/-- A host without a file read function whose parser knows the two texts with a call. -/
def example_host_calls : compiler.host_t :=
  { parser_parse_all := fun code errors =>
      if code = "fn() { if (false) { return 1 } }(); 7" then (some example_fn_if, errors)
      else if code = "fn() { return 1 }(); 7" then (some example_fn_return, errors)
      else (none, errors)
    read_file := none }

/-! ## Sequences of calls on a symbol table -/

/-- A call of one of `symbol_table_push_block_scope`, `symbol_table_pop_block_scope` and
`symbol_table_define`. -/
inductive symbol_table_call where
  | push_block_scope
  | pop_block_scope
  | define (name : String) (assignable : Bool)
  deriving DecidableEq, Repr

/-- The table after a call on it, `outer` being the tables reached through its pointer
`outer`; `none` where the source reads through the NULL top scope: at a definition and at
a pop without a block scope. -/
def symbol_table_call_apply (outer : List symbol_table_t) (table : symbol_table_t) :
    symbol_table_call → Option symbol_table_t
  | .push_block_scope => some (symbol_table_push_block_scope table)
  | .pop_block_scope =>
    if table.block_scopes.isEmpty = true then none
    else some (symbol_table_pop_block_scope table)
  | .define name assignable =>
    match symbol_table_define (table :: outer) name assignable with
    | some (_, table1 :: _) => some table1
    | _ => none

/-- The table after a sequence of calls. -/
def symbol_table_calls (outer : List symbol_table_t) :
    List symbol_table_call → symbol_table_t → Option symbol_table_t
  | [], table => some table
  | call :: calls, table =>
    match symbol_table_call_apply outer table call with
    | none => none
    | some table1 => symbol_table_calls outer calls table1

/-- The symbols that the open block scopes of a table hold, from the outermost block scope
to the top one. -/
def symbol_table_symbols (table : symbol_table_t) : List symbol_t :=
  table.block_scopes.flatMap fun scope => scope.store.map fun item => item.2

/-- The Local symbols that the open block scopes of a table hold. -/
def symbol_table_locals (table : symbol_table_t) : List symbol_t :=
  (symbol_table_symbols table).filter fun symbol => decide (symbol.type = SYMBOL_LOCAL)

/-- The block scopes of a function table as the calls leave them, with `base` definitions
in the scopes below: every scope starts at the number of definitions below it, and the
symbols it holds have different indices, from its offset up to its number of
definitions. -/
def block_scopes_ok (base : Int) : List block_scope_t → Prop
  | [] => True
  | scope :: scopes =>
    scope.offset = base ∧ 0 ≤ scope.num_definitions ∧
    (∀ item ∈ scope.store, base ≤ item.2.index ∧ item.2.index < base + scope.num_definitions) ∧
    scope.store.Pairwise (fun a b => a.2.index ≠ b.2.index) ∧
    block_scopes_ok (base + scope.num_definitions) scopes

/-! ## Rounds of the loop of `vm_execute_function` and the frames -/

/-- One round of the loop of `vm_execute_function` up to the test of `gc_should_sweep`: the
opcode is read, its case is executed, and the statements at the label `err` follow unless
the case went to `end`. -/
def vm_execute_round (char_signed ape_debug : Bool) (natives : native_call_t)
    (constants store_objects : List object_t) (vm : vm_t) : Option (vm_goto × vm_t) :=
  let r := frame_read_opcode (vm_current vm)
  let vm := vm_set_current vm r.2
  match vm_execute_opcode char_signed ape_debug natives constants store_objects vm r.1 with
  | none => none
  | some (vm_goto.finish, vm) => some (vm_goto.finish, vm)
  | some (_, vm) => some (vm_recover ape_debug vm)

/-- What the frame stack tells about recovering: the number of frames, the current frame
and, for every slot of `frames`, its flag `is_recovering`. -/
def frame_view (vm : vm_t) : Int × Option Int × (Int → Bool) :=
  (vm.frames_count, vm.current_frame, fun i => (vm.frames i).is_recovering)

/-- The member `current_frame` points to the top of the frame stack, and is `NULL` when
there is no frame. -/
def frame_top (vm : vm_t) : Prop :=
  (1 ≤ vm.frames_count ∧ vm.current_frame = some (vm.frames_count - 1))
  ∨ (vm.frames_count = 0 ∧ vm.current_frame = none)

/-- No frame is popped and the flags of the frames on the stack are as before;
`current_frame` stays at the top. -/
def frame_grow (vm vm1 : vm_t) : Prop :=
  vm.frames_count ≤ vm1.frames_count
  ∧ (∀ i, i < vm.frames_count → (vm1.frames i).is_recovering = (vm.frames i).is_recovering)
  ∧ (frame_top vm → frame_top vm1)

/-- No frame is pushed and no flag `is_recovering` goes from true to false;
`current_frame` stays at the top. -/
def frame_shrink (vm vm1 : vm_t) : Prop :=
  vm1.frames_count ≤ vm.frames_count
  ∧ (∀ i, (vm.frames i).is_recovering = true → (vm1.frames i).is_recovering = true)
  ∧ (frame_top vm → frame_top vm1)

/-- A host function leaves the frames of the machine as it finds them. -/
def natives_keep_frames (natives : native_call_t) : Prop :=
  ∀ (vm : vm_t) (f : native_function_t) (args : List object_t),
    frame_view (natives vm f args).2 = frame_view vm

/-- The state `vm1` is reached from `vm` by rounds of the loop of `vm_execute_function` and
runs of the collector, and the frame in slot `i` is on the frame stack at the start of
every round: it is the same frame all the way. -/
inductive rounds_with_frame (char_signed ape_debug : Bool) (natives : native_call_t)
    (constants store_objects : List object_t) (i : Int) : vm_t → vm_t → Prop where
  | none (vm : vm_t) :
    rounds_with_frame char_signed ape_debug natives constants store_objects i vm vm
  | round (vm vm1 vm2 : vm_t) (goto : vm_goto) :
    rounds_with_frame char_signed ape_debug natives constants store_objects i vm vm1 →
    i < vm1.frames_count →
    vm_execute_round char_signed ape_debug natives constants store_objects vm1
      = some (goto, vm2) →
    rounds_with_frame char_signed ape_debug natives constants store_objects i vm vm2
  | collect (vm vm1 vm2 : vm_t) (fuel : Nat) :
    rounds_with_frame char_signed ape_debug natives constants store_objects i vm vm1 →
    run_gc fuel vm1 constants store_objects = some vm2 →
    rounds_with_frame char_signed ape_debug natives constants store_objects i vm vm2

/-- A machine with two frames and no error.  Frame 0 has a handler at `ip` 0 that it has not
entered; frame 1, the current one, has entered its handler and is about to run
`OPCODE_TRUE` and then `OPCODE_CONSTANT 5`. -/
def vm_recovered_example : vm_t :=
  { vm_call_example 2 with
    frames := fun i =>
      if i = 0 then { frame_call_example with recover_ip := 0 }
      else
        { frame_call_example with
          bytecode := [8, 1, 0, 5], ip := 0, bytecode_size := 4, base_pointer := 2,
          recover_ip := 0, is_recovering := true } }

/-- The machine `vm_recovered_example` after one round of the loop. -/
def vm_recovered_round : vm_t :=
  ((vm_execute_round false false natives_none [] [] vm_recovered_example).getD
    (vm_goto.finish, vm_recovered_example)).2

/-- The machine `vm_recovered_round` after the `switch` of the next round, which finds no
constant 5. -/
def vm_recovered_raised : vm_goto × vm_t :=
  (vm_execute_opcode false false natives_none [] []
    (vm_set_current vm_recovered_round (frame_read_opcode (vm_current vm_recovered_round)).2)
    (frame_read_opcode (vm_current vm_recovered_round)).1).getD
    (vm_goto.finish, vm_recovered_round)

/-! ## String dictionary at the level of its cells (collections.c)

The dictionary `dict_t_` of collections.c with its arrays.  A key is the list of the bytes
of a C string before its terminator, so `strcmp(a, b) == 0` is equality of lists; a value
is a pointer, 0 for `NULL`.  Allocation is taken to succeed. -/

namespace collections

/-- Macro `DICT_INVALID_IX` (`UINT_MAX`). -/
def DICT_INVALID_IX : Nat := 0xffffffff

/-- Structure `dict_t_`.  The arrays `keys`, `values`, `cell_ixs` and `hashes` have
`item_capacity` slots, `cells` has `cell_capacity`. -/
structure dict_t_ where
  cells : List Nat
  hashes : List Nat
  keys : List (List Nat)
  values : List Nat
  cell_ixs : List Nat
  count : Nat
  item_capacity : Nat
  cell_capacity : Nat
  deriving DecidableEq, Repr

/-- Function `hash_string` (djb2) with `unsigned long` of 64 bits. -/
def hash_string (str : List Nat) : Nat :=
  str.foldl (fun hash c => (((hash <<< 5) % 2 ^ 64 + hash) % 2 ^ 64 + c % 256) % 2 ^ 64) 5381

/-- Function `dict_init`.  The blocks `allocator_malloc` returns are represented
zero-filled.  `(unsigned int)(initial_capacity * 0.7f)` is computed exactly: `0.7f` is
`11744051 / 2^24` and the product is exact for the capacities that occur (powers of two). -/
def dict_init (initial_capacity : Nat) : dict_t_ :=
  let cell_capacity := initial_capacity
  let item_capacity := initial_capacity * 11744051 / 16777216
  { cells := List.replicate cell_capacity DICT_INVALID_IX
    hashes := List.replicate item_capacity 0
    keys := List.replicate item_capacity []
    values := List.replicate item_capacity 0
    cell_ixs := List.replicate item_capacity 0
    count := 0
    item_capacity := item_capacity
    cell_capacity := cell_capacity }

/-- Function `dict_make_`. -/
def dict_make_ : dict_t_ := dict_init DICT_INITIAL_SIZE

/-- The `for` loop of `dict_get_cell_ix`, with `n` rounds left at counter `i`.  A cell that
is read outside `cells` counts as empty. -/
def dict_get_cell_ix_loop (dict : dict_t_) (key : List Nat) (hash cell_ix : Nat) :
    Nat → Nat → Nat × Bool
  | 0, _ => (DICT_INVALID_IX, false)
  | n + 1, i =>
    let ix := ((cell_ix + i) % 2 ^ 32) &&& u32_pred dict.cell_capacity
    let cell := dict.cells.getD ix DICT_INVALID_IX
    if cell = DICT_INVALID_IX then (ix, false)
    else
      let hash_to_check := dict.hashes.getD cell 0
      if hash ≠ hash_to_check then dict_get_cell_ix_loop dict key hash cell_ix n (i + 1)
      else
        let key_to_check := dict.keys.getD cell []
        if key = key_to_check then (ix, true)
        else dict_get_cell_ix_loop dict key hash cell_ix n (i + 1)

/-- Function `dict_get_cell_ix`: the cell index and `*out_found`. -/
def dict_get_cell_ix (dict : dict_t_) (key : List Nat) (hash : Nat) : Nat × Bool :=
  let cell_ix := (hash &&& u32_pred dict.cell_capacity) % 2 ^ 32
  dict_get_cell_ix_loop dict key hash cell_ix dict.cell_capacity 0

/-- Function `dict_get`: the value, 0 for `NULL`. -/
def dict_get (dict : dict_t_) (key : List Nat) : Nat :=
  let hash := hash_string key
  let c := dict_get_cell_ix dict key hash
  if c.2 = false then 0
  else
    let item_ix := dict.cells.getD c.1 DICT_INVALID_IX
    dict.values.getD item_ix 0

/-- The copy loop of `dict_grow_and_rehash`: `n` items left, starting at item `i`; `set` is
`dict_set_internal` with the key as `mkey`.  `none` when `set` does not return. -/
def dict_rehash_loop (set : dict_t_ → List Nat → Option (List Nat) → Nat → Option (Bool × dict_t_))
    (dict : dict_t_) : Nat → Nat → dict_t_ → Option (Bool × dict_t_)
  | 0, _, new_dict => some (true, new_dict)
  | n + 1, i, new_dict =>
    let key := dict.keys.getD i []
    let value := dict.values.getD i 0
    match set new_dict key (some key) value with
    | none => none
    | some (ok, new_dict) =>
      if ¬ ok then some (false, new_dict)
      else dict_rehash_loop set dict n (i + 1) new_dict

/-- Function `dict_grow_and_rehash`, given `dict_set_internal`: on success the new
dictionary replaces the old one, on failure the old one is kept. -/
def dict_grow_and_rehash_with
    (set : dict_t_ → List Nat → Option (List Nat) → Nat → Option (Bool × dict_t_))
    (dict : dict_t_) : Option (Bool × dict_t_) :=
  let new_dict := dict_init ((dict.cell_capacity * 2) % 2 ^ 32)
  match dict_rehash_loop set dict dict.count 0 new_dict with
  | none => none
  | some (ok, new_dict) => if ¬ ok then some (false, dict) else some (true, new_dict)

/-- The end of `dict_set_internal`: the item is appended and cell `cell_ix` names it. -/
def dict_append (dict : dict_t_) (cell_ix : Nat) (key : List Nat) (value hash : Nat) : dict_t_ :=
  let dict := { dict with keys := dict.keys.set dict.count key }
  let dict := { dict with cells := dict.cells.set cell_ix dict.count }
  let dict := { dict with values := dict.values.set dict.count value }
  let dict := { dict with cell_ixs := dict.cell_ixs.set dict.count cell_ix }
  let dict := { dict with hashes := dict.hashes.set dict.count hash }
  { dict with count := (dict.count + 1) % 2 ^ 32 }

/-- Function `dict_set_internal`; `mkey` is `none` for `NULL`.  The first argument bounds the
nesting of `dict_set_internal` inside `dict_grow_and_rehash` inside `dict_set_internal`;
`none` when it is used up. -/
def dict_set_internal :
    Nat → dict_t_ → List Nat → Option (List Nat) → Nat → Option (Bool × dict_t_)
  | 0, _, _, _, _ => none
  | fuel + 1, dict, ckey, mkey, value =>
    let hash := hash_string ckey
    let c := dict_get_cell_ix dict ckey hash
    if c.2 then
      let item_ix := dict.cells.getD c.1 DICT_INVALID_IX
      some (true, { dict with values := dict.values.set item_ix value })
    else
      let grown : Option (Bool × dict_t_ × Nat) :=
        if dict.count ≥ dict.item_capacity then
          match dict_grow_and_rehash_with (dict_set_internal fuel) dict with
          | none => none
          | some (ok, dict) =>
            if ¬ ok then some (false, dict, c.1)
            else some (true, dict, (dict_get_cell_ix dict ckey hash).1)
        else some (true, dict, c.1)
      match grown with
      | none => none
      | some (ok, dict, cell_ix) =>
        if ¬ ok then some (false, dict)
        else
          let key := match mkey with
            | some mkey => mkey
            | none => ckey
          some (true, dict_append dict cell_ix key value hash)

/-- Function `dict_set`, with the bound `fuel` of `dict_set_internal`. -/
def dict_set (fuel : Nat) (dict : dict_t_) (key : List Nat) (value : Nat) :
    Option (Bool × dict_t_) :=
  dict_set_internal fuel dict key none value

/-- The `for` loop of `dict_remove` that closes the gap, with `n` rounds left: the
dictionary and the cell `i` that is empty at the end.  A cell that is read outside `cells`
counts as empty. -/
def dict_remove_loop : Nat → dict_t_ → Nat → Nat → dict_t_ × Nat
  | 0, dict, i, _ => (dict, i)
  | n + 1, dict, i, j =>
    let j := ((j + 1) % 2 ^ 32) &&& u32_pred dict.cell_capacity
    if dict.cells.getD j DICT_INVALID_IX = DICT_INVALID_IX then (dict, i)
    else
      let k := (dict.hashes.getD (dict.cells.getD j DICT_INVALID_IX) 0
        &&& u32_pred dict.cell_capacity) % 2 ^ 32
      if (j > i ∧ (k ≤ i ∨ k > j)) ∨ (j < i ∧ (k ≤ i ∧ k > j)) then
        let dict := { dict with
          cell_ixs := dict.cell_ixs.set (dict.cells.getD j DICT_INVALID_IX) i }
        let dict := { dict with
          cells := dict.cells.set i (dict.cells.getD j DICT_INVALID_IX) }
        dict_remove_loop n dict j j
      else dict_remove_loop n dict i j

/-- The statements of `dict_remove` that move the last item into the slot `item_ix`. -/
def dict_remove_move (dict : dict_t_) (item_ix last_item_ix : Nat) : dict_t_ :=
  let dict := { dict with keys := dict.keys.set item_ix (dict.keys.getD last_item_ix []) }
  let dict := { dict with values := dict.values.set item_ix (dict.values.getD last_item_ix 0) }
  let dict := { dict with
    cell_ixs := dict.cell_ixs.set item_ix (dict.cell_ixs.getD last_item_ix 0) }
  let dict := { dict with hashes := dict.hashes.set item_ix (dict.hashes.getD last_item_ix 0) }
  { dict with cells := dict.cells.set (dict.cell_ixs.getD item_ix 0) item_ix }

/-- The statements of `dict_remove` from `if (item_ix < last_item_ix)` to
`dict->count--`. -/
def dict_remove_item (dict : dict_t_) (item_ix last_item_ix : Nat) : dict_t_ :=
  let dict := if item_ix < last_item_ix then dict_remove_move dict item_ix last_item_ix
    else dict
  { dict with count := u32_pred dict.count }

/-- Function `dict_remove`: the value returned and the dictionary. -/
def dict_remove (dict : dict_t_) (key : List Nat) : Bool × dict_t_ :=
  let hash := hash_string key
  let c := dict_get_cell_ix dict key hash
  if ¬ c.2 then (false, dict)
  else
    let cell := c.1
    let item_ix := dict.cells.getD cell DICT_INVALID_IX
    let last_item_ix := u32_pred dict.count
    let dict := dict_remove_item dict item_ix last_item_ix
    let r := dict_remove_loop (u32_pred dict.cell_capacity) dict cell cell
    (true, { r.1 with cells := r.1.cells.set r.2 DICT_INVALID_IX })

/-- The dictionaries that `dict_make_` and successful calls of `dict_set` build. -/
inductive dict_built : dict_t_ → Prop where
  | make : dict_built dict_make_
  | set (fuel : Nat) (dict : dict_t_) (key : List Nat) (value : Nat) (dict2 : dict_t_) :
    dict_built dict → dict_set fuel dict key value = some (true, dict2) → dict_built dict2

/-- The key `key` is stored in the dictionary with the value `value`. -/
def dict_has (dict : dict_t_) (key : List Nat) (value : Nat) : Prop :=
  ∃ i, i < dict.count ∧ dict.keys.getD i [] = key ∧ dict.values.getD i 0 = value

/-- The distance from cell `a` to cell `b` in the direction of probing, in a table of `cap`
cells. -/
def probe_dist (cap a b : Nat) : Nat := if a ≤ b then b - a else b + cap - a

/-- The home cell of the item in slot `j`. -/
def dict_home (dict : dict_t_) (j : Nat) : Nat := dict.hashes.getD j 0 % dict.cell_capacity

/-- Invariant of the cells of a dictionary in which cell `hole` is being vacated (no cell
when `hole = cell_capacity`): every other cell is empty or names an item that names the
cell, the keys are distinct and carry their hashes, and from the home cell of an item to
its cell every cell but `hole` is in use. -/
structure dict_ok (dict : dict_t_) (hole : Nat) : Prop where
  cap_pow : ∃ e, dict.cell_capacity = 2 ^ e ∧ e ≤ 31
  cells_len : dict.cells.length = dict.cell_capacity
  keys_len : dict.keys.length = dict.item_capacity
  values_len : dict.values.length = dict.item_capacity
  hashes_len : dict.hashes.length = dict.item_capacity
  cell_ixs_len : dict.cell_ixs.length = dict.item_capacity
  count_le : dict.count ≤ dict.item_capacity
  item_lt : dict.item_capacity < dict.cell_capacity
  items_ok : ∀ j, j < dict.count →
    dict.cell_ixs.getD j 0 < dict.cell_capacity ∧ dict.cell_ixs.getD j 0 ≠ hole
    ∧ dict.cells.getD (dict.cell_ixs.getD j 0) DICT_INVALID_IX = j
    ∧ dict.hashes.getD j 0 = hash_string (dict.keys.getD j [])
  cells_ok : ∀ p, p < dict.cell_capacity → p ≠ hole →
    dict.cells.getD p DICT_INVALID_IX = DICT_INVALID_IX
    ∨ (dict.cells.getD p DICT_INVALID_IX < dict.count
      ∧ dict.cell_ixs.getD (dict.cells.getD p DICT_INVALID_IX) 0 = p)
  distinct : ∀ i j, i < dict.count → j < dict.count →
    dict.keys.getD i [] = dict.keys.getD j [] → i = j
  path : ∀ j, j < dict.count → ∀ p, p < dict.cell_capacity → p ≠ hole →
    probe_dist dict.cell_capacity (dict_home dict j) p
      < probe_dist dict.cell_capacity (dict_home dict j) (dict.cell_ixs.getD j 0) →
    dict.cells.getD p DICT_INVALID_IX ≠ DICT_INVALID_IX

/-- The cell `hole` lies between the home cell of the item in slot `a` and its cell. -/
def hole_on_path (dict : dict_t_) (hole a : Nat) : Prop :=
  probe_dist dict.cell_capacity (dict_home dict a) hole
    < probe_dist dict.cell_capacity (dict_home dict a) (dict.cell_ixs.getD a 0)

/-- Representation invariant of a dictionary: `dict_ok` without a hole, `item_capacity` is
0.7 times the cell capacity, and the empty cells and the items fill the table. -/
def dict_wf (dict : dict_t_) : Prop :=
  dict_ok dict dict.cell_capacity
  ∧ dict.item_capacity = dict.cell_capacity * 11744051 / 16777216
  ∧ dict.cells.count DICT_INVALID_IX + dict.count = dict.cell_capacity

/-- The dictionary `dict_make_` after `dict_set` of the key "a" with the value 1. -/
def example_dict_a : dict_t_ :=
  ((dict_set 2 dict_make_ [97] 1).getD (false, dict_make_)).2

/-- The dictionary `example_dict_a` after `dict_set` of the key "A" with the value 2. -/
def example_dict_aA : dict_t_ :=
  ((dict_set 2 example_dict_a [65] 2).getD (false, example_dict_a)).2

/-- The dictionary `example_dict_aA` after `dict_set` of the key "b" with the value 3.  The
home cell of "a" and of "A" is cell 6, that of "b" is cell 7; "A" is in cell 7 and "b" in
cell 8. -/
def example_dict : dict_t_ :=
  ((dict_set 2 example_dict_aA [98] 3).getD (false, example_dict_aA)).2

end collections

/-! ## The operand stack at its limits (vm.c)

`stack_push` and `stack_pop` above give the state in which a call returns; they follow
the C text for `0 <= sp < VM_STACK_SIZE` (`1 <= sp <= VM_STACK_SIZE` for the pop), with
`assert` compiled out.  At the limits the C text does more than return: `APE_ASSERT` is
`assert` where `APE_DEBUG` is defined (and does something unless `NDEBUG` is defined too),
and without the debug block the functions access `stack[sp]` whatever `sp` is.  The
functions below follow the two calls in each of the builds. -/

/-- How a call ends: it returns; or `assert` aborts the process, in the state reached; or
the call accesses an array outside its bounds or reads through a null pointer, and the
behaviour is undefined. -/
inductive call_end (α : Type) where
  | returns (a : α)
  | aborts (vm : vm_t)
  | undefined

/-- The assertion of the debug block on the current frame: `sp` is not below the locals
of the frame (`true` without a current frame, where nothing is asserted). -/
def stack_frame_assert (vm : vm_t) (sp : Int) : Bool :=
  match vm.current_frame with
  | some ix =>
    let frame := vm.frames ix
    let current_function := object_get_function vm.mem frame.function
    decide (sp ≥ frame.base_pointer + current_function.num_locals)
  | none => true

/-- The statements `vm->stack[vm->sp] = obj; vm->sp++;` of `stack_push`. -/
def stack_push_store (vm : vm_t) (obj : object_t) : call_end vm_t :=
  if 0 ≤ vm.sp ∧ vm.sp < VM_STACK_SIZE then
    call_end.returns
      { vm with stack := fun i => if i = vm.sp then obj else vm.stack i, sp := vm.sp + 1 }
  else call_end.undefined

/-- Function `stack_push` as each build executes it; `ape_debug` and `ndebug` tell whether
`APE_DEBUG` and `NDEBUG` are defined. -/
def stack_push_run (ape_debug ndebug : Bool) (vm : vm_t) (obj : object_t) : call_end vm_t :=
  if ape_debug = true then
    if vm.sp ≥ VM_STACK_SIZE then
      if ndebug = false then call_end.aborts vm
      else
        match vm.current_frame with
        | none => call_end.undefined
        | some _ =>
          call_end.returns
            { vm with errors := (errors_add_error vm.errors ERROR_RUNTIME (vm_src_position vm)
                "Stack overflow") }
    else if ndebug = false ∧ stack_frame_assert vm vm.sp = false then call_end.aborts vm
    else stack_push_store vm obj
  else stack_push_store vm obj

/-- The statements `vm->sp--; res = vm->stack[vm->sp]; vm->last_popped = res; return res;`
of `stack_pop`. -/
def stack_pop_load (vm : vm_t) : call_end (object_t × vm_t) :=
  if 1 ≤ vm.sp ∧ vm.sp ≤ VM_STACK_SIZE then
    call_end.returns
      (vm.stack (vm.sp - 1), { vm with sp := vm.sp - 1, last_popped := vm.stack (vm.sp - 1) })
  else call_end.undefined

/-- Function `stack_pop` as each build executes it. -/
def stack_pop_run (ape_debug ndebug : Bool) (vm : vm_t) : call_end (object_t × vm_t) :=
  if ape_debug = true then
    if vm.sp = 0 then
      match vm.current_frame with
      | none => call_end.undefined
      | some _ =>
        if ndebug = false then
          call_end.aborts
            { vm with errors := (errors_add_error vm.errors ERROR_RUNTIME (vm_src_position vm)
                "Stack underflow") }
        else
          call_end.returns
            (object_make_null,
              { vm with errors := (errors_add_error vm.errors ERROR_RUNTIME
                  (vm_src_position vm) "Stack underflow") })
    else if ndebug = false ∧ stack_frame_assert vm (vm.sp - 1) = false then call_end.aborts vm
    else stack_pop_load vm
  else stack_pop_load vm

/-! ## Probing invariant of a value dictionary (collections.c)

`valdict_set` puts an item into the first empty cell that the probe loop of
`valdict_get_cell_ix` meets, and nothing removes an item of a Map; so every item is
reached from the home cell of its hash through cells that are in use. -/

/-- The cell at which `valdict_get_cell_ix` starts for a hash:
`hash & (dict->cell_capacity - 1)` as `unsigned int`. -/
def valdict_home (d : valdict_t_) (hash : Nat) : Nat :=
  (hash &&& u32_pred d.cell_capacity) % 2 ^ 32

/-- Item `j` is reached by probing: some round `t` of the probe loop that starts at the
home cell of its stored hash sees the cell that names `j`, and every earlier round sees a
cell in use. -/
def valdict_reached (d : valdict_t_) (j : Nat) : Prop :=
  ∃ t, t < d.cell_capacity
    ∧ d.cells.getD (probe_pos d (valdict_home d (d.hashes.getD j 0)) t) VALDICT_INVALID_IX = j
    ∧ ∀ s, s < t →
      d.cells.getD (probe_pos d (valdict_home d (d.hashes.getD j 0)) s) VALDICT_INVALID_IX
        ≠ VALDICT_INVALID_IX

/-- The cells of a dictionary: the capacity is a power of two, or 0 as in the table of
an empty map literal; the cells not in use are those not taken by an item; and every
item is reached by probing. -/
def valdict_paths (d : valdict_t_) : Prop :=
  (d.cell_capacity = 0 ∨ ∃ e, d.cell_capacity = 2 ^ e)
  ∧ d.cells.count VALDICT_INVALID_IX + d.count = d.cell_capacity
  ∧ ∀ j, j < d.count → valdict_reached d j

/-- Probing invariant of a dictionary: `valdict_paths`, and the hash stored with each
item is the hash of its key. -/
def valdict_probe_ok (char_signed : Bool) (mem : gcmem_t) (d : valdict_t_) : Prop :=
  valdict_paths d
  ∧ ∀ j, j < d.count →
      d.hashes.getD j 0 = (valdict_hash_key char_signed mem d (d.keys.getD j { handle := 0 })).1

/-- Two memories in which every body has the same type and shows the same string to its
readers (buffer, length and the hash that `object_get_string_hash` returns): hashing and
comparing keys gives the same in both. -/
def view_eq (char_signed : Bool) (mem mem2 : gcmem_t) : Prop :=
  ∀ q, (mem.deref q).type = (mem2.deref q).type
    ∧ (mem.deref q).string.value = (mem2.deref q).string.value
    ∧ (mem.deref q).string.length = (mem2.deref q).string.length
    ∧ string_hash_val char_signed (mem.deref q).string
        = string_hash_val char_signed (mem2.deref q).string

/-! ## A map with two Number keys -/

/-- The Number `0x3CA0000203E0F83E`, a little more than `2^-53`. -/
def key_small : object_t := object_make_number 0x3CA0000203E0F83E

/-- The Number `0xBCA0000000000000`, `-2^-53`. -/
def key_small_neg : object_t := object_make_number 0xBCA0000000000000

/-- The Number `0x0000000F05B745D1`, a subnormal close to 0. -/
def key_tiny : object_t := object_make_number 0x0000000F05B745D1

/-- The dictionary of a map made with capacity 2 (4 cells, 2 item slots), after
`valdict_set` of `key_small` with value 1.0 and of `key_small_neg` with value 2.0. -/
def dict_pair : valdict_t_ :=
  (valdict_set false gcmem_empty
    (valdict_set false gcmem_empty
      (valdict_set_equals_function
        (valdict_set_hash_function (valdict_make_with_capacity 2)
          collections_hash_fn.object_hash)
        collections_equals_fn.object_equals_wrapped)
      key_small (object_make_number 0x3ff0000000000000)).2.1
    key_small_neg (object_make_number 0x4000000000000000)).2.1

/-- Memory with one map body, holding `dict_pair`, at address 4096. -/
def mem_pair_map : gcmem_t :=
  gcmem_empty.store 4096
    { payload := object_payload.map dict_pair, gcmark := false, type := OBJECT_MAP }

/-! ## Theorems -/

theorem and_or_self_left (c p : Nat) : (c ||| p) &&& c = c := by
  apply Nat.eq_of_testBit_eq
  intro i
  simp only [Nat.testBit_and, Nat.testBit_or]
  cases c.testBit i <;> cases p.testBit i <;> rfl

theorem allocated_handle (type : object_type_t) (p : Nat)
    (hk : is_allocated_kind type = true) (hp : p < 2 ^ 48) :
    (object_make_from_data type p).handle = OBJECT_ALLOCATED_HEADER + p := by
  have htag : get_type_tag type = 4 := by
    cases type <;> simp_all [is_allocated_kind, get_type_tag]
  have h64 : p % 2 ^ 64 = p := Nat.mod_eq_of_lt (by omega)
  simp only [object_make_from_data, htag, h64]
  have hc : OBJECT_PATTERN ||| ((4 &&& 0x7) <<< 48) % 2 ^ 64 = 2 ^ 48 * 0xfffc := by decide
  rw [hc, ← Nat.mul_add_lt_is_or hp]
  rfl

/-- C1: `object_make_number` applied to the double with bit pattern `w` yields a value of
type NUMBER; when `(w & 0xFFF8000000000000) != 0xFFF8000000000000` the value's bits are `w`
and `object_get_number` returns `w`; otherwise the value is `0x7FF8000000000000`. -/
theorem C1_make_number (mem : gcmem_t) (w : Nat) :
    object_get_type mem (object_make_number w) = OBJECT_NUMBER
    ∧ (w &&& 0xFFF8000000000000 ≠ 0xFFF8000000000000 →
        (object_make_number w).handle = w ∧ object_get_number (object_make_number w) = w)
    ∧ (w &&& 0xFFF8000000000000 = 0xFFF8000000000000 →
        (object_make_number w).handle = 0x7FF8000000000000) := by
  by_cases h : w &&& 0xFFF8000000000000 = 0xFFF8000000000000
  · have hm : object_make_number w = { handle := 0x7ff8000000000000 } := by
      simp [object_make_number, OBJECT_PATTERN, h]
    refine ⟨?_, fun h2 => absurd h h2, fun _ => by rw [hm]⟩
    rw [hm]
    have hn : object_is_number { handle := 0x7ff8000000000000 } = true := by decide
    simp [object_get_type, hn]
  · have hm : object_make_number w = { handle := w } := by
      simp [object_make_number, OBJECT_PATTERN, h]
    have hn : object_is_number { handle := w } = true := by
      simp [object_is_number, OBJECT_PATTERN, h]
    refine ⟨?_, fun _ => ?_, fun h2 => absurd h2 h⟩
    · rw [hm]
      simp [object_get_type, hn]
    · rw [hm]
      simp [object_get_number, hn]

/-- C2: `object_make_bool(b)` has type BOOL and `object_get_bool` returns `b`;
`object_make_null()` has type NULL; for an allocated kind `k` and a pointer `p` below `2^48`,
`object_make_from_data(k, p)` satisfies `object_is_allocated` and
`object_get_allocated_data` returns `p`; a bool or null value never satisfies
`object_is_allocated`, and none of these tagged values is classified as a number. -/
theorem C2_tagged_values (mem : gcmem_t) (b : Bool) (k : object_type_t) (p : Nat)
    (hk : is_allocated_kind k = true) (hp : p < 2 ^ 48) :
    (object_get_type mem (object_make_bool b) = OBJECT_BOOL
      ∧ object_get_bool (object_make_bool b) = b)
    ∧ object_get_type mem object_make_null = OBJECT_NULL
    ∧ (object_is_allocated (object_make_from_data k p) = true
      ∧ object_get_allocated_data (object_make_from_data k p) = p)
    ∧ (object_is_allocated (object_make_bool b) = false
      ∧ object_is_allocated object_make_null = false)
    ∧ (object_is_number (object_make_bool b) = false
      ∧ object_is_number object_make_null = false
      ∧ object_is_number (object_make_from_data k p) = false) := by
  have hnull_num : object_is_number object_make_null = false := by decide
  have hbool_num : object_is_number (object_make_bool b) = false := by
    cases b <;> decide
  have hh := allocated_handle k p hk hp
  have hor : OBJECT_ALLOCATED_HEADER + p = OBJECT_ALLOCATED_HEADER ||| p := by
    have h1 : OBJECT_ALLOCATED_HEADER = 2 ^ 48 * 0xfffc := by decide
    rw [h1, Nat.mul_add_lt_is_or hp]
  refine ⟨⟨?_, ?_⟩, ?_, ⟨?_, ?_⟩, ⟨?_, ?_⟩, hbool_num, hnull_num, ?_⟩
  · have htag : ((object_make_bool b).handle >>> 48) &&& 0x7 = 1 := by cases b <;> decide
    simp [object_get_type, hbool_num, htag]
  · cases b <;> decide
  · have htag : (object_make_null.handle >>> 48) &&& 0x7 = 2 := by decide
    simp [object_get_type, hnull_num, htag]
  · simp only [object_is_allocated, hh, hor, and_or_self_left, decide_True]
  · simp only [object_get_allocated_data, hh]
    have h2 : not64 OBJECT_HEADER_MASK = 2 ^ 48 - 1 := by decide
    rw [h2, Nat.and_pow_two_sub_one_eq_mod]
    simp only [OBJECT_ALLOCATED_HEADER]
    omega
  · cases b <;> decide
  · decide
  · simp only [object_is_number, hh, hor]
    have h3 : OBJECT_PATTERN = OBJECT_ALLOCATED_HEADER &&& OBJECT_PATTERN := by decide
    have h4 : (OBJECT_ALLOCATED_HEADER ||| p) &&& OBJECT_PATTERN = OBJECT_PATTERN := by
      conv_lhs => rw [h3, ← Nat.and_assoc, and_or_self_left]
      exact h3.symm
    simp [h4]

/-- C2 at a concrete input: the string kind at address 4096. -/
theorem C2_tagged_values_witness :
    (object_get_type gcmem_empty (object_make_bool true) = OBJECT_BOOL
      ∧ object_get_bool (object_make_bool true) = true)
    ∧ object_get_type gcmem_empty object_make_null = OBJECT_NULL
    ∧ (object_is_allocated (object_make_from_data OBJECT_STRING 4096) = true
      ∧ object_get_allocated_data (object_make_from_data OBJECT_STRING 4096) = 4096)
    ∧ (object_is_allocated (object_make_bool true) = false
      ∧ object_is_allocated object_make_null = false)
    ∧ (object_is_number (object_make_bool true) = false
      ∧ object_is_number object_make_null = false
      ∧ object_is_number (object_make_from_data OBJECT_STRING 4096) = false) :=
  C2_tagged_values gcmem_empty true OBJECT_STRING 4096 (by decide) (by decide)

/-! ### Doubles obtained from integers -/

theorem le_ilog2_aux (k : Nat) : ∀ fuel n : Nat, n ≤ fuel → 2 ^ k ≤ n → k ≤ ilog2_aux fuel n := by
  induction k with
  | zero => intro fuel n _ _; exact Nat.zero_le _
  | succ k ih =>
    intro fuel n hf hn
    have h2 : 2 ≤ n := by
      have : 2 ^ 1 ≤ 2 ^ (k + 1) := Nat.pow_le_pow_right (by decide) (by omega)
      omega
    cases fuel with
    | zero => omega
    | succ fuel =>
      have hlt : ¬ n < 2 := by omega
      simp only [ilog2_aux, hlt, if_false]
      have hk : 2 ^ k ≤ n / 2 := by
        rw [Nat.le_div_iff_mul_le (by decide)]
        rw [Nat.pow_succ] at hn
        exact hn
      have := ih fuel (n / 2) (by omega) hk
      omega

theorem le_ilog2 (k n : Nat) (h : 2 ^ k ≤ n) : k ≤ ilog2 n :=
  le_ilog2_aux k n n (Nat.le_refl n) h

theorem double_clamp_le (bits : Nat) : double_clamp bits ≤ DBL_INF := by
  unfold double_clamp
  split
  · exact Nat.le_refl _
  · omega

theorem le_double_clamp (k bits : Nat) (h1 : k ≤ bits) (h2 : k ≤ DBL_INF) :
    k ≤ double_clamp bits := by
  unfold double_clamp
  split
  · exact h2
  · exact h1

theorem round_dyadic_le_inf (m : Nat) (e : Int) : round_dyadic m e ≤ DBL_INF := by
  unfold round_dyadic
  by_cases hm : m = 0
  · simp [hm, DBL_INF]
  · simp only [hm, if_false]
    exact double_clamp_le _

theorem round_dyadic_ge (m : Nat) (e : Int) (k : Nat) (hm : m ≠ 0)
    (hk : (k : Int) ≤ (ilog2 m : Int) + e - 52 + 1074) (hk2 : k * 2 ^ 52 ≤ DBL_INF) :
    k * 2 ^ 52 ≤ round_dyadic m e := by
  unfold round_dyadic
  simp only [hm, if_false]
  have hu : k ≤ (max ((ilog2 m : Int) + e - 52) (-1074) + 1074).toNat := by
    have : (k : Int) ≤ max ((ilog2 m : Int) + e - 52) (-1074) + 1074 := by
      have := le_max_left ((ilog2 m : Int) + e - 52) (-1074)
      omega
    omega
  have hmul := Nat.mul_le_mul_right (2 ^ 52) hu
  exact le_double_clamp _ _ (Nat.le_trans hmul (Nat.le_add_right _ _)) hk2

theorem double_of_int_mag (z : Int) (hz : z ≠ 0) :
    1022 * 2 ^ 52 ≤ round_dyadic z.natAbs 0 ∧ round_dyadic z.natAbs 0 ≤ DBL_INF := by
  refine ⟨?_, round_dyadic_le_inf _ _⟩
  apply round_dyadic_ge
  · exact Int.natAbs_ne_zero.mpr hz
  · have : (0 : Int) ≤ (ilog2 z.natAbs : Int) := Int.ofNat_nonneg _
    omega
  · decide

/-- A double of magnitude at least `2^-1` is not `APE_DBLEQ` to zero. -/
theorem not_dbleq_zero (x : Nat) (hx : x < 2 ^ 64) (h1 : 1022 * 2 ^ 52 ≤ double_mag x)
    (h2 : double_mag x ≤ DBL_INF) : APE_DBLEQ x (double_of_int 0) = false := by
  have h0 : double_of_int 0 = 0 := by decide
  rw [h0]
  have hnx : double_is_nan x = false := by
    simp only [double_is_nan, decide_eq_false_iff_not]; omega
  have hn0 : double_is_nan 0 = false := by decide
  have hres : ∀ r : Nat, r ≤ DBL_INF → DBL_EPSILON ≤ r → ∀ y : Nat, double_mag y = r →
      double_lt (fabs y) DBL_EPSILON = false := by
    intro r hr1 hr2 y hmag
    have hm2 : double_mag r = r := by
      simp only [double_mag, DBL_INF] at *; omega
    have hsg : double_sign r = false := by
      simp only [double_sign, decide_eq_false_iff_not, DBL_INF] at *; omega
    have hnr : double_is_nan r = false := by
      simp only [double_is_nan, hm2, decide_eq_false_iff_not]; omega
    have hne : double_is_nan DBL_EPSILON = false := by decide
    have hse : double_sign DBL_EPSILON = false := by decide
    have hme : double_mag DBL_EPSILON = DBL_EPSILON := by decide
    simp only [fabs, hmag, double_lt, hnr, hne, hsg, hse, hm2, hme]
    simp only [DBL_EPSILON] at *
    simp
    omega
  have hm0 : double_mag 0 = 0 := by decide
  have hDI : ¬ (0 : Nat) = DBL_INF := by decide
  unfold APE_DBLEQ
  by_cases hinf : double_mag x = DBL_INF
  · have hsub : double_sub x 0 = x := by
      unfold double_sub
      rw [if_neg (by simp [hnx, hn0]), if_pos hinf, if_neg (by rw [hm0]; exact fun h => hDI h.1)]
      exact Nat.mod_eq_of_lt hx
    rw [hsub]
    exact hres _ (Nat.le_refl _) (by decide) x hinf
  · have hd0 : double_decode 0 = (0, -1074) := by decide
    have hs0 : double_scaled 0 (-1074) = 0 := by decide
    have hef : 1022 ≤ double_mag x / 2 ^ 52 := by
      rw [Nat.le_div_iff_mul_le (by decide)]; exact h1
    have hefne : ¬ double_mag x / 2 ^ 52 = 0 := by omega
    have hdx : double_decode (double_mag x)
        = (2 ^ 52 + double_mag x % 2 ^ 52, ((double_mag x / 2 ^ 52 : Nat) : Int) - 1075) := by
      simp only [double_decode, hefne, if_false]
    have he0 : min (double_decode (double_mag x)).2 (double_decode 0).2 = -1074 := by
      rw [hdx, hd0]
      simp only
      omega
    let M : Nat := (2 ^ 52 + double_mag x % 2 ^ 52) * 2 ^ (double_mag x / 2 ^ 52 - 1)
    have hsc : double_scaled x (-1074) = (if double_sign x then -(M : Int) else (M : Int)) := by
      simp only [double_scaled, hdx]
      have : ((((double_mag x / 2 ^ 52 : Nat) : Int) - 1075) - (-1074)).toNat
          = double_mag x / 2 ^ 52 - 1 := by omega
      rw [this]
    obtain ⟨k, hk⟩ : ∃ k : Nat, k = 1021 := ⟨_, rfl⟩
    have hMpos : 2 ^ 52 * 2 ^ k ≤ M := by
      apply Nat.mul_le_mul
      · exact Nat.le_add_right _ _
      · exact Nat.pow_le_pow_right (by decide) (by omega)
    have hM0 : M ≠ 0 := by
      have : 0 < 2 ^ 52 * 2 ^ k := Nat.mul_pos (Nat.pow_pos (by decide)) (Nat.pow_pos (by decide))
      exact Nat.pos_iff_ne_zero.mp (Nat.lt_of_lt_of_le this hMpos)
    have hilog : 1073 ≤ ilog2 M := by
      have h := le_ilog2 (52 + k) M (by rw [Nat.pow_add]; exact hMpos)
      omega
    have hr : 1021 * 2 ^ 52 ≤ round_dyadic M (-1074) := by
      apply round_dyadic_ge _ _ _ hM0
      · omega
      · decide
    have hr2 := round_dyadic_le_inf M (-1074)
    have hdne : double_scaled x (-1074) ≠ 0 := by
      rw [hsc]; split <;> omega
    have hnat : (double_scaled x (-1074)).natAbs = M := by
      rw [hsc]; split <;> simp
    have hsub : ∃ s : Nat, (s = 0 ∨ s = 2 ^ 63) ∧ double_sub x 0 = s + round_dyadic M (-1074) := by
      unfold double_sub
      rw [if_neg (by simp [hnx, hn0]), if_neg hinf, if_neg (by rw [hm0]; exact hDI)]
      simp only [hm0, he0, hs0, sub_zero, hdne, hnat, if_false]
      by_cases hneg : double_scaled x (-1074) < 0
      · exact ⟨2 ^ 63, Or.inr rfl, by rw [if_pos hneg]⟩
      · exact ⟨0, Or.inl rfl, by rw [if_neg hneg]⟩
    obtain ⟨s, hs, hsub⟩ := hsub
    rw [hsub]
    apply hres _ hr2
    · simp only [DBL_EPSILON]; omega
    · simp only [double_mag, DBL_INF] at *
      rcases hs with hs | hs <;> subst hs <;> omega

theorem double_of_int_lt (z : Int) : double_of_int z < 2 ^ 64 := by
  have h := round_dyadic_le_inf z.natAbs 0
  simp only [double_of_int, DBL_INF] at *
  split <;> omega

theorem double_mag_of_int (z : Int) : double_mag (double_of_int z) = round_dyadic z.natAbs 0 := by
  have h := round_dyadic_le_inf z.natAbs 0
  simp only [double_of_int, double_mag, DBL_INF] at *
  split <;> omega

/-- `APE_DBLEQ((double)z, 0)` holds exactly for `z = 0`. -/
theorem dbleq_of_int (z : Int) : APE_DBLEQ (double_of_int z) (double_of_int 0) = decide (z = 0) := by
  by_cases hz : z = 0
  · subst hz; decide
  · have hb := double_of_int_mag z hz
    rw [not_dbleq_zero _ (double_of_int_lt z) (by rw [double_mag_of_int]; exact hb.1)
      (by rw [double_mag_of_int]; exact hb.2)]
    simp [hz]

/-- The sign of `(double)z` is the sign of `z`. -/
theorem double_sgn_of_int (z : Int) : double_sgn (double_of_int z) = Int.sign z := by
  by_cases hz : z = 0
  · subst hz; decide
  · have hb := double_of_int_mag z hz
    have hm := double_mag_of_int z
    have hnan : double_is_nan (double_of_int z) = false := by
      simp only [double_is_nan, hm, decide_eq_false_iff_not]; omega
    have hne : double_mag (double_of_int z) ≠ 0 := by rw [hm]; omega
    simp only [double_sgn, hnan, hne]
    have hle := hb.2
    rcases lt_or_gt_of_ne hz with h | h
    · have hs : double_sign (double_of_int z) = true := by
        simp only [double_sign, double_of_int, h, if_true, decide_eq_true_eq, DBL_INF] at *
        omega
      simp [hs, Int.sign_eq_neg_one_of_neg h]
    · have hs : double_sign (double_of_int z) = false := by
        have : ¬ z < 0 := by omega
        simp only [double_sign, double_of_int, this, if_false, decide_eq_false_iff_not,
          DBL_INF] at *
        omega
      simp [hs, Int.sign_eq_one_of_pos h]

/-! ### Strings -/

theorem string_wf_split (s : object_string_t) (h : string_wf s) :
    s.value = string_bytes s ++ 0 :: s.value.drop (s.length.toNat + 1) := by
  obtain ⟨_, hlt, hget, _⟩ := h
  have h1 : s.value = s.value.take s.length.toNat ++ s.value.drop s.length.toNat :=
    (List.take_append_drop _ _).symm
  have h2 : s.value.drop s.length.toNat = 0 :: s.value.drop (s.length.toNat + 1) := by
    rw [List.drop_eq_getElem_cons hlt]
    congr 1
    rw [List.get?_eq_getElem? , List.getElem?_eq_getElem hlt] at hget
    exact Option.some.inj hget
  unfold string_bytes
  rw [← h2]
  exact h1

theorem string_bytes_length (s : object_string_t) (h : string_wf s) :
    ((string_bytes s).length : Int) = s.length := by
  obtain ⟨h0, hlt, _, _⟩ := h
  unfold string_bytes
  rw [List.length_take]
  omega

theorem hash_loop_bytes (cs : Bool) (rest : List Nat) :
    ∀ (bs : List Nat) (hash : Nat), (∀ c ∈ bs, 0 < c ∧ c < 256) →
      object_hash_string_loop cs (bs ++ 0 :: rest) hash
        = bs.foldl (object_hash_string_step cs) hash := by
  intro bs
  induction bs with
  | nil => intro hash _; simp [object_hash_string_loop]
  | cons c bs ih =>
    intro hash h
    have hc : ¬ c = 0 := by
      have := (h c (List.mem_cons_self _ _)).1; omega
    simp only [List.cons_append, object_hash_string_loop, hc, if_false, List.foldl_cons]
    exact ih _ (fun x hx => h x (List.mem_cons_of_mem _ hx))

theorem hash_step_eq (cs : Bool) (hash c : Nat) (h : cs = false ∨ c < 128) :
    object_hash_string_step cs hash c = (hash * 33 + c) % 2 ^ 64 := by
  have hc : char_to_int cs c = (c : Int) := by
    unfold char_to_int
    rcases h with h | h
    · simp [h]
    · have : ¬ (cs = true ∧ 128 ≤ c) := by omega
      simp only [this, if_false]
  have hu : int_to_ulong (c : Int) = c % 2 ^ 64 := by
    unfold int_to_ulong
    omega
  unfold object_hash_string_step
  rw [hc, hu, Nat.shiftLeft_eq]
  omega

theorem hash_fold_eq_djb2 (cs : Bool) :
    ∀ (bs : List Nat) (hash : Nat), (cs = false ∨ ∀ c ∈ bs, c < 128) →
      bs.foldl (object_hash_string_step cs) hash
        = bs.foldl (fun hash byte => (hash * 33 + byte) % 2 ^ 64) hash := by
  intro bs
  induction bs with
  | nil => intro hash _; rfl
  | cons c bs ih =>
    intro hash h
    simp only [List.foldl_cons]
    rw [hash_step_eq cs hash c (h.imp id (fun h => h c (List.mem_cons_self _ _)))]
    exact ih _ (h.imp id (fun h x hx => h x (List.mem_cons_of_mem _ hx)))

/-- The loop of `object_hash_string` over the buffer of a well-formed string computes djb2
of its bytes (each byte entering as an unsigned value). -/
theorem object_hash_string_eq_djb2 (cs : Bool) (s : object_string_t) (hwf : string_wf s)
    (hchar : cs = false ∨ ∀ c ∈ string_bytes s, c < 128) :
    object_hash_string cs s.value = djb2 (string_bytes s) := by
  unfold object_hash_string djb2
  rw [string_wf_split s hwf, hash_loop_bytes cs _ _ _ hwf.2.2.2]
  exact hash_fold_eq_djb2 cs (string_bytes s) 5381 hchar

theorem get_string_hash_fst (cs : Bool) (mem : gcmem_t) (obj : object_t) :
    (object_get_string_hash cs mem obj).1
      = string_hash_val cs (mem.deref (object_get_allocated_data obj)).string := by
  unfold object_get_string_hash string_hash_val string_hash_of object_get_string
  simp only
  split
  · split <;> rfl
  · rfl

theorem string_hash_val_ne_zero (cs : Bool) (s : object_string_t) (h : s.hash = 0) :
    string_hash_val cs s ≠ 0 := by
  unfold string_hash_val string_hash_of
  rw [if_pos h]
  split <;> omega

theorem string_hash_val_set (cs : Bool) (s : object_string_t) (v : Nat) (hv : v ≠ 0) :
    string_hash_val cs { s with hash := v } = v := by
  unfold string_hash_val
  simp only [hv, if_false]

theorem deref_store_same (mem : gcmem_t) (p : Nat) (d : object_data_t) :
    (mem.store p d).deref p = d := by
  simp [gcmem_t.deref, gcmem_t.store]

theorem deref_store_other (mem : gcmem_t) (p q : Nat) (d : object_data_t) (h : q ≠ p) :
    (mem.store p d).deref q = mem.deref q := by
  simp [gcmem_t.deref, gcmem_t.store, h]

/-- Caching the hash changes nothing but the `hash` field of the string body. -/
theorem get_string_hash_snd (cs : Bool) (mem : gcmem_t) (obj : object_t) :
    (object_get_string_hash cs mem obj).2 = mem
    ∨ (∃ s, (mem.deref (object_get_allocated_data obj)).payload = object_payload.string s
      ∧ s.hash = 0
      ∧ (object_get_string_hash cs mem obj).2
        = mem.store (object_get_allocated_data obj)
            { mem.deref (object_get_allocated_data obj) with
              payload := object_payload.string { s with hash := string_hash_val cs s } }) := by
  unfold object_get_string_hash
  simp only
  by_cases h : (mem.deref (object_get_allocated_data obj)).string.hash = 0
  · simp only [h, if_true]
    cases hp : (mem.deref (object_get_allocated_data obj)).payload with
    | string s =>
      right
      have hs : (mem.deref (object_get_allocated_data obj)).string = s := by
        simp only [object_data_t.string, hp]
      rw [hs] at h
      refine ⟨s, rfl, h, ?_⟩
      simp only [string_hash_val, string_hash_of, object_get_string, hs, h, if_true]
    | _ => left; rfl
  · left
    simp only [h, if_false]

/-- What a later read of any body sees after `object_get_string_hash`. -/
theorem get_string_hash_deref (cs : Bool) (mem : gcmem_t) (obj : object_t) (q : Nat) :
    ((object_get_string_hash cs mem obj).2.deref q).type = (mem.deref q).type
    ∧ ((object_get_string_hash cs mem obj).2.deref q).string.value = (mem.deref q).string.value
    ∧ ((object_get_string_hash cs mem obj).2.deref q).string.length = (mem.deref q).string.length
    ∧ string_hash_val cs ((object_get_string_hash cs mem obj).2.deref q).string
        = string_hash_val cs (mem.deref q).string := by
  rcases get_string_hash_snd cs mem obj with h | ⟨s, hp, h0, h⟩
  · rw [h]; exact ⟨rfl, rfl, rfl, rfl⟩
  · rw [h]
    by_cases hq : q = object_get_allocated_data obj
    · subst hq
      rw [deref_store_same]
      have hs : (mem.deref (object_get_allocated_data obj)).string = s := by
        simp only [object_data_t.string, hp]
      rw [hs]
      refine ⟨rfl, rfl, rfl, ?_⟩
      exact string_hash_val_set cs _ _ (string_hash_val_ne_zero cs _ h0)
    · rw [deref_store_other _ _ _ _ hq]
      exact ⟨rfl, rfl, rfl, rfl⟩

theorem after_hash_calls_succ (cs : Bool) (obj : object_t) (n : Nat) (mem : gcmem_t) :
    after_hash_calls cs obj (n + 1) mem
      = (object_get_string_hash cs (after_hash_calls cs obj n mem) obj).2 := by
  unfold after_hash_calls
  rw [Function.iterate_succ_apply']

theorem after_hash_calls_val (cs : Bool) (obj : object_t) (mem : gcmem_t) (n : Nat) :
    string_hash_val cs ((after_hash_calls cs obj n mem).deref (object_get_allocated_data obj)).string
      = string_hash_val cs (mem.deref (object_get_allocated_data obj)).string := by
  induction n with
  | zero => rfl
  | succ n ih =>
    rw [after_hash_calls_succ, (get_string_hash_deref cs _ obj _).2.2.2, ih]

/-- C10 (amended): for a String whose hash has not been computed yet, the first call of
`object_get_string_hash` returns djb2 of its bytes, or 1 when djb2 of the bytes is 0 (0 being
the "not computed" sentinel), and every later call returns the same value.  The bytes enter
the hash as plain `char`, so this is for bytes below 128, or any bytes where `char` is
unsigned.  Call number `n + 1` is the call made after `n` earlier calls. -/
theorem C10_string_hash (cs : Bool) (mem : gcmem_t) (obj : object_t) (s : object_string_t)
    (hs : string_at mem obj s) (hwf : string_wf s) (h0 : s.hash = 0)
    (hchar : cs = false ∨ ∀ c ∈ string_bytes s, c < 128) (n : Nat) :
    (object_get_string_hash cs (after_hash_calls cs obj n mem) obj).1
      = (if djb2 (string_bytes s) = 0 then 1 else djb2 (string_bytes s)) := by
  rw [get_string_hash_fst, after_hash_calls_val]
  have hp : (mem.deref (object_get_allocated_data obj)).string = s := by
    simp only [object_data_t.string, hs.2]
  rw [hp]
  unfold string_hash_val string_hash_of
  rw [if_pos h0, object_hash_string_eq_djb2 cs s hwf hchar]

/-- C10 at a concrete input: the string "ab", first and third call. -/
theorem C10_string_hash_witness :
    (object_get_string_hash true (after_hash_calls true (object_make_from_data OBJECT_STRING 4096)
        0 (mem_one_string [97, 98] 0)) (object_make_from_data OBJECT_STRING 4096)).1 = 5863208
    ∧ (object_get_string_hash true (after_hash_calls true (object_make_from_data OBJECT_STRING 4096)
        2 (mem_one_string [97, 98] 0)) (object_make_from_data OBJECT_STRING 4096)).1 = 5863208 := by
  have hs : string_at (mem_one_string [97, 98] 0) (object_make_from_data OBJECT_STRING 4096)
      (mk_string [97, 98] 0) := by
    constructor <;> decide
  have hwf : string_wf (mk_string [97, 98] 0) := by
    unfold string_wf; decide
  have h := C10_string_hash true _ _ _ hs hwf rfl (Or.inr (by decide))
  exact ⟨h 0, h 2⟩

/-- C10 as stated fails: the 13-byte ASCII string `%.4$7'2@-9:9'` has djb2 equal to 0, and the
first call of `object_get_string_hash` on it returns 1. -/
theorem C10_counterexample :
    string_at (mem_one_string [37, 46, 52, 36, 55, 39, 50, 64, 45, 57, 58, 57, 39] 0)
      (object_make_from_data OBJECT_STRING 4096)
      (mk_string [37, 46, 52, 36, 55, 39, 50, 64, 45, 57, 58, 57, 39] 0)
    ∧ string_bytes (mk_string [37, 46, 52, 36, 55, 39, 50, 64, 45, 57, 58, 57, 39] 0)
        = [37, 46, 52, 36, 55, 39, 50, 64, 45, 57, 58, 57, 39]
    ∧ djb2 [37, 46, 52, 36, 55, 39, 50, 64, 45, 57, 58, 57, 39] = 0
    ∧ (object_get_string_hash false
        (mem_one_string [37, 46, 52, 36, 55, 39, 50, 64, 45, 57, 58, 57, 39] 0)
        (object_make_from_data OBJECT_STRING 4096)).1 = 1
    ∧ (object_get_string_hash true
        (mem_one_string [37, 46, 52, 36, 55, 39, 50, 64, 45, 57, 58, 57, 39] 0)
        (object_make_from_data OBJECT_STRING 4096)).1 = 1 := by
  refine ⟨⟨?_, ?_⟩, ?_, ?_, ?_, ?_⟩ <;> decide

/-- Where plain `char` is signed, a byte of 128 or more enters `object_hash_string`
sign-extended: for the one-byte string 0x80 the hash is `5381 * 33 - 128`, not djb2. -/
theorem object_hash_string_signed_char :
    object_hash_string true [128, 0] = 5381 * 33 - 128 ∧ djb2 [128] = 5381 * 33 + 128
    ∧ object_hash_string false [128, 0] = djb2 [128] := by
  decide

theorem strcmp_sign (r1 r2 : List Nat) :
    ∀ b1 b2 : List Nat, (∀ c ∈ b1, 0 < c ∧ c < 256) → (∀ c ∈ b2, 0 < c ∧ c < 256) →
      Int.sign (strcmp (b1 ++ 0 :: r1) (b2 ++ 0 :: r2)) = lex_cmp b1 b2 := by
  intro b1
  induction b1 with
  | nil =>
    intro b2 _ h2
    cases b2 with
    | nil => simp [strcmp, lex_cmp]
    | cons c b2 =>
      have hc := (h2 c (List.mem_cons_self _ _)).1
      have hne : ¬ (0 = c) := by omega
      simp only [List.nil_append, List.cons_append, strcmp, lex_cmp, ne_eq, hne,
        not_false_eq_true, if_true]
      apply Int.sign_eq_neg_one_of_neg
      omega
  | cons c1 b1 ih =>
    intro b2 h1 h2
    have hc1 := (h1 c1 (List.mem_cons_self _ _)).1
    cases b2 with
    | nil =>
      have hne : ¬ (c1 = 0) := by omega
      simp only [List.nil_append, List.cons_append, strcmp, lex_cmp, ne_eq, hne,
        not_false_eq_true, if_true]
      apply Int.sign_eq_one_of_pos
      omega
    | cons c2 b2 =>
      simp only [List.cons_append, strcmp, lex_cmp, ne_eq]
      by_cases hlt : c1 < c2
      · have hne : ¬ (c1 = c2) := by omega
        simp only [hne, not_false_eq_true, if_true, hlt]
        apply Int.sign_eq_neg_one_of_neg
        omega
      · by_cases hgt : c2 < c1
        · have hne : ¬ (c1 = c2) := by omega
          simp only [hne, not_false_eq_true, if_true, hlt, hgt, if_false]
          apply Int.sign_eq_one_of_pos
          omega
        · have heq : c1 = c2 := by omega
          have hne : ¬ (c1 = 0) := by omega
          simp only [heq, not_true_eq_false, if_false, hlt, hgt, lt_self_iff_false]
          rw [← heq]
          simp only [hne, if_false]
          exact ih b2 (fun x hx => h1 x (List.mem_cons_of_mem _ hx))
            (fun x hx => h2 x (List.mem_cons_of_mem _ hx))

theorem lex_cmp_eq_zero : ∀ b1 b2 : List Nat, lex_cmp b1 b2 = 0 ↔ b1 = b2 := by
  intro b1
  induction b1 with
  | nil => intro b2; cases b2 <;> simp [lex_cmp]
  | cons c1 b1 ih =>
    intro b2
    cases b2 with
    | nil => simp [lex_cmp]
    | cons c2 b2 =>
      simp only [lex_cmp, List.cons.injEq]
      by_cases hlt : c1 < c2
      · simp only [hlt, if_true]
        constructor
        · intro h; omega
        · intro h; omega
      · by_cases hgt : c2 < c1
        · simp only [hlt, hgt, if_true, if_false]
          constructor
          · intro h; omega
          · intro h; omega
        · simp only [hlt, hgt, if_false, ih b2]
          constructor
          · intro h; exact ⟨by omega, h⟩
          · intro h; exact h.2

/-- On the buffers of two well-formed strings `strcmp` orders the byte strings
lexicographically. -/
theorem strcmp_wf (sa sb : object_string_t) (hwa : string_wf sa) (hwb : string_wf sb) :
    Int.sign (strcmp sa.value sb.value) = lex_cmp (string_bytes sa) (string_bytes sb) := by
  have h := strcmp_sign (sa.value.drop (sa.length.toNat + 1)) (sb.value.drop (sb.length.toNat + 1))
    (string_bytes sa) (string_bytes sb) hwa.2.2.2 hwb.2.2.2
  rw [← string_wf_split sa hwa, ← string_wf_split sb hwb] at h
  exact h

theorem string_hash_of_bytes (cs : Bool) (s : object_string_t) (hwf : string_wf s) :
    string_hash_of cs s.value
      = (if (string_bytes s).foldl (object_hash_string_step cs) 5381 = 0 then 1
         else (string_bytes s).foldl (object_hash_string_step cs) 5381) := by
  have h : object_hash_string cs s.value
      = (string_bytes s).foldl (object_hash_string_step cs) 5381 := by
    unfold object_hash_string
    rw [string_wf_split s hwf, hash_loop_bytes cs _ _ _ hwf.2.2.2]
  unfold string_hash_of
  rw [h]

theorem hash_fold_lt (cs : Bool) : ∀ (bs : List Nat) (hash : Nat), hash < 2 ^ 64 →
    bs.foldl (object_hash_string_step cs) hash < 2 ^ 64 := by
  intro bs
  induction bs with
  | nil => intro hash h; exact h
  | cons c bs ih =>
    intro hash _
    simp only [List.foldl_cons]
    apply ih
    unfold object_hash_string_step
    exact Nat.mod_lt _ (by decide)

theorem string_hash_of_lt (cs : Bool) (s : object_string_t) (hwf : string_wf s) :
    string_hash_of cs s.value < 2 ^ 64 := by
  rw [string_hash_of_bytes cs s hwf]
  have := hash_fold_lt cs (string_bytes s) 5381 (by decide)
  split
  · decide
  · exact this

/-- The string branch of `object_compare` on two different handles. -/
theorem compare_strings (cs : Bool) (mem : gcmem_t) (a b : object_t) (sa sb : object_string_t)
    (ha : string_at mem a sa) (hb : string_at mem b sb) (ok : Bool) (hne : a.handle ≠ b.handle) :
    (object_compare cs mem a b ok).1
      = (if sa.length ≠ sb.length then double_of_int (sa.length - sb.length)
         else if string_hash_val cs sa ≠ string_hash_val cs sb then
           double_of_int (((string_hash_val cs sa + 2 ^ 64 - string_hash_val cs sb) % 2 ^ 64 : Nat) : Int)
         else double_of_int (strcmp sa.value sb.value))
    ∧ (object_compare cs mem a b ok).2.1 = true := by
  have hsa : (mem.deref (object_get_allocated_data a)).string = sa := by
    simp only [object_data_t.string, ha.2]
  have hsb : (mem.deref (object_get_allocated_data b)).string = sb := by
    simp only [object_data_t.string, hb.2]
  have hla : object_get_string_length mem a = sa.length := by
    unfold object_get_string_length; rw [hsa]
  have hlb : object_get_string_length mem b = sb.length := by
    unfold object_get_string_length; rw [hsb]
  have hva : (object_get_string_hash cs mem a).1 = string_hash_val cs sa := by
    rw [get_string_hash_fst, hsa]
  have hd := get_string_hash_deref cs mem a
  have hvb : (object_get_string_hash cs (object_get_string_hash cs mem a).2 b).1
      = string_hash_val cs sb := by
    rw [get_string_hash_fst, (hd _).2.2.2, hsb]
  have hd2 := get_string_hash_deref cs (object_get_string_hash cs mem a).2 b
  have hga : object_get_string
      (object_get_string_hash cs (object_get_string_hash cs mem a).2 b).2 a = sa.value := by
    unfold object_get_string
    rw [(hd2 _).2.1, (hd _).2.1, hsa]
  have hgb : object_get_string
      (object_get_string_hash cs (object_get_string_hash cs mem a).2 b).2 b = sb.value := by
    unfold object_get_string
    rw [(hd2 _).2.1, (hd _).2.1, hsb]
  unfold object_compare
  simp only [hne, if_false, ha.1, hb.1, hla, hlb, hva, hvb, hga, hgb]
  simp only [reduceCtorEq, or_self, and_self, if_false, if_true]
  by_cases hlen : sa.length = sb.length
  · simp only [hlen, ne_eq, not_true_eq_false, if_false]
    by_cases hh : string_hash_val cs sa = string_hash_val cs sb
    · simp only [hh, not_true_eq_false, if_false, and_self]
    · simp only [hh, not_false_eq_true, if_true, and_self]
  · simp only [hlen, ne_eq, not_false_eq_true, if_true, and_self]

theorem object_equals_fst (cs : Bool) (mem : gcmem_t) (a b : object_t) :
    (object_equals cs mem a b).1
      = (if object_get_type mem a ≠ object_get_type mem b then false
         else APE_DBLEQ (object_compare cs mem a b false).1 (double_of_int 0)) := by
  unfold object_equals
  simp only
  split <;> rfl

theorem object_compare_same (cs : Bool) (mem : gcmem_t) (a b : object_t) (ok : Bool)
    (h : a.handle = b.handle) : object_compare cs mem a b ok = (double_of_int 0, ok, mem) := by
  unfold object_compare
  simp only [h, if_true]

theorem string_at_same (mem : gcmem_t) (a b : object_t) (sa sb : object_string_t)
    (ha : string_at mem a sa) (hb : string_at mem b sb) (h : a.handle = b.handle) : sa = sb := by
  have hab : a = b := by
    cases a; cases b; simp only [object_t.mk.injEq]; exact h
  subst hab
  have := ha.2.symm.trans hb.2
  exact object_payload.string.inj this

theorem lex_cmp_self (bs : List Nat) : lex_cmp bs bs = 0 := (lex_cmp_eq_zero bs bs).mpr rfl

theorem string_hash_val_valid (cs : Bool) (s : object_string_t)
    (h : s.hash = 0 ∨ s.hash = string_hash_of cs s.value) :
    string_hash_val cs s = string_hash_of cs s.value := by
  unfold string_hash_val
  rcases h with h | h
  · rw [if_pos h]
  · split
    · rfl
    · exact h

/-- C3: for String values `a` and `b` whose cached hashes are unset or up to date,
`object_equals(a, b)` is true exactly when `a` and `b` have the same length and the same
bytes. -/
theorem C3_string_equals (cs : Bool) (mem : gcmem_t) (a b : object_t) (sa sb : object_string_t)
    (ha : string_at mem a sa) (hb : string_at mem b sb)
    (hwa : string_wf sa) (hwb : string_wf sb)
    (hha : sa.hash = 0 ∨ sa.hash = string_hash_of cs sa.value)
    (hhb : sb.hash = 0 ∨ sb.hash = string_hash_of cs sb.value) :
    (object_equals cs mem a b).1 = true
      ↔ (sa.length = sb.length ∧ string_bytes sa = string_bytes sb) := by
  rw [object_equals_fst]
  simp only [ha.1, hb.1, ne_eq, not_true_eq_false, if_false]
  by_cases hh : a.handle = b.handle
  · rw [object_compare_same cs mem a b false hh]
    have := string_at_same mem a b sa sb ha hb hh
    subst this
    simp only [dbleq_of_int, decide_True, and_self]
  · rw [(compare_strings cs mem a b sa sb ha hb false hh).1]
    have hva := string_hash_val_valid cs sa hha
    have hvb := string_hash_val_valid cs sb hhb
    by_cases hlen : sa.length = sb.length
    · simp only [hlen, ne_eq, not_true_eq_false, if_false, true_and]
      by_cases hv : string_hash_val cs sa = string_hash_val cs sb
      · simp only [hv, not_true_eq_false, if_false, dbleq_of_int, decide_eq_true_eq]
        rw [← lex_cmp_eq_zero, ← strcmp_wf sa sb hwa hwb, Int.sign_eq_zero_iff_zero]
      · simp only [hv, not_false_eq_true, if_true, dbleq_of_int, decide_eq_true_eq]
        have hlta : string_hash_val cs sa < 2 ^ 64 := by
          rw [hva]; exact string_hash_of_lt cs sa hwa
        have hltb : string_hash_val cs sb < 2 ^ 64 := by
          rw [hvb]; exact string_hash_of_lt cs sb hwb
        constructor
        · intro h; omega
        · intro h
          exfalso
          apply hv
          rw [hva, hvb, string_hash_of_bytes cs sa hwa, string_hash_of_bytes cs sb hwb, h]
    · simp only [hlen, ne_eq, not_false_eq_true, if_true, dbleq_of_int, false_and, iff_false,
        decide_eq_true_eq]
      omega

/-- C3 at a concrete input: "aB" and "b!" have the same length and the same djb2 hash but
different bytes, so `object_equals` is false. -/
theorem C3_string_equals_witness :
    (object_equals false (mem_two_strings [97, 66] [98, 33])
        (object_make_from_data OBJECT_STRING 4096) (object_make_from_data OBJECT_STRING 4160)).1 = true
      ↔ ((mk_string [97, 66] 0).length = (mk_string [98, 33] 0).length
          ∧ string_bytes (mk_string [97, 66] 0) = string_bytes (mk_string [98, 33] 0)) :=
  C3_string_equals false (mem_two_strings [97, 66] [98, 33])
    (object_make_from_data OBJECT_STRING 4096) (object_make_from_data OBJECT_STRING 4160)
    (mk_string [97, 66] 0) (mk_string [98, 33] 0)
    (by constructor <;> decide) (by constructor <;> decide)
    (by unfold string_wf; decide) (by unfold string_wf; decide) (Or.inl rfl) (Or.inl rfl)

/-- C4 (amended): for String values `a` and `b` of different lengths the sign of
`object_compare(a, b)` is the sign of `a_len - b_len`; for Strings of the same length whose
hashes (as `object_get_string_hash` returns them) are equal, it is the sign of the
lexicographic byte-wise comparison of their bytes. -/
theorem C4_string_compare (cs : Bool) (mem : gcmem_t) (a b : object_t) (sa sb : object_string_t)
    (ha : string_at mem a sa) (hb : string_at mem b sb)
    (hwa : string_wf sa) (hwb : string_wf sb) (ok : Bool) :
    (sa.length ≠ sb.length →
      double_sgn (object_compare cs mem a b ok).1 = Int.sign (sa.length - sb.length))
    ∧ (sa.length = sb.length → string_hash_val cs sa = string_hash_val cs sb →
      double_sgn (object_compare cs mem a b ok).1
        = lex_cmp (string_bytes sa) (string_bytes sb)) := by
  by_cases hh : a.handle = b.handle
  · rw [object_compare_same cs mem a b ok hh]
    have := string_at_same mem a b sa sb ha hb hh
    subst this
    refine ⟨fun h => absurd rfl h, fun _ _ => ?_⟩
    rw [lex_cmp_self, double_sgn_of_int]
    rfl
  · rw [(compare_strings cs mem a b sa sb ha hb ok hh).1]
    constructor
    · intro hlen
      simp only [hlen, ne_eq, not_false_eq_true, if_true, double_sgn_of_int]
    · intro hlen hv
      simp only [hlen, hv, ne_eq, not_true_eq_false, if_false, double_sgn_of_int]
      exact strcmp_wf sa sb hwa hwb

/-- C4 (amended) at a concrete input: "aB" against "b!", equal in length and hash. -/
theorem C4_string_compare_witness :
    ((mk_string [97, 66] 0).length ≠ (mk_string [98, 33] 0).length →
      double_sgn (object_compare false (mem_two_strings [97, 66] [98, 33])
        (object_make_from_data OBJECT_STRING 4096) (object_make_from_data OBJECT_STRING 4160) true).1
        = Int.sign ((mk_string [97, 66] 0).length - (mk_string [98, 33] 0).length))
    ∧ ((mk_string [97, 66] 0).length = (mk_string [98, 33] 0).length →
      string_hash_val false (mk_string [97, 66] 0) = string_hash_val false (mk_string [98, 33] 0) →
      double_sgn (object_compare false (mem_two_strings [97, 66] [98, 33])
        (object_make_from_data OBJECT_STRING 4096) (object_make_from_data OBJECT_STRING 4160) true).1
        = lex_cmp (string_bytes (mk_string [97, 66] 0)) (string_bytes (mk_string [98, 33] 0))) :=
  C4_string_compare false (mem_two_strings [97, 66] [98, 33])
    (object_make_from_data OBJECT_STRING 4096) (object_make_from_data OBJECT_STRING 4160)
    (mk_string [97, 66] 0) (mk_string [98, 33] 0)
    (by constructor <;> decide) (by constructor <;> decide)
    (by unfold string_wf; decide) (by unfold string_wf; decide) true

/-- C4 as stated fails: for the Strings "b" and "aa", `object_compare` is negative (it is
the difference of the lengths), while "b" is lexicographically greater than "aa". -/
theorem C4_counterexample :
    string_at (mem_two_strings [98] [97, 97]) (object_make_from_data OBJECT_STRING 4096)
      (mk_string [98] 0)
    ∧ string_at (mem_two_strings [98] [97, 97]) (object_make_from_data OBJECT_STRING 4160)
      (mk_string [97, 97] 0)
    ∧ string_bytes (mk_string [98] 0) = [98]
    ∧ string_bytes (mk_string [97, 97] 0) = [97, 97]
    ∧ double_sgn (object_compare false (mem_two_strings [98] [97, 97])
        (object_make_from_data OBJECT_STRING 4096) (object_make_from_data OBJECT_STRING 4160) true).1
        = -1
    ∧ (object_compare false (mem_two_strings [98] [97, 97])
        (object_make_from_data OBJECT_STRING 4096) (object_make_from_data OBJECT_STRING 4160) true).1
        = 0xbff0000000000000
    ∧ lex_cmp [98] [97, 97] = 1 := by
  refine ⟨⟨?_, ?_⟩, ⟨?_, ?_⟩, ?_, ?_, ?_, ?_, ?_⟩ <;> decide

/-! ### Memories that differ in cached hashes only -/

theorem body_cache_eq_refl (cs : Bool) (d : object_data_t) : body_cache_eq cs d d :=
  ⟨rfl, rfl, Or.inl rfl⟩

theorem body_cache_eq_symm (cs : Bool) (d d2 : object_data_t) (h : body_cache_eq cs d d2) :
    body_cache_eq cs d2 d := by
  obtain ⟨h1, h2, h3⟩ := h
  refine ⟨h1.symm, h2.symm, ?_⟩
  rcases h3 with h3 | ⟨s, s2, e1, e2, e3, e4, e5, e6, e7⟩
  · exact Or.inl h3.symm
  · exact Or.inr ⟨s2, s, e2, e1, e3.symm, e4.symm, e5.symm, e6.symm, e7.symm⟩

theorem body_cache_eq_trans (cs : Bool) (d d2 d3 : object_data_t) (h : body_cache_eq cs d d2)
    (h' : body_cache_eq cs d2 d3) : body_cache_eq cs d d3 := by
  obtain ⟨h1, h2, h3⟩ := h
  obtain ⟨k1, k2, k3⟩ := h'
  refine ⟨h1.trans k1, h2.trans k2, ?_⟩
  rcases h3 with h3 | ⟨s, s2, e1, e2, e3, e4, e5, e6, e7⟩
  · rw [h3]; exact k3
  · rcases k3 with k3 | ⟨t, t2, f1, f2, f3, f4, f5, f6, f7⟩
    · rw [← k3]
      exact Or.inr ⟨s, s2, e1, e2, e3, e4, e5, e6, e7⟩
    · have : s2 = t := object_payload.string.inj (e2.symm.trans f1)
      subst this
      exact Or.inr ⟨s, t2, e1, f2, e3.trans f3, e4.trans f4, e5.trans f5, e6.trans f6,
        e7.trans f7⟩

theorem cache_eq_refl (cs : Bool) (mem : gcmem_t) : cache_eq cs mem mem :=
  fun _ => body_cache_eq_refl cs _

theorem cache_eq_symm (cs : Bool) (mem mem2 : gcmem_t) (h : cache_eq cs mem mem2) :
    cache_eq cs mem2 mem :=
  fun q => body_cache_eq_symm cs _ _ (h q)

theorem cache_eq_trans (cs : Bool) (mem mem2 mem3 : gcmem_t) (h : cache_eq cs mem mem2)
    (h' : cache_eq cs mem2 mem3) : cache_eq cs mem mem3 :=
  fun q => body_cache_eq_trans cs _ _ _ (h q) (h' q)

/-- What every reader of a string body sees is the same in both bodies. -/
theorem body_cache_eq_view (cs : Bool) (d d2 : object_data_t) (h : body_cache_eq cs d d2) :
    d.string.value = d2.string.value ∧ d.string.length = d2.string.length
    ∧ string_hash_val cs d.string = string_hash_val cs d2.string := by
  obtain ⟨_, _, h3⟩ := h
  rcases h3 with h3 | ⟨s, s2, e1, e2, e3, e4, _, _, e7⟩
  · simp only [object_data_t.string, h3, and_self]
  · simp only [object_data_t.string, e1, e2]
    exact ⟨e3, e4, e7⟩

theorem body_cache_eq_map (cs : Bool) (d d2 : object_data_t) (h : body_cache_eq cs d d2) :
    d.map = d2.map ∧ d.array = d2.array := by
  obtain ⟨_, _, h3⟩ := h
  rcases h3 with h3 | ⟨s, s2, e1, e2, _⟩
  · simp only [object_data_t.map, object_data_t.array, h3, and_self]
  · simp only [object_data_t.map, object_data_t.array, e1, e2, and_self]

theorem get_string_hash_cache_eq (cs : Bool) (mem : gcmem_t) (obj : object_t) :
    cache_eq cs mem (object_get_string_hash cs mem obj).2 := by
  intro q
  rcases get_string_hash_snd cs mem obj with h | ⟨s, hp, h0, h⟩
  · rw [h]; exact body_cache_eq_refl cs _
  · rw [h]
    by_cases hq : q = object_get_allocated_data obj
    · subst hq
      rw [deref_store_same]
      refine ⟨rfl, rfl, Or.inr ⟨s, _, hp, rfl, rfl, rfl, rfl, rfl, ?_⟩⟩
      exact (string_hash_val_set cs _ _ (string_hash_val_ne_zero cs _ h0)).symm
    · rw [deref_store_other _ _ _ _ hq]
      exact body_cache_eq_refl cs _

theorem cache_eq_type (cs : Bool) (mem mem2 : gcmem_t) (h : cache_eq cs mem mem2)
    (obj : object_t) : object_get_type mem obj = object_get_type mem2 obj := by
  unfold object_get_type
  rw [(h _).1]

theorem cache_eq_string_hash (cs : Bool) (mem mem2 : gcmem_t) (h : cache_eq cs mem mem2)
    (obj : object_t) :
    (object_get_string_hash cs mem obj).1 = (object_get_string_hash cs mem2 obj).1 := by
  rw [get_string_hash_fst, get_string_hash_fst, (body_cache_eq_view cs _ _ (h _)).2.2]

theorem object_compare_cache_eq (cs : Bool) (mem : gcmem_t) (a b : object_t) (ok : Bool) :
    cache_eq cs mem (object_compare cs mem a b ok).2.2 := by
  unfold object_compare
  simp only
  split
  · exact cache_eq_refl cs mem
  · split
    · exact cache_eq_refl cs mem
    · split
      · split
        · exact cache_eq_refl cs mem
        · have h1 := get_string_hash_cache_eq cs mem a
          have h2 := get_string_hash_cache_eq cs (object_get_string_hash cs mem a).2 b
          have h12 := cache_eq_trans cs _ _ _ h1 h2
          split <;> exact h12
      · split <;> exact cache_eq_refl cs mem

theorem object_compare_congr (cs : Bool) (mem mem2 : gcmem_t) (h : cache_eq cs mem mem2)
    (a b : object_t) (ok : Bool) :
    (object_compare cs mem a b ok).1 = (object_compare cs mem2 a b ok).1
    ∧ (object_compare cs mem a b ok).2.1 = (object_compare cs mem2 a b ok).2.1 := by
  have hta := cache_eq_type cs mem mem2 h a
  have htb := cache_eq_type cs mem mem2 h b
  have hla : object_get_string_length mem a = object_get_string_length mem2 a := by
    unfold object_get_string_length; rw [(body_cache_eq_view cs _ _ (h _)).2.1]
  have hlb : object_get_string_length mem b = object_get_string_length mem2 b := by
    unfold object_get_string_length; rw [(body_cache_eq_view cs _ _ (h _)).2.1]
  have hha := cache_eq_string_hash cs mem mem2 h a
  have h1 := get_string_hash_cache_eq cs mem a
  have h1' := get_string_hash_cache_eq cs mem2 a
  have hm : cache_eq cs (object_get_string_hash cs mem a).2 (object_get_string_hash cs mem2 a).2 :=
    cache_eq_trans cs _ _ _ (cache_eq_symm cs _ _ h1) (cache_eq_trans cs _ _ _ h h1')
  have hhb := cache_eq_string_hash cs _ _ hm b
  have h2 := get_string_hash_cache_eq cs (object_get_string_hash cs mem a).2 b
  have h2' := get_string_hash_cache_eq cs (object_get_string_hash cs mem2 a).2 b
  have hm2 := cache_eq_trans cs _ _ _ (cache_eq_symm cs _ _ h2) (cache_eq_trans cs _ _ _ hm h2')
  have hsa : object_get_string (object_get_string_hash cs (object_get_string_hash cs mem a).2 b).2 a
      = object_get_string (object_get_string_hash cs (object_get_string_hash cs mem2 a).2 b).2 a := by
    unfold object_get_string; rw [(body_cache_eq_view cs _ _ (hm2 _)).1]
  have hsb : object_get_string (object_get_string_hash cs (object_get_string_hash cs mem a).2 b).2 b
      = object_get_string (object_get_string_hash cs (object_get_string_hash cs mem2 a).2 b).2 b := by
    unfold object_get_string; rw [(body_cache_eq_view cs _ _ (hm2 _)).1]
  have hna : object_is_null mem a = object_is_null mem2 a := by
    unfold object_is_null; rw [hta]
  have hnb : object_is_null mem b = object_is_null mem2 b := by
    unfold object_is_null; rw [htb]
  unfold object_compare
  simp only [hta, htb, hla, hlb, hha, hhb, hsa, hsb, hna, hnb]
  split
  · exact ⟨rfl, rfl⟩
  · split
    · exact ⟨rfl, rfl⟩
    · split
      · split
        · exact ⟨rfl, rfl⟩
        · split <;> exact ⟨rfl, rfl⟩
      · split <;> exact ⟨rfl, rfl⟩

theorem object_equals_cache_eq (cs : Bool) (mem : gcmem_t) (a b : object_t) :
    cache_eq cs mem (object_equals cs mem a b).2 := by
  unfold object_equals
  simp only
  split
  · exact cache_eq_refl cs mem
  · exact object_compare_cache_eq cs mem a b false

theorem object_equals_congr (cs : Bool) (mem mem2 : gcmem_t) (h : cache_eq cs mem mem2)
    (a b : object_t) : (object_equals cs mem a b).1 = (object_equals cs mem2 a b).1 := by
  rw [object_equals_fst, object_equals_fst, cache_eq_type cs mem mem2 h a,
    cache_eq_type cs mem mem2 h b, (object_compare_congr cs mem mem2 h a b false).1]

theorem object_hash_cache_eq (cs : Bool) (mem : gcmem_t) (obj : object_t) :
    cache_eq cs mem (object_hash cs mem obj).2 := by
  unfold object_hash
  split
  · exact cache_eq_refl cs mem
  · exact cache_eq_refl cs mem
  · exact get_string_hash_cache_eq cs mem obj
  · exact cache_eq_refl cs mem

theorem object_hash_congr (cs : Bool) (mem mem2 : gcmem_t) (h : cache_eq cs mem mem2)
    (obj : object_t) : (object_hash cs mem obj).1 = (object_hash cs mem2 obj).1 := by
  unfold object_hash
  rw [cache_eq_type cs mem mem2 h obj]
  split
  · rfl
  · rfl
  · exact cache_eq_string_hash cs mem mem2 h obj
  · rfl

/-! ### Lookup and insertion in a value dictionary -/

theorem valdict_hash_key_cache_eq (cs : Bool) (mem : gcmem_t) (d : valdict_t_) (k : object_t) :
    cache_eq cs mem (valdict_hash_key cs mem d k).2 := by
  unfold valdict_hash_key
  split
  · exact object_hash_cache_eq cs mem k
  · exact cache_eq_refl cs mem

theorem valdict_hash_key_congr (cs : Bool) (mem mem2 : gcmem_t) (h : cache_eq cs mem mem2)
    (d : valdict_t_) (k : object_t) :
    (valdict_hash_key cs mem d k).1 = (valdict_hash_key cs mem2 d k).1 := by
  unfold valdict_hash_key
  split
  · exact object_hash_congr cs mem mem2 h k
  · rfl

theorem valdict_hash_key_fn (cs : Bool) (mem : gcmem_t) (d d2 : valdict_t_) (k : object_t)
    (h : d2._hash_key = d._hash_key) : valdict_hash_key cs mem d2 k = valdict_hash_key cs mem d k := by
  unfold valdict_hash_key
  rw [h]

theorem valdict_keys_are_equal_cache_eq (cs : Bool) (mem : gcmem_t) (d : valdict_t_)
    (a b : object_t) : cache_eq cs mem (valdict_keys_are_equal cs mem d a b).2 := by
  unfold valdict_keys_are_equal
  split
  · exact object_equals_cache_eq cs mem a b
  · exact cache_eq_refl cs mem

theorem valdict_keys_are_equal_congr (cs : Bool) (mem mem2 : gcmem_t) (h : cache_eq cs mem mem2)
    (d : valdict_t_) (a b : object_t) :
    (valdict_keys_are_equal cs mem d a b).1 = (valdict_keys_are_equal cs mem2 d a b).1 := by
  unfold valdict_keys_are_equal
  split
  · exact object_equals_congr cs mem mem2 h a b
  · rfl

theorem valdict_keys_are_equal_fn (cs : Bool) (mem : gcmem_t) (d d2 : valdict_t_) (a b : object_t)
    (h : d2._keys_equals = d._keys_equals) :
    valdict_keys_are_equal cs mem d2 a b = valdict_keys_are_equal cs mem d a b := by
  unfold valdict_keys_are_equal
  rw [h]

theorem getD_mem_or_default {α : Type} (l : List α) (i : Nat) (x : α) :
    l.getD i x = x ∨ l.getD i x ∈ l := by
  by_cases h : i < l.length
  · right
    rw [List.getD_eq_getElem l x h]
    exact List.getElem_mem h
  · left
    exact List.getD_eq_default l x (by omega)

/-- The probe loop only caches hashes. -/
theorem get_cell_ix_loop_cache_eq (cs : Bool) (d : valdict_t_) (k : object_t) (hash cell_ix : Nat) :
    ∀ (n i : Nat) (mem : gcmem_t),
      cache_eq cs mem (valdict_get_cell_ix_loop cs d k hash cell_ix n i mem).2.2 := by
  intro n
  induction n with
  | zero => intro i mem; exact cache_eq_refl cs mem
  | succ n ih =>
    intro i mem
    unfold valdict_get_cell_ix_loop
    simp only
    split
    · exact cache_eq_refl cs mem
    · split
      · exact ih _ _
      · split
        · exact valdict_keys_are_equal_cache_eq cs mem d k _
        · exact cache_eq_trans cs _ _ _ (valdict_keys_are_equal_cache_eq cs mem d k _) (ih _ _)

/-- A report of "found" names a cell that is not empty. -/
theorem get_cell_ix_loop_found (cs : Bool) (d : valdict_t_) (k : object_t) (hash cell_ix : Nat) :
    ∀ (n i : Nat) (mem : gcmem_t),
      (valdict_get_cell_ix_loop cs d k hash cell_ix n i mem).2.1 = true →
      d.cells.getD (valdict_get_cell_ix_loop cs d k hash cell_ix n i mem).1 VALDICT_INVALID_IX
        ≠ VALDICT_INVALID_IX := by
  intro n
  induction n with
  | zero => intro i mem h; simp [valdict_get_cell_ix_loop] at h
  | succ n ih =>
    intro i mem
    unfold valdict_get_cell_ix_loop
    simp only
    split
    · intro h; simp at h
    · rename_i hc
      split
      · exact ih _ _
      · split
        · intro _; exact hc
        · exact ih _ _

/-- The probe loop reports "not found" when no stored key collides with the key. -/
theorem get_cell_ix_loop_miss (cs : Bool) (d : valdict_t_) (k : object_t) (hash cell_ix : Nat) :
    ∀ (n i : Nat) (mem : gcmem_t),
      (∀ c ∈ d.cells, c ≠ VALDICT_INVALID_IX → hash = d.hashes.getD c 0 →
        (valdict_keys_are_equal cs mem d k (d.keys.getD c { handle := 0 })).1 = false) →
      (valdict_get_cell_ix_loop cs d k hash cell_ix n i mem).2.1 = false := by
  intro n
  induction n with
  | zero => intro i mem _; rfl
  | succ n ih =>
    intro i mem hmiss
    unfold valdict_get_cell_ix_loop
    simp only
    split
    · rfl
    · rename_i hc
      split
      · exact ih _ _ hmiss
      · rename_i hh
        have hh' : hash = d.hashes.getD _ 0 := not_not.mp hh
        have hmem : d.cells.getD ((cell_ix + i) % 2 ^ 32 &&& u32_pred d.cell_capacity)
            VALDICT_INVALID_IX ∈ d.cells := by
          rcases getD_mem_or_default d.cells
            ((cell_ix + i) % 2 ^ 32 &&& u32_pred d.cell_capacity) VALDICT_INVALID_IX with h | h
          · exact absurd h hc
          · exact h
        have hne := hmiss _ hmem hc hh'
        simp only [hne, Bool.false_eq_true, if_false]
        apply ih
        intro c hcm hcne hch
        rw [← valdict_keys_are_equal_congr cs mem _ (valdict_keys_are_equal_cache_eq cs mem d k _)]
        exact hmiss c hcm hcne hch

theorem getD_set_same {α : Type} (l : List α) (i : Nat) (x d : α) (h : i < l.length) :
    (l.set i x).getD i d = x := by
  simp [List.getD_eq_getElem?_getD, List.getElem?_set_self, h]

theorem getD_set_other {α : Type} (l : List α) (i j : Nat) (x d : α) (h : i ≠ j) :
    (l.set i x).getD j d = l.getD j d := by
  simp [List.getD_eq_getElem?_getD, List.getElem?_set_ne h]

theorem valdict_append_eq (d : valdict_t_) (c : Nat) (k v : object_t) (hash : Nat)
    (h : d.count + 1 < 2 ^ 32) :
    valdict_append d c k v hash
      = { d with
          count := d.count + 1
          cells := d.cells.set c d.count
          keys := d.keys.set d.count k
          values := d.values.set d.count v
          cell_ixs := d.cell_ixs.set d.count c
          hashes := d.hashes.set d.count hash } := by
  have h1 : (d.count + 1) % 2 ^ 32 = d.count + 1 := Nat.mod_eq_of_lt h
  have h2 : ¬ d.count ≥ d.count + 1 := by omega
  simp only [valdict_append, valdict_set_key_at, valdict_set_value_at, h1, h2, if_false]

/-- `valdict_set` of a key that collides with no stored key, with room left: the key is
appended. -/
theorem valdict_set_aux_miss (cs : Bool) (fuel : Nat) (mem : gcmem_t) (d : valdict_t_)
    (k v : object_t)
    (hmiss : ∀ c ∈ d.cells, c ≠ VALDICT_INVALID_IX →
      (valdict_hash_key cs mem d k).1 = d.hashes.getD c 0 →
      (valdict_keys_are_equal cs mem d k (d.keys.getD c { handle := 0 })).1 = false)
    (hroom : d.count < d.item_capacity) :
    (valdict_set_aux cs (fuel + 1) mem d k v).1 = true
    ∧ (∃ c, (valdict_set_aux cs (fuel + 1) mem d k v).2.1
        = valdict_append d c k v (valdict_hash_key cs mem d k).1)
    ∧ cache_eq cs mem (valdict_set_aux cs (fuel + 1) mem d k v).2.2 := by
  have hc1 := valdict_hash_key_cache_eq cs mem d k
  have hnf : (valdict_get_cell_ix cs (valdict_hash_key cs mem d k).2 d k
      (valdict_hash_key cs mem d k).1).2.1 = false := by
    unfold valdict_get_cell_ix
    apply get_cell_ix_loop_miss
    intro c hc hne hh
    rw [← valdict_keys_are_equal_congr cs mem _ hc1]
    exact hmiss c hc hne hh
  have hc2 : cache_eq cs (valdict_hash_key cs mem d k).2
      (valdict_get_cell_ix cs (valdict_hash_key cs mem d k).2 d k
        (valdict_hash_key cs mem d k).1).2.2 := by
    unfold valdict_get_cell_ix
    exact get_cell_ix_loop_cache_eq cs d k _ _ _ _ _
  have hng : ¬ d.count ≥ d.item_capacity := by omega
  unfold valdict_set_aux
  simp only [hnf, Bool.false_eq_true, if_false, hng]
  exact ⟨trivial, ⟨_, rfl⟩, cache_eq_trans cs _ _ _ hc1 hc2⟩

theorem mem_set_cases {α : Type} (l : List α) (i : Nat) (x y : α) (h : y ∈ l.set i x) :
    y = x ∨ y ∈ l := by
  rcases List.mem_or_eq_of_mem_set h with h | h
  · exact Or.inr h
  · exact Or.inl h

/-- One more item copied keeps the state of the copy loop. -/
theorem rehash_inv_step (cs : Bool) (mem0 : gcmem_t) (D N : valdict_t_) (j c : Nat)
    (hinv : rehash_inv cs mem0 D N j) (hj : j < N.item_capacity) (hcap : N.item_capacity < 2 ^ 32) :
    rehash_inv cs mem0 D
      (valdict_append N c (D.keys.getD j { handle := 0 }) (D.values.getD j { handle := 0 })
        (valdict_hash_key cs mem0 D (D.keys.getD j { handle := 0 })).1) (j + 1) := by
  obtain ⟨h1, h2, h3, h4, h5, h6, h7, h8, h9, h10⟩ := hinv
  rw [valdict_append_eq N c _ _ _ (by omega)]
  refine ⟨by simp only [h1], ?_, ?_, ?_, ?_, ?_, h7, h8, ?_, ?_⟩
  · simp only [List.length_set]; exact h2
  · simp only [List.length_set]; exact h3
  · simp only [List.length_set]; exact h4
  · simp only [List.length_set]; exact h5
  · simp only [List.length_set]; exact h6
  · intro x hx
    rcases mem_set_cases _ _ _ _ hx with hx | hx
    · right; omega
    · rcases h9 x hx with hx | hx
      · exact Or.inl hx
      · right; omega
  · intro i hi
    by_cases hij : i = j
    · subst hij
      simp only [h1]
      rw [getD_set_same _ _ _ _ (by omega), getD_set_same _ _ _ _ (by omega),
        getD_set_same _ _ _ _ (by omega)]
      exact ⟨rfl, rfl, rfl⟩
    · simp only [h1]
      have hne : j ≠ i := fun h => hij h.symm
      rw [getD_set_other _ _ _ _ _ hne, getD_set_other _ _ _ _ _ hne,
        getD_set_other _ _ _ _ _ hne]
      exact h10 i (by omega)

/-- The copy loop of `valdict_grow_and_rehash` copies every item to the same slot. -/
theorem rehash_loop_inv (cs : Bool) (fuel : Nat) (mem0 : gcmem_t) (D : valdict_t_)
    (hpair : ∀ i j, i < j → j < D.count →
      ¬ keys_collide cs mem0 D (D.keys.getD j { handle := 0 }) (D.keys.getD i { handle := 0 })) :
    ∀ (n j : Nat) (N : valdict_t_) (mem : gcmem_t), cache_eq cs mem0 mem →
      rehash_inv cs mem0 D N j → j + n = D.count → D.count ≤ N.item_capacity →
      N.item_capacity < 2 ^ 32 →
      (valdict_rehash_loop (valdict_set_aux cs (fuel + 1)) D n j N mem).1 = true
      ∧ rehash_inv cs mem0 D
          (valdict_rehash_loop (valdict_set_aux cs (fuel + 1)) D n j N mem).2.1 D.count
      ∧ cache_eq cs mem0 (valdict_rehash_loop (valdict_set_aux cs (fuel + 1)) D n j N mem).2.2
      ∧ (valdict_rehash_loop (valdict_set_aux cs (fuel + 1)) D n j N mem).2.1.item_capacity
          = N.item_capacity
      ∧ (valdict_rehash_loop (valdict_set_aux cs (fuel + 1)) D n j N mem).2.1.cell_capacity
          = N.cell_capacity := by
  intro n
  induction n with
  | zero =>
    intro j N mem hc hinv hjn _ _
    have : j = D.count := by omega
    subst this
    exact ⟨rfl, hinv, hc, rfl, rfl⟩
  | succ n ih =>
    intro j N mem hc hinv hjn hle hcap
    have hjD : j < D.count := by omega
    have hhash : (valdict_hash_key cs mem N (D.keys.getD j { handle := 0 })).1
        = (valdict_hash_key cs mem0 D (D.keys.getD j { handle := 0 })).1 := by
      rw [valdict_hash_key_fn cs mem D N _ hinv.2.2.2.2.2.2.1,
        ← valdict_hash_key_congr cs mem0 mem hc]
    have hmiss : ∀ c ∈ N.cells, c ≠ VALDICT_INVALID_IX →
        (valdict_hash_key cs mem N (D.keys.getD j { handle := 0 })).1 = N.hashes.getD c 0 →
        (valdict_keys_are_equal cs mem N (D.keys.getD j { handle := 0 })
          (N.keys.getD c { handle := 0 })).1 = false := by
      intro c hcm hne hh
      have hcj : c < j := by
        rcases hinv.2.2.2.2.2.2.2.2.1 c hcm with h | h
        · exact absurd h hne
        · exact h
      obtain ⟨hk, _, hhs⟩ := hinv.2.2.2.2.2.2.2.2.2 c hcj
      rw [hk, valdict_keys_are_equal_fn cs mem D N _ _ hinv.2.2.2.2.2.2.2.1,
        ← valdict_keys_are_equal_congr cs mem0 mem hc]
      have hnc := hpair c j hcj hjD
      unfold keys_collide at hnc
      rw [hhash, hhs] at hh
      cases hval : (valdict_keys_are_equal cs mem0 D (D.keys.getD j { handle := 0 })
          (D.keys.getD c { handle := 0 })).1 with
      | false => rfl
      | true => exact absurd ⟨hh, hval⟩ hnc
    have hroom : N.count < N.item_capacity := by
      rw [hinv.1]; omega
    obtain ⟨hs1, ⟨c, hs2⟩, hs3⟩ := valdict_set_aux_miss cs fuel mem N
      (D.keys.getD j { handle := 0 }) (D.values.getD j { handle := 0 }) hmiss hroom
    unfold valdict_rehash_loop
    simp only [hs1, if_true]
    rw [hs2, hhash]
    have hstep := rehash_inv_step cs mem0 D N j c hinv (by omega) hcap
    have hic : (valdict_append N c (D.keys.getD j { handle := 0 })
        (D.values.getD j { handle := 0 })
        (valdict_hash_key cs mem0 D (D.keys.getD j { handle := 0 })).1).item_capacity
        = N.item_capacity := by
      rw [valdict_append_eq N c _ _ _ (by rw [hinv.1]; omega)]
    have hcc : (valdict_append N c (D.keys.getD j { handle := 0 })
        (D.values.getD j { handle := 0 })
        (valdict_hash_key cs mem0 D (D.keys.getD j { handle := 0 })).1).cell_capacity
        = N.cell_capacity := by
      rw [valdict_append_eq N c _ _ _ (by rw [hinv.1]; omega)]
    have := ih (j + 1) _ _ (cache_eq_trans cs _ _ _ hc hs3) hstep (by omega)
      (by rw [hic]; exact hle) (by rw [hic]; exact hcap)
    rw [hic, hcc] at this
    exact this

theorem valdict_find_eq (cs : Bool) (mem : gcmem_t) (d : valdict_t_) (k : object_t) :
    valdict_find cs mem d k
      = (if (valdict_get_cell_ix cs (valdict_hash_key cs mem d k).2 d k
            (valdict_hash_key cs mem d k).1).2.1 = true
         then some (d.cells.getD (valdict_get_cell_ix cs (valdict_hash_key cs mem d k).2 d k
            (valdict_hash_key cs mem d k).1).1 VALDICT_INVALID_IX)
         else none) := rfl

/-- `valdict_set` of a key that the lookup finds in slot `i` replaces the value in slot `i`
and nothing else of the dictionary. -/
theorem valdict_set_found (cs : Bool) (mem : gcmem_t) (d : valdict_t_) (k v : object_t) (i : Nat)
    (hfind : valdict_find cs mem d k = some i) :
    (valdict_set cs mem d k v).1 = true
    ∧ (valdict_set cs mem d k v).2.1 = (valdict_set_value_at d i v).2
    ∧ cache_eq cs mem (valdict_set cs mem d k v).2.2 := by
  rw [valdict_find_eq] at hfind
  have hc1 := valdict_hash_key_cache_eq cs mem d k
  have hc2 : cache_eq cs (valdict_hash_key cs mem d k).2
      (valdict_get_cell_ix cs (valdict_hash_key cs mem d k).2 d k
        (valdict_hash_key cs mem d k).1).2.2 := by
    unfold valdict_get_cell_ix
    exact get_cell_ix_loop_cache_eq cs d k _ _ _ _ _
  by_cases hf : (valdict_get_cell_ix cs (valdict_hash_key cs mem d k).2 d k
      (valdict_hash_key cs mem d k).1).2.1 = true
  · rw [if_pos hf] at hfind
    have hi := Option.some.inj hfind
    unfold valdict_set valdict_set_aux
    simp only [hf, if_true, hi]
    exact ⟨trivial, trivial, cache_eq_trans cs _ _ _ hc1 hc2⟩
  · rw [if_neg hf] at hfind
    exact absurd hfind (by simp)

theorem valdict_find_lt (cs : Bool) (mem : gcmem_t) (d : valdict_t_) (k : object_t) (i : Nat)
    (hcells : ∀ c ∈ d.cells, c = VALDICT_INVALID_IX ∨ c < d.count)
    (hfind : valdict_find cs mem d k = some i) : i < d.count := by
  rw [valdict_find_eq] at hfind
  by_cases hf : (valdict_get_cell_ix cs (valdict_hash_key cs mem d k).2 d k
      (valdict_hash_key cs mem d k).1).2.1 = true
  · rw [if_pos hf] at hfind
    have hi := Option.some.inj hfind
    have hne : d.cells.getD (valdict_get_cell_ix cs (valdict_hash_key cs mem d k).2 d k
        (valdict_hash_key cs mem d k).1).1 VALDICT_INVALID_IX ≠ VALDICT_INVALID_IX := by
      unfold valdict_get_cell_ix at hf ⊢
      exact get_cell_ix_loop_found cs d k _ _ _ _ _ hf
    rw [hi] at hne
    rcases getD_mem_or_default d.cells (valdict_get_cell_ix cs (valdict_hash_key cs mem d k).2 d k
        (valdict_hash_key cs mem d k).1).1 VALDICT_INVALID_IX with h | h
    · rw [hi] at h; exact absurd h hne
    · rw [hi] at h
      rcases hcells i h with h2 | h2
      · exact absurd h2 hne
      · exact h2
  · rw [if_neg hf] at hfind
    exact absurd hfind (by simp)

theorem item_capacity_grows (cap : Nat) (h0 : cap ≠ 0) (h : cap < 2 ^ 31) :
    cap * 11744051 / 16777216 < (cap * 2) % 2 ^ 32 * 11744051 / 16777216
    ∧ (cap * 2) % 2 ^ 32 * 11744051 / 16777216 < 2 ^ 32 := by
  have h2 : (cap * 2) % 2 ^ 32 = cap * 2 := Nat.mod_eq_of_lt (by omega)
  rw [h2]
  constructor
  · rw [Nat.div_lt_iff_lt_mul (by decide), ]
    have hq := Nat.div_add_mod (cap * 2 * 11744051) 16777216
    have hr := Nat.mod_lt (cap * 2 * 11744051) (show 16777216 > 0 by decide)
    by_cases h1 : cap = 1
    · subst h1; decide
    · have : 2 ≤ cap := by omega
      generalize cap * 2 * 11744051 / 16777216 = q at *
      generalize cap * 2 * 11744051 % 16777216 = r at *
      omega
  · rw [Nat.div_lt_iff_lt_mul (by decide)]
    omega

theorem rehash_inv_init (cs : Bool) (mem0 : gcmem_t) (D : valdict_t_) (cap : Nat) :
    rehash_inv cs mem0 D
      { valdict_init cap with _keys_equals := D._keys_equals, _hash_key := D._hash_key } 0 := by
  refine ⟨rfl, ?_, ?_, ?_, ?_, ?_, rfl, rfl, ?_, ?_⟩
  · simp [valdict_init]
  · simp [valdict_init]
  · simp [valdict_init]
  · simp [valdict_init]
  · simp [valdict_init]
  · intro c hc
    left
    simp only [valdict_init] at hc
    exact List.eq_of_mem_replicate hc
  · intro i hi
    omega

/-- `valdict_set` of a key that the lookup does not find appends the key in slot `count`
and keeps every earlier slot, also when the table grows and is rehashed. -/
theorem valdict_set_absent (cs : Bool) (mem : gcmem_t) (d : valdict_t_) (k v : object_t)
    (hwf : valdict_wf cs mem d) (hfind : valdict_find cs mem d k = none) :
    (valdict_set cs mem d k v).1 = true
    ∧ (valdict_set cs mem d k v).2.1.count = d.count + 1
    ∧ (valdict_set cs mem d k v).2.1.keys.getD d.count { handle := 0 } = k
    ∧ (valdict_set cs mem d k v).2.1.values.getD d.count { handle := 0 } = v
    ∧ (∀ i, i < d.count →
        (valdict_set cs mem d k v).2.1.keys.getD i { handle := 0 } = d.keys.getD i { handle := 0 }
        ∧ (valdict_set cs mem d k v).2.1.values.getD i { handle := 0 }
            = d.values.getD i { handle := 0 })
    ∧ cache_eq cs mem (valdict_set cs mem d k v).2.2 := by
  obtain ⟨w1, w2, w3, w4, w5, w6, w7, w8, w9, w10⟩ := hwf
  rw [valdict_find_eq] at hfind
  have hf : (valdict_get_cell_ix cs (valdict_hash_key cs mem d k).2 d k
      (valdict_hash_key cs mem d k).1).2.1 = false := by
    cases h : (valdict_get_cell_ix cs (valdict_hash_key cs mem d k).2 d k
      (valdict_hash_key cs mem d k).1).2.1 with
    | false => rfl
    | true => rw [if_pos h] at hfind; exact absurd hfind (by simp)
  have hc1 := valdict_hash_key_cache_eq cs mem d k
  have hc2 : cache_eq cs (valdict_hash_key cs mem d k).2
      (valdict_get_cell_ix cs (valdict_hash_key cs mem d k).2 d k
        (valdict_hash_key cs mem d k).1).2.2 := by
    unfold valdict_get_cell_ix
    exact get_cell_ix_loop_cache_eq cs d k _ _ _ _ _
  have hc12 := cache_eq_trans cs _ _ _ hc1 hc2
  unfold valdict_set valdict_set_aux
  simp only [hf, Bool.false_eq_true, if_false]
  by_cases hg : d.count ≥ d.item_capacity
  · simp only [hg, if_true]
    -- the table grows
    have hcnt : d.count = d.item_capacity := by omega
    let newcap := if d.cell_capacity = 0 then DICT_INITIAL_SIZE else (d.cell_capacity * 2) % 2 ^ 32
    have hnewcap : d.count < newcap * 11744051 / 16777216
        ∧ newcap * 11744051 / 16777216 < 2 ^ 32 := by
      show d.count < (if d.cell_capacity = 0 then DICT_INITIAL_SIZE
          else (d.cell_capacity * 2) % 2 ^ 32) * 11744051 / 16777216
        ∧ (if d.cell_capacity = 0 then DICT_INITIAL_SIZE
          else (d.cell_capacity * 2) % 2 ^ 32) * 11744051 / 16777216 < 2 ^ 32
      rw [hcnt, w7]
      by_cases h0 : d.cell_capacity = 0
      · simp only [h0, if_true, DICT_INITIAL_SIZE]
        omega
      · simp only [h0, if_false]
        exact item_capacity_grows d.cell_capacity h0 w8
    have hloop := rehash_loop_inv cs d.count _ d
      (fun i j hij hj hcol => w10 i j hij hj
        (by
          unfold keys_collide at hcol ⊢
          rw [valdict_hash_key_congr cs mem _ hc12, valdict_hash_key_congr cs mem _ hc12 d
            (d.keys.getD i { handle := 0 }), valdict_keys_are_equal_congr cs mem _ hc12]
          exact hcol))
      d.count 0
      { valdict_init newcap with _keys_equals := d._keys_equals, _hash_key := d._hash_key }
      _ (cache_eq_refl cs _) (rehash_inv_init cs _ d newcap) (by omega)
      (by
        show d.count ≤ newcap * 11744051 / 16777216
        omega)
      (by
        show newcap * 11744051 / 16777216 < 2 ^ 32
        omega)
    obtain ⟨l1, l2, l3, l4, l5⟩ := hloop
    unfold valdict_grow_and_rehash_with
    simp only [l1, if_true]
    obtain ⟨i1, i2, i3, i4, i5, i6, i7, i8, i9, i10⟩ := l2
    have hic : (valdict_rehash_loop (valdict_set_aux cs (d.count + 1)) d d.count 0
        { valdict_init newcap with _keys_equals := d._keys_equals, _hash_key := d._hash_key }
        (valdict_get_cell_ix cs (valdict_hash_key cs mem d k).2 d k
          (valdict_hash_key cs mem d k).1).2.2).2.1.item_capacity
        = newcap * 11744051 / 16777216 := l4
    have hc3 : ∀ N m, cache_eq cs m (valdict_get_cell_ix cs m N k
        (valdict_hash_key cs mem d k).1).2.2 := by
      intro N m
      unfold valdict_get_cell_ix
      exact get_cell_ix_loop_cache_eq cs N k _ _ _ _ _
    rw [valdict_append_eq _ _ _ _ _ (by rw [i1]; omega)]
    refine ⟨trivial, ?_, ?_, ?_, ?_, ?_⟩
    · simp only [i1]
    · simp only [i1]
      exact getD_set_same _ _ _ _ (by rw [i2, hic]; omega)
    · simp only [i1]
      exact getD_set_same _ _ _ _ (by rw [i3, hic]; omega)
    · intro i hi
      simp only [i1]
      have hne : d.count ≠ i := by omega
      rw [getD_set_other _ _ _ _ _ hne, getD_set_other _ _ _ _ _ hne]
      exact ⟨(i10 i hi).1, (i10 i hi).2.1⟩
    · exact cache_eq_trans cs _ _ _ hc12
        (cache_eq_trans cs _ _ _ l3 (hc3 _ _))
  · simp only [hg, if_false]
    rw [valdict_append_eq _ _ _ _ _ (by omega)]
    refine ⟨trivial, rfl, ?_, ?_, ?_, hc12⟩
    · exact getD_set_same _ _ _ _ (by omega)
    · exact getD_set_same _ _ _ _ (by omega)
    · intro i hi
      have hne : d.count ≠ i := by omega
      exact ⟨getD_set_other _ _ _ _ _ hne, getD_set_other _ _ _ _ _ hne⟩

theorem map_after_set (cs : Bool) (mem : gcmem_t) (m k v : object_t) (d : valdict_t_)
    (hm : map_at mem m d) :
    ((object_set_map_value cs mem m k v).2.deref (object_get_allocated_data m)).map
      = (valdict_set cs mem d k v).2.1
    ∧ (object_set_map_value cs mem m k v).1 = (valdict_set cs mem d k v).1 := by
  have hd : (mem.deref (object_get_allocated_data m)).map = d := by
    simp only [object_data_t.map, hm.2]
  unfold object_set_map_value gcmem_t.store_map
  simp only [hd, deref_store_same]
  exact ⟨rfl, trivial⟩

theorem map_key_at_eq (mem : gcmem_t) (m : object_t) (d : valdict_t_) (j : Nat)
    (hd : (mem.deref (object_get_allocated_data m)).map = d) :
    object_get_map_key_at mem m j
      = (if j ≥ d.count then object_make_null else d.keys.getD j { handle := 0 }) := by
  unfold object_get_map_key_at valdict_get_key_at
  rw [hd]
  by_cases h : j ≥ d.count <;> simp only [h, if_true, if_false]

theorem map_value_at_eq (mem : gcmem_t) (m : object_t) (d : valdict_t_) (j : Nat)
    (hd : (mem.deref (object_get_allocated_data m)).map = d) :
    object_get_map_value_at mem m j
      = (if j ≥ d.count then object_make_null else d.values.getD j { handle := 0 }) := by
  unfold object_get_map_value_at valdict_get_value_at
  rw [hd]
  by_cases h : j ≥ d.count <;> simp only [h, if_true, if_false]

theorem dict_one_wf : valdict_wf false mem_one_map dict_one := by
  unfold valdict_wf
  refine ⟨by decide, by decide, by decide, by decide, by decide, by decide, by decide,
    by decide, by decide, ?_⟩
  intro i j hij hj
  have : dict_one.count = 1 := by decide
  omega


theorem get_cell_ix_loop_congr (cs : Bool) (d : valdict_t_) (k : object_t) (hash cell_ix : Nat) :
    ∀ (n i : Nat) (mem mem2 : gcmem_t), cache_eq cs mem mem2 →
      (valdict_get_cell_ix_loop cs d k hash cell_ix n i mem).1
          = (valdict_get_cell_ix_loop cs d k hash cell_ix n i mem2).1
        ∧ (valdict_get_cell_ix_loop cs d k hash cell_ix n i mem).2.1
          = (valdict_get_cell_ix_loop cs d k hash cell_ix n i mem2).2.1 := by
  intro n
  induction n with
  | zero => intro i mem mem2 _; exact ⟨rfl, rfl⟩
  | succ n ih =>
    intro i mem mem2 h
    unfold valdict_get_cell_ix_loop
    simp only
    split
    · exact ⟨rfl, rfl⟩
    · split
      · exact ih _ _ _ h
      · have he := valdict_keys_are_equal_congr cs mem mem2 h d k
          (d.keys.getD (d.cells.getD (((cell_ix + i) % 2 ^ 32) &&& u32_pred d.cell_capacity)
            VALDICT_INVALID_IX) { handle := 0 })
        rw [← he]
        split
        · exact ⟨rfl, rfl⟩
        · apply ih
          exact cache_eq_trans cs _ _ _
            (cache_eq_symm cs _ _ (valdict_keys_are_equal_cache_eq cs mem d k _))
            (cache_eq_trans cs _ _ _ h (valdict_keys_are_equal_cache_eq cs mem2 d k _))

theorem valdict_get_cache_eq (cs : Bool) (mem : gcmem_t) (d : valdict_t_) (k : object_t) :
    cache_eq cs mem (valdict_get cs mem d k).2 := by
  have h1 := valdict_hash_key_cache_eq cs mem d k
  have h2 := get_cell_ix_loop_cache_eq cs d k (valdict_hash_key cs mem d k).1
    (((valdict_hash_key cs mem d k).1 &&& u32_pred d.cell_capacity) % 2 ^ 32) d.cell_capacity 0
    (valdict_hash_key cs mem d k).2
  have h := cache_eq_trans cs _ _ _ h1 h2
  unfold valdict_get valdict_get_cell_ix
  simp only
  split <;> exact h

theorem valdict_get_congr (cs : Bool) (mem mem2 : gcmem_t) (h : cache_eq cs mem mem2)
    (d : valdict_t_) (k : object_t) :
    (valdict_get cs mem d k).1 = (valdict_get cs mem2 d k).1 := by
  have hh := valdict_hash_key_congr cs mem mem2 h d k
  have h1 := valdict_hash_key_cache_eq cs mem d k
  have h2 := valdict_hash_key_cache_eq cs mem2 d k
  have h12 := cache_eq_trans cs _ _ _ (cache_eq_symm cs _ _ h1) (cache_eq_trans cs _ _ _ h h2)
  have hl := get_cell_ix_loop_congr cs d k (valdict_hash_key cs mem d k).1
    (((valdict_hash_key cs mem d k).1 &&& u32_pred d.cell_capacity) % 2 ^ 32) d.cell_capacity 0
    _ _ h12
  unfold valdict_get valdict_get_cell_ix
  simp only
  rw [← hh, ← hl.1, ← hl.2]
  split <;> rfl

theorem get_map_value_cache_eq (cs : Bool) (mem : gcmem_t) (m k : object_t) :
    cache_eq cs mem (object_get_map_value cs mem m k).2 := by
  have h := valdict_get_cache_eq cs mem (mem.deref (object_get_allocated_data m)).map k
  unfold object_get_map_value
  simp only
  split <;> exact h

theorem get_map_value_congr (cs : Bool) (mem mem2 : gcmem_t) (h : cache_eq cs mem mem2)
    (m k : object_t) :
    (object_get_map_value cs mem m k).1 = (object_get_map_value cs mem2 m k).1 := by
  have hm := (body_cache_eq_map cs _ _ (h (object_get_allocated_data m))).1
  have hg := valdict_get_congr cs mem mem2 h (mem.deref (object_get_allocated_data m)).map k
  unfold object_get_map_value
  simp only
  rw [← hm, ← hg]
  split <;> rfl

theorem cache_eq_callable (cs : Bool) (mem mem2 : gcmem_t) (h : cache_eq cs mem mem2)
    (obj : object_t) : object_is_callable mem obj = object_is_callable mem2 obj := by
  unfold object_is_callable
  rw [cache_eq_type cs mem mem2 h]


theorem type_make_null (mem : gcmem_t) : object_get_type mem object_make_null = OBJECT_NULL := by
  have hnull_num : object_is_number object_make_null = false := by decide
  have htag : (object_make_null.handle >>> 48) &&& 0x7 = 2 := by decide
  simp [object_get_type, hnull_num, htag]

/-- Without a callable entry under the overload key in a Map operand,
`try_overload_operator` reports no overload and changes cached hashes only. -/
theorem try_overload_none (cs dbg : Bool) (natives : native_call_t) (vm : vm_t)
    (left right : object_t) (op : opcode_t)
    (hl : object_get_type vm.mem left = OBJECT_MAP →
      object_is_callable vm.mem
        (object_get_map_value cs vm.mem left (vm.operator_oveload_keys op)).1 = false)
    (hr : object_get_type vm.mem right = OBJECT_MAP →
      object_is_callable vm.mem
        (object_get_map_value cs vm.mem right (vm.operator_oveload_keys op)).1 = false) :
    ∃ mem2, cache_eq cs vm.mem mem2
      ∧ try_overload_operator cs dbg natives vm left right op
          = (true, false, { vm with mem := mem2 }) := by
  unfold try_overload_operator
  simp only
  split
  · exact ⟨vm.mem, cache_eq_refl cs _, rfl⟩
  · by_cases hL : object_get_type vm.mem left = OBJECT_MAP
    · have h1 := get_map_value_cache_eq cs vm.mem left (vm.operator_oveload_keys op)
      have hc1 := hl hL
      rw [cache_eq_callable cs _ _ h1] at hc1
      rw [if_pos hL]
      rw [if_pos (by rw [hc1]; simp)]
      by_cases hR : object_get_type vm.mem right = OBJECT_MAP
      · rw [if_pos hR]
        have h2 := get_map_value_cache_eq cs
          (object_get_map_value cs vm.mem left (vm.operator_oveload_keys op)).2 right
          (vm.operator_oveload_keys op)
        have hc2 := hr hR
        rw [get_map_value_congr cs _ _ h1, cache_eq_callable cs _ _ (cache_eq_trans cs _ _ _ h1 h2)]
          at hc2
        rw [if_pos (by rw [hc2]; simp)]
        exact ⟨_, cache_eq_trans cs _ _ _ h1 h2, rfl⟩
      · rw [if_neg hR]
        rw [if_pos (by rw [hc1]; simp)]
        exact ⟨_, h1, rfl⟩
    · rw [if_neg hL]
      have hn : object_is_callable vm.mem object_make_null = false := by
        unfold object_is_callable
        rw [type_make_null]; decide
      rw [if_pos (by simp only; rw [hn]; simp)]
      by_cases hR : object_get_type vm.mem right = OBJECT_MAP
      · rw [if_pos hR]
        have h2 := get_map_value_cache_eq cs vm.mem right (vm.operator_oveload_keys op)
        have hc2 := hr hR
        rw [cache_eq_callable cs _ _ h2] at hc2
        rw [if_pos (by simp only; rw [hc2]; simp)]
        exact ⟨_, h2, rfl⟩
      · rw [if_neg hR]
        rw [if_pos (by simp only; rw [hn]; simp)]
        exact ⟨_, cache_eq_refl cs _, rfl⟩

theorem stack_pop_eq (dbg : Bool) (vm : vm_t) (h : vm.sp ≠ 0) :
    stack_pop dbg vm
      = (vm.stack (vm.sp - 1),
         { vm with sp := vm.sp - 1, last_popped := vm.stack (vm.sp - 1) }) := by
  unfold stack_pop
  rw [if_neg (fun hc => h hc.2)]

theorem stack_push_eq (dbg : Bool) (vm : vm_t) (obj : object_t) (h : vm.sp < VM_STACK_SIZE) :
    stack_push dbg vm obj
      = { vm with stack := fun i => if i = vm.sp then obj else vm.stack i, sp := vm.sp + 1 } := by
  unfold stack_push
  rw [if_neg (fun hc => absurd hc.2 (not_le.mpr h))]

/-- Function `object_compare` on two values of different types that are not both among
Number, Bool and Null. -/
theorem compare_hetero (cs : Bool) (mem : gcmem_t) (a b : object_t) (ok : Bool)
    (hty : object_get_type mem a ≠ object_get_type mem b)
    (hnum : ¬ ((object_get_type mem a = OBJECT_NUMBER ∨ object_get_type mem a = OBJECT_BOOL
          ∨ object_get_type mem a = OBJECT_NULL)
        ∧ (object_get_type mem b = OBJECT_NUMBER ∨ object_get_type mem b = OBJECT_BOOL
          ∨ object_get_type mem b = OBJECT_NULL))) :
    object_compare cs mem a b ok
      = if (object_is_allocated a ∨ object_is_null mem a)
            ∧ (object_is_allocated b ∨ object_is_null mem b) then
          (double_of_int ((object_get_allocated_data a : Int) - (object_get_allocated_data b : Int)),
            true, mem)
        else (double_of_int 1, false, mem) := by
  have hh : a.handle ≠ b.handle := by
    intro hc
    apply hty
    have : a = b := by cases a; cases b; simp only at hc; rw [hc]
    rw [this]
  unfold object_compare
  rw [if_neg hh]
  simp only
  rw [if_neg hnum, if_neg (fun hc => hty hc.1)]

/-- Claim C5, as the code has it.  Let `left` and `right`, the two operands on top of the
stack, have different types, not both among Number, Bool and Null, and let no Map operand
hold a callable entry under the overload key of COMPARE.  Then `object_compare` sets its ok
flag to false exactly when one operand is neither allocated nor null (a Number or a Bool
against a String, Array, Map, ...); in that case the COMPARE instruction goes to `err` with
the Runtime error "Cannot compare LEFT and RIGHT".  When both operands are allocated or
null (an Array and a Map, a String and an Array, Null and an Array) the flag is true and
COMPARE pushes the difference of the two addresses without raising an error. -/
theorem C5_compare_heterogeneous (cs dbg : Bool) (natives : native_call_t) (vm : vm_t)
    (left right : object_t) (ok0 : Bool)
    (hsp : 2 ≤ vm.sp) (hsp2 : vm.sp ≤ VM_STACK_SIZE)
    (hleft : vm.stack (vm.sp - 2) = left) (hright : vm.stack (vm.sp - 1) = right)
    (hty : object_get_type vm.mem left ≠ object_get_type vm.mem right)
    (hnum : ¬ ((object_get_type vm.mem left = OBJECT_NUMBER
          ∨ object_get_type vm.mem left = OBJECT_BOOL
          ∨ object_get_type vm.mem left = OBJECT_NULL)
        ∧ (object_get_type vm.mem right = OBJECT_NUMBER
          ∨ object_get_type vm.mem right = OBJECT_BOOL
          ∨ object_get_type vm.mem right = OBJECT_NULL)))
    (hl : object_get_type vm.mem left = OBJECT_MAP →
      object_is_callable vm.mem
        (object_get_map_value cs vm.mem left (vm.operator_oveload_keys OPCODE_COMPARE)).1 = false)
    (hr : object_get_type vm.mem right = OBJECT_MAP →
      object_is_callable vm.mem
        (object_get_map_value cs vm.mem right (vm.operator_oveload_keys OPCODE_COMPARE)).1
          = false) :
    ((object_compare cs vm.mem left right ok0).2.1 = false
      ↔ ¬ ((object_is_allocated left ∨ object_is_null vm.mem left)
          ∧ (object_is_allocated right ∨ object_is_null vm.mem right)))
    ∧ (¬ ((object_is_allocated left ∨ object_is_null vm.mem left)
          ∧ (object_is_allocated right ∨ object_is_null vm.mem right)) →
        (vm_op_compare cs dbg natives vm OPCODE_COMPARE).1 = false
        ∧ (vm_op_compare cs dbg natives vm OPCODE_COMPARE).2.errors
          = errors_add_errorf vm.errors ERROR_RUNTIME (vm_src_position vm)
              ("Cannot compare " ++ object_get_type_name (object_get_type vm.mem left)
                ++ " and " ++ object_get_type_name (object_get_type vm.mem right)))
    ∧ ((object_is_allocated left ∨ object_is_null vm.mem left)
          ∧ (object_is_allocated right ∨ object_is_null vm.mem right) →
        (vm_op_compare cs dbg natives vm OPCODE_COMPARE).1 = true
        ∧ (vm_op_compare cs dbg natives vm OPCODE_COMPARE).2.errors = vm.errors
        ∧ (vm_op_compare cs dbg natives vm OPCODE_COMPARE).2.sp = vm.sp - 1
        ∧ (vm_op_compare cs dbg natives vm OPCODE_COMPARE).2.stack (vm.sp - 2)
          = object_make_number (double_of_int
              ((object_get_allocated_data left : Int) - (object_get_allocated_data right : Int))))
    := by
  have hcmp := compare_hetero cs vm.mem left right ok0 hty hnum
  refine ⟨?_, ?_⟩
  · rw [hcmp]
    split
    · rename_i h; simp only [h, not_true_eq_false, iff_false]; decide
    · rename_i h; simp only [h, not_false_eq_true]
  -- the state after the two pops
  have hp1 := stack_pop_eq dbg vm (by omega)
  have hp2 := stack_pop_eq dbg { vm with sp := vm.sp - 1, last_popped := vm.stack (vm.sp - 1) }
    (by show vm.sp - 1 ≠ 0; omega)
  have hs2 : vm.sp - 1 - 1 = vm.sp - 2 := by omega
  simp only [hs2, hleft, hright] at hp1 hp2
  obtain ⟨mem2, hce, hto⟩ := try_overload_none cs dbg natives
    { vm with sp := vm.sp - 2, last_popped := left } left right OPCODE_COMPARE hl hr
  have htl := cache_eq_type cs _ _ hce left
  have htr := cache_eq_type cs _ _ hce right
  simp only at htl htr
  have hcmp2 := compare_hetero cs mem2 left right true (by rw [← htl, ← htr]; exact hty)
    (by rw [← htl, ← htr]; exact hnum)
  have hnl : object_is_null mem2 left = object_is_null vm.mem left := by
    unfold object_is_null; rw [htl]
  have hnr : object_is_null mem2 right = object_is_null vm.mem right := by
    unfold object_is_null; rw [htr]
  rw [hnl, hnr] at hcmp2
  have hop : vm_op_compare cs dbg natives vm OPCODE_COMPARE
      = if (object_is_allocated left ∨ object_is_null vm.mem left)
            ∧ (object_is_allocated right ∨ object_is_null vm.mem right) then
          (true, stack_push dbg { vm with sp := vm.sp - 2, last_popped := left, mem := mem2 }
            (object_make_number (double_of_int
              ((object_get_allocated_data left : Int) - (object_get_allocated_data right : Int)))))
        else
          (false, { vm with
            sp := vm.sp - 2
            last_popped := left
            mem := mem2
            errors := (errors_add_errorf vm.errors ERROR_RUNTIME (vm_src_position vm)
              ("Cannot compare " ++ object_get_type_name (object_get_type mem2 left)
                ++ " and " ++ object_get_type_name (object_get_type mem2 right))) }) := by
    unfold vm_op_compare
    by_cases hb : (object_is_allocated left ∨ object_is_null vm.mem left)
        ∧ (object_is_allocated right ∨ object_is_null vm.mem right)
    · rw [if_pos hb] at hcmp2 ⊢
      simp [hp1, hp2, hto, hcmp2]
    · rw [if_neg hb] at hcmp2 ⊢
      simp [hp1, hp2, hto, hcmp2, vm_src_position]
  rw [hop]
  refine ⟨?_, ?_⟩
  · intro h
    rw [if_neg h]
    simp only [← htl, ← htr, true_and]
  · intro h
    rw [if_pos h]
    rw [stack_push_eq dbg _ _ (by show vm.sp - 2 < VM_STACK_SIZE; omega)]
    simp
    omega

/-- C5 at a concrete input: the number 1.0 compared with the string "a". -/
theorem C5_compare_heterogeneous_witness :
    (object_compare false mem_example (object_make_number 0x3ff0000000000000) example_string
        true).2.1 = false
    ∧ (vm_op_compare false true natives_none
        (vm_example [object_make_number 0x3ff0000000000000, example_string])
        OPCODE_COMPARE).1 = false
    ∧ (vm_op_compare false true natives_none
        (vm_example [object_make_number 0x3ff0000000000000, example_string])
        OPCODE_COMPARE).2.errors
      = errors_add_errorf { errors := [] } ERROR_RUNTIME src_pos_invalid
          "Cannot compare NUMBER and STRING" := by
  have h := C5_compare_heterogeneous false true natives_none
    (vm_example [object_make_number 0x3ff0000000000000, example_string])
    (object_make_number 0x3ff0000000000000) example_string true
    (by decide) (by decide) (by decide) (by decide) (by decide) (by decide)
    (fun hc => absurd hc (by decide)) (fun hc => absurd hc (by decide))
  have hn : ¬ ((object_is_allocated (object_make_number 0x3ff0000000000000)
        ∨ object_is_null mem_example (object_make_number 0x3ff0000000000000))
      ∧ (object_is_allocated example_string ∨ object_is_null mem_example example_string)) := by
    decide
  exact ⟨h.1.mpr hn, (h.2.1 hn).1, (h.2.1 hn).2⟩

/-- Against claim C5: an Array and a Map have different types, not both among Number, Bool
and Null, yet `object_compare` sets its ok flag to true, and the COMPARE instruction pushes
a number without raising an error. -/
theorem C5_counterexample :
    object_get_type mem_example example_array = OBJECT_ARRAY
    ∧ object_get_type mem_example example_map = OBJECT_MAP
    ∧ (object_compare false mem_example example_array example_map false).2.1 = true
    ∧ (vm_op_compare false false natives_none (vm_example [example_array, example_map])
        OPCODE_COMPARE).1 = true
    ∧ (vm_op_compare false false natives_none (vm_example [example_array, example_map])
        OPCODE_COMPARE).2.errors = { errors := [] } := by
  decide


/-- Claim C9 fails on SET_INDEX.  The Array at 4224 is not hashable.  With the stack
holding the value 1.0, the empty Map at 4288 and that Array as index, the case
`OPCODE_SET_INDEX` does not go to `err` and records no error, and afterwards the Map has one
entry whose key is the Array.  The case `OPCODE_MAP_END` on the same key and value goes to
`err` with the Runtime error "Key of type ARRAY is not hashable". -/
theorem C9_set_index_unhashable_key :
    object_is_hashable mem_example example_array = false
    ∧ (vm_op_set_index false false
        (vm_example [object_make_number 0x3ff0000000000000, example_map, example_array])).1
        = true
    ∧ (vm_op_set_index false false
        (vm_example [object_make_number 0x3ff0000000000000, example_map, example_array])).2.errors
        = { errors := [] }
    ∧ object_get_map_length (vm_op_set_index false false
        (vm_example [object_make_number 0x3ff0000000000000, example_map, example_array])).2.mem
        example_map = 1
    ∧ object_get_map_key_at (vm_op_set_index false false
        (vm_example [object_make_number 0x3ff0000000000000, example_map, example_array])).2.mem
        example_map 0 = example_array
    ∧ (vm_op_map_end false false
        (vm_example_this [example_array, object_make_number 0x3ff0000000000000] [example_map])
        1).1 = false
    ∧ (vm_op_map_end false false
        (vm_example_this [example_array, object_make_number 0x3ff0000000000000] [example_map])
        1).2.errors
      = { errors := [{ type := ERROR_RUNTIME, message := "Key of type ARRAY is not hashable",
                       pos := src_pos_invalid, traceback := none }] } := by
  refine ⟨by decide, by decide, by decide, by decide, by decide, by decide, ?_⟩
  decide


theorem mem_frame_refl (F : Nat → Prop) (mem : gcmem_t) : mem_frame F mem mem :=
  ⟨rfl, fun _ => rfl, fun _ _ => rfl⟩

theorem mem_frame_trans (F : Nat → Prop) (mem mem2 mem3 : gcmem_t) (h1 : mem_frame F mem mem2)
    (h2 : mem_frame F mem2 mem3) : mem_frame F mem mem3 := by
  obtain ⟨a1, a2, a3⟩ := h1
  obtain ⟨b1, b2, b3⟩ := h2
  refine ⟨?_, fun q => (b2 q).trans (a2 q), fun q hq => (b3 q hq).trans (a3 q hq)⟩
  rw [b1, a1]

theorem mem_frame_mono (F G : Nat → Prop) (mem mem2 : gcmem_t) (hFG : ∀ q, F q → G q)
    (h : mem_frame F mem mem2) : mem_frame G mem mem2 :=
  ⟨h.1, h.2.1, fun q hq => h.2.2 q (fun hf => hq (hFG q hf))⟩

theorem mem_frame_type (F : Nat → Prop) (mem mem2 : gcmem_t) (h : mem_frame F mem mem2)
    (obj : object_t) : object_get_type mem2 obj = object_get_type mem obj := by
  unfold object_get_type
  rw [h.2.1]

theorem mem_frame_store (F : Nat → Prop) (mem : gcmem_t) (p : Nat) (d : object_data_t)
    (hF : F p) (ht : d.type = (mem.deref p).type) : mem_frame F mem (mem.store p d) := by
  refine ⟨rfl, ?_, ?_⟩
  · intro q
    by_cases hq : q = p
    · subst hq; rw [deref_store_same]; exact ht
    · rw [deref_store_other _ _ _ _ hq]
  · intro q hq
    have : q ≠ p := fun h => hq (h ▸ hF)
    rw [deref_store_other _ _ _ _ this]

theorem get_string_hash_frame (cs : Bool) (F : Nat → Prop) (mem : gcmem_t) (obj : object_t)
    (hF : F (object_get_allocated_data obj)) :
    mem_frame F mem (object_get_string_hash cs mem obj).2 := by
  rcases get_string_hash_snd cs mem obj with h | ⟨s, _, _, h⟩
  · rw [h]; exact mem_frame_refl F mem
  · rw [h]; exact mem_frame_store F mem _ _ hF rfl

theorem object_hash_frame (cs : Bool) (F : Nat → Prop) (mem : gcmem_t) (obj : object_t)
    (hF : object_get_type mem obj = OBJECT_STRING → F (object_get_allocated_data obj)) :
    mem_frame F mem (object_hash cs mem obj).2 := by
  unfold object_hash
  split
  · exact mem_frame_refl F mem
  · exact mem_frame_refl F mem
  · rename_i h; exact get_string_hash_frame cs F mem obj (hF h)
  · exact mem_frame_refl F mem

theorem object_compare_frame (cs : Bool) (F : Nat → Prop) (mem : gcmem_t) (a b : object_t)
    (ok : Bool)
    (ha : object_get_type mem a = OBJECT_STRING → F (object_get_allocated_data a))
    (hb : object_get_type mem b = OBJECT_STRING → F (object_get_allocated_data b)) :
    mem_frame F mem (object_compare cs mem a b ok).2.2 := by
  unfold object_compare
  simp only
  split
  · exact mem_frame_refl F mem
  · split
    · exact mem_frame_refl F mem
    · split
      · rename_i hs
        split
        · exact mem_frame_refl F mem
        · have h1 := get_string_hash_frame cs F mem a (ha hs.2)
          have h2 := get_string_hash_frame cs F (object_get_string_hash cs mem a).2 b
            (hb (hs.1 ▸ hs.2))
          have h12 := mem_frame_trans F _ _ _ h1 h2
          split <;> exact h12
      · split <;> exact mem_frame_refl F mem

theorem object_equals_frame (cs : Bool) (F : Nat → Prop) (mem : gcmem_t) (a b : object_t)
    (ha : object_get_type mem a = OBJECT_STRING → F (object_get_allocated_data a))
    (hb : object_get_type mem b = OBJECT_STRING → F (object_get_allocated_data b)) :
    mem_frame F mem (object_equals cs mem a b).2 := by
  unfold object_equals
  simp only
  split
  · exact mem_frame_refl F mem
  · exact object_compare_frame cs F mem a b false ha hb

theorem type_zero_handle (mem : gcmem_t) : object_get_type mem { handle := 0 } = OBJECT_NUMBER := by
  have h : object_is_number { handle := 0 } = true := by decide
  simp [object_get_type, h]

theorem keys_in_frame (F G : Nat → Prop) (mem mem2 : gcmem_t) (d : valdict_t_)
    (h : mem_frame G mem mem2) : keys_in F mem d ↔ keys_in F mem2 d := by
  unfold keys_in
  constructor
  · intro hk k hm ht
    rw [mem_frame_type G mem mem2 h] at ht
    exact hk k hm ht
  · intro hk k hm ht
    rw [← mem_frame_type G mem mem2 h] at ht
    exact hk k hm ht

theorem keys_in_getD (F : Nat → Prop) (mem : gcmem_t) (d : valdict_t_) (hk : keys_in F mem d)
    (c : Nat) (ht : object_get_type mem (d.keys.getD c { handle := 0 }) = OBJECT_STRING) :
    F (object_get_allocated_data (d.keys.getD c { handle := 0 })) := by
  rcases getD_mem_or_default d.keys c { handle := 0 } with h | h
  · rw [h, type_zero_handle] at ht
    exact absurd ht (by decide)
  · exact hk _ h ht

theorem valdict_hash_key_frame (cs : Bool) (F : Nat → Prop) (mem : gcmem_t) (d : valdict_t_)
    (k : object_t)
    (hF : object_get_type mem k = OBJECT_STRING → F (object_get_allocated_data k)) :
    mem_frame F mem (valdict_hash_key cs mem d k).2 := by
  unfold valdict_hash_key
  split
  · exact object_hash_frame cs F mem k hF
  · exact mem_frame_refl F mem

theorem valdict_keys_are_equal_frame (cs : Bool) (F : Nat → Prop) (mem : gcmem_t)
    (d : valdict_t_) (a b : object_t)
    (ha : object_get_type mem a = OBJECT_STRING → F (object_get_allocated_data a))
    (hb : object_get_type mem b = OBJECT_STRING → F (object_get_allocated_data b)) :
    mem_frame F mem (valdict_keys_are_equal cs mem d a b).2 := by
  unfold valdict_keys_are_equal
  split
  · exact object_equals_frame cs F mem a b ha hb
  · exact mem_frame_refl F mem

theorem get_cell_ix_loop_frame (cs : Bool) (F : Nat → Prop) (d : valdict_t_) (k : object_t)
    (hash cell_ix : Nat) :
    ∀ (n i : Nat) (mem : gcmem_t),
      (object_get_type mem k = OBJECT_STRING → F (object_get_allocated_data k)) →
      keys_in F mem d →
      mem_frame F mem (valdict_get_cell_ix_loop cs d k hash cell_ix n i mem).2.2 := by
  intro n
  induction n with
  | zero => intro i mem _ _; exact mem_frame_refl F mem
  | succ n ih =>
    intro i mem hk hd
    unfold valdict_get_cell_ix_loop
    simp only
    split
    · exact mem_frame_refl F mem
    · split
      · exact ih _ _ hk hd
      · have he := valdict_keys_are_equal_frame cs F mem d k
          (d.keys.getD (d.cells.getD (((cell_ix + i) % 2 ^ 32) &&& u32_pred d.cell_capacity)
            VALDICT_INVALID_IX) { handle := 0 }) hk (keys_in_getD F mem d hd _)
        split
        · exact he
        · refine mem_frame_trans F _ _ _ he (ih _ _ ?_ ?_)
          · rw [mem_frame_type F _ _ he]; exact hk
          · exact (keys_in_frame F F _ _ d he).mp hd

theorem valdict_get_cell_ix_frame (cs : Bool) (F : Nat → Prop) (mem : gcmem_t) (d : valdict_t_)
    (k : object_t) (hash : Nat)
    (hk : object_get_type mem k = OBJECT_STRING → F (object_get_allocated_data k))
    (hd : keys_in F mem d) :
    mem_frame F mem (valdict_get_cell_ix cs mem d k hash).2.2 := by
  unfold valdict_get_cell_ix
  exact get_cell_ix_loop_frame cs F d k hash _ _ _ mem hk hd

theorem valdict_get_frame (cs : Bool) (F : Nat → Prop) (mem : gcmem_t) (d : valdict_t_)
    (k : object_t)
    (hk : object_get_type mem k = OBJECT_STRING → F (object_get_allocated_data k))
    (hd : keys_in F mem d) :
    mem_frame F mem (valdict_get cs mem d k).2 := by
  have h1 := valdict_hash_key_frame cs F mem d k hk
  have h2 := valdict_get_cell_ix_frame cs F (valdict_hash_key cs mem d k).2 d k
    (valdict_hash_key cs mem d k).1 (by rw [mem_frame_type F _ _ h1]; exact hk)
    ((keys_in_frame F F _ _ d h1).mp hd)
  have h := mem_frame_trans F _ _ _ h1 h2
  unfold valdict_get
  simp only
  split <;> exact h

theorem valdict_append_keys (d : valdict_t_) (c : Nat) (k v : object_t) (hash : Nat) :
    (valdict_append d c k v hash).keys = d.keys.set d.count k
    ∨ (valdict_append d c k v hash).keys = d.keys := by
  unfold valdict_append valdict_set_key_at valdict_set_value_at
  simp only
  by_cases h : (d.count + 1) % 2 ^ 32 ≤ d.count
  · right; simp only [ge_iff_le, h, if_true]
  · left; simp only [ge_iff_le, h, if_false]

theorem keys_in_append (F : Nat → Prop) (mem : gcmem_t) (d : valdict_t_) (c : Nat)
    (k v : object_t) (hash : Nat)
    (hk : object_get_type mem k = OBJECT_STRING → F (object_get_allocated_data k))
    (hd : keys_in F mem d) : keys_in F mem (valdict_append d c k v hash) := by
  intro x hx ht
  rcases valdict_append_keys d c k v hash with h | h
  · rw [h] at hx
    rcases mem_set_cases _ _ _ _ hx with hx | hx
    · subst hx; exact hk ht
    · exact hd x hx ht
  · rw [h] at hx
    exact hd x hx ht

theorem keys_in_init (F : Nat → Prop) (mem : gcmem_t) (cap : Nat) (e : Option collections_equals_fn)
    (hf : Option collections_hash_fn) :
    keys_in F mem { valdict_init cap with _keys_equals := e, _hash_key := hf } := by
  intro x hx ht
  have : x = { handle := 0 } := List.eq_of_mem_replicate hx
  rw [this, type_zero_handle] at ht
  exact absurd ht (by decide)

theorem rehash_loop_frame (F : Nat → Prop)
    (set : gcmem_t → valdict_t_ → object_t → object_t → Bool × valdict_t_ × gcmem_t)
    (hset : ∀ (mem : gcmem_t) (d : valdict_t_) (k v : object_t),
      (object_get_type mem k = OBJECT_STRING → F (object_get_allocated_data k)) →
      keys_in F mem d →
      mem_frame F mem (set mem d k v).2.2 ∧ keys_in F mem (set mem d k v).2.1)
    (D : valdict_t_) :
    ∀ (n i : Nat) (N : valdict_t_) (mem : gcmem_t), keys_in F mem D → keys_in F mem N →
      mem_frame F mem (valdict_rehash_loop set D n i N mem).2.2
      ∧ keys_in F mem (valdict_rehash_loop set D n i N mem).2.1 := by
  intro n
  induction n with
  | zero => intro i N mem _ hN; exact ⟨mem_frame_refl F mem, hN⟩
  | succ n ih =>
    intro i N mem hD hN
    unfold valdict_rehash_loop
    simp only
    have hs := hset mem N (D.keys.getD i { handle := 0 }) (D.values.getD i { handle := 0 })
      (keys_in_getD F mem D hD i) hN
    split
    · have h2 := ih (i + 1) (set mem N (D.keys.getD i { handle := 0 })
          (D.values.getD i { handle := 0 })).2.1 _
        ((keys_in_frame F F _ _ D hs.1).mp hD) ((keys_in_frame F F _ _ _ hs.1).mp hs.2)
      exact ⟨mem_frame_trans F _ _ _ hs.1 h2.1, (keys_in_frame F F _ _ _ hs.1).mpr h2.2⟩
    · exact hs

theorem grow_and_rehash_frame (F : Nat → Prop)
    (set : gcmem_t → valdict_t_ → object_t → object_t → Bool × valdict_t_ × gcmem_t)
    (hset : ∀ (mem : gcmem_t) (d : valdict_t_) (k v : object_t),
      (object_get_type mem k = OBJECT_STRING → F (object_get_allocated_data k)) →
      keys_in F mem d →
      mem_frame F mem (set mem d k v).2.2 ∧ keys_in F mem (set mem d k v).2.1)
    (mem : gcmem_t) (d : valdict_t_) (hd : keys_in F mem d) :
    mem_frame F mem (valdict_grow_and_rehash_with set mem d).2.2
    ∧ keys_in F mem (valdict_grow_and_rehash_with set mem d).2.1 := by
  unfold valdict_grow_and_rehash_with
  simp only
  generalize (if d.cell_capacity = 0 then DICT_INITIAL_SIZE else (d.cell_capacity * 2) % 2 ^ 32)
    = cap
  have hg := rehash_loop_frame F set hset d d.count 0
    { valdict_init cap with _keys_equals := d._keys_equals, _hash_key := d._hash_key }
    mem hd (keys_in_init F _ _ _ _)
  by_cases h : (valdict_rehash_loop set d d.count 0
      { valdict_init cap with _keys_equals := d._keys_equals, _hash_key := d._hash_key }
      mem).1 = true
  · rw [if_pos h]; exact hg
  · rw [if_neg h]; exact ⟨hg.1, hd⟩

theorem valdict_set_aux_frame (cs : Bool) (F : Nat → Prop) :
    ∀ (fuel : Nat) (mem : gcmem_t) (d : valdict_t_) (k v : object_t),
      (object_get_type mem k = OBJECT_STRING → F (object_get_allocated_data k)) →
      keys_in F mem d →
      mem_frame F mem (valdict_set_aux cs fuel mem d k v).2.2
      ∧ keys_in F mem (valdict_set_aux cs fuel mem d k v).2.1 := by
  intro fuel
  induction fuel with
  | zero => intro mem d k v _ hd; exact ⟨mem_frame_refl F mem, hd⟩
  | succ fuel ih =>
    intro mem d k v hk hd
    have h1 := valdict_hash_key_frame cs F mem d k hk
    have hk1 : object_get_type (valdict_hash_key cs mem d k).2 k = OBJECT_STRING →
        F (object_get_allocated_data k) := by rw [mem_frame_type F _ _ h1]; exact hk
    have h2 := valdict_get_cell_ix_frame cs F (valdict_hash_key cs mem d k).2 d k
      (valdict_hash_key cs mem d k).1 hk1 ((keys_in_frame F F _ _ d h1).mp hd)
    have h12 := mem_frame_trans F _ _ _ h1 h2
    have hg := grow_and_rehash_frame F (valdict_set_aux cs fuel) ih
      (valdict_get_cell_ix cs (valdict_hash_key cs mem d k).2 d k
        (valdict_hash_key cs mem d k).1).2.2 d ((keys_in_frame F F _ _ d h12).mp hd)
    have hg1 := mem_frame_trans F _ _ _ h12 hg.1
    have hgk := (keys_in_frame F F _ _ _ h12).mpr hg.2
    unfold valdict_set_aux
    simp only
    by_cases hf : (valdict_get_cell_ix cs (valdict_hash_key cs mem d k).2 d k
        (valdict_hash_key cs mem d k).1).2.1 = true
    · rw [if_pos hf]
      refine ⟨h12, ?_⟩
      unfold valdict_set_value_at
      split <;> exact hd
    · rw [if_neg hf]
      by_cases hc : d.count ≥ d.item_capacity
      · rw [if_pos hc]
        by_cases hgr : (valdict_grow_and_rehash_with (valdict_set_aux cs fuel)
            (valdict_get_cell_ix cs (valdict_hash_key cs mem d k).2 d k
              (valdict_hash_key cs mem d k).1).2.2 d).1 = true
        · rw [if_pos hgr]
          have hk3 : object_get_type (valdict_grow_and_rehash_with (valdict_set_aux cs fuel)
              (valdict_get_cell_ix cs (valdict_hash_key cs mem d k).2 d k
                (valdict_hash_key cs mem d k).1).2.2 d).2.2 k = OBJECT_STRING →
              F (object_get_allocated_data k) := by
            rw [mem_frame_type F _ _ hg1]; exact hk
          have h3 := valdict_get_cell_ix_frame cs F _ _ k (valdict_hash_key cs mem d k).1 hk3
            ((keys_in_frame F F _ _ _ hg.1).mp hg.2)
          exact ⟨mem_frame_trans F _ _ _ hg1 h3, keys_in_append F mem _ _ k v _ hk hgk⟩
        · rw [if_neg hgr]
          exact ⟨hg1, hgk⟩
      · rw [if_neg hc]
        exact ⟨h12, keys_in_append F mem d _ k v _ hk hd⟩

theorem valdict_set_frame (cs : Bool) (F : Nat → Prop) (mem : gcmem_t) (d : valdict_t_)
    (k v : object_t)
    (hk : object_get_type mem k = OBJECT_STRING → F (object_get_allocated_data k))
    (hd : keys_in F mem d) :
    mem_frame F mem (valdict_set cs mem d k v).2.2
    ∧ keys_in F mem (valdict_set cs mem d k v).2.1 :=
  valdict_set_aux_frame cs F _ mem d k v hk hd


theorem heap_le_refl (mem : gcmem_t) : heap_le mem mem := fun _ h => ⟨h, rfl⟩

theorem heap_le_trans (mem mem2 mem3 : gcmem_t) (h1 : heap_le mem mem2) (h2 : heap_le mem2 mem3) :
    heap_le mem mem3 := by
  intro q hq
  obtain ⟨a1, a2⟩ := h1 q hq
  obtain ⟨b1, b2⟩ := h2 q a1
  exact ⟨b1, b2.trans a2⟩

theorem heap_live_frame (F : Nat → Prop) (mem mem2 : gcmem_t) (h : mem_frame F mem mem2)
    (q : Nat) : heap_live mem2 q ↔ heap_live mem q := by
  rw [h.1]
  exact Iff.rfl

theorem heap_le_of_frame (F : Nat → Prop) (mem mem2 : gcmem_t) (h : mem_frame F mem mem2) :
    heap_le mem mem2 :=
  fun q hq => ⟨(heap_live_frame F mem mem2 h q).mpr hq, h.2.1 q⟩

theorem keys_in_true (mem : gcmem_t) (d : valdict_t_) : keys_in (fun _ => True) mem d :=
  fun _ _ _ => trivial

/-- A store that keeps the type of the body is a write within any footprint holding its
address. -/
theorem mem_frame_store_payload (F : Nat → Prop) (mem : gcmem_t) (p : Nat) (x : object_payload)
    (hF : F p) : mem_frame F mem (mem.store p { mem.deref p with payload := x }) :=
  mem_frame_store F mem p _ hF rfl

theorem object_set_map_value_frame (cs : Bool) (F : Nat → Prop) (mem : gcmem_t)
    (m k v : object_t) (hm : F (object_get_allocated_data m))
    (hk : object_get_type mem k = OBJECT_STRING → F (object_get_allocated_data k))
    (hd : keys_in F mem (mem.deref (object_get_allocated_data m)).map) :
    mem_frame F mem (object_set_map_value cs mem m k v).2 := by
  have h := (valdict_set_frame cs F mem _ k v hk hd).1
  unfold object_set_map_value gcmem_t.store_map
  simp only
  exact mem_frame_trans F _ _ _ h (mem_frame_store_payload F _ _ _ hm)

theorem object_add_array_value_frame (F : Nat → Prop) (mem : gcmem_t) (a v : object_t)
    (ha : F (object_get_allocated_data a)) :
    mem_frame F mem (object_add_array_value mem a v).2 := by
  unfold object_add_array_value gcmem_t.store_array
  exact mem_frame_store_payload F _ _ _ ha

theorem object_set_function_free_val_frame (F : Nat → Prop) (mem : gcmem_t) (f : object_t)
    (ix : Int) (v : object_t) (hf : F (object_get_allocated_data f)) :
    mem_frame F mem (object_set_function_free_val mem f ix v) := by
  unfold object_set_function_free_val gcmem_t.store_function
  simp only
  split
  · exact mem_frame_refl F mem
  · exact mem_frame_store_payload F _ _ _ hf

theorem object_string_append_frame (F : Nat → Prop) (mem : gcmem_t) (s : object_t)
    (src : List Nat) (len : Int) (hs : F (object_get_allocated_data s)) :
    mem_frame F mem (object_string_append mem s src len).2 := by
  unfold object_string_append gcmem_t.store_string
  simp only
  split
  · exact mem_frame_refl F mem
  · exact mem_frame_store_payload F _ _ _ hs

theorem alloc_step_le (mem mem2 : gcmem_t) (p : Nat) (h : alloc_step mem mem2 p) :
    heap_le mem mem2 := by
  intro q hq
  refine ⟨h.2.2.1 q hq, ?_⟩
  have : q ≠ p := fun hc => h.1 (hc ▸ hq)
  rw [h.2.2.2 q this]

theorem getLastD_mem (l : List Nat) (h : l.length > 0) : l.getLastD 0 ∈ l := by
  cases l with
  | nil => simp at h
  | cons a t =>
    have h2 : (a :: t).getLastD 0 = (a :: t).getLast (by simp) := by
      simp [List.getLastD_eq_getLast?, List.getLast?_eq_getLast]
    rw [h2]
    exact List.getLast_mem _

theorem not_mem_dropLast (l : List Nat) (q : Nat) (h : q ∉ l) : q ∉ l.dropLast :=
  fun hc => h (List.dropLast_subset l hc)

theorem gcmem_alloc_object_data_step (mem : gcmem_t) (type : object_type_t) :
    alloc_step mem (gcmem_alloc_object_data mem type).2 (gcmem_alloc_object_data mem type).1
    ∧ (gcmem_alloc_object_data mem type).2.deref (gcmem_alloc_object_data mem type).1
      = { object_data_zero with type := type } := by
  unfold gcmem_alloc_object_data
  simp only
  by_cases hp : mem.data_only_pool.length > 0
  · simp only [hp, if_true]
    have hmem := getLastD_mem mem.data_only_pool hp
    generalize mem.data_only_pool.getLastD 0 = a at hmem ⊢
    refine ⟨⟨?_, ?_, ?_, ?_⟩, ?_⟩
    · intro hl; exact hl.2.1 hmem
    · intro hw
      have := hw.2.1 _ hmem
      have := hw.1
      omega
    · intro q hq
      exact ⟨hq.1, not_mem_dropLast _ _ hq.2.1, hq.2.2.1, hq.2.2.2.1, hq.2.2.2.2⟩
    · intro q hq
      simp [gcmem_t.deref, gcmem_t.store, hq]
    · simp [gcmem_t.deref, gcmem_t.store, object_data_zero]
  · simp only [hp, if_false]
    refine ⟨⟨?_, ?_, ?_, ?_⟩, ?_⟩
    · intro hl; exact absurd hl.1 (lt_irrefl _)
    · intro hw
      have := hw.1
      simp only [OBJECT_DATA_SIZE] at this
      omega
    · intro q hq
      refine ⟨?_, hq.2.1, hq.2.2.1, hq.2.2.2.1, hq.2.2.2.2⟩
      have := hq.1
      show q < mem.next_addr + OBJECT_DATA_SIZE
      omega
    · intro q hq
      simp [gcmem_t.deref, gcmem_t.store, hq]
    · simp [gcmem_t.deref, gcmem_t.store, object_data_zero]

theorem mem_of_getLast_eq (l : List Nat) (x : Nat) (h : l.getLast? = some x) : x ∈ l :=
  List.mem_of_getLast?_eq_some h

theorem from_pool_none (mem : gcmem_t) (type : object_type_t)
    (h : (gcmem_get_object_data_from_pool mem type).1 = none) :
    (gcmem_get_object_data_from_pool mem type).2 = mem := by
  unfold gcmem_get_object_data_from_pool at h ⊢
  split at h
  · rename_i h1; simp only [h1]
  · rename_i pool h1
    simp only [h1] at h ⊢
    split at h
    · rename_i h2; simp only [h2]
    · simp at h

theorem from_pool_some (mem : gcmem_t) (type : object_type_t) (p : Nat)
    (h : (gcmem_get_object_data_from_pool mem type).1 = some p) :
    alloc_step mem (gcmem_get_object_data_from_pool mem type).2 p
    ∧ ∀ q, (gcmem_get_object_data_from_pool mem type).2.deref q = mem.deref q := by
  unfold gcmem_get_object_data_from_pool at h ⊢
  cases type <;> simp only [get_pool_for_type] at h ⊢ <;> try (exact absurd h (by simp))
  all_goals
    split at h
    · exact absurd h (by simp)
    · rename_i x hx
      simp only [hx]
      have hpx : x = p := Option.some.inj h
      subst hpx
      have hm := mem_of_getLast_eq _ _ hx
      refine ⟨⟨?_, ?_, ?_, fun q _ => rfl⟩, fun q => rfl⟩
      · intro hl
        first
          | exact hl.2.2.1 hm
          | exact hl.2.2.2.1 hm
          | exact hl.2.2.2.2 hm
      · intro hw
        have h1 := hw.1
        first
          | exact lt_of_lt_of_le (hw.2.2.1 _ hm) (by omega)
          | exact lt_of_lt_of_le (hw.2.2.2.1 _ hm) (by omega)
          | exact lt_of_lt_of_le (hw.2.2.2.2 _ hm) (by omega)
      · intro q hq
        simp only [pool_pop]
        first
          | exact ⟨hq.1, hq.2.1, not_mem_dropLast _ _ hq.2.2.1, hq.2.2.2.1, hq.2.2.2.2⟩
          | exact ⟨hq.1, hq.2.1, hq.2.2.1, not_mem_dropLast _ _ hq.2.2.2.1, hq.2.2.2.2⟩
          | exact ⟨hq.1, hq.2.1, hq.2.2.1, hq.2.2.2.1, not_mem_dropLast _ _ hq.2.2.2.2⟩

theorem alloc_step_store (mem mem2 : gcmem_t) (p : Nat) (d : object_data_t)
    (h : alloc_step mem mem2 p) : alloc_step mem (mem2.store p d) p := by
  refine ⟨h.1, h.2.1, h.2.2.1, ?_⟩
  intro q hq
  rw [deref_store_other _ _ _ _ hq]
  exact h.2.2.2 q hq

theorem object_make_array_spec (mem : gcmem_t) (capacity : Nat) :
    ∃ p, (object_make_array_with_capacity mem capacity).1 = object_make_from_data OBJECT_ARRAY p
      ∧ alloc_step mem (object_make_array_with_capacity mem capacity).2 p
      ∧ ((object_make_array_with_capacity mem capacity).2.deref p).array.items = [] := by
  unfold object_make_array_with_capacity
  simp only
  cases h : (gcmem_get_object_data_from_pool mem OBJECT_ARRAY).1 with
  | some data =>
    simp only
    refine ⟨data, rfl, alloc_step_store _ _ _ _ (from_pool_some mem _ _ h).1, ?_⟩
    simp [gcmem_t.store_array, deref_store_same, object_data_t.array, array_clear]
  | none =>
    simp only
    rw [from_pool_none mem _ h]
    refine ⟨_, rfl, alloc_step_store _ _ _ _ (gcmem_alloc_object_data_step mem _).1, ?_⟩
    simp [gcmem_t.store_array, deref_store_same, object_data_t.array, array_make_with_capacity]

theorem object_make_map_spec (mem : gcmem_t) (capacity : Nat) :
    ∃ p, (object_make_map_with_capacity mem capacity).1 = object_make_from_data OBJECT_MAP p
      ∧ alloc_step mem (object_make_map_with_capacity mem capacity).2 p
      ∧ ((object_make_map_with_capacity mem capacity).2.deref p).map.count = 0 := by
  unfold object_make_map_with_capacity
  simp only
  cases h : (gcmem_get_object_data_from_pool mem OBJECT_MAP).1 with
  | some data =>
    simp only
    refine ⟨data, rfl, alloc_step_store _ _ _ _ (from_pool_some mem _ _ h).1, ?_⟩
    simp [gcmem_t.store_map, deref_store_same, object_data_t.map, valdict_clear]
  | none =>
    simp only
    rw [from_pool_none mem _ h]
    refine ⟨_, rfl, alloc_step_store _ _ _ _ (gcmem_alloc_object_data_step mem _).1, ?_⟩
    simp [gcmem_t.store_map, deref_store_same, object_data_t.map, valdict_make_with_capacity,
      valdict_init, valdict_set_hash_function, valdict_set_equals_function]

theorem object_make_function_spec (mem : gcmem_t) (name : String)
    (comp_res : compilation_result_t) (owns_data : Bool) (num_locals num_args fvc : Int) :
    ∃ p, (object_make_function mem name comp_res owns_data num_locals num_args fvc).1
        = object_make_from_data OBJECT_FUNCTION p
      ∧ alloc_step mem
          (object_make_function mem name comp_res owns_data num_locals num_args fvc).2 p := by
  unfold object_make_function
  simp only
  exact ⟨_, rfl, alloc_step_store _ _ _ _ (gcmem_alloc_object_data_step mem _).1⟩

theorem object_make_external_spec (mem : gcmem_t) (data : Nat) :
    ∃ p, (object_make_external mem data).1 = object_make_from_data OBJECT_EXTERNAL p
      ∧ alloc_step mem (object_make_external mem data).2 p := by
  unfold object_make_external
  simp only
  exact ⟨_, rfl, alloc_step_store _ _ _ _ (gcmem_alloc_object_data_step mem _).1⟩


theorem from_data_addr (type : object_type_t) (p : Nat)
    (hk : is_allocated_kind type = true) (hp : p < 2 ^ 48) :
    object_get_allocated_data (object_make_from_data type p) = p := by
  simp only [object_get_allocated_data, allocated_handle type p hk hp]
  have h2 : not64 OBJECT_HEADER_MASK = 2 ^ 48 - 1 := by decide
  rw [h2, Nat.and_pow_two_sub_one_eq_mod]
  simp only [OBJECT_ALLOCATED_HEADER]
  omega

theorem from_data_allocated (type : object_type_t) (p : Nat)
    (hk : is_allocated_kind type = true) (hp : p < 2 ^ 48) :
    object_is_allocated (object_make_from_data type p) = true := by
  have hor : OBJECT_ALLOCATED_HEADER + p = OBJECT_ALLOCATED_HEADER ||| p := by
    have h1 : OBJECT_ALLOCATED_HEADER = 2 ^ 48 * 0xfffc := by decide
    rw [h1, Nat.mul_add_lt_is_or hp]
  simp only [object_is_allocated, allocated_handle type p hk hp, hor, and_or_self_left,
    decide_True]

theorem from_data_type (mem : gcmem_t) (type : object_type_t) (p : Nat)
    (hk : is_allocated_kind type = true) (hp : p < 2 ^ 48) :
    object_get_type mem (object_make_from_data type p) = (mem.deref p).type := by
  have hh := allocated_handle type p hk hp
  have hor : OBJECT_ALLOCATED_HEADER + p = OBJECT_ALLOCATED_HEADER ||| p := by
    have h1 : OBJECT_ALLOCATED_HEADER = 2 ^ 48 * 0xfffc := by decide
    rw [h1, Nat.mul_add_lt_is_or hp]
  have hnum : object_is_number (object_make_from_data type p) = false := by
    simp only [object_is_number, hh, hor]
    have h3 : OBJECT_PATTERN = OBJECT_ALLOCATED_HEADER &&& OBJECT_PATTERN := by decide
    have h4 : (OBJECT_ALLOCATED_HEADER ||| p) &&& OBJECT_PATTERN = OBJECT_PATTERN := by
      conv_lhs => rw [h3, ← Nat.and_assoc, and_or_self_left]
      exact h3.symm
    simp [h4]
  have htag : ((object_make_from_data type p).handle >>> 48) &&& 0x7 = 4 := by
    rw [hh, Nat.shiftRight_eq_div_pow]
    have : (OBJECT_ALLOCATED_HEADER + p) / 2 ^ 48 = 0xfffc := by
      simp only [OBJECT_ALLOCATED_HEADER]; omega
    rw [this]; decide
  have ha := from_data_addr type p hk hp
  simp [object_get_type, hnum, htag, ha]

theorem and_shl (x c k : Nat) : x &&& (c <<< k) = ((x >>> k) &&& c) <<< k := by
  apply Nat.eq_of_testBit_eq
  intro i
  simp only [Nat.testBit_and, Nat.testBit_shiftLeft, Nat.testBit_shiftRight]
  by_cases h : k ≤ i
  · have e : k + (i - k) = i := by omega
    simp [h, e]
  · simp [h]

/-- A value whose type is that of an object body carries the allocated header. -/
theorem allocated_of_type (mem : gcmem_t) (obj : object_t)
    (h : is_allocated_kind (object_get_type mem obj) = true) : object_is_allocated obj = true := by
  unfold object_get_type at h
  by_cases hn : object_is_number obj = true
  · rw [if_pos hn] at h; exact absurd h (by decide)
  · rw [if_neg hn] at h
    simp only at h
    by_cases h0 : obj.handle >>> 48 &&& 0x7 = 0
    · rw [if_pos h0] at h; exact absurd h (by decide)
    · rw [if_neg h0] at h
      by_cases h1 : obj.handle >>> 48 &&& 0x7 = 1
      · rw [if_pos h1] at h; exact absurd h (by decide)
      · rw [if_neg h1] at h
        by_cases h2 : obj.handle >>> 48 &&& 0x7 = 2
        · rw [if_pos h2] at h; exact absurd h (by decide)
        · rw [if_neg h2] at h
          by_cases h4 : obj.handle >>> 48 &&& 0x7 = 4
          · simp only [object_is_number, decide_eq_true_eq, not_not, ne_eq] at hn
            simp only [object_is_allocated, decide_eq_true_eq]
            have e1 : OBJECT_ALLOCATED_HEADER = OBJECT_PATTERN ||| (4 <<< 48) := by decide
            have e2 : obj.handle >>> 48 &&& 4 = 4 := by
              have e3 : obj.handle >>> 48 &&& 4 = obj.handle >>> 48 &&& (0x7 &&& 4) :=
                congrArg (fun t => obj.handle >>> 48 &&& t) (by decide : (4 : Nat) = 0x7 &&& 4)
              rw [e3, ← Nat.and_assoc, h4]
              decide
            rw [e1, Nat.and_or_distrib_left, hn, and_shl, e2]
          · rw [if_neg h4] at h; exact absurd h (by decide)


theorem frame_true_le (mem mem2 : gcmem_t) (h : mem_frame (fun _ => True) mem mem2) :
    heap_le mem mem2 := heap_le_of_frame _ mem mem2 h

theorem object_set_map_value_le (cs : Bool) (mem : gcmem_t) (m k v : object_t) :
    heap_le mem (object_set_map_value cs mem m k v).2 :=
  frame_true_le _ _ (object_set_map_value_frame cs _ mem m k v trivial (fun _ => trivial)
    (keys_in_true _ _))

theorem object_add_array_value_le (mem : gcmem_t) (a v : object_t) :
    heap_le mem (object_add_array_value mem a v).2 :=
  frame_true_le _ _ (object_add_array_value_frame _ mem a v trivial)

theorem valdict_set_le (cs : Bool) (mem : gcmem_t) (d : valdict_t_) (k v : object_t) :
    heap_le mem (valdict_set cs mem d k v).2.2 :=
  frame_true_le _ _ (valdict_set_frame cs _ mem d k v (fun _ => trivial) (keys_in_true _ _)).1

theorem valdict_get_le (cs : Bool) (mem : gcmem_t) (d : valdict_t_) (k : object_t) :
    heap_le mem (valdict_get cs mem d k).2 :=
  frame_true_le _ _ (valdict_get_frame cs _ mem d k (fun _ => trivial) (keys_in_true _ _))

theorem deep_copy_array_loop_le (rec : gcmem_t → object_t → valdict_t_ → Option deep_copy_result)
    (hrec : rec_le rec) (obj copy : object_t) :
    ∀ (n : Nat) (i : Int) (mem : gcmem_t) (copies : valdict_t_) (res : deep_copy_result),
      deep_copy_array_loop rec obj copy n i mem copies = some res → heap_le mem res.2.1 := by
  intro n
  induction n with
  | zero =>
    intro i mem copies res h
    simp only [deep_copy_array_loop, Option.some.injEq] at h
    rw [← h]; exact heap_le_refl mem
  | succ n ih =>
    intro i mem copies res h
    unfold deep_copy_array_loop at h
    simp only at h
    cases hr : rec mem (object_get_array_value_at mem obj i) copies with
    | none => rw [hr] at h; exact absurd h (by simp)
    | some r =>
      obtain ⟨item_copy, mem1, copies1⟩ := r
      rw [hr] at h
      simp only at h
      have h1 : heap_le mem mem1 := hrec _ _ _ _ hr
      split at h
      · simp only [Option.some.injEq] at h
        rw [← h]; exact h1
      · have h2 := object_add_array_value_le mem1 copy item_copy
        split at h
        · simp only [Option.some.injEq] at h
          rw [← h]; exact heap_le_trans _ _ _ h1 h2
        · exact heap_le_trans _ _ _ (heap_le_trans _ _ _ h1 h2) (ih _ _ _ _ h)

theorem deep_copy_map_loop_le (cs : Bool)
    (rec : gcmem_t → object_t → valdict_t_ → Option deep_copy_result)
    (hrec : rec_le rec) (obj copy : object_t) :
    ∀ (n i : Nat) (mem : gcmem_t) (copies : valdict_t_) (res : deep_copy_result),
      deep_copy_map_loop cs rec obj copy n i mem copies = some res → heap_le mem res.2.1 := by
  intro n
  induction n with
  | zero =>
    intro i mem copies res h
    simp only [deep_copy_map_loop] at h
    exact absurd h (by simp)
  | succ n ih =>
    intro i mem copies res h
    unfold deep_copy_map_loop at h
    simp only at h
    split at h
    · cases hr : rec mem (object_get_map_key_at mem obj i) copies with
      | none => rw [hr] at h; exact absurd h (by simp)
      | some r =>
        obtain ⟨key_copy, mem1, copies1⟩ := r
        rw [hr] at h
        simp only at h
        have h1 : heap_le mem mem1 := hrec _ _ _ _ hr
        split at h
        · simp only [Option.some.injEq] at h
          rw [← h]; exact h1
        · cases hr2 : rec mem1 (object_get_map_value_at mem obj i) copies1 with
          | none => rw [hr2] at h; exact absurd h (by simp)
          | some r2 =>
            obtain ⟨val_copy, mem2, copies2⟩ := r2
            rw [hr2] at h
            simp only at h
            have h2 : heap_le mem mem2 := heap_le_trans _ _ _ h1 (hrec _ _ _ _ hr2)
            split at h
            · simp only [Option.some.injEq] at h
              rw [← h]; exact h2
            · have h3 := object_set_map_value_le cs mem2 copy key_copy val_copy
              split at h
              · simp only [Option.some.injEq] at h
                rw [← h]; exact heap_le_trans _ _ _ h2 h3
              · exact heap_le_trans _ _ _ (heap_le_trans _ _ _ h2 h3) (ih _ _ _ _ h)
    · simp only [Option.some.injEq] at h
      rw [← h]; exact heap_le_refl mem

theorem object_set_function_free_val_le (mem : gcmem_t) (f : object_t) (ix : Int) (v : object_t) :
    heap_le mem (object_set_function_free_val mem f ix v) :=
  frame_true_le _ _ (object_set_function_free_val_frame _ mem f ix v trivial)

theorem deep_copy_free_vals_loop_le
    (rec : gcmem_t → object_t → valdict_t_ → Option deep_copy_result)
    (hrec : rec_le rec) (obj copy : object_t) :
    ∀ (n : Nat) (i : Int) (mem : gcmem_t) (copies : valdict_t_) (res : deep_copy_result),
      deep_copy_free_vals_loop rec obj copy n i mem copies = some res → heap_le mem res.2.1 := by
  intro n
  induction n with
  | zero =>
    intro i mem copies res h
    simp only [deep_copy_free_vals_loop] at h
    exact absurd h (by simp)
  | succ n ih =>
    intro i mem copies res h
    unfold deep_copy_free_vals_loop at h
    simp only at h
    split at h
    · cases hr : rec mem (object_get_function_free_val mem obj i) copies with
      | none => rw [hr] at h; exact absurd h (by simp)
      | some r =>
        obtain ⟨fv_copy, mem1, copies1⟩ := r
        rw [hr] at h
        simp only at h
        have h1 : heap_le mem mem1 := hrec _ _ _ _ hr
        split at h
        · simp only [Option.some.injEq] at h
          rw [← h]; exact h1
        · exact heap_le_trans _ _ _
            (heap_le_trans _ _ _ h1 (object_set_function_free_val_le mem1 copy i fv_copy))
            (ih _ _ _ _ h)
    · simp only [Option.some.injEq] at h
      rw [← h]; exact heap_le_refl mem

theorem store_le (mem : gcmem_t) (p : Nat) (x : object_payload) :
    heap_le mem (mem.store p { mem.deref p with payload := x }) :=
  frame_true_le _ _ (mem_frame_store_payload _ mem p x trivial)

theorem from_pool_le (mem : gcmem_t) (type : object_type_t) :
    heap_le mem (gcmem_get_object_data_from_pool mem type).2 := by
  cases h : (gcmem_get_object_data_from_pool mem type).1 with
  | none => rw [from_pool_none mem type h]; exact heap_le_refl mem
  | some p => exact alloc_step_le _ _ _ (from_pool_some mem type p h).1

theorem alloc_le (mem : gcmem_t) (type : object_type_t) :
    heap_le mem (gcmem_alloc_object_data mem type).2 :=
  alloc_step_le _ _ _ (gcmem_alloc_object_data_step mem type).1

theorem reserve_capacity_le (mem : gcmem_t) (data : Nat) (capacity : Int) :
    heap_le mem (object_data_string_reserve_capacity mem data capacity).2 := by
  unfold object_data_string_reserve_capacity gcmem_t.store_string
  simp only
  split
  · exact store_le _ _ _
  · split <;> exact store_le _ _ _

theorem object_string_prepare_le (mem : gcmem_t) (data : Nat) (capacity : Int) :
    heap_le mem (object_string_prepare mem data capacity).2 := by
  unfold object_string_prepare
  simp only
  have h1 : heap_le mem (mem.store_string data
      { (mem.deref data).string with length := 0, hash := 0 }) := store_le _ _ _
  split
  · have h2 := heap_le_trans _ _ _ h1 (reserve_capacity_le _ data capacity)
    split <;> exact h2
  · exact h1

theorem object_make_string_with_capacity_le (mem : gcmem_t) (capacity : Int) :
    heap_le mem (object_make_string_with_capacity mem capacity).2 := by
  unfold object_make_string_with_capacity
  have h0 := from_pool_le mem OBJECT_STRING
  dsimp only
  split
  · exact heap_le_trans _ _ _ h0 (object_string_prepare_le _ _ _)
  · have h1 := heap_le_trans _ _ _ h0 (alloc_le _ OBJECT_STRING)
    exact heap_le_trans _ _ _ (heap_le_trans _ _ _ h1 (store_le _ _ _))
      (object_string_prepare_le _ _ _)

theorem ite_snd_same {α β : Type} (c : Prop) [Decidable c] (x y : α) (m : β) :
    (if c then (x, m) else (y, m)).2 = m := by
  split <;> rfl

theorem object_string_append_le (mem : gcmem_t) (s : object_t) (src : List Nat) (len : Int) :
    heap_le mem (object_string_append mem s src len).2 :=
  frame_true_le mem _ (object_string_append_frame (fun _ => True) mem s src len trivial)

theorem object_make_string_le (mem : gcmem_t) (src : List Nat) :
    heap_le mem (object_make_string mem src).2 := by
  unfold object_make_string
  dsimp only
  have h1 := object_make_string_with_capacity_le mem (size_to_int (strlen src))
  by_cases hn : object_is_null (object_make_string_with_capacity mem (size_to_int (strlen src))).2
      (object_make_string_with_capacity mem (size_to_int (strlen src))).1 = true
  · rw [if_pos hn]; exact h1
  · rw [if_neg hn]
    have h2 := heap_le_trans _ _ _ h1 (object_string_append_le
      (object_make_string_with_capacity mem (size_to_int (strlen src))).2
      (object_make_string_with_capacity mem (size_to_int (strlen src))).1 src
      (size_to_int (strlen src)))
    rw [ite_snd_same]
    exact h2

theorem object_copy_array_loop_le (obj copy : object_t) :
    ∀ (n : Nat) (i : Int) (mem : gcmem_t),
      heap_le mem (object_copy_array_loop obj copy n i mem).2 := by
  intro n
  induction n with
  | zero => intro i mem; exact heap_le_refl mem
  | succ n ih =>
    intro i mem
    unfold object_copy_array_loop
    dsimp only
    have h1 := object_add_array_value_le mem copy (object_get_array_value_at mem obj i)
    split
    · exact h1
    · exact heap_le_trans _ _ _ h1 (ih _ _)

theorem object_copy_map_loop_le (cs : Bool) (obj copy : object_t) :
    ∀ (n i : Nat) (mem : gcmem_t) (res : object_t × gcmem_t),
      object_copy_map_loop cs obj copy n i mem = some res → heap_le mem res.2 := by
  intro n
  induction n with
  | zero => intro i mem res h; simp only [object_copy_map_loop] at h; exact absurd h (by simp)
  | succ n ih =>
    intro i mem res h
    unfold object_copy_map_loop at h
    dsimp only at h
    have h1 := object_set_map_value_le cs mem copy (object_get_map_key_at mem obj i)
      (object_get_map_value_at mem obj i)
    split at h
    · split at h
      · simp only [Option.some.injEq] at h
        rw [← h]; exact h1
      · exact heap_le_trans _ _ _ h1 (ih _ _ _ h)
    · simp only [Option.some.injEq] at h
      rw [← h]; exact heap_le_refl mem

theorem object_make_array_le (mem : gcmem_t) (capacity : Nat) :
    heap_le mem (object_make_array_with_capacity mem capacity).2 := by
  obtain ⟨p, _, h, _⟩ := object_make_array_spec mem capacity
  exact alloc_step_le _ _ _ h

theorem object_make_map_le (mem : gcmem_t) (capacity : Nat) :
    heap_le mem (object_make_map_with_capacity mem capacity).2 := by
  obtain ⟨p, _, h, _⟩ := object_make_map_spec mem capacity
  exact alloc_step_le _ _ _ h

theorem object_make_external_le (mem : gcmem_t) (data : Nat) :
    heap_le mem (object_make_external mem data).2 := by
  obtain ⟨p, _, h⟩ := object_make_external_spec mem data
  exact alloc_step_le _ _ _ h

theorem object_copy_le (cs : Bool) (host_copy : external_copy_t) (fuel : Nat) (mem : gcmem_t)
    (obj : object_t) (res : object_t × gcmem_t)
    (h : object_copy cs host_copy fuel mem obj = some res) : heap_le mem res.2 := by
  unfold object_copy at h
  split at h
  all_goals try (simp only [Option.some.injEq] at h; rw [← h]; exact heap_le_refl mem)
  · simp only [Option.some.injEq] at h
    rw [← h]; exact object_make_string_le _ _
  · dsimp only at h
    have h1 := object_make_array_le mem (object_get_array_length mem obj).toNat
    split at h
    · simp only [Option.some.injEq] at h
      rw [← h]; exact h1
    · simp only [Option.some.injEq] at h
      rw [← h]; exact heap_le_trans _ _ _ h1 (object_copy_array_loop_le _ _ _ _ _)
  · dsimp only at h
    exact heap_le_trans _ _ _ (object_make_map_le mem 32) (object_copy_map_loop_le cs _ _ _ _ _ _ h)
  · dsimp only at h
    have h1 := object_make_external_le mem 0
    split at h
    · simp only [Option.some.injEq] at h
      rw [← h]; exact h1
    · simp only [Option.some.injEq] at h
      rw [← h]
      exact heap_le_trans _ _ _ h1 (store_le _ _ _)

theorem object_make_function_le (mem : gcmem_t) (name : String)
    (comp_res : compilation_result_t) (owns_data : Bool) (num_locals num_args fvc : Int) :
    heap_le mem (object_make_function mem name comp_res owns_data num_locals num_args fvc).2 := by
  obtain ⟨p, _, h⟩ := object_make_function_spec mem name comp_res owns_data num_locals num_args fvc
  exact alloc_step_le _ _ _ h

/-- The memory that `object_deep_copy_internal` returns extends the memory it was given. -/
theorem deep_copy_internal_le (cs : Bool) (host_copy : external_copy_t) :
    ∀ fuel, rec_le (object_deep_copy_internal cs host_copy fuel) := by
  intro fuel
  induction fuel with
  | zero => intro mem obj copies res h; simp only [object_deep_copy_internal] at h; exact absurd h (by simp)
  | succ fuel ih =>
    intro mem obj copies res h
    unfold object_deep_copy_internal at h
    dsimp only at h
    have hg := valdict_get_le cs mem copies obj
    generalize valdict_get cs mem copies obj = g at h hg
    split at h
    · simp only [Option.some.injEq] at h
      rw [← h]; exact hg
    · split at h
      all_goals try (simp only [Option.some.injEq] at h; rw [← h]; exact hg)
      · -- string
        simp only [Option.some.injEq] at h
        rw [← h]; exact heap_le_trans _ _ _ hg (object_make_string_le _ _)
      · -- function
        have h1 := heap_le_trans _ _ _ hg (object_make_function_le g.2
          (object_get_function_name g.2 obj)
          { bytecode := (object_get_function g.2 obj).comp_result.bytecode.take
              (object_get_function g.2 obj).comp_result.count,
            src_positions := (object_get_function g.2 obj).comp_result.src_positions.take
                (object_get_function g.2 obj).comp_result.count,
            count := (object_get_function g.2 obj).comp_result.count }
          true (object_get_function g.2 obj).num_locals (object_get_function g.2 obj).num_args 0)
        generalize object_make_function _ _ _ _ _ _ _ = mk at h h1
        split at h
        · simp only [Option.some.injEq] at h
          rw [← h]; exact h1
        · have h2 := heap_le_trans _ _ _ h1 (valdict_set_le cs mk.2 copies obj mk.1)
          generalize valdict_set cs mk.2 copies obj mk.1 = st at h h2
          split at h
          · simp only [Option.some.injEq] at h
            rw [← h]; exact h2
          · have h3 := deep_copy_free_vals_loop_le _ ih _ _ _ _ _ _ _ h
            exact heap_le_trans _ _ _ (heap_le_trans _ _ _ h2 (store_le _ _ _)) h3
      · -- array
        have h1 := heap_le_trans _ _ _ hg (object_make_array_le g.2
          (object_get_array_length g.2 obj).toNat)
        generalize object_make_array_with_capacity _ _ = mk at h h1
        split at h
        · simp only [Option.some.injEq] at h
          rw [← h]; exact h1
        · have h2 := heap_le_trans _ _ _ h1 (valdict_set_le cs mk.2 copies obj mk.1)
          generalize valdict_set cs mk.2 copies obj mk.1 = st at h h2
          split at h
          · simp only [Option.some.injEq] at h
            rw [← h]; exact h2
          · exact heap_le_trans _ _ _ h2 (deep_copy_array_loop_le _ ih _ _ _ _ _ _ _ h)
      · -- map
        have h1 := heap_le_trans _ _ _ hg (object_make_map_le g.2 32)
        change heap_le mem (object_make_map g.2).2 at h1
        generalize object_make_map _ = mk at h h1
        split at h
        · simp only [Option.some.injEq] at h
          rw [← h]; exact h1
        · have h2 := heap_le_trans _ _ _ h1 (valdict_set_le cs mk.2 copies obj mk.1)
          generalize valdict_set cs mk.2 copies obj mk.1 = st at h h2
          split at h
          · simp only [Option.some.injEq] at h
            rw [← h]; exact h2
          · exact heap_le_trans _ _ _ h2 (deep_copy_map_loop_le cs _ ih _ _ _ _ _ _ _ h)
      · -- external
        split at h
        · exact absurd h (by simp)
        · rename_i r hr
          simp only [Option.some.injEq] at h
          rw [← h]
          exact heap_le_trans _ _ _ hg (object_copy_le cs host_copy fuel _ obj r hr)


theorem deep_copy_array_loop_fst (rec : gcmem_t → object_t → valdict_t_ → Option deep_copy_result)
    (obj copy : object_t) :
    ∀ (n : Nat) (i : Int) (mem : gcmem_t) (copies : valdict_t_) (res : deep_copy_result),
      deep_copy_array_loop rec obj copy n i mem copies = some res →
      res.1 = object_make_null ∨ res.1 = copy := by
  intro n
  induction n with
  | zero =>
    intro i mem copies res h
    simp only [deep_copy_array_loop, Option.some.injEq] at h
    rw [← h]; exact Or.inr rfl
  | succ n ih =>
    intro i mem copies res h
    unfold deep_copy_array_loop at h
    dsimp only at h
    split at h
    · exact absurd h (by simp)
    · split at h
      · simp only [Option.some.injEq] at h
        rw [← h]; exact Or.inl rfl
      · split at h
        · simp only [Option.some.injEq] at h
          rw [← h]; exact Or.inl rfl
        · exact ih _ _ _ _ h

theorem deep_copy_map_loop_fst (cs : Bool)
    (rec : gcmem_t → object_t → valdict_t_ → Option deep_copy_result) (obj copy : object_t) :
    ∀ (n i : Nat) (mem : gcmem_t) (copies : valdict_t_) (res : deep_copy_result),
      deep_copy_map_loop cs rec obj copy n i mem copies = some res →
      res.1 = object_make_null ∨ res.1 = copy := by
  intro n
  induction n with
  | zero =>
    intro i mem copies res h
    simp only [deep_copy_map_loop] at h
    exact absurd h (by simp)
  | succ n ih =>
    intro i mem copies res h
    unfold deep_copy_map_loop at h
    dsimp only at h
    split at h
    · split at h
      · exact absurd h (by simp)
      · split at h
        · simp only [Option.some.injEq] at h
          rw [← h]; exact Or.inl rfl
        · split at h
          · exact absurd h (by simp)
          · split at h
            · simp only [Option.some.injEq] at h
              rw [← h]; exact Or.inl rfl
            · split at h
              · simp only [Option.some.injEq] at h
                rw [← h]; exact Or.inl rfl
              · exact ih _ _ _ _ h
    · simp only [Option.some.injEq] at h
      rw [← h]; exact Or.inr rfl

theorem deep_copy_free_vals_loop_fst
    (rec : gcmem_t → object_t → valdict_t_ → Option deep_copy_result) (obj copy : object_t) :
    ∀ (n : Nat) (i : Int) (mem : gcmem_t) (copies : valdict_t_) (res : deep_copy_result),
      deep_copy_free_vals_loop rec obj copy n i mem copies = some res →
      res.1 = object_make_null ∨ res.1 = copy := by
  intro n
  induction n with
  | zero =>
    intro i mem copies res h
    simp only [deep_copy_free_vals_loop] at h
    exact absurd h (by simp)
  | succ n ih =>
    intro i mem copies res h
    unfold deep_copy_free_vals_loop at h
    dsimp only at h
    split at h
    · split at h
      · exact absurd h (by simp)
      · split at h
        · simp only [Option.some.injEq] at h
          rw [← h]; exact Or.inl rfl
        · exact ih _ _ _ _ h
    · simp only [Option.some.injEq] at h
      rw [← h]; exact Or.inr rfl

theorem type_congr_at (mem mem2 : gcmem_t) (obj : object_t)
    (h : (mem2.deref (object_get_allocated_data obj)).type
      = (mem.deref (object_get_allocated_data obj)).type) :
    object_get_type mem2 obj = object_get_type mem obj := by
  unfold object_get_type
  rw [h]

theorem getD_replicate_self {α : Type} (n i : Nat) (x : α) : (List.replicate n x).getD i x = x := by
  rcases getD_mem_or_default (List.replicate n x) i x with h | h
  · exact h
  · exact List.eq_of_mem_replicate h

/-- The dictionary `copies` is empty when `object_deep_copy` starts: no lookup finds
anything, and the memory is not touched. -/
theorem valdict_get_make (cs : Bool) (mem : gcmem_t) (k : object_t) :
    valdict_get cs mem valdict_make_ k = (none, mem) := by
  have hc : valdict_make_.cells = List.replicate valdict_make_.cell_capacity VALDICT_INVALID_IX := by
    rfl
  have hcap : valdict_make_.cell_capacity = 63 + 1 := by decide
  have hh : valdict_make_._hash_key = none := rfl
  unfold valdict_get valdict_get_cell_ix valdict_hash_key
  simp only [hh]
  rw [hcap]
  unfold valdict_get_cell_ix_loop
  simp only [hc, getD_replicate_self, if_true, Bool.false_eq_true, if_false]

/-- A value of the type of an array, a map or a function, in use in `mem`, is not
`object_equals` to null or to a value whose body was not in use in `mem`. -/
theorem equals_fresh_false (cs : Bool) (mem mem2 : gcmem_t) (v r : object_t) (hwf : heap_wf mem)
    (hle : heap_le mem mem2)
    (hty : object_get_type mem v = OBJECT_ARRAY ∨ object_get_type mem v = OBJECT_MAP
      ∨ object_get_type mem v = OBJECT_FUNCTION)
    (hlive : heap_live mem (object_get_allocated_data v))
    (hr : r = object_make_null ∨ ∃ (T : object_type_t) (p : Nat),
      r = object_make_from_data T p ∧ is_allocated_kind T = true ∧ ¬ heap_live mem p
        ∧ (heap_wf mem → p < 2 ^ 48)) :
    (object_equals cs mem2 r v).1 = false := by
  have hkind : is_allocated_kind (object_get_type mem v) = true := by
    rcases hty with h | h | h <;> rw [h] <;> decide
  have hav := allocated_of_type mem v hkind
  have htv : object_get_type mem2 v = object_get_type mem v :=
    type_congr_at mem mem2 v (hle _ hlive).2
  rw [object_equals_fst]
  by_cases hne : object_get_type mem2 r ≠ object_get_type mem2 v
  · rw [if_pos hne]
  · rw [if_neg hne]
    simp only [ne_eq, not_not] at hne
    rcases hr with hr | ⟨T, p, hr, hT, hnl, hp⟩
    · exfalso
      rw [hr, type_make_null, htv] at hne
      rw [← hne] at hkind
      exact absurd hkind (by decide)
    · have hp48 := hp hwf
      have har := from_data_allocated T p hT hp48
      have haddr := from_data_addr T p hT hp48
      have hpne : p ≠ object_get_allocated_data v := fun hc => hnl (hc ▸ hlive)
      have hh : r.handle ≠ v.handle := by
        intro hc
        apply hpne
        have : r = v := by cases r; cases v; simp only at hc; rw [hc]
        rw [← haddr, ← hr, this]
      have hnum : ¬ ((object_get_type mem2 r = OBJECT_NUMBER ∨ object_get_type mem2 r = OBJECT_BOOL
            ∨ object_get_type mem2 r = OBJECT_NULL)
          ∧ (object_get_type mem2 v = OBJECT_NUMBER ∨ object_get_type mem2 v = OBJECT_BOOL
            ∨ object_get_type mem2 v = OBJECT_NULL)) := by
        intro hc
        rw [htv] at hc
        rcases hty with h | h | h <;> rw [h] at hc <;> simp at hc
      have hstr : ¬ (object_get_type mem2 r = object_get_type mem2 v
          ∧ object_get_type mem2 r = OBJECT_STRING) := by
        intro hc
        rw [hc.1, htv] at hc
        rcases hty with h | h | h <;> rw [h] at hc <;> simp at hc
      unfold object_compare
      rw [if_neg hh]
      dsimp only
      rw [if_neg hnum, if_neg hstr, if_pos ⟨Or.inl (hr ▸ har), Or.inl hav⟩]
      dsimp only
      rw [dbleq_of_int, hr, haddr]
      simp only [decide_eq_false_iff_not]
      omega

/-- The copy that `object_deep_copy_internal` returns for an array, a map or a function not
yet in `copies` is null or a value whose body was not in use before. -/
theorem deep_copy_internal_fresh (cs : Bool) (host_copy : external_copy_t) (fuel : Nat)
    (mem : gcmem_t) (v : object_t) (res : deep_copy_result)
    (hty : object_get_type mem v = OBJECT_ARRAY ∨ object_get_type mem v = OBJECT_MAP
      ∨ object_get_type mem v = OBJECT_FUNCTION)
    (h : object_deep_copy_internal cs host_copy fuel mem v valdict_make_ = some res) :
    res.1 = object_make_null ∨ ∃ (T : object_type_t) (p : Nat),
      res.1 = object_make_from_data T p ∧ is_allocated_kind T = true ∧ ¬ heap_live mem p
        ∧ (heap_wf mem → p < 2 ^ 48) := by
  cases fuel with
  | zero => simp only [object_deep_copy_internal] at h; exact absurd h (by simp)
  | succ fuel =>
    unfold object_deep_copy_internal at h
    rw [valdict_get_make] at h
    dsimp only at h
    rcases hty with ht | ht | ht
    · -- array
      rw [ht] at h
      dsimp only at h
      obtain ⟨p, hp, hstep, _⟩ := object_make_array_spec mem (object_get_array_length mem v).toNat
      generalize object_make_array_with_capacity _ _ = mk at h hp hstep
      split at h
      · simp only [Option.some.injEq] at h
        rw [← h]; exact Or.inl rfl
      · generalize valdict_set cs mk.2 valdict_make_ v mk.1 = st at h
        split at h
        · simp only [Option.some.injEq] at h
          rw [← h]; exact Or.inl rfl
        · rcases deep_copy_array_loop_fst _ _ _ _ _ _ _ _ h with h1 | h1
          · exact Or.inl h1
          · exact Or.inr ⟨OBJECT_ARRAY, p, h1.trans hp, by decide, hstep.1, hstep.2.1⟩
    · -- map
      rw [ht] at h
      dsimp only at h
      obtain ⟨p, hp, hstep, _⟩ := object_make_map_spec mem 32
      change (object_make_map mem).1 = _ at hp
      change alloc_step mem (object_make_map mem).2 p at hstep
      generalize object_make_map _ = mk at h hp hstep
      split at h
      · simp only [Option.some.injEq] at h
        rw [← h]; exact Or.inl rfl
      · generalize valdict_set cs mk.2 valdict_make_ v mk.1 = st at h
        split at h
        · simp only [Option.some.injEq] at h
          rw [← h]; exact Or.inl rfl
        · rcases deep_copy_map_loop_fst cs _ _ _ _ _ _ _ _ h with h1 | h1
          · exact Or.inl h1
          · exact Or.inr ⟨OBJECT_MAP, p, h1.trans hp, by decide, hstep.1, hstep.2.1⟩
    · -- function
      rw [ht] at h
      dsimp only at h
      obtain ⟨p, hp, hstep⟩ := object_make_function_spec mem (object_get_function_name mem v)
        { bytecode := (object_get_function mem v).comp_result.bytecode.take
            (object_get_function mem v).comp_result.count,
          src_positions := (object_get_function mem v).comp_result.src_positions.take
            (object_get_function mem v).comp_result.count,
          count := (object_get_function mem v).comp_result.count }
        true (object_get_function mem v).num_locals (object_get_function mem v).num_args 0
      generalize object_make_function _ _ _ _ _ _ _ = mk at h hp hstep
      split at h
      · simp only [Option.some.injEq] at h
        rw [← h]; exact Or.inl rfl
      · generalize valdict_set cs mk.2 valdict_make_ v mk.1 = st at h
        split at h
        · simp only [Option.some.injEq] at h
          rw [← h]; exact Or.inl rfl
        · rcases deep_copy_free_vals_loop_fst _ _ _ _ _ _ _ _ h with h1 | h1
          · exact Or.inl h1
          · exact Or.inr ⟨OBJECT_FUNCTION, p, h1.trans hp, by decide, hstep.1, hstep.2.1⟩


theorem takeWhile_nonzero (bs rest : List Nat) (h : ∀ c ∈ bs, 0 < c ∧ c < 256) :
    (bs ++ 0 :: rest).takeWhile (fun c => decide (c ≠ 0)) = bs := by
  induction bs with
  | nil => simp
  | cons b bs ih =>
    have hb := (h b (List.mem_cons_self _ _)).1
    have hb' : b ≠ 0 := by omega
    simp only [List.cons_append, List.takeWhile_cons, hb', ne_eq, not_false_eq_true,
      decide_True, if_true]
    rw [ih (fun c hc => h c (List.mem_cons_of_mem _ hc))]

theorem strlen_wf (s : object_string_t) (h : string_wf s) : strlen s.value = s.length.toNat := by
  have hs := string_wf_split s h
  have hl := string_bytes_length s h
  unfold strlen
  rw [hs, takeWhile_nonzero _ _ h.2.2.2]
  have := h.1
  omega

theorem size_to_int_small (n : Nat) (h : n < 2 ^ 31) : size_to_int n = (n : Int) := by
  unfold size_to_int
  have h1 : ((n : Int) + 2 ^ 31) % 2 ^ 32 = (n : Int) + 2 ^ 31 := by
    apply Int.emod_eq_of_lt
    · omega
    · have : (n : Int) < 2 ^ 31 := by exact_mod_cast h
      omega
  rw [h1]
  omega

/-- What `object_string_prepare` leaves at `data`: an empty String with room for
`capacity` bytes. -/
theorem object_string_prepare_spec (mem : gcmem_t) (data : Nat) (capacity : Int)
    (s0 : object_string_t)
    (hp : (mem.deref data).payload = object_payload.string s0)
    (hcap : (OBJECT_STRING_BUF_SIZE : Int) - 1 ≤ s0.capacity)
    (hlen : s0.value.length = (s0.capacity + 1).toNat) :
    (object_string_prepare mem data capacity).1 = object_make_from_data OBJECT_STRING data
    ∧ (∀ q, q ≠ data → (object_string_prepare mem data capacity).2.deref q = mem.deref q)
    ∧ ((object_string_prepare mem data capacity).2.deref data).type = (mem.deref data).type
    ∧ ∃ s1, ((object_string_prepare mem data capacity).2.deref data).payload
        = object_payload.string s1
      ∧ s1.length = 0 ∧ s1.hash = 0 ∧ capacity ≤ s1.capacity
      ∧ s1.value.length = (s1.capacity + 1).toNat := by
  have hs0 : (mem.deref data).string = s0 := by simp only [object_data_t.string, hp]
  unfold object_string_prepare
  dsimp only
  have hd1 : ((mem.store_string data { (mem.deref data).string with length := 0, hash := 0 }).deref
      data).string = { s0 with length := 0, hash := 0 } := by
    rw [gcmem_t.store_string, deref_store_same, hs0]
    rfl
  rw [hd1]
  dsimp only
  by_cases hgt : capacity > s0.capacity
  · rw [if_pos hgt]
    unfold object_data_string_reserve_capacity
    dsimp only
    rw [hd1]
    dsimp only
    have h1 : ¬ capacity ≤ s0.capacity := by omega
    have h2 : ¬ capacity ≤ (OBJECT_STRING_BUF_SIZE : Int) - 1 := by omega
    rw [if_neg h1, if_neg h2]
    simp only [not_true_eq_false, if_false]
    refine ⟨trivial, ?_, ?_, ?_⟩
    · intro q hq
      simp only [gcmem_t.store_string, deref_store_other _ _ _ _ hq]
    · simp only [gcmem_t.store_string, deref_store_same]
    · refine ⟨⟨List.replicate (capacity + 1).toNat 0, 0, true, capacity, 0⟩, ?_, rfl, rfl,
        le_refl _, ?_⟩
      · simp only [gcmem_t.store_string, deref_store_same]
      · simp only [List.length_replicate]
  · rw [if_neg hgt]
    refine ⟨rfl, ?_, ?_, ?_⟩
    · intro q hq
      simp only [gcmem_t.store_string, deref_store_other _ _ _ _ hq]
    · simp only [gcmem_t.store_string, deref_store_same]
    · refine ⟨{ s0 with length := 0, hash := 0 }, ?_, rfl, rfl, ?_, hlen⟩
      · simp only [gcmem_t.store_string, deref_store_same, hs0]
      · dsimp only; omega

theorem alloc_step_then (mem m1 m2 : gcmem_t) (p : Nat) (h : alloc_step mem m1 p)
    (hle : heap_le m1 m2) (hoff : ∀ q, q ≠ p → m2.deref q = m1.deref q) :
    alloc_step mem m2 p :=
  ⟨h.1, h.2.1, fun q hq => (hle q (h.2.2.1 q hq)).1, fun q hq => (hoff q hq).trans (h.2.2.2 q hq)⟩

theorem from_pool_string_mem (mem : gcmem_t) (p : Nat)
    (h : (gcmem_get_object_data_from_pool mem OBJECT_STRING).1 = some p) : p ∈ mem.pool_string := by
  unfold gcmem_get_object_data_from_pool at h
  simp only [get_pool_for_type] at h
  split at h
  · exact absurd h (by simp)
  · rename_i x hx
    have hpx : x = p := Option.some.inj h
    subst hpx
    exact mem_of_getLast_eq _ _ hx

/-- What `object_make_string_with_capacity` returns: an empty String with room for
`capacity` bytes in a body that was not in use. -/
theorem object_make_string_with_capacity_spec (mem : gcmem_t) (capacity : Int)
    (hpool : string_pool_wf mem) :
    ∃ p s1, (object_make_string_with_capacity mem capacity).1
        = object_make_from_data OBJECT_STRING p
      ∧ alloc_step mem (object_make_string_with_capacity mem capacity).2 p
      ∧ ((object_make_string_with_capacity mem capacity).2.deref p).type = OBJECT_STRING
      ∧ ((object_make_string_with_capacity mem capacity).2.deref p).payload
        = object_payload.string s1
      ∧ s1.length = 0 ∧ s1.hash = 0 ∧ capacity ≤ s1.capacity
      ∧ s1.value.length = (s1.capacity + 1).toNat := by
  unfold object_make_string_with_capacity
  dsimp only
  cases h : (gcmem_get_object_data_from_pool mem OBJECT_STRING).1 with
  | some data =>
    dsimp only
    obtain ⟨hstep, hsame⟩ := from_pool_some mem OBJECT_STRING data h
    obtain ⟨hT, s0, hp0, hc0, hl0⟩ := hpool data (from_pool_string_mem mem data h)
    rw [← hsame] at hT hp0
    obtain ⟨e1, e2, e3, s1, e4, e5, e6, e7, e8⟩ := object_string_prepare_spec
      (gcmem_get_object_data_from_pool mem OBJECT_STRING).2 data capacity s0 hp0 hc0 hl0
    exact ⟨data, s1, e1, alloc_step_then _ _ _ _ hstep (object_string_prepare_le _ _ _) e2,
      e3.trans hT, e4, e5, e6, e7, e8⟩
  | none =>
    dsimp only
    rw [from_pool_none mem _ h]
    obtain ⟨hstep, hz⟩ := gcmem_alloc_object_data_step mem OBJECT_STRING
    generalize gcmem_alloc_object_data mem OBJECT_STRING = a at hstep hz ⊢
    have hp0 : ((a.2.store_string a.1 { string_zero with
        capacity := (OBJECT_STRING_BUF_SIZE : Int) - 1, is_allocated := false }).deref a.1).payload
        = object_payload.string { string_zero with
          capacity := (OBJECT_STRING_BUF_SIZE : Int) - 1, is_allocated := false } := by
      rw [gcmem_t.store_string, deref_store_same]
    have hT : ((a.2.store_string a.1 { string_zero with
        capacity := (OBJECT_STRING_BUF_SIZE : Int) - 1, is_allocated := false }).deref a.1).type
        = OBJECT_STRING := by
      rw [gcmem_t.store_string, deref_store_same, hz]
    obtain ⟨e1, e2, e3, s1, e4, e5, e6, e7, e8⟩ := object_string_prepare_spec _ a.1 capacity _ hp0
      (le_refl _) (by decide)
    refine ⟨a.1, s1, e1, ?_, e3.trans hT, e4, e5, e6, e7, e8⟩
    apply alloc_step_then mem _ _ a.1 (alloc_step_store _ _ _ _ hstep)
      (object_string_prepare_le _ _ _) e2

/-- What `object_make_string` returns for the buffer of a well-formed String `sv`: a String
with the same bytes and no cached hash, in a body that was not in use. -/
theorem object_make_string_spec (mem : gcmem_t) (sv : object_string_t) (hwf : heap_wf mem)
    (hpool : string_pool_wf mem) (hsv : string_wf sv) (hl : sv.length < 2 ^ 31) :
    ∃ p s2, (object_make_string mem sv.value).1 = object_make_from_data OBJECT_STRING p
      ∧ alloc_step mem (object_make_string mem sv.value).2 p
      ∧ ((object_make_string mem sv.value).2.deref p).type = OBJECT_STRING
      ∧ ((object_make_string mem sv.value).2.deref p).payload = object_payload.string s2
      ∧ string_wf s2 ∧ s2.hash = 0 ∧ s2.length = sv.length
      ∧ string_bytes s2 = string_bytes sv := by
  have h0 := hsv.1
  have hlen : size_to_int (strlen sv.value) = sv.length := by
    rw [strlen_wf sv hsv, size_to_int_small _ (by omega)]
    omega
  unfold object_make_string
  dsimp only
  rw [hlen]
  obtain ⟨p, s1, e1, hstep, eT, eP, eL, eH, eC, eV⟩ :=
    object_make_string_with_capacity_spec mem sv.length hpool
  generalize object_make_string_with_capacity mem sv.length = r at e1 hstep eT eP ⊢
  have hp48 := hstep.2.1 hwf
  have hnn : ¬ object_is_null r.2 r.1 = true := by
    unfold object_is_null
    rw [e1, from_data_type r.2 OBJECT_STRING p (by decide) hp48, eT]
    decide
  rw [if_neg hnn]
  have haddr : object_get_allocated_data r.1 = p := by
    rw [e1]; exact from_data_addr OBJECT_STRING p (by decide) hp48
  have hs1 : (r.2.deref p).string = s1 := by simp only [object_data_t.string, eP]
  unfold object_string_append
  dsimp only
  rw [haddr, hs1, eL]
  have hc : ¬ sv.length + 0 > s1.capacity := by omega
  rw [if_neg hc]
  simp only [not_true_eq_false, if_false]
  have hsplit := string_wf_split sv hsv
  have hbl := string_bytes_length sv hsv
  refine ⟨p, ⟨List.take (0 : Int).toNat s1.value ++ sv.value.take sv.length.toNat ++ [0]
      ++ s1.value.drop (0 + sv.length + 1).toNat, s1.hash, s1.is_allocated, s1.capacity,
      0 + sv.length⟩, e1, ?_, ?_, ?_, ?_, eH, by simp, ?_⟩
  · exact alloc_step_store _ _ _ _ hstep
  · rw [gcmem_t.store_string, deref_store_same]; exact eT
  · rw [gcmem_t.store_string, deref_store_same]
  · have hln : ((string_bytes sv).length : Int) = sv.length := hbl
    have hln2 : (string_bytes sv).length = sv.length.toNat := by omega
    refine ⟨by simp; exact h0, ?_, ?_, ?_⟩
    · simp only [Int.toNat_zero, List.take_zero, List.nil_append, zero_add, List.length_append,
        List.length_take, List.length_cons, List.length_nil, List.length_drop]
      have := hsv.2.1
      omega
    · simp only [Int.toNat_zero, List.take_zero, List.nil_append, zero_add]
      change ((string_bytes sv ++ [0]) ++ _).get? sv.length.toNat = some 0
      rw [List.get?_eq_getElem?, List.append_assoc, List.getElem?_append_right (by omega)]
      simp [hln2]
    · intro c hc
      apply hsv.2.2.2 c
      simp only [string_bytes, Int.toNat_zero, List.take_zero, List.nil_append, zero_add] at hc ⊢
      change c ∈ ((string_bytes sv ++ [0]) ++ _).take sv.length.toNat at hc
      rw [List.append_assoc, List.take_append_of_le_length (by omega)] at hc
      rw [List.take_of_length_le (by omega)] at hc
      exact hc
  · simp only [string_bytes, Int.toNat_zero, List.take_zero, List.nil_append, zero_add]
    change ((string_bytes sv ++ [0]) ++ _).take sv.length.toNat = string_bytes sv
    have hln2 : (string_bytes sv).length = sv.length.toNat := by omega
    rw [List.append_assoc, List.take_append_of_le_length (by omega),
      List.take_of_length_le (by omega)]

/-- Two Strings with the same bytes, whose cached hashes are unset or up to date, are
`object_equals`. -/
theorem string_equals_of_bytes (cs : Bool) (mem : gcmem_t) (a b : object_t)
    (sa sb : object_string_t) (ha : string_at mem a sa) (hb : string_at mem b sb)
    (hwa : string_wf sa) (hwb : string_wf sb)
    (hha : sa.hash = 0 ∨ sa.hash = string_hash_of cs sa.value)
    (hhb : sb.hash = 0 ∨ sb.hash = string_hash_of cs sb.value)
    (hlen : sa.length = sb.length) (hbytes : string_bytes sa = string_bytes sb) :
    (object_equals cs mem a b).1 = true := by
  rw [object_equals_fst]
  simp only [ha.1, hb.1, ne_eq, not_true_eq_false, if_false]
  by_cases hh : a.handle = b.handle
  · rw [object_compare_same cs mem a b false hh]
    simp only [dbleq_of_int, decide_True]
  · rw [(compare_strings cs mem a b sa sb ha hb false hh).1]
    have hva := string_hash_val_valid cs sa hha
    have hvb := string_hash_val_valid cs sb hhb
    have hv : string_hash_val cs sa = string_hash_val cs sb := by
      rw [hva, hvb, string_hash_of_bytes cs sa hwa, string_hash_of_bytes cs sb hwb, hbytes]
    simp only [hlen, ne_eq, not_true_eq_false, if_false, hv, dbleq_of_int, decide_eq_true_eq]
    rw [← Int.sign_eq_zero_iff_zero, strcmp_wf sa sb hwa hwb, lex_cmp_eq_zero]
    exact hbytes


theorem object_equals_self (cs : Bool) (mem : gcmem_t) (v : object_t) :
    (object_equals cs mem v v).1 = true := by
  rw [object_equals_fst]
  simp only [ne_eq, not_true_eq_false, if_false]
  rw [object_compare_same cs mem v v false rfl]
  simp only [dbleq_of_int, decide_True]

/-- `object_deep_copy` of a number, a bool, null, a native function or an error returns the
value itself. -/
theorem deep_copy_scalar (cs : Bool) (host_copy : external_copy_t) (fuel : Nat) (mem : gcmem_t)
    (v : object_t) (res : object_t × gcmem_t)
    (hty : object_get_type mem v = OBJECT_NUMBER ∨ object_get_type mem v = OBJECT_BOOL
      ∨ object_get_type mem v = OBJECT_NULL ∨ object_get_type mem v = OBJECT_NATIVE_FUNCTION
      ∨ object_get_type mem v = OBJECT_ERROR)
    (h : object_deep_copy cs host_copy fuel mem v = some res) : res = (v, mem) := by
  unfold object_deep_copy at h
  dsimp only at h
  cases fuel with
  | zero => simp only [object_deep_copy_internal] at h; exact absurd h (by simp)
  | succ fuel =>
    unfold object_deep_copy_internal at h
    rw [valdict_get_make] at h
    dsimp only at h
    rcases hty with ht | ht | ht | ht | ht <;> rw [ht] at h <;>
      simp only [Option.some.injEq] at h <;> exact h.symm

/-- `object_deep_copy` of a String returns what `object_make_string` makes of its buffer. -/
theorem deep_copy_string (cs : Bool) (host_copy : external_copy_t) (fuel : Nat) (mem : gcmem_t)
    (v : object_t) (res : object_t × gcmem_t) (hty : object_get_type mem v = OBJECT_STRING)
    (h : object_deep_copy cs host_copy fuel mem v = some res) :
    res = object_make_string mem (object_get_string mem v) := by
  unfold object_deep_copy at h
  dsimp only at h
  cases fuel with
  | zero => simp only [object_deep_copy_internal] at h; exact absurd h (by simp)
  | succ fuel =>
    unfold object_deep_copy_internal at h
    rw [valdict_get_make] at h
    dsimp only at h
    rw [hty] at h
    simp only [Option.some.injEq] at h
    exact h.symm

theorem deep_copy_fresh (cs : Bool) (host_copy : external_copy_t) (fuel : Nat)
    (mem : gcmem_t) (v : object_t) (res : object_t × gcmem_t)
    (hty : object_get_type mem v = OBJECT_ARRAY ∨ object_get_type mem v = OBJECT_MAP
      ∨ object_get_type mem v = OBJECT_FUNCTION)
    (h : object_deep_copy cs host_copy fuel mem v = some res) :
    heap_le mem res.2
    ∧ (res.1 = object_make_null ∨ ∃ (T : object_type_t) (p : Nat),
        res.1 = object_make_from_data T p ∧ is_allocated_kind T = true ∧ ¬ heap_live mem p
          ∧ (heap_wf mem → p < 2 ^ 48)) := by
  unfold object_deep_copy at h
  dsimp only at h
  split at h
  · exact absurd h (by simp)
  · rename_i r hr
    simp only [Option.some.injEq] at h
    rw [← h]
    exact ⟨deep_copy_internal_le cs host_copy fuel _ _ _ _ hr,
      deep_copy_internal_fresh cs host_copy fuel mem v r hty hr⟩

/-- Claim C6, as the code has it.  Let `object_deep_copy(v)` return `res` in a heap whose
addresses fit a handle and whose string pool is well formed.  If `v` is a number, a bool,
null, a native function or an error, the copy is `v` itself and `object_equals(copy, v)` is
true.  If `v` is a well-formed String in use whose cached hash is unset or up to date, the
copy is a new String with the same bytes and `object_equals(copy, v)` is true.  If `v` is an
array, a map or a function in use, `object_equals(copy, v)` is false: the copy lives in
another body and `object_equals` compares arrays, maps and functions by address. -/
theorem C6_deep_copy_equals (cs : Bool) (host_copy : external_copy_t) (fuel : Nat)
    (mem : gcmem_t) (v : object_t) (res : object_t × gcmem_t)
    (hwf : heap_wf mem) (hpool : string_pool_wf mem)
    (hcopy : object_deep_copy cs host_copy fuel mem v = some res) :
    ((object_get_type mem v = OBJECT_NUMBER ∨ object_get_type mem v = OBJECT_BOOL
        ∨ object_get_type mem v = OBJECT_NULL ∨ object_get_type mem v = OBJECT_NATIVE_FUNCTION
        ∨ object_get_type mem v = OBJECT_ERROR) →
      res.1 = v ∧ (object_equals cs res.2 res.1 v).1 = true)
    ∧ (∀ sv, string_at mem v sv → string_wf sv → sv.length < 2 ^ 31 →
        (sv.hash = 0 ∨ sv.hash = string_hash_of cs sv.value) →
        heap_live mem (object_get_allocated_data v) →
        (object_equals cs res.2 res.1 v).1 = true)
    ∧ ((object_get_type mem v = OBJECT_ARRAY ∨ object_get_type mem v = OBJECT_MAP
        ∨ object_get_type mem v = OBJECT_FUNCTION) →
      heap_live mem (object_get_allocated_data v) →
      (object_equals cs res.2 res.1 v).1 = false) := by
  refine ⟨?_, ?_, ?_⟩
  · intro hty
    have h := deep_copy_scalar cs host_copy fuel mem v res hty hcopy
    rw [h]
    exact ⟨rfl, object_equals_self cs mem v⟩
  · intro sv hat hsv hl hh hlive
    have h := deep_copy_string cs host_copy fuel mem v res hat.1 hcopy
    have hgs : object_get_string mem v = sv.value := by
      unfold object_get_string
      simp only [object_data_t.string, hat.2]
    rw [hgs] at h
    obtain ⟨p, s2, e1, hstep, eT, eP, hw2, eH, eL, eB⟩ :=
      object_make_string_spec mem sv hwf hpool hsv hl
    rw [← h] at e1 hstep eT eP
    have hp48 := hstep.2.1 hwf
    have hne : object_get_allocated_data v ≠ p := fun hc => hstep.1 (hc ▸ hlive)
    have hsame := hstep.2.2.2 _ hne
    have hat2 : string_at res.2 v sv := by
      refine ⟨?_, ?_⟩
      · rw [type_congr_at mem res.2 v (by rw [hsame])]; exact hat.1
      · rw [hsame]; exact hat.2
    have hat1 : string_at res.2 res.1 s2 := by
      refine ⟨?_, ?_⟩
      · rw [e1, from_data_type res.2 OBJECT_STRING p (by decide) hp48]; exact eT
      · rw [e1, from_data_addr OBJECT_STRING p (by decide) hp48]; exact eP
    exact string_equals_of_bytes cs res.2 res.1 v s2 sv hat1 hat2 hw2 hsv (Or.inl eH) hh eL eB
  · intro hty hlive
    obtain ⟨hle, hfresh⟩ := deep_copy_fresh cs host_copy fuel mem v res hty hcopy
    exact equals_fresh_false cs mem res.2 v res.1 hwf hle hty hlive hfresh

theorem heap_wf_example : heap_wf mem_example := by
  unfold heap_wf
  decide

theorem string_pool_wf_example : string_pool_wf mem_example := by
  intro q hq
  exact absurd hq (List.not_mem_nil q)

/-- C6 at a concrete input: the array `[1.0, "a"]` at 4352 is copied, and the copy is not
`object_equals` to it. -/
theorem C6_deep_copy_equals_witness :
    ∃ res, object_deep_copy false host_copy_none 3 mem_example example_pair = some res
      ∧ (object_equals false res.2 res.1 example_pair).1 = false :=
  ⟨(object_deep_copy false host_copy_none 3 mem_example example_pair).get (by decide),
    (Option.some_get _).symm,
    (C6_deep_copy_equals false host_copy_none 3 mem_example example_pair _ heap_wf_example
      string_pool_wf_example (Option.some_get _).symm).2.2 (Or.inl (by decide))
      (by unfold heap_live; decide)⟩

/-- Against claim C6: the deep copy of the empty array at 4224 is returned, and
`object_equals(copy, v)` is false. -/
theorem C6_counterexample :
    object_get_type mem_example example_array = OBJECT_ARRAY
    ∧ (object_deep_copy false host_copy_none 2 mem_example example_array).map
        (fun res => (object_equals false res.2 res.1 example_array).1) = some false := by
  refine ⟨by decide, ?_⟩
  have hs : (object_deep_copy false host_copy_none 2 mem_example example_array).isSome = true := by
    decide
  cases h : object_deep_copy false host_copy_none 2 mem_example example_array with
  | none => rw [h] at hs; exact absurd hs (by decide)
  | some res =>
    obtain ⟨hle, hfresh⟩ := deep_copy_fresh false host_copy_none 2 mem_example example_array res
      (Or.inl (by decide)) h
    simp only [Option.map_some']
    rw [equals_fresh_false false mem_example res.2 example_array res.1 heap_wf_example hle
      (Or.inl (by decide)) (by unfold heap_live; decide) hfresh]


theorem keys_are_equal_nofn (cs : Bool) (mem : gcmem_t) (d : valdict_t_) (a b : object_t)
    (h : d._keys_equals = none) : valdict_keys_are_equal cs mem d a b = (key_eq a b, mem) := by
  unfold valdict_keys_are_equal key_eq
  rw [h]

theorem hash_key_nofn (cs : Bool) (mem : gcmem_t) (d : valdict_t_) (k : object_t)
    (h : d._hash_key = none) : valdict_hash_key cs mem d k = (collections_hash k, mem) := by
  unfold valdict_hash_key
  rw [h]

theorem get_cell_ix_loop_nofn (cs : Bool) (d : valdict_t_) (k : object_t) (hash cell_ix : Nat)
    (h : d._keys_equals = none) :
    ∀ (n i : Nat) (mem : gcmem_t),
      valdict_get_cell_ix_loop cs d k hash cell_ix n i mem
        = ((probe_loop d k hash cell_ix n i).1, (probe_loop d k hash cell_ix n i).2, mem) := by
  intro n
  induction n with
  | zero => intro i mem; rfl
  | succ n ih =>
    intro i mem
    unfold valdict_get_cell_ix_loop probe_loop
    dsimp only
    rw [keys_are_equal_nofn cs mem d _ _ h]
    dsimp only
    unfold probe_pos probe_match
    by_cases hc : d.cells.getD ((cell_ix + i) % 2 ^ 32 &&& u32_pred d.cell_capacity)
        VALDICT_INVALID_IX = VALDICT_INVALID_IX
    · rw [if_pos hc, if_pos hc]
    · rw [if_neg hc, if_neg hc]
      by_cases hh : hash = d.hashes.getD (d.cells.getD
          ((cell_ix + i) % 2 ^ 32 &&& u32_pred d.cell_capacity) VALDICT_INVALID_IX) 0
      · rw [if_neg (not_not.mpr hh)]
        by_cases he : key_eq k (d.keys.getD (d.cells.getD
            ((cell_ix + i) % 2 ^ 32 &&& u32_pred d.cell_capacity) VALDICT_INVALID_IX)
            { handle := 0 }) = true
        · rw [if_pos he, if_pos ⟨hh, he⟩]
        · rw [if_neg he, if_neg (fun hc2 => he hc2.2)]
          exact ih _ _
      · rw [if_pos hh, if_neg (fun hc2 => hh hc2.1)]
        exact ih _ _

theorem valdict_find_nofn (cs : Bool) (mem : gcmem_t) (d : valdict_t_) (k : object_t)
    (h1 : d._hash_key = none) (h2 : d._keys_equals = none) :
    valdict_find cs mem d k = memo_find d k := by
  unfold valdict_find memo_find valdict_get_cell_ix
  rw [hash_key_nofn cs mem d k h1]
  dsimp only
  rw [get_cell_ix_loop_nofn cs d k _ _ h2]

theorem valdict_get_nofn (cs : Bool) (mem : gcmem_t) (d : valdict_t_) (k : object_t)
    (h1 : d._hash_key = none) (h2 : d._keys_equals = none) :
    valdict_get cs mem d k
      = ((match memo_find d k with
          | some j => valdict_get_value_at d j
          | none => none), mem) := by
  unfold valdict_get memo_find valdict_get_cell_ix
  rw [hash_key_nofn cs mem d k h1]
  dsimp only
  rw [get_cell_ix_loop_nofn cs d k _ _ h2]
  dsimp only
  split <;> rfl

theorem probe_found_intro (d : valdict_t_) (k : object_t) (hash cell_ix : Nat) :
    ∀ (n i t : Nat), i ≤ t → t < i + n → probe_skips d k hash cell_ix i t →
      d.cells.getD (probe_pos d cell_ix t) VALDICT_INVALID_IX ≠ VALDICT_INVALID_IX →
      probe_match d k hash (d.cells.getD (probe_pos d cell_ix t) VALDICT_INVALID_IX) →
      probe_loop d k hash cell_ix n i = (probe_pos d cell_ix t, true) := by
  intro n
  induction n with
  | zero => intro i t h1 h2; omega
  | succ n ih =>
    intro i t h1 h2 hs hc hm
    unfold probe_loop
    dsimp only
    by_cases hit : i = t
    · subst hit
      rw [if_neg hc, if_pos hm]
    · have hsi := hs i (le_refl _) (by omega)
      rw [if_neg hsi.1, if_neg hsi.2]
      exact ih (i + 1) t (by omega) (by omega) (fun s a b => hs s (by omega) b) hc hm

theorem probe_miss_intro (d : valdict_t_) (k : object_t) (hash cell_ix : Nat) :
    ∀ (n i t : Nat), i ≤ t → t < i + n → probe_skips d k hash cell_ix i t →
      d.cells.getD (probe_pos d cell_ix t) VALDICT_INVALID_IX = VALDICT_INVALID_IX →
      probe_loop d k hash cell_ix n i = (probe_pos d cell_ix t, false) := by
  intro n
  induction n with
  | zero => intro i t h1 h2; omega
  | succ n ih =>
    intro i t h1 h2 hs hc
    unfold probe_loop
    dsimp only
    by_cases hit : i = t
    · subst hit
      rw [if_pos hc]
    · have hsi := hs i (le_refl _) (by omega)
      rw [if_neg hsi.1, if_neg hsi.2]
      exact ih (i + 1) t (by omega) (by omega) (fun s a b => hs s (by omega) b) hc

theorem probe_spec (d : valdict_t_) (k : object_t) (hash cell_ix : Nat) :
    ∀ (n i : Nat),
      (∃ t, i ≤ t ∧ t < i + n ∧ probe_skips d k hash cell_ix i t
        ∧ (probe_loop d k hash cell_ix n i).1 = probe_pos d cell_ix t
        ∧ ((probe_loop d k hash cell_ix n i).2 = true →
            d.cells.getD (probe_pos d cell_ix t) VALDICT_INVALID_IX ≠ VALDICT_INVALID_IX
            ∧ probe_match d k hash (d.cells.getD (probe_pos d cell_ix t) VALDICT_INVALID_IX))
        ∧ ((probe_loop d k hash cell_ix n i).2 = false →
            d.cells.getD (probe_pos d cell_ix t) VALDICT_INVALID_IX = VALDICT_INVALID_IX))
      ∨ (probe_loop d k hash cell_ix n i = (VALDICT_INVALID_IX, false)
        ∧ probe_skips d k hash cell_ix i (i + n)) := by
  intro n
  induction n with
  | zero =>
    intro i
    right
    exact ⟨rfl, fun s a b => by omega⟩
  | succ n ih =>
    intro i
    unfold probe_loop
    dsimp only
    by_cases hc : d.cells.getD (probe_pos d cell_ix i) VALDICT_INVALID_IX = VALDICT_INVALID_IX
    · rw [if_pos hc]
      left
      exact ⟨i, le_refl _, by omega, fun s a b => by omega, rfl, fun h => by simp at h,
        fun _ => hc⟩
    · rw [if_neg hc]
      by_cases hm : probe_match d k hash
          (d.cells.getD (probe_pos d cell_ix i) VALDICT_INVALID_IX)
      · rw [if_pos hm]
        left
        exact ⟨i, le_refl _, by omega, fun s a b => by omega, rfl, fun _ => ⟨hc, hm⟩,
          fun h => by simp at h⟩
      · rw [if_neg hm]
        have hstep : ∀ t, probe_skips d k hash cell_ix (i + 1) t →
            probe_skips d k hash cell_ix i t := by
          intro t hs s a b
          by_cases hsi : s = i
          · subst hsi; exact ⟨hc, hm⟩
          · exact hs s (by omega) b
        rcases ih (i + 1) with ⟨t, h1, h2, h3, h4, h5, h6⟩ | ⟨h1, h2⟩
        · left
          exact ⟨t, by omega, by omega, hstep t h3, h4, h5, h6⟩
        · right
          refine ⟨h1, ?_⟩
          have := hstep (i + 1 + n) h2
          rw [show i + (n + 1) = i + 1 + n by omega]
          exact this

theorem u32_pred_pow (e : Nat) (he : e ≤ 32) : u32_pred (2 ^ e) = 2 ^ e - 1 := by
  unfold u32_pred
  have h1 : 1 ≤ 2 ^ e := Nat.one_le_two_pow
  have h2 : 2 ^ e ≤ 2 ^ 32 := Nat.pow_le_pow_right (by decide) he
  have h3 : 2 ^ e + 0xffffffff = (2 ^ e - 1) + 2 ^ 32 := by omega
  rw [h3, Nat.add_mod_right, Nat.mod_eq_of_lt (by omega)]

theorem probe_pos_eq (d : valdict_t_) (cell_ix t e : Nat) (hcap : d.cell_capacity = 2 ^ e)
    (he : e ≤ 32) : probe_pos d cell_ix t = (cell_ix + t) % d.cell_capacity := by
  unfold probe_pos
  rw [hcap, u32_pred_pow e he, Nat.and_pow_two_sub_one_eq_mod,
    Nat.mod_mod_of_dvd _ (Nat.pow_dvd_pow 2 he)]

theorem mod_cover (a idx cap : Nat) (h : idx < cap) :
    ∃ t, t < cap ∧ (a + t) % cap = idx := by
  have hr : a % cap < cap := Nat.mod_lt _ (by omega)
  by_cases hge : a % cap ≤ idx
  · refine ⟨idx - a % cap, by omega, ?_⟩
    rw [Nat.add_mod, Nat.mod_eq_of_lt (show idx - a % cap < cap by omega)]
    rw [show a % cap + (idx - a % cap) = idx by omega]
    exact Nat.mod_eq_of_lt h
  · refine ⟨idx + cap - a % cap, by omega, ?_⟩
    rw [Nat.add_mod, Nat.mod_eq_of_lt (show idx + cap - a % cap < cap by omega)]
    rw [show a % cap + (idx + cap - a % cap) = idx + cap by omega, Nat.add_mod_right]
    exact Nat.mod_eq_of_lt h

theorem exists_empty_cell (cells : List Nat) (n : Nat) (h : cells.count VALDICT_INVALID_IX > 0) :
    ∃ idx, idx < cells.length ∧ cells.getD idx n = VALDICT_INVALID_IX := by
  have hm : VALDICT_INVALID_IX ∈ cells := List.count_pos_iff.mp h
  obtain ⟨idx, hidx, hget⟩ := List.getElem_of_mem hm
  exact ⟨idx, hidx, by rw [List.getD_eq_getElem _ _ hidx]; exact hget⟩

/-- With an empty cell left, the probe loop ends at a key that matches or at an empty
cell. -/
theorem probe_ends (d : valdict_t_) (k : object_t) (hash cell_ix e : Nat)
    (hcap : d.cell_capacity = 2 ^ e) (he : e ≤ 32) (hlen : d.cells.length = d.cell_capacity)
    (hempty : d.cells.count VALDICT_INVALID_IX > 0) :
    ∃ t, t < d.cell_capacity ∧ probe_skips d k hash cell_ix 0 t
      ∧ (probe_loop d k hash cell_ix d.cell_capacity 0).1 = probe_pos d cell_ix t
      ∧ probe_pos d cell_ix t < d.cell_capacity
      ∧ ((probe_loop d k hash cell_ix d.cell_capacity 0).2 = true →
          d.cells.getD (probe_pos d cell_ix t) VALDICT_INVALID_IX ≠ VALDICT_INVALID_IX
          ∧ probe_match d k hash (d.cells.getD (probe_pos d cell_ix t) VALDICT_INVALID_IX))
      ∧ ((probe_loop d k hash cell_ix d.cell_capacity 0).2 = false →
          d.cells.getD (probe_pos d cell_ix t) VALDICT_INVALID_IX = VALDICT_INVALID_IX) := by
  have hpos : 0 < d.cell_capacity := by rw [hcap]; exact Nat.pow_pos (by decide)
  rcases probe_spec d k hash cell_ix d.cell_capacity 0 with ⟨t, h1, h2, h3, h4, h5, h6⟩ | ⟨h1, h2⟩
  · refine ⟨t, by omega, h3, h4, ?_, h5, h6⟩
    rw [probe_pos_eq d cell_ix t e hcap he]
    exact Nat.mod_lt _ hpos
  · exfalso
    obtain ⟨idx, hidx, hget⟩ := exists_empty_cell d.cells VALDICT_INVALID_IX hempty
    rw [hlen] at hidx
    obtain ⟨t, ht, hte⟩ := mod_cover cell_ix idx d.cell_capacity hidx
    have := (h2 t (Nat.zero_le _) (by omega)).1
    rw [probe_pos_eq d cell_ix t e hcap he, hte] at this
    exact this hget


theorem key_eq_iff (a b : object_t) (ha : a.handle < 2 ^ 64) (hb : b.handle < 2 ^ 64) :
    key_eq a b = true ↔ a = b := by
  unfold key_eq
  rw [Nat.mod_eq_of_lt ha, Nat.mod_eq_of_lt hb, decide_eq_true_eq]
  constructor
  · intro h; cases a; cases b; simp only at h; rw [h]
  · intro h; rw [h]

theorem item_capacity_lt (cap : Nat) (h : 0 < cap) : cap * 11744051 / 16777216 < cap := by
  rw [Nat.div_lt_iff_lt_mul (by decide)]
  omega

theorem memo_wf_empty_cell (d : valdict_t_) (h : memo_wf d) :
    d.cells.count VALDICT_INVALID_IX > 0 := by
  obtain ⟨e, hcap, _⟩ := h.cap_pow
  have hic := h.item_cap
  have hcnt := h.count_le
  have hcount := h.empty_count
  have hpos : 0 < d.cell_capacity := by rw [hcap]; exact Nat.pow_pos (by decide)
  have := item_capacity_lt d.cell_capacity hpos
  omega

/-- A key that the lookup finds matches the key of the slot found, a used slot. -/
theorem memo_find_sound (d : valdict_t_) (x : object_t) (j : Nat) (h : memo_wf d)
    (hf : memo_find d x = some j) :
    j < d.count ∧ key_eq x (d.keys.getD j { handle := 0 }) = true := by
  have hempty := memo_wf_empty_cell d h
  obtain ⟨e, hcap, he⟩ := h.cap_pow
  have hlen := h.cells_len
  have hcells := h.cells_ok
  unfold memo_find at hf
  dsimp only at hf
  obtain ⟨t, _, _, h4, _, h5, _⟩ := probe_ends d x (collections_hash x)
    ((collections_hash x &&& u32_pred d.cell_capacity) % 2 ^ 32) e hcap (by omega) hlen hempty
  split at hf
  · rename_i hr
    have hj := Option.some.inj hf
    obtain ⟨hne, hm⟩ := h5 hr
    rw [h4] at hj
    rw [hj] at hne hm
    refine ⟨?_, hm.2⟩
    rcases getD_mem_or_default d.cells (probe_pos d
      ((collections_hash x &&& u32_pred d.cell_capacity) % 2 ^ 32) t) VALDICT_INVALID_IX
      with hg | hg
    · rw [hj] at hg; exact absurd hg hne
    · rw [hj] at hg
      rcases hcells j hg with h1 | h1
      · exact absurd h1 hne
      · exact h1
  · exact absurd hf (by simp)

/-- The lookup in `copies`: a stored key is found in its slot, any other key is not
found. -/
theorem memo_find_spec (d : valdict_t_) (x : object_t) (h : memo_wf d) (hx : x.handle < 2 ^ 64) :
    (∀ j, j < d.count → d.keys.getD j { handle := 0 } = x → memo_find d x = some j)
    ∧ ((∀ j, j < d.count → d.keys.getD j { handle := 0 } ≠ x) → memo_find d x = none) := by
  constructor
  · intro j hj hk
    rw [← hk]
    exact h.find_ok j hj
  · intro hno
    cases hf : memo_find d x with
    | none => rfl
    | some j =>
      exfalso
      obtain ⟨hj, he⟩ := memo_find_sound d x j h hf
      have hkj := h.handles j hj
      exact hno j hj ((key_eq_iff x _ hx hkj).mp he).symm


/-- A used cell names a used item. -/
theorem cell_lt_count (d : valdict_t_) (hcells : ∀ c ∈ d.cells, c = VALDICT_INVALID_IX ∨ c < d.count)
    (ix : Nat) (hne : d.cells.getD ix VALDICT_INVALID_IX ≠ VALDICT_INVALID_IX) :
    d.cells.getD ix VALDICT_INVALID_IX < d.count := by
  rcases getD_mem_or_default d.cells ix VALDICT_INVALID_IX with hg | hg
  · exact absurd hg hne
  · rcases hcells _ hg with h1 | h1
    · exact absurd h1 hne
    · exact h1

/-- The rounds that skip used cells in `d` do the same in a dictionary `d2` that agrees
with `d` on these cells and on the used items. -/
theorem probe_skips_transport (d d2 : valdict_t_) (k : object_t) (hash cell_ix t : Nat)
    (hcap : d2.cell_capacity = d.cell_capacity)
    (hcells : ∀ c ∈ d.cells, c = VALDICT_INVALID_IX ∨ c < d.count)
    (hsame : ∀ ix, d.cells.getD ix VALDICT_INVALID_IX ≠ VALDICT_INVALID_IX →
      d2.cells.getD ix VALDICT_INVALID_IX = d.cells.getD ix VALDICT_INVALID_IX)
    (hitems : ∀ j, j < d.count → d2.hashes.getD j 0 = d.hashes.getD j 0
      ∧ d2.keys.getD j { handle := 0 } = d.keys.getD j { handle := 0 })
    (hs : probe_skips d k hash cell_ix 0 t) : probe_skips d2 k hash cell_ix 0 t := by
  intro s h1 h2
  obtain ⟨hne, hnm⟩ := hs s h1 h2
  have hpos : probe_pos d2 cell_ix s = probe_pos d cell_ix s := by
    unfold probe_pos; rw [hcap]
  rw [hpos, hsame _ hne]
  refine ⟨hne, ?_⟩
  have hlt := cell_lt_count d hcells _ hne
  intro hm
  apply hnm
  unfold probe_match at hm ⊢
  rw [(hitems _ hlt).1, (hitems _ hlt).2] at hm
  exact hm

theorem memo_find_intro (d : valdict_t_) (k : object_t) (j t : Nat)
    (h1 : t < d.cell_capacity)
    (h2 : probe_skips d k (collections_hash k)
            ((collections_hash k &&& u32_pred d.cell_capacity) % 2 ^ 32) 0 t)
    (h3 : d.cells.getD (probe_pos d
            ((collections_hash k &&& u32_pred d.cell_capacity) % 2 ^ 32) t) VALDICT_INVALID_IX = j)
    (h4 : j ≠ VALDICT_INVALID_IX)
    (h5 : probe_match d k (collections_hash k) j) : memo_find d k = some j := by
  have := probe_found_intro d k (collections_hash k)
    ((collections_hash k &&& u32_pred d.cell_capacity) % 2 ^ 32) d.cell_capacity 0 t
    (Nat.zero_le _) (by omega) h2 (by rw [h3]; exact h4) (by rw [h3]; exact h5)
  unfold memo_find
  dsimp only
  rw [this]
  simp only [if_true, h3]

theorem memo_find_some_iff (d : valdict_t_) (k : object_t) (j : Nat) (h : memo_wf d) :
    memo_find d k = some j ↔
      ∃ t, t < d.cell_capacity
        ∧ probe_skips d k (collections_hash k)
            ((collections_hash k &&& u32_pred d.cell_capacity) % 2 ^ 32) 0 t
        ∧ d.cells.getD (probe_pos d
            ((collections_hash k &&& u32_pred d.cell_capacity) % 2 ^ 32) t) VALDICT_INVALID_IX = j
        ∧ j ≠ VALDICT_INVALID_IX
        ∧ probe_match d k (collections_hash k) j := by
  have hempty := memo_wf_empty_cell d h
  obtain ⟨e, hcap, he⟩ := h.cap_pow
  constructor
  · intro hf
    obtain ⟨t, h1, h2, h4, _, h5, _⟩ := probe_ends d k (collections_hash k)
      ((collections_hash k &&& u32_pred d.cell_capacity) % 2 ^ 32) e hcap (by omega)
      h.cells_len hempty
    unfold memo_find at hf
    dsimp only at hf
    split at hf
    · rename_i hr
      have hj := Option.some.inj hf
      obtain ⟨hne, hm⟩ := h5 hr
      rw [h4] at hj
      rw [hj] at hne hm
      exact ⟨t, h1, h2, hj, hne, hm⟩
    · exact absurd hf (by simp)
  · rintro ⟨t, h1, h2, h3, h4, h5⟩
    have := probe_found_intro d k (collections_hash k)
      ((collections_hash k &&& u32_pred d.cell_capacity) % 2 ^ 32) d.cell_capacity 0 t
      (Nat.zero_le _) (by omega) h2 (by rw [h3]; exact h4) (by rw [h3]; exact h5)
    unfold memo_find
    dsimp only
    rw [this]
    simp only [if_true, h3]

theorem memo_find_none_iff (d : valdict_t_) (k : object_t) (h : memo_wf d) :
    memo_find d k = none →
      ∃ t, t < d.cell_capacity
        ∧ probe_skips d k (collections_hash k)
            ((collections_hash k &&& u32_pred d.cell_capacity) % 2 ^ 32) 0 t
        ∧ probe_pos d ((collections_hash k &&& u32_pred d.cell_capacity) % 2 ^ 32) t
            < d.cell_capacity
        ∧ (probe_loop d k (collections_hash k)
            ((collections_hash k &&& u32_pred d.cell_capacity) % 2 ^ 32) d.cell_capacity 0)
            = (probe_pos d ((collections_hash k &&& u32_pred d.cell_capacity) % 2 ^ 32) t, false)
        ∧ d.cells.getD (probe_pos d
            ((collections_hash k &&& u32_pred d.cell_capacity) % 2 ^ 32) t) VALDICT_INVALID_IX
            = VALDICT_INVALID_IX := by
  have hempty := memo_wf_empty_cell d h
  obtain ⟨e, hcap, he⟩ := h.cap_pow
  intro hf
  obtain ⟨t, h1, h2, h4, h4b, h5, h6⟩ := probe_ends d k (collections_hash k)
    ((collections_hash k &&& u32_pred d.cell_capacity) % 2 ^ 32) e hcap (by omega)
    h.cells_len hempty
  unfold memo_find at hf
  dsimp only at hf
  split at hf
  · exact absurd hf (by simp)
  · rename_i hr
    have hr2 : (probe_loop d k (collections_hash k)
        ((collections_hash k &&& u32_pred d.cell_capacity) % 2 ^ 32) d.cell_capacity 0).2
        = false := by simpa using hr
    refine ⟨t, h1, h2, h4b, ?_, h6 hr2⟩
    exact Prod.ext h4 hr2

/-- The dictionary `d` with one more item `(k, v)`, reached through cell `c`. -/
theorem memo_wf_append (d d2 : valdict_t_) (k v : object_t) (c : Nat)
    (h : memo_wf d) (hroom : d.count < d.item_capacity) (hk : k.handle < 2 ^ 64)
    (hfind : memo_find d k = none)
    (habs : ∀ j, j < d.count → d.keys.getD j { handle := 0 } ≠ k)
    (hc : c = (probe_loop d k (collections_hash k)
      ((collections_hash k &&& u32_pred d.cell_capacity) % 2 ^ 32) d.cell_capacity 0).1)
    (hd2 : d2 = { d with
          count := d.count + 1
          cells := d.cells.set c d.count
          keys := d.keys.set d.count k
          values := d.values.set d.count v
          cell_ixs := d.cell_ixs.set d.count c
          hashes := d.hashes.set d.count (collections_hash k) }) :
    memo_wf d2 := by
  obtain ⟨t, ht1, ht2, ht3, ht4, ht5⟩ := memo_find_none_iff d k h hfind
  rw [ht4] at hc
  dsimp only at hc
  obtain ⟨e, hcap, he⟩ := h.cap_pow
  have hpos : 0 < d.cell_capacity := by rw [hcap]; exact Nat.pow_pos (by decide)
  have hicl := item_capacity_lt d.cell_capacity hpos
  have hic := h.item_cap
  have hcaplt : d.cell_capacity ≤ 2 ^ 30 := by rw [hcap]; exact Nat.pow_le_pow_right (by decide) he
  have hcntne : d.count ≠ VALDICT_INVALID_IX := by
    unfold VALDICT_INVALID_IX; omega
  have hklen : d.count < d.keys.length := by rw [h.keys_len]; exact hroom
  have hhlen : d.count < d.hashes.length := by rw [h.hashes_len]; exact hroom
  have hclen : c < d.cells.length := by rw [h.cells_len, hc]; exact ht3
  have hcempty : d.cells.getD c VALDICT_INVALID_IX = VALDICT_INVALID_IX := by rw [hc]; exact ht5
  -- cells of `d` that are used are used in `d2` with the same item
  have hsame : ∀ ix, d.cells.getD ix VALDICT_INVALID_IX ≠ VALDICT_INVALID_IX →
      d2.cells.getD ix VALDICT_INVALID_IX = d.cells.getD ix VALDICT_INVALID_IX := by
    intro ix hne
    rw [hd2]
    dsimp only
    apply getD_set_other
    intro hcx
    rw [← hcx] at hne
    exact hne hcempty
  have hitems : ∀ j, j < d.count → d2.hashes.getD j 0 = d.hashes.getD j 0
      ∧ d2.keys.getD j { handle := 0 } = d.keys.getD j { handle := 0 } := by
    intro j hj
    rw [hd2]
    dsimp only
    exact ⟨getD_set_other _ _ _ _ _ (by omega), getD_set_other _ _ _ _ _ (by omega)⟩
  have hknew : d2.keys.getD d.count { handle := 0 } = k := by
    rw [hd2]; dsimp only; exact getD_set_same _ _ _ _ hklen
  have hhnew : d2.hashes.getD d.count 0 = collections_hash k := by
    rw [hd2]; dsimp only; exact getD_set_same _ _ _ _ hhlen
  have hcnt2 : d2.count = d.count + 1 := by rw [hd2]
  have hcap2 : d2.cell_capacity = d.cell_capacity := by rw [hd2]
  have hcnew : d2.cells.getD c VALDICT_INVALID_IX = d.count := by
    rw [hd2]; dsimp only; exact getD_set_same _ _ _ _ hclen
  refine ⟨?_, ?_, ?_, ?_, ?_, ?_, ?_, ?_, ?_, ?_, ?_, ?_, ?_, ?_, ?_, ?_⟩
  · rw [hd2]; exact h.no_hash
  · rw [hd2]; exact h.no_equals
  · rw [hd2]; dsimp only; rw [List.length_set]; exact h.keys_len
  · rw [hd2]; dsimp only; rw [List.length_set]; exact h.values_len
  · rw [hd2]; dsimp only; rw [List.length_set]; exact h.hashes_len
  · rw [hd2]; dsimp only; rw [List.length_set]; exact h.cell_ixs_len
  · rw [hd2]; dsimp only; rw [List.length_set]; exact h.cells_len
  · rw [hd2]; exact h.cap_pow
  · rw [hd2]; exact h.item_cap
  · rw [hd2]; dsimp only; omega
  · intro j hj
    rw [hcnt2] at hj
    by_cases hjc : j = d.count
    · rw [hjc, hknew]; exact hk
    · rw [(hitems j (by omega)).2]; exact h.handles j (by omega)
  · intro x hx
    rw [hd2] at hx
    dsimp only at hx
    rw [hcnt2]
    rcases mem_set_cases _ _ _ _ hx with h1 | h1
    · right; omega
    · rcases h.cells_ok x h1 with h2 | h2
      · left; exact h2
      · right; omega
  · rw [hcnt2, hcap2]
    have hcount := h.empty_count
    have hpos2 := memo_wf_empty_cell d h
    have : d2.cells.count VALDICT_INVALID_IX + 1 = d.cells.count VALDICT_INVALID_IX := by
      rw [hd2]
      dsimp only
      rw [List.count_set _ _ _ _ hclen]
      have hg : d.cells[c] = VALDICT_INVALID_IX := by
        rw [← hcempty, List.getD_eq_getElem _ _ hclen]
      rw [hg]
      simp only [beq_self_eq_true, if_true]
      have : (d.count == VALDICT_INVALID_IX) = false := by
        simpa using hcntne
      rw [this]
      simp only [Bool.false_eq_true, if_false]
      omega
    omega
  · intro j hj
    rw [hcnt2] at hj
    by_cases hjc : j = d.count
    · rw [hjc, hknew, hhnew]
    · rw [(hitems j (by omega)).1, (hitems j (by omega)).2]
      exact h.hashes_ok j (by omega)
  · intro j hj
    rw [hcnt2] at hj
    by_cases hjc : j = d.count
    · rw [hjc, hknew]
      refine memo_find_intro d2 k d.count t (by rw [hcap2]; exact ht1) ?_ ?_ hcntne ?_
      · rw [hcap2]
        exact probe_skips_transport d d2 k _ _ t hcap2 h.cells_ok hsame hitems ht2
      · have hpos2 : probe_pos d2 ((collections_hash k &&& u32_pred d2.cell_capacity) % 2 ^ 32) t
            = c := by
          rw [hc, hcap2]; unfold probe_pos; rw [hcap2]
        rw [hpos2]; exact hcnew
      · unfold probe_match
        rw [hhnew, hknew]
        exact ⟨rfl, (key_eq_iff k k hk hk).mpr rfl⟩
    · have hj2 : j < d.count := by omega
      rw [(hitems j hj2).2]
      obtain ⟨tj, h1, h2, h3, h4, h5⟩ :=
        (memo_find_some_iff d (d.keys.getD j { handle := 0 }) j h).mp (h.find_ok j hj2)
      refine memo_find_intro d2 _ j tj (by rw [hcap2]; exact h1) ?_ ?_ h4 ?_
      · rw [hcap2]
        exact probe_skips_transport d d2 _ _ _ tj hcap2 h.cells_ok hsame hitems h2
      · have hpos2 : probe_pos d2 ((collections_hash (d.keys.getD j { handle := 0 })
            &&& u32_pred d2.cell_capacity) % 2 ^ 32) tj
            = probe_pos d ((collections_hash (d.keys.getD j { handle := 0 })
            &&& u32_pred d.cell_capacity) % 2 ^ 32) tj := by
          rw [hcap2]; unfold probe_pos; rw [hcap2]
        rw [hpos2, hsame _ (by rw [h3]; exact h4)]
        exact h3
      · unfold probe_match at h5 ⊢
        rw [(hitems j hj2).1, (hitems j hj2).2]
        exact h5
  · intro i j hij hj
    rw [hcnt2] at hj
    by_cases hjc : j = d.count
    · rw [hjc, hknew, (hitems i (by omega)).2]
      exact habs i (by omega)
    · rw [(hitems i (by omega)).2, (hitems j (by omega)).2]
      exact h.distinct i j hij (by omega)



theorem memo_push_eq (d : valdict_t_) (k v : object_t) (h : d.count + 1 < 2 ^ 32) :
    memo_push d k v = { d with
          count := d.count + 1
          cells := d.cells.set (probe_loop d k (collections_hash k)
            ((collections_hash k &&& u32_pred d.cell_capacity) % 2 ^ 32) d.cell_capacity 0).1
            d.count
          keys := d.keys.set d.count k
          values := d.values.set d.count v
          cell_ixs := d.cell_ixs.set d.count (probe_loop d k (collections_hash k)
            ((collections_hash k &&& u32_pred d.cell_capacity) % 2 ^ 32) d.cell_capacity 0).1
          hashes := d.hashes.set d.count (collections_hash k) } := by
  unfold memo_push
  exact valdict_append_eq _ _ _ _ _ h

theorem memo_count_lt (d : valdict_t_) (h : memo_wf d) : d.count < 2 ^ 30 := by
  obtain ⟨e, hcap, he⟩ := h.cap_pow
  have hpos : 0 < d.cell_capacity := by rw [hcap]; exact Nat.pow_pos (by decide)
  have hicl := item_capacity_lt d.cell_capacity hpos
  have hcaplt : d.cell_capacity ≤ 2 ^ 30 := by rw [hcap]; exact Nat.pow_le_pow_right (by decide) he
  have := h.count_le
  have := h.item_cap
  omega

/-- The facts about `memo_push` on a dictionary with room. -/
theorem memo_push_spec (d : valdict_t_) (k v : object_t) (h : memo_wf d)
    (hroom : d.count < d.item_capacity) (hk : k.handle < 2 ^ 64)
    (habs : ∀ j, j < d.count → d.keys.getD j { handle := 0 } ≠ k) :
    memo_wf (memo_push d k v)
    ∧ (memo_push d k v).count = d.count + 1
    ∧ (memo_push d k v).item_capacity = d.item_capacity
    ∧ (memo_push d k v).cell_capacity = d.cell_capacity
    ∧ (memo_push d k v).keys.getD d.count { handle := 0 } = k
    ∧ (memo_push d k v).values.getD d.count { handle := 0 } = v
    ∧ (∀ i, i < d.count →
        (memo_push d k v).keys.getD i { handle := 0 } = d.keys.getD i { handle := 0 }
        ∧ (memo_push d k v).values.getD i { handle := 0 } = d.values.getD i { handle := 0 }) := by
  have hlt := memo_count_lt d h
  have hfind := (memo_find_spec d k h hk).2 habs
  have heq := memo_push_eq d k v (by omega)
  refine ⟨memo_wf_append d _ k v _ h hroom hk hfind habs rfl heq, ?_, ?_, ?_, ?_, ?_, ?_⟩
  · rw [heq]
  · rw [heq]
  · rw [heq]
  · rw [heq]; exact getD_set_same _ _ _ _ (by rw [h.keys_len]; exact hroom)
  · rw [heq]; exact getD_set_same _ _ _ _ (by rw [h.values_len]; exact hroom)
  · intro i hi
    rw [heq]
    exact ⟨getD_set_other _ _ _ _ _ (by omega), getD_set_other _ _ _ _ _ (by omega)⟩

/-- `valdict_set` on `copies` with room, for a key not stored. -/
theorem memo_set_room (cs : Bool) (fuel : Nat) (mem : gcmem_t) (d : valdict_t_) (k v : object_t)
    (h : memo_wf d) (hroom : d.count < d.item_capacity) (hk : k.handle < 2 ^ 64)
    (habs : ∀ j, j < d.count → d.keys.getD j { handle := 0 } ≠ k) :
    valdict_set_aux cs (fuel + 1) mem d k v = (true, memo_push d k v, mem) := by
  have hfind := (memo_find_spec d k h hk).2 habs
  obtain ⟨t, ht1, ht2, ht3, ht4, ht5⟩ := memo_find_none_iff d k h hfind
  unfold valdict_set_aux
  rw [hash_key_nofn cs mem d k h.no_hash]
  dsimp only
  unfold valdict_get_cell_ix
  dsimp only
  rw [get_cell_ix_loop_nofn cs d k _ _ h.no_equals]
  dsimp only
  rw [ht4]
  have hng : ¬ d.count ≥ d.item_capacity := by omega
  simp only [Bool.false_eq_true, if_false, hng]
  unfold memo_push
  rw [ht4]

theorem memo_wf_init (e : Nat) (he : e ≤ 30) : memo_wf (valdict_init (2 ^ e)) := by
  unfold valdict_init
  refine ⟨rfl, rfl, ?_, ?_, ?_, ?_, ?_, ⟨e, rfl, he⟩, rfl, Nat.zero_le _, ?_, ?_, ?_, ?_, ?_, ?_⟩
  · exact List.length_replicate _ _
  · exact List.length_replicate _ _
  · exact List.length_replicate _ _
  · exact List.length_replicate _ _
  · exact List.length_replicate _ _
  · intro j hj; exact absurd hj (Nat.not_lt_zero _)
  · intro c hc
    left
    exact List.eq_of_mem_replicate hc
  · dsimp only
    rw [List.count_replicate_self, Nat.add_zero]
  · intro j hj; exact absurd hj (Nat.not_lt_zero _)
  · intro j hj; exact absurd hj (Nat.not_lt_zero _)
  · intro i j _ hj; exact absurd hj (Nat.not_lt_zero _)

/-- The copy loop of `valdict_grow_and_rehash` on `copies`. -/
theorem memo_rehash_loop (cs : Bool) (fuel : Nat) (D : valdict_t_) (hD : memo_wf D) :
    ∀ (n j : Nat) (N : valdict_t_) (mem : gcmem_t), memo_wf N → N.count = j →
      j + n = D.count → D.count ≤ N.item_capacity →
      (∀ i, i < j → N.keys.getD i { handle := 0 } = D.keys.getD i { handle := 0 }
        ∧ N.values.getD i { handle := 0 } = D.values.getD i { handle := 0 }) →
      (valdict_rehash_loop (valdict_set_aux cs (fuel + 1)) D n j N mem).1 = true
      ∧ (valdict_rehash_loop (valdict_set_aux cs (fuel + 1)) D n j N mem).2.2 = mem
      ∧ memo_wf (valdict_rehash_loop (valdict_set_aux cs (fuel + 1)) D n j N mem).2.1
      ∧ (valdict_rehash_loop (valdict_set_aux cs (fuel + 1)) D n j N mem).2.1.count = D.count
      ∧ (valdict_rehash_loop (valdict_set_aux cs (fuel + 1)) D n j N mem).2.1.item_capacity
          = N.item_capacity
      ∧ (valdict_rehash_loop (valdict_set_aux cs (fuel + 1)) D n j N mem).2.1.cell_capacity
          = N.cell_capacity
      ∧ (∀ i, i < D.count →
          (valdict_rehash_loop (valdict_set_aux cs (fuel + 1)) D n j N mem).2.1.keys.getD i
              { handle := 0 } = D.keys.getD i { handle := 0 }
          ∧ (valdict_rehash_loop (valdict_set_aux cs (fuel + 1)) D n j N mem).2.1.values.getD i
              { handle := 0 } = D.values.getD i { handle := 0 }) := by
  intro n
  induction n with
  | zero =>
    intro j N mem hN hc hj hcap hkv
    unfold valdict_rehash_loop
    dsimp only
    refine ⟨rfl, rfl, hN, by omega, rfl, rfl, ?_⟩
    intro i hi
    exact hkv i (by omega)
  | succ n ih =>
    intro j N mem hN hc hj hcap hkv
    unfold valdict_rehash_loop
    dsimp only
    have habs : ∀ i, i < N.count → N.keys.getD i { handle := 0 }
        ≠ D.keys.getD j { handle := 0 } := by
      intro i hi
      rw [(hkv i (by omega)).1]
      exact hD.distinct i j (by omega) (by omega)
    have hk := hD.handles j (by omega)
    rw [memo_set_room cs fuel mem N _ (D.values.getD j { handle := 0 }) hN (by omega) hk habs]
    simp only [if_true]
    obtain ⟨p1, p2, p3, p4, p5, p6, p7⟩ := memo_push_spec N (D.keys.getD j { handle := 0 })
      (D.values.getD j { handle := 0 }) hN (by omega) hk habs
    have := ih (j + 1) _ mem p1 (by rw [p2, hc]) (by omega) (by rw [p3]; exact hcap)
      (by
        intro i hi
        by_cases hij : i = j
        · rw [hij]
          rw [hc] at p5 p6
          exact ⟨p5, p6⟩
        · have h1 := p7 i (by omega)
          rw [h1.1, h1.2]
          exact hkv i (by omega))
    rw [p3, p4] at this
    exact this

/-- `valdict_set` on `copies` for a key not stored: the pair is appended, also when the
table grows, and the memory is not touched. -/
theorem memo_set_absent (cs : Bool) (mem : gcmem_t) (d : valdict_t_) (k v : object_t)
    (h : memo_wf d) (hk : k.handle < 2 ^ 64) (hcnt : d.count < 2 ^ 28)
    (habs : ∀ j, j < d.count → d.keys.getD j { handle := 0 } ≠ k) :
    ∃ d2, valdict_set cs mem d k v = (true, d2, mem) ∧ memo_wf d2
      ∧ d2.count = d.count + 1
      ∧ d2.keys.getD d.count { handle := 0 } = k
      ∧ d2.values.getD d.count { handle := 0 } = v
      ∧ (∀ i, i < d.count →
          d2.keys.getD i { handle := 0 } = d.keys.getD i { handle := 0 }
          ∧ d2.values.getD i { handle := 0 } = d.values.getD i { handle := 0 }) := by
  by_cases hroom : d.count < d.item_capacity
  · obtain ⟨p1, p2, p3, p4, p5, p6, p7⟩ := memo_push_spec d k v h hroom hk habs
    refine ⟨memo_push d k v, ?_, p1, p2, p5, p6, p7⟩
    unfold valdict_set
    exact memo_set_room cs (d.count + 1) mem d k v h hroom hk habs
  · have hfull : d.count = d.item_capacity := by have := h.count_le; omega
    obtain ⟨e, hcap, he⟩ := h.cap_pow
    have hic := h.item_cap
    have he28 : e ≤ 28 := by
      by_contra hcon
      have : 2 ^ 29 ≤ 2 ^ e := Nat.pow_le_pow_right (by decide) (by omega)
      rw [hcap] at hic
      omega
    have hcpos : 0 < d.cell_capacity := by rw [hcap]; exact Nat.pow_pos (by decide)
    have hclt : d.cell_capacity ≤ 2 ^ 28 := by
      rw [hcap]; exact Nat.pow_le_pow_right (by decide) he28
    have hnew : (if d.cell_capacity = 0 then DICT_INITIAL_SIZE
        else (d.cell_capacity * 2) % 2 ^ 32) = 2 ^ (e + 1) := by
      rw [if_neg (by omega), Nat.mod_eq_of_lt (by omega), hcap, Nat.pow_succ]
    have hfind := (memo_find_spec d k h hk).2 habs
    obtain ⟨t, ht1, ht2, ht3, ht4, ht5⟩ := memo_find_none_iff d k h hfind
    have hN0 := memo_wf_init (e + 1) (by omega)
    have hloop := memo_rehash_loop cs d.count d h d.count 0 (valdict_init (2 ^ (e + 1))) mem
      hN0 rfl (by omega)
      (by
        show d.count ≤ 2 ^ (e + 1) * 11744051 / 16777216
        rw [hfull, hic, hcap, Nat.pow_succ]
        omega)
      (fun i hi => absurd hi (Nat.not_lt_zero _))
    obtain ⟨l1, l2, l3, l4, l5, l6, l7⟩ := hloop
    have hroomN : (valdict_rehash_loop (valdict_set_aux cs (d.count + 1)) d d.count 0
        (valdict_init (2 ^ (e + 1))) mem).2.1.count
        < (valdict_rehash_loop (valdict_set_aux cs (d.count + 1)) d d.count 0
        (valdict_init (2 ^ (e + 1))) mem).2.1.item_capacity := by
      rw [l4, l5]
      show d.count < 2 ^ (e + 1) * 11744051 / 16777216
      have hg := (item_capacity_grows d.cell_capacity (by omega) (by omega)).1
      rw [Nat.mod_eq_of_lt (by omega), hcap, ← Nat.pow_succ] at hg
      rw [hfull, hic, hcap]
      exact hg
    have habsN : ∀ j, j < (valdict_rehash_loop (valdict_set_aux cs (d.count + 1)) d d.count 0
        (valdict_init (2 ^ (e + 1))) mem).2.1.count →
        (valdict_rehash_loop (valdict_set_aux cs (d.count + 1)) d d.count 0
        (valdict_init (2 ^ (e + 1))) mem).2.1.keys.getD j { handle := 0 } ≠ k := by
      intro j hj
      rw [l4] at hj
      rw [(l7 j hj).1]
      exact habs j hj
    obtain ⟨p1, p2, p3, p4, p5, p6, p7⟩ := memo_push_spec _ k v l3 hroomN hk habsN
    refine ⟨memo_push (valdict_rehash_loop (valdict_set_aux cs (d.count + 1)) d d.count 0
        (valdict_init (2 ^ (e + 1))) mem).2.1 k v, ?_, p1, ?_, ?_, ?_, ?_⟩
    · unfold valdict_set valdict_set_aux
      rw [hash_key_nofn cs mem d k h.no_hash]
      dsimp only
      unfold valdict_get_cell_ix
      dsimp only
      rw [get_cell_ix_loop_nofn cs d k _ _ h.no_equals]
      dsimp only
      rw [ht4]
      have hge : d.count ≥ d.item_capacity := by omega
      simp only [Bool.false_eq_true, if_false, hge, if_true]
      unfold valdict_grow_and_rehash_with
      dsimp only
      rw [hnew, h.no_hash, h.no_equals]
      have hinit : ({ valdict_init (2 ^ (e + 1)) with _keys_equals := none, _hash_key := none }
          : valdict_t_) = valdict_init (2 ^ (e + 1)) := rfl
      rw [hinit]
      simp only [l1, if_true, l2]
      rw [get_cell_ix_loop_nofn cs _ k _ _ l3.no_equals]
      rfl
    · rw [p2, l4]
    · rw [l4] at p5; exact p5
    · rw [l4] at p6; exact p6
    · intro i hi
      have := p7 i (by rw [l4]; exact hi)
      rw [this.1, this.2]
      exact l7 i hi

theorem valdict_make_eq : valdict_make_ = valdict_init (2 ^ 6) := by
  unfold valdict_make_ valdict_make_with_capacity
  have : upper_power_of_two ((DICT_INITIAL_SIZE * 2) % 2 ^ 32) = 2 ^ 6 := by decide
  rw [this]

theorem memo_wf_make : memo_wf valdict_make_ := by
  rw [valdict_make_eq]
  exact memo_wf_init 6 (by decide)


theorem deref_store_string (mem : gcmem_t) (p q : Nat) (s : object_string_t) :
    ((mem.store_string p s).deref q).string = if q = p then s else (mem.deref q).string := by
  unfold gcmem_t.store_string gcmem_t.store gcmem_t.deref
  by_cases h : q = p
  · simp [h, object_data_t.string]
  · simp [h]

/-- `object_string_append` keeps the cached hash of every body. -/
theorem string_append_hash (mem : gcmem_t) (obj : object_t) (src : List Nat) (len : Int)
    (q : Nat) :
    ((object_string_append mem obj src len).2.deref q).string.hash = (mem.deref q).string.hash := by
  unfold object_string_append
  dsimp only
  split
  · rfl
  · rw [deref_store_string]
    by_cases h : q = object_get_allocated_data obj
    · rw [if_pos h, h]
    · rw [if_neg h]

/-- `object_set_string_length` keeps the cached hash of every body. -/
theorem set_string_length_hash (mem : gcmem_t) (obj : object_t) (len : Int) (q : Nat) :
    ((object_set_string_length mem obj len).deref q).string.hash = (mem.deref q).string.hash := by
  unfold object_set_string_length
  dsimp only
  rw [deref_store_string]
  by_cases h : q = object_get_allocated_data obj
  · rw [if_pos h, h]
  · rw [if_neg h]

theorem string_prepare_hash (mem : gcmem_t) (data : Nat) (capacity : Int) :
    (object_string_prepare mem data capacity).1 = object_make_from_data OBJECT_STRING data
    ∧ ((object_string_prepare mem data capacity).2.deref data).string.hash = 0
    ∧ ((object_string_prepare mem data capacity).2.deref data).string.length = 0 := by
  unfold object_string_prepare object_data_string_reserve_capacity
  dsimp only
  split
  · split
    · simp [deref_store_string]
    · split
      · simp [deref_store_string]
      · simp [deref_store_string]
  · simp [deref_store_string]

/-- A String from `object_make_string_with_capacity` is empty and has no hash cached. -/
theorem make_string_with_capacity_hash (mem : gcmem_t) (capacity : Int) :
    ∃ p, (object_make_string_with_capacity mem capacity).1
        = object_make_from_data OBJECT_STRING p
      ∧ ((object_make_string_with_capacity mem capacity).2.deref p).string.hash = 0
      ∧ ((object_make_string_with_capacity mem capacity).2.deref p).string.length = 0 := by
  unfold object_make_string_with_capacity
  dsimp only
  split
  · rename_i data _
    exact ⟨data, string_prepare_hash _ _ _⟩
  · exact ⟨_, string_prepare_hash _ _ _⟩

theorem string_op_not_hash_keeps (cs : Bool) (obj : object_t) (op : string_op) (mem : gcmem_t)
    (h : op.is_hash = false) (q : Nat) :
    ((op.apply cs obj mem).deref q).string.hash = (mem.deref q).string.hash := by
  cases op with
  | append src len => exact string_append_hash mem obj src len q
  | set_length len => exact set_string_length_hash mem obj len q
  | get_hash => simp [string_op.is_hash] at h

theorem string_ops_not_hash_keep (cs : Bool) (obj : object_t) (q : Nat) :
    ∀ (ops : List string_op) (mem : gcmem_t), (∀ op ∈ ops, op.is_hash = false) →
      ((string_ops_apply cs obj ops mem).deref q).string.hash = (mem.deref q).string.hash := by
  intro ops
  induction ops with
  | nil => intro mem _; rfl
  | cons op ops ih =>
    intro mem h
    unfold string_ops_apply
    rw [List.foldl_cons]
    have := ih (op.apply cs obj mem) (fun o ho => h o (List.mem_cons_of_mem _ ho))
    unfold string_ops_apply at this
    rw [this]
    exact string_op_not_hash_keeps cs obj op mem (h op (List.mem_cons_self _ _)) q

/-- `object_get_string_hash` leaves the buffer and the length of every body as they are:
string bodies stay well formed and keep their bytes. -/
theorem get_string_hash_bytes (cs : Bool) (mem : gcmem_t) (obj : object_t) (q : Nat) :
    string_bytes ((object_get_string_hash cs mem obj).2.deref q).string
      = string_bytes (mem.deref q).string
    ∧ (string_wf (mem.deref q).string →
        string_wf ((object_get_string_hash cs mem obj).2.deref q).string) := by
  obtain ⟨_, hv, hl, _⟩ := get_string_hash_deref cs mem obj q
  constructor
  · unfold string_bytes
    rw [hv, hl]
  · intro h
    unfold string_wf string_bytes at h ⊢
    rw [hv, hl]
    exact h

/-- `object_get_string_hash` keeps the cache of a well-formed body valid: a hash that is
cached stays, and the hash it caches is djb2 of the bytes, or 1 where that is 0. -/
theorem get_string_hash_cache_ok (cs : Bool) (mem : gcmem_t) (obj : object_t) (q : Nat)
    (hwf : string_wf (mem.deref q).string)
    (hchar : cs = false ∨ ∀ c ∈ string_bytes (mem.deref q).string, c < 128)
    (h : hash_cache_ok (mem.deref q).string) :
    hash_cache_ok ((object_get_string_hash cs mem obj).2.deref q).string := by
  rcases get_string_hash_snd cs mem obj with h1 | ⟨s, hp, h0, h1⟩
  · rw [h1]; exact h
  · rw [h1]
    by_cases hq : q = object_get_allocated_data obj
    · subst hq
      have hs : (mem.deref (object_get_allocated_data obj)).string = s := by
        simp only [object_data_t.string, hp]
      rw [hs] at hwf hchar
      rw [deref_store_same]
      right
      simp only [object_data_t.string]
      have hb : string_bytes { s with hash := string_hash_val cs s } = string_bytes s := rfl
      rw [hb]
      unfold string_hash_val string_hash_of
      rw [if_pos h0, object_hash_string_eq_djb2 cs s hwf hchar]
    · rw [deref_store_other _ _ _ _ hq]; exact h

/-- After calls of `object_get_string_hash` only, a well-formed body with a valid cache
has a valid cache. -/
theorem string_ops_hash_ok (cs : Bool) (obj : object_t) (q : Nat) :
    ∀ (ops : List string_op) (mem : gcmem_t), (∀ op ∈ ops, op.is_hash = true) →
      string_wf (mem.deref q).string →
      (cs = false ∨ ∀ c ∈ string_bytes (mem.deref q).string, c < 128) →
      hash_cache_ok (mem.deref q).string →
      hash_cache_ok ((string_ops_apply cs obj ops mem).deref q).string := by
  intro ops
  induction ops with
  | nil => intro mem _ _ _ h; exact h
  | cons op ops ih =>
    intro mem h hwf hchar hok
    unfold string_ops_apply
    rw [List.foldl_cons]
    have hop := h op (List.mem_cons_self _ _)
    cases op with
    | append src len => simp [string_op.is_hash] at hop
    | set_length len => simp [string_op.is_hash] at hop
    | get_hash =>
      have hb := get_string_hash_bytes cs mem obj q
      refine ih _ (fun o ho => h o (List.mem_cons_of_mem _ ho)) (hb.2 hwf) ?_
        (get_string_hash_cache_ok cs mem obj q hwf hchar hok)
      show cs = false ∨ ∀ c ∈ string_bytes
        ((object_get_string_hash cs mem obj).2.deref q).string, c < 128
      rw [hb.1]
      exact hchar

/-- C11 (amended), the bytes of a string being the first `length` bytes of its buffer.
A String from `object_make_string_with_capacity` is empty and has the cached hash 0.
`object_string_append` and `object_set_string_length` never write the cached hash, so
they keep the invariant while the cached hash is 0.  `object_get_string_hash` on a
well-formed string (NUL after `length` bytes that are not NUL; bytes below 128, or
`char` unsigned) keeps the cache valid: the cached hash is 0, or djb2 of the bytes, or 1
where djb2 of the bytes is 0.  Hence operations on a String with cached hash 0 in which
only calls of `object_get_string_hash` come after the first such call, the string being
well formed at that call, leave the cache valid. -/
theorem C11_string_hash_cache (cs : Bool) (mem : gcmem_t) (obj : object_t) (q : Nat)
    (pre post : List string_op)
    (hpre : ∀ op ∈ pre, op.is_hash = false) (hpost : ∀ op ∈ post, op.is_hash = true)
    (h0 : (mem.deref q).string.hash = 0)
    (hwf : string_wf ((string_ops_apply cs obj pre mem).deref q).string)
    (hchar : cs = false
      ∨ ∀ c ∈ string_bytes ((string_ops_apply cs obj pre mem).deref q).string, c < 128) :
    (∀ capacity, ∃ p, (object_make_string_with_capacity mem capacity).1
        = object_make_from_data OBJECT_STRING p
      ∧ ((object_make_string_with_capacity mem capacity).2.deref p).string.hash = 0
      ∧ ((object_make_string_with_capacity mem capacity).2.deref p).string.length = 0)
    ∧ (∀ (m : gcmem_t) (o : object_t) (src : List Nat) (len : Int),
        ((object_string_append m o src len).2.deref q).string.hash = (m.deref q).string.hash)
    ∧ (∀ (m : gcmem_t) (o : object_t) (len : Int),
        ((object_set_string_length m o len).deref q).string.hash = (m.deref q).string.hash)
    ∧ (∀ (m : gcmem_t) (o : object_t), string_wf (m.deref q).string →
        (cs = false ∨ ∀ c ∈ string_bytes (m.deref q).string, c < 128) →
        hash_cache_ok (m.deref q).string →
        hash_cache_ok ((object_get_string_hash cs m o).2.deref q).string)
    ∧ ((string_ops_apply cs obj pre mem).deref q).string.hash = 0
    ∧ hash_cache_ok ((string_ops_apply cs obj (pre ++ post) mem).deref q).string := by
  have hp0 : ((string_ops_apply cs obj pre mem).deref q).string.hash = 0 := by
    rw [string_ops_not_hash_keep cs obj q pre mem hpre]
    exact h0
  refine ⟨?_, ?_, ?_, ?_, hp0, ?_⟩
  · intro capacity
    exact make_string_with_capacity_hash mem capacity
  · intro m o src len
    exact string_append_hash m o src len q
  · intro m o len
    exact set_string_length_hash m o len q
  · intro m o hw hc h
    exact get_string_hash_cache_ok cs m o q hw hc h
  · have happ : string_ops_apply cs obj (pre ++ post) mem
        = string_ops_apply cs obj post (string_ops_apply cs obj pre mem) := by
      unfold string_ops_apply
      rw [List.foldl_append]
    rw [happ]
    exact string_ops_hash_ok cs obj q post _ hpost hwf hchar (Or.inl hp0)

/-- C11 at a concrete input: the string "a", extended by "b" and then hashed twice. -/
theorem C11_string_hash_cache_witness :
    ((string_ops_apply true (object_make_from_data OBJECT_STRING 4096)
      [string_op.append [98] 1] (mem_one_string [97] 0)).deref 4096).string.hash = 0
    ∧ hash_cache_ok ((string_ops_apply true (object_make_from_data OBJECT_STRING 4096)
      ([string_op.append [98] 1] ++ [string_op.get_hash, string_op.get_hash])
      (mem_one_string [97] 0)).deref 4096).string :=
  (C11_string_hash_cache true (mem_one_string [97] 0) (object_make_from_data OBJECT_STRING 4096)
    4096 [string_op.append [98] 1] [string_op.get_hash, string_op.get_hash]
    (by decide) (by decide) (by decide) (by unfold string_wf; decide)
    (Or.inr (by decide))).2.2.2.2

/-- C11 as stated fails, in each of these ways.  After `object_get_string_hash` on the
string "a", appending "b" leaves the cached hash at djb2 of "a" while the bytes are "ab",
and `object_set_string_length` to 0 leaves it while the string has no bytes.  On the
13-byte string `%.4$7'2@-9:9'`, whose djb2 is 0, `object_get_string_hash` caches 1.
Where `char` is signed, the hash cached for the one-byte string 0x80 is not djb2 of its
bytes.  After `object_set_string_length` to 2 on the string "a", the hash cached is djb2
of "a", the buffer up to its NUL, while the string has the two bytes 0x61 0x00. -/
theorem C11_counterexample :
    hash_cache_spec ((mem_one_string [97] 0).deref 4096).string
    ∧ (((string_ops_apply false (object_make_from_data OBJECT_STRING 4096)
        [string_op.get_hash, string_op.append [98] 1] (mem_one_string [97] 0)).deref 4096).string.hash
        = djb2 [97]
      ∧ string_bytes ((string_ops_apply false (object_make_from_data OBJECT_STRING 4096)
        [string_op.get_hash, string_op.append [98] 1] (mem_one_string [97] 0)).deref 4096).string
        = [97, 98]
      ∧ ¬ hash_cache_spec ((string_ops_apply false (object_make_from_data OBJECT_STRING 4096)
        [string_op.get_hash, string_op.append [98] 1] (mem_one_string [97] 0)).deref 4096).string)
    ∧ (string_bytes ((string_ops_apply false (object_make_from_data OBJECT_STRING 4096)
        [string_op.get_hash, string_op.set_length 0] (mem_one_string [97] 0)).deref 4096).string
        = []
      ∧ ¬ hash_cache_spec ((string_ops_apply false (object_make_from_data OBJECT_STRING 4096)
        [string_op.get_hash, string_op.set_length 0] (mem_one_string [97] 0)).deref 4096).string)
    ∧ (djb2 [37, 46, 52, 36, 55, 39, 50, 64, 45, 57, 58, 57, 39] = 0
      ∧ ((string_ops_apply false (object_make_from_data OBJECT_STRING 4096)
        [string_op.get_hash]
        (mem_one_string [37, 46, 52, 36, 55, 39, 50, 64, 45, 57, 58, 57, 39] 0)).deref
          4096).string.hash = 1
      ∧ ¬ hash_cache_spec ((string_ops_apply false (object_make_from_data OBJECT_STRING 4096)
        [string_op.get_hash]
        (mem_one_string [37, 46, 52, 36, 55, 39, 50, 64, 45, 57, 58, 57, 39] 0)).deref
          4096).string)
    ∧ ¬ hash_cache_spec ((string_ops_apply true (object_make_from_data OBJECT_STRING 4096)
        [string_op.get_hash] (mem_one_string [128] 0)).deref 4096).string
    ∧ (string_bytes ((string_ops_apply false (object_make_from_data OBJECT_STRING 4096)
        [string_op.set_length 2, string_op.get_hash] (mem_one_string [97] 0)).deref 4096).string
        = [97, 0]
      ∧ ¬ hash_cache_spec ((string_ops_apply false (object_make_from_data OBJECT_STRING 4096)
        [string_op.set_length 2, string_op.get_hash] (mem_one_string [97] 0)).deref
          4096).string) := by
  unfold hash_cache_spec
  refine ⟨by decide, ⟨by decide, by decide, by decide⟩, ⟨by decide, by decide⟩,
    ⟨by decide, by decide, by decide⟩, by decide, ⟨by decide, by decide⟩⟩


theorem array_get_index_loop_outside (data count ptr : Nat)
    (hsep : ptr < data ∨ data + OBJECT_SIZE * count ≤ ptr) :
    ∀ (n i : Nat), array_get_index_loop data count ptr n i = -1 := by
  intro n
  induction n with
  | zero => intro i; rfl
  | succ n ih =>
    intro i
    unfold array_get_index_loop
    have hne : array_get_const_ptr data count i ≠ some ptr := by
      unfold array_get_const_ptr
      by_cases h : i ≥ count
      · rw [if_pos h]; exact fun h => by cases h
      · rw [if_neg h]
        intro heq
        have := Option.some.inj heq
        unfold OBJECT_SIZE at this hsep
        have hlt : i < count := by omega
        have : data + i * 8 < data + 8 * count := by omega
        omega
    rw [if_neg hne]
    exact ih (i + 1)

/-- A pointer outside the block of items is the address of no slot. -/
theorem array_get_index_outside (data count ptr : Nat)
    (hsep : ptr < data ∨ data + OBJECT_SIZE * count ≤ ptr) :
    array_get_index data count ptr = -1 :=
  array_get_index_loop_outside data count ptr hsep count 0

/-- C13 fails: `gc_disable_on_object` and `gc_enable_on_object` look for the address of
their own parameter `obj` among the addresses of the slots of `objects_not_gced`.  With
the parameter outside the block of items, as every parameter is, `gc_disable_on_object`
on an allocated value appends it (also when it is in the list already) and
`gc_enable_on_object` leaves the list as it is, so the value stays in the list. -/
theorem C13_enable_keeps_pinned (mem : gcmem_t) (v : object_t)
    (items_addr obj_addr items_addr2 obj_addr2 : Nat)
    (hv : object_is_allocated v = true)
    (hsep : obj_addr < items_addr
      ∨ items_addr + OBJECT_SIZE * mem.objects_not_gced.length ≤ obj_addr)
    (hsep2 : obj_addr2 < items_addr2
      ∨ items_addr2 + OBJECT_SIZE * (mem.objects_not_gced.length + 1) ≤ obj_addr2) :
    gc_disable_on_object mem items_addr obj_addr v
      = (true, { mem with objects_not_gced := mem.objects_not_gced ++ [v] })
    ∧ gc_enable_on_object (gc_disable_on_object mem items_addr obj_addr v).2
        items_addr2 obj_addr2 v
      = (gc_disable_on_object mem items_addr obj_addr v).2
    ∧ v ∈ (gc_enable_on_object (gc_disable_on_object mem items_addr obj_addr v).2
        items_addr2 obj_addr2 v).objects_not_gced := by
  have h1 : gc_disable_on_object mem items_addr obj_addr v
      = (true, { mem with objects_not_gced := mem.objects_not_gced ++ [v] }) := by
    unfold gc_disable_on_object array_contains
    rw [array_get_index_outside _ _ _ hsep]
    simp [hv]
  have h2 : gc_enable_on_object (gc_disable_on_object mem items_addr obj_addr v).2
        items_addr2 obj_addr2 v
      = (gc_disable_on_object mem items_addr obj_addr v).2 := by
    rw [h1]
    unfold gc_enable_on_object array_remove_item
    dsimp only
    rw [List.length_append, List.length_singleton, array_get_index_outside _ _ _ hsep2]
    simp [hv]
  refine ⟨h1, h2, ?_⟩
  rw [h2, h1]
  simp

/-- C13 at a concrete input: the empty array of `mem_example` is exempted and the exemption
is taken back, with the items of the list at 8192 and the parameters at 1048576. -/
theorem C13_enable_keeps_pinned_witness :
    example_array ∈ (gc_enable_on_object
      (gc_disable_on_object mem_example 8192 1048576 example_array).2
        8192 1048576 example_array).objects_not_gced :=
  (C13_enable_keeps_pinned mem_example example_array 8192 1048576 8192 1048576 (by decide)
    (Or.inr (by decide)) (Or.inr (by decide))).2.2


theorem mark_rel_refl (mem : gcmem_t) : mark_rel mem mem :=
  ⟨rfl, fun _ => ⟨rfl, rfl, fun h => h⟩⟩

theorem mark_rel_trans (m1 m2 m3 : gcmem_t) (h1 : mark_rel m1 m2) (h2 : mark_rel m2 m3) :
    mark_rel m1 m3 := by
  refine ⟨?_, ?_⟩
  · rw [h2.1, h1.1]
  · intro q
    obtain ⟨a1, a2, a3⟩ := h1.2 q
    obtain ⟨b1, b2, b3⟩ := h2.2 q
    exact ⟨b1.trans a1, b2.trans a2, fun h => b3 (a3 h)⟩

theorem gc_child_mark_rel (m1 m2 : gcmem_t) (h : mark_rel m1 m2) (p : Nat) (c : object_t) :
    gc_child m2 p c ↔ gc_child m1 p c := by
  obtain ⟨a1, a2, _⟩ := h.2 p
  unfold gc_child object_data_t.map object_data_t.array object_data_t.function
  rw [a1, a2]

theorem mark_rel_store (mem : gcmem_t) (p : Nat) :
    mark_rel mem (mem.store p { mem.deref p with gcmark := true }) := by
  refine ⟨rfl, ?_⟩
  intro q
  by_cases hq : q = p
  · subst hq
    rw [deref_store_same]
    exact ⟨rfl, rfl, fun _ => rfl⟩
  · rw [deref_store_other _ _ _ _ hq]
    exact ⟨rfl, rfl, fun h => h⟩

theorem gc_unmarked_count_le (O : List Nat) (m1 m2 : gcmem_t) (h : mark_rel m1 m2) :
    gc_unmarked_count O m2 ≤ gc_unmarked_count O m1 := by
  unfold gc_unmarked_count
  apply List.countP_mono_left
  intro p _ hp
  cases hm : (m1.deref p).gcmark with
  | false => rfl
  | true =>
    rw [(h.2 p).2.2 hm] at hp
    exact absurd hp (by decide)

theorem gc_unmarked_count_lt (O : List Nat) (m1 m2 : gcmem_t) (h : mark_rel m1 m2) (p : Nat)
    (hp : p ∈ O) (h1 : (m1.deref p).gcmark = false) (h2 : (m2.deref p).gcmark = true) :
    gc_unmarked_count O m2 < gc_unmarked_count O m1 := by
  unfold gc_unmarked_count
  induction O with
  | nil => exact absurd hp (List.not_mem_nil _)
  | cons a O ih =>
    rw [List.countP_cons, List.countP_cons]
    have hle := gc_unmarked_count_le O m1 m2 h
    unfold gc_unmarked_count at hle
    by_cases ha : a = p
    · subst ha
      rw [h1, h2]
      simp only [Bool.not_true, Bool.false_eq_true, if_false, Bool.not_false, if_true]
      omega
    · have hpO : p ∈ O := by
        rcases List.mem_cons.mp hp with h3 | h3
        · exact absurd h3.symm ha
        · exact h3
      have := ih hpO
      have hmono : (if (!(m2.deref a).gcmark) = true then 1 else 0)
          ≤ (if (!(m1.deref a).gcmark) = true then 1 else 0) := by
        cases hm : (m1.deref a).gcmark with
        | false =>
          simp only [Bool.not_false, if_true]
          split <;> omega
        | true => rw [(h.2 a).2.2 hm]
      omega

theorem gc_mark_if_unmarked (O : List Nat) (G : Nat → Prop) (base : gcmem_t)
    (rec : gcmem_t → object_t → Option gcmem_t) (h : rec_marks O G base rec)
    (m : gcmem_t) (c : object_t) (hm : mark_rel base m) (hg : gray_closed O G m)
    (hc : object_is_allocated c = true → object_get_allocated_data c ∈ O) :
    ∃ m2, (if gc_unmarked m c then rec m c else some m) = some m2 ∧ mark_rel m m2
      ∧ gray_closed O G m2
      ∧ (object_is_allocated c = true →
          (m2.deref (object_get_allocated_data c)).gcmark = true) := by
  by_cases hu : gc_unmarked m c = true
  · rw [if_pos hu]
    exact h m c hm hg hc
  · rw [if_neg hu]
    refine ⟨m, rfl, mark_rel_refl m, hg, ?_⟩
    intro ha
    unfold gc_unmarked at hu
    rw [ha] at hu
    simpa using hu

theorem gc_mark_array_loop_spec (O : List Nat) (G : Nat → Prop) (base : gcmem_t)
    (rec : gcmem_t → object_t → Option gcmem_t) (h : rec_marks O G base rec) (obj : object_t)
    (hch : ∀ c ∈ (base.deref (object_get_allocated_data obj)).array.items,
      object_is_allocated c = true → object_get_allocated_data c ∈ O) :
    ∀ (n i : Nat) (m : gcmem_t), mark_rel base m → gray_closed O G m →
      i + n = (base.deref (object_get_allocated_data obj)).array.items.length →
      ∃ m2, gc_mark_array_loop rec obj n (i : Int) m = some m2 ∧ mark_rel m m2
        ∧ gray_closed O G m2
        ∧ ∀ j, i ≤ j → j < i + n →
          object_is_allocated ((base.deref (object_get_allocated_data obj)).array.items.getD j
            object_make_null) = true →
          (m2.deref (object_get_allocated_data
            ((base.deref (object_get_allocated_data obj)).array.items.getD j
              object_make_null))).gcmark = true := by
  intro n
  induction n with
  | zero =>
    intro i m hm hg _
    exact ⟨m, rfl, mark_rel_refl m, hg, fun j h1 h2 => by omega⟩
  | succ n ih =>
    intro i m hm hg hlen
    unfold gc_mark_array_loop
    dsimp only
    have hval : object_get_array_value_at m obj (i : Int)
        = (base.deref (object_get_allocated_data obj)).array.items.getD i object_make_null := by
      have hpay : (m.deref (object_get_allocated_data obj)).array
          = (base.deref (object_get_allocated_data obj)).array := by
        unfold object_data_t.array
        rw [(hm.2 _).1]
      unfold object_get_array_value_at
      dsimp only
      rw [hpay]
      have : ¬ ((i : Int) < 0 ∨ (i : Int) ≥ array_count
          (base.deref (object_get_allocated_data obj)).array) := by
        unfold array_count
        omega
      rw [if_neg this, Int.toNat_ofNat]
    rw [hval]
    have hc : object_is_allocated ((base.deref (object_get_allocated_data obj)).array.items.getD i
        object_make_null) = true →
        object_get_allocated_data ((base.deref (object_get_allocated_data obj)).array.items.getD i
          object_make_null) ∈ O := by
      intro ha
      apply hch _ _ ha
      rw [List.getD_eq_getElem _ _ (by omega)]
      exact List.getElem_mem _
    obtain ⟨m1, e1, r1, g1, k1⟩ := gc_mark_if_unmarked O G base rec h m _ hm hg hc
    rw [e1]
    dsimp only
    obtain ⟨m2, e2, r2, g2, k2⟩ := ih (i + 1) m1 (mark_rel_trans _ _ _ hm r1) g1 (by omega)
    have hcast : ((i : Int) + 1) = ((i + 1 : Nat) : Int) := by push_cast; rfl
    rw [hcast, e2]
    refine ⟨m2, rfl, mark_rel_trans _ _ _ r1 r2, g2, ?_⟩
    intro j h1 h2 ha
    by_cases hj : j = i
    · subst hj
      exact (r2.2 _).2.2 (k1 ha)
    · exact k2 j (by omega) (by omega) ha

theorem gc_mark_map_loop_spec (O : List Nat) (G : Nat → Prop) (base : gcmem_t)
    (rec : gcmem_t → object_t → Option gcmem_t) (h : rec_marks O G base rec) (obj : object_t)
    (hch : ∀ j, j < (base.deref (object_get_allocated_data obj)).map.count →
      (object_is_allocated ((base.deref (object_get_allocated_data obj)).map.keys.getD j
          { handle := 0 }) = true →
        object_get_allocated_data ((base.deref (object_get_allocated_data obj)).map.keys.getD j
          { handle := 0 }) ∈ O)
      ∧ (object_is_allocated ((base.deref (object_get_allocated_data obj)).map.values.getD j
          { handle := 0 }) = true →
        object_get_allocated_data ((base.deref (object_get_allocated_data obj)).map.values.getD j
          { handle := 0 }) ∈ O)) :
    ∀ (n i : Nat) (m : gcmem_t), mark_rel base m → gray_closed O G m →
      i + n = (base.deref (object_get_allocated_data obj)).map.count →
      ∃ m2, gc_mark_map_loop rec obj n i m = some m2 ∧ mark_rel m m2
        ∧ gray_closed O G m2
        ∧ ∀ j, i ≤ j → j < i + n →
          (object_is_allocated ((base.deref (object_get_allocated_data obj)).map.keys.getD j
              { handle := 0 }) = true →
            (m2.deref (object_get_allocated_data
              ((base.deref (object_get_allocated_data obj)).map.keys.getD j
                { handle := 0 }))).gcmark = true)
          ∧ (object_is_allocated ((base.deref (object_get_allocated_data obj)).map.values.getD j
              { handle := 0 }) = true →
            (m2.deref (object_get_allocated_data
              ((base.deref (object_get_allocated_data obj)).map.values.getD j
                { handle := 0 }))).gcmark = true) := by
  intro n
  induction n with
  | zero =>
    intro i m hm hg _
    exact ⟨m, rfl, mark_rel_refl m, hg, fun j h1 h2 => by omega⟩
  | succ n ih =>
    intro i m hm hg hlen
    unfold gc_mark_map_loop
    dsimp only
    have hpay : ∀ m', mark_rel base m' → (m'.deref (object_get_allocated_data obj)).map
        = (base.deref (object_get_allocated_data obj)).map := by
      intro m' hm'
      unfold object_data_t.map
      rw [(hm'.2 _).1]
    have hkey : object_get_map_key_at m obj i
        = (base.deref (object_get_allocated_data obj)).map.keys.getD i { handle := 0 } := by
      rw [map_key_at_eq m obj _ i (hpay m hm), if_neg (by omega)]
    rw [hkey]
    obtain ⟨m1, e1, r1, g1, k1⟩ := gc_mark_if_unmarked O G base rec h m _ hm hg
      (hch i (by omega)).1
    rw [e1]
    dsimp only
    have hm1 := mark_rel_trans _ _ _ hm r1
    have hval : object_get_map_value_at m1 obj i
        = (base.deref (object_get_allocated_data obj)).map.values.getD i { handle := 0 } := by
      rw [map_value_at_eq m1 obj _ i (hpay m1 hm1), if_neg (by omega)]
    rw [hval]
    obtain ⟨m1b, e1b, r1b, g1b, k1b⟩ := gc_mark_if_unmarked O G base rec h m1 _ hm1 g1
      (hch i (by omega)).2
    rw [e1b]
    dsimp only
    have hm1b := mark_rel_trans _ _ _ hm1 r1b
    obtain ⟨m2, e2, r2, g2, k2⟩ := ih (i + 1) m1b hm1b g1b (by omega)
    rw [e2]
    refine ⟨m2, rfl, mark_rel_trans _ _ _ r1 (mark_rel_trans _ _ _ r1b r2), g2, ?_⟩
    intro j h1 h2
    by_cases hj : j = i
    · subst hj
      exact ⟨fun ha => (r2.2 _).2.2 ((r1b.2 _).2.2 (k1 ha)), fun ha => (r2.2 _).2.2 (k1b ha)⟩
    · exact k2 j (by omega) (by omega)

theorem gc_mark_free_vals_loop_spec (O : List Nat) (G : Nat → Prop) (base : gcmem_t)
    (rec : gcmem_t → object_t → Option gcmem_t) (h : rec_marks O G base rec) (obj : object_t)
    (hch : ∀ j : Nat, (j : Int) < (base.deref (object_get_allocated_data obj)).function.free_vals_count →
      object_is_allocated ((base.deref (object_get_allocated_data obj)).function.free_vals.getD j
          { handle := 0 }) = true →
        object_get_allocated_data
          ((base.deref (object_get_allocated_data obj)).function.free_vals.getD j
            { handle := 0 }) ∈ O) :
    ∀ (n i : Nat) (m : gcmem_t), mark_rel base m → gray_closed O G m →
      ((base.deref (object_get_allocated_data obj)).function.free_vals_count - (i : Int)).toNat + 1
        ≤ n →
      ∃ m2, gc_mark_free_vals_loop rec obj n (i : Int) m = some m2 ∧ mark_rel m m2
        ∧ gray_closed O G m2
        ∧ ∀ j : Nat, i ≤ j →
          (j : Int) < (base.deref (object_get_allocated_data obj)).function.free_vals_count →
          object_is_allocated
            ((base.deref (object_get_allocated_data obj)).function.free_vals.getD j
              { handle := 0 }) = true →
          (m2.deref (object_get_allocated_data
            ((base.deref (object_get_allocated_data obj)).function.free_vals.getD j
              { handle := 0 }))).gcmark = true := by
  intro n
  induction n with
  | zero =>
    intro i m hm hg hn
    omega
  | succ n ih =>
    intro i m hm hg hn
    unfold gc_mark_free_vals_loop
    have hpay : (m.deref (object_get_allocated_data obj)).function
        = (base.deref (object_get_allocated_data obj)).function := by
      unfold object_data_t.function
      rw [(hm.2 _).1]
    have hfn : object_get_function m obj
        = (base.deref (object_get_allocated_data obj)).function := by
      unfold object_get_function
      exact hpay
    rw [hfn]
    by_cases hi : (i : Int) < (base.deref (object_get_allocated_data obj)).function.free_vals_count
    · rw [if_pos hi]
      dsimp only
      have hval : object_get_function_free_val m obj (i : Int)
          = (base.deref (object_get_allocated_data obj)).function.free_vals.getD i
              { handle := 0 } := by
        unfold object_get_function_free_val
        dsimp only
        rw [hfn]
        have : ¬ ((i : Int) < 0
            ∨ (i : Int) ≥ (base.deref (object_get_allocated_data obj)).function.free_vals_count) := by
          omega
        rw [if_neg this, Int.toNat_ofNat]
      rw [hval]
      obtain ⟨m1, e1, r1, g1, k1⟩ := h m _ hm hg (hch i hi)
      rw [e1]
      dsimp only
      have hm1 := mark_rel_trans _ _ _ hm r1
      obtain ⟨m1b, e1b, r1b, g1b, k1b⟩ := gc_mark_if_unmarked O G base rec h m1 _ hm1 g1
        (hch i hi)
      rw [e1b]
      dsimp only
      have hm1b := mark_rel_trans _ _ _ hm1 r1b
      obtain ⟨m2, e2, r2, g2, k2⟩ := ih (i + 1) m1b hm1b g1b (by push_cast; omega)
      have hcast : ((i : Int) + 1) = ((i + 1 : Nat) : Int) := by push_cast; rfl
      rw [hcast, e2]
      refine ⟨m2, rfl, mark_rel_trans _ _ _ r1 (mark_rel_trans _ _ _ r1b r2), g2, ?_⟩
      intro j h1 h2 ha
      by_cases hj : j = i
      · subst hj
        exact (r2.2 _).2.2 (k1b ha)
      · exact k2 j (by omega) h2 ha
    · rw [if_neg hi]
      refine ⟨m, rfl, mark_rel_refl m, hg, ?_⟩
      intro j h1 h2
      omega


theorem gray_closed_mark (O : List Nat) (G : Nat → Prop) (mem : gcmem_t) (p : Nat)
    (hg : gray_closed O G mem) :
    gray_closed O (fun q => G q ∨ q = p) (mem.store p { mem.deref p with gcmark := true }) := by
  have hr := mark_rel_store mem p
  intro q hq hmq hnG c hc ha
  have hqp : q ≠ p := fun h => hnG (Or.inr h)
  rw [deref_store_other _ _ _ _ hqp] at hmq
  have := hg q hq hmq (fun h => hnG (Or.inl h)) c ((gc_child_mark_rel _ _ hr q c).mp hc) ha
  exact (hr.2 _).2.2 this

theorem gray_closed_finish (O : List Nat) (G : Nat → Prop) (m2 : gcmem_t) (p : Nat)
    (hg : gray_closed O (fun q => G q ∨ q = p) m2)
    (hp : ∀ c, gc_child m2 p c → object_is_allocated c = true →
      (m2.deref (object_get_allocated_data c)).gcmark = true) :
    gray_closed O G m2 := by
  intro q hq hmq hnG c hc ha
  by_cases hqp : q = p
  · subst hqp
    exact hp c hc ha
  · exact hg q hq hmq (fun h => h.elim hnG hqp) c hc ha

theorem gc_child_none (mem : gcmem_t) (p : Nat) (c : object_t)
    (h1 : (mem.deref p).type ≠ OBJECT_MAP) (h2 : (mem.deref p).type ≠ OBJECT_ARRAY)
    (h3 : (mem.deref p).type ≠ OBJECT_FUNCTION) : ¬ gc_child mem p c := by
  unfold gc_child
  cases h : (mem.deref p).type <;> simp_all

/-- `gc_mark_object` with enough fuel returns, only sets mark bits, marks the body of
its argument and keeps `gray_closed`. -/
theorem gc_mark_object_spec (O : List Nat) (B : Nat) (base0 : gcmem_t)
    (hcl : gc_closed base0 O)
    (hB : ∀ p ∈ O, (base0.deref p).function.free_vals_count.toNat ≤ B) :
    ∀ (fuel : Nat) (G : Nat → Prop) (mem : gcmem_t) (obj : object_t),
      mark_rel base0 mem → gray_closed O G mem →
      (object_is_allocated obj = true → object_get_allocated_data obj ∈ O) →
      gc_unmarked_count O mem + B + 1 ≤ fuel →
      ∃ m2, gc_mark_object fuel mem obj = some m2 ∧ mark_rel mem m2 ∧ gray_closed O G m2
        ∧ (object_is_allocated obj = true →
            (m2.deref (object_get_allocated_data obj)).gcmark = true) := by
  intro fuel
  induction fuel with
  | zero => intro G mem obj _ _ _ hf; omega
  | succ fuel ih =>
    intro G mem obj hm hg hobj hf
    unfold gc_mark_object
    by_cases ha : object_is_allocated obj = true
    swap
    · rw [if_pos (by simpa using ha)]
      exact ⟨mem, rfl, mark_rel_refl mem, hg, fun h => absurd h ha⟩
    rw [if_neg (by simpa using ha)]
    dsimp only
    by_cases hmk : (mem.deref (object_get_allocated_data obj)).gcmark = true
    · rw [if_pos hmk]
      exact ⟨mem, rfl, mark_rel_refl mem, hg, fun _ => hmk⟩
    rw [if_neg hmk]
    have hpO := hobj ha
    generalize hp : object_get_allocated_data obj = p at *
    have hr1 := mark_rel_store mem p
    have hg1 := gray_closed_mark O G mem p hg
    generalize hmem1 : mem.store p { mem.deref p with gcmark := true } = mem1 at *
    have hb1 := mark_rel_trans _ _ _ hm hr1
    have hmk1 : (mem1.deref p).gcmark = true := by
      rw [← hmem1, deref_store_same]
    have hlt : gc_unmarked_count O mem1 < gc_unmarked_count O mem :=
      gc_unmarked_count_lt O mem mem1 hr1 p hpO (by simpa using hmk) hmk1
    have hrec : rec_marks O (fun q => G q ∨ q = p) mem1 (gc_mark_object fuel) := by
      intro m c hmm hgm hc
      have hle := gc_unmarked_count_le O mem1 m hmm
      exact ih _ m c (mark_rel_trans _ _ _ hb1 hmm) hgm hc (by omega)
    have hchild : ∀ c, gc_child mem1 p c → object_is_allocated c = true →
        object_get_allocated_data c ∈ O := by
      intro c hc hca
      exact hcl p hpO c ((gc_child_mark_rel _ _ hb1 p c).mp hc) hca
    have hty1 : (mem1.deref p).type = (mem.deref p).type := (hr1.2 p).2.1
    have hfinish : ∀ m2, mark_rel mem1 m2 → gray_closed O (fun q => G q ∨ q = p) m2 →
        (∀ c, gc_child mem1 p c → object_is_allocated c = true →
          (m2.deref (object_get_allocated_data c)).gcmark = true) →
        mark_rel mem m2 ∧ gray_closed O G m2
          ∧ (object_is_allocated obj = true → (m2.deref p).gcmark = true) := by
      intro m2 hr2 hg2 hall
      refine ⟨mark_rel_trans _ _ _ hr1 hr2, ?_, fun _ => (hr2.2 p).2.2 hmk1⟩
      apply gray_closed_finish O G m2 p hg2
      intro c hc hca
      exact hall c ((gc_child_mark_rel _ _ hr2 p c).mp hc) hca
    by_cases htm : (mem.deref p).type = OBJECT_MAP
    · rw [htm]
      dsimp only
      have hlen : object_get_map_length mem1 obj = (mem1.deref p).map.count := by
        unfold object_get_map_length valdict_count
        rw [hp]
      rw [hlen]
      obtain ⟨m2, e2, r2, g2, k2⟩ := gc_mark_map_loop_spec O _ mem1 _ hrec obj
        (by
          rw [hp]
          intro j hj
          constructor
          · intro hca
            apply hchild _ _ hca
            unfold gc_child
            rw [hty1, htm]
            exact ⟨j, hj, Or.inl rfl⟩
          · intro hca
            apply hchild _ _ hca
            unfold gc_child
            rw [hty1, htm]
            exact ⟨j, hj, Or.inr rfl⟩)
        (mem1.deref p).map.count 0 mem1 (mark_rel_refl _) hg1 (by rw [hp]; omega)
      refine ⟨m2, e2, ?_⟩
      apply hfinish m2 r2 g2
      intro c hc hca
      unfold gc_child at hc
      rw [hty1, htm] at hc
      obtain ⟨i, hi, hci⟩ := hc
      rw [hp] at k2
      rcases hci with hci | hci
      · rw [hci] at hca ⊢
        exact (k2 i (Nat.zero_le _) (by omega)).1 hca
      · rw [hci] at hca ⊢
        exact (k2 i (Nat.zero_le _) (by omega)).2 hca
    by_cases hta : (mem.deref p).type = OBJECT_ARRAY
    · rw [hta]
      dsimp only
      have hlen : (object_get_array_length mem1 obj).toNat
          = (mem1.deref p).array.items.length := by
        unfold object_get_array_length array_count
        rw [hp, Int.toNat_ofNat]
      rw [hlen]
      obtain ⟨m2, e2, r2, g2, k2⟩ := gc_mark_array_loop_spec O _ mem1 _ hrec obj
        (by
          rw [hp]
          intro c hc hca
          apply hchild _ _ hca
          unfold gc_child
          rw [hty1, hta]
          exact hc)
        (mem1.deref p).array.items.length 0 mem1 (mark_rel_refl _) hg1 (by rw [hp]; omega)
      refine ⟨m2, e2, ?_⟩
      apply hfinish m2 r2 g2
      intro c hc hca
      unfold gc_child at hc
      rw [hty1, hta] at hc
      dsimp only at hc
      obtain ⟨i, hi, hci⟩ := List.mem_iff_getElem.mp hc
      rw [hp] at k2
      have := k2 i (Nat.zero_le _) (by omega)
      rw [List.getD_eq_getElem _ _ hi, hci] at this
      exact this hca
    by_cases htf : (mem.deref p).type = OBJECT_FUNCTION
    · rw [htf]
      dsimp only
      have hBp : (mem1.deref p).function.free_vals_count.toNat ≤ B := by
        have := hB p hpO
        have hpay : (mem1.deref p).function = (base0.deref p).function := by
          unfold object_data_t.function
          rw [(hb1.2 p).1]
        rw [hpay]
        exact this
      obtain ⟨m2, e2, r2, g2, k2⟩ := gc_mark_free_vals_loop_spec O _ mem1 _ hrec obj
        (by
          rw [hp]
          intro j hj hca
          apply hchild _ _ hca
          unfold gc_child
          rw [hty1, htf]
          exact ⟨j, hj, rfl⟩)
        fuel 0 mem1 (mark_rel_refl _) hg1
        (by
          rw [hp]
          simp only [Nat.cast_zero, sub_zero]
          omega)
      refine ⟨m2, e2, ?_⟩
      apply hfinish m2 r2 g2
      intro c hc hca
      unfold gc_child at hc
      rw [hty1, htf] at hc
      obtain ⟨i, hi, hci⟩ := hc
      rw [hp] at k2
      rw [hci] at hca ⊢
      exact k2 i (Nat.zero_le _) hi hca
    · refine ⟨mem1, ?_, ?_⟩
      · split
        · rename_i h; exact absurd h htm
        · rename_i h; exact absurd h hta
        · rename_i h; exact absurd h htf
        · rfl
      · apply hfinish mem1 (mark_rel_refl _) hg1
        intro c hc
        exact absurd hc (gc_child_none mem1 p c (by rw [hty1]; exact htm)
          (by rw [hty1]; exact hta) (by rw [hty1]; exact htf))

theorem gc_mark_objects_spec (O : List Nat) (B : Nat) (base0 : gcmem_t)
    (hcl : gc_closed base0 O)
    (hB : ∀ p ∈ O, (base0.deref p).function.free_vals_count.toNat ≤ B) (fuel : Nat)
    (hfuel : O.length + B + 1 ≤ fuel) (G : Nat → Prop) :
    ∀ (roots : List object_t) (mem : gcmem_t),
      mark_rel base0 mem → gray_closed O G mem →
      (∀ o ∈ roots, object_is_allocated o = true → object_get_allocated_data o ∈ O) →
      ∃ m2, gc_mark_objects fuel roots mem = some m2 ∧ mark_rel mem m2 ∧ gray_closed O G m2
        ∧ (∀ o ∈ roots, object_is_allocated o = true →
            (m2.deref (object_get_allocated_data o)).gcmark = true) := by
  intro roots
  induction roots with
  | nil =>
    intro mem hm hg _
    exact ⟨mem, rfl, mark_rel_refl mem, hg, fun o ho => absurd ho (List.not_mem_nil _)⟩
  | cons r roots ih =>
    intro mem hm hg hr
    unfold gc_mark_objects
    have hU : gc_unmarked_count O mem ≤ O.length := List.countP_le_length _
    obtain ⟨m1, e1, r1, g1, k1⟩ := gc_mark_object_spec O B base0 hcl hB fuel G mem r hm hg
      (hr r (List.mem_cons_self _ _)) (by omega)
    rw [e1]
    dsimp only
    obtain ⟨m2, e2, r2, g2, k2⟩ := ih m1 (mark_rel_trans _ _ _ hm r1) g1
      (fun o ho => hr o (List.mem_cons_of_mem _ ho))
    rw [e2]
    refine ⟨m2, rfl, mark_rel_trans _ _ _ r1 r2, g2, ?_⟩
    intro o ho ha
    rcases List.mem_cons.mp ho with h | h
    · rw [h]
      rw [h] at ha
      exact (r2.2 _).2.2 (k1 ha)
    · exact k2 o h ha

/-- With every marked body of `O` holding only values with marked bodies and the roots
marked, every body reachable from the roots is marked. -/
theorem gc_reach_marked (O : List Nat) (base m : gcmem_t) (roots : List object_t)
    (hm : mark_rel base m) (hg : gray_closed O (fun _ => False) m)
    (hO : ∀ p, gc_reach base roots p → p ∈ O)
    (hroots : ∀ o ∈ roots, object_is_allocated o = true →
      (m.deref (object_get_allocated_data o)).gcmark = true) :
    ∀ p, gc_reach base roots p → (m.deref p).gcmark = true := by
  intro p hp
  induction hp with
  | root o ho ha => exact hroots o ho ha
  | step q c hq hc ha ih =>
    exact hg q (hO q hq) ih (fun h => h) c ((gc_child_mark_rel _ _ hm q c).mpr hc) ha


theorem gc_child_congr (m1 m2 : gcmem_t) (p : Nat) (c : object_t)
    (h1 : (m2.deref p).payload = (m1.deref p).payload)
    (h2 : (m2.deref p).type = (m1.deref p).type) :
    gc_child m2 p c ↔ gc_child m1 p c := by
  unfold gc_child object_data_t.map object_data_t.array object_data_t.function
  rw [h1, h2]

theorem gc_unmark_loop_spec :
    ∀ (l : List Nat) (m : gcmem_t),
      l.foldl (fun m p => m.store p { m.deref p with gcmark := false }) m
        = { m with data := (l.foldl (fun m p => m.store p { m.deref p with gcmark := false })
            m).data }
      ∧ ∀ q, ((l.foldl (fun m p => m.store p { m.deref p with gcmark := false }) m).deref
            q).payload = (m.deref q).payload
        ∧ ((l.foldl (fun m p => m.store p { m.deref p with gcmark := false }) m).deref q).type
            = (m.deref q).type
        ∧ (q ∈ l → ((l.foldl (fun m p => m.store p { m.deref p with gcmark := false })
            m).deref q).gcmark = false)
        ∧ ((m.deref q).gcmark = false → ((l.foldl
            (fun m p => m.store p { m.deref p with gcmark := false }) m).deref q).gcmark
              = false) := by
  intro l
  induction l with
  | nil =>
    intro m
    exact ⟨rfl, fun q => ⟨rfl, rfl, fun h => absurd h (List.not_mem_nil _), fun h => h⟩⟩
  | cons a l ih =>
    intro m
    rw [List.foldl_cons]
    obtain ⟨h1, h2⟩ := ih (m.store a { m.deref a with gcmark := false })
    refine ⟨?_, ?_⟩
    · rw [h1]
      rfl
    · intro q
      obtain ⟨a1, a2, a3, a4⟩ := h2 q
      by_cases hq : q = a
      · subst hq
        rw [deref_store_same] at a1 a2 a4
        exact ⟨a1, a2, fun _ => a4 rfl, fun _ => a4 rfl⟩
      · rw [deref_store_other _ _ _ _ hq] at a1 a2 a4
        refine ⟨a1, a2, ?_, a4⟩
        intro hm
        rcases List.mem_cons.mp hm with h | h
        · exact absurd h hq
        · exact a3 h

theorem gc_unmark_all_spec (mem : gcmem_t) :
    gc_unmark_all mem = { mem with data := (gc_unmark_all mem).data }
    ∧ ∀ q, ((gc_unmark_all mem).deref q).payload = (mem.deref q).payload
      ∧ ((gc_unmark_all mem).deref q).type = (mem.deref q).type
      ∧ (q ∈ mem.objects → ((gc_unmark_all mem).deref q).gcmark = false) := by
  obtain ⟨h1, h2⟩ := gc_unmark_loop_spec mem.objects mem
  unfold gc_unmark_all
  exact ⟨h1, fun q => ⟨(h2 q).1, (h2 q).2.1, (h2 q).2.2.1⟩⟩

theorem pool_put_deref (mem : gcmem_t) (t : object_type_t) (p q : Nat) :
    (pool_put mem t p).deref q = mem.deref q := by
  unfold pool_put
  cases t <;> rfl

theorem pool_put_mem (mem : gcmem_t) (t : object_type_t) (p : Nat) :
    (pool_put mem t p).objects_back = mem.objects_back
    ∧ (pool_put mem t p).objects = mem.objects
    ∧ (pool_put mem t p).data_only_pool = mem.data_only_pool
    ∧ (∀ q ∈ (pool_put mem t p).pool_array, q ∈ mem.pool_array ∨ q = p)
    ∧ (∀ q ∈ (pool_put mem t p).pool_map, q ∈ mem.pool_map ∨ q = p)
    ∧ (∀ q ∈ (pool_put mem t p).pool_string, q ∈ mem.pool_string ∨ q = p) := by
  unfold pool_put
  cases t <;> simp <;> tauto

theorem object_data_deinit_gcmark (data : object_data_t) :
    (object_data_deinit data).gcmark = data.gcmark := by
  unfold object_data_deinit
  cases data.type <;> rfl

theorem deref_free (mem : gcmem_t) (p q : Nat) :
    (mem.free p).deref q = if q = p then object_data_zero else mem.deref q := by
  unfold gcmem_t.free gcmem_t.deref
  by_cases h : q = p <;> simp [h]

theorem gc_sweep_step_inv (mm : gcmem_t) (done : List Nat) (st : gcmem_t) (p : Nat)
    (h : sweep_inv mm done st) : sweep_inv mm (done ++ [p]) (gc_sweep_step st p) := by
  unfold gc_sweep_step
  dsimp only
  by_cases hmk : (st.deref p).gcmark = true
  · rw [if_pos hmk]
    have hmm := h.marks p hmk
    refine ⟨h.kept, h.marks, ?_, h.pool_a, h.pool_m, h.pool_s, h.pool_d, h.objects_eq⟩
    intro q
    show q ∈ st.objects_back ++ [p] ↔ _
    rw [List.mem_append, List.mem_append, h.back q, List.mem_singleton]
    constructor
    · rintro (⟨h1, h2⟩ | h1)
      · exact ⟨Or.inl h1, h2⟩
      · rw [h1]; exact ⟨Or.inr rfl, hmm⟩
    · rintro ⟨h1 | h1, h2⟩
      · exact Or.inl ⟨h1, h2⟩
      · exact Or.inr h1
  · rw [if_neg hmk]
    have hmm : (mm.deref p).gcmark = false := by
      cases hc : (mm.deref p).gcmark with
      | false => rfl
      | true =>
        have := h.kept p hc
        rw [this] at hmk
        exact absurd hc hmk
    have hback : ∀ (ob : List Nat), ob = st.objects_back →
        ∀ q, q ∈ ob ↔ q ∈ done ++ [p] ∧ (mm.deref q).gcmark = true := by
      intro ob hob q
      rw [hob, h.back q, List.mem_append, List.mem_singleton]
      constructor
      · rintro ⟨h1, h2⟩
        exact ⟨Or.inl h1, h2⟩
      · rintro ⟨h1 | h1, h2⟩
        · exact ⟨h1, h2⟩
        · rw [h1, hmm] at h2
          exact absurd h2 (by decide)
    by_cases hpool : can_data_be_put_in_pool st p = true
    · rw [if_pos hpool]
      obtain ⟨p1, p2, p3, p4, p5, p6⟩ := pool_put_mem st (st.deref p).type p
      refine ⟨?_, ?_, hback _ p1, ?_, ?_, ?_, ?_, ?_⟩
      · intro q hq
        rw [pool_put_deref]
        exact h.kept q hq
      · intro q hq
        rw [pool_put_deref] at hq
        exact h.marks q hq
      · intro q hq
        rcases p4 q hq with h1 | h1
        · exact h.pool_a q h1
        · rw [h1]; exact Or.inr hmm
      · intro q hq
        rcases p5 q hq with h1 | h1
        · exact h.pool_m q h1
        · rw [h1]; exact Or.inr hmm
      · intro q hq
        rcases p6 q hq with h1 | h1
        · exact h.pool_s q h1
        · rw [h1]; exact Or.inr hmm
      · rw [p3]; exact h.pool_d
      · rw [p2]; exact h.objects_eq
    · rw [if_neg hpool]
      have hkept1 : ∀ q, (mm.deref q).gcmark = true →
          (st.store p (object_data_deinit (st.deref p))).deref q = mm.deref q := by
        intro q hq
        have hqp : q ≠ p := by
          intro hqp
          rw [hqp, hmm] at hq
          exact absurd hq (by decide)
        rw [deref_store_other _ _ _ _ hqp]
        exact h.kept q hq
      have hmarks1 : ∀ q, ((st.store p (object_data_deinit (st.deref p))).deref q).gcmark = true →
          (mm.deref q).gcmark = true := by
        intro q hq
        by_cases hqp : q = p
        · rw [hqp, deref_store_same, object_data_deinit_gcmark] at hq
          exact absurd hq hmk
        · rw [deref_store_other _ _ _ _ hqp] at hq
          exact h.marks q hq
      by_cases hd : (st.store p (object_data_deinit (st.deref p))).data_only_pool.length
          < GCMEM_POOL_SIZE
      · rw [if_pos hd]
        refine ⟨hkept1, hmarks1, hback _ rfl, h.pool_a, h.pool_m, h.pool_s, ?_, h.objects_eq⟩
        intro q hq
        have hq2 : q ∈ st.data_only_pool ++ [p] := hq
        rcases List.mem_append.mp hq2 with h1 | h1
        · exact h.pool_d q h1
        · rw [List.mem_singleton.mp h1]; exact Or.inr hmm
      · rw [if_neg hd]
        refine ⟨?_, ?_, hback _ rfl, h.pool_a, h.pool_m, h.pool_s, h.pool_d, h.objects_eq⟩
        · intro q hq
          have hqp : q ≠ p := by
            intro hqp
            rw [hqp, hmm] at hq
            exact absurd hq (by decide)
          rw [deref_free, if_neg hqp]
          exact hkept1 q hq
        · intro q hq
          rw [deref_free] at hq
          by_cases hqp : q = p
          · rw [if_pos hqp] at hq
            exact absurd hq (by decide)
          · rw [if_neg hqp] at hq
            exact hmarks1 q hq

theorem gc_sweep_loop_inv (mm : gcmem_t) :
    ∀ (l done : List Nat) (st : gcmem_t), sweep_inv mm done st →
      sweep_inv mm (done ++ l) (l.foldl gc_sweep_step st) := by
  intro l
  induction l with
  | nil => intro done st h; rw [List.append_nil]; exact h
  | cons a l ih =>
    intro done st h
    rw [List.foldl_cons]
    have := ih (done ++ [a]) _ (gc_sweep_step_inv mm done st a h)
    rw [List.append_assoc] at this
    exact this


theorem gc_reach_congr (m1 m2 : gcmem_t) (roots : List object_t)
    (h : ∀ q, (m2.deref q).payload = (m1.deref q).payload
      ∧ (m2.deref q).type = (m1.deref q).type) :
    ∀ p, gc_reach m1 roots p → gc_reach m2 roots p := by
  intro p hp
  induction hp with
  | root o ho ha => exact gc_reach.root o ho ha
  | step q c _ hc ha ih =>
    exact gc_reach.step q c ih ((gc_child_congr m1 m2 q c (h q).1 (h q).2).mpr hc) ha

theorem le_foldl_max (l : List Nat) : ∀ (a : Nat), a ≤ l.foldl max a ∧ ∀ x ∈ l, x ≤ l.foldl max a := by
  induction l with
  | nil => intro a; exact ⟨le_refl _, fun x hx => absurd hx (List.not_mem_nil _)⟩
  | cons b l ih =>
    intro a
    rw [List.foldl_cons]
    obtain ⟨h1, h2⟩ := ih (max a b)
    refine ⟨le_trans (le_max_left a b) h1, ?_⟩
    intro x hx
    rcases List.mem_cons.mp hx with h | h
    · rw [h]; exact le_trans (le_max_right a b) h1
    · exact h2 x h

theorem free_vals_bound_le (mem : gcmem_t) (O : List Nat) (p : Nat) (hp : p ∈ O) :
    (mem.deref p).function.free_vals_count.toNat ≤ free_vals_bound mem O := by
  unfold free_vals_bound
  exact (le_foldl_max _ 0).2 _ (List.mem_map_of_mem _ hp)

/-- One phase of marking. -/
theorem gc_mark_phase (O : List Nat) (B : Nat) (base0 : gcmem_t)
    (hcl : gc_closed base0 O)
    (hB : ∀ p ∈ O, (base0.deref p).function.free_vals_count.toNat ≤ B) (fuel : Nat)
    (hfuel : O.length + B + 1 ≤ fuel) (S l : List object_t) (m : gcmem_t)
    (hs : gc_marked_state base0 O S m)
    (hl : ∀ o ∈ l, object_is_allocated o = true → object_get_allocated_data o ∈ O) :
    ∃ m2, gc_mark_objects fuel l m = some m2 ∧ gc_marked_state base0 O (S ++ l) m2 := by
  obtain ⟨h1, h2, h3⟩ := hs
  obtain ⟨m2, e2, r2, g2, k2⟩ := gc_mark_objects_spec O B base0 hcl hB fuel hfuel _ l m h1 h2 hl
  refine ⟨m2, e2, mark_rel_trans _ _ _ h1 r2, g2, ?_⟩
  intro o ho ha
  rcases List.mem_append.mp ho with h | h
  · exact (r2.2 _).2.2 (h3 o h ha)
  · exact k2 o h ha

theorem gc_mark_phase_one (O : List Nat) (B : Nat) (base0 : gcmem_t)
    (hcl : gc_closed base0 O)
    (hB : ∀ p ∈ O, (base0.deref p).function.free_vals_count.toNat ≤ B) (fuel : Nat)
    (hfuel : O.length + B + 1 ≤ fuel) (S : List object_t) (x : object_t) (m : gcmem_t)
    (hs : gc_marked_state base0 O S m)
    (hl : object_is_allocated x = true → object_get_allocated_data x ∈ O) :
    ∃ m2, gc_mark_object fuel m x = some m2 ∧ gc_marked_state base0 O (S ++ [x]) m2 := by
  obtain ⟨h1, h2, h3⟩ := hs
  have hU : gc_unmarked_count O m ≤ O.length := List.countP_le_length _
  obtain ⟨m2, e2, r2, g2, k2⟩ := gc_mark_object_spec O B base0 hcl hB fuel _ m x h1 h2 hl
    (by omega)
  refine ⟨m2, e2, mark_rel_trans _ _ _ h1 r2, g2, ?_⟩
  intro o ho ha
  rcases List.mem_append.mp ho with h | h
  · exact (r2.2 _).2.2 (h3 o h ha)
  · rw [List.mem_singleton.mp h] at ha ⊢
    exact k2 ha


theorem mark_rel_fields (m1 m2 : gcmem_t) (h : mark_rel m1 m2) :
    m2.objects = m1.objects ∧ m2.objects_not_gced = m1.objects_not_gced
    ∧ m2.pool_array = m1.pool_array ∧ m2.pool_map = m1.pool_map
    ∧ m2.pool_string = m1.pool_string ∧ m2.data_only_pool = m1.data_only_pool := by
  rw [h.1]
  exact ⟨rfl, rfl, rfl, rfl, rfl, rfl⟩

/-- The collection returns and keeps what is reachable. -/
theorem run_gc_mem_spec (vm : vm_t) (constants store_objects : List object_t) (fuel : Nat)
    (hreach : ∀ p, gc_reach vm.mem (gc_roots vm constants store_objects) p →
      p ∈ vm.mem.objects)
    (hfuel : vm.mem.objects.length + free_vals_bound vm.mem vm.mem.objects + 1 ≤ fuel) :
    ∃ mem2, run_gc_mem fuel vm constants store_objects = some mem2
      ∧ (∀ p, gc_reach vm.mem (gc_roots vm constants store_objects) p →
          p ∈ mem2.objects
          ∧ (mem2.deref p).payload = (vm.mem.deref p).payload
          ∧ (mem2.deref p).type = (vm.mem.deref p).type
          ∧ (p ∈ mem2.pool_array → p ∈ vm.mem.pool_array)
          ∧ (p ∈ mem2.pool_map → p ∈ vm.mem.pool_map)
          ∧ (p ∈ mem2.pool_string → p ∈ vm.mem.pool_string)
          ∧ (p ∈ mem2.data_only_pool → p ∈ vm.mem.data_only_pool))
      ∧ (∀ q ∈ mem2.objects, (mem2.deref q).gcmark = true ∧ q ∈ vm.mem.objects) := by
  classical
  obtain ⟨hu1, hu2⟩ := gc_unmark_all_spec vm.mem
  generalize hmem0 : gc_unmark_all vm.mem = mem0 at hu1 hu2
  have hsame : ∀ q, (mem0.deref q).payload = (vm.mem.deref q).payload
      ∧ (mem0.deref q).type = (vm.mem.deref q).type := fun q => ⟨(hu2 q).1, (hu2 q).2.1⟩
  generalize hroots : gc_roots vm constants store_objects = roots at hreach
  generalize hO : vm.mem.objects.filter (fun p => decide (gc_reach vm.mem roots p)) = O
  have hOmem : ∀ p, p ∈ O ↔ p ∈ vm.mem.objects ∧ gc_reach vm.mem roots p := by
    intro p
    rw [← hO, List.mem_filter, decide_eq_true_eq]
  have hOin : ∀ p, gc_reach vm.mem roots p → p ∈ O := fun p hp => (hOmem p).mpr ⟨hreach p hp, hp⟩
  have hcl : gc_closed mem0 O := by
    intro p hp c hc ha
    apply hOin
    exact gc_reach.step p c ((hOmem p).mp hp).2
      ((gc_child_congr vm.mem mem0 p c (hsame p).1 (hsame p).2).mp hc) ha
  have hB : ∀ p ∈ O, (mem0.deref p).function.free_vals_count.toNat
      ≤ free_vals_bound vm.mem vm.mem.objects := by
    intro p hp
    have hpay : (mem0.deref p).function = (vm.mem.deref p).function := by
      unfold object_data_t.function
      rw [(hsame p).1]
    rw [hpay]
    exact free_vals_bound_le vm.mem vm.mem.objects p ((hOmem p).mp hp).1
  have hlen : O.length ≤ vm.mem.objects.length := by
    rw [← hO]; exact List.length_filter_le _ _
  have hf : O.length + free_vals_bound vm.mem vm.mem.objects + 1 ≤ fuel := by omega
  have hs0 : gc_marked_state mem0 O [] mem0 := by
    refine ⟨mark_rel_refl _, ?_, fun o ho => absurd ho (List.not_mem_nil _)⟩
    intro p hp hmk
    rw [(hu2 p).2.2 ((hOmem p).mp hp).1] at hmk
    exact absurd hmk (by decide)
  have hroot : ∀ o ∈ roots, object_is_allocated o = true → object_get_allocated_data o ∈ O :=
    fun o ho ha => hOin _ (gc_reach.root o ho ha)
  have hsub : ∀ l : List object_t, (∀ o ∈ l, o ∈ roots) →
      ∀ o ∈ l, object_is_allocated o = true → object_get_allocated_data o ∈ O :=
    fun l hl o ho ha => hroot o (hl o ho) ha
  unfold run_gc_mem
  dsimp only
  rw [hmem0]
  obtain ⟨m1, e1, s1⟩ := gc_mark_phase O _ mem0 hcl hB fuel hf [] store_objects mem0 hs0
    (hsub _ (by intro o ho; rw [← hroots]; unfold gc_roots; simp only [List.mem_append]; tauto))
  rw [e1]
  dsimp only
  obtain ⟨m2, e2, s2⟩ := gc_mark_phase O _ mem0 hcl hB fuel hf _ constants m1 s1
    (hsub _ (by intro o ho; rw [← hroots]; unfold gc_roots; simp only [List.mem_append]; tauto))
  rw [e2]
  dsimp only
  obtain ⟨m3, e3, s3⟩ := gc_mark_phase O _ mem0 hcl hB fuel hf _
    (array_first vm.globals vm.globals_count) m2 s2
    (hsub _ (by intro o ho; rw [← hroots]; unfold gc_roots; simp only [List.mem_append]; tauto))
  rw [e3]
  dsimp only
  obtain ⟨m4, e4, s4⟩ := gc_mark_phase O _ mem0 hcl hB fuel hf _
    ((array_first vm.frames vm.frames_count).map fun f => f.function) m3 s3
    (hsub _ (by intro o ho; rw [← hroots]; unfold gc_roots; simp only [List.mem_append]; tauto))
  rw [e4]
  dsimp only
  obtain ⟨m5, e5, s5⟩ := gc_mark_phase O _ mem0 hcl hB fuel hf _
    (array_first vm.stack vm.sp) m4 s4
    (hsub _ (by intro o ho; rw [← hroots]; unfold gc_roots; simp only [List.mem_append]; tauto))
  rw [e5]
  dsimp only
  obtain ⟨m6, e6, s6⟩ := gc_mark_phase O _ mem0 hcl hB fuel hf _
    (array_first vm.this_stack vm.this_sp) m5 s5
    (hsub _ (by intro o ho; rw [← hroots]; unfold gc_roots; simp only [List.mem_append]; tauto))
  rw [e6]
  dsimp only
  obtain ⟨m7, e7, s7⟩ := gc_mark_phase_one O _ mem0 hcl hB fuel hf _ vm.last_popped m6 s6
    (hroot _ (by rw [← hroots]; unfold gc_roots; simp only [List.mem_append, List.mem_singleton]; tauto))
  rw [e7]
  dsimp only
  obtain ⟨m8, e8, s8⟩ := gc_mark_phase O _ mem0 hcl hB fuel hf _
    (opcode_all.map vm.operator_oveload_keys) m7 s7
    (hsub _ (by intro o ho; rw [← hroots]; unfold gc_roots; simp only [List.mem_append]; tauto))
  rw [e8]
  dsimp only
  unfold gc_sweep
  have hf0 : mem0.objects = vm.mem.objects ∧ mem0.objects_not_gced = vm.mem.objects_not_gced
      ∧ mem0.pool_array = vm.mem.pool_array ∧ mem0.pool_map = vm.mem.pool_map
      ∧ mem0.pool_string = vm.mem.pool_string ∧ mem0.data_only_pool = vm.mem.data_only_pool := by
    rw [hu1]
    exact ⟨rfl, rfl, rfl, rfl, rfl, rfl⟩
  have hf8 := mark_rel_fields _ _ s8.1
  have hpin : m8.objects_not_gced = vm.mem.objects_not_gced := by rw [hf8.2.1, hf0.2.1]
  rw [hpin]
  obtain ⟨mm, e9, s9⟩ := gc_mark_phase O _ mem0 hcl hB fuel hf _ vm.mem.objects_not_gced m8 s8
    (hsub _ (by intro o ho; rw [← hroots]; unfold gc_roots; simp only [List.mem_append]; tauto))
  rw [e9]
  dsimp only
  have hfm := mark_rel_fields _ _ s9.1
  have hmarked : ∀ p, gc_reach vm.mem roots p → (mm.deref p).gcmark = true := by
    intro p hp
    apply gc_reach_marked O mem0 mm roots s9.1 s9.2.1
      (fun q hq => hOin q (gc_reach_congr mem0 vm.mem roots
        (fun r => ⟨(hsame r).1.symm, (hsame r).2.symm⟩) q hq))
      ?_ p (gc_reach_congr vm.mem mem0 roots hsame p hp)
    intro o ho ha
    apply s9.2.2 o ?_ ha
    rw [← hroots] at ho
    unfold gc_roots at ho
    simp only [List.mem_append, List.mem_singleton] at ho ⊢
    simp only [List.not_mem_nil, false_or]
    exact ho
  have hinv0 : sweep_inv mm [] { mm with objects_back := [] } := by
    refine ⟨fun q _ => rfl, fun q h => h, ?_, fun q h => Or.inl h, fun q h => Or.inl h,
      fun q h => Or.inl h, fun q h => Or.inl h, rfl⟩
    intro q
    constructor
    · intro h; exact absurd h (List.not_mem_nil _)
    · intro h; exact absurd h.1 (List.not_mem_nil _)
  have hinv := gc_sweep_loop_inv mm mm.objects [] _ hinv0
  rw [List.nil_append] at hinv
  generalize hst : List.foldl gc_sweep_step { mm with objects_back := [] } mm.objects = st
    at hinv ⊢
  refine ⟨_, rfl, ?_, ?_⟩
  · intro p hp
    have hpm := hmarked p hp
    have hk := hinv.kept p hpm
    have hpo : p ∈ mm.objects := by
      rw [hfm.1, hf0.1]; exact hreach p hp
    refine ⟨(hinv.back p).mpr ⟨hpo, hpm⟩, ?_, ?_, ?_, ?_, ?_, ?_⟩
    · show (st.deref p).payload = _
      rw [hk, (s9.1.2 p).1, (hsame p).1]
    · show (st.deref p).type = _
      rw [hk, (s9.1.2 p).2.1, (hsame p).2]
    · intro h
      rcases hinv.pool_a p h with h1 | h1
      · rw [hfm.2.2.1, hf0.2.2.1] at h1; exact h1
      · rw [hpm] at h1; exact absurd h1 (by decide)
    · intro h
      rcases hinv.pool_m p h with h1 | h1
      · rw [hfm.2.2.2.1, hf0.2.2.2.1] at h1; exact h1
      · rw [hpm] at h1; exact absurd h1 (by decide)
    · intro h
      rcases hinv.pool_s p h with h1 | h1
      · rw [hfm.2.2.2.2.1, hf0.2.2.2.2.1] at h1; exact h1
      · rw [hpm] at h1; exact absurd h1 (by decide)
    · intro h
      rcases hinv.pool_d p h with h1 | h1
      · rw [hfm.2.2.2.2.2, hf0.2.2.2.2.2] at h1; exact h1
      · rw [hpm] at h1; exact absurd h1 (by decide)
  · intro q hq
    have hq2 := (hinv.back q).mp hq
    constructor
    · show (st.deref q).gcmark = true
      rw [hinv.kept q hq2.2]
      exact hq2.2
    · have := hq2.1
      rw [hfm.1, hf0.1] at this
      exact this


theorem gc_reach_in (mem : gcmem_t) (roots : List object_t) (O : List Nat)
    (h1 : ∀ o ∈ roots, object_is_allocated o = true → object_get_allocated_data o ∈ O)
    (h2 : gc_closed mem O) : ∀ p, gc_reach mem roots p → p ∈ O := by
  intro p hp
  induction hp with
  | root o ho ha => exact h1 o ho ha
  | step q c _ hc ha ih => exact h2 q ih c hc ha

/-- C12: when every body reachable from the roots of `run_gc` (the objects of the global
store, the constants, the globals below `globals_count`, the functions of the frames below
`frames_count`, the stack below `sp`, the this-stack below `this_sp`, `last_popped`, the
operator-overload keys and the values exempt from collection) through array elements, map
keys and values and free values of functions is in the active object list, `run_gc`
returns (also on cyclic structures), and then every such body is still in the active list,
holds what it held (it was not deinitialised) and was put in no pool; every body in the
active list is marked and was in the active list before. -/
theorem C12_gc_keeps_reachable (vm : vm_t) (constants store_objects : List object_t)
    (fuel : Nat)
    (hreach : ∀ p, gc_reach vm.mem (gc_roots vm constants store_objects) p →
      p ∈ vm.mem.objects)
    (hfuel : vm.mem.objects.length + free_vals_bound vm.mem vm.mem.objects + 1 ≤ fuel) :
    ∃ vm2, run_gc fuel vm constants store_objects = some vm2
      ∧ vm2 = { vm with mem := vm2.mem }
      ∧ (∀ p, gc_reach vm.mem (gc_roots vm constants store_objects) p →
          p ∈ vm2.mem.objects
          ∧ (vm2.mem.deref p).payload = (vm.mem.deref p).payload
          ∧ (vm2.mem.deref p).type = (vm.mem.deref p).type
          ∧ (p ∈ vm2.mem.pool_array → p ∈ vm.mem.pool_array)
          ∧ (p ∈ vm2.mem.pool_map → p ∈ vm.mem.pool_map)
          ∧ (p ∈ vm2.mem.pool_string → p ∈ vm.mem.pool_string)
          ∧ (p ∈ vm2.mem.data_only_pool → p ∈ vm.mem.data_only_pool))
      ∧ (∀ q ∈ vm2.mem.objects, (vm2.mem.deref q).gcmark = true ∧ q ∈ vm.mem.objects) := by
  obtain ⟨mem2, e, h1, h2⟩ := run_gc_mem_spec vm constants store_objects fuel hreach hfuel
  refine ⟨{ vm with mem := mem2 }, ?_, rfl, h1, h2⟩
  unfold run_gc
  rw [e]

theorem gc_example_closed : gc_closed mem_gc_example [4096, 4160, 4224] := by
  intro p hp c hc ha
  simp only [List.mem_cons, List.mem_singleton, List.not_mem_nil, or_false] at hp
  rcases hp with hp | hp | hp
  · subst hp
    have ht : (mem_gc_example.deref 4096).type = OBJECT_ARRAY := by decide
    have hi : (mem_gc_example.deref 4096).array.items
        = [example_cycle, object_make_from_data OBJECT_STRING 4160] := by decide
    unfold gc_child at hc
    rw [ht] at hc
    dsimp only at hc
    rw [hi] at hc
    simp only [List.mem_cons, List.mem_singleton, List.not_mem_nil, or_false] at hc
    rcases hc with hc | hc
    · subst hc; decide
    · subst hc; decide
  · subst hp
    have ht : (mem_gc_example.deref 4160).type = OBJECT_STRING := by decide
    unfold gc_child at hc
    rw [ht] at hc
    exact absurd hc (fun h => h)
  · subst hp
    have ht : (mem_gc_example.deref 4224).type = OBJECT_MAP := by decide
    have hn : (mem_gc_example.deref 4224).map.count = 0 := by decide
    unfold gc_child at hc
    rw [ht] at hc
    dsimp only at hc
    rw [hn] at hc
    obtain ⟨i, hi, _⟩ := hc
    exact absurd hi (Nat.not_lt_zero _)

theorem gc_example_reach : ∀ p, gc_reach vm_gc_example.mem (gc_roots vm_gc_example [] []) p →
    p ∈ vm_gc_example.mem.objects := by
  apply gc_reach_in _ _ _ ?_ gc_example_closed
  decide

/-- C12 at a concrete input: a machine whose stack holds an array that holds itself and a
string, with an empty map that nothing points to.  The collection returns; the array and
the string stay in the active list and the map goes to the pool of maps. -/
theorem C12_gc_keeps_reachable_witness :
    ∃ vm2, run_gc 10 vm_gc_example [] [] = some vm2
      ∧ 4096 ∈ vm2.mem.objects ∧ 4160 ∈ vm2.mem.objects
      ∧ (vm2.mem.deref 4096).payload = (mem_gc_example.deref 4096).payload
      ∧ 4224 ∉ vm2.mem.objects ∧ vm2.mem.pool_map = [4224] := by
  obtain ⟨vm2, e, _, h1, h2⟩ := C12_gc_keeps_reachable vm_gc_example [] [] 10 gc_example_reach
    (by decide)
  have r1 : gc_reach vm_gc_example.mem (gc_roots vm_gc_example [] []) 4096 :=
    gc_reach.root example_cycle (by decide) (by decide)
  have r2 : gc_reach vm_gc_example.mem (gc_roots vm_gc_example [] []) 4160 :=
    gc_reach.step 4096 (object_make_from_data OBJECT_STRING 4160) r1 (by
      unfold gc_child
      have ht : (vm_gc_example.mem.deref 4096).type = OBJECT_ARRAY := by decide
      rw [ht]
      decide) (by decide)
  have hev : (run_gc 10 vm_gc_example [] []).map
      (fun v => (v.mem.objects, v.mem.pool_map)) = some ([4096, 4160], [4224]) := by decide
  rw [e] at hev
  have hev2 := Option.some.inj hev
  have ho : vm2.mem.objects = [4096, 4160] := congrArg Prod.fst hev2
  have hpm : vm2.mem.pool_map = [4224] := congrArg Prod.snd hev2
  refine ⟨vm2, e, (h1 4096 r1).1, (h1 4160 r2).1, (h1 4096 r1).2.1, ?_, hpm⟩
  rw [ho]
  decide


theorem errors_add_error_pos (errors : errors_t) (type : error_type_t) (pos : src_pos_t)
    (message : String) : errors_get_count (errors_add_error errors type pos message) > 0 := by
  unfold errors_add_error
  split
  · rename_i h
    unfold ERRORS_MAX_COUNT at h
    omega
  · unfold errors_get_count
    simp

theorem errors_add_errorf_pos (errors : errors_t) (type : error_type_t) (pos : src_pos_t)
    (message : String) : errors_get_count (errors_add_errorf errors type pos message) > 0 := by
  unfold errors_add_errorf
  exact errors_add_error_pos _ _ _ _

theorem call_object_frames_full (dbg : Bool) (natives : native_call_t) (vm : vm_t)
    (callee : object_t) (n : Int) (hfull : vm.frames_count ≥ VM_MAX_FRAMES)
    (hfn : object_get_type vm.mem callee = OBJECT_FUNCTION) :
    (call_object dbg natives vm callee n).1 = false
    ∧ (call_object dbg natives vm callee n).2
        = { vm with errors := (call_object dbg natives vm callee n).2.errors }
    ∧ errors_get_count (call_object dbg natives vm callee n).2.errors > 0
    ∧ (n = (object_get_function vm.mem callee).num_args →
        (call_object dbg natives vm callee n).2.errors
          = errors_add_error vm.errors ERROR_RUNTIME src_pos_invalid
              "Pushing frame failed in call_object") := by
  by_cases hargs : n ≠ (object_get_function vm.mem callee).num_args
  · have h : call_object dbg natives vm callee n
        = (false, { vm with errors := (errors_add_errorf vm.errors ERROR_RUNTIME
            (vm_src_position vm)
            ("Invalid number of arguments to \"" ++ object_get_function_name vm.mem callee
              ++ "\", expected " ++ toString (object_get_function vm.mem callee).num_args
              ++ ", got " ++ toString n)) }) := by
      unfold call_object
      simp only [hfn, if_true, hargs, ne_eq, not_false_eq_true]
    rw [h]
    exact ⟨rfl, rfl, errors_add_errorf_pos _ _ _ _, fun h => absurd h hargs⟩
  · have h : call_object dbg natives vm callee n
        = (false, { vm with errors := (errors_add_error vm.errors ERROR_RUNTIME src_pos_invalid
            "Pushing frame failed in call_object") }) := by
      unfold call_object
      have hframe : frame_init vm.mem callee (vm.sp - n)
          = some { function := callee, ip := 0, base_pointer := vm.sp - n, src_ip := 0,
                   bytecode := (object_get_function vm.mem callee).comp_result.bytecode,
                   src_positions := some (object_get_function vm.mem callee).comp_result.src_positions,
                   bytecode_size := (object_get_function vm.mem callee).comp_result.count,
                   recover_ip := -1, is_recovering := false } := by
        unfold frame_init
        simp only [hfn, ne_eq, not_true_eq_false, if_false]
      simp only [hfn, if_true, hargs, if_false, hframe]
      unfold push_frame
      simp only [hfull, if_true, Bool.false_eq_true, if_false]
    rw [h]
    exact ⟨rfl, rfl, errors_add_error_pos _ _ _ _, fun _ => rfl⟩

theorem vm_set_current_fields (vm : vm_t) (f : frame_t) :
    (vm_set_current vm f).sp = vm.sp ∧ (vm_set_current vm f).stack = vm.stack
    ∧ (vm_set_current vm f).mem = vm.mem ∧ (vm_set_current vm f).errors = vm.errors
    ∧ (vm_set_current vm f).frames_count = vm.frames_count
    ∧ (vm_set_current vm f).current_frame = vm.current_frame := by
  unfold vm_set_current
  split <;> exact ⟨rfl, rfl, rfl, rfl, rfl, rfl⟩

theorem vm_set_current_frames (vm : vm_t) (f : frame_t) (c : Int)
    (hcur : vm.current_frame = some c) :
    (vm_set_current vm f).frames c = f
    ∧ ∀ i, i ≠ c → (vm_set_current vm f).frames i = vm.frames i := by
  unfold vm_set_current
  rw [hcur]
  refine ⟨?_, ?_⟩
  · simp only [if_true]
  · intro i hi
    simp only [hi, if_false]

/-- C15: `OPCODE_CALL` on a user function with `VM_MAX_FRAMES` frames in use goes to `err`:
no frame is pushed, `frames_count`, the current frame, the stack and the memory are as
before (the current frame has read the operand), and an error is in the error list:
"Invalid number of arguments ..." when the count of arguments does not fit, else
"Pushing frame failed in call_object". -/
theorem C15_call_frames_full (dbg : Bool) (natives : native_call_t) (vm : vm_t) (c n : Int)
    (hcur : vm.current_frame = some c)
    (hn : n = ((vm.frames c).bytecode.getD (vm.frames c).ip.toNat 0 : Nat))
    (hfull : vm.frames_count ≥ VM_MAX_FRAMES)
    (hidx : 0 ≤ vm.sp - 1 - n ∧ vm.sp - 1 - n < VM_STACK_SIZE)
    (hfn : object_get_type vm.mem (vm.stack (vm.sp - 1 - n)) = OBJECT_FUNCTION) :
    (vm_op_call dbg natives vm).1 = vm_goto.err
    ∧ (vm_op_call dbg natives vm).2.frames_count = vm.frames_count
    ∧ (vm_op_call dbg natives vm).2.current_frame = vm.current_frame
    ∧ (∀ i, i ≠ c → (vm_op_call dbg natives vm).2.frames i = vm.frames i)
    ∧ (vm_op_call dbg natives vm).2.frames c = { vm.frames c with ip := (vm.frames c).ip + 1 }
    ∧ (vm_op_call dbg natives vm).2.sp = vm.sp
    ∧ (vm_op_call dbg natives vm).2.stack = vm.stack
    ∧ (vm_op_call dbg natives vm).2.mem = vm.mem
    ∧ errors_get_count (vm_op_call dbg natives vm).2.errors > 0
    ∧ (n = (object_get_function vm.mem (vm.stack (vm.sp - 1 - n))).num_args →
        (vm_op_call dbg natives vm).2.errors
          = errors_add_error vm.errors ERROR_RUNTIME src_pos_invalid
              "Pushing frame failed in call_object") := by
  have hget : ¬ (dbg = true ∧ (vm.sp - 1 - n < 0 ∨ vm.sp - 1 - n ≥ VM_STACK_SIZE)) := by
    intro h
    rcases h.2 with h1 | h1 <;> omega
  have hcurf : vm_current vm = vm.frames c := by
    unfold vm_current; rw [hcur]
  have hread : (frame_read_uint8 (vm_current vm)).1 = (vm.frames c).bytecode.getD
      (vm.frames c).ip.toNat 0 := by
    rw [hcurf]; rfl
  have hread2 : (frame_read_uint8 (vm_current vm)).2
      = { vm.frames c with ip := (vm.frames c).ip + 1 } := by
    rw [hcurf]; rfl
  obtain ⟨f1, f2, f3, f4, f5, f6⟩ := vm_set_current_fields vm (frame_read_uint8 (vm_current vm)).2
  obtain ⟨g1, g2⟩ := vm_set_current_frames vm (frame_read_uint8 (vm_current vm)).2 c hcur
  generalize hvm1 : vm_set_current vm (frame_read_uint8 (vm_current vm)).2 = vm1 at *
  have hres : vm_op_call dbg natives vm
      = (if ¬ (call_object dbg natives vm1 (vm.stack (vm.sp - 1 - n)) n).1 then
          (vm_goto.err, (call_object dbg natives vm1 (vm.stack (vm.sp - 1 - n)) n).2)
        else (vm_goto.next, (call_object dbg natives vm1 (vm.stack (vm.sp - 1 - n)) n).2)) := by
    unfold vm_op_call
    dsimp only
    rw [hvm1, hread, ← hn]
    unfold stack_get
    dsimp only
    rw [f1, f2, if_neg hget]
  obtain ⟨c1, c2, c3, c4⟩ := call_object_frames_full dbg natives vm1 (vm.stack (vm.sp - 1 - n)) n
    (by rw [f5]; exact hfull) (by rw [f3]; exact hfn)
  rw [hres, c1]
  simp only [Bool.false_eq_true, not_false_eq_true, if_true]
  rw [c2]
  refine ⟨trivial, f5, f6, g2, ?_, f1, f2, f3, c3, ?_⟩
  · show vm1.frames c = _
    rw [g1, hread2]
  · intro h
    rw [f3] at c4
    rw [c4 h, f4]

/-- C15 at a concrete input: `OPCODE_CALL 1` on the function "f" with 2048 frames in
use. -/
theorem C15_call_frames_full_witness :
    (vm_op_call false natives_none (vm_call_example 2048)).1 = vm_goto.err
    ∧ (vm_op_call false natives_none (vm_call_example 2048)).2.frames_count = 2048
    ∧ (vm_op_call false natives_none (vm_call_example 2048)).2.errors
        = errors_add_error { errors := [] } ERROR_RUNTIME src_pos_invalid
            "Pushing frame failed in call_object" := by
  have h := C15_call_frames_full false natives_none (vm_call_example 2048) 2047 1 rfl
    (by decide) (by decide) (by decide) (by decide)
  exact ⟨h.1, h.2.1, h.2.2.2.2.2.2.2.2.2 (by decide)⟩


theorem set_sp_fields (vm : vm_t) (new_sp : Int) :
    (set_sp vm new_sp).sp = new_sp ∧ (set_sp vm new_sp).frames = vm.frames
    ∧ (set_sp vm new_sp).frames_count = vm.frames_count
    ∧ (set_sp vm new_sp).current_frame = vm.current_frame
    ∧ (set_sp vm new_sp).errors = vm.errors ∧ (set_sp vm new_sp).mem = vm.mem := by
  unfold set_sp
  split <;> exact ⟨rfl, rfl, rfl, rfl, rfl, rfl⟩

/-- `call_object` on a user function with the right count of arguments and room for a
frame. -/
theorem call_object_function (dbg : Bool) (natives : native_call_t) (vm : vm_t)
    (callee : object_t) (n : Int) (hroom : vm.frames_count < VM_MAX_FRAMES)
    (hfn : object_get_type vm.mem callee = OBJECT_FUNCTION)
    (hargs : n = (object_get_function vm.mem callee).num_args) :
    (call_object dbg natives vm callee n).1 = true
    ∧ (call_object dbg natives vm callee n).2.frames_count = vm.frames_count + 1
    ∧ (call_object dbg natives vm callee n).2.current_frame = some vm.frames_count
    ∧ ((call_object dbg natives vm callee n).2.frames vm.frames_count).base_pointer = vm.sp - n
    ∧ ((call_object dbg natives vm callee n).2.frames vm.frames_count).function = callee
    ∧ (∀ i, i ≠ vm.frames_count → (call_object dbg natives vm callee n).2.frames i = vm.frames i)
    ∧ (call_object dbg natives vm callee n).2.sp
        = vm.sp - n + (object_get_function vm.mem callee).num_locals
    ∧ (call_object dbg natives vm callee n).2.errors = vm.errors := by
  have hframe : frame_init vm.mem callee (vm.sp - n)
      = some { function := callee, ip := 0, base_pointer := vm.sp - n, src_ip := 0,
               bytecode := (object_get_function vm.mem callee).comp_result.bytecode,
               src_positions := some (object_get_function vm.mem callee).comp_result.src_positions,
               bytecode_size := (object_get_function vm.mem callee).comp_result.count,
               recover_ip := -1, is_recovering := false } := by
    unfold frame_init
    simp only [hfn, ne_eq, not_true_eq_false, if_false]
  have hne : ¬ n ≠ (object_get_function vm.mem callee).num_args := fun h => h hargs
  have hnf : ¬ vm.frames_count ≥ VM_MAX_FRAMES := by omega
  unfold call_object
  simp only [hfn, if_true, hne, if_false, hframe]
  unfold push_frame
  simp only [hnf, if_false, if_true]
  obtain ⟨s1, s2, s3, s4, s5, s6⟩ := set_sp_fields
    { vm with
      frames := fun i => if i = vm.frames_count then
        ({ function := callee, ip := 0, base_pointer := vm.sp - n, src_ip := 0,
           bytecode := (object_get_function vm.mem callee).comp_result.bytecode,
           src_positions := some (object_get_function vm.mem callee).comp_result.src_positions,
           bytecode_size := (object_get_function vm.mem callee).comp_result.count,
           recover_ip := -1, is_recovering := false } : frame_t) else vm.frames i
      current_frame := some vm.frames_count
      frames_count := vm.frames_count + 1 }
    (vm.sp - n + (object_get_function vm.mem callee).num_locals)
  refine ⟨trivial, s3, s4, ?_, ?_, ?_, s1, s5⟩
  · rw [s2]; simp only [if_true]
  · rw [s2]; simp only [if_true]
  · intro i hi
    rw [s2]; simp only [hi, if_false]

theorem pop_frame_spec (vm : vm_t) (k : Int) (hcur : vm.current_frame = some k)
    (hcount : 2 ≤ vm.frames_count) :
    (pop_frame vm).1 = true
    ∧ (pop_frame vm).2.sp = (vm.frames k).base_pointer - 1
    ∧ (pop_frame vm).2.frames = vm.frames
    ∧ (pop_frame vm).2.frames_count = vm.frames_count - 1
    ∧ (pop_frame vm).2.current_frame = some (vm.frames_count - 2)
    ∧ (pop_frame vm).2.errors = vm.errors
    ∧ (pop_frame vm).2.mem = vm.mem := by
  obtain ⟨s1, s2, s3, s4, s5, s6⟩ := set_sp_fields vm ((vm.frames k).base_pointer - 1)
  unfold pop_frame
  rw [hcur]
  dsimp only
  generalize set_sp vm ((vm.frames k).base_pointer - 1) = vs at *
  have h1 : ¬ vs.frames_count ≤ 0 := by rw [s3]; omega
  have h2 : ¬ vs.frames_count - 1 = 0 := by rw [s3]; omega
  rw [if_neg h1, if_neg h2]
  refine ⟨rfl, s1, s2, ?_, ?_, s5, s6⟩
  · show vs.frames_count - 1 = _
    rw [s3]
  · show some (vs.frames_count - 1 - 1) = _
    rw [s3]
    congr 1
    omega

/-- `OPCODE_RETURN_VALUE` in a frame that is not the outermost one. -/
theorem return_value_spec (dbg : Bool) (vm : vm_t) (k : Int)
    (hcur : vm.current_frame = some k) (hcount : 2 ≤ vm.frames_count) (hsp : 0 < vm.sp)
    (hbp : (vm.frames k).base_pointer - 1 < VM_STACK_SIZE) :
    (vm_op_return_value dbg vm).1 = vm_goto.next
    ∧ (vm_op_return_value dbg vm).2.sp = (vm.frames k).base_pointer
    ∧ (vm_op_return_value dbg vm).2.stack ((vm.frames k).base_pointer - 1) = vm.stack (vm.sp - 1)
    ∧ (vm_op_return_value dbg vm).2.current_frame = some (vm.frames_count - 2)
    ∧ (vm_op_return_value dbg vm).2.frames_count = vm.frames_count - 1
    ∧ (vm_op_return_value dbg vm).2.frames = vm.frames
    ∧ (vm_op_return_value dbg vm).2.errors = vm.errors := by
  have hpop : stack_pop dbg vm
      = (vm.stack (vm.sp - 1), { vm with sp := vm.sp - 1, last_popped := vm.stack (vm.sp - 1) }) := by
    unfold stack_pop
    have : ¬ (dbg = true ∧ vm.sp = 0) := fun h => by omega
    rw [if_neg this]
  obtain ⟨p1, p2, p3, p4, p5, p6, p7⟩ := pop_frame_spec
    { vm with sp := vm.sp - 1, last_popped := vm.stack (vm.sp - 1) } k hcur hcount
  unfold vm_op_return_value
  rw [hpop]
  dsimp only
  generalize pop_frame { vm with sp := vm.sp - 1, last_popped := vm.stack (vm.sp - 1) } = pf at *
  rw [p1]
  simp only [not_true_eq_false, if_false]
  unfold stack_push
  have hnf : ¬ (dbg = true ∧ pf.2.sp ≥ VM_STACK_SIZE) := by
    rw [p2]
    intro h
    have := h.2
    change (vm.frames k).base_pointer - 1 ≥ VM_STACK_SIZE at this
    omega
  simp only [hnf, if_false]
  refine ⟨trivial, ?_, ?_, p5, p4, p3, p6⟩
  · show pf.2.sp + 1 = _
    rw [p2]
    show (vm.frames k).base_pointer - 1 + 1 = _
    omega
  · show (if (vm.frames k).base_pointer - 1 = pf.2.sp then vm.stack (vm.sp - 1)
      else pf.2.stack ((vm.frames k).base_pointer - 1)) = _
    rw [p2]
    show (if (vm.frames k).base_pointer - 1 = (vm.frames k).base_pointer - 1 then _ else _) = _
    rw [if_pos rfl]

/-- C14: `OPCODE_CALL n` on a user function of `n` parameters, found below its `n`
arguments, pushes a frame whose base pointer is `sp - n`; when the callee, in that frame,
executes `OPCODE_RETURN_VALUE` in a state `vm2` with the value `r` on top of the stack,
the state after it has `sp` equal to the `sp` before the call minus `n`, `r` in
`stack[sp - 1]`, the frame of the caller as the current frame and the count of frames as
before the call. -/
theorem C14_call_return (dbg : Bool) (natives : native_call_t) (vm vm2 : vm_t) (c n : Int)
    (r : object_t)
    (hcur : vm.current_frame = some c) (hc : c = vm.frames_count - 1) (hc0 : 0 ≤ c)
    (hn : n = ((vm.frames c).bytecode.getD (vm.frames c).ip.toNat 0 : Nat))
    (hroom : vm.frames_count < VM_MAX_FRAMES)
    (hsp : n + 1 ≤ vm.sp ∧ vm.sp ≤ VM_STACK_SIZE)
    (hfn : object_get_type vm.mem (vm.stack (vm.sp - 1 - n)) = OBJECT_FUNCTION)
    (hargs : n = (object_get_function vm.mem (vm.stack (vm.sp - 1 - n))).num_args)
    (h2c : vm2.current_frame = (vm_op_call dbg natives vm).2.current_frame)
    (h2n : vm2.frames_count = (vm_op_call dbg natives vm).2.frames_count)
    (h2b : (vm2.frames (c + 1)).base_pointer
      = ((vm_op_call dbg natives vm).2.frames (c + 1)).base_pointer)
    (h2sp : 0 < vm2.sp) (h2r : vm2.stack (vm2.sp - 1) = r) :
    (vm_op_call dbg natives vm).1 = vm_goto.next
    ∧ (vm_op_call dbg natives vm).2.frames_count = vm.frames_count + 1
    ∧ (vm_op_call dbg natives vm).2.current_frame = some (c + 1)
    ∧ ((vm_op_call dbg natives vm).2.frames (c + 1)).function = vm.stack (vm.sp - 1 - n)
    ∧ ((vm_op_call dbg natives vm).2.frames (c + 1)).base_pointer = vm.sp - n
    ∧ (vm_op_return_value dbg vm2).1 = vm_goto.next
    ∧ (vm_op_return_value dbg vm2).2.sp = vm.sp - n
    ∧ (vm_op_return_value dbg vm2).2.stack ((vm_op_return_value dbg vm2).2.sp - 1) = r
    ∧ (vm_op_return_value dbg vm2).2.current_frame = vm.current_frame
    ∧ (vm_op_return_value dbg vm2).2.frames_count = vm.frames_count := by
  have hget : ¬ (dbg = true ∧ (vm.sp - 1 - n < 0 ∨ vm.sp - 1 - n ≥ VM_STACK_SIZE)) := by
    intro h
    rcases h.2 with h1 | h1 <;> omega
  have hcurf : vm_current vm = vm.frames c := by
    unfold vm_current; rw [hcur]
  have hread : (frame_read_uint8 (vm_current vm)).1 = (vm.frames c).bytecode.getD
      (vm.frames c).ip.toNat 0 := by
    rw [hcurf]; rfl
  obtain ⟨f1, f2, f3, f4, f5, f6⟩ := vm_set_current_fields vm (frame_read_uint8 (vm_current vm)).2
  generalize hvm1 : vm_set_current vm (frame_read_uint8 (vm_current vm)).2 = vm1 at *
  have hres : vm_op_call dbg natives vm
      = (if ¬ (call_object dbg natives vm1 (vm.stack (vm.sp - 1 - n)) n).1 then
          (vm_goto.err, (call_object dbg natives vm1 (vm.stack (vm.sp - 1 - n)) n).2)
        else (vm_goto.next, (call_object dbg natives vm1 (vm.stack (vm.sp - 1 - n)) n).2)) := by
    unfold vm_op_call
    dsimp only
    rw [hvm1, hread, ← hn]
    unfold stack_get
    dsimp only
    rw [f1, f2, if_neg hget]
  obtain ⟨c1, c2, c3, c4, c5, c6, c7, c8⟩ := call_object_function dbg natives vm1
    (vm.stack (vm.sp - 1 - n)) n (by rw [f5]; exact hroom) (by rw [f3]; exact hfn)
    (by rw [f3]; exact hargs)
  have hc1 : c + 1 = vm1.frames_count := by rw [f5]; omega
  rw [hres, c1] at h2c h2n h2b ⊢
  simp only [not_true_eq_false, if_false] at h2c h2n h2b ⊢
  rw [hc1] at h2b ⊢
  rw [c3] at h2c
  rw [c2] at h2n
  rw [c4, f1] at h2b
  obtain ⟨r1, r2, r3, r4, r5, r6, r7⟩ := return_value_spec dbg vm2 vm1.frames_count h2c
    (by rw [h2n, f5]; omega) h2sp
    (by rw [h2b]; omega)
  refine ⟨by first | rfl | trivial, by rw [c2, f5], c3, c5, by rw [c4, f1], r1, by rw [r2, h2b], ?_, ?_, ?_⟩
  · rw [r2, r3, h2r]
  · rw [r4, h2n, hcur, f5]
    congr 1
    omega
  · rw [r5, h2n, f5]
    omega

/-- C14 at a concrete input: `OPCODE_CALL 1` on the function "f" with the argument 1.0, and
`OPCODE_RETURN_VALUE` in the state in which the callee has pushed 2.0. -/
theorem C14_call_return_witness :
    (vm_op_call false natives_none (vm_call_example 1)).1 = vm_goto.next
    ∧ (vm_op_return_value false (stack_push false
        (vm_op_call false natives_none (vm_call_example 1)).2
        (object_make_number 0x4000000000000000))).2.sp = 1
    ∧ (vm_op_return_value false (stack_push false
        (vm_op_call false natives_none (vm_call_example 1)).2
        (object_make_number 0x4000000000000000))).2.stack 0
        = object_make_number 0x4000000000000000
    ∧ (vm_op_return_value false (stack_push false
        (vm_op_call false natives_none (vm_call_example 1)).2
        (object_make_number 0x4000000000000000))).2.current_frame = some 0 := by
  have h := C14_call_return false natives_none (vm_call_example 1)
    (stack_push false (vm_op_call false natives_none (vm_call_example 1)).2
      (object_make_number 0x4000000000000000)) 0 1 (object_make_number 0x4000000000000000)
    rfl (by decide) (by decide) (by decide) (by decide) (by decide) (by decide) (by decide)
    (by decide) (by decide) (by decide) (by decide) (by decide)
  obtain ⟨h1, _, _, _, _, _, h7, h8, h9, _⟩ := h
  refine ⟨h1, h7, ?_, h9⟩
  rw [h7] at h8
  exact h8

/-- Where `stack_push` returns, it returns the state that `stack_push` above gives. -/
theorem stack_push_run_returns (ape_debug ndebug : Bool) (vm w : vm_t) (obj : object_t)
    (h : stack_push_run ape_debug ndebug vm obj = call_end.returns w) :
    w = stack_push ape_debug vm obj := by
  have hstore : stack_push_store vm obj = call_end.returns w → vm.sp < VM_STACK_SIZE ∧
      w = { vm with stack := fun i => if i = vm.sp then obj else vm.stack i, sp := vm.sp + 1 } := by
    intro hs
    unfold stack_push_store at hs
    split at hs
    · rename_i hr
      cases hs
      exact ⟨hr.2, rfl⟩
    · cases hs
  unfold stack_push_run at h
  unfold stack_push
  split at h
  · rename_i hd
    split at h
    · rename_i hsp
      split at h
      · cases h
      · split at h
        · cases h
        · cases h
          rw [if_pos ⟨hd, hsp⟩]
    · rename_i hsp
      split at h
      · cases h
      · obtain ⟨_, hw⟩ := hstore h
        rw [if_neg (fun hc => hsp hc.2)]
        exact hw
  · obtain ⟨hlt, hw⟩ := hstore h
    rw [if_neg (fun hc => absurd hc.2 (by omega))]
    exact hw

/-- Where `stack_pop` returns, it returns the value and the state that `stack_pop` above
gives. -/
theorem stack_pop_run_returns (ape_debug ndebug : Bool) (vm : vm_t) (r : object_t × vm_t)
    (h : stack_pop_run ape_debug ndebug vm = call_end.returns r) :
    r = stack_pop ape_debug vm := by
  have hload : stack_pop_load vm = call_end.returns r → 1 ≤ vm.sp ∧
      r = (vm.stack (vm.sp - 1),
        { vm with sp := vm.sp - 1, last_popped := vm.stack (vm.sp - 1) }) := by
    intro hs
    unfold stack_pop_load at hs
    split at hs
    · rename_i hr
      cases hs
      exact ⟨hr.1, rfl⟩
    · cases hs
  unfold stack_pop_run at h
  unfold stack_pop
  split at h
  · rename_i hd
    split at h
    · rename_i hsp
      split at h
      · cases h
      · split at h
        · cases h
        · cases h
          rw [if_pos ⟨hd, hsp⟩]
    · rename_i hsp
      split at h
      · cases h
      · obtain ⟨_, hw⟩ := hload h
        rw [if_neg (fun hc => hsp hc.2)]
        exact hw
  · obtain ⟨hlt, hw⟩ := hload h
    rw [if_neg (fun hc => absurd hc.2 (by omega))]
    exact hw

/-- With `sp` in range and no assertion compiled in, `stack_push` and `stack_pop` return
what the functions above give. -/
theorem stack_run_in_range (ape_debug : Bool) (vm : vm_t) (obj : object_t) :
    (0 ≤ vm.sp → vm.sp < VM_STACK_SIZE →
      stack_push_run ape_debug true vm obj = call_end.returns (stack_push ape_debug vm obj))
    ∧ (1 ≤ vm.sp → vm.sp ≤ VM_STACK_SIZE →
      stack_pop_run ape_debug true vm = call_end.returns (stack_pop ape_debug vm)) := by
  constructor
  · intro h0 h1
    have hs : stack_push_store vm obj = call_end.returns (stack_push ape_debug vm obj) := by
      unfold stack_push_store stack_push
      rw [if_pos ⟨h0, h1⟩, if_neg (fun hc => absurd hc.2 (by omega))]
    unfold stack_push_run
    split
    · rw [if_neg (by omega), if_neg (fun hc => Bool.noConfusion hc.1)]
      exact hs
    · exact hs
  · intro h0 h1
    have hs : stack_pop_load vm = call_end.returns (stack_pop ape_debug vm) := by
      unfold stack_pop_load stack_pop
      rw [if_pos ⟨h0, h1⟩, if_neg (fun hc => absurd hc.2 (by omega))]
    unfold stack_pop_run
    split
    · rw [if_neg (by omega), if_neg (fun hc => Bool.noConfusion hc.1)]
      exact hs
    · exact hs

/-- C16 fails in the default build.  On a full stack (`sp = 2048`) and on an empty one
(`sp = 0`): without `APE_DEBUG` neither function checks `sp`, no error is recorded,
`stack_push` stores into `stack[2048]` and `stack_pop` loads `stack[-1]`, both outside the
2048 slots; with `APE_DEBUG` and `assert` active the process is aborted, in `stack_push`
before an error is recorded; only with `APE_DEBUG` and `NDEBUG`, in a machine with a
current frame, the calls return as claimed, with the Runtime error recorded and the
stack and `sp` as they were. -/
theorem C16_stack_limits (vm_full vm_empty : vm_t) (obj : object_t) (ndebug : Bool)
    (hfull : vm_full.sp = VM_STACK_SIZE) (hempty : vm_empty.sp = 0) :
    stack_push_run false ndebug vm_full obj = call_end.undefined
    ∧ stack_pop_run false ndebug vm_empty = call_end.undefined
    ∧ stack_push_run true false vm_full obj = call_end.aborts vm_full
    ∧ (vm_empty.current_frame ≠ none →
      stack_pop_run true false vm_empty
        = call_end.aborts
            { vm_empty with errors := (errors_add_error vm_empty.errors ERROR_RUNTIME
                (vm_src_position vm_empty) "Stack underflow") })
    ∧ (vm_full.current_frame ≠ none →
      stack_push_run true true vm_full obj
        = call_end.returns
            { vm_full with errors := (errors_add_error vm_full.errors ERROR_RUNTIME
                (vm_src_position vm_full) "Stack overflow") })
    ∧ (vm_empty.current_frame ≠ none →
      stack_pop_run true true vm_empty
        = call_end.returns
            (object_make_null,
              { vm_empty with errors := (errors_add_error vm_empty.errors ERROR_RUNTIME
                  (vm_src_position vm_empty) "Stack underflow") })) := by
  have hv : VM_STACK_SIZE = 2048 := rfl
  have hge : vm_full.sp ≥ VM_STACK_SIZE := by omega
  refine ⟨?_, ?_, ?_, ?_, ?_, ?_⟩
  · unfold stack_push_run stack_push_store
    rw [if_neg (fun h => Bool.noConfusion h), if_neg (fun h => absurd h.2 (by omega))]
  · unfold stack_pop_run stack_pop_load
    rw [if_neg (fun h => Bool.noConfusion h), if_neg (fun h => absurd h.1 (by omega))]
  · unfold stack_push_run
    rw [if_pos rfl, if_pos hge, if_pos rfl]
  · intro hc
    obtain ⟨c, hc2⟩ := Option.ne_none_iff_exists'.mp hc
    unfold stack_pop_run
    rw [if_pos rfl, if_pos hempty, hc2]
    simp only [if_true]
  · intro hc
    obtain ⟨c, hc1⟩ := Option.ne_none_iff_exists'.mp hc
    unfold stack_push_run
    rw [if_pos rfl, if_pos hge, if_neg (fun h => Bool.noConfusion h), hc1]
  · intro hc
    obtain ⟨c, hc2⟩ := Option.ne_none_iff_exists'.mp hc
    unfold stack_pop_run
    rw [if_pos rfl, if_pos hempty, hc2]
    simp only [Bool.true_eq_false, if_false]

/-- C16 at a concrete input: a machine with 2048 values on the stack and one with none.
In the build without `APE_DEBUG` both calls leave the stack slots; in the build with
`APE_DEBUG` and `NDEBUG` the push records "Stack overflow" and leaves `sp` at 2048. -/
theorem C16_stack_limits_witness :
    stack_push_run false false { vm_call_example 1 with sp := 2048 } example_fn
      = call_end.undefined
    ∧ stack_pop_run false false { vm_call_example 1 with sp := 0 } = call_end.undefined
    ∧ stack_push_run true true { vm_call_example 1 with sp := 2048 } example_fn
      = call_end.returns
          { ({ vm_call_example 1 with sp := 2048 } : vm_t) with
            errors := (errors_add_error ({ vm_call_example 1 with sp := 2048 } : vm_t).errors
              ERROR_RUNTIME (vm_src_position { vm_call_example 1 with sp := 2048 })
              "Stack overflow") }
    ∧ (errors_add_error ({ vm_call_example 1 with sp := 2048 } : vm_t).errors ERROR_RUNTIME
        (vm_src_position { vm_call_example 1 with sp := 2048 }) "Stack overflow").errors
      = [{ type := ERROR_RUNTIME, message := "Stack overflow", pos := src_pos_invalid,
           traceback := none }] := by
  have h := C16_stack_limits { vm_call_example 1 with sp := 2048 }
    { vm_call_example 1 with sp := 0 } example_fn false rfl rfl
  exact ⟨h.1, h.2.1, h.2.2.2.2.1 (by decide), by decide⟩


theorem last_error_count (errors : errors_t) (err : error_t)
    (h : errors_get_last_error errors = some err) : errors_get_count errors > 0 := by
  unfold errors_get_last_error at h
  unfold errors_get_count
  cases he : errors.errors with
  | nil => rw [he] at h; simp at h
  | cons a l => simp

/-- An error that is not a Runtime error sends control from `err` to `end`, with the state
as it is. -/
theorem vm_recover_not_runtime (dbg : Bool) (vm : vm_t) (err : error_t)
    (hlast : errors_get_last_error vm.errors = some err) (ht : err.type ≠ ERROR_RUNTIME) :
    vm_recover dbg vm = (vm_goto.finish, vm) := by
  unfold vm_recover
  rw [if_pos (last_error_count _ _ hlast), hlast]
  dsimp only
  rw [if_neg (fun h => ht h.1)]

/-- With an error recorded, the statements from `end` return false and keep the error. -/
theorem vm_finish_with_error (vm : vm_t) (err : error_t)
    (hlast : errors_get_last_error vm.errors = some err) (fuel : Nat)
    (constants store_objects : List object_t) (res : Bool × vm_t)
    (h : vm_finish fuel vm constants store_objects = some res) :
    res.1 = false
    ∧ res.2.errors.errors = vm.errors.errors.dropLast ++
        [{ err with traceback := some (traceback_append_from_vm (err.traceback.getD []) vm) }]
    ∧ res.2.frames = vm.frames ∧ res.2.frames_count = vm.frames_count
    ∧ res.2.sp = vm.sp ∧ res.2.stack = vm.stack ∧ res.2.running = false := by
  unfold vm_finish at h
  rw [if_pos (last_error_count _ _ hlast), hlast] at h
  dsimp only at h
  unfold run_gc at h
  split at h
  · exact absurd h (by simp)
  · rename_i vm2 hsome
    split at hsome
    · exact absurd hsome (by simp)
    · rename_i mem2 _
      have hv := Option.some.inj hsome
      have hr := Option.some.inj h
      rw [← hr, ← hv]
      refine ⟨?_, rfl, rfl, rfl, rfl, rfl, rfl⟩
      simp [errors_get_count]

/-- With an error recorded, the statements from `end` return when the collector does. -/
theorem vm_finish_returns (vm : vm_t) (err : error_t)
    (hlast : errors_get_last_error vm.errors = some err) (fuel : Nat)
    (constants store_objects : List object_t)
    (hreach : ∀ p, gc_reach vm.mem (gc_roots vm constants store_objects) p →
      p ∈ vm.mem.objects)
    (hfuel : vm.mem.objects.length + free_vals_bound vm.mem vm.mem.objects + 1 ≤ fuel) :
    ∃ res, vm_finish fuel vm constants store_objects = some res := by
  unfold vm_finish
  rw [if_pos (last_error_count _ _ hlast), hlast]
  dsimp only
  obtain ⟨mem2, e, _⟩ := run_gc_mem_spec
    { vm with errors := { errors := vm.errors.errors.dropLast ++
        [{ err with
           traceback := some (traceback_append_from_vm (err.traceback.getD []) vm) }] } }
    constants store_objects fuel hreach hfuel
  unfold run_gc
  rw [e]
  exact ⟨_, rfl⟩


theorem call_example_closed : gc_closed mem_call_example [4096] := by
  intro p hp c hc ha
  simp only [List.mem_singleton] at hp
  subst hp
  have ht : (mem_call_example.deref 4096).type = OBJECT_FUNCTION := by decide
  have hn : (mem_call_example.deref 4096).function.free_vals_count = 0 := by decide
  unfold gc_child at hc
  rw [ht] at hc
  dsimp only at hc
  rw [hn] at hc
  obtain ⟨i, hi, _⟩ := hc
  omega

theorem err_example_reach (t : error_type_t) :
    ∀ p, gc_reach (vm_err_example t).mem (gc_roots (vm_err_example t) [] []) p →
      p ∈ (vm_err_example t).mem.objects := by
  cases t <;> exact gc_reach_in _ _ _ (by decide) call_example_closed

/-- C18: when the last error recorded has the type Timeout or Allocation, the statements
at `err` send control to `end` with the state as it is, whatever the frames hold, so no
frame is set to its recover handler; the statements from `end` return false with the
error still in the list (its traceback filled in), and they do return when the collector
does. -/
theorem C18_timeout_allocation_fatal (dbg : Bool) (vm : vm_t) (err : error_t)
    (hlast : errors_get_last_error vm.errors = some err)
    (htype : err.type = ERROR_TIMEOUT ∨ err.type = ERROR_ALLOCATION) :
    vm_recover dbg vm = (vm_goto.finish, vm)
    ∧ (∀ fuel constants store_objects res,
        vm_finish fuel vm constants store_objects = some res →
        res.1 = false
        ∧ res.2.errors.errors = vm.errors.errors.dropLast ++
            [{ err with
               traceback := some (traceback_append_from_vm (err.traceback.getD []) vm) }]
        ∧ res.2.frames = vm.frames ∧ res.2.frames_count = vm.frames_count)
    ∧ (∀ fuel constants store_objects,
        (∀ p, gc_reach vm.mem (gc_roots vm constants store_objects) p → p ∈ vm.mem.objects) →
        vm.mem.objects.length + free_vals_bound vm.mem vm.mem.objects + 1 ≤ fuel →
        ∃ res, vm_finish fuel vm constants store_objects = some res) := by
  refine ⟨?_, ?_, ?_⟩
  · apply vm_recover_not_runtime dbg vm err hlast
    rcases htype with h | h <;> rw [h] <;> decide
  · intro fuel constants store_objects res h
    obtain ⟨h1, h2, h3, h4, _⟩ := vm_finish_with_error vm err hlast fuel constants
      store_objects res h
    exact ⟨h1, h2, h3, h4⟩
  · intro fuel constants store_objects hreach hfuel
    exact vm_finish_returns vm err hlast fuel constants store_objects hreach hfuel

/-- C18 at a concrete input: a Timeout error with a recover handler installed in the
frame. -/
theorem C18_timeout_allocation_fatal_witness :
    ((vm_err_example ERROR_TIMEOUT).frames 0).recover_ip ≥ 0
    ∧ ((vm_err_example ERROR_TIMEOUT).frames 0).is_recovering = false
    ∧ vm_recover false (vm_err_example ERROR_TIMEOUT)
        = (vm_goto.finish, vm_err_example ERROR_TIMEOUT)
    ∧ ∃ res, vm_finish 10 (vm_err_example ERROR_TIMEOUT) [] [] = some res ∧ res.1 = false := by
  obtain ⟨h1, h2, h3⟩ := C18_timeout_allocation_fatal false (vm_err_example ERROR_TIMEOUT)
    { type := ERROR_TIMEOUT, message := "boom", pos := src_pos_invalid, traceback := none }
    (by decide) (Or.inl rfl)
  obtain ⟨res, hres⟩ := h3 10 [] [] (err_example_reach ERROR_TIMEOUT) (by decide)
  exact ⟨by decide, by decide, h1, res, hres, (h2 10 [] [] res hres).1⟩

/-- C19 (amended): an error of type User that is the last error recorded when control
reaches `err` is not handled like a Runtime error: whatever the frames hold, control goes
to `end` with the state as it is, and the statements from `end` return false with the
error still in the list. -/
theorem C19_user_error_surfaces (dbg : Bool) (vm : vm_t) (err : error_t)
    (hlast : errors_get_last_error vm.errors = some err) (htype : err.type = ERROR_USER) :
    vm_recover dbg vm = (vm_goto.finish, vm)
    ∧ (∀ fuel constants store_objects res,
        vm_finish fuel vm constants store_objects = some res →
        res.1 = false
        ∧ (∃ tb, errors_get_last_error res.2.errors = some { err with traceback := tb })
        ∧ res.2.frames = vm.frames ∧ res.2.frames_count = vm.frames_count)
    ∧ (∀ fuel constants store_objects,
        (∀ p, gc_reach vm.mem (gc_roots vm constants store_objects) p → p ∈ vm.mem.objects) →
        vm.mem.objects.length + free_vals_bound vm.mem vm.mem.objects + 1 ≤ fuel →
        ∃ res, vm_finish fuel vm constants store_objects = some res) := by
  refine ⟨?_, ?_, ?_⟩
  · apply vm_recover_not_runtime dbg vm err hlast
    rw [htype]
    decide
  · intro fuel constants store_objects res h
    obtain ⟨h1, h2, h3, h4, _⟩ := vm_finish_with_error vm err hlast fuel constants
      store_objects res h
    refine ⟨h1, ⟨some (traceback_append_from_vm (err.traceback.getD []) vm), ?_⟩, h3, h4⟩
    unfold errors_get_last_error
    rw [h2, List.getLast?_append, List.getLast?_singleton]
    rfl
  · intro fuel constants store_objects hreach hfuel
    exact vm_finish_returns vm err hlast fuel constants store_objects hreach hfuel

/-- C19 at a concrete input: a User error with a recover handler installed in the frame. -/
theorem C19_user_error_surfaces_witness :
    vm_recover false (vm_err_example ERROR_USER) = (vm_goto.finish, vm_err_example ERROR_USER)
    ∧ ∃ res, vm_finish 10 (vm_err_example ERROR_USER) [] [] = some res ∧ res.1 = false := by
  obtain ⟨h1, h2, h3⟩ := C19_user_error_surfaces false (vm_err_example ERROR_USER)
    { type := ERROR_USER, message := "boom", pos := src_pos_invalid, traceback := none }
    (by decide) rfl
  obtain ⟨res, hres⟩ := h3 10 [] [] (err_example_reach ERROR_USER) (by decide)
  exact ⟨h1, res, hres, (h2 10 [] [] res hres).1⟩

/-- C19 as stated fails: in the same state, with a recover handler installed in the frame,
a Runtime error is recovered (control stays in the loop, the frame is set to its handler
and the error list is emptied) while a User error sends control to `end`. -/
theorem C19_counterexample :
    ((vm_err_example ERROR_USER).frames 0).recover_ip ≥ 0
    ∧ ((vm_err_example ERROR_USER).frames 0).is_recovering = false
    ∧ (vm_recover false (vm_err_example ERROR_RUNTIME)).1 = vm_goto.next
    ∧ ((vm_recover false (vm_err_example ERROR_RUNTIME)).2.frames 0).is_recovering = true
    ∧ (vm_recover false (vm_err_example ERROR_RUNTIME)).2.errors.errors = []
    ∧ (vm_recover false (vm_err_example ERROR_USER)).1 = vm_goto.finish
    ∧ ((vm_recover false (vm_err_example ERROR_USER)).2.frames 0).is_recovering = false
    ∧ (vm_recover false (vm_err_example ERROR_USER)).2.errors.errors.length = 1 := by
  decide


theorem find_recover_frame_spec (vm : vm_t) (i : Int) (h0 : 0 ≤ i)
    (hrec : (vm.frames i).recover_ip ≥ 0 ∧ (vm.frames i).is_recovering = false) :
    ∀ n : Nat, i < n →
      (∀ j : Int, i < j → j < n →
        ¬ ((vm.frames j).recover_ip ≥ 0 ∧ (vm.frames j).is_recovering = false)) →
      find_recover_frame vm n = i := by
  intro n
  induction n with
  | zero =>
    intro hn
    exact absurd hn (by omega)
  | succ n ih =>
    intro hn hmax
    unfold find_recover_frame
    by_cases hi : i = (n : Int)
    · subst hi
      rw [if_pos ⟨hrec.1, by rw [hrec.2]; decide⟩]
    · have hlt : i < (n : Int) := by omega
      have hno := hmax (n : Int) hlt (by omega)
      rw [if_neg]
      · exact ih hlt (fun j h1 h2 => hmax j h1 (by omega))
      · intro hc
        apply hno
        refine ⟨hc.1, ?_⟩
        cases hb : (vm.frames (n : Int)).is_recovering
        · rfl
        · exact absurd hb hc.2

theorem pop_frames_to_spec (target : Int) (ht : 1 ≤ target) :
    ∀ (n : Nat) (vm : vm_t), vm.current_frame = some (vm.frames_count - 1) →
      vm.frames_count = target + n →
      (pop_frames_to target n vm).frames_count = target
      ∧ (pop_frames_to target n vm).frames = vm.frames
      ∧ (pop_frames_to target n vm).current_frame = some (target - 1)
      ∧ (pop_frames_to target n vm).errors = vm.errors
      ∧ (pop_frames_to target n vm).mem = vm.mem
      ∧ (pop_frames_to target n vm).sp
          = if vm.frames_count = target then vm.sp
            else (vm.frames target).base_pointer - 1 := by
  intro n
  induction n with
  | zero =>
    intro vm hcur hc
    have hc2 : vm.frames_count = target := by simpa using hc
    unfold pop_frames_to
    refine ⟨hc2, rfl, ?_, rfl, rfl, ?_⟩
    · rw [hcur, hc2]
    · rw [if_pos hc2]
  | succ n ih =>
    intro vm hcur hc
    have hc2 : vm.frames_count = target + (n : Int) + 1 := by
      rw [hc]; push_cast; omega
    obtain ⟨_, p2, p3, p4, p5, p6, p7⟩ := pop_frame_spec vm (vm.frames_count - 1) hcur
      (by omega)
    unfold pop_frames_to
    rw [if_pos (by omega)]
    have hcur2 : (pop_frame vm).2.current_frame = some ((pop_frame vm).2.frames_count - 1) := by
      rw [p5, p4]
      congr 1
      omega
    obtain ⟨q1, q2, q3, q4, q5, q6⟩ := ih (pop_frame vm).2 hcur2 (by rw [p4]; omega)
    refine ⟨q1, q2.trans p3, q3, q4.trans p6, q5.trans p7, ?_⟩
    rw [q6, p4, p3, p2, if_neg (by omega : ¬ vm.frames_count = target)]
    by_cases hn : vm.frames_count - 1 = target
    · rw [if_pos hn, hn]
    · rw [if_neg hn]

theorem object_make_error_spec (mem : gcmem_t) (msg : String) (hwf : heap_wf mem) :
    ∃ p, p < 2 ^ 48
      ∧ (object_make_error mem msg).1 = object_make_from_data OBJECT_ERROR p
      ∧ ((object_make_error mem msg).2.deref p).type = OBJECT_ERROR
      ∧ ((object_make_error mem msg).2.deref p).error = { message := msg, traceback := none } := by
  obtain ⟨hstep, hz⟩ := gcmem_alloc_object_data_step mem OBJECT_ERROR
  have hp := hstep.2.1 hwf
  unfold object_make_error
  dsimp only
  generalize gcmem_alloc_object_data mem OBJECT_ERROR = a at *
  refine ⟨a.1, hp, rfl, ?_, ?_⟩
  · rw [deref_store_same, hz]
  · rw [deref_store_same]
    rfl

theorem set_error_traceback_spec (mem : gcmem_t) (p : Nat) (tb : List traceback_item_t)
    (hp : p < 2 ^ 48) (ht : (mem.deref p).type = OBJECT_ERROR) :
    object_get_type (object_set_error_traceback mem (object_make_from_data OBJECT_ERROR p) tb)
        (object_make_from_data OBJECT_ERROR p) = OBJECT_ERROR
    ∧ object_get_error_message
        (object_set_error_traceback mem (object_make_from_data OBJECT_ERROR p) tb)
        (object_make_from_data OBJECT_ERROR p) = (mem.deref p).error.message
    ∧ object_get_error_traceback
        (object_set_error_traceback mem (object_make_from_data OBJECT_ERROR p) tb)
        (object_make_from_data OBJECT_ERROR p) = some tb := by
  unfold object_set_error_traceback
  rw [from_data_type mem OBJECT_ERROR p rfl hp, if_neg (by rw [ht]; exact fun h => h rfl)]
  dsimp only
  unfold object_get_error_message object_get_error_traceback
  rw [from_data_type _ OBJECT_ERROR p rfl hp, from_data_addr OBJECT_ERROR p rfl hp,
    deref_store_same]
  exact ⟨ht, rfl, rfl⟩

theorem vm_recover_chain (dbg : Bool) (vm : vm_t) (e : error_t) (i : Int)
    (herr : vm.errors.errors = [e]) (htype : e.type = ERROR_RUNTIME)
    (hi0 : 0 ≤ i) (hi : i < vm.frames_count)
    (hrec : (vm.frames i).recover_ip ≥ 0 ∧ (vm.frames i).is_recovering = false)
    (hmax : ∀ j : Int, i < j → j < vm.frames_count →
      ¬ ((vm.frames j).recover_ip ≥ 0 ∧ (vm.frames j).is_recovering = false))
    (tb : List traceback_item_t) (vA vB : vm_t) (oe : object_t × gcmem_t)
    (vC vD vE vF vG : vm_t)
    (htb : tb = traceback_append_from_vm (e.traceback.getD []) vm)
    (hA : vA = { vm with errors := { errors :=
            vm.errors.errors.dropLast ++ [{ e with traceback := some tb }] } })
    (hB : vB = pop_frames_to (i + 1) (vA.frames_count - (i + 1)).toNat vA)
    (hoe : oe = object_make_error vB.mem e.message)
    (hC : vC = { vB with mem := oe.2 })
    (hD : vD = if ¬ object_is_null vC.mem oe.1 then
                 { vC with
                   mem := object_set_error_traceback vC.mem oe.1 tb
                   errors := { errors :=
                     vC.errors.errors.dropLast ++ [{ e with traceback := none }] } }
               else vC)
    (hE : vE = stack_push dbg vD oe.1)
    (hF : vF = vm_set_current vE { vm_current vE with ip := (vm_current vE).recover_ip })
    (hG : vG = vm_set_current vF { vm_current vF with is_recovering := true }) :
    vm_recover dbg vm = (vm_goto.next, { vG with errors := errors_clear vG.errors }) := by
  have hc : errors_get_count vm.errors = 1 := by
    unfold errors_get_count
    rw [herr]
    rfl
  have hl : errors_get_last_error vm.errors = some e := by
    unfold errors_get_last_error
    rw [herr]
    rfl
  have hfind : find_recover_frame vm vm.frames_count.toNat = i :=
    find_recover_frame_spec vm i hi0 hrec vm.frames_count.toNat (by omega)
      (fun j h1 h2 => hmax j h1 (by omega))
  subst hG hF hE hD hC hoe hB hA htb
  unfold vm_recover
  rw [if_pos (by omega), hl]
  show (if e.type = ERROR_RUNTIME ∧ errors_get_count vm.errors = 1 then _ else _) = _
  rw [if_pos ⟨htype, hc⟩]
  show (if find_recover_frame vm vm.frames_count.toNat < 0 then _ else _) = _
  rw [if_neg (by rw [hfind]; omega), hfind]

/-- C17: the state holds one error, of type Runtime, and `i` is the greatest index of a
frame in use with `recover_ip >= 0` that is not recovering; the current frame is the top
frame, the heap has room in its address space and, after the frames above `i` are popped,
the stack has room for one value.  Then the statements at `err` leave the loop running in
a state with `frames_count = i + 1` whose current frame is frame `i`, with `ip` at its
`recover_ip` and `is_recovering` set, the other frames as they were, no error in the
list, and on top of the stack an Error object with the message of the error and the
traceback taken before the frames were popped. -/
theorem C17_runtime_error_recovered (dbg : Bool) (vm : vm_t) (e : error_t) (i : Int)
    (herr : vm.errors.errors = [e]) (htype : e.type = ERROR_RUNTIME)
    (hi0 : 0 ≤ i) (hi : i < vm.frames_count)
    (hrec : (vm.frames i).recover_ip ≥ 0 ∧ (vm.frames i).is_recovering = false)
    (hmax : ∀ j : Int, i < j → j < vm.frames_count →
      ¬ ((vm.frames j).recover_ip ≥ 0 ∧ (vm.frames j).is_recovering = false))
    (hcur : vm.current_frame = some (vm.frames_count - 1))
    (hwf : heap_wf vm.mem)
    (hroom : (if vm.frames_count = i + 1 then vm.sp
              else (vm.frames (i + 1)).base_pointer - 1) < VM_STACK_SIZE) :
    ∃ vm2, vm_recover dbg vm = (vm_goto.next, vm2)
      ∧ vm2.frames_count = i + 1
      ∧ vm2.current_frame = some i
      ∧ vm2.errors.errors = []
      ∧ (vm2.frames i).ip = (vm.frames i).recover_ip
      ∧ (vm2.frames i).is_recovering = true
      ∧ (∀ j, j ≠ i → vm2.frames j = vm.frames j)
      ∧ vm2.sp = (if vm.frames_count = i + 1 then vm.sp
                  else (vm.frames (i + 1)).base_pointer - 1) + 1
      ∧ object_get_type vm2.mem (vm2.stack (vm2.sp - 1)) = OBJECT_ERROR
      ∧ object_get_error_message vm2.mem (vm2.stack (vm2.sp - 1)) = e.message
      ∧ object_get_error_traceback vm2.mem (vm2.stack (vm2.sp - 1))
          = some (traceback_append_from_vm (e.traceback.getD []) vm) := by
  obtain ⟨tb, htb⟩ : ∃ tb, tb = traceback_append_from_vm (e.traceback.getD []) vm := ⟨_, rfl⟩
  obtain ⟨vA, hA⟩ : ∃ vA : vm_t, vA = { vm with errors := { errors :=
      vm.errors.errors.dropLast ++ [{ e with traceback := some tb }] } } := ⟨_, rfl⟩
  obtain ⟨vB, hB⟩ : ∃ vB, vB = pop_frames_to (i + 1) (vA.frames_count - (i + 1)).toNat vA :=
    ⟨_, rfl⟩
  obtain ⟨oe, hoe⟩ : ∃ oe, oe = object_make_error vB.mem e.message := ⟨_, rfl⟩
  obtain ⟨vC, hC⟩ : ∃ vC : vm_t, vC = { vB with mem := oe.2 } := ⟨_, rfl⟩
  obtain ⟨vD, hD⟩ : ∃ vD : vm_t, vD = if ¬ object_is_null vC.mem oe.1 then
        { vC with
          mem := object_set_error_traceback vC.mem oe.1 tb
          errors := { errors :=
            vC.errors.errors.dropLast ++ [{ e with traceback := none }] } }
      else vC := ⟨_, rfl⟩
  obtain ⟨vE, hE⟩ : ∃ vE, vE = stack_push dbg vD oe.1 := ⟨_, rfl⟩
  obtain ⟨vF, hF⟩ : ∃ vF, vF = vm_set_current vE
      { vm_current vE with ip := (vm_current vE).recover_ip } := ⟨_, rfl⟩
  obtain ⟨vG, hG⟩ : ∃ vG, vG = vm_set_current vF
      { vm_current vF with is_recovering := true } := ⟨_, rfl⟩
  have heq := vm_recover_chain dbg vm e i herr htype hi0 hi hrec hmax tb vA vB oe vC vD vE vF vG
    htb hA hB hoe hC hD hE hF hG
  -- the frames are popped
  have a1 : vA.current_frame = some (vA.frames_count - 1) := by rw [hA]; exact hcur
  have a2 : vA.frames_count = vm.frames_count := by rw [hA]
  have a3 : vA.frames = vm.frames := by rw [hA]
  have a4 : vA.mem = vm.mem := by rw [hA]
  have a5 : vA.sp = vm.sp := by rw [hA]
  have hk : vA.frames_count = i + 1 + (((vA.frames_count - (i + 1)).toNat : Nat) : Int) := by
    rw [Int.toNat_of_nonneg (by omega)]
    omega
  have hspec := pop_frames_to_spec (i + 1) (by omega)
    (vA.frames_count - (i + 1)).toNat vA a1 hk
  rw [← hB] at hspec
  obtain ⟨b1, b2, b3, b4, b5, b6⟩ := hspec
  rw [a2, a5, a3] at b6
  rw [a3] at b2
  rw [a4] at b5
  have b3i : vB.current_frame = some i := by
    rw [b3]
    congr 1
    omega
  -- the error object
  have hmk := object_make_error_spec vB.mem e.message (by rw [b5]; exact hwf)
  rw [← hoe] at hmk
  obtain ⟨p, hp, c1, c2, c3⟩ := hmk
  have hnn : object_is_null vC.mem oe.1 = false := by
    unfold object_is_null
    rw [hC, c1, from_data_type _ OBJECT_ERROR p rfl hp]
    show decide ((oe.2.deref p).type = OBJECT_NULL) = false
    rw [c2]
    rfl
  have hD2 : vD = { vC with
      mem := object_set_error_traceback vC.mem oe.1 tb
      errors := { errors := vC.errors.errors.dropLast ++ [{ e with traceback := none }] } } := by
    rw [hD, if_pos (by rw [hnn]; exact Bool.false_ne_true)]
  obtain ⟨d1, d2, d3⟩ := set_error_traceback_spec oe.2 p tb hp c2
  rw [← c1] at d1 d2 d3
  have hCm : vC.mem = oe.2 := by rw [hC]
  have hDm : vD.mem = object_set_error_traceback oe.2 oe.1 tb := by rw [hD2, hCm]
  have hDsp : vD.sp = vB.sp := by rw [hD2, hC]
  have hDf : vD.frames = vm.frames := by rw [hD2, hC]; exact b2
  have hDc : vD.frames_count = i + 1 := by rw [hD2, hC]; exact b1
  have hDcur : vD.current_frame = some i := by rw [hD2, hC]; exact b3i
  -- the push
  have hE2 := stack_push_eq dbg vD oe.1 (by rw [hDsp, b6]; exact hroom)
  rw [← hE] at hE2
  have hEsp : vE.sp = vD.sp + 1 := by rw [hE2]
  have hEtop : vE.stack (vE.sp - 1) = oe.1 := by
    rw [hE2]
    show (if vD.sp + 1 - 1 = vD.sp then oe.1 else vD.stack (vD.sp + 1 - 1)) = oe.1
    rw [if_pos (by omega)]
  have hEm : vE.mem = vD.mem := by rw [hE2]
  have hEf : vE.frames = vD.frames := by rw [hE2]
  have hEc : vE.frames_count = vD.frames_count := by rw [hE2]
  have hEcur : vE.current_frame = some i := by rw [hE2]; exact hDcur
  -- the jump
  obtain ⟨f1, f2, f3, _, f5, f6⟩ := vm_set_current_fields vE
    { vm_current vE with ip := (vm_current vE).recover_ip }
  obtain ⟨f7, f8⟩ := vm_set_current_frames vE
    { vm_current vE with ip := (vm_current vE).recover_ip } i hEcur
  rw [← hF] at f1 f2 f3 f5 f6 f7 f8
  have hFcur : vF.current_frame = some i := by rw [f6]; exact hEcur
  obtain ⟨g1, g2, g3, _, g5, g6⟩ := vm_set_current_fields vF
    { vm_current vF with is_recovering := true }
  obtain ⟨g7, g8⟩ := vm_set_current_frames vF
    { vm_current vF with is_recovering := true } i hFcur
  rw [← hG] at g1 g2 g3 g5 g6 g7 g8
  have hcE : vm_current vE = vm.frames i := by
    unfold vm_current
    rw [hEcur]
    show vE.frames i = _
    rw [hEf, hDf]
  have hcF : vm_current vF = { vm.frames i with ip := (vm.frames i).recover_ip } := by
    unfold vm_current
    rw [hFcur]
    show vF.frames i = _
    rw [f7, hcE]
  have hsp : vG.sp = (if vm.frames_count = i + 1 then vm.sp
      else (vm.frames (i + 1)).base_pointer - 1) + 1 := by
    rw [g1, f1, hEsp, hDsp, b6]
  have htop : vG.stack (vG.sp - 1) = oe.1 := by
    rw [g2, f2, g1, f1]
    exact hEtop
  have hmem : vG.mem = object_set_error_traceback oe.2 oe.1 tb := by
    rw [g3, f3, hEm, hDm]
  refine ⟨{ vG with errors := errors_clear vG.errors }, heq, ?_, ?_, rfl, ?_, ?_, ?_, hsp, ?_,
    ?_, ?_⟩
  · show vG.frames_count = i + 1
    rw [g5, f5, hEc, hDc]
  · show vG.current_frame = some i
    rw [g6]
    exact hFcur
  · show (vG.frames i).ip = _
    rw [g7, hcF]
  · show (vG.frames i).is_recovering = true
    rw [g7]
  · intro j hj
    show vG.frames j = _
    rw [g8 j hj, f8 j hj, hEf, hDf]
  · show object_get_type vG.mem (vG.stack (vG.sp - 1)) = _
    rw [htop, hmem]
    exact d1
  · show object_get_error_message vG.mem (vG.stack (vG.sp - 1)) = _
    rw [htop, hmem, d2, c3]
  · show object_get_error_traceback vG.mem (vG.stack (vG.sp - 1)) = _
    rw [htop, hmem, d3, htb]

theorem heap_wf_call_example : heap_wf mem_call_example := by
  unfold heap_wf
  decide

/-- C17 at a concrete input: three frames, the current one (2) without a handler, frames 1
and 0 with one; the error "boom" is recovered in frame 1. -/
theorem C17_runtime_error_recovered_witness :
    ∃ vm2, vm_recover false vm_unwind_example = (vm_goto.next, vm2)
      ∧ vm2.frames_count = 2 ∧ vm2.current_frame = some 1 ∧ vm2.errors.errors = []
      ∧ (vm2.frames 1).ip = 1 ∧ (vm2.frames 1).is_recovering = true
      ∧ vm2.sp = 2
      ∧ object_get_type vm2.mem (vm2.stack (vm2.sp - 1)) = OBJECT_ERROR
      ∧ object_get_error_message vm2.mem (vm2.stack (vm2.sp - 1)) = "boom" := by
  obtain ⟨vm2, h1, h2, h3, h4, h5, h6, _, h8, h9, h10, _⟩ :=
    C17_runtime_error_recovered false vm_unwind_example
      { type := ERROR_RUNTIME, message := "boom", pos := src_pos_invalid, traceback := none }
      1 rfl rfl (by decide) (by decide) (by decide)
      (fun j h1 h2 => by
        have hj : j = 2 := by
          have h3 : j < 3 := h2
          omega
        subst hj
        decide)
      rfl heap_wf_call_example (by decide)
  exact ⟨vm2, h1, h2, h3, h4, h5, h6, h8, h9, h10⟩


theorem ilog2_aux_le (k : Nat) : ∀ fuel n : Nat, n < 2 ^ (k + 1) → ilog2_aux fuel n ≤ k := by
  induction k with
  | zero =>
    intro fuel n hn
    have h2 : n < 2 := by simpa using hn
    cases fuel with
    | zero => exact Nat.le_refl _
    | succ fuel => simp only [ilog2_aux, h2, if_true, Nat.le_refl]
  | succ k ih =>
    intro fuel n hn
    cases fuel with
    | zero => exact Nat.zero_le _
    | succ fuel =>
      by_cases h2 : n < 2
      · simp only [ilog2_aux, h2, if_true, Nat.zero_le]
      · simp only [ilog2_aux, h2, if_false]
        have hk : n / 2 < 2 ^ (k + 1) := by
          rw [Nat.div_lt_iff_lt_mul (by decide)]
          rw [Nat.pow_succ] at hn
          exact hn
        have := ih fuel (n / 2) hk
        omega

theorem ilog2_eq (k n : Nat) (h1 : 2 ^ k ≤ n) (h2 : n < 2 ^ (k + 1)) : ilog2 n = k :=
  Nat.le_antisymm (ilog2_aux_le k n n h2) (le_ilog2 k n h1)

theorem rne_shift_exact (m s : Nat) : rne_shift (m * 2 ^ s) s = m := by
  unfold rne_shift
  have hq : (m * 2 ^ s) >>> s = m := by
    rw [Nat.shiftRight_eq_div_pow, Nat.mul_div_cancel _ (Nat.pos_pow_of_pos s (by decide))]
  have hr : (m * 2 ^ s) % 2 ^ s = 0 := Nat.mul_mod_left _ _
  simp only [hq, hr]
  have hh : 0 < 2 ^ (s - 1) := Nat.pos_pow_of_pos _ (by decide)
  rw [if_neg]
  rintro ⟨_, h | h⟩
  · omega
  · omega

/-- The bits of a finite nonzero magnitude are those of the double nearest to its value. -/
theorem round_dyadic_decode (b : Nat) (hb : b < DBL_INF) (h0 : b ≠ 0) :
    round_dyadic ((double_decode b).1 * 2 ^ ((double_decode b).2 - (-1074)).toNat) (-1074)
      = b := by
  have hinf : DBL_INF = 2047 * 2 ^ 52 := by decide
  rw [hinf] at hb
  have hsplit : b = b / 2 ^ 52 * 2 ^ 52 + b % 2 ^ 52 := (Nat.div_add_mod' b (2 ^ 52)).symm
  have hmf : b % 2 ^ 52 < 2 ^ 52 := Nat.mod_lt _ (by decide)
  have hef : b / 2 ^ 52 < 2047 := by
    rw [Nat.div_lt_iff_lt_mul (by decide)]
    exact hb
  unfold double_decode
  by_cases hz : b / 2 ^ 52 = 0
  · simp only [hz, if_true]
    have hbm : b % 2 ^ 52 = b := by
      rw [hz] at hsplit
      omega
    rw [hbm]
    have hs : ((-1074 : Int) - (-1074)).toNat = 0 := by decide
    rw [hs, Nat.pow_zero, Nat.mul_one]
    have hl : ilog2 b ≤ 51 := ilog2_aux_le 51 b b (by rw [← hbm]; exact hmf)
    unfold round_dyadic
    rw [if_neg h0]
    have hu : max ((ilog2 b : Int) + (-1074) - 52) (-1074) = -1074 := by
      apply max_eq_right
      omega
    simp only [hu]
    rw [if_pos (Int.le_refl _), hs, Nat.pow_zero, Nat.mul_one]
    have h3 : ((-1074 : Int) + 1074).toNat = 0 := by decide
    rw [h3, Nat.zero_mul, Nat.zero_add]
    unfold double_clamp
    rw [if_neg (by rw [hinf]; omega)]
  · simp only [hz, if_false]
    obtain ⟨s, hs⟩ : ∃ s, b / 2 ^ 52 = s + 1 := ⟨b / 2 ^ 52 - 1, by omega⟩
    have he : (((b / 2 ^ 52 : Nat) : Int) - 1075 - (-1074)).toNat = s := by
      rw [hs]
      push_cast
      omega
    rw [he]
    have hpos : 0 < 2 ^ s := Nat.pos_pow_of_pos s (by decide)
    have hM1 : 2 ^ (52 + s) ≤ (2 ^ 52 + b % 2 ^ 52) * 2 ^ s := by
      rw [Nat.pow_add]
      exact Nat.mul_le_mul_right _ (Nat.le_add_right _ _)
    have hM2 : (2 ^ 52 + b % 2 ^ 52) * 2 ^ s < 2 ^ (52 + s + 1) := by
      have : 2 ^ (52 + s + 1) = (2 ^ 52 + 2 ^ 52) * 2 ^ s := by
        rw [Nat.pow_succ, Nat.pow_add]
        ring
      rw [this]
      exact Nat.mul_lt_mul_of_pos_right (by omega) hpos
    have hl := ilog2_eq (52 + s) _ hM1 hM2
    have hne : (2 ^ 52 + b % 2 ^ 52) * 2 ^ s ≠ 0 := by
      have : 0 < 2 ^ (52 + s) := Nat.pos_pow_of_pos _ (by decide)
      omega
    unfold round_dyadic
    rw [if_neg hne, hl]
    have hu : max (((52 + s : Nat) : Int) + (-1074) - 52) (-1074) = (s : Int) - 1074 := by
      have h1 : ((52 + s : Nat) : Int) + (-1074) - 52 = (s : Int) - 1074 := by
        push_cast
        omega
      rw [h1]
      apply max_eq_left
      omega
    simp only [hu]
    have h3 : ((s : Int) - 1074 + 1074).toNat = s := by omega
    have hq : (if (s : Int) - 1074 ≤ -1074
        then (2 ^ 52 + b % 2 ^ 52) * 2 ^ s * 2 ^ ((-1074 : Int) - ((s : Int) - 1074)).toNat
        else rne_shift ((2 ^ 52 + b % 2 ^ 52) * 2 ^ s) ((s : Int) - 1074 - (-1074)).toNat)
        = 2 ^ 52 + b % 2 ^ 52 := by
      by_cases hs0 : s = 0
      · subst hs0
        rw [if_pos (by omega)]
        have : ((-1074 : Int) - (((0 : Nat) : Int) - 1074)).toNat = 0 := by decide
        rw [this, Nat.pow_zero, Nat.mul_one, Nat.mul_one]
      · rw [if_neg (by omega)]
        have : ((s : Int) - 1074 - (-1074)).toNat = s := by omega
        rw [this, rne_shift_exact]
    rw [hq, h3]
    unfold double_clamp
    have hb2 : s * 2 ^ 52 + (2 ^ 52 + b % 2 ^ 52) = b := by
      rw [hs] at hsplit
      have : (s + 1) * 2 ^ 52 = s * 2 ^ 52 + 2 ^ 52 := by ring
      omega
    rw [hb2, if_neg (by rw [hinf]; omega)]

theorem double_decode_exp (b : Nat) : -1074 ≤ (double_decode b).2 := by
  unfold double_decode
  by_cases hz : b / 2 ^ 52 = 0
  · simp only [hz, if_true, Int.le_refl]
  · simp only [hz, if_false]
    omega

theorem double_decode_zero (b : Nat) (h : (double_decode b).1 = 0) : b = 0 := by
  unfold double_decode at h
  have hsplit : b = b / 2 ^ 52 * 2 ^ 52 + b % 2 ^ 52 := (Nat.div_add_mod' b (2 ^ 52)).symm
  by_cases hz : b / 2 ^ 52 = 0
  · simp only [hz, if_true] at h
    rw [hz, h] at hsplit
    omega
  · simp only [hz, if_false] at h
    have : 0 < 2 ^ 52 := by decide
    omega

/-- Subtracting 0 keeps the magnitude: `fabs(c - 0) = fabs(c)` for every `c` that is not a
NaN. -/
theorem fabs_sub_zero (c : Nat) (hn : double_is_nan c = false) :
    fabs (double_sub c (double_of_int 0)) = fabs c := by
  have hz : double_of_int 0 = 0 := by decide
  have hn0 : double_is_nan 0 = false := by decide
  have hm0 : double_mag 0 = 0 := by decide
  have hs0 : double_sign 0 = false := by decide
  have hd0 : double_decode 0 = (0, -1074) := by decide
  have hlt : double_mag c < 2 ^ 63 := Nat.mod_lt _ (by decide)
  have hle : double_mag c ≤ DBL_INF := by
    unfold double_is_nan at hn
    simpa using hn
  rw [hz]
  unfold double_sub
  rw [if_neg (by rw [hn, hn0]; simp)]
  by_cases hi : double_mag c = DBL_INF
  · rw [if_pos hi, if_neg (fun h => by rw [hm0] at h; exact absurd h.1 (by decide))]
    unfold fabs double_mag
    exact Nat.mod_mod_of_dvd c (by decide : 2 ^ 63 ∣ 2 ^ 64)
  · rw [if_neg hi, if_neg (by rw [hm0]; decide)]
    have he0 : min (double_decode (double_mag c)).2 (double_decode (double_mag 0)).2 = -1074 := by
      rw [hm0, hd0]
      exact min_eq_right (double_decode_exp _)
    simp only [he0]
    have hsc0 : double_scaled 0 (-1074) = 0 := by decide
    rw [hsc0, Int.sub_zero]
    have hsc : (double_scaled c (-1074)).natAbs
        = (double_decode (double_mag c)).1
          * 2 ^ ((double_decode (double_mag c)).2 - (-1074)).toNat := by
      unfold double_scaled
      simp only
      split
      · rw [Int.natAbs_neg, Int.natAbs_ofNat]
      · rw [Int.natAbs_ofNat]
    by_cases hd : double_scaled c (-1074) = 0
    · rw [if_pos hd]
      have hm : double_mag c = 0 := by
        apply double_decode_zero
        rw [hd, Int.natAbs_zero] at hsc
        have hp : 0 < 2 ^ ((double_decode (double_mag c)).2 - (-1074)).toNat :=
          Nat.pos_pow_of_pos _ (by decide)
        rcases Nat.eq_zero_or_pos (double_decode (double_mag c)).1 with h | h
        · exact h
        · have := Nat.mul_pos h hp
          omega
      unfold fabs
      rw [hm]
      split <;> decide
    · rw [if_neg hd, hsc]
      have hfin : double_mag c < DBL_INF := by omega
      have hnz : double_mag c ≠ 0 := by
        intro h
        apply hd
        unfold double_scaled
        rw [h, hd0]
        simp
      rw [round_dyadic_decode (double_mag c) hfin hnz]
      unfold fabs
      show ((if double_scaled c (-1074) < 0 then 2 ^ 63 else 0) + double_mag c) % 2 ^ 63
        = double_mag c
      split
      · omega
      · omega

/-- The macro `APE_DBLEQ(c, 0)` is the test `fabs(c) < DBL_EPSILON`. -/
theorem dbleq_zero (c : Nat) (hn : double_is_nan c = false) :
    APE_DBLEQ c (double_of_int 0) = double_lt (fabs c) DBL_EPSILON := by
  unfold APE_DBLEQ
  rw [fabs_sub_zero c hn]


theorem double_not_nan_pattern (x : Nat) (h : double_is_nan x = false) :
    x &&& OBJECT_PATTERN ≠ OBJECT_PATTERN := by
  intro hc
  have h1 : (x &&& OBJECT_PATTERN) &&& (2 ^ 63 - 1) = 0x7ff8000000000000 := by
    rw [hc]
    decide
  have h2 : (x &&& OBJECT_PATTERN) &&& (2 ^ 63 - 1) = (x &&& (2 ^ 63 - 1)) &&& OBJECT_PATTERN := by
    rw [Nat.and_assoc, Nat.and_assoc, Nat.and_comm OBJECT_PATTERN]
  have h3 : (x &&& (2 ^ 63 - 1)) &&& OBJECT_PATTERN ≤ x &&& (2 ^ 63 - 1) := Nat.and_le_left
  rw [← h2, h1, Nat.and_pow_two_sub_one_eq_mod] at h3
  unfold double_is_nan double_mag DBL_INF at h
  simp only [decide_eq_false_iff_not, not_lt] at h
  omega

theorem number_object (mem : gcmem_t) (x : Nat) (h : double_is_nan x = false) :
    object_make_number x = { handle := x }
    ∧ object_get_number { handle := x } = x
    ∧ object_get_type mem { handle := x } = OBJECT_NUMBER := by
  have hp := double_not_nan_pattern x h
  refine ⟨?_, ?_, ?_⟩
  · unfold object_make_number
    rw [if_neg hp]
  · unfold object_get_number object_is_number
    simp only [hp, ne_eq, not_false_eq_true, decide_True, if_true]
  · unfold object_get_type object_is_number
    simp only [hp, ne_eq, not_false_eq_true, decide_True, if_true]

theorem dbleq_sub_not_nan (a b : Nat) (h : APE_DBLEQ a b = true) :
    double_is_nan (double_sub a b) = false := by
  cases hn : double_is_nan (double_sub a b)
  · rfl
  · exfalso
    have hf : double_is_nan (fabs (double_sub a b)) = true := by
      unfold double_is_nan fabs double_mag at *
      rw [Nat.mod_mod]
      exact hn
    unfold APE_DBLEQ double_lt at h
    rw [if_pos (Or.inl hf)] at h
    exact Bool.noConfusion h

theorem double_sub_not_nan (a b : Nat) (h : double_is_nan (double_sub a b) = false) :
    double_is_nan a = false ∧ double_is_nan b = false := by
  cases ha : double_is_nan a
  · cases hb : double_is_nan b
    · exact ⟨rfl, rfl⟩
    · exfalso
      have hs : double_sub a b = DBL_NAN := by
        unfold double_sub
        rw [if_pos (Or.inr hb)]
      rw [hs] at h
      revert h
      decide
  · exfalso
    have hs : double_sub a b = DBL_NAN := by
      unfold double_sub
      rw [if_pos (Or.inl ha)]
    rw [hs] at h
    revert h
    decide

theorem double_le_self (a : Nat) (h : double_is_nan a = false) : double_le a a = true := by
  unfold double_le
  rw [if_neg (by rw [h]; simp)]
  simp

theorem execute_code_cons (cs dbg : Bool) (natives : native_call_t)
    (constants : List object_t) (ins : instruction_t) (rest : List instruction_t)
    (vm vm2 : vm_t)
    (h : vm_execute_instruction cs dbg natives constants vm ins = some (vm_goto.next, vm2)) :
    vm_execute_code cs dbg natives constants (ins :: rest) vm
      = vm_execute_code cs dbg natives constants rest vm2 := by
  rw [vm_execute_code, h]

theorem compile_gte (mem : gcmem_t) (a b : Nat) :
    compile_expression_unfolded
        (EXPRESSION_INFIX OPERATOR_GTE (EXPRESSION_NUMBER_LITERAL a) (EXPRESSION_NUMBER_LITERAL b))
        (compiler_empty mem)
      = (true, { compiler_empty mem with bytecode :=
          [{ op := OPCODE_NUMBER, operands := [a] }, { op := OPCODE_NUMBER, operands := [b] },
           { op := OPCODE_COMPARE, operands := [] },
           { op := OPCODE_GREATER_THAN_EQUAL, operands := [] }] }) := by
  rfl

theorem overload_numbers (cs dbg : Bool) (natives : native_call_t) (vm : vm_t)
    (left right : object_t) (op : opcode_t)
    (hl : object_get_type vm.mem left = OBJECT_NUMBER)
    (hr : object_get_type vm.mem right = OBJECT_NUMBER) :
    try_overload_operator cs dbg natives vm left right op = (true, false, vm) := by
  unfold try_overload_operator
  simp only
  rw [if_pos ⟨by rw [hl]; decide, by rw [hr]; decide⟩]

theorem compare_numbers (cs : Bool) (mem : gcmem_t) (a b : Nat) (ok : Bool)
    (ha : double_is_nan a = false) (hb : double_is_nan b = false) (hab : a ≠ b) :
    object_compare cs mem { handle := a } { handle := b } ok = (double_sub a b, true, mem) := by
  obtain ⟨_, a2, a3⟩ := number_object mem a ha
  obtain ⟨_, b2, b3⟩ := number_object mem b hb
  unfold object_compare
  rw [if_neg hab]
  simp only
  rw [a3, b3, a2, b2, if_pos ⟨Or.inl rfl, Or.inl rfl⟩]

theorem vm_op_compare_numbers (cs dbg : Bool) (natives : native_call_t) (vm : vm_t)
    (a b : Nat) (op : opcode_t)
    (ha : double_is_nan a = false) (hb : double_is_nan b = false) (hab : a ≠ b)
    (hsp : 2 ≤ vm.sp)
    (htop : vm.stack (vm.sp - 1) = { handle := b })
    (hsec : vm.stack (vm.sp - 1 - 1) = { handle := a }) :
    vm_op_compare cs dbg natives vm op
      = (true, stack_push dbg
          { vm with sp := vm.sp - 1 - 1, last_popped := { handle := a } }
          (object_make_number (double_sub a b))) := by
  obtain ⟨_, _, a3⟩ := number_object vm.mem a ha
  obtain ⟨_, _, b3⟩ := number_object vm.mem b hb
  unfold vm_op_compare
  rw [stack_pop_eq dbg vm (by omega)]
  simp only
  rw [stack_pop_eq dbg _ (by show vm.sp - 1 ≠ 0; omega)]
  simp only
  rw [htop, hsec, overload_numbers cs dbg natives
    { vm with sp := vm.sp - 1 - 1, last_popped := { handle := a } } _ _ _ a3 b3]
  simp only
  rw [compare_numbers cs _ a b true ha hb hab]
  simp

theorem vm_op_equal_gte (dbg : Bool) (vm : vm_t) (c : Nat)
    (hc : double_is_nan c = false)
    (heq : APE_DBLEQ c (double_of_int 0) = true)
    (hsp : 1 ≤ vm.sp) (hroom : vm.sp ≤ VM_STACK_SIZE)
    (htop : vm.stack (vm.sp - 1) = { handle := c }) :
    vm_op_equal dbg vm OPCODE_GREATER_THAN_EQUAL
      = { vm with
          stack := (fun i => if i = vm.sp - 1 then object_make_bool true else vm.stack i)
          sp := vm.sp - 1 + 1
          last_popped := { handle := c } } := by
  obtain ⟨_, c2, _⟩ := number_object vm.mem c hc
  unfold vm_op_equal
  rw [stack_pop_eq dbg vm (by omega)]
  simp only
  rw [htop, c2, heq, Bool.or_true]
  rw [stack_push_eq dbg _ _ (by show vm.sp - 1 < VM_STACK_SIZE; omega)]

/-- C20 fails for `>=` on number literals: when `a >= b` is false but `a` and `b` are
equal in the sense of `APE_DBLEQ` (their difference is below `DBL_EPSILON`),
`optimise_expression` folds `a >= b` to the literal `false`, while the code of `a >= b`
(`NUMBER a`, `NUMBER b`, `COMPARE`, `GREATER_THAN_EQUAL`), executed on a machine with room
for two values on the stack, leaves the boolean `true` on top of the stack. -/
theorem C20_fold_gte_differs (cs dbg : Bool) (natives : native_call_t) (vm : vm_t) (a b : Nat)
    (hsp : 0 ≤ vm.sp) (hroom : vm.sp + 2 ≤ VM_STACK_SIZE)
    (hle : double_le b a = false) (hnear : APE_DBLEQ a b = true) :
    optimise_expression
        (EXPRESSION_INFIX OPERATOR_GTE (EXPRESSION_NUMBER_LITERAL a) (EXPRESSION_NUMBER_LITERAL b))
      = some (EXPRESSION_BOOL_LITERAL false)
    ∧ ∃ vm2, vm_evaluate_unfolded cs dbg natives vm
        (EXPRESSION_INFIX OPERATOR_GTE (EXPRESSION_NUMBER_LITERAL a) (EXPRESSION_NUMBER_LITERAL b))
          = some (object_make_bool true, vm2)
        ∧ vm2.sp = vm.sp + 1
        ∧ ¬ object_is_literal vm2.mem (object_make_bool true) (EXPRESSION_BOOL_LITERAL false) := by
  have hc := dbleq_sub_not_nan a b hnear
  have heq : APE_DBLEQ (double_sub a b) (double_of_int 0) = true := by
    rw [dbleq_zero _ hc]
    exact hnear
  obtain ⟨ha, hb⟩ := double_sub_not_nan a b hc
  have hab : a ≠ b := by
    intro h
    rw [h, double_le_self b hb] at hle
    exact Bool.noConfusion hle
  obtain ⟨a1, _, _⟩ := number_object vm.mem a ha
  obtain ⟨b1, _, _⟩ := number_object vm.mem b hb
  obtain ⟨c1, _, _⟩ := number_object vm.mem (double_sub a b) hc
  have hv : VM_STACK_SIZE = 2048 := rfl
  refine ⟨?_, ?_⟩
  · show optimise_infix_expression OPERATOR_GTE (EXPRESSION_NUMBER_LITERAL a)
      (EXPRESSION_NUMBER_LITERAL b) none none = _
    unfold optimise_infix_expression
    simp only [expression_is_numeric, expression_numeric_value, and_self, if_true, hle]
  · obtain ⟨v0, h0⟩ : ∃ v0 : vm_t, v0 = { vm with mem := (compiler_empty vm.mem).mem } := ⟨_, rfl⟩
    obtain ⟨v1, h1⟩ : ∃ v1 : vm_t, v1 = { v0 with
        stack := (fun i => if i = v0.sp then { handle := a } else v0.stack i)
        sp := v0.sp + 1 } := ⟨_, rfl⟩
    obtain ⟨v2, h2⟩ : ∃ v2 : vm_t, v2 = { v1 with
        stack := (fun i => if i = v1.sp then { handle := b } else v1.stack i)
        sp := v1.sp + 1 } := ⟨_, rfl⟩
    obtain ⟨v3, h3⟩ : ∃ v3 : vm_t, v3 = stack_push dbg
        { v2 with sp := v2.sp - 1 - 1, last_popped := { handle := a } }
        (object_make_number (double_sub a b)) := ⟨_, rfl⟩
    obtain ⟨v4, h4⟩ : ∃ v4 : vm_t, v4 = vm_op_equal dbg v3 OPCODE_GREATER_THAN_EQUAL := ⟨_, rfl⟩
    have s0 : v0.sp = vm.sp := by rw [h0]
    have s1 : v1.sp = vm.sp + 1 := by rw [h1]; exact congrArg (· + 1) s0
    have s2 : v2.sp = vm.sp + 2 := by
      rw [h2]
      show v1.sp + 1 = _
      rw [s1]
      omega
    have e1 : vm_execute_instruction cs dbg natives [] v0
        { op := OPCODE_NUMBER, operands := [a] } = some (vm_goto.next, v1) := by
      show some (vm_goto.next, stack_push dbg v0 (object_make_number a)) = _
      rw [stack_push_eq dbg v0 _ (by rw [s0, hv]; omega), a1, h1]
    have e2 : vm_execute_instruction cs dbg natives [] v1
        { op := OPCODE_NUMBER, operands := [b] } = some (vm_goto.next, v2) := by
      show some (vm_goto.next, stack_push dbg v1 (object_make_number b)) = _
      rw [stack_push_eq dbg v1 _ (by rw [s1, hv]; omega), b1, h2]
    have t2 : v2.stack (v2.sp - 1) = { handle := b } := by
      rw [h2]
      show (if v1.sp + 1 - 1 = v1.sp then _ else _) = _
      rw [if_pos (by omega)]
    have t2b : v2.stack (v2.sp - 1 - 1) = { handle := a } := by
      rw [h2]
      show (if v1.sp + 1 - 1 - 1 = v1.sp then _ else v1.stack (v1.sp + 1 - 1 - 1)) = _
      rw [if_neg (by omega), h1]
      show (if v0.sp + 1 + 1 - 1 - 1 = v0.sp then _ else _) = _
      rw [if_pos (by omega)]
    have e3 : vm_execute_instruction cs dbg natives [] v2
        { op := OPCODE_COMPARE, operands := [] } = some (vm_goto.next, v3) := by
      show some (if (vm_op_compare cs dbg natives v2 OPCODE_COMPARE).1 then vm_goto.next
        else vm_goto.err, (vm_op_compare cs dbg natives v2 OPCODE_COMPARE).2) = _
      rw [vm_op_compare_numbers cs dbg natives v2 a b OPCODE_COMPARE ha hb hab
        (by rw [s2]; omega) t2 t2b, h3]
      rfl
    have h3b : v3 = { v2 with
        stack := (fun i => if i = v2.sp - 1 - 1 then { handle := double_sub a b } else v2.stack i)
        sp := v2.sp - 1 - 1 + 1
        last_popped := { handle := a } } := by
      rw [h3, stack_push_eq dbg _ _ (by show v2.sp - 1 - 1 < VM_STACK_SIZE; rw [s2, hv]; omega),
        c1]
    have s3 : v3.sp = vm.sp + 1 := by
      rw [h3b]
      show v2.sp - 1 - 1 + 1 = _
      rw [s2]
      omega
    have t3 : v3.stack (v3.sp - 1) = { handle := double_sub a b } := by
      rw [h3b]
      show (if v2.sp - 1 - 1 + 1 - 1 = v2.sp - 1 - 1 then _ else _) = _
      rw [if_pos (by omega)]
    have e4 : vm_execute_instruction cs dbg natives [] v3
        { op := OPCODE_GREATER_THAN_EQUAL, operands := [] } = some (vm_goto.next, v4) := by
      rw [h4]
      rfl
    have h4b := vm_op_equal_gte dbg v3 (double_sub a b) hc heq (by rw [s3]; omega)
      (by rw [s3, hv]; omega) t3
    rw [← h4] at h4b
    have s4 : v4.sp = vm.sp + 1 := by
      rw [h4b]
      show v3.sp - 1 + 1 = _
      rw [s3]
      omega
    have t4 : v4.stack (v4.sp - 1) = object_make_bool true := by
      rw [h4b]
      show (if v3.sp - 1 + 1 - 1 = v3.sp - 1 then _ else _) = _
      rw [if_pos (by omega)]
    refine ⟨v4, ?_, s4, ?_⟩
    · unfold vm_evaluate_unfolded
      rw [compile_gte]
      have hk : (compiler_empty vm.mem).constants = [] := rfl
      simp only [not_true_eq_false, if_false]
      rw [hk, ← h0, execute_code_cons cs dbg natives _ _ _ v0 v1 e1,
        execute_code_cons cs dbg natives _ _ _ v1 v2 e2,
        execute_code_cons cs dbg natives _ _ _ v2 v3 e3,
        execute_code_cons cs dbg natives _ _ _ v3 v4 e4]
      rw [vm_execute_code]
      simp only [t4]
    · show ¬ (object_make_bool true = object_make_bool false)
      decide

/-- C20 at a concrete input: `0.5 >= 0.5000000000000001`. -/
theorem C20_fold_gte_differs_witness :
    optimise_expression example_gte = some (EXPRESSION_BOOL_LITERAL false)
    ∧ ∃ vm2, vm_evaluate_unfolded false false natives_none (vm_call_example 1) example_gte
        = some (object_make_bool true, vm2) := by
  obtain ⟨h1, vm2, h2, _⟩ := C20_fold_gte_differs false false natives_none (vm_call_example 1)
    DBL_HALF DBL_HALF_NEXT (by decide) (by decide) (by decide) (by decide)
  exact ⟨h1, vm2, h2⟩


/-- C22: on an error list within its capacity of 16, `errors_add_error` leaves a list that
already holds 16 errors unchanged; on a list with fewer than 16 errors the count grows by
one, every earlier error is unchanged and the entry at the old count is the new error (its
type, its position, the message cut to 254 characters, no traceback).  So the count stays at
most 16 and the first recorded error is never overwritten. -/
theorem C22_errors_capped (errors : errors_t) (type : error_type_t) (pos : src_pos_t)
    (message : String) (hcap : errors_get_count errors ≤ ERRORS_MAX_COUNT) :
    (errors_get_count errors = ERRORS_MAX_COUNT →
      errors_add_error errors type pos message = errors) ∧
    (errors_get_count errors < ERRORS_MAX_COUNT →
      errors_get_count (errors_add_error errors type pos message)
        = errors_get_count errors + 1 ∧
      (∀ i, i < errors_get_count errors →
        (errors_add_error errors type pos message).errors[i]? = errors.errors[i]?) ∧
      (errors_add_error errors type pos message).errors[errors_get_count errors]?
        = some { type := type, message := str_take message (ERROR_MESSAGE_MAX_LENGTH - 1),
                 pos := pos, traceback := none }) ∧
    errors_get_count (errors_add_error errors type pos message) ≤ ERRORS_MAX_COUNT ∧
    (∀ first, errors.errors.head? = some first →
      (errors_add_error errors type pos message).errors.head? = some first) := by
  unfold errors_add_error
  by_cases hfull : errors_get_count errors ≥ ERRORS_MAX_COUNT
  · rw [if_pos hfull]
    refine ⟨fun _ => rfl, fun h => absurd h (by omega), hcap, fun _ h => h⟩
  · rw [if_neg hfull]
    unfold errors_get_count at *
    refine ⟨fun h => absurd h (by omega), fun _ => ⟨?_, ?_, ?_⟩, ?_, ?_⟩
    · simp
    · intro i hi
      simp [List.getElem?_append_left hi]
    · simp
    · simp; omega
    · intro first hf
      cases hl : errors.errors with
      | nil => rw [hl] at hf; simp at hf
      | cons a l => rw [hl] at hf; simpa using hf

/-- Witness for C22: a list holding one error takes a second one. -/
theorem C22_errors_capped_witness :
    errors_get_count { errors := [{ type := ERROR_RUNTIME, message := "a", pos := src_pos_invalid, traceback := none }] } ≤ ERRORS_MAX_COUNT ∧
    errors_get_count (errors_add_error
      { errors := [{ type := ERROR_RUNTIME, message := "a", pos := src_pos_invalid, traceback := none }] }
      ERROR_COMPILATION src_pos_invalid "b") ≤ ERRORS_MAX_COUNT :=
  ⟨by decide, (C22_errors_capped
    { errors := [{ type := ERROR_RUNTIME, message := "a", pos := src_pos_invalid, traceback := none }] }
    ERROR_COMPILATION src_pos_invalid "b" (by decide)).2.2.1⟩

theorem strstr_single_none (c : Char) (s : List Char) (h : c ∉ s) : strstr s [c] = none := by
  induction s with
  | nil => simp [strstr]
  | cons d s ih =>
    have hd : c ≠ d := fun e => h (by simp [e])
    have hs : c ∉ s := fun e => h (by simp [e])
    simp [strstr, List.isPrefixOf, hd, ih hs]

theorem strstr_single_append (c : Char) (x t : List Char) (h : c ∉ x) :
    strstr (x ++ c :: t) [c] = some x.length := by
  induction x with
  | nil => simp [strstr, List.isPrefixOf]
  | cons d x ih =>
    have hd : c ≠ d := fun e => h (by simp [e])
    have hs : c ∉ x := fun e => h (by simp [e])
    simp [strstr, List.isPrefixOf, hd, ih hs]

theorem strstr_single_some (c : Char) (s : List Char) (k : Nat) (h : strstr s [c] = some k) :
    c ∉ s.take k ∧ s = s.take k ++ c :: s.drop (k + 1) := by
  induction s generalizing k with
  | nil => simp [strstr] at h
  | cons d s ih =>
    by_cases hd : c = d
    · subst hd
      simp [strstr, List.isPrefixOf] at h
      subst h
      simp
    · simp [strstr, List.isPrefixOf, hd] at h
      obtain ⟨a, ha, rfl⟩ := h
      obtain ⟨h1, h2⟩ := ih a ha
      refine ⟨?_, ?_⟩
      · simp [List.take_succ_cons, hd, h1]
      · simp only [List.take_succ_cons, List.drop_succ_cons, List.cons_append]
        rw [← h2]

theorem split_loop_spec (fuel : Nat) (s : List Char) (hf : s.length < fuel) :
    ∃ L, kg_split_string_loop fuel s ['/'] = some L ∧ L ≠ [] ∧ (∀ x ∈ L, '/' ∉ x) ∧
      kg_join L ['/'] = s := by
  induction fuel generalizing s with
  | zero => omega
  | succ fuel ih =>
    unfold kg_split_string_loop
    cases hk : strstr s ['/'] with
    | none =>
      refine ⟨[s], rfl, by simp, ?_, rfl⟩
      intro x hx
      simp at hx
      subst hx
      intro hmem
      have := strstr_single_none '/' x
      by_contra _
      clear this
      induction x with
      | nil => simp at hmem
      | cons d x ihx =>
        by_cases hd : '/' = d
        · subst hd; simp [strstr, List.isPrefixOf] at hk
        · simp [strstr, List.isPrefixOf, hd] at hk
          have hx : '/' ∈ x := by
            rcases List.mem_cons.mp hmem with e | e
            · exact absurd e hd
            · exact e
          exact ihx (by simp at hf ⊢; omega) hk hx
    | some k =>
      obtain ⟨h1, h2⟩ := strstr_single_some '/' s k hk
      have hlen : (s.drop (k + 1)).length < fuel := by
        have : s.length = (s.take k).length + ((s.drop (k+1)).length + 1) := by
          conv_lhs => rw [h2]
          simp
        omega
      obtain ⟨L, hL, hne, hfree, hjoin⟩ := ih (s.drop (k + 1)) hlen
      refine ⟨s.take k :: L, by simp [hL], by simp, ?_, ?_⟩
      · intro x hx
        rcases List.mem_cons.mp hx with e | e
        · rw [e]; exact h1
        · exact hfree x e
      · cases L with
        | nil => exact absurd rfl hne
        | cons y rest =>
          show s.take k ++ ['/'] ++ kg_join (y :: rest) ['/'] = s
          rw [hjoin]
          conv_rhs => rw [h2]
          simp

theorem split_loop_join (L : List (List Char)) (hne : L ≠ []) (hfree : ∀ x ∈ L, '/' ∉ x)
    (fuel : Nat) (hf : (kg_join L ['/']).length < fuel) :
    kg_split_string_loop fuel (kg_join L ['/']) ['/'] = some L := by
  induction L generalizing fuel with
  | nil => exact absurd rfl hne
  | cons x rest ih =>
    cases fuel with
    | zero => omega
    | succ fuel =>
      cases rest with
      | nil =>
        show kg_split_string_loop (fuel + 1) x ['/'] = _
        unfold kg_split_string_loop
        rw [strstr_single_none '/' x (hfree x (by simp))]
      | cons y rest =>
        have hj : kg_join (x :: y :: rest) ['/'] = x ++ '/' :: kg_join (y :: rest) ['/'] := by
          show x ++ ['/'] ++ kg_join (y :: rest) ['/'] = _
          simp
        rw [hj] at hf ⊢
        unfold kg_split_string_loop
        rw [strstr_single_append '/' x _ (hfree x (by simp))]
        have hd : (x ++ '/' :: kg_join (y :: rest) ['/']).drop (x.length + 1)
            = kg_join (y :: rest) ['/'] := by
          rw [show x ++ '/' :: kg_join (y :: rest) ['/']
              = (x ++ ['/']) ++ kg_join (y :: rest) ['/'] by simp]
          rw [List.drop_append_of_le_length (by simp)]
          simp
        have ht : (x ++ '/' :: kg_join (y :: rest) ['/']).take x.length = x := by
          simp
        simp only [hd, ht]
        rw [ih (by simp) (fun z hz => hfree z (List.mem_cons_of_mem _ hz)) fuel
          (by simp at hf; omega)]
        rfl

theorem mem_eraseIdx_sub {α : Type} (L : List α) (i : Nat) (x : α) (h : x ∈ L.eraseIdx i) :
    x ∈ L := List.mem_of_mem_eraseIdx h

theorem canon_loop_total (fuel : Nat) (L : List (List Char)) (i : Nat)
    (hs : canon_settled L i) (hf : (L.length + 1) * (L.length + 1) ≤ fuel + i)
    (hpos : 0 < fuel) :
    ∃ L', kg_canonicalise_loop fuel L i = some L' ∧ canon_settled L' L'.length ∧
      ∀ x ∈ L', x ∈ L := by
  induction fuel generalizing L i with
  | zero =>
    omega
  | succ fuel ih =>
    unfold kg_canonicalise_loop
    by_cases hi : (i : Int) < (L.length : Int) - 1
    · rw [if_pos hi]
      have hi2 : i + 1 < L.length := by omega
      have hsq : (L.length + 1) * (L.length + 1) = L.length * L.length + 2 * L.length + 1 := by
        ring
      by_cases h1 : kg_streq (L.getD i []) ".".toList = true
      · simp only [h1, if_true]
        have hl : (L.eraseIdx i).length = L.length - 1 := List.length_eraseIdx_of_lt (by omega)
        obtain ⟨n, hn⟩ : ∃ n, L.length = n + 1 := ⟨L.length - 1, by omega⟩
        obtain ⟨L', h, hst, hsub⟩ := ih (L.eraseIdx i) 0 (fun j hj => absurd hj (by omega))
          (by
            rw [hl, hn]
            rw [hn] at hsq hi2
            have : (n + 1) * (n + 1) = n * n + 2 * n + 1 := by ring
            simp only [Nat.add_sub_cancel]
            have h3 : (n + 1 + 1) * (n + 1 + 1) = n * n + 4 * n + 4 := by ring
            rw [hn, h3] at hf
            omega)
          (by rw [hn] at hsq hf; omega)
        exact ⟨L', h, hst, fun x hx => mem_eraseIdx_sub L i x (hsub x hx)⟩
      · simp only [h1]
        by_cases h2 : kg_streq (L.getD (i + 1) []) "..".toList = true
        · simp only [h2, if_true]
          have hl : (L.eraseIdx i).length = L.length - 1 :=
            List.length_eraseIdx_of_lt (by omega)
          have hl2 : ((L.eraseIdx i).eraseIdx i).length = L.length - 2 := by
            rw [List.length_eraseIdx_of_lt (by omega), hl]; omega
          obtain ⟨n, hn⟩ : ∃ n, L.length = n + 2 := ⟨L.length - 2, by omega⟩
          obtain ⟨L', h, hst, hsub⟩ := ih ((L.eraseIdx i).eraseIdx i) 0
            (fun j hj => absurd hj (by omega))
            (by
              rw [hl2, hn]
              simp only [Nat.add_sub_cancel]
              have h3 : (n + 2 + 1) * (n + 2 + 1) = n * n + 6 * n + 9 := by ring
              have h4 : (n + 1) * (n + 1) = n * n + 2 * n + 1 := by ring
              rw [hn, h3] at hf
              rw [hn] at hi2
              omega)
            (by rw [hn] at hsq hf; omega)
          exact ⟨L', h, hst, fun x hx =>
            mem_eraseIdx_sub L i x (mem_eraseIdx_sub _ i x (hsub x hx))⟩
        · simp only [h2]
          obtain ⟨L', h, hst, hsub⟩ := ih L (i + 1)
            (by
              intro j hj hjl
              by_cases hji : j < i
              · exact hs j hji hjl
              · have : j = i := by omega
                subst this
                exact ⟨fun e => h1 (by unfold kg_streq; exact decide_eq_true e),
                  fun e => h2 (by unfold kg_streq; exact decide_eq_true e)⟩)
            (by omega) (by omega)
          exact ⟨L', by simpa using h, hst, hsub⟩
    · rw [if_neg hi]
      refine ⟨L, rfl, ?_, fun x hx => hx⟩
      intro j _ hjl
      exact hs j (by omega) hjl

theorem canon_loop_settled (fuel : Nat) (L : List (List Char)) (i : Nat)
    (hs : canon_settled L L.length) (hf : L.length < fuel + i) (hpos : 0 < fuel) :
    kg_canonicalise_loop fuel L i = some L := by
  induction fuel generalizing i with
  | zero =>
    omega
  | succ fuel ih =>
    unfold kg_canonicalise_loop
    by_cases hi : (i : Int) < (L.length : Int) - 1
    · rw [if_pos hi]
      have hi2 : i + 1 < L.length := by omega
      obtain ⟨h1, h2⟩ := hs i (by omega) hi2
      have e1 : kg_streq (L.getD i []) ".".toList = false := by
        unfold kg_streq; exact decide_eq_false h1
      have e2 : kg_streq (L.getD (i + 1) []) "..".toList = false := by
        unfold kg_streq; exact decide_eq_false h2
      simp only [e1, e2]
      simpa using ih (i + 1) (by omega) (by omega)
    · rw [if_neg hi]

theorem kg_join_nil_of_slash (L : List (List Char))
    (h : strchr (kg_join L "/".toList) '/' = true) : L ≠ [] := by
  intro e
  subst e
  simp [kg_join, strchr] at h

/-- C23: `kg_canonicalise_path` returns a path for every path `p`, and canonicalising that
result returns it unchanged. -/
theorem C23_canonicalise_idempotent (p : List Char) :
    ∃ r, kg_canonicalise_path p = some r ∧ kg_canonicalise_path r = some r := by
  by_cases hc : strchr p '/' = false ∨
      ((strstr p "/../".toList).isNone = true ∧ (strstr p "./".toList).isNone = true)
  · exact ⟨p, by unfold kg_canonicalise_path; rw [if_pos hc],
      by unfold kg_canonicalise_path; rw [if_pos hc]⟩
  · obtain ⟨L, hL, hne, hfree, _⟩ := split_loop_spec (p.length + 1) p (by omega)
    have hsq : ∀ n : Nat, (n + 1) * (n + 1) = n * n + 2 * n + 1 := fun n => by ring
    obtain ⟨L', hL', hst, hsub⟩ := canon_loop_total ((L.length + 1) * (L.length + 1)) L 0
      (fun j hj => absurd hj (by omega)) (by omega) (by rw [hsq]; omega)
    have hp : kg_canonicalise_path p = some (kg_join L' ['/']) := by
      unfold kg_canonicalise_path kg_split_string
      rw [if_neg hc]
      show (match kg_split_string_loop (p.length + 1) p ['/'] with
        | none => none
        | some split =>
          match kg_canonicalise_loop ((split.length + 1) * (split.length + 1)) split 0 with
          | none => none
          | some split => some (kg_join split ['/'])) = _
      rw [hL]
      show (match kg_canonicalise_loop ((L.length + 1) * (L.length + 1)) L 0 with
          | none => none
          | some split => some (kg_join split ['/'])) = _
      rw [hL']
    refine ⟨_, hp, ?_⟩
    by_cases hc2 : strchr (kg_join L' ['/']) '/' = false ∨
      ((strstr (kg_join L' ['/']) "/../".toList).isNone = true ∧
        (strstr (kg_join L' ['/']) "./".toList).isNone = true)
    · unfold kg_canonicalise_path; rw [if_pos hc2]
    · have hne2 : L' ≠ [] := by
        apply kg_join_nil_of_slash
        by_contra hcon
        exact hc2 (Or.inl (by simpa using hcon))
      have hs2 := split_loop_join L' hne2 (fun x hx => hfree x (hsub x hx))
        ((kg_join L' ['/']).length + 1) (by show _ < _; omega)
      have hl2 := canon_loop_settled ((L'.length + 1) * (L'.length + 1)) L' 0 hst
        (by rw [hsq]; omega) (by rw [hsq]; omega)
      unfold kg_canonicalise_path kg_split_string
      rw [if_neg hc2]
      show (match kg_split_string_loop ((kg_join L' ['/']).length + 1)
          (kg_join L' ['/']) ['/'] with
        | none => none
        | some split =>
          match kg_canonicalise_loop ((split.length + 1) * (split.length + 1)) split 0 with
          | none => none
          | some split => some (kg_join split ['/'])) = _
      rw [hs2]
      show (match kg_canonicalise_loop ((L'.length + 1) * (L'.length + 1)) L' 0 with
          | none => none
          | some split => some (kg_join split ['/'])) = _
      rw [hl2]

theorem spec_resolve_up_up (dirs : List (List Char)) :
    spec_resolve_segment (spec_resolve_segment dirs "..".toList) "..".toList ≠ dirs := by
  have hd : "..".toList ≠ ".".toList := by decide
  cases dirs with
  | nil => simp [spec_resolve_segment, hd]
  | cons top below =>
    by_cases ht : top = "..".toList
    · subst ht
      intro h
      have := congrArg List.length h
      simp [spec_resolve_segment, hd] at this
      omega
    · cases below with
      | nil =>
        simp only [spec_resolve_segment, hd, if_false, if_true, ht]
        intro h
        exact ht (List.cons.inj h).1.symm
      | cons t2 b2 =>
        by_cases ht2 : t2 = "..".toList
        · subst ht2
          simp only [spec_resolve_segment, hd, if_false, if_true, ht]
          intro h
          exact ht (List.cons.inj h).1.symm
        · simp only [spec_resolve_segment, hd, if_false, if_true, ht, ht2]
          intro h
          have := congrArg List.length h
          simp at this
          omega

/-- C24: `kg_canonicalise_path` does not keep the location.  The absolute path `/../a`
becomes the relative path `a`, and `../../a` becomes `a`, which resolved against any base
directory denotes another location than `../../a`. -/
theorem C24_canonicalise_changes_location :
    (kg_canonicalise_path "/../a".toList = some "a".toList ∧
      kg_is_path_absolute "/../a".toList = true ∧
      kg_is_path_absolute "a".toList = false) ∧
    (kg_canonicalise_path "../../a".toList = some "a".toList ∧
      ∀ base, spec_resolve base "../../a".toList ≠ spec_resolve base "a".toList) := by
  refine ⟨⟨by decide, by decide, by decide⟩, by decide, ?_⟩
  intro base h
  have h1 : spec_resolve base "../../a".toList
      = (false, ("a".toList :: spec_resolve_segment
          (spec_resolve_segment base.reverse "..".toList) "..".toList).reverse) := rfl
  have h2 : spec_resolve base "a".toList = (false, ("a".toList :: base.reverse).reverse) := rfl
  rw [h1, h2] at h
  have h3 := List.reverse_injective (Prod.mk.inj h).2
  exact spec_resolve_up_up _ (List.cons.inj h3).2

theorem dict_get_set {κ α : Type} [DecidableEq κ] (dict : dict_t_ κ α) (key : κ) (value : α)
    (k : κ) :
    dict_get (dict_set dict key value) k = if key = k then some value else dict_get dict k := by
  induction dict with
  | nil => simp [dict_set, dict_get]
  | cons item items ih =>
    obtain ⟨k0, v0⟩ := item
    unfold dict_set
    by_cases h0 : k0 = key
    · subst h0
      rw [if_pos rfl]
      by_cases h1 : k0 = k
      · simp [dict_get, h1]
      · simp [dict_get, h1]
    · rw [if_neg h0]
      by_cases h1 : k0 = k
      · have : ¬ key = k := fun e => h0 (by rw [h1, e])
        simp [dict_get, h1, this]
      · simp [dict_get, h1, ih]

theorem this_under_this_ite (c : Prop) [Decidable c] (a b : symbol_table_t)
    (ha : this_under_this a) (hb : this_under_this b) :
    this_under_this (if c then a else b) := by
  split
  · exact ha
  · exact hb

theorem this_under_this_set (table table1 : symbol_table_t) (symbol : symbol_t)
    (hwf : this_under_this table) (hs : symbol.type = SYMBOL_THIS → symbol.name = "this")
    (h : set_symbol table symbol = some table1) : this_under_this table1 := by
  unfold set_symbol at h
  cases htop : table.block_scopes.getLast? with
  | none => rw [htop] at h; simp at h
  | some top_scope =>
    rw [htop] at h
    simp only [Option.some.injEq] at h
    subst h
    intro scope hmem key sym hget hty
    simp only [List.mem_append, List.mem_singleton] at hmem
    rcases hmem with hm | hm
    · exact hwf scope (List.mem_of_mem_dropLast hm) key sym hget hty
    · subst hm
      simp only at hget
      rw [dict_get_set] at hget
      by_cases hk : symbol.name = key
      · rw [if_pos hk] at hget
        cases hget
        rw [← hk]; exact hs hty
      · rw [if_neg hk] at hget
        exact hwf top_scope (List.mem_of_getLast?_eq_some htop) key sym hget hty

theorem this_under_this_make (global_store : global_store_t) (module_global_offset : Int) :
    this_under_this (symbol_table_make global_store module_global_offset) := by
  intro scope hmem key sym hget _
  simp [symbol_table_make, symbol_table_push_block_scope, block_scope_make] at hmem
  subst hmem
  simp [dict_get] at hget

theorem this_under_this_push (table : symbol_table_t) (hwf : this_under_this table) :
    this_under_this (symbol_table_push_block_scope table) := by
  intro scope hmem key sym hget hty
  simp only [symbol_table_push_block_scope, List.mem_append, List.mem_singleton] at hmem
  rcases hmem with hm | hm
  · exact hwf scope hm key sym hget hty
  · subst hm
    simp [block_scope_make, dict_get] at hget

theorem this_under_this_pop (table : symbol_table_t) (hwf : this_under_this table) :
    this_under_this (symbol_table_pop_block_scope table) := by
  intro scope hmem key sym hget hty
  exact hwf scope (List.mem_of_mem_dropLast hmem) key sym hget hty

theorem this_under_this_define_free (st st1 : symbol_table_t) (original symbol : symbol_t)
    (hwf : this_under_this st)
    (h : symbol_table_define_free st original = some (symbol, st1)) :
    this_under_this st1 := by
  unfold symbol_table_define_free at h
  simp only at h
  split at h
  · cases h
  · rename_i st2 hset
    simp only [Option.some.injEq, Prod.mk.injEq] at h
    rw [← h.2]
    exact this_under_this_set
      { st with free_symbols := st.free_symbols ++
          [symbol_make original.name original.type original.index original.assignable] }
      st2 _ (fun scope hm => hwf scope hm) (fun e => by cases e) hset

theorem this_under_this_define_this (st st1 : symbol_table_t) (symbol : symbol_t)
    (hwf : this_under_this st) (h : symbol_table_define_this st = some (symbol, st1)) :
    this_under_this st1 := by
  unfold symbol_table_define_this at h
  simp only at h
  split at h
  · cases h
  · rename_i st2 hset
    simp only [Option.some.injEq, Prod.mk.injEq] at h
    rw [← h.2]
    exact this_under_this_set _ st2 _ hwf (fun _ => rfl) hset

theorem this_under_this_define (table : symbol_table_t) (outer : List symbol_table_t)
    (name : String) (assignable : Bool) (r : Option symbol_t) (table1 : symbol_table_t)
    (outer1 : List symbol_table_t) (hwf : this_under_this table)
    (h : symbol_table_define (table :: outer) name assignable = some (r, table1 :: outer1)) :
    this_under_this table1 := by
  unfold symbol_table_define at h
  simp only at h
  split at h
  · cases h; exact hwf
  · split at h
    · cases h; exact hwf
    · split at h
      · cases h; exact hwf
      · split at h
        · cases h
        · split at h
          · cases h
          · rename_i table2 hset
            split at h
            · cases h
            · rename_i top_scope htop
              have hwf2 : this_under_this table2 := by
                refine this_under_this_set _ table2 _ ?_ ?_ hset
                · exact this_under_this_ite _ _ _ (fun scope hm => hwf scope hm) hwf
                · intro e
                  simp only [symbol_make] at e
                  split at e <;> cases e
              simp only [Option.some.injEq, Prod.mk.injEq, List.cons.injEq] at h
              rw [← h.2.1]
              have hwf3 : this_under_this { table2 with block_scopes :=
                  table2.block_scopes.dropLast ++
                    [{ top_scope with num_definitions := top_scope.num_definitions + 1 }] } := by
                intro scope hmem key sym hget hty
                simp only [List.mem_append, List.mem_singleton] at hmem
                rcases hmem with hm | hm
                · exact hwf2 scope (List.mem_of_mem_dropLast hm) key sym hget hty
                · subst hm
                  exact hwf2 top_scope (List.mem_of_getLast?_eq_some htop) key sym hget hty
              exact this_under_this_ite _ _ _ (fun scope hm => hwf3 scope hm) hwf3

theorem strstr_mem (s : List Char) (c : Char) (rest : List Char) (k : Nat)
    (h : strstr s (c :: rest) = some k) : c ∈ s := by
  induction s generalizing k with
  | nil => simp [strstr] at h
  | cons d s ih =>
    unfold strstr at h
    by_cases hp : (c :: rest).isPrefixOf (d :: s) = true
    · simp [List.isPrefixOf] at hp
      simp [hp.1]
    · rw [if_neg hp] at h
      cases hk : strstr s (c :: rest) with
      | none => rw [hk] at h; simp at h
      | some j => exact List.mem_cons_of_mem _ (ih j hk)

/-- C25: `symbol_table_define` returns no symbol and leaves the table and its outer tables
unchanged (block scopes, module_global_symbols, max_num_definitions and all other fields)
when the name is defined in the host global store, when it contains `::`, or when it is
`this`. -/
theorem C25_define_rejected (table : symbol_table_t) (outer : List symbol_table_t)
    (name : String) (assignable : Bool)
    (h : (global_store_get_symbol table.global_store name).isSome = true ∨
      (strstr name.data "::".toList).isSome = true ∨ name = "this") :
    symbol_table_define (table :: outer) name assignable = some (none, table :: outer) := by
  unfold symbol_table_define
  by_cases h1 : (global_store_get_symbol table.global_store name).isSome = true
  · simp only [h1, if_true]
  · by_cases h2 : strchr name.data ':' = true
    · simp only [h1, h2, if_true]
      simp
    · by_cases h3 : name = "this"
      · simp only [h1, h2, h3, if_true]
        simp
      · exfalso
        rcases h with h | h | h
        · exact h1 h
        · apply h2
          cases hk : strstr name.data "::".toList with
          | none => rw [hk] at h; simp at h
          | some k =>
            unfold strchr
            exact decide_eq_true (strstr_mem name.data ':' [':'] k hk)
        · exact h3 h

/-- Witness for C25: the name `a::b` is rejected in the example module table. -/
theorem C25_define_rejected_witness :
    symbol_table_define [example_module_table] "a::b" true
      = some (none, [example_module_table]) :=
  C25_define_rejected example_module_table [] "a::b" true (Or.inr (Or.inl (by decide)))

theorem resolve_block_scopes_innermost (below above : List block_scope_t)
    (scope : block_scope_t) (name : String) (symbol : symbol_t)
    (habove : ∀ inner ∈ above, dict_get inner.store name = none)
    (hscope : dict_get scope.store name = some symbol) :
    resolve_block_scopes (below ++ scope :: above) name = some symbol := by
  unfold resolve_block_scopes
  rw [List.reverse_append, List.reverse_cons, List.append_assoc]
  rw [List.findSome?_append]
  have h1 : above.reverse.findSome? (fun scope => dict_get scope.store name) = none := by
    rw [List.findSome?_eq_none_iff]
    intro x hx
    exact habove x (List.mem_reverse.mp hx)
  rw [h1]
  simp [List.findSome?, hscope]

theorem resolve_block_scopes_mem (block_scopes : List block_scope_t) (name : String)
    (symbol : symbol_t) (h : resolve_block_scopes block_scopes name = some symbol) :
    ∃ scope ∈ block_scopes, dict_get scope.store name = some symbol := by
  unfold resolve_block_scopes at h
  obtain ⟨scope, hs, hd⟩ := List.exists_of_findSome?_eq_some h
  exact ⟨scope, List.mem_reverse.mp hs, hd⟩

/-- C26: for a name other than `this`, in a table whose `This` symbols are stored under
the name `this`: `symbol_table_resolve` returns the host global store's symbol whenever
the store defines the name; otherwise, when the innermost block scope defining the name
holds `symbol` (no scope above it defines the name), it returns `symbol`.  In both cases
the table and the outer tables, whatever they are, are left as they were. -/
theorem C26_resolve_innermost (table : symbol_table_t) (outer : List symbol_table_t)
    (name : String) (hname : name ≠ "this") (hwf : this_under_this table) :
    (∀ symbol, global_store_get_symbol table.global_store name = some symbol →
      symbol_table_resolve (table :: outer) name = some (some symbol, table :: outer)) ∧
    (∀ below above scope symbol,
      global_store_get_symbol table.global_store name = none →
      table.block_scopes = below ++ scope :: above →
      (∀ inner ∈ above, dict_get inner.store name = none) →
      dict_get scope.store name = some symbol →
      symbol_table_resolve (table :: outer) name = some (some symbol, table :: outer)) := by
  refine ⟨?_, ?_⟩
  · intro symbol hg
    unfold symbol_table_resolve
    rw [hg]
  · intro below above scope symbol hg hsc habove hscope
    have hr := resolve_block_scopes_innermost below above scope name symbol habove hscope
    rw [← hsc] at hr
    have ht : symbol.type ≠ SYMBOL_THIS := fun e =>
      hname (hwf scope (by rw [hsc]; simp) name symbol hscope e)
    unfold symbol_table_resolve
    rw [hg]
    simp only [hr]
    rw [if_neg ht]

/-- Witness for C26: in the example table both block scopes define `x`; the definition of
the inner scope (index 1) is returned. -/
theorem C26_resolve_innermost_witness :
    symbol_table_resolve [example_inner_table, example_middle_table] "x"
      = some (some (symbol_make "x" SYMBOL_LOCAL 1 true),
          [example_inner_table, example_middle_table]) :=
  (C26_resolve_innermost example_inner_table [example_middle_table] "x" (by decide)
    (by
      intro scope hs key symbol hd ht
      simp only [example_inner_table, List.mem_cons, List.mem_singleton, List.not_mem_nil,
        or_false] at hs
      rcases hs with rfl | rfl
      · simp only [dict_get] at hd
        split at hd
        · cases hd; simp [symbol_make] at ht
        · cases hd
      · simp only [dict_get] at hd
        split at hd
        · cases hd; simp [symbol_make] at ht
        · cases hd)).2
    [{ store := [("x", symbol_make "x" SYMBOL_LOCAL 0 true)], offset := 0,
       num_definitions := 1 }] []
    { store := [("x", symbol_make "x" SYMBOL_LOCAL 1 true)], offset := 1,
      num_definitions := 1 }
    (symbol_make "x" SYMBOL_LOCAL 1 true) (by decide) rfl (by simp) (by decide)

theorem define_free_spec (st : symbol_table_t) (original : symbol_t)
    (hscopes : st.block_scopes ≠ []) :
    ∃ st1, symbol_table_define_free st original
        = some (symbol_make original.name SYMBOL_FREE st.free_symbols.length
            original.assignable, st1) ∧
      st1.free_symbols = st.free_symbols ++ [original] ∧
      st1.global_store = st.global_store ∧
      st1.module_global_symbols = st.module_global_symbols ∧
      st1.max_num_definitions = st.max_num_definitions ∧
      st1.module_global_offset = st.module_global_offset ∧
      (∃ top_scope, st.block_scopes.getLast? = some top_scope ∧
        st1.block_scopes = st.block_scopes.dropLast ++
          [{ top_scope with store := (dict_set top_scope.store original.name
              (symbol_make original.name SYMBOL_FREE st.free_symbols.length
                original.assignable)) }]) := by
  obtain ⟨top_scope, htop⟩ : ∃ t, st.block_scopes.getLast? = some t := by
    cases h : st.block_scopes.getLast? with
    | none => exact absurd (List.getLast?_eq_none_iff.mp h) hscopes
    | some t => exact ⟨t, rfl⟩
  have hix : (((st.free_symbols ++ [symbol_make original.name original.type original.index
      original.assignable]).length : Nat) : Int) - 1 = (st.free_symbols.length : Int) := by
    simp
  unfold symbol_table_define_free set_symbol
  simp only [htop, hix]
  exact ⟨_, rfl, rfl, rfl, rfl, rfl, rfl, top_scope, rfl, rfl⟩

theorem define_free_type (st : symbol_table_t) (original : symbol_t)
    (r : symbol_t × symbol_table_t) (h : symbol_table_define_free st original = some r) :
    r.1.type = SYMBOL_FREE := by
  unfold symbol_table_define_free at h
  simp only at h
  split at h
  · cases h
  · cases h; rfl

theorem resolve_global_unchanged (tables : List symbol_table_t) (name : String)
    (symbol : symbol_t) (tables1 : List symbol_table_t)
    (h : symbol_table_resolve tables name = some (some symbol, tables1))
    (ht : symbol.type = SYMBOL_MODULE_GLOBAL ∨ symbol.type = SYMBOL_APE_GLOBAL) :
    tables1 = tables := by
  induction tables generalizing symbol tables1 with
  | nil => simp [symbol_table_resolve] at h
  | cons table outer ih =>
    unfold symbol_table_resolve at h
    cases hg : global_store_get_symbol table.global_store name with
    | some g =>
      rw [hg] at h
      simp only [Option.some.injEq, Prod.mk.injEq] at h
      exact h.2.symm
    | none =>
      rw [hg] at h
      simp only at h
      cases hs : resolve_block_scopes table.block_scopes name with
      | some s =>
        rw [hs] at h
        simp only at h
        by_cases hthis : s.type = SYMBOL_THIS
        · rw [if_pos hthis] at h
          cases hd : symbol_table_define_free table s with
          | none => rw [hd] at h; simp at h
          | some r =>
            rw [hd] at h
            simp only [Option.map_some', Option.some.injEq, Prod.mk.injEq] at h
            have := define_free_type table s r hd
            rw [h.1] at this
            rcases ht with e | e <;> rw [e] at this <;> cases this
        · rw [if_neg hthis] at h
          simp only [Option.some.injEq, Prod.mk.injEq] at h
          exact h.2.symm
      | none =>
        rw [hs] at h
        simp only at h
        by_cases he : outer.isEmpty = true
        · rw [if_pos he] at h
          simp at h
        · rw [if_neg he] at h
          cases hr : symbol_table_resolve outer name with
          | none => rw [hr] at h; simp at h
          | some r =>
            obtain ⟨r1, outer1⟩ := r
            cases r1 with
            | none => rw [hr] at h; simp at h
            | some s =>
              rw [hr] at h
              simp only at h
              by_cases hgl : s.type = SYMBOL_MODULE_GLOBAL ∨ s.type = SYMBOL_APE_GLOBAL
              · rw [if_pos hgl] at h
                simp only [Option.some.injEq, Prod.mk.injEq] at h
                rw [← h.2, ih s outer1 hr hgl]
              · rw [if_neg hgl] at h
                cases hd : symbol_table_define_free table s with
                | none => rw [hd] at h; simp at h
                | some r =>
                  rw [hd] at h
                  simp only [Option.map_some', Option.some.injEq, Prod.mk.injEq] at h
                  have := define_free_type table s r hd
                  rw [h.1] at this
                  rcases ht with e | e <;> rw [e] at this <;> cases this

/-- One level of `symbol_table_resolve` through the outer tables. -/
theorem resolve_through_outer (table : symbol_table_t) (outer outer1 : List symbol_table_t)
    (name : String) (symbol : symbol_t)
    (hg : global_store_get_symbol table.global_store name = none)
    (hs : resolve_block_scopes table.block_scopes name = none)
    (hr : symbol_table_resolve outer name = some (some symbol, outer1)) :
    symbol_table_resolve (table :: outer) name =
      if symbol.type = SYMBOL_MODULE_GLOBAL ∨ symbol.type = SYMBOL_APE_GLOBAL then
        some (some symbol, table :: outer1)
      else
        (symbol_table_define_free table symbol).map (fun r => (some r.1, r.2 :: outer1)) := by
  have he : ¬ outer.isEmpty = true := by
    intro e
    cases outer with
    | nil => simp [symbol_table_resolve] at hr
    | cons a l => simp at e
  conv_lhs => unfold symbol_table_resolve
  rw [hg]
  simp only [hs]
  rw [if_neg he, hr]

/-- C27: a name found neither in the host global store nor in a block scope of `table`
is resolved in the outer tables.  A ModuleGlobal or ApeGlobal symbol found there is returned
unchanged and no table changes.  Any other symbol is appended to `free_symbols` of `table`
and the symbol returned has class Free, the name of the symbol found and as index the
position of the appended entry, which is the symbol found.  A table `inner` nested in
`table` that does not define the name either captures in the same way the Free symbol
that `table` returns. -/
theorem C27_resolve_captures (table : symbol_table_t) (outer outer1 : List symbol_table_t)
    (name : String) (symbol : symbol_t)
    (hg : global_store_get_symbol table.global_store name = none)
    (hs : resolve_block_scopes table.block_scopes name = none)
    (hscopes : table.block_scopes ≠ [])
    (hr : symbol_table_resolve outer name = some (some symbol, outer1)) :
    (symbol.type = SYMBOL_MODULE_GLOBAL ∨ symbol.type = SYMBOL_APE_GLOBAL →
      outer1 = outer ∧
      symbol_table_resolve (table :: outer) name = some (some symbol, table :: outer)) ∧
    (¬ (symbol.type = SYMBOL_MODULE_GLOBAL ∨ symbol.type = SYMBOL_APE_GLOBAL) →
      ∃ table1,
        symbol_table_resolve (table :: outer) name
          = some (some (symbol_make symbol.name SYMBOL_FREE table.free_symbols.length
              symbol.assignable), table1 :: outer1) ∧
        table1.free_symbols = table.free_symbols ++ [symbol] ∧
        table1.free_symbols[table.free_symbols.length]? = some symbol ∧
        ∀ inner : symbol_table_t,
          global_store_get_symbol inner.global_store name = none →
          resolve_block_scopes inner.block_scopes name = none →
          inner.block_scopes ≠ [] →
          ∃ inner1,
            symbol_table_resolve (inner :: table :: outer) name
              = some (some (symbol_make symbol.name SYMBOL_FREE inner.free_symbols.length
                  symbol.assignable), inner1 :: table1 :: outer1) ∧
            inner1.free_symbols = inner.free_symbols ++
              [symbol_make symbol.name SYMBOL_FREE table.free_symbols.length
                symbol.assignable] ∧
            inner1.free_symbols[inner.free_symbols.length]?
              = some (symbol_make symbol.name SYMBOL_FREE table.free_symbols.length
                  symbol.assignable)) := by
  have h1 := resolve_through_outer table outer outer1 name symbol hg hs hr
  refine ⟨?_, ?_⟩
  · intro ht
    have := resolve_global_unchanged outer name symbol outer1 hr ht
    subst this
    rw [if_pos ht] at h1
    exact ⟨rfl, h1⟩
  · intro ht
    rw [if_neg ht] at h1
    obtain ⟨table1, hd, hfree, _⟩ := define_free_spec table symbol hscopes
    rw [hd] at h1
    refine ⟨table1, h1, hfree, by rw [hfree]; simp, ?_⟩
    intro inner hig his hiscopes
    have h2 := resolve_through_outer inner (table :: outer) (table1 :: outer1) name _ hig his h1
    have hfr : ¬ ((symbol_make symbol.name SYMBOL_FREE table.free_symbols.length
        symbol.assignable).type = SYMBOL_MODULE_GLOBAL ∨
        (symbol_make symbol.name SYMBOL_FREE table.free_symbols.length
          symbol.assignable).type = SYMBOL_APE_GLOBAL) := by
      simp [symbol_make]
    rw [if_neg hfr] at h2
    obtain ⟨inner1, hd2, hfree2, _⟩ := define_free_spec inner
      (symbol_make symbol.name SYMBOL_FREE table.free_symbols.length symbol.assignable)
      hiscopes
    rw [hd2] at h2
    exact ⟨inner1, h2, hfree2, by rw [hfree2]; simp⟩

/-- Witness for C27: `y`, a local of the middle example table, resolved from the inner
table. -/
theorem C27_resolve_captures_witness :
    ∃ table1,
      symbol_table_resolve [example_inner_table, example_middle_table, example_module_table]
          "y"
        = some (some (symbol_make "y" SYMBOL_FREE 0 true),
            [table1, example_middle_table, example_module_table]) ∧
      table1.free_symbols = [symbol_make "y" SYMBOL_LOCAL 3 true] := by
  obtain ⟨table1, h1, h2, _⟩ := (C27_resolve_captures example_inner_table
    [example_middle_table, example_module_table] [example_middle_table, example_module_table]
    "y" (symbol_make "y" SYMBOL_LOCAL 3 true) (by decide) (by decide) (by decide) rfl).2
    (by decide)
  exact ⟨table1, h1, h2⟩

/-- C30: executing the program `1 + 2 * 3` (the single expression statement
`example_sum`) on a freshly made engine compiles without error, and running the compiled
bytecode ends with no error, `sp = 0` and `last_popped` equal to the Number 7, which is
also the value `ape_execute` returns; this holds for either signedness of `char` and with
or without the debug checks. -/
theorem C30_execute_sum : ∀ char_signed ape_debug : Bool,
    (ape_make.bind fun ape =>
        ape_execute char_signed ape_debug example_natives example_host 100 ape "1 + 2 * 3").map
      (fun r => (r.1, errors_get_count r.2.compiler.errors, r.2.vm.sp, r.2.vm.last_popped,
        errors_get_count r.2.vm.errors))
      = some (some (object_make_number (double_of_int 7)), 0, 0,
          object_make_number (double_of_int 7), 0) := by
  decide!


/-- C29 (fails on the code): the program `fn() { recover (e) { if (true) { return 1 } } }`,
whose recover body ends with an if statement, compiles without any error: the if
statement has no alternative, so no jump follows its consequence and the last opcode
emitted is `OPCODE_RETURN_VALUE`, which is all the recover case tests.  The compiled
function is 22 bytes long and its `OPCODE_JUMP_IF_FALSE` targets address 22, so when the
condition is false the handler runs off the end of the function without returning.  A
recover body that ends with an expression statement is rejected with the error the claim
names. -/
theorem C29_recover_if_compiles :
    (ape_make.bind fun ape =>
        compiler.compiler_compile example_host 100 ape.compiler
          "fn() { recover (e) { if (true) { return 1 } } }").map
      (fun r => (r.1.map (fun res => res.bytecode), errors_get_count r.2.errors,
        r.2.constants.map (fun c => (object_get_function r.2.mem c).comp_result.bytecode)))
      = some (some [39, 0, 0, 0, 3], 0,
          [[46, 0, 6, 18, 0, 22, 36, 0, 8, 19, 0, 22, 44, 63, 240, 0, 0, 0, 0, 0, 0, 33]])
    ∧ (ape_make.bind fun ape =>
        compiler.compiler_compile example_host 100 ape.compiler
          "fn() { recover (e) { 1 } }").map
      (fun r => (r.1.map (fun res => res.bytecode), r.2.errors.errors.map (fun e => e.message)))
      = some (none, ["Recover body must end with a return statement"]) := by
  decide!



theorem dict_set_new {κ α : Type} [DecidableEq κ] (d : dict_t_ κ α) (key : κ) (value : α)
    (h : key ∉ d.map Prod.fst) : dict_set d key value = d ++ [(key, value)] := by
  induction d with
  | nil => rfl
  | cons item d ih =>
    obtain ⟨k, v⟩ := item
    simp only [List.map_cons, List.mem_cons, not_or] at h
    simp only [dict_set, if_neg (Ne.symm h.1), ih h.2, List.cons_append]

theorem dict_set_fold {κ α : Type} [DecidableEq κ] (f : α → α) (items : dict_t_ κ α) :
    ∀ acc : dict_t_ κ α, ((acc ++ items).map Prod.fst).Nodup →
      items.foldl (fun dict_copy item => dict_set dict_copy item.1 (f item.2)) acc
        = acc ++ items.map (fun item => (item.1, f item.2)) := by
  induction items with
  | nil => intro acc _; simp
  | cons item items ih =>
    intro acc h
    have hnew : item.1 ∉ acc.map Prod.fst := by
      simp only [List.map_append, List.map_cons] at h
      have := (List.nodup_append.1 h).2.2
      intro hmem
      exact this hmem (List.mem_cons_self _ _)
    rw [List.foldl_cons, dict_set_new _ _ _ hnew, ih]
    · simp
    · have : (acc ++ [(item.1, f item.2)] ++ items).map Prod.fst
          = (acc ++ item :: items).map Prod.fst := by simp
      rw [this]; exact h

theorem dict_copy_with_items_id {κ α : Type} [DecidableEq κ] (f : α → α)
    (hf : ∀ a, f a = a) (d : dict_t_ κ α) (h : (d.map Prod.fst).Nodup) :
    dict_copy_with_items f d = d := by
  unfold dict_copy_with_items
  rw [dict_set_fold f d [] (by simpa using h)]
  simp [hf]

theorem ptrarray_copy_with_items_id {α : Type} (f : α → α) (hf : ∀ a, f a = a)
    (arr : List α) : ptrarray_copy_with_items f arr = arr := by
  unfold ptrarray_copy_with_items
  have : ∀ acc : List α, arr.foldl (fun arr_copy item => arr_copy ++ [f item]) acc
      = acc ++ arr := by
    induction arr with
    | nil => intro acc; simp
    | cons a arr ih => intro acc; rw [List.foldl_cons, ih, hf]; simp
  simpa using this []

theorem symbol_copy_id (symbol : symbol_t) : symbol_copy symbol = symbol := rfl

theorem module_copy_id (m : compiler.module_t) : compiler.module_copy m = m := by
  unfold compiler.module_copy
  rw [ptrarray_copy_with_items_id _ symbol_copy_id]


theorem symbol_table_copy_id (table : symbol_table_t)
    (h : ∀ scope ∈ table.block_scopes, dict_keys_distinct scope.store) :
    symbol_table_copy table = table := by
  unfold symbol_table_copy
  rw [ptrarray_copy_with_items_id _ symbol_copy_id, ptrarray_copy_with_items_id _ symbol_copy_id]
  have : ptrarray_copy_with_items block_scope_copy table.block_scopes = table.block_scopes := by
    unfold ptrarray_copy_with_items
    have : ∀ (l : List block_scope_t), (∀ scope ∈ l, dict_keys_distinct scope.store) →
        ∀ acc : List block_scope_t,
          l.foldl (fun arr_copy item => arr_copy ++ [block_scope_copy item]) acc = acc ++ l := by
      intro l
      induction l with
      | nil => intro _ acc; simp
      | cons a l ih =>
        intro hl acc
        have ha : block_scope_copy a = a := by
          unfold block_scope_copy
          rw [dict_copy_with_items_id _ symbol_copy_id _ (hl a (List.mem_cons_self _ _))]
        rw [List.foldl_cons, ha, ih (fun s hs => hl s (List.mem_cons_of_mem _ hs))]
        simp
    simpa using this _ h []
  rw [this]

theorem compiler_init_eq (mem : gcmem_t) (errors : errors_t)
    (files : List compiler.compiled_file_t) (global_store : global_store_t) :
    compiler.compiler_init mem errors files global_store = some (true,
      { mem := mem, errors := errors, files := files ++ [compiler.compiled_file_make "none"],
        global_store := global_store, constants := [],
        compilation_scope := [compiler.compilation_scope_make],
        file_scopes := [{ symbol_table := [symbol_table_make global_store 0],
                          file := compiler.compiled_file_make "none",
                          loaded_module_names := [] }],
        modules := [], string_constants_positions := [] }) := by
  rfl

theorem shallow_copy_spec (src : compiler.compiler_t) (ok : Bool)
    (copy src1 : compiler.compiler_t)
    (hmodules : dict_keys_distinct src.modules)
    (hstrings : dict_keys_distinct src.string_constants_positions)
    (hscopes : ∀ table ∈ (compiler.compiler_get_symbol_table src).head?,
      ∀ scope ∈ table.block_scopes, dict_keys_distinct scope.store)
    (h : compiler.compiler_init_shallow_copy src = some (ok, copy, src1)) :
    ok = true ∧
    compiler.compiler_get_symbol_table copy = compiler.compiler_get_symbol_table src ∧
    copy.modules = src.modules ∧ copy.constants = src.constants ∧
    copy.string_constants_positions = src.string_constants_positions ∧
    copy.file_scopes.getLast?.map (fun scope => scope.loaded_module_names)
      = src.file_scopes.getLast?.map (fun scope => scope.loaded_module_names) := by
  unfold compiler.compiler_init_shallow_copy at h
  rw [compiler_init_eq] at h
  simp only at h
  have hst : compiler.compiler_get_symbol_table
      { src with files := src.files ++ [compiler.compiled_file_make "none"] }
      = compiler.compiler_get_symbol_table src := rfl
  rw [hst] at h
  cases htab : compiler.compiler_get_symbol_table src with
  | nil => rw [htab] at h; simp at h
  | cons src_st outer =>
    rw [htab] at h
    simp only at h
    cases hlast : src.file_scopes.getLast? with
    | none => rw [hlast] at h; simp at h
    | some src_file_scope =>
      rw [hlast] at h
      have hcopy : symbol_table_copy src_st = src_st :=
        symbol_table_copy_id src_st (hscopes src_st (by simp [htab]))
      rw [hcopy, dict_copy_with_items_id _ module_copy_id _ hmodules] at h
      have hfold : (src.string_constants_positions.foldl
          (fun positions (item : List Nat × Int) => dict_set positions item.1 item.2)
          ([] : dict_t_ (List Nat) Int)) = src.string_constants_positions :=
        dict_copy_with_items_id id (fun _ => rfl) _ hstrings
      have hnames : ∀ acc : List String,
          src_file_scope.loaded_module_names.foldl (fun names name => names ++ [name]) acc
            = acc ++ src_file_scope.loaded_module_names := by
        generalize src_file_scope.loaded_module_names = l
        induction l with
        | nil => intro acc; simp
        | cons a l ih => intro acc; rw [List.foldl_cons, ih]; simp
      simp [compiler.compiler_set_symbol_table, hnames] at h
      obtain ⟨hok, hc, _⟩ := h
      subst hc
      refine ⟨hok, ?_, rfl, rfl, ?_, ?_⟩
      · simp [compiler.compiler_get_symbol_table]
      · exact hfold
      · simp

/-- C21: when `compiler_compile` fails (returns no result), the symbol table of the
compiler (with its block scopes, free symbols, module-global symbols and
`max_num_definitions`), its modules, its constants, its positions of string constants and
the loaded module names of its file scope are what they were before the call, for a
compiler whose dictionaries have pairwise distinct keys. -/
theorem C21_failed_compile_restores (host : compiler.host_t) (fuel : Nat)
    (comp comp1 : compiler.compiler_t) (code : String)
    (hmodules : dict_keys_distinct comp.modules)
    (hstrings : dict_keys_distinct comp.string_constants_positions)
    (hscopes : ∀ table ∈ (compiler.compiler_get_symbol_table comp).head?,
      ∀ scope ∈ table.block_scopes, dict_keys_distinct scope.store)
    (h : compiler.compiler_compile host fuel comp code = some (none, comp1)) :
    compiler.compiler_get_symbol_table comp1 = compiler.compiler_get_symbol_table comp ∧
    comp1.modules = comp.modules ∧ comp1.constants = comp.constants ∧
    comp1.string_constants_positions = comp.string_constants_positions ∧
    comp1.file_scopes.getLast?.map (fun scope => scope.loaded_module_names)
      = comp.file_scopes.getLast?.map (fun scope => scope.loaded_module_names) := by
  unfold compiler.compiler_compile at h
  cases hupd : compiler.update_compilation_scope comp
      (fun scope => { scope with bytecode := [], src_positions := [], break_ip_stack := [],
                                 continue_ip_stack := [] }) with
  | none => rw [hupd] at h; simp at h
  | some comp2 =>
    rw [hupd] at h
    simp only at h
    have hcomp2 : ∃ scopes, comp2 = { comp with compilation_scope := scopes } := by
      unfold compiler.update_compilation_scope at hupd
      cases hs : comp.compilation_scope with
      | nil => rw [hs] at hupd; simp at hupd
      | cons scope outer =>
        rw [hs] at hupd
        simp only [Option.some.injEq] at hupd
        exact ⟨_, hupd.symm⟩
    obtain ⟨scopes, hcomp2⟩ := hcomp2
    cases hcopy : compiler.compiler_init_shallow_copy comp2 with
    | none => rw [hcopy] at h; simp at h
    | some r =>
      obtain ⟨ok, copy, comp3⟩ := r
      have hspec := shallow_copy_spec comp2 ok copy comp3
        (by rw [hcomp2]; exact hmodules) (by rw [hcomp2]; exact hstrings)
        (by rw [hcomp2]; exact hscopes) hcopy
      obtain ⟨hok, h1, h2, h3, h4, h5⟩ := hspec
      subst hok
      rw [hcopy] at h
      simp only at h
      have hsame : compiler.compiler_get_symbol_table comp2
            = compiler.compiler_get_symbol_table comp ∧ comp2.modules = comp.modules ∧
          comp2.constants = comp.constants ∧
          comp2.string_constants_positions = comp.string_constants_positions ∧
          comp2.file_scopes = comp.file_scopes := by
        rw [hcomp2]; exact ⟨rfl, rfl, rfl, rfl, rfl⟩
      cases hcode : compiler.compile_code host fuel code comp3 with
      | none => rw [hcode] at h; simp at h
      | some r =>
        obtain ⟨ok, comp4⟩ := r
        rw [hcode] at h
        cases ok with
        | false =>
          simp only [Option.some.injEq, Prod.mk.injEq, true_and] at h
          subst h
          refine ⟨?_, ?_, ?_, ?_, ?_⟩
          · exact h1.trans hsame.1
          · exact h2.trans hsame.2.1
          · exact h3.trans hsame.2.2.1
          · exact h4.trans hsame.2.2.2.1
          · exact h5.trans (by rw [hsame.2.2.2.2])
        | true =>
          simp only at h
          cases hs : comp4.compilation_scope with
          | nil => rw [hs] at h; simp at h
          | cons scope outer => rw [hs] at h; simp at h

theorem C21_failed_compile_restores_witness :
    ∃ comp comp1 : compiler.compiler_t,
      example_compiler = some comp ∧ comp.constants ≠ [] ∧
      compiler.compiler_compile example_host 100 comp "var x = \"s\"; break"
        = some (none, comp1) ∧
      errors_get_count comp1.errors = 1 ∧
      compiler.compiler_get_symbol_table comp1 = compiler.compiler_get_symbol_table comp ∧
      comp1.modules = comp.modules ∧ comp1.constants = comp.constants ∧
      comp1.string_constants_positions = comp.string_constants_positions ∧
      comp1.file_scopes.getLast?.map (fun scope => scope.loaded_module_names)
        = comp.file_scopes.getLast?.map (fun scope => scope.loaded_module_names) := by
  have hsome : example_compiler.isSome = true := by decide!
  have hres : ((example_compiler.bind fun comp =>
      compiler.compiler_compile example_host 100 comp "var x = \"s\"; break").map
        (fun r => (r.1.isNone, errors_get_count r.2.errors))) = some (true, 1) := by decide!
  have hwf : example_compiler.all (fun comp => decide (comp.constants ≠ [] ∧
      dict_keys_distinct comp.modules ∧
      dict_keys_distinct comp.string_constants_positions ∧
      ∀ table ∈ (compiler.compiler_get_symbol_table comp).head?,
        ∀ scope ∈ table.block_scopes, dict_keys_distinct scope.store)) = true := by decide!
  cases hc : example_compiler with
  | none => rw [hc] at hsome; simp at hsome
  | some comp =>
    rw [hc] at hres hwf
    simp only [Option.some_bind] at hres
    simp only [Option.all_some, decide_eq_true_eq] at hwf
    cases hr : compiler.compiler_compile example_host 100 comp "var x = \"s\"; break" with
    | none => rw [hr] at hres; simp at hres
    | some r =>
      obtain ⟨res, comp1⟩ := r
      rw [hr] at hres
      simp only [Option.map_some', Option.some.injEq, Prod.mk.injEq, Option.isNone_iff_eq_none]
        at hres
      obtain ⟨hnone, herr⟩ := hres
      subst hnone
      exact ⟨comp, comp1, rfl, hwf.1, hr, herr,
        C21_failed_compile_restores example_host 100 comp comp1 _ hwf.2.1 hwf.2.2.1
          hwf.2.2.2 hr⟩

namespace compiler

theorem scope_kept_refl (scope : compilation_scope_t) : scope_kept scope scope :=
  ⟨rfl, rfl, [], by simp⟩

theorem scope_kept_trans {s1 s2 s3 : compilation_scope_t} (h12 : scope_kept s1 s2)
    (h23 : scope_kept s2 s3) : scope_kept s1 s3 := by
  obtain ⟨hb, hc, t, ht⟩ := h12
  obtain ⟨hb2, hc2, t2, ht2⟩ := h23
  exact ⟨hb2.trans hb, hc2.trans hc, t ++ t2, by rw [ht2, ht, List.append_assoc]⟩

theorem scopes_kept_refl (scopes : List compilation_scope_t) : scopes_kept scopes scopes := by
  refine ⟨rfl, rfl, ?_⟩
  intro s hs s1 hs1
  rw [Option.mem_def] at hs hs1
  rw [hs] at hs1
  cases hs1
  exact scope_kept_refl s

theorem scopes_kept_trans {l1 l2 l3 : List compilation_scope_t} (h12 : scopes_kept l1 l2)
    (h23 : scopes_kept l2 l3) : scopes_kept l1 l3 := by
  obtain ⟨ht, hl, hh⟩ := h12
  obtain ⟨ht2, hl2, hh2⟩ := h23
  refine ⟨ht2.trans ht, hl2.trans hl, ?_⟩
  intro s hs s3 hs3
  cases l2 with
  | nil =>
    cases l1 with
    | nil => simp at hs
    | cons a l => simp at hl
  | cons s2 o2 =>
    exact scope_kept_trans (hh s hs s2 (by simp)) (hh2 s2 (by simp) s3 hs3)

/-- The form of `scopes_kept` from a list with a current scope. -/
theorem scopes_kept_cons {scope : compilation_scope_t} {outer scopes1 : List compilation_scope_t}
    (h : scopes_kept (scope :: outer) scopes1) :
    ∃ scope1, scopes1 = scope1 :: outer ∧ scope_kept scope scope1 := by
  obtain ⟨ht, hl, hh⟩ := h
  cases scopes1 with
  | nil => simp at hl
  | cons s1 o1 =>
    simp only [List.tail_cons] at ht
    subst ht
    exact ⟨s1, rfl, hh scope (by simp) s1 (by simp)⟩

theorem scopes_kept_of_cons {scope scope1 : compilation_scope_t}
    {outer : List compilation_scope_t} (h : scope_kept scope scope1) :
    scopes_kept (scope :: outer) (scope1 :: outer) := by
  refine ⟨rfl, rfl, ?_⟩
  intro s hs s1 hs1
  simp only [List.head?_cons, Option.mem_def, Option.some.injEq] at hs hs1
  subst hs; subst hs1
  exact h

/-- What `emit` does to the compilation scopes. -/
theorem emit_scopes {comp comp1 : compiler_t} {op : opcode_t} {operands : List Nat} {ip : Int}
    (h : emit comp op operands = some (ip, comp1)) :
    ∃ scope outer, comp.compilation_scope = scope :: outer ∧
      ((ip = -1 ∧ comp1 = comp) ∨
       (ip = scope.bytecode.length ∧ ∃ scope1, comp1.compilation_scope = scope1 :: outer ∧
          scope1.bytecode = scope.bytecode ++ (code_make op operands).2 ∧
          scope1.break_ip_stack = scope.break_ip_stack ∧
          scope1.continue_ip_stack = scope.continue_ip_stack ∧
          scope1.last_opcode = op ∧
          comp1 = { comp with compilation_scope := scope1 :: outer })) := by
  unfold emit at h
  cases hs : comp.compilation_scope with
  | nil => rw [hs] at h; simp at h
  | cons scope outer =>
    rw [hs] at h
    simp only at h
    refine ⟨scope, outer, rfl, ?_⟩
    split at h
    · simp only [Option.some.injEq, Prod.mk.injEq] at h
      exact Or.inl ⟨h.1.symm, h.2.symm⟩
    · simp only [Option.some.injEq, Prod.mk.injEq] at h
      refine Or.inr ⟨h.1.symm,
        { scope with
          bytecode := scope.bytecode ++ (code_make op operands).2
          src_positions := scope.src_positions
            ++ List.replicate (code_make op operands).1 src_pos_zero
          last_opcode := op }, ?_, rfl, rfl, rfl, rfl, ?_⟩
      · rw [← h.2]
      · rw [← h.2]

theorem emit_kept {base : List compilation_scope_t} {comp comp1 : compiler_t} {op : opcode_t}
    {operands : List Nat} {ip : Int}
    (hbase : scopes_kept base comp.compilation_scope)
    (h : emit comp op operands = some (ip, comp1)) :
    scopes_kept base comp1.compilation_scope := by
  obtain ⟨scope, outer, hs, h1⟩ := emit_scopes h
  rcases h1 with ⟨_, h1⟩ | ⟨_, scope1, hs1, hb, hbr, hco, _, _⟩
  · rw [h1]; exact hbase
  · rw [hs1]
    rw [hs] at hbase
    exact scopes_kept_trans hbase (scopes_kept_of_cons ⟨hbr, hco, _, hb⟩)

end compiler

namespace compiler

theorem on_success_none {post : compiler_t → Prop} : on_success none post := by
  intro c h; cases h

theorem on_success_false {comp : compiler_t} {post : compiler_t → Prop} :
    on_success (some (false, comp)) post := by
  intro c h; simp at h

theorem on_success_true {comp : compiler_t} {post : compiler_t → Prop} (h : post comp) :
    on_success (some (true, comp)) post := by
  intro c hc
  simp only [Option.some.injEq, Prod.mk.injEq, true_and] at hc
  subst hc; exact h

theorem on_success_ok_then {r : Option (Bool × compiler_t)}
    {rest : compiler_t → Option (Bool × compiler_t)} {post : compiler_t → Prop}
    (mid : compiler_t → Prop) (hr : on_success r mid)
    (hrest : ∀ comp, mid comp → on_success (rest comp) post) :
    on_success (ok_then r rest) post := by
  intro c1 h
  unfold ok_then at h
  cases r with
  | none => simp at h
  | some p =>
    obtain ⟨ok, comp⟩ := p
    cases ok with
    | false => simp at h
    | true =>
      simp only [if_true] at h
      exact hrest comp (hr comp rfl) c1 h

theorem on_success_bind {α : Type} {o : Option α} {f : α → Option (Bool × compiler_t)}
    {post : compiler_t → Prop} (h : ∀ x, o = some x → on_success (f x) post) :
    on_success (o.bind f) post := by
  cases o with
  | none => exact on_success_none
  | some x => exact h x rfl

theorem on_success_map {o : Option compiler_t} {post : compiler_t → Prop}
    (h : ∀ comp, o = some comp → post comp) :
    on_success (o.map fun comp => (true, comp)) post := by
  cases o with
  | none => exact on_success_none
  | some x => exact on_success_true (h x rfl)

/-- The rule for a call of a function that keeps the scopes. -/
theorem kept_call {α : Type} {f : α → compiler_t → Option (Bool × compiler_t)}
    (hf : keeps_scopes f) (base : List compilation_scope_t) (hne : base ≠ []) {x : α}
    {comp : compiler_t} (hbase : scopes_kept base comp.compilation_scope) :
    on_success (f x comp) (fun comp1 => scopes_kept base comp1.compilation_scope) := by
  intro c1 h
  have hc : comp.compilation_scope ≠ [] := by
    intro hnil
    rw [hnil] at hbase
    have := hbase.2.1
    simp only [List.length_nil] at this
    exact hne (List.length_eq_zero.1 this.symm)
  exact scopes_kept_trans hbase (hf x comp hc c1 h)

theorem kept_ok_then (base : List compilation_scope_t) {r : Option (Bool × compiler_t)}
    {rest : compiler_t → Option (Bool × compiler_t)} {post : compiler_t → Prop}
    (hr : on_success r (fun comp1 => scopes_kept base comp1.compilation_scope))
    (hrest : ∀ comp, scopes_kept base comp.compilation_scope → on_success (rest comp) post) :
    on_success (ok_then r rest) post :=
  on_success_ok_then _ hr hrest

theorem kept_emit_ok (base : List compilation_scope_t) {comp : compiler_t} {op : opcode_t}
    {operands : List Nat} (hbase : scopes_kept base comp.compilation_scope) :
    on_success (emit_ok comp op operands)
      (fun comp1 => scopes_kept base comp1.compilation_scope) := by
  intro c1 h
  unfold emit_ok at h
  cases he : emit comp op operands with
  | none => rw [he] at h; simp at h
  | some r =>
    obtain ⟨ip, c2⟩ := r
    rw [he] at h
    simp only [Option.map_some', Option.some.injEq, Prod.mk.injEq] at h
    rw [← h.2]
    exact emit_kept hbase he

/-- The address `emit` returns for an opcode that has a definition. -/
theorem emit_ip {base : List compilation_scope_t} {comp comp1 : compiler_t} {op : opcode_t}
    {operands : List Nat} {ip : Int}
    (hbase : scopes_kept base comp.compilation_scope)
    (h : emit comp op operands = some (ip, comp1)) (hip : 0 ≤ ip) :
    ∀ scope ∈ base.head?, (scope.bytecode.length : Int) ≤ ip := by
  obtain ⟨scope, outer, hs, h1⟩ := emit_scopes h
  rcases h1 with ⟨h1, _⟩ | ⟨h1, _⟩
  · omega
  · intro s0 hs0
    rw [hs] at hbase
    cases base with
    | nil => simp at hs0
    | cons b bo =>
      simp only [List.head?_cons, Option.mem_def, Option.some.injEq] at hs0
      subst hs0
      obtain ⟨_, _, t, ht⟩ := hbase.2.2 b (by simp) scope (by simp)
      rw [h1, ht]
      simp

theorem kept_emit_then (base : List compilation_scope_t) {comp : compiler_t} {op : opcode_t}
    {operands : List Nat} {rest : Int → compiler_t → Option (Bool × compiler_t)}
    {post : compiler_t → Prop} (hbase : scopes_kept base comp.compilation_scope)
    (hrest : ∀ ip comp1, scopes_kept base comp1.compilation_scope →
      (∀ scope ∈ base.head?, (scope.bytecode.length : Int) ≤ ip) →
      on_success (rest ip comp1) post) :
    on_success (emit_then comp op operands rest) post := by
  intro c1 h
  unfold emit_then at h
  cases he : emit comp op operands with
  | none => rw [he] at h; simp at h
  | some r =>
    obtain ⟨ip, c2⟩ := r
    rw [he] at h
    simp only at h
    split at h
    · simp at h
    · exact hrest ip c2 (emit_kept hbase he) (emit_ip hbase he (by omega)) c1 h

theorem kept_emit_bind (base : List compilation_scope_t) {comp : compiler_t} {op : opcode_t}
    {operands : List Nat} {rest : Int × compiler_t → Option (Bool × compiler_t)}
    {post : compiler_t → Prop} (hbase : scopes_kept base comp.compilation_scope)
    (hdef : (code_make op operands).1 ≠ 0)
    (hrest : ∀ r : Int × compiler_t, scopes_kept base r.2.compilation_scope →
      (∀ scope ∈ base.head?, (scope.bytecode.length : Int) ≤ r.1) →
      on_success (rest r) post) :
    on_success ((emit comp op operands).bind rest) post := by
  apply on_success_bind
  intro r he
  obtain ⟨ip, c2⟩ := r
  refine hrest (ip, c2) (emit_kept hbase he) (emit_ip hbase he ?_)
  unfold emit at he
  cases hs : comp.compilation_scope with
  | nil => rw [hs] at he; simp at he
  | cons scope outer =>
    rw [hs] at he
    simp only [if_neg hdef, Option.some.injEq, Prod.mk.injEq] at he
    rw [← he.1]
    exact Int.ofNat_nonneg _

theorem get_ip_above {base : List compilation_scope_t} {comp : compiler_t} {ip : Int}
    (hbase : scopes_kept base comp.compilation_scope) (h : get_ip comp = some ip) :
    ∀ scope ∈ base.head?, (scope.bytecode.length : Int) ≤ ip := by
  unfold get_ip at h
  cases hs : comp.compilation_scope with
  | nil => rw [hs] at h; simp at h
  | cons scope outer =>
    rw [hs] at h hbase
    simp only [Option.some.injEq] at h
    intro s0 hs0
    cases base with
    | nil => simp at hs0
    | cons b bo =>
      simp only [List.head?_cons, Option.mem_def, Option.some.injEq] at hs0
      subst hs0
      obtain ⟨_, _, t, ht⟩ := hbase.2.2 b (by simp) scope (by simp)
      rw [← h, ht]
      simp

theorem kept_get_ip (base : List compilation_scope_t) {comp : compiler_t}
    {rest : Int → Option (Bool × compiler_t)} {post : compiler_t → Prop}
    (hbase : scopes_kept base comp.compilation_scope)
    (hrest : ∀ ip, (∀ scope ∈ base.head?, (scope.bytecode.length : Int) ≤ ip) →
      on_success (rest ip) post) :
    on_success ((get_ip comp).bind rest) post := by
  apply on_success_bind
  intro ip h
  exact hrest ip (get_ip_above hbase h)

theorem take_eq_of_getElem? (l l1 : List Nat) (n : Nat)
    (h : ∀ a, a < n → l1[a]? = l[a]?) : l1.take n = l.take n := by
  apply List.ext_getElem?
  intro a
  by_cases ha : a < n
  · simp [List.getElem?_take, ha, h a ha]
  · simp [List.getElem?_take, ha]

theorem array_set_byte_length (bytecode : List Nat) (ix : Int) (value : Nat) :
    (array_set_byte bytecode ix value).length = bytecode.length := by
  unfold array_set_byte
  split <;> simp

theorem array_set_byte_other (bytecode : List Nat) (ix : Int) (value : Nat) (a : Nat)
    (h : (a : Int) ≠ ix) : (array_set_byte bytecode ix value)[a]? = bytecode[a]? := by
  unfold array_set_byte
  split
  · rw [List.getElem?_set]
    have : ¬ ix.toNat = a := by omega
    simp [this]
  · rfl

theorem array_set_byte_same (bytecode : List Nat) (ix : Nat) (value : Nat)
    (h : ix < bytecode.length) :
    (array_set_byte bytecode (ix : Int) value)[ix]? = some value := by
  unfold array_set_byte
  rw [if_pos (by omega)]
  simp [h]

/-- What `change_uint16_operand` does to the compilation scopes. -/
theorem change_uint16_operand_scopes {comp comp1 : compiler_t} {ip operand : Int}
    (h : change_uint16_operand comp ip operand = some comp1) :
    ∃ scope outer scope1, comp.compilation_scope = scope :: outer ∧
      comp1.compilation_scope = scope1 :: outer ∧
      comp1 = { comp with compilation_scope := scope1 :: outer } ∧
      scope1.break_ip_stack = scope.break_ip_stack ∧
      scope1.continue_ip_stack = scope.continue_ip_stack ∧
      scope1.last_opcode = scope.last_opcode ∧
      scope1.bytecode.length = scope.bytecode.length ∧
      (∀ a : Nat, (a : Int) ≠ ip → (a : Int) ≠ ip + 1 →
        scope1.bytecode[a]? = scope.bytecode[a]?) ∧
      (∀ a : Nat, (a : Int) = ip → a + 1 < scope.bytecode.length →
        scope1.bytecode[a]? = some ((operand % 65536).toNat / 256 % 256) ∧
        scope1.bytecode[a + 1]? = some ((operand % 65536).toNat % 256)) := by
  unfold change_uint16_operand at h
  cases hs : comp.compilation_scope with
  | nil => rw [hs] at h; simp at h
  | cons scope outer =>
    rw [hs] at h
    simp only at h
    split at h
    · rename_i hge
      simp only [Option.some.injEq] at h
      subst h
      refine ⟨scope, outer, scope, rfl, hs, ?_, rfl, rfl, rfl, rfl, fun _ _ _ => rfl, ?_⟩
      · rw [← hs]
      · intro a ha hlt
        omega
    · rename_i hlt
      simp only [Option.some.injEq] at h
      subst h
      refine ⟨scope, outer, _, rfl, rfl, rfl, rfl, rfl, rfl, ?_, ?_, ?_⟩
      · simp [array_set_byte_length]
      · intro a h1 h2
        simp only
        rw [array_set_byte_other _ _ _ _ h2, array_set_byte_other _ _ _ _ h1]
      · intro a ha hl
        simp only
        subst ha
        constructor
        · rw [array_set_byte_other _ _ _ _ (by omega), array_set_byte_same _ _ _ (by omega)]
        · have : ((a : Int) + 1) = ((a + 1 : Nat) : Int) := by simp
          rw [this, array_set_byte_same _ _ _ (by simp [array_set_byte_length]; omega)]

theorem change_uint16_operand_kept {base : List compilation_scope_t} {comp comp1 : compiler_t}
    {ip operand : Int} (hbase : scopes_kept base comp.compilation_scope)
    (hip : ∀ scope ∈ base.head?, (scope.bytecode.length : Int) ≤ ip)
    (h : change_uint16_operand comp (ip + 1) operand = some comp1) :
    scopes_kept base comp1.compilation_scope := by
  obtain ⟨scope, outer, scope1, hs, hs1, _, hb, hc, _, hlen, hother, _⟩ :=
    change_uint16_operand_scopes h
  rw [hs] at hbase
  rw [hs1]
  cases base with
  | nil => exact absurd hbase.2.1 (by simp)
  | cons b bo =>
    obtain ⟨s', hs', hk⟩ := scopes_kept_cons hbase
    simp only [List.cons.injEq] at hs'
    obtain ⟨h1, h2⟩ := hs'
    subst h1; subst h2
    apply scopes_kept_of_cons
    obtain ⟨hkb, hkc, t, ht⟩ := hk
    refine ⟨hb.trans hkb, hc.trans hkc, scope1.bytecode.drop b.bytecode.length, ?_⟩
    have hipb := hip b (by simp)
    have htake : scope1.bytecode.take b.bytecode.length = b.bytecode := by
      rw [take_eq_of_getElem? scope.bytecode scope1.bytecode b.bytecode.length
        (fun a ha => hother a (by omega) (by omega)), ht]
      simp
    conv_lhs => rw [← List.take_append_drop b.bytecode.length scope1.bytecode]
    rw [htake]

theorem kept_change_map (base : List compilation_scope_t) {comp : compiler_t}
    {ip operand : Int} (hbase : scopes_kept base comp.compilation_scope)
    (hip : ∀ scope ∈ base.head?, (scope.bytecode.length : Int) ≤ ip) :
    on_success ((change_uint16_operand comp (ip + 1) operand).map fun comp => (true, comp))
      (fun comp1 => scopes_kept base comp1.compilation_scope) :=
  on_success_map fun _ h => change_uint16_operand_kept hbase hip h

theorem kept_change_bind (base : List compilation_scope_t) {comp : compiler_t}
    {ip operand : Int} {rest : compiler_t → Option (Bool × compiler_t)}
    {post : compiler_t → Prop} (hbase : scopes_kept base comp.compilation_scope)
    (hip : ∀ scope ∈ base.head?, (scope.bytecode.length : Int) ≤ ip)
    (hrest : ∀ comp1, scopes_kept base comp1.compilation_scope →
      on_success (rest comp1) post) :
    on_success ((change_uint16_operand comp (ip + 1) operand).bind rest) post :=
  on_success_bind fun c h => hrest c (change_uint16_operand_kept hbase hip h)

end compiler

namespace compiler

@[simp] theorem compiler_set_symbol_table_scopes (comp : compiler_t)
    (table : List symbol_table_t) :
    (compiler_set_symbol_table comp table).compilation_scope = comp.compilation_scope := by
  unfold compiler_set_symbol_table
  split <;> rfl

@[simp] theorem add_error_scopes (comp : compiler_t) (message : String) :
    (add_error comp message).compilation_scope = comp.compilation_scope := rfl

@[simp] theorem add_constant_scopes (comp : compiler_t) (obj : object_t) :
    (add_constant comp obj).2.compilation_scope = comp.compilation_scope := rfl

@[simp] theorem push_symbol_table_scopes (comp : compiler_t) (global_offset : Int) :
    (push_symbol_table comp global_offset).2.compilation_scope = comp.compilation_scope := by
  unfold push_symbol_table
  split <;> simp

@[simp] theorem pop_symbol_table_scopes (comp : compiler_t) :
    (pop_symbol_table comp).compilation_scope = comp.compilation_scope := by
  unfold pop_symbol_table
  split
  · rfl
  · split <;> simp

theorem update_symbol_table_scopes {comp comp1 : compiler_t}
    {f : symbol_table_t → symbol_table_t} (h : update_symbol_table comp f = some comp1) :
    comp1.compilation_scope = comp.compilation_scope := by
  unfold update_symbol_table at h
  split at h
  · simp at h
  · simp only [Option.some.injEq] at h
    rw [← h]; simp

theorem define_symbol_scopes {comp comp1 : compiler_t} {name : String}
    {assignable can_shadow : Bool} {symbol : Option symbol_t}
    (h : define_symbol comp name assignable can_shadow = some (symbol, comp1)) :
    comp1.compilation_scope = comp.compilation_scope := by
  unfold define_symbol at h
  split at h
  · simp at h
  · simp only at h
    split at h
    · simp at h
    · simp only [Option.some.injEq, Prod.mk.injEq] at h
      rw [← h.2]; simp
    · split at h
      · simp at h
      · simp only [Option.some.injEq, Prod.mk.injEq] at h
        rw [← h.2]; simp
      · simp only [Option.some.injEq, Prod.mk.injEq] at h
        rw [← h.2]; simp

theorem push_file_scope_scopes {comp comp1 : compiler_t} {filepath : String} {ok : Bool}
    (h : push_file_scope comp filepath = some (ok, comp1)) :
    comp1.compilation_scope = comp.compilation_scope := by
  unfold push_file_scope at h
  simp only at h
  split at h
  · simp at h
  · simp only [Option.some.injEq] at h
    have := congrArg (fun r => r.2.compilation_scope) h
    simp only [push_symbol_table_scopes] at this
    exact this.symm

theorem pop_file_scope_scopes {comp comp1 : compiler_t}
    (h : pop_file_scope comp = some comp1) :
    comp1.compilation_scope = comp.compilation_scope := by
  unfold pop_file_scope at h
  split at h
  · simp at h
  · split at h
    · simp at h
    · simp only at h
      split at h
      · simp only [Option.some.injEq] at h
        rw [← h]; simp
      · split at h
        · split at h
          · simp at h
          · split at h
            · simp at h
            · simp only [Option.some.injEq] at h
              rw [← h]; simp
        · simp only [Option.some.injEq] at h
          rw [← h]; simp

theorem kept_update_symbol_table (base : List compilation_scope_t) {comp : compiler_t}
    {f : symbol_table_t → symbol_table_t} {rest : compiler_t → Option (Bool × compiler_t)}
    {post : compiler_t → Prop} (hbase : scopes_kept base comp.compilation_scope)
    (hrest : ∀ comp1, scopes_kept base comp1.compilation_scope →
      on_success (rest comp1) post) :
    on_success ((update_symbol_table comp f).bind rest) post :=
  on_success_bind fun c h => hrest c (by rw [update_symbol_table_scopes h]; exact hbase)

theorem kept_update_symbol_table_map (base : List compilation_scope_t) {comp : compiler_t}
    {f : symbol_table_t → symbol_table_t}
    (hbase : scopes_kept base comp.compilation_scope) :
    on_success ((update_symbol_table comp f).map fun comp => (true, comp))
      (fun comp1 => scopes_kept base comp1.compilation_scope) :=
  on_success_map fun c h => by rw [update_symbol_table_scopes h]; exact hbase

theorem kept_define_symbol_then (base : List compilation_scope_t) {comp : compiler_t}
    {name : String} {assignable can_shadow : Bool}
    {rest : symbol_t → compiler_t → Option (Bool × compiler_t)}
    {post : compiler_t → Prop} (hbase : scopes_kept base comp.compilation_scope)
    (hrest : ∀ symbol comp1, scopes_kept base comp1.compilation_scope →
      on_success (rest symbol comp1) post) :
    on_success (define_symbol_then comp name assignable can_shadow rest) post := by
  intro c1 h
  unfold define_symbol_then at h
  cases hd : define_symbol comp name assignable can_shadow with
  | none => rw [hd] at h; simp at h
  | some r =>
    obtain ⟨symbol, c2⟩ := r
    rw [hd] at h
    cases symbol with
    | none => simp at h
    | some symbol =>
      simp only at h
      exact hrest symbol c2 (by rw [define_symbol_scopes hd]; exact hbase) c1 h

theorem kept_read_symbol (base : List compilation_scope_t) {comp : compiler_t}
    {symbol : symbol_t} (hbase : scopes_kept base comp.compilation_scope) :
    on_success (read_symbol comp symbol)
      (fun comp1 => scopes_kept base comp1.compilation_scope) := by
  unfold read_symbol
  split <;> first | exact kept_emit_ok base hbase | exact on_success_false

theorem kept_write_symbol (base : List compilation_scope_t) {comp : compiler_t}
    {symbol : symbol_t} {define : Bool} (hbase : scopes_kept base comp.compilation_scope) :
    on_success (write_symbol comp symbol define)
      (fun comp1 => scopes_kept base comp1.compilation_scope) := by
  unfold write_symbol
  split
  · split <;> exact kept_emit_ok base hbase
  · split <;> exact kept_emit_ok base hbase
  · exact kept_emit_ok base hbase
  · exact on_success_false

theorem kept_compile_expressions
    {ce : expression_t → compiler_t → Option (Bool × compiler_t)} (hce : keeps_scopes ce)
    (base : List compilation_scope_t) (hne : base ≠ []) :
    ∀ (exprs : List expression_t) (comp : compiler_t),
      scopes_kept base comp.compilation_scope →
      on_success (compile_expressions ce exprs comp)
        (fun comp1 => scopes_kept base comp1.compilation_scope) := by
  intro exprs
  induction exprs with
  | nil => intro comp hbase; exact on_success_true hbase
  | cons e es ih =>
    intro comp hbase
    unfold compile_expressions
    exact kept_ok_then base (kept_call hce base hne hbase) (fun c hc => ih c hc)

theorem kept_compile_map_items
    {ce : expression_t → compiler_t → Option (Bool × compiler_t)} (hce : keeps_scopes ce)
    (base : List compilation_scope_t) (hne : base ≠ []) :
    ∀ (keys values : List expression_t) (comp : compiler_t),
      scopes_kept base comp.compilation_scope →
      on_success (compile_map_items ce keys values comp)
        (fun comp1 => scopes_kept base comp1.compilation_scope) := by
  intro keys
  induction keys with
  | nil => intro values comp hbase; unfold compile_map_items; exact on_success_true hbase
  | cons k ks ih =>
    intro values comp hbase
    cases values with
    | nil => unfold compile_map_items; exact on_success_none
    | cons v vs =>
      unfold compile_map_items
      exact kept_ok_then base (kept_call hce base hne hbase) (fun c hc =>
        kept_ok_then base (kept_call hce base hne hc) (fun c2 hc2 => ih vs c2 hc2))

end compiler

namespace compiler

theorem kept_fold_define (base : List compilation_scope_t) (params : List String) :
    ∀ (r : Option (Bool × compiler_t)),
      on_success r (fun comp1 => scopes_kept base comp1.compilation_scope) →
      on_success
        (params.foldl
          (fun r param => ok_then r fun comp =>
            define_symbol_then comp param true false fun _ comp => some (true, comp)) r)
        (fun comp1 => scopes_kept base comp1.compilation_scope) := by
  induction params with
  | nil => intro r hr; exact hr
  | cons p ps ih =>
    intro r hr
    rw [List.foldl_cons]
    apply ih
    exact kept_ok_then base hr (fun c hc =>
      kept_define_symbol_then base hc (fun _ c2 hc2 => on_success_true hc2))

theorem kept_fold_read (base : List compilation_scope_t) (symbols : List symbol_t) :
    ∀ (r : Option (Bool × compiler_t)),
      on_success r (fun comp1 => scopes_kept base comp1.compilation_scope) →
      on_success
        (symbols.foldl (fun r symbol => ok_then r fun comp => read_symbol comp symbol) r)
        (fun comp1 => scopes_kept base comp1.compilation_scope) := by
  induction symbols with
  | nil => intro r hr; exact hr
  | cons p ps ih =>
    intro r hr
    rw [List.foldl_cons]
    apply ih
    exact kept_ok_then base hr (fun c hc => kept_read_symbol base hc)

theorem on_success_some {p : Bool × compiler_t} {post : compiler_t → Prop}
    (h : post p.2) : on_success (some p) post := by
  intro c hc
  simp only [Option.some.injEq] at hc
  rw [hc] at h; exact h

theorem pop_compilation_scope_scopes {comp comp1 : compiler_t}
    (h : pop_compilation_scope comp = some comp1) :
    comp1.compilation_scope = comp.compilation_scope.tail := by
  unfold pop_compilation_scope at h
  split at h
  · simp at h
  · rename_i hs
    simp only [Option.some.injEq] at h
    rw [← h, hs]; rfl

theorem compile_expression_body_keeps
    {ce : expression_t → compiler_t → Option (Bool × compiler_t)}
    {cs : List statement_t → compiler_t → Option (Bool × compiler_t)}
    (hce : keeps_scopes ce) (hcs : keeps_scopes cs) :
    keeps_scopes (compile_expression_body ce cs) := by
  intro expr comp hne
  obtain ⟨base, hb⟩ : ∃ base, base = comp.compilation_scope := ⟨_, rfl⟩
  rw [← hb] at hne
  have hbase : scopes_kept base comp.compilation_scope := hb ▸ scopes_kept_refl _
  rw [← hb]
  unfold compile_expression_body
  dsimp only
  split
  · -- infix
    split
    · exact on_success_false
    · refine kept_ok_then base (kept_call hce base hne hbase) (fun c hc =>
        kept_ok_then base (kept_call hce base hne hc) (fun c2 hc2 =>
          kept_ok_then base ?_ (fun c3 hc3 => kept_emit_ok base hc3)))
      split
      · exact kept_emit_ok base hc2
      · exact on_success_true hc2
  · exact kept_emit_ok base hbase
  · -- string literal
    split
    · exact kept_emit_ok base hbase
    · split
      · exact on_success_false
      · split
        · exact on_success_false
        · exact kept_emit_ok base (by simpa using hbase)
  · exact kept_emit_ok base hbase
  · exact kept_emit_ok base hbase
  · exact kept_ok_then base (kept_compile_expressions hce base hne _ _ hbase)
      (fun c hc => kept_emit_ok base hc)
  · exact kept_ok_then base (kept_emit_ok base hbase) (fun c hc =>
      kept_ok_then base (kept_compile_map_items hce base hne _ _ _ hc)
        (fun c2 hc2 => kept_emit_ok base hc2))
  · -- prefix
    refine kept_ok_then base (kept_call hce base hne hbase) (fun c hc => ?_)
    split
    · exact kept_emit_ok base hc
    · exact kept_emit_ok base hc
    · exact on_success_false
  · -- ident
    split
    · exact on_success_none
    · exact on_success_false
    · exact kept_read_symbol base (by simpa using hbase)
  · exact kept_ok_then base (kept_call hce base hne hbase) (fun c hc =>
      kept_ok_then base (kept_call hce base hne hc) (fun c2 hc2 => kept_emit_ok base hc2))
  · -- function literal
    obtain ⟨inner, hin⟩ : ∃ inner, inner = (push_compilation_scope comp).compilation_scope :=
      ⟨_, rfl⟩
    have hinner : scopes_kept inner (push_compilation_scope comp).compilation_scope :=
      hin ▸ scopes_kept_refl _
    have hinne : inner ≠ [] := by rw [hin]; simp [push_compilation_scope]
    refine kept_ok_then inner (on_success_some (by simpa using hinner)) (fun c hc =>
      kept_ok_then inner ?_ (fun c2 hc2 => ?_))
    · split
      · split
        · exact on_success_none
        · split
          · exact on_success_none
          · exact on_success_false
          · exact on_success_true (by simpa using hc)
      · exact on_success_true hc
    · apply on_success_bind
      intro c3 h3
      have hc3 : scopes_kept inner c3.compilation_scope := by
        split at h3
        · simp at h3
        · simp only [Option.map_eq_some'] at h3
          obtain ⟨r, _, hr⟩ := h3
          rw [← hr]; simpa using hc2
      refine kept_ok_then inner (kept_fold_define inner _ _ (on_success_true hc3))
        (fun c4 hc4 => kept_ok_then inner (kept_call hcs inner hinne hc4) (fun c5 hc5 => ?_))
      apply on_success_bind
      intro b1 _
      apply on_success_bind
      intro b2 _
      refine kept_ok_then inner ?_ (fun c6 hc6 => ?_)
      · split
        · exact kept_emit_ok inner hc5
        · exact on_success_true hc5
      · split
        · rename_i st sts cscope outer_scopes hst hsc
          apply on_success_bind
          intro c7 h7
          have h7s := pop_compilation_scope_scopes h7
          simp only [pop_symbol_table_scopes, List.tail_cons] at h7s
          have hout : outer_scopes = comp.compilation_scope := by
            rw [hsc, hin] at hc6
            have := hc6.1
            simpa [push_compilation_scope] using this
          have hc7 : scopes_kept base c7.compilation_scope := by
            rw [h7s, hout]; exact hbase
          split
          · exact on_success_false
          · refine kept_ok_then base (kept_fold_read base _ _ (on_success_true hc7))
              (fun c8 hc8 => ?_)
            split
            · exact on_success_false
            · exact kept_emit_ok base (by simpa using hc8)
        · exact on_success_none
  · exact kept_ok_then base (kept_call hce base hne hbase) (fun c hc =>
      kept_ok_then base (kept_compile_expressions hce base hne _ _ hc)
        (fun c2 hc2 => kept_emit_ok base hc2))
  · -- assign
    split
    · refine kept_ok_then base ?_ (fun c hc =>
        kept_ok_then base (kept_call hce base hne hc) (fun c2 hc2 =>
          kept_ok_then base (kept_emit_ok base hc2) (fun c3 hc3 => ?_)))
      · split
        · exact kept_call hce base hne hbase
        · exact on_success_true hbase
      · split
        · exact on_success_none
        · exact on_success_false
        · split
          · exact on_success_false
          · refine kept_ok_then base (kept_write_symbol base (by simpa using hc3))
              (fun c4 hc4 => ?_)
            split
            · exact kept_emit_ok base hc4
            · exact on_success_true hc4
    · refine kept_ok_then base ?_ (fun c hc =>
        kept_ok_then base (kept_call hce base hne hc) (fun c2 hc2 =>
          kept_ok_then base (kept_emit_ok base hc2) (fun c3 hc3 =>
            kept_ok_then base (kept_call hce base hne hc3) (fun c4 hc4 =>
              kept_ok_then base (kept_call hce base hne hc4) (fun c5 hc5 =>
                kept_ok_then base (kept_emit_ok base hc5) (fun c6 hc6 => ?_))))))
      · split
        · exact kept_call hce base hne hbase
        · exact on_success_true hbase
      · split
        · exact kept_emit_ok base hc6
        · exact on_success_true hc6
    · exact on_success_false
  · exact kept_ok_then base (kept_call hce base hne hbase) (fun c hc =>
      kept_ok_then base (kept_emit_ok base hc) (fun c2 hc2 =>
        kept_emit_then base hc2 (fun ip c3 hc3 hip =>
          kept_ok_then base (kept_emit_ok base hc3) (fun c4 hc4 =>
            kept_ok_then base (kept_call hce base hne hc4) (fun c5 hc5 =>
              kept_get_ip base hc5 (fun ip2 _ => kept_change_map base hc5 hip))))))
  · exact kept_ok_then base (kept_call hce base hne hbase) (fun c hc =>
      kept_emit_bind base hc (by decide) (fun r hr hip =>
        kept_ok_then base (kept_call hce base hne hr) (fun c2 hc2 =>
          kept_emit_bind base hc2 (by decide) (fun r2 hr2 hip2 =>
            kept_get_ip base hr2 (fun ip _ =>
              kept_change_bind base hr2 hip (fun c3 hc3 =>
                kept_ok_then base (kept_call hce base hne hc3) (fun c4 hc4 =>
                  kept_get_ip base hc4 (fun ip2 _ => kept_change_map base hc4 hip2))))))))

end compiler

namespace compiler

theorem lays_out_keeps {α : Type} {jumps : List Nat → Int → Int → Nat → Nat → α → Prop}
    {f : α → compiler_t → Option (Bool × compiler_t)}
    (hf : lays_out jumps f) : keeps_scopes f := by
  intro x comp hne c1 h
  cases hs : comp.compilation_scope with
  | nil => exact absurd hs hne
  | cons scope outer =>
    obtain ⟨s1, hs1, hk, _⟩ := hf x comp c1 scope outer h hs
    rw [hs1]
    exact scopes_kept_of_cons hk

/-- What `emit` gives for a compiler with a current scope. -/
theorem emit_some {comp comp1 : compiler_t} {op : opcode_t} {operands : List Nat} {ip : Int}
    {scope : compilation_scope_t} {outer : List compilation_scope_t}
    (h : emit comp op operands = some (ip, comp1)) (hip : 0 ≤ ip)
    (hs : comp.compilation_scope = scope :: outer) :
    ip = scope.bytecode.length ∧ ∃ scope1, comp1.compilation_scope = scope1 :: outer ∧
      scope1.bytecode = scope.bytecode ++ (code_make op operands).2 ∧
      scope1.break_ip_stack = scope.break_ip_stack ∧
      scope1.continue_ip_stack = scope.continue_ip_stack := by
  obtain ⟨s, o, hs', h1⟩ := emit_scopes h
  rw [hs] at hs'
  simp only [List.cons.injEq] at hs'
  obtain ⟨e1, e2⟩ := hs'
  subst e1; subst e2
  rcases h1 with ⟨h1, _⟩ | ⟨h1, s1, hs1, hb, hbr, hco, _, _⟩
  · omega
  · exact ⟨h1, s1, hs1, hb, hbr, hco⟩

theorem on_success_emit_ok {comp : compiler_t} {op : opcode_t} {operands : List Nat}
    {post : compiler_t → Prop}
    (h : ∀ ip comp1, emit comp op operands = some (ip, comp1) → 0 ≤ ip → post comp1) :
    on_success (emit_ok comp op operands) post := by
  intro c1 hc
  unfold emit_ok at hc
  cases he : emit comp op operands with
  | none => rw [he] at hc; simp at hc
  | some r =>
    obtain ⟨ip, c2⟩ := r
    rw [he] at hc
    simp only [Option.map_some', Option.some.injEq, Prod.mk.injEq, decide_eq_true_eq] at hc
    rw [← hc.2]
    exact h ip c2 he (by omega)

theorem on_success_emit_then {comp : compiler_t} {op : opcode_t} {operands : List Nat}
    {rest : Int → compiler_t → Option (Bool × compiler_t)} {post : compiler_t → Prop}
    (h : ∀ ip comp1, emit comp op operands = some (ip, comp1) → 0 ≤ ip →
      on_success (rest ip comp1) post) :
    on_success (emit_then comp op operands rest) post := by
  intro c1 hc
  unfold emit_then at hc
  cases he : emit comp op operands with
  | none => rw [he] at hc; simp at hc
  | some r =>
    obtain ⟨ip, c2⟩ := r
    rw [he] at hc
    simp only at hc
    split at hc
    · simp at hc
    · exact h ip c2 he (by omega) c1 hc

theorem code_make_jump (operand : Nat) :
    code_make OPCODE_JUMP [operand]
      = (3, [opcode_val OPCODE_JUMP, operand / 256 % 256, operand % 256]) := by
  simp [code_make, opcode_lookup, opcode_val, g_definitions, code_make_operands,
    code_make_operand, APPEND_BYTE]

theorem code_make_jump_if_true (operand : Nat) :
    (code_make OPCODE_JUMP_IF_TRUE [operand]).2.length = 3 := by
  simp [code_make, opcode_lookup, opcode_val, g_definitions, code_make_operands,
    code_make_operand, APPEND_BYTE]

theorem code_make_jump_if_false (operand : Nat) :
    (code_make OPCODE_JUMP_IF_FALSE [operand]).2.length = 3 := by
  simp [code_make, opcode_lookup, opcode_val, g_definitions, code_make_operands,
    code_make_operand, APPEND_BYTE]

theorem uint64_of_int_nat (n : Nat) (h : n < 2 ^ 64) : uint64_of_int (n : Int) = n := by
  unfold uint64_of_int
  have : ((n : Int) % 2 ^ 64) = (n : Int) := Int.emod_eq_of_lt (by omega) (by exact_mod_cast h)
  rw [this]; simp

theorem jump_at_bytes (bytecode tail : List Nat) (hi lo : Nat) :
    jump_at (bytecode ++ ([opcode_val OPCODE_JUMP, hi, lo] ++ tail)) bytecode.length
      ((hi * 256 + lo : Nat) : Int) := by
  refine ⟨?_, by simp, ?_⟩
  · rw [List.getElem?_append_right (le_refl _)]
    simp
  · have h1 : (bytecode ++ ([opcode_val OPCODE_JUMP, hi, lo] ++ tail)).getD
        (bytecode.length + 1) 0 = hi := by
      rw [List.getD_eq_getElem?_getD, List.getElem?_append_right (by omega)]
      simp
    have h2 : (bytecode ++ ([opcode_val OPCODE_JUMP, hi, lo] ++ tail)).getD
        (bytecode.length + 2) 0 = lo := by
      rw [List.getD_eq_getElem?_getD, List.getElem?_append_right (by omega)]
      simp
    rw [h1, h2]

/-- The jump that `emit` appends for an address that fits 16 bits. -/
theorem jump_at_append (bytecode tail : List Nat) (target : Nat) (h : target < 65536) :
    jump_at (bytecode ++ (code_make OPCODE_JUMP [uint64_of_int (target : Int)]).2 ++ tail)
      bytecode.length (target : Int) := by
  rw [uint64_of_int_nat _ (by omega), code_make_jump, List.append_assoc]
  have := jump_at_bytes bytecode tail (target / 256 % 256) (target % 256)
  have e : target / 256 % 256 * 256 + target % 256 = target := by omega
  rw [e] at this
  exact this

theorem jump_at_same {bytecode bytecode1 : List Nat} {a : Nat} {target : Int} {lo hi : Nat}
    (h : jump_at bytecode1 a target) (hsame : same_bytes lo hi bytecode bytecode1)
    (hlo : lo ≤ a) (hhi : a + 3 ≤ hi) : jump_at bytecode a target := by
  obtain ⟨h0, hlen, hv⟩ := h
  have e0 := hsame a hlo (by omega)
  have e1 := hsame (a + 1) (by omega) (by omega)
  have e2 := hsame (a + 2) (by omega) (by omega)
  have hl : a + 2 < bytecode.length := by
    by_contra hcon
    have : bytecode[a + 2]? = none := List.getElem?_eq_none (by omega)
    rw [this] at e2
    have : bytecode1[a + 2]? ≠ none := by
      rw [List.getElem?_eq_getElem hlen]; simp
    exact this e2.symm
  refine ⟨e0.trans h0, hl, ?_⟩
  rw [← hv]
  simp only [List.getD_eq_getElem?_getD, e1, e2]

end compiler

namespace compiler

theorem scope_kept_length {scope scope1 : compilation_scope_t} (h : scope_kept scope scope1) :
    scope.bytecode.length ≤ scope1.bytecode.length := by
  obtain ⟨_, _, t, ht⟩ := h
  rw [ht]; simp

theorem scope_kept_getElem? {scope scope1 : compilation_scope_t} (h : scope_kept scope scope1)
    (a : Nat) (ha : a < scope.bytecode.length) :
    scope1.bytecode[a]? = scope.bytecode[a]? := by
  obtain ⟨_, _, t, ht⟩ := h
  rw [ht, List.getElem?_append_left ha]

theorem same_bytes_kept {scope scope1 : compilation_scope_t} {bytecode : List Nat}
    {lo hi : Nat} (h : scope_kept scope scope1)
    (hsame : same_bytes lo hi bytecode scope1.bytecode) {lo1 hi1 : Nat} (hlo : lo ≤ lo1)
    (hhi1 : hi1 ≤ scope.bytecode.length) (hhi : hi1 ≤ hi) :
    same_bytes lo1 hi1 bytecode scope.bytecode := by
  intro a h1 h2
  rw [hsame a (by omega) (by omega), scope_kept_getElem? h a (by omega)]

/-- A function that keeps the scopes gives the form of the scopes after it. -/
theorem keeps_cons {α : Type} {f : α → compiler_t → Option (Bool × compiler_t)}
    (hf : keeps_scopes f) {x : α} {comp comp1 : compiler_t} {scope : compilation_scope_t}
    {outer : List compilation_scope_t} (h : f x comp = some (true, comp1))
    (hs : comp.compilation_scope = scope :: outer) :
    ∃ scope1, comp1.compilation_scope = scope1 :: outer ∧ scope_kept scope scope1 := by
  have := hf x comp (by rw [hs]; simp) comp1 h
  rw [hs] at this
  exact scopes_kept_cons this

/-- The rule for a result that keeps the scopes and whose statement has no jumps to lay
out. -/
theorem lays_out_of_kept {r : Option (Bool × compiler_t)} {comp : compiler_t}
    {jumps : List Nat → Int → Int → Nat → Nat → Prop}
    (hr : on_success r (fun comp1 => scopes_kept comp.compilation_scope comp1.compilation_scope))
    (hj : ∀ bytecode break_ip continue_ip lo hi, lo ≤ hi →
      jumps bytecode break_ip continue_ip lo hi) :
    ∀ comp1 scope outer, r = some (true, comp1) → comp.compilation_scope = scope :: outer →
    ∃ scope1, comp1.compilation_scope = scope1 :: outer ∧ scope_kept scope scope1 ∧
      ∀ bytecode, scope1.bytecode.length < 65536 →
        ip_stack_top scope.break_ip_stack < 65536 →
        ip_stack_top scope.continue_ip_stack < 65536 →
        same_bytes scope.bytecode.length scope1.bytecode.length bytecode scope1.bytecode →
        jumps bytecode (ip_stack_top scope.break_ip_stack)
          (ip_stack_top scope.continue_ip_stack) scope.bytecode.length
          scope1.bytecode.length := by
  intro c1 scope outer h hs
  have := hr c1 h
  rw [hs] at this
  obtain ⟨s1, hs1, hk⟩ := scopes_kept_cons this
  exact ⟨s1, hs1, hk, fun bc _ _ _ _ => hj bc _ _ _ _ (scope_kept_length hk)⟩

/-- The jump of the statements `break` and `continue`: a jump to the address on top of
the stack. -/
theorem jump_lays_out (comp comp1 : compiler_t) (target : Int)
    (scope : compilation_scope_t) (outer : List compilation_scope_t)
    (h : emit_ok comp OPCODE_JUMP [uint64_of_int target] = some (true, comp1))
    (htarget : ¬ target < 0)
    (hs : comp.compilation_scope = scope :: outer) :
    ∃ scope1, comp1.compilation_scope = scope1 :: outer ∧ scope_kept scope scope1 ∧
      scope1.bytecode.length = scope.bytecode.length + 3 ∧
      ∀ bytecode, target < 65536 →
        same_bytes scope.bytecode.length scope1.bytecode.length bytecode scope1.bytecode →
        jump_at bytecode scope.bytecode.length target := by
  unfold emit_ok at h
  cases he : emit comp OPCODE_JUMP [uint64_of_int target] with
  | none => rw [he] at h; simp at h
  | some r =>
    obtain ⟨ip, c2⟩ := r
    rw [he] at h
    simp only [Option.map_some', Option.some.injEq, Prod.mk.injEq, decide_eq_true_eq] at h
    obtain ⟨hip, hc⟩ := h
    subst hc
    obtain ⟨_, s1, hs1, hb, hbr, hco⟩ := emit_some he (by omega) hs
    refine ⟨s1, hs1, ⟨hbr, hco, _, hb⟩, ?_, ?_⟩
    · rw [hb, code_make_jump]; simp
    · intro bc ht hsame
      obtain ⟨n, hn⟩ : ∃ n : Nat, target = (n : Int) := ⟨target.toNat, by omega⟩
      subst hn
      have hj := jump_at_append scope.bytecode [] n (by omega)
      rw [List.append_nil, ← hb] at hj
      refine jump_at_same hj hsame (le_refl _) ?_
      rw [hb, code_make_jump]; simp

end compiler

namespace compiler

theorem ok_then_some {r : Option (Bool × compiler_t)}
    {rest : compiler_t → Option (Bool × compiler_t)} {comp1 : compiler_t}
    (h : ok_then r rest = some (true, comp1)) :
    ∃ comp, r = some (true, comp) ∧ rest comp = some (true, comp1) := by
  unfold ok_then at h
  cases r with
  | none => simp at h
  | some p =>
    obtain ⟨ok, c⟩ := p
    cases ok with
    | false => simp at h
    | true => exact ⟨c, rfl, by simpa using h⟩

theorem compile_statements_loop_lays_out (host : host_t)
    {cs : statement_t → compiler_t → Option (Bool × compiler_t)}
    (hcs : lays_out (statement_jumps host) cs) :
    lays_out (block_jumps host) (compile_statements_loop cs) := by
  intro statements
  induction statements with
  | nil =>
    intro comp c1 scope outer h hs
    unfold compile_statements_loop at h
    simp only [Option.some.injEq, Prod.mk.injEq, true_and] at h
    subst h
    exact ⟨scope, hs, scope_kept_refl _, fun bc _ _ _ _ => block_jumps.nil _ _ _ _ (le_refl _)⟩
  | cons stmt statements ih =>
    intro comp c2 scope outer h hs
    unfold compile_statements_loop at h
    obtain ⟨c1, h1, h2⟩ := ok_then_some h
    obtain ⟨s1, hs1, hk1, hj1⟩ := hcs stmt comp c1 scope outer h1 hs
    obtain ⟨s2, hs2, hk2, hj2⟩ := ih c1 c2 s1 outer h2 hs1
    refine ⟨s2, hs2, scope_kept_trans hk1 hk2, ?_⟩
    intro bc hlen hb hc hsame
    have hl1 := scope_kept_length hk1
    have hl2 := scope_kept_length hk2
    refine block_jumps.cons _ _ _ s1.bytecode.length _ _ _
      (hj1 bc (by omega) hb hc (same_bytes_kept hk2 hsame (le_refl _) (le_refl _) hl2)) ?_
    have := hj2 bc hlen (by rw [hk1.1]; exact hb) (by rw [hk1.2.1]; exact hc)
      (fun a h1 h2 => hsame a (by omega) h2)
    rw [hk1.1, hk1.2.1] at this
    exact this

theorem compile_code_block_body_lays_out (host : host_t)
    {cs : statement_t → compiler_t → Option (Bool × compiler_t)}
    (hcs : lays_out (statement_jumps host) cs) :
    lays_out (block_jumps host) (compile_code_block_body cs) := by
  intro block comp c4 scope outer h hs
  unfold compile_code_block_body at h
  dsimp only at h
  split at h
  · simp at h
  · cases hu : update_symbol_table comp symbol_table_push_block_scope with
    | none => rw [hu] at h; simp at h
    | some c1 =>
      rw [hu] at h
      simp only [Option.some_bind] at h
      have hs1 : c1.compilation_scope = scope :: outer := by
        rw [update_symbol_table_scopes hu, hs]
      obtain ⟨c2, h2, h⟩ := ok_then_some h
      obtain ⟨c3, h3, h⟩ := ok_then_some h
      simp only [Option.map_eq_some', Prod.mk.injEq, true_and] at h
      obtain ⟨c4', h4, h4e⟩ := h
      subst h4e
      have hs4 := update_symbol_table_scopes h4
      have hk2 : scopes_kept c1.compilation_scope c2.compilation_scope := by
        split at h2
        · exact kept_ok_then c1.compilation_scope
            (kept_emit_ok c1.compilation_scope (scopes_kept_refl _))
            (fun c hc => kept_emit_ok c1.compilation_scope hc) c2 h2
        · simp only [Option.some.injEq, Prod.mk.injEq, true_and] at h2
          rw [h2]; exact scopes_kept_refl _
      rw [hs1] at hk2
      obtain ⟨s2, hs2, hks2⟩ := scopes_kept_cons hk2
      obtain ⟨s3, hs3, hks3, hj3⟩ :=
        compile_statements_loop_lays_out host hcs block c2 c3 s2 outer h3 hs2
      refine ⟨s3, by rw [hs4, hs3], scope_kept_trans hks2 hks3, ?_⟩
      intro bc hlen hb hc hsame
      have hl2 := scope_kept_length hks2
      have hl3 := scope_kept_length hks3
      by_cases hblock : block.length = 0
      · have : block = [] := List.length_eq_zero.1 hblock
        subst this
        exact block_jumps.nil _ _ _ _ (by omega)
      · rw [if_neg hblock] at h2
        simp only [Option.some.injEq, Prod.mk.injEq, true_and] at h2
        subst h2
        rw [hs1] at hs2
        simp only [List.cons.injEq, and_true] at hs2
        subst hs2
        exact hj3 bc hlen hb hc hsame

end compiler

namespace compiler

theorem get_ip_eq {comp : compiler_t} {scope : compilation_scope_t}
    {outer : List compilation_scope_t} (hs : comp.compilation_scope = scope :: outer) :
    get_ip comp = some (scope.bytecode.length : Int) := by
  unfold get_ip; rw [hs]

theorem emit_ok_some {comp comp1 : compiler_t} {op : opcode_t} {operands : List Nat}
    {scope : compilation_scope_t} {outer : List compilation_scope_t}
    (h : emit_ok comp op operands = some (true, comp1))
    (hs : comp.compilation_scope = scope :: outer) :
    ∃ scope1, comp1.compilation_scope = scope1 :: outer ∧
      scope1.bytecode = scope.bytecode ++ (code_make op operands).2 ∧
      scope1.break_ip_stack = scope.break_ip_stack ∧
      scope1.continue_ip_stack = scope.continue_ip_stack := by
  unfold emit_ok at h
  cases he : emit comp op operands with
  | none => rw [he] at h; simp at h
  | some r =>
    obtain ⟨ip, c2⟩ := r
    rw [he] at h
    simp only [Option.map_some', Option.some.injEq, Prod.mk.injEq, decide_eq_true_eq] at h
    obtain ⟨hip, hc⟩ := h
    subst hc
    exact (emit_some he (by omega) hs).2

theorem emit_then_some {comp comp2 : compiler_t} {op : opcode_t} {operands : List Nat}
    {rest : Int → compiler_t → Option (Bool × compiler_t)}
    {scope : compilation_scope_t} {outer : List compilation_scope_t}
    (h : emit_then comp op operands rest = some (true, comp2))
    (hs : comp.compilation_scope = scope :: outer) :
    ∃ comp1 scope1, comp1.compilation_scope = scope1 :: outer ∧
      scope1.bytecode = scope.bytecode ++ (code_make op operands).2 ∧
      scope1.break_ip_stack = scope.break_ip_stack ∧
      scope1.continue_ip_stack = scope.continue_ip_stack ∧
      rest (scope.bytecode.length : Int) comp1 = some (true, comp2) := by
  unfold emit_then at h
  cases he : emit comp op operands with
  | none => rw [he] at h; simp at h
  | some r =>
    obtain ⟨ip, c1⟩ := r
    rw [he] at h
    simp only at h
    split at h
    · simp at h
    · obtain ⟨hip, s1, hs1, hb, hbr, hco⟩ := emit_some he (by omega) hs
      subst hip
      exact ⟨c1, s1, hs1, hb, hbr, hco, h⟩

theorem update_compilation_scope_some {comp comp1 : compiler_t}
    {f : compilation_scope_t → compilation_scope_t}
    {scope : compilation_scope_t} {outer : List compilation_scope_t}
    (h : update_compilation_scope comp f = some comp1)
    (hs : comp.compilation_scope = scope :: outer) :
    comp1.compilation_scope = f scope :: outer := by
  unfold update_compilation_scope at h
  rw [hs] at h
  simp only [Option.some.injEq] at h
  rw [← h]

theorem change_uint16_operand_some {comp comp1 : compiler_t} {ip operand : Int}
    {scope : compilation_scope_t} {outer : List compilation_scope_t}
    (h : change_uint16_operand comp ip operand = some comp1)
    (hs : comp.compilation_scope = scope :: outer) :
    ∃ scope1, comp1.compilation_scope = scope1 :: outer ∧
      scope1.break_ip_stack = scope.break_ip_stack ∧
      scope1.continue_ip_stack = scope.continue_ip_stack ∧
      scope1.bytecode.length = scope.bytecode.length ∧
      (∀ a : Nat, (a : Int) ≠ ip → (a : Int) ≠ ip + 1 →
        scope1.bytecode[a]? = scope.bytecode[a]?) ∧
      (∀ a : Nat, (a : Int) = ip → a + 1 < scope.bytecode.length →
        scope1.bytecode[a]? = some ((operand % 65536).toNat / 256 % 256) ∧
        scope1.bytecode[a + 1]? = some ((operand % 65536).toNat % 256)) := by
  obtain ⟨s, o, s1, hs', hs1, _, hb, hc, _, hl, ho, hp⟩ := change_uint16_operand_scopes h
  rw [hs] at hs'
  simp only [List.cons.injEq] at hs'
  obtain ⟨e1, e2⟩ := hs'
  subst e1; subst e2
  exact ⟨s1, hs1, hb, hc, hl, ho, hp⟩

theorem ip_stack_top_push (stack : List Int) (ip : Int) : ip_stack_top (stack ++ [ip]) = ip := by
  simp [ip_stack_top]

/-- The exit jump of a loop after the operand of the placeholder at `exit_ip` has been
changed to the address after the loop. -/
theorem exit_jump_patched (bytecode : List Nat) (lo : Nat) {bytecode0 bytecode1 : List Nat}
    {exit_ip : Nat} {operand : Int}
    (hop : bytecode0[exit_ip]? = some (opcode_val OPCODE_JUMP))
    (hlen : bytecode1.length = bytecode0.length) (hhi : exit_ip + 3 ≤ bytecode0.length)
    (hother : ∀ a : Nat, (a : Int) ≠ ((exit_ip : Int) + 1) → (a : Int) ≠ ((exit_ip : Int) + 1) + 1 →
      bytecode1[a]? = bytecode0[a]?)
    (hpatch : ∀ a : Nat, (a : Int) = ((exit_ip : Int) + 1) → a + 1 < bytecode0.length →
      bytecode1[a]? = some ((operand % 65536).toNat / 256 % 256) ∧
      bytecode1[a + 1]? = some ((operand % 65536).toNat % 256))
    (hoperand : 0 ≤ operand ∧ operand < 65536)
    (hsame : same_bytes lo bytecode1.length bytecode bytecode1) (hlo : lo ≤ exit_ip) :
    jump_at bytecode exit_ip operand := by
  have h0 : bytecode1[exit_ip]? = some (opcode_val OPCODE_JUMP) := by
    rw [hother exit_ip (by omega) (by omega)]; exact hop
  obtain ⟨h1, h2⟩ := hpatch (exit_ip + 1) (by simp) (by omega)
  have : jump_at bytecode1 exit_ip operand := by
    refine ⟨h0, by omega, ?_⟩
    rw [List.getD_eq_getElem?_getD, List.getD_eq_getElem?_getD, h1, h2]
    simp only [Option.getD_some]
    have e : (operand % 65536).toNat = operand.toNat := by
      rw [Int.emod_eq_of_lt hoperand.1 hoperand.2]
    rw [e]
    omega
  exact jump_at_same this hsame hlo (by omega)

end compiler

namespace compiler

/-- The part of a loop from the push of its addresses to the change of its exit jump:
`comp3` is the compiler after the exit jump has been emitted at `exit_ip`. -/
theorem loop_body_lays_out (host : host_t)
    {ccb : List statement_t → compiler_t → Option (Bool × compiler_t)}
    (hccb : lays_out (block_jumps host) ccb) (body : List statement_t)
    {comp3 comp4 comp5 comp6 comp7 comp8 comp9 comp10 : compiler_t}
    {scope3 : compilation_scope_t} {outer : List compilation_scope_t}
    (exit_ip continue_ip : Nat)
    (hs3 : comp3.compilation_scope = scope3 :: outer)
    (hexit : scope3.bytecode[exit_ip]? = some (opcode_val OPCODE_JUMP))
    (hexit3 : exit_ip + 3 ≤ scope3.bytecode.length)
    (hcont : continue_ip ≤ exit_ip)
    (h4 : push_continue_ip comp3 (continue_ip : Int) = some comp4)
    (h5 : push_break_ip comp4 (exit_ip : Int) = some comp5)
    (h6 : ccb body comp5 = some (true, comp6))
    (h7 : pop_break_ip comp6 = some comp7)
    (h8 : pop_continue_ip comp7 = some comp8)
    (h9 : emit_ok comp8 OPCODE_JUMP [uint64_of_int (continue_ip : Int)] = some (true, comp9))
    (h10 : ∃ after_body_ip, get_ip comp9 = some after_body_ip ∧
      change_uint16_operand comp9 ((exit_ip : Int) + 1) after_body_ip = some comp10) :
    ∃ scope10 back, comp10.compilation_scope = scope10 :: outer ∧
      scope10.break_ip_stack = scope3.break_ip_stack ∧
      scope10.continue_ip_stack = scope3.continue_ip_stack ∧
      scope3.bytecode.length ≤ back ∧
      scope10.bytecode.length = back + 3 ∧
      (∀ a, a < exit_ip + 1 → scope10.bytecode[a]? = scope3.bytecode[a]?) ∧
      ∀ bytecode lo, scope10.bytecode.length < 65536 → lo ≤ exit_ip →
        same_bytes lo scope10.bytecode.length bytecode scope10.bytecode →
        jump_at bytecode exit_ip ((back + 3 : Nat) : Int) ∧
        block_jumps host bytecode (exit_ip : Int) (continue_ip : Int)
          scope3.bytecode.length back body ∧
        jump_at bytecode back (continue_ip : Int) := by
  have hs4 := update_compilation_scope_some h4 hs3
  have hs5 := update_compilation_scope_some h5 hs4
  obtain ⟨s6, hs6, hk6, hj6⟩ := hccb body comp5 comp6 _ outer h6 hs5
  have hs7 := update_compilation_scope_some h7 hs6
  have hs8 := update_compilation_scope_some h8 hs7
  obtain ⟨s9, hs9, hb9, hbr9, hco9⟩ := emit_ok_some h9 hs8
  obtain ⟨after, hget, hch⟩ := h10
  rw [get_ip_eq hs9] at hget
  simp only [Option.some.injEq] at hget
  subst hget
  obtain ⟨s10, hs10, hbr10, hco10, hl10, hother, hpatch⟩ := change_uint16_operand_some hch hs9
  have hl6 := scope_kept_length hk6
  simp only at hl6
  have hl9 : s9.bytecode.length = s6.bytecode.length + 3 := by
    rw [hb9, code_make_jump]; simp
  refine ⟨s10, s6.bytecode.length, hs10, ?_, ?_, hl6, by omega, ?_, ?_⟩
  · rw [hbr10, hbr9]
    simp only
    rw [hk6.1]
    simp
  · rw [hco10, hco9]
    simp only
    rw [hk6.2.1]
    simp
  · intro a ha
    rw [hother a (by omega) (by omega), hb9]
    simp only
    rw [List.getElem?_append_left (by omega)]
    exact scope_kept_getElem? hk6 a (by simp only; omega)
  · intro bc lo hlen hlo hsame
    have h6a : ∀ a, exit_ip + 3 ≤ a → a < s6.bytecode.length →
        s10.bytecode[a]? = s6.bytecode[a]? := by
      intro a h1 h2
      rw [hother a (by omega) (by omega), hb9]
      simp only
      rw [List.getElem?_append_left h2]
    refine ⟨?_, ?_, ?_⟩
    · have hop : s9.bytecode[exit_ip]? = some (opcode_val OPCODE_JUMP) := by
        rw [hb9]
        simp only
        rw [List.getElem?_append_left (by omega)]
        rw [scope_kept_getElem? hk6 exit_ip (by simp only; omega)]
        exact hexit
      have := exit_jump_patched bc lo hop hl10 (by omega) hother hpatch
        (by constructor <;> omega) hsame hlo
      rw [hl9] at this
      exact this
    · have := hj6 bc (by omega) (by simp [ip_stack_top_push]; omega)
        (by simp [ip_stack_top_push]; omega)
        (fun a h1 h2 => by
          simp only at h1
          rw [hsame a (by omega) (by omega), h6a a (by omega) h2])
      simpa [ip_stack_top_push] using this
    · have hj : jump_at s9.bytecode s6.bytecode.length (continue_ip : Int) := by
        have := jump_at_append s6.bytecode [] continue_ip (by omega)
        rw [List.append_nil] at this
        rw [hb9]
        exact this
      have hj10 : jump_at s10.bytecode s6.bytecode.length (continue_ip : Int) :=
        @jump_at_same _ _ _ _ (exit_ip + 3) s10.bytecode.length hj
          (fun a h1 _ => hother a (by omega) (by omega)) (by omega) (by omega)
      exact jump_at_same hj10 hsame (by omega) (by omega)

end compiler

namespace compiler

theorem append_of_getElem? {l l1 p : List Nat} {n : Nat}
    (h : ∀ a, a < n → l1[a]? = l[a]?) (hp : ∃ t, l = p ++ t) (hn : p.length ≤ n) :
    ∃ t, l1 = p ++ t := by
  obtain ⟨t, ht⟩ := hp
  refine ⟨l1.drop p.length, ?_⟩
  have : l1.take p.length = p := by
    rw [take_eq_of_getElem? l l1 p.length (fun a ha => h a (by omega)), ht]
    simp
  conv_lhs => rw [← List.take_append_drop p.length l1]
  rw [this]

/-- The case `STATEMENT_WHILE_LOOP`. -/
theorem while_loop_lays_out (host : host_t) (fuel : Nat)
    {ccb : List statement_t → compiler_t → Option (Bool × compiler_t)}
    (hce : keeps_scopes (compile_expression host fuel))
    (hccb : lays_out (block_jumps host) ccb) (test : expression_t) (body : List statement_t)
    (comp : compiler_t) :
    lays_out_at (statement_jumps host)
      (compile_statement_while_loop (compile_expression host fuel) ccb test body comp) comp
      (.STATEMENT_WHILE_LOOP test body) := by
  intro c10 scope outer h hs
  unfold compile_statement_while_loop at h
  rw [get_ip_eq hs] at h
  simp only [Option.some_bind] at h
  obtain ⟨c1, h1, h⟩ := ok_then_some h
  obtain ⟨s1, hs1, hk1⟩ := keeps_cons hce h1 hs
  rw [get_ip_eq hs1] at h
  simp only [Option.some_bind] at h
  obtain ⟨c2, h2, h⟩ := ok_then_some h
  obtain ⟨s2, hs2, hb2, hbr2, hco2⟩ := emit_ok_some h2 hs1
  obtain ⟨c3, s3, hs3, hb3, hbr3, hco3, h⟩ := emit_then_some h hs2
  obtain ⟨c4, h4, h⟩ := Option.bind_eq_some.1 h
  obtain ⟨c5, h5, h⟩ := Option.bind_eq_some.1 h
  obtain ⟨c6, h6, h⟩ := ok_then_some h
  obtain ⟨c7, h7, h⟩ := Option.bind_eq_some.1 h
  obtain ⟨c8, h8, h⟩ := Option.bind_eq_some.1 h
  obtain ⟨c9, h9, h⟩ := ok_then_some h
  obtain ⟨after, hget, h⟩ := Option.bind_eq_some.1 h
  simp only [Option.map_eq_some', Prod.mk.injEq, true_and] at h
  obtain ⟨c10', hch, he⟩ := h
  subst he
  have hl1 := scope_kept_length hk1
  have hl2 : s2.bytecode.length = s1.bytecode.length + 3 := by
    rw [hb2]; simp [code_make_jump_if_true]
  have hl3 : s3.bytecode.length = s2.bytecode.length + 3 := by
    rw [hb3, code_make_jump]; simp
  have hexit : s3.bytecode[s2.bytecode.length]? = some (opcode_val OPCODE_JUMP) := by
    rw [hb3, code_make_jump, List.getElem?_append_right (le_refl _)]
    simp
  have h4' : push_continue_ip c3 ((scope.bytecode.length : Nat) : Int) = some c4 := h4
  have h5' : push_break_ip c4 ((s2.bytecode.length : Nat) : Int) = some c5 := h5
  obtain ⟨s10, back, hs10, hbr10, hco10, hback, hl10, hlow, hj⟩ :=
    loop_body_lays_out host hccb body _ _ hs3 hexit (by omega) (by omega) h4' h5' h6 h7 h8 h9
      ⟨after, hget, hch⟩
  have h31 : ∀ a, a < s1.bytecode.length → s10.bytecode[a]? = s1.bytecode[a]? := by
    intro a ha
    rw [hlow a (by omega), hb3, List.getElem?_append_left (by omega), hb2,
      List.getElem?_append_left ha]
  refine ⟨s10, hs10, ⟨?_, ?_, ?_⟩, ?_⟩
  · rw [hbr10, hbr3, hbr2, hk1.1]
  · rw [hco10, hco3, hco2, hk1.2.1]
  · exact append_of_getElem? h31 hk1.2.2 hl1
  · intro bc hlen hb hc hsame
    obtain ⟨hj1, hj2, hj3⟩ := hj bc scope.bytecode.length hlen (by omega) hsame
    rw [hl10]
    have e1 : s2.bytecode.length = s1.bytecode.length + 3 := hl2
    have e2 : s3.bytecode.length = s1.bytecode.length + 6 := by omega
    rw [e1] at hj1 hj2
    rw [e2] at hj2
    refine statement_jumps.while_loop _ _ _ s1.bytecode.length back test body ?_ hj1 hj2 hj3
    refine ⟨fuel, comp, c1, scope, s1, outer, h1, hs, hs1, rfl, rfl, ?_⟩
    intro a ha1 ha2
    rw [hsame a ha1 (by omega), h31 a ha2]

end compiler

namespace compiler

theorem on_success_ok_then_eq {r : Option (Bool × compiler_t)}
    {rest : compiler_t → Option (Bool × compiler_t)} {post : compiler_t → Prop}
    (hrest : ∀ comp, r = some (true, comp) → on_success (rest comp) post) :
    on_success (ok_then r rest) post :=
  on_success_ok_then (fun comp => r = some (true, comp)) (fun _ h => h) hrest

theorem compile_foreach_source_kept
    {ce : expression_t → compiler_t → Option (Bool × compiler_t)} (hce : keeps_scopes ce)
    {source : expression_t} {comp comp1 : compiler_t} {symbol : symbol_t}
    (hne : comp.compilation_scope ≠ [])
    (h : compile_foreach_source ce source comp = some (some symbol, comp1)) :
    scopes_kept comp.compilation_scope comp1.compilation_scope := by
  unfold compile_foreach_source at h
  split at h
  · split at h
    · simp at h
    · simp at h
    · simp only [Option.some.injEq, Prod.mk.injEq] at h
      rw [← h.2]
      simp only [compiler_set_symbol_table_scopes]
      exact scopes_kept_refl _
  · cases h1 : ce source comp with
    | none => rw [h1] at h; simp at h
    | some r =>
      obtain ⟨ok, c1⟩ := r
      rw [h1] at h
      cases ok with
      | false => simp at h
      | true =>
        simp only at h
        have hk1 := hce source comp hne c1 h1
        cases h2 : define_symbol c1 "@source" false true with
        | none => rw [h2] at h; simp at h
        | some r2 =>
          obtain ⟨sym, c2⟩ := r2
          rw [h2] at h
          cases sym with
          | none => simp at h
          | some sym =>
            simp only at h
            have hs2 := define_symbol_scopes h2
            cases h3 : write_symbol c2 sym true with
            | none => rw [h3] at h; simp at h
            | some r3 =>
              obtain ⟨ok3, c3⟩ := r3
              rw [h3] at h
              cases ok3 with
              | false => simp at h
              | true =>
                simp only [Option.some.injEq, Prod.mk.injEq] at h
                rw [← h.2]
                have hk3 := kept_write_symbol c2.compilation_scope (scopes_kept_refl _) c3 h3
                rw [hs2] at hk3
                exact scopes_kept_trans hk1 hk3

end compiler

namespace compiler

theorem scopes_kept_head_length {scope scope1 : compilation_scope_t}
    {outer outer1 : List compilation_scope_t}
    (h : scopes_kept (scope :: outer) (scope1 :: outer1)) :
    outer1 = outer ∧ scope_kept scope scope1 := by
  obtain ⟨s, hs, hk⟩ := scopes_kept_cons h
  simp only [List.cons.injEq] at hs
  exact ⟨hs.2, hs.1 ▸ hk⟩

/-- The case `STATEMENT_FOREACH`. -/
theorem foreach_lays_out (host : host_t)
    {ce : expression_t → compiler_t → Option (Bool × compiler_t)}
    {ccb : List statement_t → compiler_t → Option (Bool × compiler_t)}
    (hce : keeps_scopes ce)
    (hccb : lays_out (block_jumps host) ccb) (iterator : String) (source : expression_t)
    (body : List statement_t) (comp : compiler_t) :
    lays_out_at (statement_jumps host)
      (compile_statement_foreach ce ccb iterator source body comp) comp
      (.STATEMENT_FOREACH iterator source body) := by
  intro c_f scope outer h hs
  revert c_f
  show on_success _ _
  have hbase : scopes_kept (scope :: outer) comp.compilation_scope := hs ▸ scopes_kept_refl _
  unfold compile_statement_foreach
  refine kept_update_symbol_table (scope :: outer) hbase (fun c1 hc1 => ?_)
  refine kept_define_symbol_then (scope :: outer) hc1 (fun index_symbol c2 hc2 => ?_)
  refine kept_ok_then (scope :: outer) (kept_emit_ok _ hc2) (fun c3 hc3 => ?_)
  refine kept_ok_then (scope :: outer) (kept_write_symbol _ hc3) (fun c4 hc4 => ?_)
  split
  · exact on_success_none
  · exact on_success_false
  · rename_i source_symbol c5 hsrc
    have hc5 := scopes_kept_trans hc4 (compile_foreach_source_kept hce (by
      obtain ⟨s4, hs4, _⟩ := scopes_kept_cons hc4
      rw [hs4]; simp) hsrc)
    obtain ⟨s5, hs5, hk5⟩ := scopes_kept_cons hc5
    unfold compile_foreach_update
    refine on_success_emit_then (fun ip c6 he6 hip6 => ?_)
    obtain ⟨hip, s6, hs6, hb6, hbr6, hco6⟩ := emit_some he6 hip6 hs5
    have hc6 : scopes_kept (scope :: outer) c6.compilation_scope := emit_kept hc5 he6
    rw [get_ip_eq hs6]
    simp only [Option.some_bind]
    have hb6' : scopes_kept (s6 :: outer) c6.compilation_scope := hs6 ▸ scopes_kept_refl _
    refine kept_ok_then (s6 :: outer) (kept_read_symbol _ hb6') (fun c7 hc7 => ?_)
    refine kept_ok_then (s6 :: outer) (kept_emit_ok _ hc7) (fun c8 hc8 => ?_)
    refine kept_ok_then (s6 :: outer) (kept_emit_ok _ hc8) (fun c9 hc9 => ?_)
    refine kept_ok_then (s6 :: outer) (kept_write_symbol _ hc9) (fun c10 hc10 => ?_)
    obtain ⟨s10, hs10, hk10⟩ := scopes_kept_cons hc10
    rw [get_ip_eq hs10]
    simp only [Option.some_bind]
    apply on_success_bind
    intro c11 hch
    have hc10' : scopes_kept (scope :: outer) c10.compilation_scope := by
      rw [hs6] at hc6; rw [hs10]
      exact scopes_kept_trans hc6 (scopes_kept_of_cons hk10)
    have hl5 := scope_kept_length hk5
    have hc11 : scopes_kept (scope :: outer) c11.compilation_scope :=
      change_uint16_operand_kept hc10'
        (fun s hsm => by
          simp only [List.head?_cons, Option.mem_def, Option.some.injEq] at hsm
          subst hsm; omega) hch
    obtain ⟨s11, hs11, _, _, hl11, _, _⟩ := change_uint16_operand_some hch hs10
    have hl10 := scope_kept_length hk10
    unfold compile_foreach_test
    have hb11 : scopes_kept (s11 :: outer) c11.compilation_scope := hs11 ▸ scopes_kept_refl _
    refine kept_ok_then (s11 :: outer) (kept_read_symbol _ hb11) (fun c12 hc12 => ?_)
    refine kept_ok_then (s11 :: outer) (kept_emit_ok _ hc12) (fun c13 hc13 => ?_)
    refine kept_ok_then (s11 :: outer) (kept_read_symbol _ hc13) (fun c14 hc14 => ?_)
    refine kept_ok_then (s11 :: outer) (kept_emit_ok _ hc14) (fun c15 hc15 => ?_)
    refine kept_ok_then (s11 :: outer) (kept_emit_ok _ hc15) (fun c16 hc16 => ?_)
    apply on_success_bind
    intro after_test _
    refine kept_ok_then (s11 :: outer) (kept_emit_ok _ hc16) (fun c17 hc17 => ?_)
    obtain ⟨s17, hs17, hk17⟩ := scopes_kept_cons hc17
    refine on_success_emit_then (fun exit_ip c18 he18 hip18 => ?_)
    obtain ⟨hexit, s18, hs18, hb18, hbr18, hco18⟩ := emit_some he18 hip18 hs17
    have hb18' : scopes_kept (s18 :: outer) c18.compilation_scope := hs18 ▸ scopes_kept_refl _
    refine kept_ok_then (s18 :: outer) (kept_read_symbol _ hb18') (fun c19 hc19 => ?_)
    refine kept_ok_then (s18 :: outer) (kept_read_symbol _ hc19) (fun c20 hc20 => ?_)
    refine kept_ok_then (s18 :: outer) (kept_emit_ok _ hc20) (fun c21 hc21 => ?_)
    refine kept_define_symbol_then (s18 :: outer) hc21 (fun iter_symbol c22 hc22 => ?_)
    refine kept_ok_then (s18 :: outer) (kept_write_symbol _ hc22) (fun c23 hc23 => ?_)
    obtain ⟨s23, hs23, hk23⟩ := scopes_kept_cons hc23
    unfold compile_foreach_body
    apply on_success_bind
    intro c24 h24
    apply on_success_bind
    intro c25 h25
    refine on_success_ok_then_eq (fun c26 h26 => ?_)
    apply on_success_bind
    intro c27 h27
    apply on_success_bind
    intro c28 h28
    refine on_success_ok_then_eq (fun c29 h29 => ?_)
    apply on_success_bind
    intro after_body hget
    apply on_success_bind
    intro c30 h30
    apply on_success_map
    intro c31 h31
    have hs31 := update_symbol_table_scopes h31
    subst hip
    subst hexit
    have hl17 := scope_kept_length hk17
    have hl18 : s18.bytecode.length = s17.bytecode.length + 3 := by
      rw [hb18, code_make_jump]; simp
    have hl23 := scope_kept_length hk23
    have hl6 : s6.bytecode.length = s5.bytecode.length + 3 := by
      rw [hb6, code_make_jump]; simp
    have hexit : s23.bytecode[s17.bytecode.length]? = some (opcode_val OPCODE_JUMP) := by
      rw [scope_kept_getElem? hk23 _ (by omega), hb18, code_make_jump,
        List.getElem?_append_right (le_refl _)]
      simp
    obtain ⟨s30, back, hs30, hbr30, hco30, hback, hl30, hlow, hj⟩ :=
      loop_body_lays_out host hccb body s17.bytecode.length
        s6.bytecode.length hs23 hexit (by omega) (by omega) h24 h25 h26 h27
        h28 h29 ⟨after_body, hget, h30⟩
    obtain ⟨s17', hs17', hk17'⟩ := scopes_kept_cons (hs17 ▸ (scopes_kept_trans hc11
      (hs11 ▸ hc17) : scopes_kept (scope :: outer) c17.compilation_scope))
    simp only [List.cons.injEq, and_true] at hs17'
    subst hs17'
    refine ⟨s30, by rw [hs31, hs30], ⟨?_, ?_, ?_⟩, ?_⟩
    · rw [hbr30, hk23.1, hbr18, hk17'.1]
    · rw [hco30, hk23.2.1, hco18, hk17'.2.1]
    · refine append_of_getElem? (l := s17.bytecode) (n := scope.bytecode.length) ?_
        hk17'.2.2 (le_refl _)
      intro a ha
      rw [hlow a (by omega), scope_kept_getElem? hk23 a (by omega), hb18,
        List.getElem?_append_left (by omega)]
    · intro bc hlen hb hc hsame
      obtain ⟨hj1, hj2, hj3⟩ := hj bc scope.bytecode.length hlen (by omega) hsame
      rw [hl30]
      exact statement_jumps.foreach _ _ _ s6.bytecode.length s17.bytecode.length
        s23.bytecode.length back iterator source body (by omega) (by omega) (by omega)
        hj1 hj2 hj3

end compiler

namespace compiler

/-- The case `STATEMENT_FOR_LOOP`. -/
theorem for_loop_lays_out (host : host_t) (fuel : Nat)
    {cs : statement_t → compiler_t → Option (Bool × compiler_t)}
    {ccb : List statement_t → compiler_t → Option (Bool × compiler_t)}
    (hcs : keeps_scopes cs)
    (hce : keeps_scopes (compile_expression host fuel))
    (hccb : lays_out (block_jumps host) ccb) (init : Option statement_t)
    (test update : Option expression_t) (body : List statement_t) (comp : compiler_t) :
    lays_out_at (statement_jumps host)
      (compile_statement_for_loop cs (compile_expression host fuel) ccb init test update body
        comp) comp
      (.STATEMENT_FOR_LOOP init test update body) := by
  intro c_f scope outer h hs
  revert c_f
  show on_success _ _
  have hbase : scopes_kept (scope :: outer) comp.compilation_scope := hs ▸ scopes_kept_refl _
  unfold compile_statement_for_loop
  refine kept_update_symbol_table (scope :: outer) hbase (fun c0 hc0 => ?_)
  dsimp only
  split
  · exact on_success_none
  · exact on_success_false
  · rename_i jump_ip c1 hinit
    -- the state after the initialisation and its jump
    have hinit' : scopes_kept (scope :: outer) c1.compilation_scope ∧
        (init.isSome = true → ∀ s ∈ c1.compilation_scope.head?,
          (scope.bytecode.length : Int) ≤ jump_ip ∧ jump_ip + 3 = (s.bytecode.length : Int)) := by
      cases init with
      | none =>
        simp only [Option.some.injEq, Prod.mk.injEq, true_and] at hinit
        rw [← hinit.2]
        exact ⟨hc0, by simp⟩
      | some init =>
        simp only at hinit
        cases hi : cs init c0 with
        | none => rw [hi] at hinit; simp at hinit
        | some r =>
          obtain ⟨ok, ci⟩ := r
          rw [hi] at hinit
          cases ok with
          | false => simp at hinit
          | true =>
            simp only at hinit
            have hki := scopes_kept_trans hc0 (hcs init c0 (by
              obtain ⟨s0, hs0, _⟩ := scopes_kept_cons hc0
              rw [hs0]; simp) ci hi)
            obtain ⟨si, hsi, hksi⟩ := scopes_kept_cons hki
            cases hj : emit ci OPCODE_JUMP [0xbeef] with
            | none => rw [hj] at hinit; simp at hinit
            | some r2 =>
              obtain ⟨ip, cj⟩ := r2
              rw [hj] at hinit
              simp only [Option.some.injEq, Prod.mk.injEq, decide_eq_true_eq] at hinit
              obtain ⟨hip, hip2, hcj⟩ := hinit
              subst hip2; subst hcj
              obtain ⟨hipe, sj, hsj, hbj, _, _⟩ := emit_some hj hip hsi
              refine ⟨emit_kept hki hj, fun _ s hsm => ?_⟩
              rw [hsj] at hsm
              simp only [List.head?_cons, Option.mem_def, Option.some.injEq] at hsm
              subst hsm
              have := scope_kept_length hksi
              rw [hbj, code_make_jump, hipe]
              simp
              omega
    obtain ⟨hc1, hjump⟩ := hinit'
    obtain ⟨s1, hs1, hk1⟩ := scopes_kept_cons hc1
    rw [get_ip_eq hs1]
    simp only [Option.some_bind]
    have hb1 : scopes_kept (s1 :: outer) c1.compilation_scope := hs1 ▸ scopes_kept_refl _
    -- the update
    refine on_success_ok_then
      (fun c2 => scopes_kept (s1 :: outer) c2.compilation_scope ∧
        ∀ expr, update = some expr → ∃ cu su, compile_expression host fuel expr c1
          = some (true, cu) ∧ cu.compilation_scope = su :: outer ∧ scope_kept s1 su ∧
          scopes_kept (su :: outer) c2.compilation_scope) ?_ (fun c2 hc2u => ?_)
    · cases update with
      | none =>
        exact on_success_true ⟨hb1, by simp⟩
      | some expr =>
        refine on_success_ok_then_eq (fun cu hu => ?_)
        have hku := hce expr c1 (by rw [hs1]; simp) cu hu
        rw [hs1] at hku
        obtain ⟨su, hsu, hksu⟩ := scopes_kept_cons hku
        intro c2 h2
        have hb : scopes_kept (su :: outer) cu.compilation_scope := hsu ▸ scopes_kept_refl _
        have hk2 := kept_emit_ok (su :: outer) hb c2 h2
        refine ⟨scopes_kept_trans (scopes_kept_of_cons hksu) hk2, ?_⟩
        intro e he
        simp only [Option.some.injEq] at he
        subst he
        exact ⟨cu, su, hu, hsu, hksu, hk2⟩
    · obtain ⟨hc2, hupd⟩ := hc2u
      obtain ⟨s2, hs2, hk2⟩ := scopes_kept_cons hc2
      -- the change of the jump of the initialisation
      apply on_success_bind
      intro c3 h3
      have h3' : ∃ s3, c3.compilation_scope = s3 :: outer ∧
          s3.break_ip_stack = s2.break_ip_stack ∧
          s3.continue_ip_stack = s2.continue_ip_stack ∧
          s3.bytecode.length = s2.bytecode.length ∧
          (∀ a : Nat, a < scope.bytecode.length ∨ s1.bytecode.length ≤ a →
            s3.bytecode[a]? = s2.bytecode[a]?) := by
        cases hinit2 : init.isSome with
        | false =>
          rw [hinit2] at h3
          simp only [Bool.false_eq_true, if_false, Option.some.injEq] at h3
          subst h3
          exact ⟨s2, hs2, rfl, rfl, rfl, fun _ _ => rfl⟩
        | true =>
          rw [hinit2] at h3
          simp only [if_true] at h3
          rw [get_ip_eq hs2] at h3
          simp only [Option.some_bind] at h3
          obtain ⟨s3, hs3, hbr3, hco3, hl3, hother, _⟩ := change_uint16_operand_some h3 hs2
          have := hjump hinit2 s1 (by rw [hs1]; simp)
          exact ⟨s3, hs3, hbr3, hco3, hl3, fun a ha => hother a (by omega) (by omega)⟩
      obtain ⟨s3, hs3, hbr3, hco3, hl3, hsame3⟩ := h3'
      have hb3 : scopes_kept (s3 :: outer) c3.compilation_scope := hs3 ▸ scopes_kept_refl _
      -- the test
      refine kept_ok_then (s3 :: outer) ?_ (fun c4 hc4 => ?_)
      · cases test with
        | none => exact kept_emit_ok _ hb3
        | some expr => exact kept_call hce _ (by simp) hb3
      · apply on_success_bind
        intro after_test _
        refine kept_ok_then (s3 :: outer) (kept_emit_ok _ hc4) (fun c5 hc5 => ?_)
        obtain ⟨s5, hs5, hk5⟩ := scopes_kept_cons hc5
        refine on_success_emit_then (fun exit_ip c6 he6 hip6 => ?_)
        obtain ⟨hexit, s6, hs6, hb6, hbr6, hco6⟩ := emit_some he6 hip6 hs5
        apply on_success_bind
        intro c24 h24
        apply on_success_bind
        intro c25 h25
        refine on_success_ok_then_eq (fun c26 h26 => ?_)
        apply on_success_bind
        intro c27 h27
        apply on_success_bind
        intro c28 h28
        refine on_success_ok_then_eq (fun c29 h29 => ?_)
        apply on_success_bind
        intro after_body hget
        apply on_success_bind
        intro c30 h30
        apply on_success_map
        intro c31 h31
        have hs31 := update_symbol_table_scopes h31
        subst hexit
        have hl1 := scope_kept_length hk1
        have hl2 := scope_kept_length hk2
        have hl5 := scope_kept_length hk5
        have hl6 : s6.bytecode.length = s5.bytecode.length + 3 := by
          rw [hb6, code_make_jump]; simp
        have hexit : s6.bytecode[s5.bytecode.length]? = some (opcode_val OPCODE_JUMP) := by
          rw [hb6, code_make_jump, List.getElem?_append_right (le_refl _)]
          simp
        obtain ⟨s30, back, hs30, hbr30, hco30, hback, hl30, hlow, hj⟩ :=
          loop_body_lays_out host hccb body s5.bytecode.length
            s1.bytecode.length hs6 hexit (by omega) (by omega) h24 h25 h26
            h27 h28 h29 ⟨after_body, hget, h30⟩
        have hlow3 : ∀ a, a < s3.bytecode.length → s30.bytecode[a]? = s3.bytecode[a]? := by
          intro a ha
          rw [hlow a (by omega), hb6, List.getElem?_append_left (by omega)]
          exact scope_kept_getElem? hk5 a ha
        refine ⟨s30, by rw [hs31, hs30], ⟨?_, ?_, ?_⟩, ?_⟩
        · rw [hbr30, hbr6, hk5.1, hbr3, hk2.1, hk1.1]
        · rw [hco30, hco6, hk5.2.1, hco3, hk2.2.1, hk1.2.1]
        · refine append_of_getElem? (l := s1.bytecode) (n := scope.bytecode.length) ?_
            hk1.2.2 (le_refl _)
          intro a ha
          rw [hlow3 a (by omega), hsame3 a (Or.inl ha), scope_kept_getElem? hk2 a (by omega)]
        · intro bc hlen hb hc hsame
          obtain ⟨hj1, hj2, hj3⟩ := hj bc scope.bytecode.length hlen (by omega) hsame
          rw [hl30]
          rw [hl6] at hj2
          refine statement_jumps.for_loop _ _ _ s1.bytecode.length s5.bytecode.length
            back init test update body (by omega) (by omega) ?_ hj1 hj2 hj3
          intro expr he
          obtain ⟨cu, su, hu, hsu, hksu, hk2u⟩ := hupd expr he
          refine ⟨su.bytecode.length, fuel, c1, cu, s1, su, outer, hu, hs1, hsu, rfl, rfl, ?_⟩
          rw [hs2] at hk2u
          obtain ⟨_, hk2u'⟩ := scopes_kept_head_length hk2u
          have hlu := scope_kept_length hk2u'
          intro a ha1 ha2
          rw [hsame a (by omega) (by omega), hlow3 a (by omega), hsame3 a (Or.inr ha1),
            scope_kept_getElem? hk2u' a ha2]

end compiler

namespace compiler

theorem emit_nonneg {comp comp1 : compiler_t} {op : opcode_t} {operands : List Nat} {ip : Int}
    (h : emit comp op operands = some (ip, comp1)) (hdef : (code_make op operands).1 ≠ 0) :
    0 ≤ ip := by
  unfold emit at h
  cases hs : comp.compilation_scope with
  | nil => rw [hs] at h; simp at h
  | cons scope outer =>
    rw [hs] at h
    simp only [if_neg hdef, Option.some.injEq, Prod.mk.injEq] at h
    rw [← h.1]
    exact Int.ofNat_nonneg _

/-- The loop of the case `STATEMENT_IF` over the jumps to the end. -/
theorem change_fold_some (outer : List compilation_scope_t) (operand : Int) :
    ∀ (ips : List Int) (comp comp1 : compiler_t) (scope : compilation_scope_t),
      comp.compilation_scope = scope :: outer →
      ips.foldl
        (fun comp pos => comp.bind fun comp => change_uint16_operand comp (pos + 1) operand)
        (some comp) = some comp1 →
      ∃ scope1, comp1.compilation_scope = scope1 :: outer ∧
        scope1.break_ip_stack = scope.break_ip_stack ∧
        scope1.continue_ip_stack = scope.continue_ip_stack ∧
        scope1.bytecode.length = scope.bytecode.length ∧
        ∀ a : Nat, (∀ ip ∈ ips, (a : Int) ≠ ip + 1 ∧ (a : Int) ≠ ip + 2) →
          scope1.bytecode[a]? = scope.bytecode[a]? := by
  intro ips
  induction ips with
  | nil =>
    intro comp comp1 scope hs h
    simp only [List.foldl_nil, Option.some.injEq] at h
    subst h
    exact ⟨scope, hs, rfl, rfl, rfl, fun _ _ => rfl⟩
  | cons ip ips ih =>
    intro comp comp1 scope hs h
    rw [List.foldl_cons] at h
    simp only [Option.some_bind] at h
    cases hc : change_uint16_operand comp (ip + 1) operand with
    | none =>
      rw [hc] at h
      have : ∀ l : List Int, l.foldl
          (fun comp pos => comp.bind fun comp => change_uint16_operand comp (pos + 1) operand)
          none = none := by
        intro l
        induction l with
        | nil => rfl
        | cons x l ihl => rw [List.foldl_cons]; exact ihl
      rw [this] at h
      cases h
    | some c2 =>
      rw [hc] at h
      obtain ⟨s2, hs2, hbr2, hco2, hl2, hother, _⟩ := change_uint16_operand_some hc hs
      obtain ⟨s3, hs3, hbr3, hco3, hl3, hsame⟩ := ih c2 comp1 s2 hs2 h
      refine ⟨s3, hs3, hbr3.trans hbr2, hco3.trans hco2, hl3.trans hl2, ?_⟩
      intro a ha
      rw [hsame a (fun ip' hip' => ha ip' (List.mem_cons_of_mem _ hip'))]
      have := ha ip (List.mem_cons_self _ _)
      exact hother a this.1 (by omega)

/-- The loop of the case `STATEMENT_IF` over the cases. -/
theorem compile_if_cases_lays_out (host : host_t)
    {ce : expression_t → compiler_t → Option (Bool × compiler_t)}
    {ccb : List statement_t → compiler_t → Option (Bool × compiler_t)}
    (hce : keeps_scopes ce) (hccb : lays_out (block_jumps host) ccb)
    (has_alternative : Bool) (outer : List compilation_scope_t) :
    ∀ (cases : List (expression_t × List statement_t)) (ips r_ips : List Int)
      (comp comp1 : compiler_t) (scope : compilation_scope_t),
      compile_if_cases ce ccb cases has_alternative ips comp = some (true, r_ips, comp1) →
      comp.compilation_scope = scope :: outer →
      ∃ scope1 new, comp1.compilation_scope = scope1 :: outer ∧ scope_kept scope scope1 ∧
        r_ips = ips ++ new ∧
        (∀ ip ∈ new, ∃ n : Nat, ip = (n : Int) ∧ scope.bytecode.length ≤ n ∧
          n + 3 ≤ scope1.bytecode.length) ∧
        ∀ bytecode, scope1.bytecode.length < 65536 →
          ip_stack_top scope.break_ip_stack < 65536 →
          ip_stack_top scope.continue_ip_stack < 65536 →
          (∀ a : Nat, scope.bytecode.length ≤ a → a < scope1.bytecode.length →
            (∀ ip ∈ new, (a : Int) ≠ ip + 1 ∧ (a : Int) ≠ ip + 2) →
            bytecode[a]? = scope1.bytecode[a]?) →
          cases_jumps host bytecode (ip_stack_top scope.break_ip_stack)
            (ip_stack_top scope.continue_ip_stack) scope.bytecode.length
            scope1.bytecode.length cases := by
  intro cases
  induction cases with
  | nil =>
    intro ips r_ips comp comp1 scope h hs
    unfold compile_if_cases at h
    simp only [Option.some.injEq, Prod.mk.injEq, true_and] at h
    obtain ⟨h1, h2⟩ := h
    subst h1; subst h2
    exact ⟨scope, [], hs, scope_kept_refl _, by simp, by simp,
      fun bc _ _ _ _ => cases_jumps.nil _ _ _⟩
  | cons case cases ih =>
    intro ips r_ips comp comp_f scope h hs
    obtain ⟨test, consequence⟩ := case
    unfold compile_if_cases at h
    cases h1 : ce test comp with
    | none => rw [h1] at h; simp at h
    | some r1 =>
      obtain ⟨ok1, c1⟩ := r1
      rw [h1] at h
      cases ok1 with
      | false => simp at h
      | true =>
        simp only at h
        obtain ⟨s1, hs1, hk1⟩ := keeps_cons hce h1 hs
        cases h2 : emit c1 OPCODE_JUMP_IF_FALSE [0xbeef] with
        | none => rw [h2] at h; simp at h
        | some r2 =>
          obtain ⟨njip, c2⟩ := r2
          rw [h2] at h
          simp only at h
          obtain ⟨hnj, s2, hs2, hb2, hbr2, hco2⟩ :=
            emit_some h2 (emit_nonneg h2 (by decide)) hs1
          cases h3 : ccb consequence c2 with
          | none => rw [h3] at h; simp at h
          | some r3 =>
            obtain ⟨ok3, c3⟩ := r3
            rw [h3] at h
            cases ok3 with
            | false => simp at h
            | true =>
              simp only at h
              obtain ⟨s3, hs3, hk3, hj3⟩ := hccb consequence c2 c3 s2 outer h3 hs2
              -- the jump to the end
              obtain ⟨ips4, c4, h4, h⟩ : ∃ ips4 c4,
                  (if cases.isEmpty = false ∨ has_alternative = true then
                    (emit c3 OPCODE_JUMP [0xbeef]).map
                      fun (r : Int × compiler_t) => (ips ++ [r.1], r.2)
                  else some (ips, c3)) = some (ips4, c4) ∧
                  (match get_ip c4 with
                    | none => none
                    | some after_elif_ip =>
                      match change_uint16_operand c4 (njip + 1) after_elif_ip with
                      | none => none
                      | some comp =>
                        compile_if_cases ce ccb cases has_alternative ips4 comp)
                    = some (true, r_ips, comp_f) := by
                revert h
                generalize (if cases.isEmpty = false ∨ has_alternative = true then
                    (emit c3 OPCODE_JUMP [0xbeef]).map
                      fun (r : Int × compiler_t) => (ips ++ [r.1], r.2)
                  else some (ips, c3)) = jumped
                intro h
                cases jumped with
                | none => simp at h
                | some p => exact ⟨p.1, p.2, rfl, h⟩
              have h4' : ∃ s4 new4, c4.compilation_scope = s4 :: outer ∧
                  scope_kept s3 s4 ∧ ips4 = ips ++ new4 ∧
                  (∀ ip ∈ new4, ip = (s3.bytecode.length : Int) ∧
                    s3.bytecode.length + 3 = s4.bytecode.length) := by
                split at h4
                · cases he : emit c3 OPCODE_JUMP [0xbeef] with
                  | none => rw [he] at h4; simp at h4
                  | some r =>
                    obtain ⟨q, c4'⟩ := r
                    rw [he] at h4
                    simp only [Option.map_some', Option.some.injEq, Prod.mk.injEq] at h4
                    obtain ⟨e1, e2⟩ := h4
                    subst e1; subst e2
                    obtain ⟨hq, s4, hs4, hb4, hbr4, hco4⟩ :=
                      emit_some he (emit_nonneg he (by decide)) hs3
                    refine ⟨s4, [q], hs4, ⟨hbr4, hco4, _, hb4⟩, rfl, ?_⟩
                    intro ip hip
                    simp only [List.mem_singleton] at hip
                    subst hip
                    refine ⟨hq, ?_⟩
                    rw [hb4, code_make_jump]; simp
                · simp only [Option.some.injEq, Prod.mk.injEq] at h4
                  obtain ⟨e1, e2⟩ := h4
                  subst e1; subst e2
                  exact ⟨s3, [], hs3, scope_kept_refl _, by simp, by simp⟩
              obtain ⟨s4, new4, hs4, hk4, hips4, hnew4⟩ := h4'
              rw [get_ip_eq hs4] at h
              simp only at h
              cases h5 : change_uint16_operand c4 (njip + 1) (s4.bytecode.length : Int) with
              | none => rw [h5] at h; simp at h
              | some c5 =>
                rw [h5] at h
                simp only at h
                obtain ⟨s5, hs5, hbr5, hco5, hl5, hother5, _⟩ :=
                  change_uint16_operand_some h5 hs4
                obtain ⟨s_f, new', hs_f, hk_f, hr_ips, hnew', hj_f⟩ :=
                  ih ips4 r_ips c5 comp_f s5 h hs5
                have hl1 := scope_kept_length hk1
                have hl2 : s2.bytecode.length = s1.bytecode.length + 3 := by
                  rw [hb2]; simp [code_make_jump_if_false]
                have hl3 := scope_kept_length hk3
                have hl4 := scope_kept_length hk4
                have hlf := scope_kept_length hk_f
                subst hnj
                have hlow5 : ∀ a, a < s1.bytecode.length ∨
                    (s2.bytecode.length ≤ a ∧ a < s3.bytecode.length) →
                    s5.bytecode[a]? = s3.bytecode[a]? := by
                  intro a ha
                  rw [hother5 a (by omega) (by omega)]
                  exact scope_kept_getElem? hk4 a (by omega)
                refine ⟨s_f, new4 ++ new', hs_f, ⟨?_, ?_, ?_⟩, ?_, ?_, ?_⟩
                · rw [hk_f.1, hbr5, hk4.1, hk3.1, hbr2, hk1.1]
                · rw [hk_f.2.1, hco5, hk4.2.1, hk3.2.1, hco2, hk1.2.1]
                · refine append_of_getElem? (l := s1.bytecode) (n := scope.bytecode.length) ?_
                    hk1.2.2 (le_refl _)
                  intro a ha
                  rw [scope_kept_getElem? hk_f a (by omega), hlow5 a (Or.inl (by omega)),
                    scope_kept_getElem? hk3 a (by omega), hb2,
                    List.getElem?_append_left (by omega)]
                · rw [hr_ips, hips4, List.append_assoc]
                · intro ip hip
                  rcases List.mem_append.1 hip with h' | h'
                  · obtain ⟨e1, e2⟩ := hnew4 ip h'
                    exact ⟨s3.bytecode.length, e1, by omega, by omega⟩
                  · obtain ⟨n, e1, e2, e3⟩ := hnew' ip h'
                    exact ⟨n, e1, by omega, e3⟩
                · intro bc hlen hb hc hsame
                  have hstk_b : s5.break_ip_stack = scope.break_ip_stack := by
                    rw [hbr5, hk4.1, hk3.1, hbr2, hk1.1]
                  have hstk_c : s5.continue_ip_stack = scope.continue_ip_stack := by
                    rw [hco5, hk4.2.1, hk3.2.1, hco2, hk1.2.1]
                  have hstk2_b : s2.break_ip_stack = scope.break_ip_stack := by
                    rw [hbr2, hk1.1]
                  have hstk2_c : s2.continue_ip_stack = scope.continue_ip_stack := by
                    rw [hco2, hk1.2.1]
                  have hnothole : ∀ a : Nat, a < s3.bytecode.length →
                      ∀ ip ∈ new4 ++ new', (a : Int) ≠ ip + 1 ∧ (a : Int) ≠ ip + 2 := by
                    intro a ha ip hip
                    rcases List.mem_append.1 hip with h' | h'
                    · obtain ⟨e1, e2⟩ := hnew4 ip h'
                      omega
                    · obtain ⟨n, e1, e2, e3⟩ := hnew' ip h'
                      omega
                  refine cases_jumps.cons _ _ _ s2.bytecode.length s3.bytecode.length
                    s5.bytecode.length _ test consequence cases (by omega) (by omega) ?_ ?_
                  · have := hj3 bc (by omega) (by rw [hstk2_b]; exact hb)
                      (by rw [hstk2_c]; exact hc) (fun a h1 h2 => by
                        rw [hsame a (by omega) (by omega) (hnothole a h2),
                          scope_kept_getElem? hk_f a (by omega),
                          hlow5 a (Or.inr ⟨h1, h2⟩)])
                    rw [hstk2_b, hstk2_c] at this
                    exact this
                  · have := hj_f bc hlen (by rw [hstk_b]; exact hb)
                      (by rw [hstk_c]; exact hc) (fun a h1 h2 hh => by
                        refine hsame a (by omega) h2 ?_
                        intro ip hip
                        rcases List.mem_append.1 hip with h' | h'
                        · obtain ⟨e1, e2⟩ := hnew4 ip h'
                          omega
                        · exact hh ip h')
                    rw [hstk_b, hstk_c] at this
                    exact this

end compiler

namespace compiler

/-- The case `STATEMENT_IF`. -/
theorem if_lays_out (host : host_t)
    {ce : expression_t → compiler_t → Option (Bool × compiler_t)}
    {ccb : List statement_t → compiler_t → Option (Bool × compiler_t)}
    (hce : keeps_scopes ce) (hccb : lays_out (block_jumps host) ccb)
    (cases : List (expression_t × List statement_t)) (alternative : Option (List statement_t))
    (comp : compiler_t) :
    lays_out_at (statement_jumps host)
      (compile_statement_if ce ccb cases alternative comp) comp
      (.STATEMENT_IF cases alternative) := by
  intro c3 scope outer h hs
  unfold compile_statement_if at h
  cases h1 : compile_if_cases ce ccb cases alternative.isSome [] comp with
  | none => rw [h1] at h; simp at h
  | some r =>
    obtain ⟨ok, ips, c1⟩ := r
    rw [h1] at h
    cases ok with
    | false => simp at h
    | true =>
      simp only at h
      obtain ⟨s1, new, hs1, hk1, hips, hnew, hj1⟩ :=
        compile_if_cases_lays_out host hce hccb alternative.isSome outer cases [] ips comp c1
          scope h1 hs
      simp only [List.nil_append] at hips
      subst hips
      obtain ⟨c2, h2, h⟩ := ok_then_some h
      have h2' : ∃ s2, c2.compilation_scope = s2 :: outer ∧ scope_kept s1 s2 ∧
          ∀ bc, s2.bytecode.length < 65536 →
            ip_stack_top s1.break_ip_stack < 65536 →
            ip_stack_top s1.continue_ip_stack < 65536 →
            same_bytes s1.bytecode.length s2.bytecode.length bc s2.bytecode →
            ∀ alt, alternative = some alt →
              block_jumps host bc (ip_stack_top s1.break_ip_stack)
                (ip_stack_top s1.continue_ip_stack) s1.bytecode.length s2.bytecode.length
                alt := by
        cases alternative with
        | none =>
          simp only [Option.some.injEq, Prod.mk.injEq, true_and] at h2
          subst h2
          exact ⟨s1, hs1, scope_kept_refl _, fun _ _ _ _ _ alt halt => by simp at halt⟩
        | some alt =>
          simp only at h2
          obtain ⟨s2, hs2, hk2, hj2⟩ := hccb alt c1 c2 s1 outer h2 hs1
          refine ⟨s2, hs2, hk2, fun bc hl hb hc hsame alt' halt => ?_⟩
          simp only [Option.some.injEq] at halt
          subst halt
          exact hj2 bc hl hb hc hsame
      obtain ⟨s2, hs2, hk2, hj2⟩ := h2'
      rw [get_ip_eq hs2] at h
      simp only [Option.some_bind, Option.map_eq_some', Prod.mk.injEq, true_and] at h
      obtain ⟨c3', hfold, he⟩ := h
      subst he
      obtain ⟨s3, hs3, hbr3, hco3, hl3, hsame3⟩ := change_fold_some outer _ ips c2 c3' s2 hs2 hfold
      have hl1 := scope_kept_length hk1
      have hl2 := scope_kept_length hk2
      have hnothole : ∀ a : Nat, a < scope.bytecode.length ∨ s1.bytecode.length ≤ a →
          ∀ ip ∈ ips, (a : Int) ≠ ip + 1 ∧ (a : Int) ≠ ip + 2 := by
        intro a ha ip hip
        obtain ⟨n, e1, e2, e3⟩ := hnew ip hip
        omega
      refine ⟨s3, hs3, ⟨?_, ?_, ?_⟩, ?_⟩
      · rw [hbr3, hk2.1, hk1.1]
      · rw [hco3, hk2.2.1, hk1.2.1]
      · refine append_of_getElem? (l := s1.bytecode) (n := scope.bytecode.length) ?_
          hk1.2.2 (le_refl _)
        intro a ha
        rw [hsame3 a (hnothole a (Or.inl ha)), scope_kept_getElem? hk2 a (by omega)]
      · intro bc hlen hb hc hsame
        rw [hl3]
        refine statement_jumps.if_cases _ _ _ s1.bytecode.length _ cases alternative ?_ hl2 ?_
        · refine hj1 bc (by omega) hb hc (fun a h1 h2 hh => ?_)
          rw [hsame a h1 (by omega), hsame3 a hh, scope_kept_getElem? hk2 a h2]
        · intro alt halt
          have := hj2 bc (by omega) (by rw [hk1.1]; exact hb) (by rw [hk1.2.1]; exact hc)
            (fun a h1 h2 => by
              rw [hsame a (by omega) (by omega), hsame3 a (hnothole a (Or.inr h1))])
            alt halt
          rw [hk1.1, hk1.2.1] at this
          exact this

end compiler

namespace compiler

/-- The rule for a result that keeps the scopes and whose statement has no jumps to lay
out. -/
theorem lays_out_at_of_kept {α : Type} {r : Option (Bool × compiler_t)} {comp : compiler_t}
    {jumps : List Nat → Int → Int → Nat → Nat → α → Prop} {x : α}
    (hr : comp.compilation_scope ≠ [] →
      on_success r (fun comp1 => scopes_kept comp.compilation_scope comp1.compilation_scope))
    (hj : ∀ bytecode break_ip continue_ip lo hi, lo ≤ hi →
      jumps bytecode break_ip continue_ip lo hi x) :
    lays_out_at jumps r comp x := by
  intro c1 scope outer h hs
  have := hr (by rw [hs]; simp) c1 h
  rw [hs] at this
  obtain ⟨s1, hs1, hk⟩ := scopes_kept_cons this
  exact ⟨s1, hs1, hk, fun bc _ _ _ _ => hj bc _ _ _ _ (scope_kept_length hk)⟩

theorem recover_keeps
    {ccb : List statement_t → compiler_t → Option (Bool × compiler_t)}
    (hccb : keeps_scopes ccb) (error_ident : String) (body : List statement_t)
    (comp : compiler_t) (hne : comp.compilation_scope ≠ []) :
    on_success (compile_statement_recover ccb error_ident body comp)
      (fun comp1 => scopes_kept comp.compilation_scope comp1.compilation_scope) := by
  obtain ⟨base, hb⟩ : ∃ base, base = comp.compilation_scope := ⟨_, rfl⟩
  have hbase : scopes_kept base comp.compilation_scope := hb ▸ scopes_kept_refl _
  rw [← hb] at hne ⊢
  unfold compile_statement_recover
  split
  · exact on_success_none
  · split
    · exact on_success_false
    · split
      · exact on_success_false
      · refine kept_emit_then base hbase (fun recover_ip c1 hc1 hip1 => ?_)
        refine kept_emit_then base hc1 (fun jump_ip c2 hc2 hip2 => ?_)
        refine kept_get_ip base hc2 (fun ip _ => ?_)
        refine kept_change_bind base hc2 hip1 (fun c3 hc3 => ?_)
        refine kept_update_symbol_table base hc3 (fun c4 hc4 => ?_)
        refine kept_define_symbol_then base hc4 (fun error_symbol c5 hc5 => ?_)
        refine kept_ok_then base (kept_write_symbol base hc5) (fun c6 hc6 => ?_)
        refine kept_ok_then base (kept_call hccb base hne hc6) (fun c7 hc7 => ?_)
        apply on_success_bind
        intro b1 _
        apply on_success_bind
        intro b2 _
        split
        · exact on_success_false
        · refine kept_update_symbol_table base hc7 (fun c8 hc8 => ?_)
          refine kept_get_ip base hc8 (fun ip2 _ => ?_)
          exact kept_change_map base hc8 hip2

theorem get_break_ip_eq {comp : compiler_t} {scope : compilation_scope_t}
    {outer : List compilation_scope_t} (hs : comp.compilation_scope = scope :: outer) :
    get_break_ip comp = some (ip_stack_top scope.break_ip_stack) := by
  unfold get_break_ip; rw [hs]; rfl

theorem get_continue_ip_eq {comp : compiler_t} {scope : compilation_scope_t}
    {outer : List compilation_scope_t} (hs : comp.compilation_scope = scope :: outer) :
    get_continue_ip comp = some (ip_stack_top scope.continue_ip_stack) := by
  unfold get_continue_ip; rw [hs]; rfl

/-- The body of `compile_statement`. -/
theorem compile_statement_body_lays_out (host : host_t) (fuel : Nat)
    {cs : statement_t → compiler_t → Option (Bool × compiler_t)}
    {ccb : List statement_t → compiler_t → Option (Bool × compiler_t)}
    {im : String → compiler_t → Option (Bool × compiler_t)}
    (hcs : keeps_scopes cs) (hce : keeps_scopes (compile_expression host fuel))
    (hccb : lays_out (block_jumps host) ccb) (him : keeps_scopes im) :
    lays_out (statement_jumps host)
      (compile_statement_body cs (compile_expression host fuel) ccb im) := by
  intro stmt comp
  cases stmt with
  | STATEMENT_DEFINE name value assignable =>
    simp only [compile_statement_body]
    refine lays_out_at_of_kept (fun hne => ?_)
      (fun bc b k lo hi h => statement_jumps.define _ _ _ _ _ _ _ h)
    exact kept_ok_then _ (kept_call hce _ hne (scopes_kept_refl _)) (fun c hc =>
      kept_define_symbol_then _ hc (fun symbol c2 hc2 => kept_write_symbol _ hc2))
  | STATEMENT_IF cases alternative =>
    simp only [compile_statement_body]
    exact if_lays_out host hce hccb cases alternative comp
  | STATEMENT_RETURN_VALUE return_value =>
    simp only [compile_statement_body]
    refine lays_out_at_of_kept (fun hne => ?_)
      (fun bc b k lo hi h => statement_jumps.return_value _ _ _ _ _ h)
    unfold compile_statement_return_value
    split
    · exact on_success_none
    · exact on_success_false
    · split
      · exact kept_ok_then _ (kept_call hce _ hne (scopes_kept_refl _)) (fun c hc =>
          kept_emit_ok _ hc)
      · exact kept_emit_ok _ (scopes_kept_refl _)
  | STATEMENT_EXPRESSION expression =>
    simp only [compile_statement_body]
    refine lays_out_at_of_kept (fun hne => ?_)
      (fun bc b k lo hi h => statement_jumps.expression _ _ _ _ _ h)
    exact kept_ok_then _ (kept_call hce _ hne (scopes_kept_refl _)) (fun c hc =>
      kept_emit_ok _ hc)
  | STATEMENT_WHILE_LOOP test body =>
    simp only [compile_statement_body]
    exact while_loop_lays_out host fuel hce hccb test body comp
  | STATEMENT_BREAK =>
    intro c1 scope outer h hs
    simp only [compile_statement_body] at h
    rw [get_break_ip_eq hs] at h
    simp only [Option.some_bind] at h
    split at h
    · simp at h
    · rename_i hneg
      obtain ⟨s1, hs1, hk, hl, hj⟩ := jump_lays_out comp c1 _ scope outer h hneg hs
      refine ⟨s1, hs1, hk, fun bc _ hb _ hsame => ?_⟩
      rw [hl]
      exact statement_jumps.break_jump _ _ _ (hj bc hb hsame)
  | STATEMENT_CONTINUE =>
    intro c1 scope outer h hs
    simp only [compile_statement_body] at h
    rw [get_continue_ip_eq hs] at h
    simp only [Option.some_bind] at h
    split at h
    · simp at h
    · rename_i hneg
      obtain ⟨s1, hs1, hk, hl, hj⟩ := jump_lays_out comp c1 _ scope outer h hneg hs
      refine ⟨s1, hs1, hk, fun bc _ _ hc hsame => ?_⟩
      rw [hl]
      exact statement_jumps.continue_jump _ _ _ (hj bc hc hsame)
  | STATEMENT_FOREACH iterator source body =>
    simp only [compile_statement_body]
    exact foreach_lays_out host hce hccb iterator source body comp
  | STATEMENT_FOR_LOOP init test update body =>
    simp only [compile_statement_body]
    exact for_loop_lays_out host fuel hcs hce hccb init test update body comp
  | STATEMENT_BLOCK block =>
    intro c1 scope outer h hs
    simp only [compile_statement_body] at h
    obtain ⟨s1, hs1, hk, hj⟩ := hccb block comp c1 scope outer h hs
    exact ⟨s1, hs1, hk, fun bc hl hb hc hsame =>
      statement_jumps.block _ _ _ _ _ (hj bc hl hb hc hsame)⟩
  | STATEMENT_IMPORT path =>
    simp only [compile_statement_body]
    exact lays_out_at_of_kept (fun hne => kept_call him _ hne (scopes_kept_refl _))
      (fun bc b k lo hi h => statement_jumps.import_module _ _ _ _ _ h)
  | STATEMENT_RECOVER error_ident body =>
    simp only [compile_statement_body]
    exact lays_out_at_of_kept
      (fun hne => recover_keeps (lays_out_keeps hccb) error_ident body comp hne)
      (fun bc b k lo hi h => statement_jumps.recover _ _ _ _ _ _ h)

end compiler

namespace compiler

theorem compile_code_body_keeps (host : host_t)
    {cs : List statement_t → compiler_t → Option (Bool × compiler_t)}
    (hcs : keeps_scopes cs) : keeps_scopes (compile_code_body host cs) := by
  intro code comp hne
  unfold compile_code_body
  dsimp only
  split
  · exact on_success_none
  · split
    · exact on_success_false
    · exact kept_call hcs _ hne (scopes_kept_refl _)

theorem import_module_load_keeps (host : host_t)
    {cc : String → compiler_t → Option (Bool × compiler_t)}
    (hcc : keeps_scopes cc) (module_name filepath : String) (comp comp1 : compiler_t)
    (module : module_t) (hne : comp.compilation_scope ≠ [])
    (h : import_module_load host cc module_name filepath comp = some (true, module, comp1)) :
    scopes_kept comp.compilation_scope comp1.compilation_scope := by
  unfold import_module_load at h
  split at h
  · simp only [Option.some.injEq, Prod.mk.injEq, true_and] at h
    rw [← h.2]; exact scopes_kept_refl _
  · split at h
    · simp at h
    · split at h
      · simp at h
      · dsimp only at h
        cases hpush : push_file_scope comp filepath with
        | none => rw [hpush] at h; simp at h
        | some r =>
          obtain ⟨ok, cp⟩ := r
          rw [hpush] at h
          cases ok with
          | false => simp at h
          | true =>
            simp only at h
            have hsp := push_file_scope_scopes hpush
            rename_i code _
            cases hcode : cc code cp with
            | none => rw [hcode] at h; simp at h
            | some r2 =>
              obtain ⟨ok2, cc1⟩ := r2
              rw [hcode] at h
              cases ok2 with
              | false => simp at h
              | true =>
                simp only at h
                have hk := hcc code cp (by rw [hsp]; exact hne) cc1 hcode
                rw [hsp] at hk
                split at h
                · simp at h
                · cases hpop : pop_file_scope cc1 with
                  | none => rw [hpop] at h; simp at h
                  | some cpop =>
                    rw [hpop] at h
                    simp only [Option.some.injEq, Prod.mk.injEq, true_and] at h
                    rw [← h.2]
                    simp only
                    rw [pop_file_scope_scopes hpop]
                    exact hk

theorem import_module_body_keeps (host : host_t)
    {cc : String → compiler_t → Option (Bool × compiler_t)}
    (hcc : keeps_scopes cc) : keeps_scopes (import_module_body host cc) := by
  intro module_path comp hne
  unfold import_module_body
  dsimp only
  split
  · exact on_success_none
  · split
    · exact on_success_false
    · split
      · exact on_success_none
      · split
        · exact on_success_none
        · split
          · exact on_success_false
          · split
            · exact on_success_false
            · split
              · exact on_success_none
              · exact on_success_false
              · rename_i module c1 hload
                have hc1 := import_module_load_keeps host hcc _ _ comp c1 module hne hload
                split
                · exact on_success_none
                · split
                  · exact on_success_none
                  · exact on_success_false
                  · split
                    · exact on_success_none
                    · exact on_success_true (by simpa using hc1)

end compiler

namespace compiler

theorem lays_out_none {α : Type} (jumps : List Nat → Int → Int → Nat → Nat → α → Prop) :
    lays_out jumps (fun _ _ => none) := by
  intro x comp c1 scope outer h
  cases h

theorem keeps_scopes_none {α : Type} :
    keeps_scopes (fun (_ : α) (_ : compiler_t) => (none : Option (Bool × compiler_t))) := by
  intro x comp _ c1 h
  cases h

/-- The functions of the compiler keep the compilation scopes, and `compile_statement`,
`compile_code_block` and `compile_statements` lay out the jumps of their statements, with
any fuel. -/
theorem compile_lays_out (host : host_t) : ∀ fuel : Nat,
    lays_out (statement_jumps host) (compile_statement host fuel) ∧
    keeps_scopes (compile_expression host fuel) ∧
    lays_out (block_jumps host) (compile_code_block host fuel) ∧
    lays_out (block_jumps host) (compile_statements host fuel) ∧
    keeps_scopes (compile_code host fuel) ∧
    keeps_scopes (import_module host fuel) := by
  intro fuel
  induction fuel with
  | zero =>
    have e1 : compile_statement host 0 = fun _ _ => none := by
      funext s c; simp [compile_statement]
    have e2 : compile_expression host 0 = fun _ _ => none := by
      funext s c; simp [compile_expression]
    have e3 : compile_code_block host 0 = fun _ _ => none := by
      funext s c; simp [compile_code_block]
    have e4 : compile_statements host 0 = fun _ _ => none := by
      funext s c; simp [compile_statements]
    have e5 : compile_code host 0 = fun _ _ => none := by
      funext s c; simp [compile_code]
    have e6 : import_module host 0 = fun _ _ => none := by
      funext s c; simp [import_module]
    rw [e1, e2, e3, e4, e5, e6]
    exact ⟨lays_out_none _, keeps_scopes_none, lays_out_none _, lays_out_none _,
      keeps_scopes_none, keeps_scopes_none⟩
  | succ fuel ih =>
    obtain ⟨hs, he, hb, hss, hc, hi⟩ := ih
    have e1 : compile_statement host (fuel + 1) = compile_statement_body
        (compile_statement host fuel) (compile_expression host fuel)
        (compile_code_block host fuel) (import_module host fuel) := by
      funext s c; simp [compile_statement]
    have e2 : compile_expression host (fuel + 1) = compile_expression_body
        (compile_expression host fuel) (compile_statements host fuel) := by
      funext s c; simp [compile_expression]
    have e3 : compile_code_block host (fuel + 1) = compile_code_block_body
        (compile_statement host fuel) := by
      funext s c; simp [compile_code_block]
    have e4 : compile_statements host (fuel + 1) = compile_statements_loop
        (compile_statement host fuel) := by
      funext s c; simp [compile_statements]
    have e5 : compile_code host (fuel + 1) = compile_code_body host
        (compile_statements host fuel) := by
      funext s c; simp [compile_code]
    have e6 : import_module host (fuel + 1) = import_module_body host
        (compile_code host fuel) := by
      funext s c; simp [import_module]
    rw [e1, e2, e3, e4, e5, e6]
    exact ⟨compile_statement_body_lays_out host fuel (lays_out_keeps hs) he hb hi,
      compile_expression_body_keeps he (lays_out_keeps hss),
      compile_code_block_body_lays_out host hs,
      compile_statements_loop_lays_out host hs,
      compile_code_body_keeps host (lays_out_keeps hss),
      import_module_body_keeps host hc⟩

end compiler

theorem vm_current_set (vm : vm_t) (frame : frame_t) (h : vm.current_frame ≠ none) :
    vm_current (vm_set_current vm frame) = frame := by
  unfold vm_current vm_set_current
  cases hc : vm.current_frame with
  | none => exact absurd hc h
  | some ix => simp [hc]

theorem vm_set_current_ne (vm : vm_t) (frame : frame_t) (h : vm.current_frame ≠ none) :
    (vm_set_current vm frame).current_frame ≠ none := by
  unfold vm_set_current
  cases hc : vm.current_frame with
  | none => exact absurd hc h
  | some ix => simp

/-- The step of the machine at a jump: `vm_execute_function` reads the opcode and the case
`OPCODE_JUMP` sets `ip` to the operand. -/
theorem vm_jump_step (char_signed ape_debug : Bool) (natives : native_call_t)
    (constants store_objects : List object_t) (vm : vm_t) (a : Nat) (target : Int)
    (h : compiler.jump_at (vm_current vm).bytecode a target)
    (hip : (vm_current vm).ip = (a : Int)) :
    ∃ vm1, vm_execute_opcode char_signed ape_debug natives constants store_objects
        (vm_set_current vm (frame_read_opcode (vm_current vm)).2)
        (frame_read_opcode (vm_current vm)).1 = some (vm_goto.next, vm1) ∧
      (vm_current vm1).ip = target ∧
      (vm_current vm1).bytecode = (vm_current vm).bytecode := by
  obtain ⟨h0, hlen, hv⟩ := h
  have hcur : vm.current_frame ≠ none := by
    intro hn
    have : (vm_current vm).bytecode = [] := by
      unfold vm_current; rw [hn]; rfl
    rw [this] at hlen
    simp at hlen
  obtain ⟨f, hf⟩ : ∃ f, f = vm_current vm := ⟨_, rfl⟩
  rw [← hf] at h0 hlen hv hip ⊢
  have hop : (frame_read_opcode f).1 = opcode_val OPCODE_JUMP := by
    unfold frame_read_opcode frame_read_uint8
    simp only [hip, Int.toNat_ofNat]
    rw [List.getD_eq_getElem?_getD, h0]; rfl
  have hfr : (frame_read_opcode f).2 = { f with src_ip := f.ip, ip := f.ip + 1 } := rfl
  rw [hop, hfr]
  have hdec : opcode_of_val (opcode_val OPCODE_JUMP) = some OPCODE_JUMP := by decide
  unfold vm_execute_opcode
  rw [hdec]
  simp only
  have e3 : ∀ g g2 g3, vm_current (vm_set_current (vm_set_current (vm_set_current vm g) g2)
      g3) = g3 :=
    fun g g2 g3 => vm_current_set _ g3 (vm_set_current_ne _ g2 (vm_set_current_ne _ g hcur))
  have e1 : ∀ g, vm_current (vm_set_current vm g) = g := fun g => vm_current_set vm g hcur
  have e2 : ∀ g g2, vm_current (vm_set_current (vm_set_current vm g) g2) = g2 :=
    fun g g2 => vm_current_set _ g2 (vm_set_current_ne _ g hcur)
  refine ⟨_, rfl, ?_, ?_⟩
  · simp only [vm_op_jump, e1, e3]
    unfold frame_read_uint16 frame_byte
    simp only [hip]
    rw [← hv]
    have a1 : ((a : Int) + 1).toNat = a + 1 := by omega
    have a2 : ((a : Int) + 1 + 1).toNat = a + 2 := by omega
    have n1 : ¬ ((a : Int) + 1 < 0) := by omega
    have n2 : ¬ ((a : Int) + 1 + 1 < 0) := by omega
    simp only [n1, n2, if_false, a1, a2]
  · simp only [vm_op_jump, e1, e2, e3, frame_read_uint16]

/-- C28 (with the bound that the claim leaves out): for a statement that
`compile_statement` compiles into a compilation scope that ends up with less than 65536
bytes, the jumps are laid out as `statement_jumps` says, in the bytecode of the scope and in
any bytecode that has the code of the statement at its addresses: the jump compiled for a
`break` targets the exit jump of the innermost loop around it, whose operand is the address
of the first instruction after that loop; the jump compiled for a `continue` targets the
address where the code of the test (while) or of the update (for, foreach) of the innermost
loop starts; the code that was there before and the stacks of the enclosing loops are
unchanged.  The machine, at a jump, sets `ip` to its operand, so a `break` reaches, by the
two jumps, the first instruction after the loop. -/
theorem C28_loop_jumps (host : compiler.host_t) (fuel : Nat) (stmt : compiler.statement_t)
    (comp comp1 : compiler.compiler_t) (scope scope1 : compiler.compilation_scope_t)
    (outer outer1 : List compiler.compilation_scope_t)
    (hcomp : compiler.compile_statement host fuel stmt comp = some (true, comp1))
    (hscope : comp.compilation_scope = scope :: outer)
    (hscope1 : comp1.compilation_scope = scope1 :: outer1)
    (hsize : scope1.bytecode.length < 65536)
    (hbreak : compiler.ip_stack_top scope.break_ip_stack < 65536)
    (hcontinue : compiler.ip_stack_top scope.continue_ip_stack < 65536) :
    (∀ bytecode,
      compiler.same_bytes scope.bytecode.length scope1.bytecode.length bytecode
        scope1.bytecode →
      compiler.statement_jumps host bytecode (compiler.ip_stack_top scope.break_ip_stack)
        (compiler.ip_stack_top scope.continue_ip_stack) scope.bytecode.length
        scope1.bytecode.length stmt) ∧
    outer1 = outer ∧ compiler.scope_kept scope scope1 ∧
    ∀ (char_signed ape_debug : Bool) (natives : native_call_t)
      (constants store_objects : List object_t)
      (vm : vm_t) (a : Nat) (target : Int),
      compiler.jump_at (vm_current vm).bytecode a target → (vm_current vm).ip = (a : Int) →
      ∃ vm1, vm_execute_opcode char_signed ape_debug natives constants store_objects
          (vm_set_current vm (frame_read_opcode (vm_current vm)).2)
          (frame_read_opcode (vm_current vm)).1 = some (vm_goto.next, vm1) ∧
        (vm_current vm1).ip = target ∧
        (vm_current vm1).bytecode = (vm_current vm).bytecode := by
  obtain ⟨s1, hs1, hk, hj⟩ :=
    (compiler.compile_lays_out host fuel).1 stmt comp comp1 scope outer hcomp hscope
  rw [hscope1] at hs1
  simp only [List.cons.injEq] at hs1
  obtain ⟨e1, e2⟩ := hs1
  subst e1; subst e2
  exact ⟨fun bc hsame => hj bc hsize hbreak hcontinue hsame, rfl, hk,
    fun cs dbg natives constants store_objects vm a target h hip =>
      vm_jump_step cs dbg natives constants store_objects vm a target h hip⟩

theorem C28_loop_jumps_witness :
    ∃ (comp comp1 : compiler.compiler_t) (scope scope1 : compiler.compilation_scope_t),
      ape_make.map (fun ape => ape.compiler.compilation_scope) = some [scope] ∧
      comp.compilation_scope = [scope] ∧
      compiler.compile_statement example_host 100 example_loops comp = some (true, comp1) ∧
      comp1.compilation_scope = [scope1] ∧
      scope1.bytecode = [8, 20, 0, 7, 18, 0, 33, 8, 20, 0, 14, 18, 0, 27, 8, 19, 0, 21, 18, 0,
        11, 18, 0, 7, 18, 0, 7, 18, 0, 4, 18, 0, 0] ∧
      compiler.statement_jumps example_host scope1.bytecode
        (compiler.ip_stack_top scope.break_ip_stack)
        (compiler.ip_stack_top scope.continue_ip_stack) scope.bytecode.length
        scope1.bytecode.length example_loops := by
  have h0 : ape_make.map (fun ape => ape.compiler.compilation_scope)
      = some [compiler.compilation_scope_make] := by decide!
  have hres : (ape_make.bind fun ape =>
      compiler.compile_statement example_host 100 example_loops ape.compiler).map
        (fun r => (r.1, r.2.compilation_scope.map (fun s => s.bytecode)))
      = some (true, [[8, 20, 0, 7, 18, 0, 33, 8, 20, 0, 14, 18, 0, 27, 8, 19, 0, 21, 18, 0,
        11, 18, 0, 7, 18, 0, 7, 18, 0, 4, 18, 0, 0]]) := by decide!
  cases ha : ape_make with
  | none => rw [ha] at h0; simp at h0
  | some ape =>
    rw [ha] at h0 hres
    simp only [Option.map_some', Option.some.injEq] at h0
    simp only [Option.some_bind] at hres
    cases hc : compiler.compile_statement example_host 100 example_loops ape.compiler with
    | none => rw [hc] at hres; simp at hres
    | some r =>
      obtain ⟨ok, comp1⟩ := r
      rw [hc] at hres
      simp only [Option.map_some', Option.some.injEq, Prod.mk.injEq] at hres
      obtain ⟨hok, hb⟩ := hres
      subst hok
      cases hs1 : comp1.compilation_scope with
      | nil => rw [hs1] at hb; simp at hb
      | cons scope1 outer1 =>
        rw [hs1] at hb
        simp only [List.map_cons, List.cons.injEq, List.map_eq_nil_iff] at hb
        obtain ⟨hb1, hb2⟩ := hb
        subst hb2
        have := C28_loop_jumps example_host 100 example_loops ape.compiler comp1
          compiler.compilation_scope_make scope1 [] [] hc h0 hs1 (by rw [hb1]; decide)
          (by decide) (by decide)
        exact ⟨ape.compiler, comp1, compiler.compilation_scope_make, scope1, by simp [h0],
          h0, hc, hs1, hb1, this.1 _ (fun _ _ _ => rfl)⟩

namespace compiler

theorem compiles_at_emit {comp : compiler_t} {scope : compilation_scope_t} (op : opcode_t)
    (operands : List Nat) (h : compiles_at comp scope) (hdef : (code_make op operands).1 ≠ 0) :
    ∃ comp1, emit comp op operands = some ((scope.bytecode.length : Int), comp1) ∧
      compiles_at comp1 { scope with
        bytecode := scope.bytecode ++ (code_make op operands).2
        src_positions := scope.src_positions
          ++ List.replicate (code_make op operands).1 src_pos_zero
        last_opcode := op } := by
  obtain ⟨hs, hst⟩ := h
  refine ⟨{ comp with compilation_scope := [{ scope with
        bytecode := scope.bytecode ++ (code_make op operands).2
        src_positions := scope.src_positions
          ++ List.replicate (code_make op operands).1 src_pos_zero
        last_opcode := op }] }, ?_, rfl, ?_⟩
  · unfold emit
    rw [hs]
    simp only [if_neg hdef]
  · exact hst

theorem compiles_at_emit_ok {comp : compiler_t} {scope : compilation_scope_t} (op : opcode_t)
    (operands : List Nat) (h : compiles_at comp scope) (hdef : (code_make op operands).1 ≠ 0) :
    ∃ comp1, emit_ok comp op operands = some (true, comp1) ∧
      compiles_at comp1 { scope with
        bytecode := scope.bytecode ++ (code_make op operands).2
        src_positions := scope.src_positions
          ++ List.replicate (code_make op operands).1 src_pos_zero
        last_opcode := op } := by
  obtain ⟨c1, h1, h2⟩ := compiles_at_emit op operands h hdef
  refine ⟨c1, ?_, h2⟩
  unfold emit_ok
  rw [h1]
  simp

theorem compiles_at_update_scope {comp : compiler_t} {scope : compilation_scope_t}
    (f : compilation_scope_t → compilation_scope_t) (h : compiles_at comp scope) :
    ∃ comp1, update_compilation_scope comp f = some comp1 ∧ compiles_at comp1 (f scope) := by
  obtain ⟨hs, hst⟩ := h
  refine ⟨{ comp with compilation_scope := [f scope] }, ?_, rfl, ?_⟩
  · unfold update_compilation_scope
    rw [hs]
  · exact hst

theorem compiles_at_update_symbol_table {comp : compiler_t} {scope : compilation_scope_t}
    (f : symbol_table_t → symbol_table_t) (h : compiles_at comp scope) :
    ∃ comp1, update_symbol_table comp f = some comp1 ∧ compiles_at comp1 scope := by
  obtain ⟨hs, hst⟩ := h
  cases ht : compiler_get_symbol_table comp with
  | nil => exact absurd ht hst
  | cons table outer =>
    refine ⟨compiler_set_symbol_table comp (f table :: outer), ?_, ?_, ?_⟩
    · unfold update_symbol_table
      rw [ht]
    · simp [hs]
    · unfold compiler_get_symbol_table at ht ⊢
      unfold compiler_set_symbol_table
      cases hl : comp.file_scopes.getLast? with
      | none => rw [hl] at ht; simp at ht
      | some fs => simp

theorem compiles_at_change {comp : compiler_t} {scope : compilation_scope_t} (ip : Nat)
    (operand : Int) (h : compiles_at comp scope) (hip : ip + 1 < scope.bytecode.length) :
    ∃ comp1, change_uint16_operand comp (ip : Int) operand = some comp1 ∧
      compiles_at comp1 { scope with
        bytecode := (scope.bytecode.set ip ((operand % 65536).toNat / 256 % 256)).set (ip + 1)
          ((operand % 65536).toNat % 256) } := by
  obtain ⟨hs, hst⟩ := h
  refine ⟨{ comp with compilation_scope := [{ scope with
        bytecode := (scope.bytecode.set ip ((operand % 65536).toNat / 256 % 256)).set (ip + 1)
          ((operand % 65536).toNat % 256) }] }, ?_, rfl, ?_⟩
  · unfold change_uint16_operand
    rw [hs]
    simp only
    rw [if_neg (by omega)]
    have e1 : ((ip : Int)).toNat = ip := by omega
    have e2 : ((ip : Int) + 1).toNat = ip + 1 := by omega
    have a1 : array_set_byte scope.bytecode (ip : Int) ((operand % 65536).toNat / 256 % 256)
        = scope.bytecode.set ip ((operand % 65536).toNat / 256 % 256) := by
      unfold array_set_byte
      rw [if_pos (by omega), e1]
    rw [a1]
    unfold array_set_byte
    rw [if_pos (by simp; omega), e2]
  · exact hst

theorem compile_bool_literal (host : host_t) (fuel : Nat) (b : Bool) (comp : compiler_t) :
    compile_expression host (fuel + 1) (.EXPRESSION_BOOL_LITERAL b) comp
      = emit_ok comp (if b = true then OPCODE_TRUE else OPCODE_FALSE) [] := by
  simp [compile_expression, compile_expression_body, optimise_expression]

theorem compile_null_literal (host : host_t) (fuel : Nat) (comp : compiler_t) :
    compile_expression host (fuel + 1) .EXPRESSION_NULL_LITERAL comp
      = emit_ok comp OPCODE_NULL [] := by
  simp [compile_expression, compile_expression_body, optimise_expression]

/-- The statement `null` appends `OPCODE_NULL` and `OPCODE_POP`. -/
theorem compiles_at_null (host : host_t) (fuel : Nat) {comp : compiler_t}
    {scope : compilation_scope_t} (h : compiles_at comp scope) :
    ∃ comp1, compile_statement host (fuel + 2) example_null comp = some (true, comp1) ∧
      compiles_at comp1 (nulls_scope 1 scope) := by
  obtain ⟨c1, h1, hc1⟩ := compiles_at_emit_ok OPCODE_NULL [] h (by decide)
  obtain ⟨c2, h2, hc2⟩ := compiles_at_emit_ok OPCODE_POP [] hc1 (by decide)
  refine ⟨c2, ?_, ?_⟩
  · simp only [compile_statement, example_null, compile_statement_body, compile_null_literal,
      h1, ok_then, if_true, h2]
  · have e : nulls_scope 1 scope = { scope with
        bytecode := scope.bytecode ++ (code_make OPCODE_NULL []).2 ++ (code_make OPCODE_POP []).2
        src_positions := scope.src_positions
          ++ List.replicate (code_make OPCODE_NULL []).1 src_pos_zero
          ++ List.replicate (code_make OPCODE_POP []).1 src_pos_zero
        last_opcode := OPCODE_POP } := by
      simp [nulls_scope, nulls_code, code_make, opcode_lookup, opcode_val, g_definitions,
        code_make_operands]
    rw [e]
    exact hc2

theorem nulls_scope_succ (n : Nat) (scope : compilation_scope_t) :
    nulls_scope n (nulls_scope 1 scope) = nulls_scope (n + 1) scope := by
  unfold nulls_scope nulls_code
  rw [compilation_scope_t.mk.injEq]
  refine ⟨?_, ?_, rfl, rfl, ?_⟩
  · simp [List.replicate_succ]
  · have : 2 * (n + 1) = 2 + 2 * n := by ring
    rw [this, List.replicate_add]
    simp
  · simp

end compiler

namespace compiler

theorem nulls_scope_zero (scope : compilation_scope_t) : nulls_scope 0 scope = scope := by
  unfold nulls_scope nulls_code
  simp

theorem nulls_code_length (n : Nat) : (nulls_code n).length = 2 * n := by
  unfold nulls_code
  induction n with
  | zero => simp
  | succ n ih =>
    rw [List.replicate_succ, List.flatten_cons, List.length_append, ih]
    simp
    omega

/-- The loop of `compile_statements` over `n` statements `null`. -/
theorem compiles_at_nulls (host : host_t) (fuel : Nat) (rest : List statement_t) :
    ∀ (n : Nat) (comp : compiler_t) (scope : compilation_scope_t), compiles_at comp scope →
      ∃ comp1,
        compile_statements_loop (compile_statement host (fuel + 2))
            (List.replicate n example_null ++ rest) comp
          = compile_statements_loop (compile_statement host (fuel + 2)) rest comp1 ∧
        compiles_at comp1 (nulls_scope n scope) := by
  intro n
  induction n with
  | zero =>
    intro comp scope h
    exact ⟨comp, by simp, by rw [nulls_scope_zero]; exact h⟩
  | succ n ih =>
    intro comp scope h
    obtain ⟨c1, h1, hc1⟩ := compiles_at_null host fuel h
    obtain ⟨c2, h2, hc2⟩ := ih c1 _ hc1
    refine ⟨c2, ?_, by rw [← nulls_scope_succ]; exact hc2⟩
    rw [List.replicate_succ, List.cons_append]
    show ok_then (compile_statement host (fuel + 2) example_null comp)
      (fun comp => compile_statements_loop (compile_statement host (fuel + 2))
        (List.replicate n example_null ++ rest) comp) = _
    rw [h1]
    simp only [ok_then, if_true]
    exact h2

/-- The steps of `compile_code_block` for a block that is not empty. -/
theorem compile_code_block_body_eq
    (cs : statement_t → compiler_t → Option (Bool × compiler_t)) (block : List statement_t)
    (comp comp1 comp2 comp3 : compiler_t) (hst : compiler_get_symbol_table comp ≠ [])
    (hblock : ¬ block.length = 0)
    (h1 : update_symbol_table comp symbol_table_push_block_scope = some comp1)
    (h2 : compile_statements_loop cs block comp1 = some (true, comp2))
    (h3 : update_symbol_table comp2 symbol_table_pop_block_scope = some comp3) :
    compile_code_block_body cs block comp = some (true, comp3) := by
  obtain ⟨t, o, ht⟩ : ∃ t o, compiler_get_symbol_table comp = t :: o := by
    cases hh : compiler_get_symbol_table comp with
    | nil => exact absurd hh hst
    | cons t o => exact ⟨t, o, rfl⟩
  unfold compile_code_block_body
  simp only [ht, h1, Option.some_bind, if_neg hblock, ok_then, if_true, h2, h3,
    Option.map_some']

/-- The steps of the case `STATEMENT_WHILE_LOOP`. -/
theorem compile_statement_while_loop_eq
    (ce : expression_t → compiler_t → Option (Bool × compiler_t))
    (ccb : List statement_t → compiler_t → Option (Bool × compiler_t))
    (test : expression_t) (body : List statement_t)
    (comp c1 c2 c3 c4 c5 c6 c7 c8 c9 c10 : compiler_t) (before after exit_ip after_body : Int)
    (g0 : get_ip comp = some before)
    (h1 : ce test comp = some (true, c1))
    (g1 : get_ip c1 = some after)
    (h2 : emit_ok c1 OPCODE_JUMP_IF_TRUE [uint64_of_int (after + 6)] = some (true, c2))
    (h3 : emit c2 OPCODE_JUMP [0xdead] = some (exit_ip, c3)) (hexit : ¬ exit_ip < 0)
    (h4 : push_continue_ip c3 before = some c4)
    (h5 : push_break_ip c4 exit_ip = some c5)
    (h6 : ccb body c5 = some (true, c6))
    (h7 : pop_break_ip c6 = some c7)
    (h8 : pop_continue_ip c7 = some c8)
    (h9 : emit_ok c8 OPCODE_JUMP [uint64_of_int before] = some (true, c9))
    (g9 : get_ip c9 = some after_body)
    (h10 : change_uint16_operand c9 (exit_ip + 1) after_body = some c10) :
    compile_statement_while_loop ce ccb test body comp = some (true, c10) := by
  unfold compile_statement_while_loop
  simp only [g0, Option.some_bind, h1, ok_then, if_true, g1, h2, emit_then, h3, if_neg hexit,
    h4, h5, h6, h7, h8, h9, g9, h10, Option.map_some']

/-- The compilation of `example_long_loop` by a compiler with an empty compilation scope:
it succeeds, and the bytecode is the code of the test, the jumps, the 32768 statements
`null`, the jump of the `break` and the jump back, with the operand of the exit jump set
to 65549 modulo 65536. -/
theorem long_loop_compiles (host : host_t) (comp : compiler_t)
    (h : compiles_at comp compilation_scope_make) :
    ∃ comp1 scope1, compile_statement host 5 example_long_loop comp = some (true, comp1) ∧
      comp1.compilation_scope = [scope1] ∧
      scope1.bytecode = [8, 20, 0, 7, 18, 0, 13] ++ nulls_code 32768
        ++ [18, 0, 4, 18, 0, 0] := by
  have hs := h.1
  have z : src_pos_t := src_pos_zero
  -- the test and the two jumps
  obtain ⟨c1, h1, hc1⟩ := compiles_at_emit_ok OPCODE_TRUE [] h (by decide)
  replace hc1 : compiles_at c1 ⟨[8], List.replicate 1 src_pos_zero, [], [], OPCODE_TRUE⟩ := hc1
  obtain ⟨c2, h2, hc2⟩ := compiles_at_emit_ok OPCODE_JUMP_IF_TRUE
    [uint64_of_int ((1 : Int) + 6)] hc1 (by decide)
  replace hc2 : compiles_at c2 ⟨[8, 20, 0, 7], List.replicate 4 src_pos_zero, [], [],
      OPCODE_JUMP_IF_TRUE⟩ := by
    simpa [code_make, opcode_lookup, opcode_val, g_definitions, code_make_operands,
      code_make_operand, APPEND_BYTE, uint64_of_int, List.replicate] using hc2
  obtain ⟨c3, h3, hc3⟩ := compiles_at_emit OPCODE_JUMP [0xdead] hc2 (by decide)
  replace hc3 : compiles_at c3 ⟨[8, 20, 0, 7, 18, 222, 173], List.replicate 7 src_pos_zero,
      [], [], OPCODE_JUMP⟩ := by
    simpa [code_make, opcode_lookup, opcode_val, g_definitions, code_make_operands,
      code_make_operand, APPEND_BYTE, List.replicate] using hc3
  obtain ⟨c4, h4, hc4⟩ := compiles_at_update_scope
    (fun scope => { scope with continue_ip_stack := scope.continue_ip_stack ++ [(0 : Int)] }) hc3
  replace hc4 : compiles_at c4 ⟨[8, 20, 0, 7, 18, 222, 173], List.replicate 7 src_pos_zero,
      [], [0], OPCODE_JUMP⟩ := hc4
  obtain ⟨c5, h5, hc5⟩ := compiles_at_update_scope
    (fun scope => { scope with break_ip_stack := scope.break_ip_stack ++ [(4 : Int)] }) hc4
  replace hc5 : compiles_at c5 ⟨[8, 20, 0, 7, 18, 222, 173], List.replicate 7 src_pos_zero,
      [4], [0], OPCODE_JUMP⟩ := hc5
  -- the body
  obtain ⟨c6, h6, hc6⟩ := compiles_at_update_symbol_table symbol_table_push_block_scope hc5
  obtain ⟨c7, h7, hc7⟩ := compiles_at_nulls host 1 [.STATEMENT_BREAK] 32768 c6 _ hc6
  replace hc7 : compiles_at c7 ⟨[8, 20, 0, 7, 18, 222, 173] ++ nulls_code 32768,
      List.replicate 7 src_pos_zero ++ List.replicate (2 * 32768) src_pos_zero,
      [4], [0], OPCODE_POP⟩ := hc7
  obtain ⟨c8, h8, hc8⟩ := compiles_at_emit_ok OPCODE_JUMP [uint64_of_int (4 : Int)] hc7
    (by decide)
  replace hc8 : compiles_at c8 ⟨[8, 20, 0, 7, 18, 222, 173] ++ nulls_code 32768 ++ [18, 0, 4],
      List.replicate 7 src_pos_zero ++ List.replicate (2 * 32768) src_pos_zero
        ++ List.replicate 3 src_pos_zero, [4], [0], OPCODE_JUMP⟩ := by
    have e : (code_make OPCODE_JUMP [uint64_of_int (4 : Int)]) = (3, [18, 0, 4]) := by decide
    rw [e] at hc8
    exact hc8
  obtain ⟨c9, h9, hc9⟩ := compiles_at_update_symbol_table symbol_table_pop_block_scope hc8
  -- the end of the loop
  obtain ⟨c10, h10, hc10⟩ := compiles_at_update_scope
    (fun scope => { scope with break_ip_stack := scope.break_ip_stack.dropLast }) hc9
  replace hc10 : compiles_at c10 ⟨[8, 20, 0, 7, 18, 222, 173] ++ nulls_code 32768
        ++ [18, 0, 4],
      List.replicate 7 src_pos_zero ++ List.replicate (2 * 32768) src_pos_zero
        ++ List.replicate 3 src_pos_zero, [], [0], OPCODE_JUMP⟩ := hc10
  obtain ⟨c11, h11, hc11⟩ := compiles_at_update_scope
    (fun scope => { scope with continue_ip_stack := scope.continue_ip_stack.dropLast }) hc10
  replace hc11 : compiles_at c11 ⟨[8, 20, 0, 7, 18, 222, 173] ++ nulls_code 32768
        ++ [18, 0, 4],
      List.replicate 7 src_pos_zero ++ List.replicate (2 * 32768) src_pos_zero
        ++ List.replicate 3 src_pos_zero, [], [], OPCODE_JUMP⟩ := hc11
  obtain ⟨c12, h12, hc12⟩ := compiles_at_emit_ok OPCODE_JUMP [uint64_of_int (0 : Int)] hc11
    (by decide)
  replace hc12 : compiles_at c12 ⟨[8, 20, 0, 7, 18, 222, 173] ++ nulls_code 32768
        ++ [18, 0, 4] ++ [18, 0, 0],
      List.replicate 7 src_pos_zero ++ List.replicate (2 * 32768) src_pos_zero
        ++ List.replicate 3 src_pos_zero ++ List.replicate 3 src_pos_zero, [], [],
      OPCODE_JUMP⟩ := by
    have e : (code_make OPCODE_JUMP [uint64_of_int (0 : Int)]) = (3, [18, 0, 0]) := by decide
    rw [e] at hc12
    exact hc12
  have hlen12 : ([8, 20, 0, 7, 18, 222, 173] ++ nulls_code 32768 ++ [18, 0, 4]
      ++ [18, 0, 0]).length = 65549 := by
    rw [List.length_append, List.length_append, List.length_append, nulls_code_length]
    rfl
  obtain ⟨c13, h13, hc13⟩ := compiles_at_change 5 (65549 : Int) hc12 (by
    show 5 + 1 < ([8, 20, 0, 7, 18, 222, 173] ++ nulls_code 32768 ++ [18, 0, 4]
      ++ [18, 0, 0]).length
    rw [hlen12]; omega)
  refine ⟨c13, _, ?_, hc13.1, ?_⟩
  · have g0 : get_ip comp = some 0 := get_ip_eq hs
    have g1 : get_ip c1 = some 1 := get_ip_eq hc1.1
    have g12 : get_ip c12 = some 65549 := by
      rw [get_ip_eq hc12.1]
      show some ((([8, 20, 0, 7, 18, 222, 173] ++ nulls_code 32768 ++ [18, 0, 4]
        ++ [18, 0, 0]).length : Nat) : Int) = _
      rw [hlen12]
      rfl
    have e1 : compile_expression host 4 (.EXPRESSION_BOOL_LITERAL true) comp
        = some (true, c1) := by
      rw [show (4 : Nat) = 3 + 1 from rfl, compile_bool_literal]
      exact h1
    have h3' : emit_then c2 OPCODE_JUMP [0xdead] = fun rest => rest 4 c3 := by
      funext rest
      unfold emit_then
      rw [h3]
      rfl
    have hb : get_break_ip c7 = some 4 := get_break_ip_eq hc7.1
    have e7 : compile_statements_loop (compile_statement host 3)
        (List.replicate 32768 example_null ++ [.STATEMENT_BREAK]) c6 = some (true, c8) := by
      have h7' : compile_statements_loop (compile_statement host 3)
          (List.replicate 32768 example_null ++ [.STATEMENT_BREAK]) c6
          = compile_statements_loop (compile_statement host 3) [.STATEMENT_BREAK] c7 := h7
      rw [h7']
      have hbreak : compile_statement host 3 .STATEMENT_BREAK c7 = some (true, c8) := by
        have : compile_statement host (2 + 1) .STATEMENT_BREAK c7
            = compile_statement_body (compile_statement host 2) (compile_expression host 2)
                (compile_code_block host 2) (import_module host 2) .STATEMENT_BREAK c7 := by
          simp only [compile_statement]
        show compile_statement host (2 + 1) .STATEMENT_BREAK c7 = _
        rw [this]
        simp only [compile_statement_body, hb, Option.some_bind]
        rw [if_neg (by decide)]
        exact h8
      show ok_then (compile_statement host 3 .STATEMENT_BREAK c7)
        (fun comp => compile_statements_loop (compile_statement host 3) [] comp) = _
      rw [hbreak]
      rfl
    have e5 : compile_code_block host 4
        (List.replicate 32768 example_null ++ [.STATEMENT_BREAK]) c5 = some (true, c9) := by
      have hbl : ¬ (List.replicate 32768 example_null
          ++ [statement_t.STATEMENT_BREAK]).length = 0 := by
        rw [List.length_append, List.length_replicate]
        decide
      show compile_code_block host (3 + 1) _ c5 = _
      have e : compile_code_block host (3 + 1) = compile_code_block_body
          (compile_statement host 3) := by
        funext b c; simp only [compile_code_block]
      rw [e]
      exact compile_code_block_body_eq _ _ c5 c6 c8 c9 hc5.2 hbl h6 e7 h9
    have e0 : compile_statement host (4 + 1) = compile_statement_body
        (compile_statement host 4) (compile_expression host 4)
        (compile_code_block host 4) (import_module host 4) := by
      funext b c; simp only [compile_statement]
    have e00 : ∀ (test : expression_t) (body : List statement_t) (c : compiler_t),
        compile_statement_body (compile_statement host 4) (compile_expression host 4)
          (compile_code_block host 4) (import_module host 4)
          (.STATEMENT_WHILE_LOOP test body) c
        = compile_statement_while_loop (compile_expression host 4)
            (compile_code_block host 4) test body c := fun _ _ _ => rfl
    unfold example_long_loop
    rw [show (5 : Nat) = 4 + 1 from rfl, e0, e00]
    exact compile_statement_while_loop_eq _ _ _ _ comp c1 c2 c3 c4 c5 c9 c10 c11 c12 c13
      0 1 4 65549 g0 e1 g1 h2 h3 (by decide) h4 h5 e5 h10 h11 h12 g12 h13
  · show (([8, 20, 0, 7, 18, 222, 173] ++ nulls_code 32768 ++ [18, 0, 4] ++ [18, 0, 0]).set 5
        (((65549 : Int) % 65536).toNat / 256 % 256)).set (5 + 1)
        (((65549 : Int) % 65536).toNat % 256) = _
    have v1 : ((65549 : Int) % 65536).toNat / 256 % 256 = 0 := by decide
    have v2 : ((65549 : Int) % 65536).toNat % 256 = 13 := by decide
    rw [v1, v2]
    have e : ([8, 20, 0, 7, 18, 222, 173] ++ nulls_code 32768 ++ [18, 0, 4] ++ [18, 0, 0]
        : List Nat)
        = [8, 20, 0, 7, 18, 222, 173] ++ (nulls_code 32768 ++ [18, 0, 4, 18, 0, 0]) := by
      simp only [List.append_assoc, List.cons_append, List.nil_append]
    rw [e, List.set_append_left _ _ (by decide), List.set_append_left _ _ (by decide)]
    simp only [List.append_assoc]
    rfl

end compiler

namespace compiler

theorem statement_jumps_while_loop (host : host_t) (bytecode : List Nat)
    (break_ip continue_ip : Int) (lo hi : Nat) (test : expression_t)
    (body : List statement_t)
    (h : statement_jumps host bytecode break_ip continue_ip lo hi
      (.STATEMENT_WHILE_LOOP test body)) :
    ∃ after_test back, hi = back + 3 ∧ expression_code host bytecode lo after_test test ∧
      jump_at bytecode (after_test + 3) ((back + 3 : Nat) : Int) := by
  cases h with
  | while_loop _ _ _ after_test back _ _ h1 h2 h3 h4 => exact ⟨after_test, back, rfl, h1, h2⟩

/-- The code of a literal `true` or `false` is one byte. -/
theorem expression_code_bool (host : host_t) (bytecode : List Nat) (lo hi : Nat) (b : Bool)
    (h : expression_code host bytecode lo hi (.EXPRESSION_BOOL_LITERAL b)) : hi = lo + 1 := by
  obtain ⟨fuel, comp, comp1, scope, scope1, outer, hc, hs, hs1, hlo, hhi, _⟩ := h
  cases fuel with
  | zero => simp [compile_expression] at hc
  | succ fuel =>
    rw [compile_bool_literal] at hc
    obtain ⟨s1, hs1', hb, _, _⟩ := emit_ok_some hc hs
    rw [hs1] at hs1'
    simp only [List.cons.injEq, and_true] at hs1'
    subst hs1'
    rw [← hhi, ← hlo, hb]
    cases b <;> simp [code_make, opcode_lookup, opcode_val, g_definitions, code_make_operands]

theorem jump_at_unique {bytecode : List Nat} {a : Nat} {t1 t2 : Int}
    (h1 : jump_at bytecode a t1) (h2 : jump_at bytecode a t2) : t1 = t2 := by
  rw [← h1.2.2, ← h2.2.2]

end compiler

/-- C28 fails without the bound: the statement `while (true) { null ... null break }` with
32768 statements `null`, compiled by the compiler of a freshly made engine, has 65549
bytes of code.  The jump of its `break`, at address 65543, targets the exit jump of the
loop at address 4, but the operand of that exit jump is 13, which is 65549 modulo 65536,
and not the address 65549 of the first instruction after the loop: the operand of a jump
has 16 bits. -/
theorem C28_counterexample :
    ∃ (ape : ape_t) (comp1 : compiler.compiler_t)
      (scope scope1 : compiler.compilation_scope_t),
      ape_make = some ape ∧ ape.compiler.compilation_scope = [scope] ∧
      compiler.compile_statement example_host 5 example_long_loop ape.compiler
        = some (true, comp1) ∧
      comp1.compilation_scope = [scope1] ∧
      compiler.ip_stack_top scope.break_ip_stack < 65536 ∧
      compiler.ip_stack_top scope.continue_ip_stack < 65536 ∧
      scope.bytecode.length = 0 ∧ scope1.bytecode.length = 65549 ∧
      compiler.jump_at scope1.bytecode 65543 4 ∧
      compiler.jump_at scope1.bytecode 4 13 ∧
      ¬ compiler.statement_jumps example_host scope1.bytecode
        (compiler.ip_stack_top scope.break_ip_stack)
        (compiler.ip_stack_top scope.continue_ip_stack) scope.bytecode.length
        scope1.bytecode.length example_long_loop := by
  have h0 : ape_make.map (fun ape => (ape.compiler.compilation_scope,
      (compiler.compiler_get_symbol_table ape.compiler).isEmpty))
      = some ([compiler.compilation_scope_make], false) := by decide!
  cases ha : ape_make with
  | none => rw [ha] at h0; simp at h0
  | some ape =>
    rw [ha] at h0
    simp only [Option.map_some', Option.some.injEq, Prod.mk.injEq] at h0
    obtain ⟨hs, hst⟩ := h0
    have hat : compiler.compiles_at ape.compiler compiler.compilation_scope_make := by
      refine ⟨hs, ?_⟩
      intro hnil
      rw [hnil] at hst
      simp at hst
    obtain ⟨comp1, scope1, hc, hs1, hb⟩ := compiler.long_loop_compiles example_host _ hat
    have hlen : scope1.bytecode.length = 65549 := by
      rw [hb, List.length_append, List.length_append, compiler.nulls_code_length]
      rfl
    have hj1 : compiler.jump_at scope1.bytecode 4 13 := by
      have := compiler.jump_at_bytes [8, 20, 0, 7]
        (compiler.nulls_code 32768 ++ [18, 0, 4, 18, 0, 0]) 0 13
      have e : scope1.bytecode = [8, 20, 0, 7] ++ ([opcode_val OPCODE_JUMP, 0, 13]
          ++ (compiler.nulls_code 32768 ++ [18, 0, 4, 18, 0, 0])) := by
        rw [hb]
        simp only [List.append_assoc, List.cons_append, List.nil_append]
        rfl
      rw [e]
      exact this
    have hj2 : compiler.jump_at scope1.bytecode 65543 4 := by
      have := compiler.jump_at_bytes ([8, 20, 0, 7, 18, 0, 13] ++ compiler.nulls_code 32768)
        [18, 0, 0] 0 4
      have e : scope1.bytecode = ([8, 20, 0, 7, 18, 0, 13] ++ compiler.nulls_code 32768)
          ++ ([opcode_val OPCODE_JUMP, 0, 4] ++ [18, 0, 0]) := by
        rw [hb]
        rfl
      have el : ([8, 20, 0, 7, 18, 0, 13] ++ compiler.nulls_code 32768).length = 65543 := by
        rw [List.length_append, compiler.nulls_code_length]
        rfl
      rw [el] at this
      rw [e]
      exact this
    refine ⟨ape, comp1, compiler.compilation_scope_make, scope1, rfl, hs, hc, hs1,
      by decide, by decide, rfl, hlen, hj2, hj1, ?_⟩
    intro hj
    unfold example_long_loop at hj
    obtain ⟨after_test, back, hhi, hcode, hexit⟩ :=
      compiler.statement_jumps_while_loop _ _ _ _ _ _ _ _ hj
    have hat1 := compiler.expression_code_bool _ _ _ _ _ hcode
    have hlo : compiler.compilation_scope_make.bytecode.length = 0 := rfl
    rw [hlo] at hat1
    subst hat1
    have := compiler.jump_at_unique hexit hj1
    omega

theorem or_eq_add_of_dvd (a b k : Nat) (ha : 2 ^ k ∣ a) (hb : b < 2 ^ k) : a ||| b = a + b := by
  obtain ⟨c, rfl⟩ := ha
  exact (Nat.mul_add_lt_is_or hb c).symm

theorem int_shl_small (byte n : Nat) (h : byte * 2 ^ n < 2 ^ 31) :
    int_shl_to_uint64 byte n = byte * 2 ^ n := by
  unfold int_shl_to_uint64
  rw [Nat.shiftLeft_eq]
  have : byte * 2 ^ n % 2 ^ 32 = byte * 2 ^ n := Nat.mod_eq_of_lt (by omega)
  simp only [this, if_pos h]

theorem read_uint16_bytes (b1 b0 : Nat) (h1 : b1 < 256) (h0 : b0 < 256) :
    (0 ||| int_shl_to_uint64 b1 8) ||| b0 = b1 * 256 + b0 := by
  rw [int_shl_small b1 8 (by omega), Nat.zero_or]
  exact or_eq_add_of_dvd (b1 * 2 ^ 8) b0 8 ⟨b1, by ring⟩ (by omega)

theorem read_uint64_bytes (b7 b6 b5 b4 b3 b2 b1 b0 : Nat) (h7 : b7 < 256) (h6 : b6 < 256)
    (h5 : b5 < 256) (h4 : b4 < 256) (h3 : b3 < 256) (h2 : b2 < 256) (h1 : b1 < 256)
    (h0 : b0 < 256) :
    ((((((((0 ||| (b7 <<< 56) % 2 ^ 64) ||| (b6 <<< 48) % 2 ^ 64) ||| (b5 <<< 40) % 2 ^ 64)
      ||| (b4 <<< 32) % 2 ^ 64) ||| (b3 <<< 24) % 2 ^ 64) ||| (b2 <<< 16) % 2 ^ 64)
      ||| (b1 <<< 8) % 2 ^ 64) ||| b0)
    = b0 + b1 * 2 ^ 8 + b2 * 2 ^ 16 + b3 * 2 ^ 24 + b4 * 2 ^ 32 + b5 * 2 ^ 40 + b6 * 2 ^ 48
      + b7 * 2 ^ 56 := by
  simp only [Nat.shiftLeft_eq, Nat.zero_or]
  rw [Nat.mod_eq_of_lt (by omega : b7 * 2 ^ 56 < 2 ^ 64),
    Nat.mod_eq_of_lt (by omega : b6 * 2 ^ 48 < 2 ^ 64),
    Nat.mod_eq_of_lt (by omega : b5 * 2 ^ 40 < 2 ^ 64),
    Nat.mod_eq_of_lt (by omega : b4 * 2 ^ 32 < 2 ^ 64),
    Nat.mod_eq_of_lt (by omega : b3 * 2 ^ 24 < 2 ^ 64),
    Nat.mod_eq_of_lt (by omega : b2 * 2 ^ 16 < 2 ^ 64),
    Nat.mod_eq_of_lt (by omega : b1 * 2 ^ 8 < 2 ^ 64)]
  rw [or_eq_add_of_dvd (b7 * 2 ^ 56) (b6 * 2 ^ 48) 56 ⟨b7, by ring⟩ (by omega),
    or_eq_add_of_dvd (b7 * 2 ^ 56 + b6 * 2 ^ 48) (b5 * 2 ^ 40) 48
      ⟨b7 * 2 ^ 8 + b6, by ring⟩ (by omega),
    or_eq_add_of_dvd (b7 * 2 ^ 56 + b6 * 2 ^ 48 + b5 * 2 ^ 40) (b4 * 2 ^ 32) 40
      ⟨b7 * 2 ^ 16 + b6 * 2 ^ 8 + b5, by ring⟩ (by omega),
    or_eq_add_of_dvd (b7 * 2 ^ 56 + b6 * 2 ^ 48 + b5 * 2 ^ 40 + b4 * 2 ^ 32) (b3 * 2 ^ 24) 32
      ⟨b7 * 2 ^ 24 + b6 * 2 ^ 16 + b5 * 2 ^ 8 + b4, by ring⟩ (by omega),
    or_eq_add_of_dvd (b7 * 2 ^ 56 + b6 * 2 ^ 48 + b5 * 2 ^ 40 + b4 * 2 ^ 32 + b3 * 2 ^ 24)
      (b2 * 2 ^ 16) 24
      ⟨b7 * 2 ^ 32 + b6 * 2 ^ 24 + b5 * 2 ^ 16 + b4 * 2 ^ 8 + b3, by ring⟩ (by omega),
    or_eq_add_of_dvd
      (b7 * 2 ^ 56 + b6 * 2 ^ 48 + b5 * 2 ^ 40 + b4 * 2 ^ 32 + b3 * 2 ^ 24 + b2 * 2 ^ 16)
      (b1 * 2 ^ 8) 16
      ⟨b7 * 2 ^ 40 + b6 * 2 ^ 32 + b5 * 2 ^ 24 + b4 * 2 ^ 16 + b3 * 2 ^ 8 + b2, by ring⟩
      (by omega),
    or_eq_add_of_dvd
      (b7 * 2 ^ 56 + b6 * 2 ^ 48 + b5 * 2 ^ 40 + b4 * 2 ^ 32 + b3 * 2 ^ 24 + b2 * 2 ^ 16
        + b1 * 2 ^ 8) b0 8
      ⟨b7 * 2 ^ 48 + b6 * 2 ^ 40 + b5 * 2 ^ 32 + b4 * 2 ^ 24 + b3 * 2 ^ 16 + b2 * 2 ^ 8 + b1,
        by ring⟩ (by omega)]
  omega

theorem getD_mid (pre code post : List Nat) (j : Nat) (h : j < code.length) :
    (pre ++ code ++ post).getD (pre.length + j) 0 = code.getD j 0 := by
  rw [List.getD_eq_getElem?_getD, List.getD_eq_getElem?_getD, List.append_assoc,
    List.getElem?_append_right (by omega), Nat.add_sub_cancel_left, List.getElem?_append_left h]

theorem frame_byte_mid (frame : frame_t) (pre code post : List Nat) (j : Nat)
    (hb : frame.bytecode = pre ++ code ++ post) (h : j < code.length) :
    frame_byte frame ((pre.length : Int) + j) = code.getD j 0 := by
  unfold frame_byte
  rw [if_neg (by omega), hb]
  have : ((pre.length : Int) + j).toNat = pre.length + j := by omega
  rw [this]
  exact getD_mid pre code post j h

/-- The operand shapes of the opcodes that have a definition: no operand, one operand of
width 1, 2 or 8, or two operands of widths 2 and 1. -/
theorem opcode_lookup_shape (op : opcode_t) (definition : opcode_definition_t)
    (hdef : opcode_lookup op = some definition) :
    definition.num_operands = 0 ∨
    (definition.num_operands = 1 ∧
      (definition.operand_widths = [1] ∨ definition.operand_widths = [2]
        ∨ definition.operand_widths = [8])) ∨
    (definition.num_operands = 2 ∧ definition.operand_widths = [2, 1]) := by
  cases op <;> simp [opcode_lookup, opcode_val, g_definitions] at hdef <;> subst hdef <;> simp

theorem big_endian_one (x : Nat) : big_endian 1 x = [x % 256] := by
  simp [big_endian, List.range_succ]

theorem big_endian_two (x : Nat) : big_endian 2 x = [x / 256 % 256, x % 256] := by
  simp [big_endian, List.range_succ]

theorem big_endian_eight (x : Nat) :
    big_endian 8 x = [x / 2 ^ 56 % 256, x / 2 ^ 48 % 256, x / 2 ^ 40 % 256, x / 2 ^ 32 % 256,
      x / 2 ^ 24 % 256, x / 2 ^ 16 % 256, x / 2 ^ 8 % 256, x % 256] := by
  simp [big_endian, List.range_succ]

theorem code_make_operand_spec (w x : Nat) (hw : w = 1 ∨ w = 2 ∨ w = 8) :
    code_make_operand w x = big_endian w x := by
  rcases hw with rfl | rfl | rfl
  · simp [code_make_operand, big_endian_one, APPEND_BYTE]
  · simp [code_make_operand, big_endian_two, APPEND_BYTE]
  · simp [code_make_operand, big_endian_eight, APPEND_BYTE]

theorem big_endian_length (w x : Nat) : (big_endian w x).length = w := by
  simp [big_endian]

/-- The bytes of an operand read back by `code_read_operands`. -/
theorem code_read_operand_spec (w x : Nat) (pre post : List Nat) (hw : w = 1 ∨ w = 2 ∨ w = 8)
    (hx : x < 2 ^ (8 * w)) :
    code_read_operand w (pre ++ big_endian w x ++ post) pre.length = some x := by
  rcases hw with rfl | rfl | rfl
  · have e0 := getD_mid pre (big_endian 1 x) post 0 (by simp [big_endian_length])
    simp only [Nat.add_zero, big_endian_one] at e0 ⊢
    simp only [code_read_operand, e0]
    simp only [List.getD_cons_zero, Option.some.injEq]
    omega
  · have e0 := getD_mid pre (big_endian 2 x) post 0 (by simp [big_endian_length])
    have e1 := getD_mid pre (big_endian 2 x) post 1 (by simp [big_endian_length])
    simp only [Nat.add_zero, big_endian_two] at e0 e1 ⊢
    simp only [code_read_operand, e0, e1]
    simp only [List.getD_cons_zero, List.getD_cons_succ, Option.some.injEq]
    rw [read_uint16_bytes _ _ (Nat.mod_lt _ (by omega)) (Nat.mod_lt _ (by omega))]
    omega
  · have e0 := getD_mid pre (big_endian 8 x) post 0 (by simp [big_endian_length])
    have e1 := getD_mid pre (big_endian 8 x) post 1 (by simp [big_endian_length])
    have e2 := getD_mid pre (big_endian 8 x) post 2 (by simp [big_endian_length])
    have e3 := getD_mid pre (big_endian 8 x) post 3 (by simp [big_endian_length])
    have e4 := getD_mid pre (big_endian 8 x) post 4 (by simp [big_endian_length])
    have e5 := getD_mid pre (big_endian 8 x) post 5 (by simp [big_endian_length])
    have e6 := getD_mid pre (big_endian 8 x) post 6 (by simp [big_endian_length])
    have e7 := getD_mid pre (big_endian 8 x) post 7 (by simp [big_endian_length])
    simp only [big_endian_eight] at e0 e1 e2 e3 e4 e5 e6 e7 ⊢
    simp only [code_read_operand, e0, e1, e2, e3, e4, e5, e6, e7]
    simp only [List.getD_cons_zero, List.getD_cons_succ, Option.some.injEq]
    rw [read_uint64_bytes _ _ _ _ _ _ _ _ (Nat.mod_lt _ (by omega)) (Nat.mod_lt _ (by omega))
      (Nat.mod_lt _ (by omega)) (Nat.mod_lt _ (by omega)) (Nat.mod_lt _ (by omega))
      (Nat.mod_lt _ (by omega)) (Nat.mod_lt _ (by omega)) (Nat.mod_lt _ (by omega))]
    omega

/-- The bytes of an operand read back by the machine. -/
theorem frame_read_operand_spec (w x : Nat) (frame : frame_t) (pre post : List Nat)
    (hw : w = 1 ∨ w = 2 ∨ w = 8) (hx : x < 2 ^ (8 * w))
    (hb : frame.bytecode = pre ++ big_endian w x ++ post) (hip : frame.ip = pre.length) :
    frame_read_operand w frame = some (x, { frame with ip := frame.ip + w }) := by
  have hbyte : ∀ j, j < w → frame_byte frame (frame.ip + j) = (big_endian w x).getD j 0 := by
    intro j hj
    rw [hip]
    exact frame_byte_mid frame pre _ post j hb (by simpa [big_endian_length] using hj)
  rcases hw with rfl | rfl | rfl
  · have e0 := hbyte 0 (by omega)
    simp only [frame_byte, Nat.cast_zero, add_zero, big_endian_one] at e0
    rw [if_neg (by omega)] at e0
    simp only [frame_read_operand, frame_read_uint8, e0]
    simp only [List.getD_cons_zero, Nat.cast_one, Option.some.injEq, Prod.mk.injEq, and_true]
    omega
  · have e0 := hbyte 0 (by omega)
    have e1 := hbyte 1 (by omega)
    simp only [Nat.cast_zero, add_zero, Nat.cast_one, big_endian_two] at e0 e1
    simp only [frame_read_operand, frame_read_uint16, e0, e1]
    simp only [List.getD_cons_zero, List.getD_cons_succ, Nat.cast_ofNat, Option.some.injEq,
      Prod.mk.injEq, and_true]
    omega
  · have e0 := hbyte 0 (by omega)
    have e1 := hbyte 1 (by omega)
    have e2 := hbyte 2 (by omega)
    have e3 := hbyte 3 (by omega)
    have e4 := hbyte 4 (by omega)
    have e5 := hbyte 5 (by omega)
    have e6 := hbyte 6 (by omega)
    have e7 := hbyte 7 (by omega)
    simp only [Nat.cast_zero, add_zero, Nat.cast_one, Nat.cast_ofNat, big_endian_eight]
      at e0 e1 e2 e3 e4 e5 e6 e7
    simp only [frame_read_operand, frame_read_uint64, e0, e1, e2, e3, e4, e5, e6, e7]
    simp only [List.getD_cons_zero, List.getD_cons_succ, Nat.cast_ofNat, Option.some.injEq,
      Prod.mk.injEq, and_true]
    omega

/-- C31: for an opcode that has a definition and operands that fit the widths of the
definition, `code_make` appends the opcode byte and then every operand in big-endian byte
order, and returns the number of bytes appended; `code_read_operands` on the bytes after
the opcode byte gives the operands back, and so do the frame readers of the machine
(`frame_read_opcode`, then `frame_read_uint8`, `frame_read_uint16` or `frame_read_uint64`
by the width of each operand), which leave `ip` after the instruction. -/
theorem C31_code_make_read (op : opcode_t) (definition : opcode_definition_t)
    (operands : List Nat)
    (hdef : opcode_lookup op = some definition)
    (hcount : operands.length = definition.num_operands)
    (hfit : ∀ i, i < operands.length →
      operands.getD i 0 < 2 ^ (8 * definition.operand_widths.getD i 0)) :
    (code_make op operands).2 = instruction_bytes op definition operands ∧
    (code_make op operands).1 = (code_make op operands).2.length ∧
    (∀ rest : List Nat,
      code_read_operands definition ((code_make op operands).2.tail ++ rest) = some operands) ∧
    ∀ (frame : frame_t) (pre post : List Nat),
      frame.bytecode = pre ++ (code_make op operands).2 ++ post →
      frame.ip = (pre.length : Int) →
      (frame_read_opcode frame).1 = opcode_val op ∧
      frame_read_operands (definition.operand_widths.take definition.num_operands)
          (frame_read_opcode frame).2
        = some (operands,
            { frame with src_ip := frame.ip, ip := frame.ip + (code_make op operands).1 }) := by
  have hop : ∀ (frame : frame_t) (pre code post : List Nat),
      frame.bytecode = pre ++ (opcode_val op :: code) ++ post → frame.ip = (pre.length : Int) →
      frame_read_opcode frame = (opcode_val op,
        { frame with src_ip := frame.ip, ip := frame.ip + 1 }) := by
    intro frame pre code post hb hip
    have := getD_mid pre (opcode_val op :: code) post 0 (by simp)
    simp only [frame_read_opcode, frame_read_uint8, hb, hip, Int.toNat_ofNat]
    simp only [Nat.add_zero, List.getD_cons_zero] at this
    rw [this]
  rcases opcode_lookup_shape op definition hdef with h0 | ⟨h1, hw⟩ | ⟨h2, hw⟩
  · -- no operand
    rw [h0, List.length_eq_zero] at hcount
    subst hcount
    simp only [code_make, hdef, h0, instruction_bytes, code_make_operands, List.take_zero,
      List.foldl_nil, List.zipWith_nil_right, List.flatten_nil, List.length_singleton,
      List.tail_cons, List.nil_append, code_read_operands, code_read_operands_loop,
      frame_read_operands, true_and, implies_true, Option.some.injEq, Prod.mk.injEq]
    intro frame pre post hb hip
    rw [hop frame pre [] post hb hip]
    exact ⟨rfl, rfl⟩
  · -- one operand
    obtain ⟨w, hw1, hws⟩ : ∃ w, (w = 1 ∨ w = 2 ∨ w = 8) ∧ definition.operand_widths = [w] := by
      rcases hw with h | h | h
      · exact ⟨1, Or.inl rfl, h⟩
      · exact ⟨2, Or.inr (Or.inl rfl), h⟩
      · exact ⟨8, Or.inr (Or.inr rfl), h⟩
    obtain ⟨x, rfl⟩ : ∃ x, operands = [x] := by
      rw [h1] at hcount
      exact List.length_eq_one.mp hcount
    have hx : x < 2 ^ (8 * w) := by
      have := hfit 0 (by simp)
      simpa [hws] using this
    have hmake : code_make op [x] = (1 + w, opcode_val op :: big_endian w x) := by
      simp only [code_make, hdef, h1, hws, code_make_operands, List.getD_cons_zero,
        code_make_operand_spec w x hw1, List.append_nil, List.take_succ_cons, List.take_zero,
        List.foldl_cons, List.foldl_nil, Nat.zero_add]
    rw [hmake]
    refine ⟨?_, ?_, ?_, ?_⟩
    · simp [instruction_bytes, hws]
    · simp [big_endian_length]; omega
    · intro rest
      have := code_read_operand_spec w x [] rest hw1 hx
      simp only [List.nil_append, List.length_nil] at this
      simp only [code_read_operands, h1, code_read_operands_loop, hws, List.getD_cons_zero,
        List.tail_cons, this, Option.map_some']
    · intro frame pre post hb hip
      rw [hop frame pre _ post hb hip]
      have hb1 : frame.bytecode = (pre ++ [opcode_val op]) ++ big_endian w x ++ post := by
        rw [hb]; simp
      have := frame_read_operand_spec w x
        { frame with src_ip := frame.ip, ip := frame.ip + 1 } (pre ++ [opcode_val op]) post hw1 hx
        hb1 (by simp [hip])
      dsimp only at this
      simp only [h1, hws, List.take_succ_cons, List.take_zero, frame_read_operands, this,
        Option.map_some', true_and, Option.some.injEq, Prod.mk.injEq]
      simp only [frame_t.mk.injEq, and_true, true_and]
      push_cast
      ring
  · -- the two operands of OPCODE_FUNCTION
    obtain ⟨x, y, rfl⟩ : ∃ x y, operands = [x, y] := by
      rw [h2] at hcount
      exact List.length_eq_two.mp hcount
    have hx : x < 2 ^ (8 * 2) := by
      have := hfit 0 (by simp)
      simpa [hw] using this
    have hy : y < 2 ^ (8 * 1) := by
      have := hfit 1 (by simp)
      simpa [hw] using this
    have hmake : code_make op [x, y]
        = (4, opcode_val op :: (big_endian 2 x ++ big_endian 1 y)) := by
      simp only [code_make, hdef, h2, hw, code_make_operands, List.getD_cons_zero,
        List.getD_cons_succ, code_make_operand_spec 2 x (Or.inr (Or.inl rfl)),
        code_make_operand_spec 1 y (Or.inl rfl), List.append_nil, List.take_succ_cons,
        List.take_zero, List.foldl_cons, List.foldl_nil, Nat.zero_add]
    rw [hmake]
    refine ⟨?_, ?_, ?_, ?_⟩
    · simp [instruction_bytes, hw]
    · simp [big_endian_length]
    · intro rest
      have e1 := code_read_operand_spec 2 x [] (big_endian 1 y ++ rest) (Or.inr (Or.inl rfl)) hx
      have e2 := code_read_operand_spec 1 y (big_endian 2 x) rest (Or.inl rfl) hy
      simp only [List.nil_append, List.length_nil, big_endian_length] at e1 e2
      simp only [code_read_operands, h2, code_read_operands_loop, hw, List.getD_cons_zero,
        List.getD_cons_succ, List.tail_cons, List.append_assoc, e1, Nat.zero_add,
        Option.map_some']
      rw [← List.append_assoc, e2]
      rfl
    · intro frame pre post hb hip
      rw [hop frame pre _ post hb hip]
      have hb1 : frame.bytecode
          = (pre ++ [opcode_val op]) ++ big_endian 2 x ++ (big_endian 1 y ++ post) := by
        rw [hb]; simp
      have hb2 : frame.bytecode
          = (pre ++ [opcode_val op] ++ big_endian 2 x) ++ big_endian 1 y ++ post := by
        rw [hb]; simp
      have e1 := frame_read_operand_spec 2 x
        { frame with src_ip := frame.ip, ip := frame.ip + 1 } (pre ++ [opcode_val op])
        (big_endian 1 y ++ post) (Or.inr (Or.inl rfl)) hx hb1 (by simp [hip])
      have e2 := frame_read_operand_spec 1 y
        { frame with src_ip := frame.ip, ip := frame.ip + 1 + (2 : Nat) }
        (pre ++ [opcode_val op] ++ big_endian 2 x) post (Or.inl rfl) hy hb2
        (by simp only [hip, List.length_append, List.length_singleton, big_endian_length]
            push_cast; ring)
      dsimp only at e1 e2
      simp only [h2, hw, List.take_succ_cons, List.take_zero, frame_read_operands, e1, e2,
        Option.map_some', true_and, Option.some.injEq, Prod.mk.injEq]
      simp only [frame_t.mk.injEq, and_true, true_and]
      push_cast
      ring

theorem C31_code_make_read_witness :
    opcode_lookup OPCODE_FUNCTION
      = some { name := "FUNCTION", num_operands := 2, operand_widths := [2, 1] } ∧
    (code_make OPCODE_FUNCTION [258, 3]).2 = [39, 1, 2, 3] ∧
    code_read_operands { name := "FUNCTION", num_operands := 2, operand_widths := [2, 1] }
      ([1, 2, 3] ++ [7]) = some [258, 3] :=
  ⟨by decide,
   by decide,
   (C31_code_make_read OPCODE_FUNCTION
      { name := "FUNCTION", num_operands := 2, operand_widths := [2, 1] } [258, 3]
      (by decide) (by decide) (by
        intro i hi
        have hi2 : i < 2 := hi
        interval_cases i <;> decide)).2.2.1 [7]⟩

/-- C36 fails: for two String values of the same length whose hashes differ,
`object_compare` returns the difference of the two hashes taken as `unsigned long`, which
is positive in both orders: `object_compare(a, b)` and `object_compare(b, a)` have the same
sign. -/
theorem C36_compare_same_sign (cs : Bool) (mem : gcmem_t) (a b : object_t)
    (sa sb : object_string_t) (ha : string_at mem a sa) (hb : string_at mem b sb)
    (hwa : string_wf sa) (hwb : string_wf sb)
    (hva : sa.hash = 0 ∨ sa.hash = string_hash_of cs sa.value)
    (hvb : sb.hash = 0 ∨ sb.hash = string_hash_of cs sb.value) (ok : Bool)
    (hlen : sa.length = sb.length)
    (hhash : string_hash_of cs sa.value ≠ string_hash_of cs sb.value) :
    double_sgn (object_compare cs mem a b ok).1 = 1 ∧
    double_sgn (object_compare cs mem b a ok).1 = 1 := by
  have ea := string_hash_val_valid cs sa hva
  have eb := string_hash_val_valid cs sb hvb
  have la := string_hash_of_lt cs sa hwa
  have lb := string_hash_of_lt cs sb hwb
  have hne : a.handle ≠ b.handle := by
    intro h
    have := string_at_same mem a b sa sb ha hb h
    subst this
    exact hhash rfl
  rw [(compare_strings cs mem a b sa sb ha hb ok hne).1,
    (compare_strings cs mem b a sb sa hb ha ok (Ne.symm hne)).1]
  simp only [hlen, ea, eb, ne_eq, not_true_eq_false, if_false, hhash, Ne.symm hhash,
    not_false_eq_true, if_true, double_sgn_of_int]
  constructor
  · apply Int.sign_eq_one_of_pos
    omega
  · apply Int.sign_eq_one_of_pos
    omega

/-- C36 fails at a concrete input: the Strings "a" and "b". -/
theorem C36_compare_same_sign_witness :
    double_sgn (object_compare false (mem_two_strings [97] [98])
      (object_make_from_data OBJECT_STRING 4096) (object_make_from_data OBJECT_STRING 4160)
      true).1 = 1 ∧
    double_sgn (object_compare false (mem_two_strings [97] [98])
      (object_make_from_data OBJECT_STRING 4160) (object_make_from_data OBJECT_STRING 4096)
      true).1 = 1 :=
  C36_compare_same_sign false (mem_two_strings [97] [98])
    (object_make_from_data OBJECT_STRING 4096) (object_make_from_data OBJECT_STRING 4160)
    (mk_string [97] 0) (mk_string [98] 0)
    (by constructor <;> decide) (by constructor <;> decide)
    (by unfold string_wf; decide) (by unfold string_wf; decide) (Or.inl rfl) (Or.inl rfl) true
    (by decide) (by decide)

/-- C37 fails: in the dictionary holding 1 ↦ 10 and 2 ↦ 20, `valdict_remove` of the key 1
returns true, the key 1 is then not found and the count is 1, but `valdict_get` of the
key 2 returns 2, the key itself, where it returned 20 before: the removal copies the last
key into the value slot of the item it moves. -/
theorem C37_remove_overwrites_value :
    (valdict_get false gcmem_empty example_valdict { handle := 1 }).1 = some { handle := 10 } ∧
    (valdict_get false gcmem_empty example_valdict { handle := 2 }).1 = some { handle := 20 } ∧
    example_valdict.count = 2 ∧
    ∃ dict1, valdict_remove false gcmem_empty example_valdict { handle := 1 }
        = some (true, dict1, gcmem_empty) ∧
      (valdict_get false gcmem_empty dict1 { handle := 1 }).1 = none ∧
      dict1.count = 1 ∧
      (valdict_get false gcmem_empty dict1 { handle := 2 }).1 = some { handle := 2 } := by
  refine ⟨by decide!, by decide!, by decide!, _, rfl, by decide!, by decide!, by decide!⟩

/-- C33 fails: `statement_copy` returns NULL for every If statement, also when all its parts
are copied: with an alternative it returns NULL right after `statement_make_if` has made
the copy, without an alternative `code_block_copy(NULL)` is NULL and counts as a failure.
(The statement `while (true) { break }`, whose case has the test the other way round, is
copied.) -/
theorem C33_copy_if_null (if_cases : List (compiler.expression_t × List compiler.statement_t))
    (alternative : Option (List compiler.statement_t)) :
    compiler.statement_copy (.STATEMENT_IF if_cases alternative) = none ∧
    compiler.statement_copy
        (.STATEMENT_WHILE_LOOP (.EXPRESSION_BOOL_LITERAL true) [.STATEMENT_BREAK])
      = some (.STATEMENT_WHILE_LOOP (.EXPRESSION_BOOL_LITERAL true) [.STATEMENT_BREAK]) := by
  constructor
  · rw [compiler.statement_copy.eq_def]
    simp only
    split <;> rfl
  · rfl

theorem vm_current_eq (vm : vm_t) (c : Int) (hcur : vm.current_frame = some c) :
    vm_current vm = vm.frames c := by
  unfold vm_current; rw [hcur]

theorem check_assign_differ (vm : vm_t) (old_value new_value : object_t)
    (hold : object_get_type vm.mem old_value ≠ OBJECT_NULL)
    (hnew : object_get_type vm.mem new_value ≠ OBJECT_NULL)
    (hne : object_get_type vm.mem old_value ≠ object_get_type vm.mem new_value) :
    check_assign vm old_value new_value
      = (false, { vm with errors := (errors_add_errorf vm.errors ERROR_RUNTIME
          (vm_src_position vm)
          ("Trying to assign variable of type "
            ++ object_get_type_name (object_get_type vm.mem new_value) ++ " to "
            ++ object_get_type_name (object_get_type vm.mem old_value))) }) := by
  unfold check_assign
  simp only [hold, hnew, or_self, if_false, hne, ne_eq, not_false_eq_true, if_true]

/-- C35 for its three instructions, in a machine with a current frame and a value on the
stack.  `OPCODE_SET_LOCAL` and `OPCODE_SET_MODULE_GLOBAL` go to `err` with a Runtime error
and leave the stack and the globals as they are when the old and the new value are both
not null and differ in type.  `OPCODE_SET_FREE` makes no such check: it never goes to
`err`, records no error and writes the new value whatever the types are. -/
theorem C35_set_free_unchecked (char_signed ape_debug : Bool) (natives : native_call_t)
    (constants store_objects : List object_t) (vm : vm_t) (c : Int)
    (hcur : vm.current_frame = some c) (hsp : vm.sp ≠ 0) :
    (object_get_type vm.mem (vm.stack ((vm.frames c).base_pointer
          + ((frame_read_uint8 (vm.frames c)).1 : Int))) ≠ OBJECT_NULL →
      object_get_type vm.mem (vm.stack (vm.sp - 1)) ≠ OBJECT_NULL →
      object_get_type vm.mem (vm.stack ((vm.frames c).base_pointer
          + ((frame_read_uint8 (vm.frames c)).1 : Int)))
        ≠ object_get_type vm.mem (vm.stack (vm.sp - 1)) →
      ∃ vm1 pos message,
        vm_execute_opcode char_signed ape_debug natives constants store_objects vm
          (opcode_val OPCODE_SET_LOCAL) = some (vm_goto.err, vm1) ∧
        vm1.errors = errors_add_errorf vm.errors ERROR_RUNTIME pos message ∧
        vm1.stack = vm.stack) ∧
    (((frame_read_uint16 (vm.frames c)).1 : Int) < VM_MAX_GLOBALS →
      object_get_type vm.mem (vm.globals ((frame_read_uint16 (vm.frames c)).1 : Int))
        ≠ OBJECT_NULL →
      object_get_type vm.mem (vm.stack (vm.sp - 1)) ≠ OBJECT_NULL →
      object_get_type vm.mem (vm.globals ((frame_read_uint16 (vm.frames c)).1 : Int))
        ≠ object_get_type vm.mem (vm.stack (vm.sp - 1)) →
      ∃ vm1 pos message,
        vm_execute_opcode char_signed ape_debug natives constants store_objects vm
          (opcode_val OPCODE_SET_MODULE_GLOBAL) = some (vm_goto.err, vm1) ∧
        vm1.errors = errors_add_errorf vm.errors ERROR_RUNTIME pos message ∧
        vm1.globals = vm.globals) ∧
    ∃ vm1,
      vm_execute_opcode char_signed ape_debug natives constants store_objects vm
        (opcode_val OPCODE_SET_FREE) = some (vm_goto.next, vm1) ∧
      vm1.errors = vm.errors ∧
      vm1.mem = object_set_function_free_val vm.mem (vm.frames c).function
        ((frame_read_uint8 (vm.frames c)).1 : Int) (vm.stack (vm.sp - 1)) := by
  have hc := vm_current_eq vm c hcur
  have hw : ∀ r : frame_t, ∃ w, w = vm_set_current vm r ∧ w.sp = vm.sp ∧ w.stack = vm.stack ∧
      w.mem = vm.mem ∧ w.errors = vm.errors ∧ w.globals = vm.globals ∧
      (∀ sp lp, vm_current { w with sp := sp, last_popped := lp } = r) := by
    intro r
    obtain ⟨e1, e2, e3, e4, _, e6⟩ := vm_set_current_fields vm r
    refine ⟨_, rfl, e1, e2, e3, e4, ?_, ?_⟩
    · unfold vm_set_current; split <;> rfl
    · intro sp lp
      unfold vm_current
      simp only [e6, hcur]
      exact (vm_set_current_frames vm r c hcur).1
  refine ⟨?_, ?_, ?_⟩
  · intro hold hnew hne
    have hdec : opcode_of_val (opcode_val OPCODE_SET_LOCAL) = some OPCODE_SET_LOCAL := by decide
    unfold vm_execute_opcode
    rw [hdec]
    simp only [vm_op_set_local, hc]
    obtain ⟨w, hweq, e1, e2, e3, e4, e5, e6⟩ := hw (frame_read_uint8 (vm.frames c)).2
    rw [← hweq, stack_pop_eq ape_debug w (by rw [e1]; exact hsp)]
    simp only [e6]
    rw [check_assign_differ _ _ _ (by simpa [e1, e2, e3, frame_read_uint8] using hold)
      (by simpa [e1, e2, e3] using hnew)
      (by simpa [e1, e2, e3, frame_read_uint8] using hne)]
    simp only [not_false_eq_true, if_true, Bool.false_eq_true]
    exact ⟨_, _, _, rfl, congrArg (fun e => errors_add_errorf e ERROR_RUNTIME _ _) e4, e2⟩
  · intro hix hold hnew hne
    have hdec : opcode_of_val (opcode_val OPCODE_SET_MODULE_GLOBAL)
        = some OPCODE_SET_MODULE_GLOBAL := by decide
    unfold vm_execute_opcode
    rw [hdec]
    simp only [vm_op_set_module_global, hc]
    obtain ⟨w, hweq, e1, e2, e3, e4, e5, e6⟩ := hw (frame_read_uint16 (vm.frames c)).2
    rw [← hweq, stack_pop_eq ape_debug w (by rw [e1]; exact hsp)]
    simp only [vm_get_global, if_neg (not_le.mpr hix)]
    rw [check_assign_differ _ _ _ (by simpa [e1, e2, e3, e5] using hold)
      (by simpa [e1, e2, e3] using hnew)
      (by simpa [e1, e2, e3, e5] using hne)]
    simp only [not_false_eq_true, if_true, Bool.false_eq_true]
    exact ⟨_, _, _, rfl, congrArg (fun e => errors_add_errorf e ERROR_RUNTIME _ _) e4, e5⟩
  · have hdec : opcode_of_val (opcode_val OPCODE_SET_FREE) = some OPCODE_SET_FREE := by decide
    unfold vm_execute_opcode
    rw [hdec]
    simp only [vm_op_set_free, hc]
    obtain ⟨w, hweq, e1, e2, e3, e4, e5, e6⟩ := hw (frame_read_uint8 (vm.frames c)).2
    rw [← hweq, stack_pop_eq ape_debug w (by rw [e1]; exact hsp)]
    simp only [e6]
    refine ⟨_, rfl, e4, ?_⟩
    simp only [e1, e2, e3]
    rfl

/-- C35 fails at a concrete input: in `vm_assign_example` the free value 0 of the current
function holds the number 1.0 and `true` is on the stack; `OPCODE_SET_FREE 0` goes on
without an error, and the free value is then `true`, a value of another type. -/
theorem C35_set_free_unchecked_witness :
    object_get_type vm_assign_example.mem
      (object_get_function_free_val vm_assign_example.mem example_fn 0) = OBJECT_NUMBER ∧
    object_get_type vm_assign_example.mem (vm_assign_example.stack 2) = OBJECT_BOOL ∧
    object_get_function_free_val
      (object_set_function_free_val vm_assign_example.mem example_fn 0 (object_make_bool true))
      example_fn 0 = object_make_bool true ∧
    ∃ vm1,
      vm_execute_opcode false false example_natives [] [] vm_assign_example
        (opcode_val OPCODE_SET_FREE) = some (vm_goto.next, vm1) ∧
      vm1.errors = vm_assign_example.errors ∧
      vm1.mem = object_set_function_free_val vm_assign_example.mem
        (vm_assign_example.frames 0).function
        ((frame_read_uint8 (vm_assign_example.frames 0)).1 : Int)
        (vm_assign_example.stack (vm_assign_example.sp - 1)) :=
  ⟨by decide!, by decide!, by decide!,
    (C35_set_free_unchecked false false example_natives [] [] vm_assign_example 0 rfl
      (by decide)).2.2⟩

theorem ilog2_spec (n : Nat) (hn : n ≠ 0) : 2 ^ ilog2 n ≤ n ∧ n < 2 ^ (ilog2 n + 1) := by
  have h1 : 2 ^ Nat.log 2 n ≤ n := Nat.pow_log_le_self 2 hn
  have h2 : n < 2 ^ (Nat.log 2 n + 1) := Nat.lt_pow_succ_log_self (by decide) n
  rw [ilog2_eq (Nat.log 2 n) n h1 h2]
  exact ⟨h1, h2⟩

/-- The bits of the double of a natural number below `2^53`: the number is represented
exactly. -/
theorem round_dyadic_small (n : Nat) (hn : n ≠ 0) (hlt : n < 2 ^ 53) :
    ilog2 n ≤ 52 ∧
    round_dyadic n 0 = (ilog2 n + 1022) * 2 ^ 52 + n * 2 ^ (52 - ilog2 n) ∧
    2 ^ 52 ≤ n * 2 ^ (52 - ilog2 n) ∧ n * 2 ^ (52 - ilog2 n) < 2 ^ 53 := by
  obtain ⟨h1, h2⟩ := ilog2_spec n hn
  obtain ⟨k, hk⟩ : ∃ k, k = ilog2 n := ⟨_, rfl⟩
  rw [← hk] at h1 h2 ⊢
  have hk52 : k ≤ 52 := by
    by_contra hc
    have : 2 ^ 53 ≤ 2 ^ k := Nat.pow_le_pow_right (by decide) (by omega)
    omega
  have hp : 2 ^ k * 2 ^ (52 - k) = 2 ^ 52 := by
    rw [← Nat.pow_add]; congr 1; omega
  have hp1 : 2 ^ (k + 1) * 2 ^ (52 - k) = 2 ^ 53 := by
    rw [← Nat.pow_add]; congr 1; omega
  have hpos : 0 < 2 ^ (52 - k) := Nat.pos_pow_of_pos _ (by decide)
  have hlo : 2 ^ 52 ≤ n * 2 ^ (52 - k) := by
    rw [← hp]; exact Nat.mul_le_mul_right _ h1
  have hhi : n * 2 ^ (52 - k) < 2 ^ 53 := by
    rw [← hp1]; exact Nat.mul_lt_mul_of_pos_right h2 hpos
  refine ⟨hk52, ?_, hlo, hhi⟩
  unfold round_dyadic
  rw [if_neg hn, ← hk]
  have hu : max ((k : Int) + 0 - 52) (-1074) = (k : Int) - 52 := by omega
  simp only [hu]
  rw [if_pos (by omega)]
  have e1 : ((0 : Int) - ((k : Int) - 52)).toNat = 52 - k := by omega
  have e2 : ((k : Int) - 52 + 1074).toNat = k + 1022 := by omega
  rw [e1, e2]
  unfold double_clamp
  rw [if_neg]
  unfold DBL_INF
  omega

/-- The conversion `(int)(double)z` gives `z` back for every `z` in the range of `int`. -/
theorem double_to_int_of_int (z : Int) (h1 : -(2 ^ 31) ≤ z) (h2 : z < 2 ^ 31) :
    double_to_int (double_of_int z) = z := by
  by_cases hz : z = 0
  · subst hz; decide
  have hn : z.natAbs ≠ 0 := Int.natAbs_ne_zero.mpr hz
  obtain ⟨n, hnn⟩ : ∃ n, n = z.natAbs := ⟨_, rfl⟩
  rw [← hnn] at hn
  have hn31 : n ≤ 2 ^ 31 := by omega
  obtain ⟨hk52, hr, hlo, hhi⟩ := round_dyadic_small n hn (by omega)
  obtain ⟨k, hk⟩ : ∃ k, k = ilog2 n := ⟨_, rfl⟩
  rw [← hk] at hk52 hr hlo hhi
  obtain ⟨M, hM⟩ : ∃ M, M = n * 2 ^ (52 - k) := ⟨_, rfl⟩
  rw [← hM] at hr hlo hhi
  have hmag : double_mag (double_of_int z) = (k + 1022) * 2 ^ 52 + M := by
    rw [double_mag_of_int, ← hnn, hr]
  have hsign : double_sign (double_of_int z) = decide (z < 0) := by
    unfold double_sign double_of_int
    rw [← hnn, hr]
    by_cases hneg : z < 0
    · simp only [hneg, if_true, decide_True, decide_eq_true_eq]; omega
    · simp only [hneg, if_false, decide_False, decide_eq_false_iff_not]; omega
  unfold double_to_int
  have hnan : double_is_nan (double_of_int z) = false := by
    unfold double_is_nan
    rw [hmag]
    unfold DBL_INF
    simp only [decide_eq_false_iff_not]
    omega
  have hinf : double_mag (double_of_int z) ≠ DBL_INF := by
    rw [hmag]; unfold DBL_INF; omega
  rw [if_neg (by simp [hnan, hinf])]
  have hdec : double_decode (double_mag (double_of_int z)) = (M, (k : Int) - 52) := by
    unfold double_decode
    rw [hmag]
    have e1 : ((k + 1022) * 2 ^ 52 + M) / 2 ^ 52 = k + 1023 := by omega
    have e2 : ((k + 1022) * 2 ^ 52 + M) % 2 ^ 52 = M - 2 ^ 52 := by omega
    simp only [e1, e2]
    rw [if_neg (by omega)]
    refine Prod.ext ?_ ?_
    · show 2 ^ 52 + (M - 2 ^ 52) = M
      omega
    · show ((k + 1023 : Nat) : Int) - 1075 = (k : Int) - 52
      omega
  simp only [hdec, hsign]
  by_cases hk0 : (0 : Int) ≤ (k : Int) - 52
  · have hk52' : k = 52 := by omega
    subst hk52'
    simp only [Nat.sub_self, pow_zero, Nat.mul_one] at hM
    omega
  · rw [if_neg hk0]
    have e3 : (-((k : Int) - 52)).toNat = 52 - k := by omega
    rw [e3, hM, Nat.mul_div_cancel _ (Nat.pos_pow_of_pos _ (by decide))]
    by_cases hneg : z < 0
    · simp only [hneg, decide_True, if_true]
      rw [if_neg (by omega)]
      omega
    · simp only [hneg, decide_False, if_false, Bool.false_eq_true]
      rw [if_neg (by omega)]
      omega

theorem double_of_int_not_nan (z : Int) : double_is_nan (double_of_int z) = false := by
  unfold double_is_nan
  rw [double_mag_of_int]
  have := round_dyadic_le_inf z.natAbs 0
  simp only [decide_eq_false_iff_not, not_lt]
  exact this

/-- C39: `OPCODE_GET_INDEX` on an array `a` of length `n` and a Number index, with `i` the
index converted to `int`, goes on without an error, takes the two operands off the stack
and pushes `a[i]` when `0 <= i < n`, `a[n + i]` when `-n <= i < 0` and null for every other
`i`.  For the double of an integer `z` in the range of `int`, `i` is `z`. -/
theorem C39_get_index_array (char_signed ape_debug : Bool) (natives : native_call_t)
    (constants store_objects : List object_t) (vm : vm_t)
    (hsp : 2 ≤ vm.sp) (hsize : vm.sp - 2 < VM_STACK_SIZE)
    (hleft : object_get_type vm.mem (vm.stack (vm.sp - 2)) = OBJECT_ARRAY)
    (hindex : object_get_type vm.mem (vm.stack (vm.sp - 1)) = OBJECT_NUMBER) :
    (∃ vm1,
      vm_execute_opcode char_signed ape_debug natives constants store_objects vm
        (opcode_val OPCODE_GET_INDEX) = some (vm_goto.next, vm1) ∧
      vm1.errors = vm.errors ∧ vm1.mem = vm.mem ∧ vm1.sp = vm.sp - 1 ∧
      (∀ j, j < vm.sp - 2 → vm1.stack j = vm.stack j) ∧
      vm1.stack (vm.sp - 2)
        = (let items := (vm.mem.deref (object_get_allocated_data (vm.stack (vm.sp - 2)))).array.items
           let n : Int := items.length
           let i := double_to_int (object_get_number (vm.stack (vm.sp - 1)))
           if 0 ≤ i ∧ i < n then items.getD i.toNat object_make_null
           else if -n ≤ i ∧ i < 0 then items.getD (n + i).toNat object_make_null
           else object_make_null)) ∧
    ∀ z : Int, -(2 ^ 31) ≤ z → z < 2 ^ 31 →
      object_get_type vm.mem (object_make_number (double_of_int z)) = OBJECT_NUMBER ∧
      double_to_int (object_get_number (object_make_number (double_of_int z))) = z := by
  constructor
  · have hdec : opcode_of_val (opcode_val OPCODE_GET_INDEX) = some OPCODE_GET_INDEX := by decide
    unfold vm_execute_opcode
    rw [hdec]
    simp only [vm_op_get_index]
    rw [stack_pop_eq ape_debug vm (by omega)]
    simp only
    rw [stack_pop_eq ape_debug _ (by simp only; omega)]
    have e : vm.sp - 1 - 1 = vm.sp - 2 := by ring
    simp only [e]
    simp only [hleft, hindex, ne_eq, not_true_eq_false, false_and, if_false, if_true,
      reduceCtorEq, and_false]
    rw [stack_push_eq ape_debug _ _ (by simp only; exact hsize)]
    refine ⟨_, rfl, rfl, rfl, ?_, ?_, ?_⟩
    · simp only; ring
    · intro j hj
      simp only
      rw [if_neg (by omega)]
    · simp only [if_true]
      unfold object_get_array_length object_get_array_value_at array_count
      obtain ⟨items, hitems⟩ : ∃ items, items
          = (vm.mem.deref (object_get_allocated_data (vm.stack (vm.sp - 2)))).array.items :=
        ⟨_, rfl⟩
      obtain ⟨i, hi⟩ : ∃ i, i = double_to_int (object_get_number (vm.stack (vm.sp - 1))) :=
        ⟨_, rfl⟩
      simp only [← hitems, ← hi]
      by_cases h0 : i < 0
      · simp only [h0, if_true]
        by_cases h1 : -(items.length : Int) ≤ i
        · have hr : (items.length : Int) + i ≥ 0 ∧ (items.length : Int) + i < items.length := by
            omega
          have hn1 : ¬ (0 ≤ i ∧ i < (items.length : Int)) := by omega
          have hn2 : ¬ ((items.length : Int) + i < 0 ∨ (items.length : Int) + i ≥ items.length) := by
            omega
          simp only [hr, and_self, if_true, hn1, if_false, h1, h0, hn2]
        · have hr : ¬ ((items.length : Int) + i ≥ 0 ∧ (items.length : Int) + i < items.length) := by
            omega
          have hn1 : ¬ (0 ≤ i ∧ i < (items.length : Int)) := by omega
          simp only [hr, if_false, hn1, h1, false_and]
      · simp only [h0, if_false, and_false]
        by_cases h1 : i < (items.length : Int)
        · have hr : i ≥ 0 ∧ i < (items.length : Int) := by omega
          have hr' : 0 ≤ i ∧ i < (items.length : Int) := by omega
          have hn2 : ¬ (i ≥ (items.length : Int)) := by omega
          simp only [hr, and_self, if_true, hr', hn2, if_false, false_or]
        · have hr : ¬ (i ≥ 0 ∧ i < (items.length : Int)) := by omega
          have hr' : ¬ (0 ≤ i ∧ i < (items.length : Int)) := by omega
          simp only [hr, if_false, hr']
  · intro z h1 h2
    obtain ⟨e1, e2, e3⟩ := number_object vm.mem (double_of_int z) (double_of_int_not_nan z)
    rw [e1, e2]
    exact ⟨e3, double_to_int_of_int z h1 h2⟩

/-- C39 at a concrete input: the index -1.0 on the array `[1.0, "a"]` pushes the string
"a", the last item. -/
theorem C39_get_index_array_witness :
    ∃ vm1,
      vm_execute_opcode false false natives_none [] []
        (vm_example [example_pair, object_make_number (double_of_int (-1))])
        (opcode_val OPCODE_GET_INDEX) = some (vm_goto.next, vm1) ∧
      vm1.errors = (vm_example [example_pair, object_make_number (double_of_int (-1))]).errors ∧
      vm1.sp = 1 ∧ vm1.stack 0 = example_string := by
  obtain ⟨vm1, h1, h2, _, h4, _, h6⟩ :=
    (C39_get_index_array false false natives_none [] []
      (vm_example [example_pair, object_make_number (double_of_int (-1))])
      (by decide) (by decide) (by decide!) (by decide!)).1
  exact ⟨vm1, h1, h2, h4.trans (by decide), h6.trans (by decide!)⟩

/-- C34 fails: the program `fn() { if (false) { return 1 } }(); 7` compiles without an
error, and the 14 bytes of the function are `FALSE; JUMP_IF_FALSE 14; NUMBER 1;
RETURN_VALUE`: the target of the jump is the length of the bytecode, and no `RETURN`
follows, because the last opcode emitted is `RETURN_VALUE`.  Executed, the call takes the
jump and the fetch loop stops inside the function: the rest of the program is not
executed, and `ape_execute` returns `false`, the value popped last, without an error, where
`fn() { return 1 }(); 7` gives 7. -/
theorem C34_jump_to_end_of_function :
    ((ape_make.bind fun ape =>
        compiler.compiler_compile example_host_calls 100 ape.compiler
          "fn() { if (false) { return 1 } }(); 7").map
      (fun r => (r.1.map (fun res => res.bytecode),
        r.2.constants.map (fun obj => (object_get_function r.2.mem obj).comp_result.bytecode),
        errors_get_count r.2.errors)))
      = some (some [39, 0, 0, 0, 32, 0, 3, 44, 64, 28, 0, 0, 0, 0, 0, 0, 3],
          [[9, 19, 0, 14, 44, 63, 240, 0, 0, 0, 0, 0, 0, 33]], 0) ∧
    opcode_of_val 19 = some OPCODE_JUMP_IF_FALSE ∧
    [9, 19, 0, 14, 44, 63, 240, 0, 0, 0, 0, 0, 0, 33].length = 0 * 256 + 14 ∧
    ((ape_make.bind fun ape =>
        ape_execute false false example_natives example_host_calls 100 ape
          "fn() { if (false) { return 1 } }(); 7").map
      (fun r => (r.1, errors_get_count r.2.vm.errors)))
      = some (some (object_make_bool false), 0) ∧
    ((ape_make.bind fun ape =>
        ape_execute false false example_natives example_host_calls 100 ape
          "fn() { return 1 }(); 7").map
      (fun r => (r.1, errors_get_count r.2.vm.errors)))
      = some (some (object_make_number (double_of_int 7)), 0) := by
  refine ⟨by decide!, by decide!, by decide!, by decide!, by decide!⟩

/-- The number of definitions of a list of block scopes. -/
theorem count_num_definitions_eq (table : symbol_table_t) :
    count_num_definitions table = (table.block_scopes.map fun s => s.num_definitions).sum := by
  unfold count_num_definitions
  rw [List.foldl_reverse]
  induction table.block_scopes with
  | nil => rfl
  | cons s l ih =>
    simp only [List.foldr_cons, List.map_cons, List.sum_cons, ih]
    ring

theorem block_scopes_ok_append (l : List block_scope_t) (s : block_scope_t) :
    ∀ base : Int, block_scopes_ok base (l ++ [s]) ↔
      (block_scopes_ok base l ∧ s.offset = base + (l.map fun s => s.num_definitions).sum ∧
        0 ≤ s.num_definitions ∧
        (∀ item ∈ s.store, base + (l.map fun s => s.num_definitions).sum ≤ item.2.index ∧
          item.2.index < base + (l.map fun s => s.num_definitions).sum + s.num_definitions) ∧
        s.store.Pairwise (fun a b => a.2.index ≠ b.2.index)) := by
  induction l with
  | nil =>
    intro base
    simp only [List.nil_append, block_scopes_ok, List.map_nil, List.sum_nil, add_zero, and_true,
      true_and]
  | cons a l ih =>
    intro base
    have e : base + a.num_definitions + (l.map fun s => s.num_definitions).sum
        = base + (a.num_definitions + (l.map fun s => s.num_definitions).sum) := by ring
    have h := ih (base + a.num_definitions)
    rw [e] at h
    show (a.offset = base ∧ 0 ≤ a.num_definitions ∧
      (∀ item ∈ a.store, base ≤ item.2.index ∧ item.2.index < base + a.num_definitions) ∧
      a.store.Pairwise (fun a b => a.2.index ≠ b.2.index) ∧
      block_scopes_ok (base + a.num_definitions) (l ++ [s])) ↔ _
    rw [h]
    simp only [block_scopes_ok, List.map_cons, List.sum_cons]
    tauto

theorem dict_set_mem {α : Type} (key : String) (value : α) :
    ∀ (dict : dict_t_ String α) (item : String × α), item ∈ dict_set dict key value →
      item ∈ dict ∨ item.2 = value := by
  intro dict
  induction dict with
  | nil =>
    intro item h
    simp only [dict_set, List.mem_singleton] at h
    right; rw [h]
  | cons a l ih =>
    intro item h
    obtain ⟨k, v⟩ := a
    simp only [dict_set] at h
    split at h
    · rcases List.mem_cons.mp h with h | h
      · right; rw [h]
      · left; exact List.mem_cons_of_mem _ h
    · rcases List.mem_cons.mp h with h | h
      · left; rw [h]; exact List.mem_cons_self _ _
      · rcases ih item h with h | h
        · left; exact List.mem_cons_of_mem _ h
        · right; exact h

theorem dict_set_pairwise {α : Type} (key : String) (value : α) (R : α → α → Prop)
    (hsymm : ∀ a b, R a b → R b a) :
    ∀ (dict : dict_t_ String α), dict.Pairwise (fun a b => R a.2 b.2) →
      (∀ item ∈ dict, R item.2 value) →
      (dict_set dict key value).Pairwise (fun a b => R a.2 b.2) := by
  intro dict
  induction dict with
  | nil =>
    intro _ _
    simp only [dict_set, List.pairwise_cons, List.not_mem_nil, false_implies, implies_true,
      List.Pairwise.nil, and_self]
  | cons a l ih =>
    intro hp hall
    obtain ⟨k, v⟩ := a
    rw [List.pairwise_cons] at hp
    simp only [dict_set]
    split
    · rw [List.pairwise_cons]
      refine ⟨fun b hb => ?_, hp.2⟩
      exact hsymm _ _ (hall b (List.mem_cons_of_mem _ hb))
    · rw [List.pairwise_cons]
      refine ⟨fun b hb => ?_, ih hp.2 (fun item hi => hall item (List.mem_cons_of_mem _ hi))⟩
      rcases dict_set_mem key value l b hb with h | h
      · exact hp.1 b h
      · rw [h]; exact hall (k, v) (List.mem_cons_self _ _)

/-- The state of a function table that the calls keep: no offset for module globals, the
block scopes laid out one after the other, and a maximum that covers the definitions. -/
theorem symbol_table_make_ok (global_store : global_store_t) :
    (symbol_table_make global_store 0).module_global_offset = 0 ∧
    block_scopes_ok 0 (symbol_table_make global_store 0).block_scopes ∧
    count_num_definitions (symbol_table_make global_store 0)
      ≤ (symbol_table_make global_store 0).max_num_definitions := by
  refine ⟨rfl, ?_, ?_⟩
  · simp [symbol_table_make, symbol_table_push_block_scope, block_scope_make, block_scopes_ok]
  · simp [symbol_table_make, symbol_table_push_block_scope, block_scope_make,
      count_num_definitions]

theorem getLast?_append_dropLast {α : Type} (l : List α) (a : α) (h : l.getLast? = some a) :
    l = l.dropLast ++ [a] :=
  (List.dropLast_append_getLast? a (by rw [h]; exact Option.mem_def.mpr rfl)).symm

theorem symbol_table_push_ok (table : symbol_table_t)
    (h : table.module_global_offset = 0 ∧ block_scopes_ok 0 table.block_scopes ∧
      count_num_definitions table ≤ table.max_num_definitions) :
    (symbol_table_push_block_scope table).module_global_offset = 0 ∧
    block_scopes_ok 0 (symbol_table_push_block_scope table).block_scopes ∧
    count_num_definitions (symbol_table_push_block_scope table)
      ≤ (symbol_table_push_block_scope table).max_num_definitions := by
  obtain ⟨h0, hok, hmax⟩ := h
  rw [count_num_definitions_eq] at hmax ⊢
  refine ⟨h0, ?_, ?_⟩
  · simp only [symbol_table_push_block_scope]
    rw [block_scopes_ok_append]
    refine ⟨hok, ?_, ?_, ?_, ?_⟩
    · cases hl : table.block_scopes.getLast? with
      | none =>
        rw [List.getLast?_eq_none_iff] at hl
        simp [hl, block_scope_make, h0]
      | some prev =>
        have hsplit := getLast?_append_dropLast _ _ hl
        rw [hsplit, block_scopes_ok_append] at hok
        rw [hsplit]
        simp only [block_scope_make, h0, List.map_append, List.map_cons, List.map_nil,
          List.sum_append, List.sum_cons, List.sum_nil]
        rw [hok.2.1]
        ring
    · simp [block_scope_make]
    · simp [block_scope_make]
    · simp [block_scope_make]
  · simp only [symbol_table_push_block_scope, List.map_append, List.map_cons, List.map_nil,
      List.sum_append, List.sum_cons, List.sum_nil, block_scope_make]
    omega

theorem symbol_table_pop_ok (table : symbol_table_t)
    (h : table.module_global_offset = 0 ∧ block_scopes_ok 0 table.block_scopes ∧
      count_num_definitions table ≤ table.max_num_definitions) :
    (symbol_table_pop_block_scope table).module_global_offset = 0 ∧
    block_scopes_ok 0 (symbol_table_pop_block_scope table).block_scopes ∧
    count_num_definitions (symbol_table_pop_block_scope table)
      ≤ (symbol_table_pop_block_scope table).max_num_definitions := by
  obtain ⟨h0, hok, hmax⟩ := h
  rw [count_num_definitions_eq] at hmax ⊢
  simp only [symbol_table_pop_block_scope]
  cases hl : table.block_scopes.getLast? with
  | none =>
    rw [List.getLast?_eq_none_iff] at hl
    simp only [hl, List.dropLast_nil]
    rw [hl] at hmax hok
    exact ⟨h0, hok, hmax⟩
  | some top =>
    have hsplit := getLast?_append_dropLast _ _ hl
    rw [hsplit, block_scopes_ok_append] at hok
    rw [hsplit] at hmax
    simp only [List.map_append, List.map_cons, List.map_nil, List.sum_append, List.sum_cons,
      List.sum_nil] at hmax
    refine ⟨h0, hok.1, ?_⟩
    have := hok.2.2.1
    omega

theorem dropLast_append_singleton {α : Type} (l : List α) (a : α) :
    (l ++ [a]).dropLast = l := by
  simp

/-- A definition on a table in the state the calls keep: the index of the symbol is the
number of definitions of the open block scopes, and the state is kept. -/
theorem symbol_table_define_ok (table : symbol_table_t) (outer : List symbol_table_t)
    (name : String) (assignable : Bool) (res : Option symbol_t) (tables1 : List symbol_table_t)
    (h : table.module_global_offset = 0 ∧ block_scopes_ok 0 table.block_scopes ∧
      count_num_definitions table ≤ table.max_num_definitions)
    (hd : symbol_table_define (table :: outer) name assignable = some (res, tables1)) :
    (∀ symbol, res = some symbol → symbol.index = count_num_definitions table ∧
      (outer ≠ [] → symbol.type = SYMBOL_LOCAL)) ∧
    ∃ table1, tables1 = table1 :: outer ∧
      table1.module_global_offset = 0 ∧ block_scopes_ok 0 table1.block_scopes ∧
      count_num_definitions table1 ≤ table1.max_num_definitions := by
  obtain ⟨h0, hok, hmax⟩ := h
  have keep : (∀ symbol, (none : Option symbol_t) = some symbol →
      symbol.index = count_num_definitions table ∧ (outer ≠ [] → symbol.type = SYMBOL_LOCAL)) ∧
      ∃ table1, table :: outer = table1 :: outer ∧
        table1.module_global_offset = 0 ∧ block_scopes_ok 0 table1.block_scopes ∧
        count_num_definitions table1 ≤ table1.max_num_definitions :=
    ⟨fun _ hs => by simp at hs, table, rfl, h0, hok, hmax⟩
  unfold symbol_table_define at hd
  simp only at hd
  split at hd
  · simp only [Option.some.injEq, Prod.mk.injEq] at hd
    obtain ⟨e1, e2⟩ := hd; subst e1; subst e2; exact keep
  split at hd
  · simp only [Option.some.injEq, Prod.mk.injEq] at hd
    obtain ⟨e1, e2⟩ := hd; subst e1; subst e2; exact keep
  split at hd
  · simp only [Option.some.injEq, Prod.mk.injEq] at hd
    obtain ⟨e1, e2⟩ := hd; subst e1; subst e2; exact keep
  cases hl : table.block_scopes.getLast? with
  | none => simp [next_symbol_index, hl] at hd
  | some top =>
    have hsplit := getLast?_append_dropLast _ _ hl
    obtain ⟨lo, hlo⟩ : ∃ lo, lo = table.block_scopes.dropLast := ⟨_, rfl⟩
    rw [← hlo] at hsplit
    rw [hsplit, block_scopes_ok_append] at hok
    obtain ⟨hok1, hoff, hnum, hrange, hpair⟩ := hok
    rw [count_num_definitions_eq, hsplit] at hmax
    simp only [List.map_append, List.map_cons, List.map_nil, List.sum_append, List.sum_cons,
      List.sum_nil, add_zero] at hmax
    have hcount : count_num_definitions table = top.offset + top.num_definitions := by
      rw [count_num_definitions_eq, hsplit, hoff]
      simp only [List.map_append, List.map_cons, List.map_nil, List.sum_append, List.sum_cons,
        List.sum_nil, add_zero, zero_add]
    simp only [zero_add] at hoff hrange
    simp only [next_symbol_index, hl, set_symbol] at hd
    obtain ⟨sym, hsym⟩ : ∃ sym, sym = symbol_make name
      (if outer.isEmpty = true then SYMBOL_MODULE_GLOBAL else SYMBOL_LOCAL)
      (top.offset + top.num_definitions) assignable := ⟨_, rfl⟩
    rw [← hsym] at hd
    generalize hg : (if (if outer.isEmpty = true then SYMBOL_MODULE_GLOBAL else SYMBOL_LOCAL)
          = SYMBOL_MODULE_GLOBAL ∧ table.block_scopes.length = 1 then
        ({ table with
          module_global_symbols := table.module_global_symbols ++ [symbol_copy sym] } :
          symbol_table_t)
      else table) = t1 at hd
    have ht1 : t1.block_scopes = lo ++ [top] ∧ t1.max_num_definitions = table.max_num_definitions
        ∧ t1.module_global_offset = 0 := by
      rw [← hg]
      split_ifs <;> exact ⟨hsplit, rfl, h0⟩
    obtain ⟨hb1, hm1, hg1⟩ := ht1
    simp only [hb1, List.getLast?_concat, List.dropLast_concat] at hd
    have key : ∀ t3 t4 : symbol_table_t,
        t4 = (if count_num_definitions t3 > t3.max_num_definitions then
          { t3 with max_num_definitions := count_num_definitions t3 } else t3) →
        t3.block_scopes = lo ++ [{ top with store := dict_set top.store sym.name sym,
                                            num_definitions := top.num_definitions + 1 }] →
        t3.module_global_offset = 0 →
        t4.module_global_offset = 0 ∧ block_scopes_ok 0 t4.block_scopes ∧
          count_num_definitions t4 ≤ t4.max_num_definitions := by
      intro t3 t4 ht4 hb3 hg3
      have hok3 : block_scopes_ok 0 t3.block_scopes := by
        rw [hb3, block_scopes_ok_append]
        refine ⟨hok1, ?_, ?_, ?_, ?_⟩
        · simp only [zero_add]; exact hoff
        · simp only; omega
        · intro item hi
          simp only [zero_add]
          rcases dict_set_mem sym.name sym top.store item hi with h | h
          · have := hrange item h
            omega
          · rw [h, hsym]
            simp only [symbol_make]
            omega
        · refine dict_set_pairwise sym.name sym (fun a b => a.index ≠ b.index)
            (fun a b hab => Ne.symm hab) top.store hpair ?_
          intro item hi
          have := hrange item hi
          rw [hsym]
          simp only [symbol_make]
          omega
      have hc3 : ∀ t : symbol_table_t, t.block_scopes = t3.block_scopes →
          count_num_definitions t = count_num_definitions t3 := by
        intro t ht
        rw [count_num_definitions_eq, count_num_definitions_eq, ht]
      by_cases hgt : count_num_definitions t3 > t3.max_num_definitions
      · rw [if_pos hgt] at ht4
        subst ht4
        refine ⟨hg3, hok3, ?_⟩
        rw [hc3 _ rfl]
        exact le_refl _
      · rw [if_neg hgt] at ht4
        subst ht4
        exact ⟨hg3, hok3, by omega⟩
    simp only [Option.some.injEq, Prod.mk.injEq] at hd
    obtain ⟨hres, htab⟩ := hd
    subst hres
    subst htab
    refine ⟨fun symbol hs => ?_, _, rfl, key _ _ rfl rfl hg1⟩
    simp only [Option.some.injEq] at hs
    subst hs
    rw [hcount, hsym]
    refine ⟨rfl, fun hne => ?_⟩
    simp only [symbol_make]
    rw [if_neg]
    simp only [List.isEmpty_iff]
    exact fun hc => hne hc

theorem block_scopes_ok_symbols : ∀ (l : List block_scope_t) (base : Int),
    block_scopes_ok base l →
    (l.flatMap fun scope => scope.store.map fun item => item.2).Pairwise
      (fun a b => a.index ≠ b.index) ∧
    (∀ symbol ∈ (l.flatMap fun scope => scope.store.map fun item => item.2),
      base ≤ symbol.index ∧ symbol.index < base + (l.map fun s => s.num_definitions).sum) ∧
    0 ≤ (l.map fun s => s.num_definitions).sum := by
  intro l
  induction l with
  | nil =>
    intro base _
    simp
  | cons s l ih =>
    intro base h
    obtain ⟨_, hnum, hrange, hpair, hrest⟩ := h
    obtain ⟨ih1, ih2, ih3⟩ := ih _ hrest
    simp only [List.flatMap_cons, List.map_cons, List.sum_cons]
    refine ⟨?_, ?_, by omega⟩
    · rw [List.pairwise_append]
      refine ⟨?_, ih1, ?_⟩
      · rw [List.pairwise_map]
        exact hpair
      · intro a ha b hb
        obtain ⟨item, hi, rfl⟩ := List.mem_map.mp ha
        have h1 := hrange item hi
        have h2 := ih2 b hb
        omega
    · intro symbol hs
      rcases List.mem_append.mp hs with hs | hs
      · obtain ⟨item, hi, rfl⟩ := List.mem_map.mp hs
        have h1 := hrange item hi
        omega
      · have h2 := ih2 symbol hs
        omega

theorem symbol_table_calls_ok (outer : List symbol_table_t) :
    ∀ (calls : List symbol_table_call) (table table1 : symbol_table_t),
      (table.module_global_offset = 0 ∧ block_scopes_ok 0 table.block_scopes ∧
        count_num_definitions table ≤ table.max_num_definitions) →
      symbol_table_calls outer calls table = some table1 →
      table1.module_global_offset = 0 ∧ block_scopes_ok 0 table1.block_scopes ∧
        count_num_definitions table1 ≤ table1.max_num_definitions := by
  intro calls
  induction calls with
  | nil =>
    intro table table1 h hrun
    simp only [symbol_table_calls, Option.some.injEq] at hrun
    subst hrun
    exact h
  | cons call calls ih =>
    intro table table1 h hrun
    simp only [symbol_table_calls] at hrun
    cases hc : symbol_table_call_apply outer table call with
    | none => rw [hc] at hrun; simp at hrun
    | some table2 =>
      rw [hc] at hrun
      simp only at hrun
      refine ih table2 table1 ?_ hrun
      cases call with
      | push_block_scope =>
        simp only [symbol_table_call_apply, Option.some.injEq] at hc
        subst hc
        exact symbol_table_push_ok table h
      | pop_block_scope =>
        simp only [symbol_table_call_apply] at hc
        split at hc
        · simp at hc
        · simp only [Option.some.injEq] at hc
          subst hc
          exact symbol_table_pop_ok table h
      | define name assignable =>
        simp only [symbol_table_call_apply] at hc
        cases hd : symbol_table_define (table :: outer) name assignable with
        | none => rw [hd] at hc; simp at hc
        | some r =>
          obtain ⟨res, tables1⟩ := r
          obtain ⟨_, t, ht, hok⟩ := symbol_table_define_ok table outer name assignable res
            tables1 h hd
          rw [hd, ht] at hc
          simp only [Option.some.injEq] at hc
          subst hc
          exact hok

/-- C32: on a function table (one with an outer table, made with module global offset 0),
after any sequence of calls of `symbol_table_push_block_scope`,
`symbol_table_pop_block_scope` and `symbol_table_define`: a symbol that
`symbol_table_define` returns is Local and its index is the number of definitions of the
open block scopes before the call; the Local symbols that the open block scopes hold have
pairwise different indices; and each of these indices is at least 0 and smaller than
`max_num_definitions`. -/
theorem C32_define_index (global_store : global_store_t) (outer : List symbol_table_t)
    (calls : List symbol_table_call) (table : symbol_table_t)
    (houter : outer ≠ [])
    (hrun : symbol_table_calls outer calls (symbol_table_make global_store 0) = some table) :
    (∀ (name : String) (assignable : Bool) (symbol : symbol_t) (tables1 : List symbol_table_t),
      symbol_table_define (table :: outer) name assignable = some (some symbol, tables1) →
      symbol.index = count_num_definitions table ∧ symbol.type = SYMBOL_LOCAL) ∧
    (symbol_table_locals table).Pairwise (fun a b => a.index ≠ b.index) ∧
    ∀ symbol ∈ symbol_table_locals table,
      0 ≤ symbol.index ∧ symbol.index < table.max_num_definitions := by
  have hok := symbol_table_calls_ok outer calls _ table (symbol_table_make_ok global_store) hrun
  obtain ⟨h1, h2, h3⟩ := block_scopes_ok_symbols table.block_scopes 0 hok.2.1
  refine ⟨?_, ?_, ?_⟩
  · intro name assignable symbol tables1 hd
    have := (symbol_table_define_ok table outer name assignable (some symbol) tables1 hok hd).1
      symbol rfl
    exact ⟨this.1, this.2 houter⟩
  · exact List.Pairwise.filter _ h1
  · intro symbol hs
    have hmem := (List.mem_filter.mp hs).1
    have := h2 symbol hmem
    have hc := hok.2.2
    rw [count_num_definitions_eq] at hc
    omega

/-- C32 at a concrete input: in a function table, after `x` is defined, a block is entered,
`y` is defined, the block is left and `z` is defined, a definition of `w` gets index 2;
the indices held are 0 and 1, and `max_num_definitions` is 2. -/
theorem C32_define_index_witness :
    ∃ table,
      symbol_table_calls [example_module_table]
        [.define "x" true, .push_block_scope, .define "y" true, .pop_block_scope,
          .define "z" true] (symbol_table_make example_store 0) = some table ∧
      (symbol_table_locals table).map (fun symbol => (symbol.name, symbol.index))
        = [("x", 0), ("z", 1)] ∧
      table.max_num_definitions = 2 ∧
      (symbol_table_define (table :: [example_module_table]) "w" false).map
        (fun r => r.1.map fun symbol => symbol.index) = some (some 2) ∧
      (symbol_table_locals table).Pairwise (fun a b => a.index ≠ b.index) :=
  ⟨_, rfl, by decide, by decide, by decide,
    (C32_define_index example_store [example_module_table]
      [.define "x" true, .push_block_scope, .define "y" true, .pop_block_scope,
        .define "z" true] _ (by simp) rfl).2.1⟩

theorem vm_execute_loop_round (char_signed ape_debug : Bool) (natives : native_call_t)
    (constants store_objects : List object_t) (fuel : Nat) (vm : vm_t) :
    vm_execute_loop char_signed ape_debug natives constants store_objects (fuel + 1) vm
      = if (vm_current vm).ip < (vm_current vm).bytecode_size then
          match vm_execute_round char_signed ape_debug natives constants store_objects vm with
          | none => none
          | some (vm_goto.finish, vm) => some vm
          | some (_, vm) =>
            if gc_should_sweep vm.mem = true then
              match run_gc fuel vm constants store_objects with
              | none => none
              | some vm =>
                vm_execute_loop char_signed ape_debug natives constants store_objects fuel vm
            else vm_execute_loop char_signed ape_debug natives constants store_objects fuel vm
        else some vm := by
  rw [vm_execute_loop]
  split
  · simp only [vm_execute_round]
    cases hop : vm_execute_opcode char_signed ape_debug natives constants store_objects
        (vm_set_current vm (frame_read_opcode (vm_current vm)).2)
        (frame_read_opcode (vm_current vm)).1 with
    | none => rfl
    | some r =>
      obtain ⟨g, vm1⟩ := r
      cases g
      · simp only
        cases hrec : vm_recover ape_debug vm1 with
        | mk g2 vm2 => cases g2 <;> rfl
      · simp only
        cases hrec : vm_recover ape_debug vm1 with
        | mk g2 vm2 => cases g2 <;> rfl
      · rfl
  · rfl

/-! ### The frames under the primitives of the machine -/

theorem frame_view_eq (vm vm1 : vm_t) (hc : vm1.frames_count = vm.frames_count)
    (hcur : vm1.current_frame = vm.current_frame)
    (hrec : ∀ i, (vm1.frames i).is_recovering = (vm.frames i).is_recovering) :
    frame_view vm1 = frame_view vm := by
  unfold frame_view
  rw [hc, hcur]
  congr 2
  exact funext hrec

theorem frame_view_frames (vm vm1 : vm_t) (hc : vm1.frames_count = vm.frames_count)
    (hcur : vm1.current_frame = vm.current_frame) (hf : vm1.frames = vm.frames) :
    frame_view vm1 = frame_view vm :=
  frame_view_eq vm vm1 hc hcur (fun i => by rw [hf])

@[simp] theorem frame_view_mem (vm : vm_t) (mem : gcmem_t) :
    frame_view { vm with mem := mem } = frame_view vm := rfl

@[simp] theorem frame_view_errors (vm : vm_t) (errors : errors_t) :
    frame_view { vm with errors := errors } = frame_view vm := rfl

@[simp] theorem frame_view_mem_errors (vm : vm_t) (mem : gcmem_t) (errors : errors_t) :
    frame_view { vm with mem := mem, errors := errors } = frame_view vm := rfl

@[simp] theorem frame_view_set_sp (vm : vm_t) (new_sp : Int) :
    frame_view (set_sp vm new_sp) = frame_view vm := by
  unfold set_sp; split <;> rfl

@[simp] theorem frame_view_stack_push (dbg : Bool) (vm : vm_t) (obj : object_t) :
    frame_view (stack_push dbg vm obj) = frame_view vm := by
  unfold stack_push; split <;> rfl

@[simp] theorem frame_view_stack_pop (dbg : Bool) (vm : vm_t) :
    frame_view (stack_pop dbg vm).2 = frame_view vm := by
  unfold stack_pop; split <;> rfl

@[simp] theorem frame_view_stack_get (dbg : Bool) (vm : vm_t) (n : Int) :
    frame_view (stack_get dbg vm n).2 = frame_view vm := by
  unfold stack_get; simp only; split <;> rfl

@[simp] theorem frame_view_this_stack_push (dbg : Bool) (vm : vm_t) (obj : object_t) :
    frame_view (this_stack_push dbg vm obj) = frame_view vm := by
  unfold this_stack_push; split <;> rfl

@[simp] theorem frame_view_this_stack_pop (dbg : Bool) (vm : vm_t) :
    frame_view (this_stack_pop dbg vm).2 = frame_view vm := by
  unfold this_stack_pop; split <;> rfl

@[simp] theorem frame_view_this_stack_get (dbg : Bool) (vm : vm_t) (n : Int) :
    frame_view (this_stack_get dbg vm n).2 = frame_view vm := by
  unfold this_stack_get; simp only; split <;> rfl

@[simp] theorem frame_view_check_assign (vm : vm_t) (a b : object_t) :
    frame_view (check_assign vm a b).2 = frame_view vm := by
  unfold check_assign; simp only; split
  · rfl
  · split <;> rfl

@[simp] theorem frame_view_set_global (vm : vm_t) (ix : Int) (val : object_t) :
    frame_view (vm_set_global vm ix val).2 = frame_view vm := by
  unfold vm_set_global; split
  · rfl
  · simp only; split <;> rfl

@[simp] theorem frame_view_get_global (vm : vm_t) (ix : Int) :
    frame_view (vm_get_global vm ix).2 = frame_view vm := by
  unfold vm_get_global; split <;> rfl

/-- A write through `current_frame` that keeps the flag of the frame keeps the view. -/
theorem frame_view_set_current (vm : vm_t) (frame : frame_t)
    (h : frame.is_recovering = (vm_current vm).is_recovering) :
    frame_view (vm_set_current vm frame) = frame_view vm := by
  unfold vm_set_current
  unfold vm_current at h
  cases hc : vm.current_frame with
  | none => rfl
  | some ix =>
    rw [hc] at h
    refine frame_view_eq _ _ rfl hc.symm ?_
    intro i
    show (if i = ix then frame else vm.frames i).is_recovering = _
    split
    · next hi => rw [hi]; exact h
    · rfl

@[simp] theorem frame_view_read_uint8 (vm : vm_t) :
    frame_view (vm_set_current vm (frame_read_uint8 (vm_current vm)).2) = frame_view vm :=
  frame_view_set_current _ _ rfl

@[simp] theorem frame_view_read_opcode (vm : vm_t) :
    frame_view (vm_set_current vm (frame_read_opcode (vm_current vm)).2) = frame_view vm :=
  frame_view_set_current _ _ rfl

@[simp] theorem frame_view_read_uint16 (vm : vm_t) :
    frame_view (vm_set_current vm (frame_read_uint16 (vm_current vm)).2) = frame_view vm :=
  frame_view_set_current _ _ rfl

@[simp] theorem frame_view_read_uint64 (vm : vm_t) :
    frame_view (vm_set_current vm (frame_read_uint64 (vm_current vm)).2) = frame_view vm :=
  frame_view_set_current _ _ rfl

@[simp] theorem frame_view_set_ip (vm : vm_t) (ip : Int) :
    frame_view (vm_set_current vm { vm_current vm with ip := ip }) = frame_view vm :=
  frame_view_set_current _ _ rfl

@[simp] theorem frame_view_set_recover_ip (vm : vm_t) (ip : Int) :
    frame_view (vm_set_current vm { vm_current vm with recover_ip := ip }) = frame_view vm :=
  frame_view_set_current _ _ rfl

theorem frame_top_of_view (vm vm1 : vm_t) (h : frame_view vm1 = frame_view vm)
    (ht : frame_top vm) : frame_top vm1 := by
  unfold frame_view at h
  simp only [Prod.mk.injEq] at h
  unfold frame_top at ht ⊢
  rw [h.1, h.2.1]
  exact ht

theorem frame_grow_of_view (vm vm1 : vm_t) (h : frame_view vm1 = frame_view vm) :
    frame_grow vm vm1 := by
  refine ⟨?_, ?_, frame_top_of_view vm vm1 h⟩
  · unfold frame_view at h
    simp only [Prod.mk.injEq] at h
    exact le_of_eq h.1.symm
  · unfold frame_view at h
    simp only [Prod.mk.injEq] at h
    exact fun i _ => congrFun h.2.2 i

theorem frame_shrink_of_view (vm vm1 : vm_t) (h : frame_view vm1 = frame_view vm) :
    frame_shrink vm vm1 := by
  refine ⟨?_, ?_, frame_top_of_view vm vm1 h⟩
  · unfold frame_view at h
    simp only [Prod.mk.injEq] at h
    exact le_of_eq h.1
  · unfold frame_view at h
    simp only [Prod.mk.injEq] at h
    exact fun i hi => by rw [congrFun h.2.2 i]; exact hi

theorem frame_grow_trans (a b c : vm_t) (h1 : frame_grow a b) (h2 : frame_grow b c) :
    frame_grow a c :=
  ⟨le_trans h1.1 h2.1,
    fun i hi => by rw [h2.2.1 i (lt_of_lt_of_le hi h1.1), h1.2.1 i hi],
    fun ht => h2.2.2 (h1.2.2 ht)⟩

theorem frame_shrink_trans (a b c : vm_t) (h1 : frame_shrink a b) (h2 : frame_shrink b c) :
    frame_shrink a c :=
  ⟨le_trans h2.1 h1.1, fun i hi => h2.2.1 i (h1.2.1 i hi), fun ht => h2.2.2 (h1.2.2 ht)⟩

theorem frame_grow_view_left (a b c : vm_t) (h1 : frame_view b = frame_view a)
    (h2 : frame_grow b c) : frame_grow a c :=
  frame_grow_trans a b c (frame_grow_of_view a b h1) h2

theorem frame_grow_view_right (a b c : vm_t) (h1 : frame_grow a b)
    (h2 : frame_view c = frame_view b) : frame_grow a c :=
  frame_grow_trans a b c h1 (frame_grow_of_view b c h2)

theorem frame_shrink_view_left (a b c : vm_t) (h1 : frame_view b = frame_view a)
    (h2 : frame_shrink b c) : frame_shrink a c :=
  frame_shrink_trans a b c (frame_shrink_of_view a b h1) h2

theorem frame_shrink_view_right (a b c : vm_t) (h1 : frame_shrink a b)
    (h2 : frame_view c = frame_view b) : frame_shrink a c :=
  frame_shrink_trans a b c h1 (frame_shrink_of_view b c h2)

theorem push_frame_grow (vm : vm_t) (frame : frame_t) : frame_grow vm (push_frame vm frame).2 := by
  unfold push_frame
  split
  · exact frame_grow_of_view _ _ rfl
  · simp only
    refine frame_grow_view_right _ _ _ ?_ (frame_view_set_sp _ _)
    refine ⟨?_, ?_, ?_⟩
    · show vm.frames_count ≤ vm.frames_count + 1
      omega
    · intro i hi
      show (if i = vm.frames_count then frame else vm.frames i).is_recovering = _
      rw [if_neg (ne_of_lt hi)]
    · intro ht
      left
      show 1 ≤ vm.frames_count + 1 ∧ some vm.frames_count = some (vm.frames_count + 1 - 1)
      unfold frame_top at ht
      refine ⟨by omega, ?_⟩
      congr 1
      omega

theorem pop_frame_shrink (vm : vm_t) : frame_shrink vm (pop_frame vm).2 := by
  unfold pop_frame
  simp only
  generalize hw : set_sp vm _ = w
  have hf : w.frames = vm.frames := by rw [← hw]; exact (set_sp_fields vm _).2.1
  have hc : w.frames_count = vm.frames_count := by rw [← hw]; exact (set_sp_fields vm _).2.2.1
  split
  · next h0 =>
    refine ⟨by show w.frames_count ≤ _; rw [hc],
      fun i hi => by show (w.frames i).is_recovering = true; rw [hf]; exact hi, ?_⟩
    intro ht
    right
    show w.frames_count = 0 ∧ (none : Option Int) = none
    unfold frame_top at ht
    refine ⟨by omega, rfl⟩
  · split
    · next h0 h1 =>
      refine ⟨by show w.frames_count - 1 ≤ _; rw [hc]; omega,
        fun i hi => by show (w.frames i).is_recovering = true; rw [hf]; exact hi, ?_⟩
      intro _
      right
      exact ⟨h1, rfl⟩
    · next h0 h1 =>
      refine ⟨by show w.frames_count - 1 ≤ _; rw [hc]; omega,
        fun i hi => by show (w.frames i).is_recovering = true; rw [hf]; exact hi, ?_⟩
      intro _
      left
      have h2 : ¬ w.frames_count - 1 = 0 := h1
      exact ⟨by show 1 ≤ w.frames_count - 1; omega, rfl⟩

/-! ### The frames under the cases of the `switch` -/

theorem frame_view_mk (mem : gcmem_t) (errors : errors_t) (globals : Int → object_t)
    (globals_count : Int) (stack : Int → object_t) (sp : Int) (this_stack : Int → object_t)
    (this_sp : Int) (frames : Int → frame_t) (frames_count : Int) (last_popped : object_t)
    (current_frame : Option Int) (running : Bool) (keys : opcode_t → object_t) :
    frame_view ⟨mem, errors, globals, globals_count, stack, sp, this_stack, this_sp, frames,
      frames_count, last_popped, current_frame, running, keys⟩
      = (frames_count, current_frame, fun i => (frames i).is_recovering) := rfl

theorem frame_view_fold (vm : vm_t) :
    (vm.frames_count, vm.current_frame, fun i => (vm.frames i).is_recovering) = frame_view vm :=
  rfl

theorem vm_op_constant_view (dbg : Bool) (constants : List object_t) (vm : vm_t) (ix : Nat) :
    frame_view (vm_op_constant dbg constants vm ix).2 = frame_view vm := by
  unfold vm_op_constant
  repeat' split
  all_goals simp only [frame_view_mk, frame_view_fold, frame_view_stack_push]

theorem vm_op_equal_view (dbg : Bool) (vm : vm_t) (opcode : opcode_t) :
    frame_view (vm_op_equal dbg vm opcode) = frame_view vm := by
  unfold vm_op_equal
  simp only [frame_view_mk, frame_view_fold, frame_view_stack_push, frame_view_stack_pop]

theorem vm_op_jump_view (dbg : Bool) (vm : vm_t) (opcode : opcode_t) :
    frame_view (vm_op_jump dbg vm opcode) = frame_view vm := by
  unfold vm_op_jump
  simp only
  repeat' split
  all_goals simp only [frame_view_mk, frame_view_fold, frame_view_stack_push,
    frame_view_stack_pop, frame_view_set_ip, frame_view_read_uint16]

theorem vm_op_define_module_global_view (dbg : Bool) (vm : vm_t) :
    frame_view (vm_op_define_module_global dbg vm).2 = frame_view vm := by
  unfold vm_op_define_module_global
  simp only [frame_view_mk, frame_view_fold, frame_view_stack_push,
    frame_view_stack_pop, frame_view_set_ip, frame_view_read_uint16, frame_view_set_global]

theorem vm_op_set_module_global_view (dbg : Bool) (vm : vm_t) :
    frame_view (vm_op_set_module_global dbg vm).2 = frame_view vm := by
  unfold vm_op_set_module_global
  simp only
  repeat' split
  all_goals simp only [frame_view_mk, frame_view_fold, frame_view_stack_push,
    frame_view_stack_pop, frame_view_set_ip, frame_view_read_uint16, frame_view_set_global,
    frame_view_get_global, frame_view_check_assign]

theorem vm_op_get_module_global_view (dbg : Bool) (vm : vm_t) :
    frame_view (vm_op_get_module_global dbg vm).2 = frame_view vm := by
  unfold vm_op_get_module_global
  simp only [frame_view_mk, frame_view_fold, frame_view_stack_push, frame_view_read_uint16]

theorem vm_op_array_view (dbg : Bool) (vm : vm_t) :
    frame_view (vm_op_array dbg vm).2 = frame_view vm := by
  unfold vm_op_array
  simp only
  repeat' split
  all_goals simp only [frame_view_mk, frame_view_fold, frame_view_stack_push,
    frame_view_set_sp, frame_view_read_uint16]

theorem vm_op_map_start_view (dbg : Bool) (vm : vm_t) :
    frame_view (vm_op_map_start dbg vm).2 = frame_view vm := by
  unfold vm_op_map_start
  simp only
  repeat' split
  all_goals simp only [frame_view_mk, frame_view_fold, frame_view_this_stack_push,
    frame_view_read_uint16]

theorem vm_op_map_end_loop_view (char_signed : Bool) (map_obj : object_t) (items : List object_t) :
    ∀ (n : Nat) (vm : vm_t), items.length ≤ n →
      frame_view (vm_op_map_end_loop char_signed map_obj vm items).2 = frame_view vm := by
  intro n
  induction n generalizing items with
  | zero =>
    intro vm hn
    cases items with
    | nil => unfold vm_op_map_end_loop; rfl
    | cons a t => simp at hn
  | succ n ih =>
    intro vm hn
    match items, hn with
    | [], _ => unfold vm_op_map_end_loop; rfl
    | [a], _ => unfold vm_op_map_end_loop; rfl
    | key :: val :: rest, hn =>
      unfold vm_op_map_end_loop
      simp only
      split
      · rfl
      · split
        · rfl
        · rw [ih rest _ (by simp only [List.length_cons] at hn; omega)]
          rfl

theorem vm_op_map_end_view (char_signed dbg : Bool) (vm : vm_t) (kvp_count : Nat) :
    frame_view (vm_op_map_end char_signed dbg vm kvp_count).2 = frame_view vm := by
  unfold vm_op_map_end
  simp only
  split
  · rw [vm_op_map_end_loop_view _ _ _ _ _ (le_refl _)]
    simp only [frame_view_this_stack_pop]
  · simp only [frame_view_stack_push, frame_view_set_sp]
    rw [vm_op_map_end_loop_view _ _ _ _ _ (le_refl _)]
    simp only [frame_view_this_stack_pop]

theorem vm_op_get_this_view (dbg : Bool) (vm : vm_t) :
    frame_view (vm_op_get_this dbg vm).2 = frame_view vm := by
  unfold vm_op_get_this
  simp only
  simp only [frame_view_mk, frame_view_fold, frame_view_stack_push,
    frame_view_stack_pop, frame_view_stack_get, frame_view_this_stack_push,
    frame_view_this_stack_pop, frame_view_this_stack_get, frame_view_set_sp,
    frame_view_check_assign, frame_view_set_global, frame_view_get_global,
    frame_view_read_uint8, frame_view_read_uint16, frame_view_read_uint64, frame_view_set_ip,
    frame_view_set_recover_ip]

theorem vm_op_get_index_view (char_signed dbg : Bool) (vm : vm_t) :
    frame_view (vm_op_get_index char_signed dbg vm).2 = frame_view vm := by
  unfold vm_op_get_index
  simp only
  repeat' split
  all_goals simp only [frame_view_mk, frame_view_fold, frame_view_stack_push,
    frame_view_stack_pop, frame_view_stack_get, frame_view_this_stack_push,
    frame_view_this_stack_pop, frame_view_this_stack_get, frame_view_set_sp,
    frame_view_check_assign, frame_view_set_global, frame_view_get_global,
    frame_view_read_uint8, frame_view_read_uint16, frame_view_read_uint64, frame_view_set_ip,
    frame_view_set_recover_ip]

theorem vm_op_set_index_view (char_signed dbg : Bool) (vm : vm_t) :
    frame_view (vm_op_set_index char_signed dbg vm).2 = frame_view vm := by
  unfold vm_op_set_index
  simp only
  repeat' split
  all_goals simp only [frame_view_mk, frame_view_fold, frame_view_stack_push,
    frame_view_stack_pop, frame_view_stack_get, frame_view_this_stack_push,
    frame_view_this_stack_pop, frame_view_this_stack_get, frame_view_set_sp,
    frame_view_check_assign, frame_view_set_global, frame_view_get_global,
    frame_view_read_uint8, frame_view_read_uint16, frame_view_read_uint64, frame_view_set_ip,
    frame_view_set_recover_ip]

theorem vm_op_get_value_at_view (char_signed dbg : Bool) (vm : vm_t) :
    frame_view (vm_op_get_value_at char_signed dbg vm).2 = frame_view vm := by
  unfold vm_op_get_value_at
  simp only
  repeat' split
  all_goals simp only [frame_view_mk, frame_view_fold, frame_view_stack_push,
    frame_view_stack_pop, frame_view_stack_get, frame_view_this_stack_push,
    frame_view_this_stack_pop, frame_view_this_stack_get, frame_view_set_sp,
    frame_view_check_assign, frame_view_set_global, frame_view_get_global,
    frame_view_read_uint8, frame_view_read_uint16, frame_view_read_uint64, frame_view_set_ip,
    frame_view_set_recover_ip]

theorem vm_op_define_local_view (dbg : Bool) (vm : vm_t) :
    frame_view (vm_op_define_local dbg vm).2 = frame_view vm := by
  unfold vm_op_define_local
  simp only
  simp only [frame_view_mk, frame_view_fold, frame_view_stack_push,
    frame_view_stack_pop, frame_view_stack_get, frame_view_this_stack_push,
    frame_view_this_stack_pop, frame_view_this_stack_get, frame_view_set_sp,
    frame_view_check_assign, frame_view_set_global, frame_view_get_global,
    frame_view_read_uint8, frame_view_read_uint16, frame_view_read_uint64, frame_view_set_ip,
    frame_view_set_recover_ip]

theorem vm_op_set_local_view (dbg : Bool) (vm : vm_t) :
    frame_view (vm_op_set_local dbg vm).2 = frame_view vm := by
  unfold vm_op_set_local
  simp only
  repeat' split
  all_goals simp only [frame_view_mk, frame_view_fold, frame_view_stack_push,
    frame_view_stack_pop, frame_view_stack_get, frame_view_this_stack_push,
    frame_view_this_stack_pop, frame_view_this_stack_get, frame_view_set_sp,
    frame_view_check_assign, frame_view_set_global, frame_view_get_global,
    frame_view_read_uint8, frame_view_read_uint16, frame_view_read_uint64, frame_view_set_ip,
    frame_view_set_recover_ip]

theorem vm_op_get_local_view (dbg : Bool) (vm : vm_t) :
    frame_view (vm_op_get_local dbg vm).2 = frame_view vm := by
  unfold vm_op_get_local
  simp only
  simp only [frame_view_mk, frame_view_fold, frame_view_stack_push,
    frame_view_stack_pop, frame_view_stack_get, frame_view_this_stack_push,
    frame_view_this_stack_pop, frame_view_this_stack_get, frame_view_set_sp,
    frame_view_check_assign, frame_view_set_global, frame_view_get_global,
    frame_view_read_uint8, frame_view_read_uint16, frame_view_read_uint64, frame_view_set_ip,
    frame_view_set_recover_ip]

theorem vm_op_get_ape_global_view (dbg : Bool) (store_objects : List object_t) (vm : vm_t) :
    frame_view (vm_op_get_ape_global dbg store_objects vm).2 = frame_view vm := by
  unfold vm_op_get_ape_global
  simp only
  repeat' split
  all_goals simp only [frame_view_mk, frame_view_fold, frame_view_stack_push,
    frame_view_stack_pop, frame_view_stack_get, frame_view_this_stack_push,
    frame_view_this_stack_pop, frame_view_this_stack_get, frame_view_set_sp,
    frame_view_check_assign, frame_view_set_global, frame_view_get_global,
    frame_view_read_uint8, frame_view_read_uint16, frame_view_read_uint64, frame_view_set_ip,
    frame_view_set_recover_ip]

theorem vm_op_get_free_view (dbg : Bool) (vm : vm_t) :
    frame_view (vm_op_get_free dbg vm).2 = frame_view vm := by
  unfold vm_op_get_free
  simp only
  simp only [frame_view_mk, frame_view_fold, frame_view_stack_push,
    frame_view_stack_pop, frame_view_stack_get, frame_view_this_stack_push,
    frame_view_this_stack_pop, frame_view_this_stack_get, frame_view_set_sp,
    frame_view_check_assign, frame_view_set_global, frame_view_get_global,
    frame_view_read_uint8, frame_view_read_uint16, frame_view_read_uint64, frame_view_set_ip,
    frame_view_set_recover_ip]

theorem vm_op_set_free_view (dbg : Bool) (vm : vm_t) :
    frame_view (vm_op_set_free dbg vm).2 = frame_view vm := by
  unfold vm_op_set_free
  simp only
  simp only [frame_view_mk, frame_view_fold, frame_view_stack_push,
    frame_view_stack_pop, frame_view_stack_get, frame_view_this_stack_push,
    frame_view_this_stack_pop, frame_view_this_stack_get, frame_view_set_sp,
    frame_view_check_assign, frame_view_set_global, frame_view_get_global,
    frame_view_read_uint8, frame_view_read_uint16, frame_view_read_uint64, frame_view_set_ip,
    frame_view_set_recover_ip]

theorem vm_op_current_function_view (dbg : Bool) (vm : vm_t) :
    frame_view (vm_op_current_function dbg vm).2 = frame_view vm := by
  unfold vm_op_current_function
  simp only
  simp only [frame_view_mk, frame_view_fold, frame_view_stack_push,
    frame_view_stack_pop, frame_view_stack_get, frame_view_this_stack_push,
    frame_view_this_stack_pop, frame_view_this_stack_get, frame_view_set_sp,
    frame_view_check_assign, frame_view_set_global, frame_view_get_global,
    frame_view_read_uint8, frame_view_read_uint16, frame_view_read_uint64, frame_view_set_ip,
    frame_view_set_recover_ip]

theorem vm_op_len_view (dbg : Bool) (vm : vm_t) :
    frame_view (vm_op_len dbg vm).2 = frame_view vm := by
  unfold vm_op_len
  simp only
  repeat' split
  all_goals simp only [frame_view_mk, frame_view_fold, frame_view_stack_push,
    frame_view_stack_pop, frame_view_stack_get, frame_view_this_stack_push,
    frame_view_this_stack_pop, frame_view_this_stack_get, frame_view_set_sp,
    frame_view_check_assign, frame_view_set_global, frame_view_get_global,
    frame_view_read_uint8, frame_view_read_uint16, frame_view_read_uint64, frame_view_set_ip,
    frame_view_set_recover_ip]

theorem frame_view_read_uint16_uint8 (vm : vm_t) :
    frame_view (vm_set_current vm (frame_read_uint8 (frame_read_uint16 (vm_current vm)).2).2)
      = frame_view vm :=
  frame_view_set_current _ _ rfl

theorem vm_op_function_view (dbg : Bool) (constants : List object_t) (vm : vm_t) :
    frame_view (vm_op_function dbg constants vm).2 = frame_view vm := by
  unfold vm_op_function
  simp only
  repeat' split
  all_goals simp only [frame_view_mk, frame_view_fold, frame_view_stack_push,
    frame_view_stack_pop, frame_view_stack_get, frame_view_this_stack_push,
    frame_view_this_stack_pop, frame_view_this_stack_get, frame_view_set_sp,
    frame_view_check_assign, frame_view_set_global, frame_view_get_global,
    frame_view_read_uint8, frame_view_read_uint16, frame_view_read_uint64, frame_view_set_ip,
    frame_view_set_recover_ip,
    frame_view_read_uint16_uint8]


/-! ### Calls, returns and the statements at `err` -/

theorem call_native_function_view (natives : native_call_t) (hnat : natives_keep_frames natives)
    (vm : vm_t) (callee : object_t) (src_pos : src_pos_t) (args : List object_t) :
    frame_view (call_native_function natives vm callee src_pos args).2 = frame_view vm := by
  unfold call_native_function
  simp only
  repeat' split
  all_goals simp only [frame_view_mk, frame_view_fold, hnat _ _ _]

theorem call_object_grow (dbg : Bool) (natives : native_call_t)
    (hnat : natives_keep_frames natives) (vm : vm_t) (callee : object_t) (num_args : Int) :
    frame_grow vm (call_object dbg natives vm callee num_args).2 := by
  unfold call_object
  simp only
  split
  · split
    · exact frame_grow_of_view _ _ rfl
    · split
      · exact frame_grow_of_view _ _ rfl
      · split
        · exact push_frame_grow _ _
        · exact frame_grow_view_right _ _ _ (push_frame_grow _ _) rfl
  · split
    · split
      · exact frame_grow_of_view _ _ (call_native_function_view natives hnat _ _ _ _)
      · refine frame_grow_of_view _ _ ?_
        simp only [frame_view_stack_push, frame_view_set_sp,
          call_native_function_view natives hnat]
    · exact frame_grow_of_view _ _ rfl

theorem overload_call_grow (dbg : Bool) (natives : native_call_t)
    (hnat : natives_keep_frames natives) (vm : vm_t) (callee left right : object_t)
    (num_operands : Int) :
    frame_grow vm (overload_call dbg natives vm callee left right num_operands).2.2 := by
  unfold overload_call
  simp only
  refine frame_grow_view_left _ _ _ ?_ (call_object_grow dbg natives hnat _ _ _)
  split <;> simp only [frame_view_stack_push]

theorem try_overload_operator_grow (char_signed dbg : Bool) (natives : native_call_t)
    (hnat : natives_keep_frames natives) (vm : vm_t) (left right : object_t) (op : opcode_t) :
    frame_grow vm (try_overload_operator char_signed dbg natives vm left right op).2.2 := by
  unfold try_overload_operator
  simp only
  split
  · exact frame_grow_of_view _ _ rfl
  · generalize (if object_get_type vm.mem left = OBJECT_MAP then _ else _ :
      object_t × gcmem_t) = c1
    split
    · generalize (if object_get_type vm.mem right = OBJECT_MAP then _ else _ :
        object_t × gcmem_t) = c2
      split
      · exact frame_grow_of_view _ _ (frame_view_mem _ _)
      · exact frame_grow_view_left _ _ _ (frame_view_mem _ _)
          (overload_call_grow dbg natives hnat _ _ _ _ _)
    · exact frame_grow_view_left _ _ _ (frame_view_mem _ _)
        (overload_call_grow dbg natives hnat _ _ _ _ _)

theorem vm_op_compare_grow (char_signed dbg : Bool) (natives : native_call_t)
    (hnat : natives_keep_frames natives) (vm : vm_t) (opcode : opcode_t) :
    frame_grow vm (vm_op_compare char_signed dbg natives vm opcode).2 := by
  have hpop : frame_view (stack_pop dbg (stack_pop dbg vm).2).2 = frame_view vm := by
    simp only [frame_view_stack_pop]
  have hg := frame_grow_view_left _ _ _ hpop (try_overload_operator_grow char_signed dbg natives
    hnat (stack_pop dbg (stack_pop dbg vm).2).2 (stack_pop dbg (stack_pop dbg vm).2).1
    (stack_pop dbg vm).1 OPCODE_COMPARE)
  unfold vm_op_compare
  simp only
  split
  · exact hg
  · split
    · split
      · exact frame_grow_view_right _ _ _ hg
          (by simp only [frame_view_stack_push, frame_view_mk, frame_view_fold])
      · exact frame_grow_view_right _ _ _ hg rfl
    · exact hg

theorem vm_op_binary_grow (char_signed dbg : Bool) (natives : native_call_t)
    (hnat : natives_keep_frames natives) (vm : vm_t) (opcode : opcode_t) :
    frame_grow vm (vm_op_binary char_signed dbg natives vm opcode).2 := by
  have hpop : frame_view (stack_pop dbg (stack_pop dbg vm).2).2 = frame_view vm := by
    simp only [frame_view_stack_pop]
  have hg := frame_grow_view_left _ _ _ hpop (try_overload_operator_grow char_signed dbg natives
    hnat (stack_pop dbg (stack_pop dbg vm).2).2 (stack_pop dbg (stack_pop dbg vm).2).1
    (stack_pop dbg vm).1 opcode)
  unfold vm_op_binary
  simp only
  split
  · exact frame_grow_of_view _ _ (by simp only [frame_view_stack_push, frame_view_stack_pop])
  · split
    · refine frame_grow_of_view _ _ ?_
      repeat' split
      all_goals simp only [frame_view_stack_push, frame_view_stack_pop, frame_view_mk,
        frame_view_fold]
    · split
      · exact hg
      · split
        · exact frame_grow_view_right _ _ _ hg rfl
        · exact hg

theorem vm_op_minus_grow (char_signed dbg : Bool) (natives : native_call_t)
    (hnat : natives_keep_frames natives) (vm : vm_t) :
    frame_grow vm (vm_op_minus char_signed dbg natives vm).2 := by
  have hg := frame_grow_view_left _ _ _ (frame_view_stack_pop dbg vm)
    (try_overload_operator_grow char_signed dbg natives
    hnat (stack_pop dbg vm).2 (stack_pop dbg vm).1 object_make_null OPCODE_MINUS)
  unfold vm_op_minus
  simp only
  split
  · exact frame_grow_of_view _ _ (by simp only [frame_view_stack_push, frame_view_stack_pop])
  · split
    · exact hg
    · split
      · exact frame_grow_view_right _ _ _ hg rfl
      · exact hg

theorem vm_op_bang_grow (char_signed dbg : Bool) (natives : native_call_t)
    (hnat : natives_keep_frames natives) (vm : vm_t) :
    frame_grow vm (vm_op_bang char_signed dbg natives vm).2 := by
  have hg := frame_grow_view_left _ _ _ (frame_view_stack_pop dbg vm)
    (try_overload_operator_grow char_signed dbg natives
    hnat (stack_pop dbg vm).2 (stack_pop dbg vm).1 object_make_null OPCODE_BANG)
  unfold vm_op_bang
  simp only
  split
  · exact frame_grow_of_view _ _ (by simp only [frame_view_stack_push, frame_view_stack_pop])
  · split
    · exact frame_grow_of_view _ _ (by simp only [frame_view_stack_push, frame_view_stack_pop])
    · split
      · exact hg
      · split
        · exact frame_grow_view_right _ _ _ hg (frame_view_stack_push _ _ _)
        · exact hg

theorem vm_op_call_grow (dbg : Bool) (natives : native_call_t)
    (hnat : natives_keep_frames natives) (vm : vm_t) :
    frame_grow vm (vm_op_call dbg natives vm).2 := by
  have hg : frame_grow vm (call_object dbg natives
      (stack_get dbg (vm_set_current vm (frame_read_uint8 (vm_current vm)).2)
        ((frame_read_uint8 (vm_current vm)).1 : Int)).2
      (stack_get dbg (vm_set_current vm (frame_read_uint8 (vm_current vm)).2)
        ((frame_read_uint8 (vm_current vm)).1 : Int)).1
      ((frame_read_uint8 (vm_current vm)).1 : Int)).2 :=
    frame_grow_view_left _ _ _ (by simp only [frame_view_stack_get, frame_view_read_uint8])
      (call_object_grow dbg natives hnat _ _ _)
  unfold vm_op_call
  simp only
  split <;> exact hg

theorem vm_op_return_value_shrink (dbg : Bool) (vm : vm_t) :
    frame_shrink vm (vm_op_return_value dbg vm).2 := by
  have hs := frame_shrink_view_left _ _ _ (frame_view_stack_pop dbg vm)
    (pop_frame_shrink (stack_pop dbg vm).2)
  unfold vm_op_return_value
  simp only
  split
  · exact hs
  · exact frame_shrink_view_right _ _ _ hs (frame_view_stack_push _ _ _)

theorem vm_op_return_shrink (dbg : Bool) (vm : vm_t) :
    frame_shrink vm (vm_op_return dbg vm).2 := by
  unfold vm_op_return
  simp only
  split
  · exact frame_shrink_view_right _ _ _ (pop_frame_shrink vm)
      (by simp only [frame_view_stack_push, frame_view_stack_pop])
  · exact frame_shrink_view_right _ _ _ (pop_frame_shrink vm) (frame_view_stack_push _ _ _)

theorem pop_frames_to_shrink (target : Int) :
    ∀ (n : Nat) (vm : vm_t), frame_shrink vm (pop_frames_to target n vm) := by
  intro n
  induction n with
  | zero => intro vm; exact frame_shrink_of_view _ _ rfl
  | succ n ih =>
    intro vm
    unfold pop_frames_to
    split
    · exact frame_shrink_trans _ _ _ (pop_frame_shrink vm) (ih _)
    · exact frame_shrink_of_view _ _ rfl

/-- A write through `current_frame` that sets the flag of the frame. -/
theorem set_current_shrink (vm : vm_t) (frame : frame_t) (h : frame.is_recovering = true) :
    frame_shrink vm (vm_set_current vm frame) := by
  unfold vm_set_current
  cases hc : vm.current_frame with
  | none => exact frame_shrink_of_view _ _ rfl
  | some ix =>
    refine ⟨le_refl _, ?_, ?_⟩
    · intro i hi
      show (if i = ix then frame else vm.frames i).is_recovering = true
      split
      · exact h
      · exact hi
    · intro ht
      unfold frame_top at ht ⊢
      rw [hc] at ht
      exact ht

theorem vm_recover_shrink (dbg : Bool) (vm : vm_t) : frame_shrink vm (vm_recover dbg vm).2 := by
  unfold vm_recover
  split
  · split
    · exact frame_shrink_of_view _ _ rfl
    · split
      · simp only
        split
        · exact frame_shrink_of_view _ _ rfl
        · refine frame_shrink_view_right _ _ _ ?_ (frame_view_errors _ _)
          refine frame_shrink_trans _ _ _ ?_ (set_current_shrink _ _ rfl)
          refine frame_shrink_view_right _ _ _ ?_ (frame_view_set_ip _ _)
          refine frame_shrink_view_right _ _ _ ?_ (frame_view_stack_push _ _ _)
          generalize hp : pop_frames_to _ _ _ = w
          have hw : frame_shrink vm w := by
            rw [← hp]
            exact frame_shrink_view_left _ _ _ (frame_view_errors _ _)
              (pop_frames_to_shrink _ _ _)
          refine frame_shrink_view_right _ _ _ hw ?_
          split <;> rfl
      · exact frame_shrink_of_view _ _ rfl
  · exact frame_shrink_of_view _ _ rfl

/-- Every case of the `switch` either pops no frame and keeps the flags of the frames on
the stack, or pushes no frame and clears no flag. -/
theorem vm_execute_opcode_frames (char_signed dbg : Bool) (natives : native_call_t)
    (hnat : natives_keep_frames natives) (constants store_objects : List object_t) (vm : vm_t)
    (opcode : Nat) (r : vm_goto × vm_t)
    (h : vm_execute_opcode char_signed dbg natives constants store_objects vm opcode = some r) :
    frame_grow vm r.2 ∨ frame_shrink vm r.2 := by
  revert h
  unfold vm_execute_opcode
  split
  all_goals intro h
  all_goals rw [← Option.some.inj h]
  all_goals try simp only []
  all_goals with_reducible first
    | exact Or.inl (vm_op_binary_grow char_signed dbg natives hnat vm _)
    | exact Or.inl (vm_op_compare_grow char_signed dbg natives hnat vm _)
    | exact Or.inl (vm_op_minus_grow char_signed dbg natives hnat vm)
    | exact Or.inl (vm_op_bang_grow char_signed dbg natives hnat vm)
    | exact Or.inl (vm_op_call_grow dbg natives hnat vm)
    | exact Or.inr (vm_op_return_value_shrink dbg vm)
    | exact Or.inr (vm_op_return_shrink dbg vm)
    | exact Or.inl (frame_grow_of_view _ _ (by
        simp only [frame_view_mk, frame_view_fold, frame_view_stack_push,
          frame_view_stack_pop, frame_view_stack_get, frame_view_read_uint16,
          frame_view_read_uint64, frame_view_set_recover_ip, vm_op_constant_view,
          vm_op_equal_view, vm_op_jump_view, vm_op_define_module_global_view,
          vm_op_set_module_global_view, vm_op_get_module_global_view, vm_op_array_view,
          vm_op_map_start_view, vm_op_map_end_view, vm_op_get_this_view, vm_op_get_index_view,
          vm_op_set_index_view, vm_op_get_value_at_view, vm_op_define_local_view,
          vm_op_set_local_view, vm_op_get_local_view, vm_op_get_ape_global_view,
          vm_op_function_view, vm_op_get_free_view, vm_op_set_free_view,
          vm_op_current_function_view, vm_op_len_view]))

/-- One round of the loop clears the flag `is_recovering` of no frame on the frame stack
and leaves `current_frame` at the top. -/
theorem vm_execute_round_frames (char_signed dbg : Bool) (natives : native_call_t)
    (hnat : natives_keep_frames natives) (constants store_objects : List object_t)
    (vm vm1 : vm_t) (goto : vm_goto)
    (h : vm_execute_round char_signed dbg natives constants store_objects vm
      = some (goto, vm1))
    (i : Int) (hi : i < vm.frames_count) (hrec : (vm.frames i).is_recovering = true)
    (htop : frame_top vm) :
    (vm1.frames i).is_recovering = true ∧ frame_top vm1 := by
  unfold vm_execute_round at h
  simp only at h
  have hread := frame_view_read_opcode vm
  generalize vm_set_current vm (frame_read_opcode (vm_current vm)).2 = w at h hread
  have hw : frame_grow vm w := frame_grow_of_view _ _ hread
  cases hop : vm_execute_opcode char_signed dbg natives constants store_objects w
      (frame_read_opcode (vm_current vm)).1 with
  | none => rw [hop] at h; exact absurd h (by simp)
  | some r =>
    have hfr := vm_execute_opcode_frames char_signed dbg natives hnat constants store_objects
      w _ r hop
    have hmid : (r.2.frames i).is_recovering = true ∧ frame_top r.2 := by
      rcases hfr with hg | hs
      · refine ⟨?_, hg.2.2 (hw.2.2 htop)⟩
        rw [hg.2.1 i (lt_of_lt_of_le hi hw.1), hw.2.1 i hi]; exact hrec
      · exact ⟨hs.2.1 i (by rw [hw.2.1 i hi]; exact hrec), hs.2.2 (hw.2.2 htop)⟩
    rw [hop] at h
    obtain ⟨g, vm2⟩ := r
    cases g
    · simp only [Option.some.injEq] at h
      rw [← (Prod.mk.inj h).2] at *
      exact ⟨(vm_recover_shrink dbg vm2).2.1 i hmid.1, (vm_recover_shrink dbg vm2).2.2 hmid.2⟩
    · simp only [Option.some.injEq] at h
      rw [← (Prod.mk.inj h).2] at *
      exact ⟨(vm_recover_shrink dbg vm2).2.1 i hmid.1, (vm_recover_shrink dbg vm2).2.2 hmid.2⟩
    · simp only [Option.some.injEq, Prod.mk.injEq] at h
      rw [← h.2]
      exact hmid

theorem run_gc_view (fuel : Nat) (vm vm1 : vm_t) (constants store_objects : List object_t)
    (h : run_gc fuel vm constants store_objects = some vm1) :
    frame_view vm1 = frame_view vm := by
  unfold run_gc at h
  cases hm : run_gc_mem fuel vm constants store_objects with
  | none => rw [hm] at h; exact absurd h (by simp)
  | some mem =>
    rw [hm] at h
    simp only [Option.some.injEq] at h
    rw [← h]
    rfl

/-- The frame in slot `i` keeps its flag `is_recovering` over the rounds of the loop. -/
theorem rounds_with_frame_flag (char_signed dbg : Bool) (natives : native_call_t)
    (hnat : natives_keep_frames natives) (constants store_objects : List object_t)
    (vm vm1 : vm_t) (i : Int)
    (hsteps : rounds_with_frame char_signed dbg natives constants store_objects i vm vm1)
    (hrec : (vm.frames i).is_recovering = true) (htop : frame_top vm) :
    (vm1.frames i).is_recovering = true ∧ frame_top vm1 := by
  induction hsteps with
  | none => exact ⟨hrec, htop⟩
  | round vm1 vm2 goto _ hi hround ih =>
    exact vm_execute_round_frames char_signed dbg natives hnat constants store_objects
      vm1 vm2 goto hround i hi ih.1 ih.2
  | collect vm1 vm2 fuel _ hgc ih =>
    have hv := run_gc_view fuel vm1 vm2 constants store_objects hgc
    have hs := frame_shrink_of_view vm1 vm2 hv
    exact ⟨hs.2.1 i ih.1, hs.2.2 ih.2⟩

/-- A frame has a handler it has not entered. -/
theorem find_recover_frame_cases (vm : vm_t) : ∀ n : Nat,
    (find_recover_frame vm n = -1
      ∧ ∀ j : Int, 0 ≤ j → j < n →
        ¬ ((vm.frames j).recover_ip ≥ 0 ∧ (vm.frames j).is_recovering = false))
    ∨ (0 ≤ find_recover_frame vm n ∧ find_recover_frame vm n < n
      ∧ ((vm.frames (find_recover_frame vm n)).recover_ip ≥ 0
        ∧ (vm.frames (find_recover_frame vm n)).is_recovering = false)
      ∧ ∀ j : Int, find_recover_frame vm n < j → j < n →
        ¬ ((vm.frames j).recover_ip ≥ 0 ∧ (vm.frames j).is_recovering = false)) := by
  intro n
  induction n with
  | zero =>
    left
    refine ⟨rfl, ?_⟩
    intro j h0 hn
    exact absurd hn (by simp only [Nat.cast_zero]; omega)
  | succ n ih =>
    unfold find_recover_frame
    split
    · next hp =>
      right
      refine ⟨by omega, by push_cast; omega, ⟨hp.1, ?_⟩, ?_⟩
      · cases hb : (vm.frames (n : Int)).is_recovering
        · rfl
        · exact absurd hb hp.2
      · intro j h1 h2
        exact absurd h2 (by push_cast; omega)
    · next hp =>
      have hno : ¬ ((vm.frames (n : Int)).recover_ip ≥ 0
          ∧ (vm.frames (n : Int)).is_recovering = false) := by
        intro hc
        exact hp ⟨hc.1, by rw [hc.2]; decide⟩
      rcases ih with ⟨h1, h2⟩ | ⟨h1, h2, h3, h4⟩
      · left
        refine ⟨h1, ?_⟩
        intro j h0 hn
        by_cases hj : j = (n : Int)
        · rw [hj]; exact hno
        · exact h2 j h0 (by push_cast at hn; omega)
      · right
        refine ⟨h1, by push_cast; omega, h3, ?_⟩
        intro j hj hn
        by_cases hjn : j = (n : Int)
        · rw [hjn]; exact hno
        · exact h4 j hj (by push_cast at hn; omega)

theorem stack_push_frames (dbg : Bool) (vm : vm_t) (obj : object_t) :
    (stack_push dbg vm obj).frames = vm.frames
    ∧ (stack_push dbg vm obj).frames_count = vm.frames_count
    ∧ (stack_push dbg vm obj).current_frame = vm.current_frame := by
  unfold stack_push
  split <;> exact ⟨rfl, rfl, rfl⟩

/-- The statements at `err` when frame `c` is the innermost frame with a handler it has not
entered: the frames above `c` are popped and frame `c` goes on at its `recover_ip` with
`is_recovering` set. -/
theorem vm_recover_enter (dbg : Bool) (vm : vm_t) (e : error_t) (c : Int)
    (herr : vm.errors.errors = [e]) (htype : e.type = ERROR_RUNTIME)
    (hc0 : 0 ≤ c) (hc : c < vm.frames_count)
    (hrec : (vm.frames c).recover_ip ≥ 0 ∧ (vm.frames c).is_recovering = false)
    (hmax : ∀ j : Int, c < j → j < vm.frames_count →
      ¬ ((vm.frames j).recover_ip ≥ 0 ∧ (vm.frames j).is_recovering = false))
    (hcur : vm.current_frame = some (vm.frames_count - 1)) :
    (vm_recover dbg vm).1 = vm_goto.next
    ∧ (vm_recover dbg vm).2.frames_count = c + 1
    ∧ (vm_recover dbg vm).2.current_frame = some c
    ∧ ((vm_recover dbg vm).2.frames c).ip = (vm.frames c).recover_ip
    ∧ ((vm_recover dbg vm).2.frames c).is_recovering = true
    ∧ ∀ j, j ≠ c → (vm_recover dbg vm).2.frames j = vm.frames j := by
  obtain ⟨tb, htb⟩ : ∃ tb, tb = traceback_append_from_vm (e.traceback.getD []) vm := ⟨_, rfl⟩
  obtain ⟨vA, hA⟩ : ∃ vA : vm_t, vA = { vm with errors := { errors :=
      vm.errors.errors.dropLast ++ [{ e with traceback := some tb }] } } := ⟨_, rfl⟩
  obtain ⟨vB, hB⟩ : ∃ vB, vB = pop_frames_to (c + 1) (vA.frames_count - (c + 1)).toNat vA :=
    ⟨_, rfl⟩
  obtain ⟨oe, hoe⟩ : ∃ oe, oe = object_make_error vB.mem e.message := ⟨_, rfl⟩
  obtain ⟨vC, hC⟩ : ∃ vC : vm_t, vC = { vB with mem := oe.2 } := ⟨_, rfl⟩
  obtain ⟨vD, hD⟩ : ∃ vD : vm_t, vD = if ¬ object_is_null vC.mem oe.1 then
        { vC with
          mem := object_set_error_traceback vC.mem oe.1 tb
          errors := { errors :=
            vC.errors.errors.dropLast ++ [{ e with traceback := none }] } }
      else vC := ⟨_, rfl⟩
  obtain ⟨vE, hE⟩ : ∃ vE, vE = stack_push dbg vD oe.1 := ⟨_, rfl⟩
  obtain ⟨vF, hF⟩ : ∃ vF, vF = vm_set_current vE
      { vm_current vE with ip := (vm_current vE).recover_ip } := ⟨_, rfl⟩
  obtain ⟨vG, hG⟩ : ∃ vG, vG = vm_set_current vF
      { vm_current vF with is_recovering := true } := ⟨_, rfl⟩
  have heq := vm_recover_chain dbg vm e c herr htype hc0 hc hrec hmax tb vA vB oe vC vD vE vF vG
    htb hA hB hoe hC hD hE hF hG
  have a1 : vA.current_frame = some (vA.frames_count - 1) := by rw [hA]; exact hcur
  have a2 : vA.frames_count = vm.frames_count := by rw [hA]
  have a3 : vA.frames = vm.frames := by rw [hA]
  have hk : vA.frames_count = c + 1 + (((vA.frames_count - (c + 1)).toNat : Nat) : Int) := by
    rw [Int.toNat_of_nonneg (by omega)]
    omega
  have hspec := pop_frames_to_spec (c + 1) (by omega)
    (vA.frames_count - (c + 1)).toNat vA a1 hk
  rw [← hB] at hspec
  obtain ⟨b1, b2, b3, -, -, -⟩ := hspec
  rw [a3] at b2
  have b3i : vB.current_frame = some c := by
    rw [b3]
    congr 1
    omega
  have hDf : vD.frames = vm.frames ∧ vD.frames_count = c + 1 ∧ vD.current_frame = some c := by
    rw [hD]
    split
    · rw [hC]; exact ⟨b2, b1, b3i⟩
    · rw [hC]; exact ⟨b2, b1, b3i⟩
  obtain ⟨e1, e2, e3⟩ := stack_push_frames dbg vD oe.1
  rw [← hE] at e1 e2 e3
  have hEcur : vE.current_frame = some c := by rw [e3]; exact hDf.2.2
  obtain ⟨-, -, -, -, f5, f6⟩ := vm_set_current_fields vE
    { vm_current vE with ip := (vm_current vE).recover_ip }
  obtain ⟨f7, f8⟩ := vm_set_current_frames vE
    { vm_current vE with ip := (vm_current vE).recover_ip } c hEcur
  rw [← hF] at f5 f6 f7 f8
  have hFcur : vF.current_frame = some c := by rw [f6]; exact hEcur
  obtain ⟨-, -, -, -, g5, g6⟩ := vm_set_current_fields vF
    { vm_current vF with is_recovering := true }
  obtain ⟨g7, g8⟩ := vm_set_current_frames vF
    { vm_current vF with is_recovering := true } c hFcur
  rw [← hG] at g5 g6 g7 g8
  have hcE : vm_current vE = vm.frames c := by
    unfold vm_current
    rw [hEcur]
    show vE.frames c = _
    rw [e1, hDf.1]
  have hcF : vm_current vF = { vm.frames c with ip := (vm.frames c).recover_ip } := by
    unfold vm_current
    rw [hFcur]
    show vF.frames c = _
    rw [f7, hcE]
  rw [heq]
  refine ⟨rfl, ?_, ?_, ?_, ?_, ?_⟩
  · show vG.frames_count = c + 1
    rw [g5, f5, e2, hDf.2.1]
  · show vG.current_frame = some c
    rw [g6]
    exact hFcur
  · show (vG.frames c).ip = _
    rw [g7, hcF]
  · show (vG.frames c).is_recovering = true
    rw [g7]
  · intro j hj
    show vG.frames j = _
    rw [g8 j hj, f8 j hj, e1, hDf.1]

/-- The statements at `err` with an error in the list: either the loop is left with the
state as it is, or the innermost frame with a handler it has not entered goes on at its
`recover_ip`. -/
theorem vm_recover_cases (dbg : Bool) (vm : vm_t) (herrs : errors_get_count vm.errors > 0)
    (htop : frame_top vm) :
    vm_recover dbg vm = (vm_goto.finish, vm)
    ∨ ∃ c : Int, 0 ≤ c ∧ c < vm.frames_count
      ∧ ((vm.frames c).recover_ip ≥ 0 ∧ (vm.frames c).is_recovering = false)
      ∧ (∀ j : Int, c < j → j < vm.frames_count →
          ¬ ((vm.frames j).recover_ip ≥ 0 ∧ (vm.frames j).is_recovering = false))
      ∧ (vm_recover dbg vm).1 = vm_goto.next
      ∧ (vm_recover dbg vm).2.frames_count = c + 1
      ∧ (vm_recover dbg vm).2.current_frame = some c
      ∧ ((vm_recover dbg vm).2.frames c).ip = (vm.frames c).recover_ip
      ∧ ((vm_recover dbg vm).2.frames c).is_recovering = true
      ∧ ∀ j, j ≠ c → (vm_recover dbg vm).2.frames j = vm.frames j := by
  cases hl : errors_get_last_error vm.errors with
  | none =>
    exfalso
    unfold errors_get_last_error at hl
    unfold errors_get_count at herrs
    rw [List.getLast?_eq_none_iff] at hl
    rw [hl] at herrs
    exact absurd herrs (by decide)
  | some e =>
    by_cases ht : e.type = ERROR_RUNTIME ∧ errors_get_count vm.errors = 1
    · have herr : vm.errors.errors = [e] := by
        unfold errors_get_count at ht
        unfold errors_get_last_error at hl
        match hv : vm.errors.errors, ht.2, hl with
        | [a], _, hl2 =>
          rw [hv] at hl
          simp only [List.getLast?_singleton, Option.some.injEq] at hl
          rw [hl]
      rcases find_recover_frame_cases vm vm.frames_count.toNat with ⟨h1, -⟩ | ⟨h1, h2, h3, h4⟩
      · left
        unfold vm_recover
        rw [if_pos herrs, hl]
        show (if e.type = ERROR_RUNTIME ∧ errors_get_count vm.errors = 1 then _ else _) = _
        rw [if_pos ht]
        show (if find_recover_frame vm vm.frames_count.toNat < 0 then _ else _) = _
        rw [if_pos (by rw [h1]; decide)]
      · right
        have hlt : find_recover_frame vm vm.frames_count.toNat < vm.frames_count := by
          omega
        refine ⟨find_recover_frame vm vm.frames_count.toNat, h1, hlt, h3,
          fun j hj1 hj2 => h4 j hj1 (by omega), ?_⟩
        have hcur : vm.current_frame = some (vm.frames_count - 1) := by
          unfold frame_top at htop
          rcases htop with ht1 | ht0
          · exact ht1.2
          · exact absurd hlt (by omega)
        exact vm_recover_enter dbg vm e _ herr ht.1 h1 hlt h3
          (fun j hj1 hj2 => h4 j hj1 (by omega)) hcur
    · left
      unfold vm_recover
      rw [if_pos herrs, hl]
      show (if e.type = ERROR_RUNTIME ∧ errors_get_count vm.errors = 1 then _ else _) = _
      rw [if_neg ht]

theorem natives_none_keep_frames : natives_keep_frames natives_none := fun _ _ _ => rfl

/-- C40: let the host functions leave the frames of the machine as they find them, and let
`current_frame` be the top frame of `vm`.  If the frame in slot `i` has
`is_recovering = true` in `vm`, it has so in every state `vm1` reached by rounds of the
loop of `vm_execute_function` during which the frame stays on the frame stack: no
instruction and no handling of an error sets the flag back.  In the next round, after the
`switch`, the flag is still set, and if the `switch` has recorded an error the statements
at `err` either leave the loop with the state as it is (the error propagates out of
`vm_execute_function`), or they enter the handler of a frame `c` other than `i`, the
innermost frame with `recover_ip >= 0` and `is_recovering = false`, which is an outer
frame when `i` is the current frame; frame `i` keeps its flag. -/
theorem C40_recovers_once (char_signed dbg : Bool) (natives : native_call_t)
    (hnat : natives_keep_frames natives) (constants store_objects : List object_t)
    (vm vm1 : vm_t) (i : Int) (htop : frame_top vm)
    (hrec : (vm.frames i).is_recovering = true)
    (hsteps : rounds_with_frame char_signed dbg natives constants store_objects i vm vm1) :
    (vm1.frames i).is_recovering = true
    ∧ ∀ r : vm_goto × vm_t, i < vm1.frames_count →
      vm_execute_opcode char_signed dbg natives constants store_objects
        (vm_set_current vm1 (frame_read_opcode (vm_current vm1)).2)
        (frame_read_opcode (vm_current vm1)).1 = some r →
      (r.2.frames i).is_recovering = true
      ∧ (errors_get_count r.2.errors > 0 →
        vm_recover dbg r.2 = (vm_goto.finish, r.2)
        ∨ ∃ c : Int, 0 ≤ c ∧ c < r.2.frames_count ∧ c ≠ i
          ∧ (i = r.2.frames_count - 1 → c < i)
          ∧ ((r.2.frames c).recover_ip ≥ 0 ∧ (r.2.frames c).is_recovering = false)
          ∧ (∀ j : Int, c < j → j < r.2.frames_count →
              ¬ ((r.2.frames j).recover_ip ≥ 0 ∧ (r.2.frames j).is_recovering = false))
          ∧ (vm_recover dbg r.2).1 = vm_goto.next
          ∧ (vm_recover dbg r.2).2.frames_count = c + 1
          ∧ (vm_recover dbg r.2).2.current_frame = some c
          ∧ ((vm_recover dbg r.2).2.frames c).ip = (r.2.frames c).recover_ip
          ∧ ((vm_recover dbg r.2).2.frames c).is_recovering = true
          ∧ ((vm_recover dbg r.2).2.frames i).is_recovering = true) := by
  obtain ⟨h1, h1top⟩ := rounds_with_frame_flag char_signed dbg natives hnat constants
    store_objects vm vm1 i hsteps hrec htop
  refine ⟨h1, ?_⟩
  intro r hi hop
  have hw : frame_grow vm1 (vm_set_current vm1 (frame_read_opcode (vm_current vm1)).2) :=
    frame_grow_of_view _ _ (frame_view_read_opcode vm1)
  have hfr := vm_execute_opcode_frames char_signed dbg natives hnat constants store_objects
    _ _ r hop
  have hmid : (r.2.frames i).is_recovering = true ∧ frame_top r.2 := by
    rcases hfr with hg | hs
    · refine ⟨?_, hg.2.2 (hw.2.2 h1top)⟩
      rw [hg.2.1 i (lt_of_lt_of_le hi hw.1), hw.2.1 i hi]; exact h1
    · exact ⟨hs.2.1 i (by rw [hw.2.1 i hi]; exact h1), hs.2.2 (hw.2.2 h1top)⟩
  refine ⟨hmid.1, ?_⟩
  intro herr
  rcases vm_recover_cases dbg r.2 herr hmid.2 with hfin | ⟨c, c1, c2, c3, c4, c5, c6, c7, c8,
    c9, -⟩
  · exact Or.inl hfin
  · right
    have hne : c ≠ i := by
      intro hci
      rw [hci, hmid.1] at c3
      exact absurd c3.2 (by decide)
    exact ⟨c, c1, c2, hne, fun hio => by omega, c3, c4, c5, c6, c7, c8, c9,
      (vm_recover_shrink dbg r.2).2.1 i hmid.1⟩

/-- C40 at a concrete input: frame 1 of `vm_recovered_example` has entered its handler; one
round later its flag is still set, and the error of `OPCODE_CONSTANT 5` in the round after
is not handled in frame 1. -/
theorem C40_recovers_once_witness :
    (vm_recovered_round.frames 1).is_recovering = true
    ∧ (vm_recovered_raised.2.frames 1).is_recovering = true
    ∧ (vm_recover false vm_recovered_raised.2 = (vm_goto.finish, vm_recovered_raised.2)
      ∨ ∃ c : Int, 0 ≤ c ∧ c < vm_recovered_raised.2.frames_count ∧ c ≠ 1
        ∧ ((1 : Int) = vm_recovered_raised.2.frames_count - 1 → c < 1)
        ∧ ((vm_recovered_raised.2.frames c).recover_ip ≥ 0
          ∧ (vm_recovered_raised.2.frames c).is_recovering = false)
        ∧ (∀ j : Int, c < j → j < vm_recovered_raised.2.frames_count →
            ¬ ((vm_recovered_raised.2.frames j).recover_ip ≥ 0
              ∧ (vm_recovered_raised.2.frames j).is_recovering = false))
        ∧ (vm_recover false vm_recovered_raised.2).1 = vm_goto.next
        ∧ (vm_recover false vm_recovered_raised.2).2.frames_count = c + 1
        ∧ (vm_recover false vm_recovered_raised.2).2.current_frame = some c
        ∧ ((vm_recover false vm_recovered_raised.2).2.frames c).ip
            = (vm_recovered_raised.2.frames c).recover_ip
        ∧ ((vm_recover false vm_recovered_raised.2).2.frames c).is_recovering = true
        ∧ ((vm_recover false vm_recovered_raised.2).2.frames 1).is_recovering = true) := by
  have h := C40_recovers_once false false natives_none natives_none_keep_frames [] []
    vm_recovered_example vm_recovered_round 1 (Or.inl ⟨by decide, rfl⟩) rfl
    (rounds_with_frame.round vm_recovered_example vm_recovered_example vm_recovered_round
      vm_goto.next (rounds_with_frame.none _) (by decide) rfl)
  obtain ⟨h2, h3⟩ := h.2 vm_recovered_raised (by decide) rfl
  exact ⟨h.1, h2, h3 (by decide)⟩

/-! ### Probing in the string dictionary -/

namespace collections

theorem probe_dist_lt (cap a b : Nat) (ha : a < cap) (hb : b < cap) :
    probe_dist cap a b < cap := by
  unfold probe_dist
  split <;> omega

theorem probe_pos_dist (cap a b : Nat) (ha : a < cap) (hb : b < cap) :
    (a + probe_dist cap a b) % cap = b := by
  unfold probe_dist
  split
  · rw [show a + (b - a) = b by omega]
    exact Nat.mod_eq_of_lt hb
  · rw [show a + (b + cap - a) = b + cap by omega, Nat.add_mod_right]
    exact Nat.mod_eq_of_lt hb

theorem probe_mod_add (cap a s : Nat) (ha : a < cap) (hs : s < cap) :
    (a + s) % cap = if a + s < cap then a + s else a + s - cap := by
  split
  · next h => exact Nat.mod_eq_of_lt h
  · next h =>
    rw [Nat.mod_eq_sub_mod (by omega)]
    exact Nat.mod_eq_of_lt (by omega)

theorem probe_dist_pos (cap a s : Nat) (ha : a < cap) (hs : s < cap) :
    probe_dist cap a ((a + s) % cap) = s := by
  rw [probe_mod_add cap a s ha hs]
  unfold probe_dist
  split <;> split <;> omega

theorem dict_mask_eq (cap e x : Nat) (hcap : cap = 2 ^ e) (he : e ≤ 32) :
    ((x % 2 ^ 32) &&& u32_pred cap) = x % cap := by
  rw [hcap, u32_pred_pow e he, Nat.and_pow_two_sub_one_eq_mod,
    Nat.mod_mod_of_dvd _ (Nat.pow_dvd_pow 2 he)]

theorem dict_home_eq (cap e x : Nat) (hcap : cap = 2 ^ e) (he : e ≤ 32) :
    (x &&& u32_pred cap) % 2 ^ 32 = x % cap := by
  rw [hcap, u32_pred_pow e he, Nat.and_pow_two_sub_one_eq_mod]
  have h1 : x % 2 ^ e < 2 ^ e := Nat.mod_lt _ (Nat.two_pow_pos e)
  have h2 : 2 ^ e ≤ 2 ^ 32 := Nat.pow_le_pow_right (by decide) he
  exact Nat.mod_eq_of_lt (by omega)

/-- The item in slot `c` has the hash `hash` and the key `key`. -/
theorem dict_get_cell_ix_loop_found (d : dict_t_) (key : List Nat) (hash cell_ix e : Nat)
    (hcap : d.cell_capacity = 2 ^ e) (he : e ≤ 32) :
    ∀ (n i t : Nat), i ≤ t → t < i + n →
      (∀ s, i ≤ s → s < t →
        d.cells.getD ((cell_ix + s) % d.cell_capacity) DICT_INVALID_IX ≠ DICT_INVALID_IX
        ∧ ¬ (hash = d.hashes.getD
              (d.cells.getD ((cell_ix + s) % d.cell_capacity) DICT_INVALID_IX) 0
            ∧ key = d.keys.getD
              (d.cells.getD ((cell_ix + s) % d.cell_capacity) DICT_INVALID_IX) [])) →
      d.cells.getD ((cell_ix + t) % d.cell_capacity) DICT_INVALID_IX ≠ DICT_INVALID_IX →
      hash = d.hashes.getD
        (d.cells.getD ((cell_ix + t) % d.cell_capacity) DICT_INVALID_IX) 0 →
      key = d.keys.getD
        (d.cells.getD ((cell_ix + t) % d.cell_capacity) DICT_INVALID_IX) [] →
      dict_get_cell_ix_loop d key hash cell_ix n i
        = ((cell_ix + t) % d.cell_capacity, true) := by
  intro n
  induction n with
  | zero => intro i t h1 h2; omega
  | succ n ih =>
    intro i t h1 h2 hs hc hh hk
    unfold dict_get_cell_ix_loop
    simp only [dict_mask_eq d.cell_capacity e _ hcap he]
    by_cases hit : i = t
    · subst hit
      rw [if_neg hc, if_neg (not_not.mpr hh), if_pos hk]
    · have hsi := hs i (le_refl _) (by omega)
      rw [if_neg hsi.1]
      by_cases hh2 : hash = d.hashes.getD
          (d.cells.getD ((cell_ix + i) % d.cell_capacity) DICT_INVALID_IX) 0
      · rw [if_neg (not_not.mpr hh2), if_neg (fun hk2 => hsi.2 ⟨hh2, hk2⟩)]
        exact ih (i + 1) t (by omega) (by omega) (fun s a b => hs s (by omega) b) hc hh hk
      · rw [if_pos hh2]
        exact ih (i + 1) t (by omega) (by omega) (fun s a b => hs s (by omega) b) hc hh hk

theorem dict_get_cell_ix_loop_miss (d : dict_t_) (key : List Nat) (hash cell_ix e : Nat)
    (hcap : d.cell_capacity = 2 ^ e) (he : e ≤ 32) :
    ∀ (n i t : Nat), i ≤ t → t < i + n →
      (∀ s, i ≤ s → s < t →
        d.cells.getD ((cell_ix + s) % d.cell_capacity) DICT_INVALID_IX ≠ DICT_INVALID_IX
        ∧ ¬ (hash = d.hashes.getD
              (d.cells.getD ((cell_ix + s) % d.cell_capacity) DICT_INVALID_IX) 0
            ∧ key = d.keys.getD
              (d.cells.getD ((cell_ix + s) % d.cell_capacity) DICT_INVALID_IX) [])) →
      d.cells.getD ((cell_ix + t) % d.cell_capacity) DICT_INVALID_IX = DICT_INVALID_IX →
      dict_get_cell_ix_loop d key hash cell_ix n i
        = ((cell_ix + t) % d.cell_capacity, false) := by
  intro n
  induction n with
  | zero => intro i t h1 h2; omega
  | succ n ih =>
    intro i t h1 h2 hs hc
    unfold dict_get_cell_ix_loop
    simp only [dict_mask_eq d.cell_capacity e _ hcap he]
    by_cases hit : i = t
    · subst hit
      rw [if_pos hc]
    · have hsi := hs i (le_refl _) (by omega)
      rw [if_neg hsi.1]
      by_cases hh2 : hash = d.hashes.getD
          (d.cells.getD ((cell_ix + i) % d.cell_capacity) DICT_INVALID_IX) 0
      · rw [if_neg (not_not.mpr hh2), if_neg (fun hk2 => hsi.2 ⟨hh2, hk2⟩)]
        exact ih (i + 1) t (by omega) (by omega) (fun s a b => hs s (by omega) b) hc
      · rw [if_pos hh2]
        exact ih (i + 1) t (by omega) (by omega) (fun s a b => hs s (by omega) b) hc

/-- A key that the loop finds is the key of the item that the cell names. -/
theorem dict_get_cell_ix_loop_true (d : dict_t_) (key : List Nat) (hash cell_ix e : Nat)
    (hcap : d.cell_capacity = 2 ^ e) (he : e ≤ 32) :
    ∀ (n i : Nat), (dict_get_cell_ix_loop d key hash cell_ix n i).2 = true →
      (dict_get_cell_ix_loop d key hash cell_ix n i).1 < d.cell_capacity
      ∧ d.cells.getD (dict_get_cell_ix_loop d key hash cell_ix n i).1 DICT_INVALID_IX
          ≠ DICT_INVALID_IX
      ∧ key = d.keys.getD
          (d.cells.getD (dict_get_cell_ix_loop d key hash cell_ix n i).1 DICT_INVALID_IX)
          [] := by
  intro n
  induction n with
  | zero => intro i h; exact absurd h (by simp [dict_get_cell_ix_loop])
  | succ n ih =>
    intro i
    unfold dict_get_cell_ix_loop
    simp only [dict_mask_eq d.cell_capacity e _ hcap he]
    split
    · intro h; exact absurd h (by simp)
    · next hc =>
      split
      · exact ih (i + 1)
      · split
        · next hk =>
          intro _
          refine ⟨Nat.mod_lt _ (by rw [hcap]; exact Nat.two_pow_pos e), hc, hk⟩
        · exact ih (i + 1)

end collections

namespace collections

theorem dict_ok_cap_pos (d : dict_t_) (hole : Nat) (hok : dict_ok d hole) :
    0 < d.cell_capacity ∧ d.cell_capacity ≤ 2 ^ 31 := by
  obtain ⟨e, hcap, he⟩ := hok.cap_pow
  rw [hcap]
  exact ⟨Nat.two_pow_pos e, Nat.pow_le_pow_right (by decide) he⟩

theorem dict_ok_item_valid (d : dict_t_) (hole : Nat) (hok : dict_ok d hole) (j : Nat)
    (hj : j < d.count) : j ≠ DICT_INVALID_IX := by
  have h1 := hok.count_le
  have h2 := hok.item_lt
  have h3 := (dict_ok_cap_pos d hole hok).2
  unfold DICT_INVALID_IX
  omega

theorem dict_home_lt (d : dict_t_) (hole : Nat) (hok : dict_ok d hole) (j : Nat) :
    dict_home d j < d.cell_capacity :=
  Nat.mod_lt _ (dict_ok_cap_pos d hole hok).1

/-- The lookup of the key of an item finds the cell of the item. -/
theorem dict_get_cell_ix_item (d : dict_t_) (hok : dict_ok d d.cell_capacity) (j : Nat)
    (hj : j < d.count) :
    dict_get_cell_ix d (d.keys.getD j []) (hash_string (d.keys.getD j []))
      = (d.cell_ixs.getD j 0, true) := by
  obtain ⟨e, hcap, he⟩ := hok.cap_pow
  have he32 : e ≤ 32 := by omega
  obtain ⟨i1, i2, i3, i4⟩ := hok.items_ok j hj
  have hh := dict_home_lt d _ hok j
  have hhome : hash_string (d.keys.getD j []) % d.cell_capacity = dict_home d j := by
    unfold dict_home
    rw [i4]
  unfold dict_get_cell_ix
  simp only [dict_home_eq d.cell_capacity e _ hcap he32, hhome]
  have ht := probe_dist_lt d.cell_capacity (dict_home d j) (d.cell_ixs.getD j 0) hh i1
  have hpos := probe_pos_dist d.cell_capacity (dict_home d j) (d.cell_ixs.getD j 0) hh i1
  have key := dict_get_cell_ix_loop_found d (d.keys.getD j []) (hash_string (d.keys.getD j []))
    (dict_home d j) e hcap he32 d.cell_capacity 0
    (probe_dist d.cell_capacity (dict_home d j) (d.cell_ixs.getD j 0)) (Nat.zero_le _)
    (by omega)
  rw [hpos] at key
  refine key ?_ ?_ ?_ ?_
  · intro s _ hs
    have hp : (dict_home d j + s) % d.cell_capacity < d.cell_capacity :=
      Nat.mod_lt _ (by omega)
    have hd := probe_dist_pos d.cell_capacity (dict_home d j) s hh (by omega)
    have hocc := hok.path j hj _ hp (by omega) (by rw [hd]; exact hs)
    refine ⟨hocc, ?_⟩
    intro hm
    rcases hok.cells_ok _ hp (by omega) with hc | ⟨hc1, hc2⟩
    · exact hocc hc
    · have hjj := hok.distinct _ _ hj hc1 hm.2
      rw [← hjj] at hc2
      rw [hc2, probe_dist_pos d.cell_capacity (dict_home d j) s hh (by omega)] at hs
      omega
  · rw [i3]
    exact dict_ok_item_valid d _ hok j hj
  · rw [i3, i4]
  · rw [i3]

/-- A key that the lookup finds is the key of an item. -/
theorem dict_get_cell_ix_stored (d : dict_t_) (hok : dict_ok d d.cell_capacity)
    (key : List Nat) (hash : Nat) (h : (dict_get_cell_ix d key hash).2 = true) :
    d.cells.getD (dict_get_cell_ix d key hash).1 DICT_INVALID_IX < d.count
    ∧ d.keys.getD (d.cells.getD (dict_get_cell_ix d key hash).1 DICT_INVALID_IX) [] = key
    ∧ (dict_get_cell_ix d key hash).1 < d.cell_capacity := by
  obtain ⟨e, hcap, he⟩ := hok.cap_pow
  unfold dict_get_cell_ix at h ⊢
  obtain ⟨h1, h2, h3⟩ := dict_get_cell_ix_loop_true d key hash _ e hcap (by omega) _ _ h
  rcases hok.cells_ok _ h1 (by omega) with hc | ⟨hc1, _⟩
  · exact absurd hc h2
  · exact ⟨hc1, h3.symm, h1⟩

theorem dict_get_item (d : dict_t_) (hok : dict_ok d d.cell_capacity) (j : Nat)
    (hj : j < d.count) : dict_get d (d.keys.getD j []) = d.values.getD j 0 := by
  unfold dict_get
  simp only [dict_get_cell_ix_item d hok j hj]
  rw [if_neg (by decide), (hok.items_ok j hj).2.2.1]

theorem dict_get_absent (d : dict_t_) (hok : dict_ok d d.cell_capacity) (key : List Nat)
    (habs : ∀ j, j < d.count → d.keys.getD j [] ≠ key) : dict_get d key = 0 := by
  unfold dict_get
  simp only
  split
  · rfl
  · next hf =>
    have hf2 : (dict_get_cell_ix d key (hash_string key)).2 = true := by
      cases hb : (dict_get_cell_ix d key (hash_string key)).2
      · exact absurd hb hf
      · rfl
    obtain ⟨h1, h2, _⟩ := dict_get_cell_ix_stored d hok key _ hf2
    exact absurd h2 (habs _ h1)

/-- With an empty cell in the table, the lookup of a key that no item has ends at the
first empty cell after the home cell of the key. -/
theorem dict_get_cell_ix_absent (d : dict_t_) (hok : dict_ok d d.cell_capacity)
    (key : List Nat) (habs : ∀ j, j < d.count → d.keys.getD j [] ≠ key)
    (p0 : Nat) (hp0 : p0 < d.cell_capacity)
    (hempty : d.cells.getD p0 DICT_INVALID_IX = DICT_INVALID_IX) :
    (dict_get_cell_ix d key (hash_string key)).2 = false
    ∧ (dict_get_cell_ix d key (hash_string key)).1 < d.cell_capacity
    ∧ d.cells.getD (dict_get_cell_ix d key (hash_string key)).1 DICT_INVALID_IX
        = DICT_INVALID_IX
    ∧ ∀ p, p < d.cell_capacity →
        probe_dist d.cell_capacity (hash_string key % d.cell_capacity) p
          < probe_dist d.cell_capacity (hash_string key % d.cell_capacity)
              (dict_get_cell_ix d key (hash_string key)).1 →
        d.cells.getD p DICT_INVALID_IX ≠ DICT_INVALID_IX := by
  obtain ⟨e, hcap, he⟩ := hok.cap_pow
  have he32 : e ≤ 32 := by omega
  have hpos := (dict_ok_cap_pos d _ hok).1
  have hh : hash_string key % d.cell_capacity < d.cell_capacity := Nat.mod_lt _ hpos
  generalize hhdef : hash_string key % d.cell_capacity = h at hh
  have hex : ∃ t, t < d.cell_capacity
      ∧ d.cells.getD ((h + t) % d.cell_capacity) DICT_INVALID_IX = DICT_INVALID_IX :=
    ⟨probe_dist d.cell_capacity h p0, probe_dist_lt _ _ _ hh hp0, by
      rw [probe_pos_dist _ _ _ hh hp0]; exact hempty⟩
  have hmin : ∀ m, m < Nat.find hex → ¬ (m < d.cell_capacity
      ∧ d.cells.getD ((h + m) % d.cell_capacity) DICT_INVALID_IX = DICT_INVALID_IX) :=
    fun m hm => Nat.find_min hex hm
  obtain ⟨ht1, ht2⟩ := Nat.find_spec hex
  generalize Nat.find hex = t at hmin ht1 ht2
  have hskip : ∀ s, 0 ≤ s → s < t →
      d.cells.getD ((h + s) % d.cell_capacity) DICT_INVALID_IX ≠ DICT_INVALID_IX
      ∧ ¬ (hash_string key = d.hashes.getD
            (d.cells.getD ((h + s) % d.cell_capacity) DICT_INVALID_IX) 0
          ∧ key = d.keys.getD
            (d.cells.getD ((h + s) % d.cell_capacity) DICT_INVALID_IX) []) := by
    intro s _ hs
    have hocc : d.cells.getD ((h + s) % d.cell_capacity) DICT_INVALID_IX
        ≠ DICT_INVALID_IX := fun hc => hmin s hs ⟨by omega, hc⟩
    refine ⟨hocc, ?_⟩
    intro hm
    rcases hok.cells_ok _ (Nat.mod_lt (h + s) hpos) (by
      have := Nat.mod_lt (h + s) hpos
      omega) with hc | ⟨hc1, _⟩
    · exact hocc hc
    · exact habs _ hc1 hm.2.symm
  have hloop := dict_get_cell_ix_loop_miss d key (hash_string key) h e hcap he32
    d.cell_capacity 0 t (Nat.zero_le _) (by omega) hskip ht2
  have hres : dict_get_cell_ix d key (hash_string key) = ((h + t) % d.cell_capacity, false) := by
    unfold dict_get_cell_ix
    simp only [dict_home_eq d.cell_capacity e _ hcap he32, hhdef]
    exact hloop
  rw [hres]
  refine ⟨rfl, Nat.mod_lt _ hpos, ht2, ?_⟩
  intro p hp hd
  rw [probe_dist_pos _ _ _ hh ht1] at hd
  have := (hskip (probe_dist d.cell_capacity h p) (Nat.zero_le _) hd).1
  rw [probe_pos_dist _ _ _ hh hp] at this
  exact this

end collections

namespace collections

theorem getD_set_ite {α : Type} (l : List α) (i j : Nat) (x d : α) (h : i < l.length) :
    (l.set i x).getD j d = if j = i then x else l.getD j d := by
  split
  · next hj => rw [hj]; exact getD_set_same l i x d h
  · next hj => exact getD_set_other l i j x d (fun hc => hj hc.symm)

theorem dict_wf_empty_cell (d : dict_t_) (hwf : dict_wf d) :
    ∃ p0, p0 < d.cell_capacity ∧ d.cells.getD p0 DICT_INVALID_IX = DICT_INVALID_IX := by
  obtain ⟨hok, _, hcount⟩ := hwf
  have h1 := hok.count_le
  have h2 := hok.item_lt
  obtain ⟨idx, h3, h4⟩ := exists_empty_cell d.cells DICT_INVALID_IX (by
    show d.cells.count DICT_INVALID_IX > 0
    omega)
  exact ⟨idx, by rw [← hok.cells_len]; exact h3, h4⟩

/-- What `dict_append` leaves in the arrays. -/
theorem dict_append_fields (d : dict_t_) (hole : Nat) (hok : dict_ok d hole) (c : Nat)
    (key : List Nat) (value hash : Nat) (hc : c < d.cell_capacity)
    (hroom : d.count < d.item_capacity) :
    (dict_append d c key value hash).count = d.count + 1
    ∧ (dict_append d c key value hash).cell_capacity = d.cell_capacity
    ∧ (dict_append d c key value hash).item_capacity = d.item_capacity
    ∧ (dict_append d c key value hash).cells.length = d.cell_capacity
    ∧ (dict_append d c key value hash).keys.length = d.item_capacity
    ∧ (dict_append d c key value hash).values.length = d.item_capacity
    ∧ (dict_append d c key value hash).hashes.length = d.item_capacity
    ∧ (dict_append d c key value hash).cell_ixs.length = d.item_capacity
    ∧ (∀ p, (dict_append d c key value hash).cells.getD p DICT_INVALID_IX
        = if p = c then d.count else d.cells.getD p DICT_INVALID_IX)
    ∧ (∀ j, (dict_append d c key value hash).keys.getD j []
        = if j = d.count then key else d.keys.getD j [])
    ∧ (∀ j, (dict_append d c key value hash).values.getD j 0
        = if j = d.count then value else d.values.getD j 0)
    ∧ (∀ j, (dict_append d c key value hash).hashes.getD j 0
        = if j = d.count then hash else d.hashes.getD j 0)
    ∧ (∀ j, (dict_append d c key value hash).cell_ixs.getD j 0
        = if j = d.count then c else d.cell_ixs.getD j 0) := by
  have h1 := hok.item_lt
  have h2 := (dict_ok_cap_pos d hole hok).2
  unfold dict_append
  refine ⟨?_, rfl, rfl, ?_, ?_, ?_, ?_, ?_, ?_, ?_, ?_, ?_, ?_⟩
  · show (d.count + 1) % 2 ^ 32 = d.count + 1
    exact Nat.mod_eq_of_lt (by omega)
  · show (d.cells.set c d.count).length = _
    rw [List.length_set, hok.cells_len]
  · show (d.keys.set d.count key).length = _
    rw [List.length_set, hok.keys_len]
  · show (d.values.set d.count value).length = _
    rw [List.length_set, hok.values_len]
  · show (d.hashes.set d.count hash).length = _
    rw [List.length_set, hok.hashes_len]
  · show (d.cell_ixs.set d.count c).length = _
    rw [List.length_set, hok.cell_ixs_len]
  · intro p
    exact getD_set_ite d.cells c p d.count DICT_INVALID_IX (by rw [hok.cells_len]; exact hc)
  · intro j
    exact getD_set_ite d.keys d.count j key [] (by rw [hok.keys_len]; exact hroom)
  · intro j
    exact getD_set_ite d.values d.count j value 0 (by rw [hok.values_len]; exact hroom)
  · intro j
    exact getD_set_ite d.hashes d.count j hash 0 (by rw [hok.hashes_len]; exact hroom)
  · intro j
    exact getD_set_ite d.cell_ixs d.count j c 0 (by rw [hok.cell_ixs_len]; exact hroom)

/-- The insertion of a key that no item has, at the cell where its lookup ends, keeps the
invariant. -/
theorem dict_append_wf (d : dict_t_) (hwf : dict_wf d) (key : List Nat) (value : Nat)
    (habs : ∀ j, j < d.count → d.keys.getD j [] ≠ key)
    (hroom : d.count < d.item_capacity) :
    dict_wf (dict_append d (dict_get_cell_ix d key (hash_string key)).1 key value
      (hash_string key)) := by
  obtain ⟨p0, hp0, hempty⟩ := dict_wf_empty_cell d hwf
  obtain ⟨hok, hitem, hcount⟩ := hwf
  obtain ⟨-, hc, hcempty, hpath⟩ := dict_get_cell_ix_absent d hok key habs p0 hp0 hempty
  generalize (dict_get_cell_ix d key (hash_string key)).1 = c at hc hcempty hpath
  obtain ⟨f1, f2, f3, f4, f5, f6, f7, f8, g1, g2, g3, g4, g5⟩ :=
    dict_append_fields d _ hok c key value (hash_string key) hc hroom
  have hNv : d.count ≠ DICT_INVALID_IX := by
    have h1 := hok.item_lt
    have h2 := (dict_ok_cap_pos d _ hok).2
    unfold DICT_INVALID_IX
    omega
  have hcell_ne : ∀ j, j < d.count → d.cell_ixs.getD j 0 ≠ c := by
    intro j hj hjc
    have := (hok.items_ok j hj).2.2.1
    rw [hjc, hcempty] at this
    exact dict_ok_item_valid d _ hok j hj this.symm
  generalize dict_append d c key value (hash_string key) = d2 at *
  have hhome : ∀ j, j < d.count → dict_home d2 j = dict_home d j := by
    intro j hj
    unfold dict_home
    rw [g4, if_neg (by omega), f2]
  refine ⟨⟨?_, ?_, ?_, ?_, ?_, ?_, ?_, ?_, ?_, ?_, ?_, ?_⟩, ?_, ?_⟩
  · rw [f2]; exact hok.cap_pow
  · rw [f4, f2]
  · rw [f5, f3]
  · rw [f6, f3]
  · rw [f7, f3]
  · rw [f8, f3]
  · rw [f1, f3]; omega
  · rw [f2, f3]; exact hok.item_lt
  · intro j hj
    rw [f1] at hj
    rw [f2, g5, g4, g2, g1]
    by_cases hjn : j = d.count
    · rw [if_pos hjn, if_pos hjn, if_pos hjn, if_pos rfl]
      exact ⟨hc, by omega, hjn.symm, rfl⟩
    · rw [if_neg hjn, if_neg hjn, if_neg hjn, if_neg (hcell_ne j (by omega))]
      exact hok.items_ok j (by omega)
  · intro p hp _
    rw [f2] at hp
    rw [g1, f1]
    by_cases hpc : p = c
    · right
      rw [if_pos hpc, g5, if_pos rfl]
      exact ⟨by omega, hpc.symm⟩
    · rw [if_neg hpc]
      rcases hok.cells_ok p hp (by omega) with h1 | ⟨h1, h2⟩
      · left; exact h1
      · right
        rw [g5, if_neg (by omega)]
        exact ⟨by omega, h2⟩
  · intro i j hi hj hk
    rw [f1] at hi hj
    rw [g2, g2] at hk
    by_cases hin : i = d.count
    · by_cases hjn : j = d.count
      · omega
      · rw [if_pos hin, if_neg hjn] at hk
        exact absurd hk.symm (habs j (by omega))
    · by_cases hjn : j = d.count
      · rw [if_neg hin, if_pos hjn] at hk
        exact absurd hk (habs i (by omega))
      · rw [if_neg hin, if_neg hjn] at hk
        exact hok.distinct i j (by omega) (by omega) hk
  · intro j hj p hp _ hd
    rw [f1] at hj
    rw [f2] at hp hd
    rw [g1]
    by_cases hpc : p = c
    · rw [if_pos hpc]; exact hNv
    · rw [if_neg hpc]
      by_cases hjn : j = d.count
      · have hh : dict_home d2 j = hash_string key % d.cell_capacity := by
          unfold dict_home
          rw [g4, if_pos hjn, f2]
        rw [hh, g5, if_pos hjn] at hd
        exact hpath p hp hd
      · rw [hhome j (by omega), g5, if_neg hjn] at hd
        exact hok.path j (by omega) p hp (by omega) hd
  · rw [f3, f2]; exact hitem
  · rw [f1, f2]
    have hlen : c < d.cells.length := by rw [hok.cells_len]; exact hc
    have hset : d2.cells = d.cells.set c d.count := by
      apply List.ext_getElem?
      intro n
      have h1 := g1 n
      rw [List.getD_eq_getElem?_getD, List.getD_eq_getElem?_getD] at h1
      by_cases hn : n < d.cells.length
      · have hn2 : n < d2.cells.length := by rw [f4, ← hok.cells_len]; exact hn
        rw [List.getElem?_eq_getElem hn2, List.getElem?_set, List.getElem?_eq_getElem hn]
        rw [List.getElem?_eq_getElem hn2, List.getElem?_eq_getElem hn] at h1
        simp only [Option.getD_some] at h1
        rw [h1]
        by_cases hnc : n = c
        · rw [if_pos hnc, if_pos hnc.symm, if_pos (by omega)]
        · rw [if_neg hnc, if_neg (fun h => hnc h.symm)]
      · have hn2 : ¬ n < d2.cells.length := by rw [f4, ← hok.cells_len]; exact hn
        rw [List.getElem?_eq_none (by omega), List.getElem?_eq_none (by
          rw [List.length_set]; omega)]
    have : d2.cells.count DICT_INVALID_IX + 1 = d.cells.count DICT_INVALID_IX := by
      rw [hset, List.count_set _ _ _ _ hlen]
      have hg : d.cells[c] = DICT_INVALID_IX := by
        rw [← hcempty, List.getD_eq_getElem _ _ hlen]
      rw [hg]
      simp only [beq_self_eq_true, if_true]
      have : (d.count == DICT_INVALID_IX) = false := by
        simpa using hNv
      rw [this]
      simp only [Bool.false_eq_true, if_false]
      have hpos : 0 < d.cells.count DICT_INVALID_IX := by omega
      omega
    omega

end collections

namespace collections

theorem dict_set_internal_found (fuel : Nat) (d : dict_t_) (ckey : List Nat)
    (mkey : Option (List Nat)) (value : Nat)
    (h : (dict_get_cell_ix d ckey (hash_string ckey)).2 = true) :
    dict_set_internal (fuel + 1) d ckey mkey value
      = some (true,
          { d with
            values := d.values.set
              (d.cells.getD (dict_get_cell_ix d ckey (hash_string ckey)).1 DICT_INVALID_IX)
              value }) := by
  unfold dict_set_internal
  simp only [h, if_true]

theorem dict_set_internal_room (fuel : Nat) (d : dict_t_) (ckey : List Nat)
    (mkey : Option (List Nat)) (value : Nat) (hm : mkey = none ∨ mkey = some ckey)
    (h : (dict_get_cell_ix d ckey (hash_string ckey)).2 = false)
    (hroom : d.count < d.item_capacity) :
    dict_set_internal (fuel + 1) d ckey mkey value
      = some (true, dict_append d (dict_get_cell_ix d ckey (hash_string ckey)).1 ckey value
          (hash_string ckey)) := by
  unfold dict_set_internal
  simp only [h, Bool.false_eq_true, if_false, ge_iff_le, if_neg (not_le.mpr hroom),
    not_true_eq_false]
  rcases hm with hm | hm <;> rw [hm]

theorem dict_set_internal_grow (fuel : Nat) (d : dict_t_) (ckey : List Nat)
    (mkey : Option (List Nat)) (value : Nat) (hm : mkey = none ∨ mkey = some ckey)
    (h : (dict_get_cell_ix d ckey (hash_string ckey)).2 = false)
    (hfull : d.count ≥ d.item_capacity) :
    dict_set_internal (fuel + 1) d ckey mkey value
      = match dict_grow_and_rehash_with (dict_set_internal fuel) d with
        | none => none
        | some (ok, nd) =>
          if ¬ ok then some (false, nd)
          else some (true, dict_append nd (dict_get_cell_ix nd ckey (hash_string ckey)).1 ckey
            value (hash_string ckey)) := by
  unfold dict_set_internal
  simp only [h, Bool.false_eq_true, if_false, if_pos hfull]
  cases hg : dict_grow_and_rehash_with (dict_set_internal fuel) d with
  | none => rfl
  | some r =>
    obtain ⟨ok, nd⟩ := r
    cases ok
    · simp
    · rcases hm with hm | hm <;> rw [hm] <;> simp

theorem dict_append_cap (d : dict_t_) (c : Nat) (key : List Nat) (value hash : Nat) :
    (dict_append d c key value hash).cell_capacity = d.cell_capacity := rfl

/-- A table that has lost its cells keeps none: once `cell_capacity * 2` has wrapped to 0,
`cell_capacity` stays 0. -/
theorem dict_rehash_loop_cap_zero
    (set : dict_t_ → List Nat → Option (List Nat) → Nat → Option (Bool × dict_t_))
    (hset : ∀ nd k mk v r, nd.cell_capacity = 0 → set nd k mk v = some r →
      r.2.cell_capacity = 0)
    (d : dict_t_) :
    ∀ (n i : Nat) (nd : dict_t_) (r : Bool × dict_t_), nd.cell_capacity = 0 →
      dict_rehash_loop set d n i nd = some r → r.2.cell_capacity = 0 := by
  intro n
  induction n with
  | zero =>
    intro i nd r hnd h
    unfold dict_rehash_loop at h
    rw [← Option.some.inj h]
    exact hnd
  | succ n ih =>
    intro i nd r hnd h
    unfold dict_rehash_loop at h
    simp only at h
    cases hs : set nd (d.keys.getD i []) (some (d.keys.getD i [])) (d.values.getD i 0) with
    | none => rw [hs] at h; exact absurd h (by simp)
    | some r2 =>
      have hr2 := hset _ _ _ _ _ hnd hs
      rw [hs] at h
      obtain ⟨ok, nd2⟩ := r2
      simp only at h
      split at h
      · rw [← Option.some.inj h]
        exact hr2
      · exact ih _ _ _ hr2 h

theorem dict_set_internal_cap_zero :
    ∀ (fuel : Nat) (d : dict_t_) (ckey : List Nat) (mkey : Option (List Nat)) (value : Nat)
      (r : Bool × dict_t_), d.cell_capacity = 0 →
      dict_set_internal fuel d ckey mkey value = some r → r.2.cell_capacity = 0 := by
  intro fuel
  induction fuel with
  | zero =>
    intro d ckey mkey value r _ h
    unfold dict_set_internal at h
    exact absurd h (by simp)
  | succ fuel ih =>
    intro d ckey mkey value r hd h
    unfold dict_set_internal at h
    simp only at h
    split at h
    · rw [← Option.some.inj h]
      exact hd
    · split at h
      · exact absurd h (by simp)
      · next ok nd cell_ix hg =>
        have hnd : nd.cell_capacity = 0 := by
          split at hg
          · cases hgr : dict_grow_and_rehash_with (dict_set_internal fuel) d with
            | none => rw [hgr] at hg; exact absurd hg (by simp)
            | some r2 =>
              have hr2 : r2.2.cell_capacity = 0 := by
                unfold dict_grow_and_rehash_with at hgr
                simp only at hgr
                cases hl : dict_rehash_loop (dict_set_internal fuel) d d.count 0
                    (dict_init (d.cell_capacity * 2 % 2 ^ 32)) with
                | none => rw [hl] at hgr; exact absurd hgr (by simp)
                | some r3 =>
                  have hr3 := dict_rehash_loop_cap_zero (dict_set_internal fuel)
                    (fun nd k mk v r hnd hs => ih nd k mk v r hnd hs) d d.count 0
                    (dict_init (d.cell_capacity * 2 % 2 ^ 32)) r3 (by
                      show d.cell_capacity * 2 % 2 ^ 32 = 0
                      rw [hd]
                      rfl) hl
                  rw [hl] at hgr
                  obtain ⟨ok3, nd3⟩ := r3
                  simp only at hgr
                  split at hgr
                  · rw [← Option.some.inj hgr]; exact hd
                  · rw [← Option.some.inj hgr]; exact hr3
              rw [hgr] at hg
              obtain ⟨ok2, nd2⟩ := r2
              simp only at hg
              split at hg
              · simp only [Option.some.injEq, Prod.mk.injEq] at hg
                rw [← hg.2.1]; exact hr2
              · simp only [Option.some.injEq, Prod.mk.injEq] at hg
                rw [← hg.2.1]; exact hr2
          · simp only [Option.some.injEq, Prod.mk.injEq] at hg
            rw [← hg.2.1]; exact hd
        split at h
        · rw [← Option.some.inj h]; exact hnd
        · rw [← Option.some.inj h, dict_append_cap]; exact hnd

end collections

namespace collections

theorem dict_init_wf (e : Nat) (he : e ≤ 31) : dict_wf (dict_init (2 ^ e)) := by
  have hpos : 0 < 2 ^ e := Nat.two_pow_pos e
  have hlt : 2 ^ e * 11744051 / 16777216 < 2 ^ e := by
    rw [Nat.div_lt_iff_lt_mul (by decide)]
    omega
  refine ⟨⟨⟨e, rfl, he⟩, ?_, ?_, ?_, ?_, ?_, Nat.zero_le _, hlt, ?_, ?_, ?_, ?_⟩, rfl, ?_⟩
  · simp [dict_init]
  · simp [dict_init]
  · simp [dict_init]
  · simp [dict_init]
  · simp [dict_init]
  · intro j hj
    exact absurd hj (Nat.not_lt_zero _)
  · intro p _ _
    left
    exact getD_replicate_self _ _ _
  · intro i j hi
    exact absurd hi (Nat.not_lt_zero _)
  · intro j hj
    exact absurd hj (Nat.not_lt_zero _)
  · show (List.replicate (2 ^ e) DICT_INVALID_IX).count DICT_INVALID_IX + 0 = 2 ^ e
    rw [List.count_replicate_self, Nat.add_zero]

theorem dict_wf_set_value (d : dict_t_) (hwf : dict_wf d) (i value : Nat) :
    dict_wf { d with values := d.values.set i value } := by
  obtain ⟨hok, h2, h3⟩ := hwf
  refine ⟨⟨hok.cap_pow, hok.cells_len, hok.keys_len, ?_, hok.hashes_len, hok.cell_ixs_len,
    hok.count_le, hok.item_lt, hok.items_ok, hok.cells_ok, hok.distinct, hok.path⟩, h2, h3⟩
  show (d.values.set i value).length = d.item_capacity
  rw [List.length_set]
  exact hok.values_len

/-- A key that the lookup does not find is the key of no item. -/
theorem dict_not_found_absent (d : dict_t_) (hok : dict_ok d d.cell_capacity) (key : List Nat)
    (h : (dict_get_cell_ix d key (hash_string key)).2 = false) :
    ∀ j, j < d.count → d.keys.getD j [] ≠ key := by
  intro j hj hk
  have := dict_get_cell_ix_item d hok j hj
  rw [hk] at this
  rw [this] at h
  exact Bool.noConfusion h

/-- The copy loop of `dict_grow_and_rehash` into a table of twice the cells: it does not
fail, and the new table has the keys of the old one. -/
theorem dict_rehash_loop_wf (fuel : Nat) (d : dict_t_) (hwf : dict_wf d) :
    ∀ (n i : Nat) (nd : dict_t_), i + n = d.count → dict_wf nd → nd.count = i →
      nd.cell_capacity = d.cell_capacity * 2 →
      (∀ j, j < i → nd.keys.getD j [] = d.keys.getD j []) →
      dict_rehash_loop (dict_set_internal fuel) d n i nd = none
      ∨ ∃ nd2, dict_rehash_loop (dict_set_internal fuel) d n i nd = some (true, nd2)
        ∧ dict_wf nd2 ∧ nd2.count = d.count ∧ nd2.cell_capacity = d.cell_capacity * 2
        ∧ (∀ j, j < d.count → nd2.keys.getD j [] = d.keys.getD j []) := by
  intro n
  induction n with
  | zero =>
    intro i nd hin hnd hcount hcap hkeys
    right
    refine ⟨nd, ?_, hnd, by omega, hcap, ?_⟩
    · unfold dict_rehash_loop; rfl
    · intro j hj
      exact hkeys j (by omega)
  | succ n ih =>
    intro i nd hin hnd hcount hcap hkeys
    unfold dict_rehash_loop
    simp only
    cases fuel with
    | zero =>
      left
      unfold dict_set_internal
      rfl
    | succ fuel =>
      have habs : ∀ j, j < nd.count → nd.keys.getD j [] ≠ d.keys.getD i [] := by
        intro j hj hk
        rw [hcount] at hj
        rw [hkeys j hj] at hk
        have := hwf.1.distinct j i (by omega) (by omega) hk
        omega
      have hnf : (dict_get_cell_ix nd (d.keys.getD i []) (hash_string (d.keys.getD i []))).2
          = false := by
        cases hb : (dict_get_cell_ix nd (d.keys.getD i [])
            (hash_string (d.keys.getD i []))).2
        · rfl
        · obtain ⟨h1, h2, _⟩ := dict_get_cell_ix_stored nd hnd.1 _ _ hb
          exact absurd h2 (habs _ h1)
      have hroom : nd.count < nd.item_capacity := by
        rw [hnd.2.1, hcap, hcount]
        have h1 := hwf.1.count_le
        have h2 := hwf.2.1
        have h3 : d.cell_capacity * 11744051 / 16777216
            ≤ d.cell_capacity * 2 * 11744051 / 16777216 :=
          Nat.div_le_div_right (by omega)
        omega
      rw [dict_set_internal_room fuel nd _ _ _ (Or.inr rfl) hnf hroom]
      simp only [not_true_eq_false, if_false]
      have hwf2 := dict_append_wf nd hnd (d.keys.getD i []) (d.values.getD i 0) habs hroom
      obtain ⟨p0, hp0, hempty⟩ := dict_wf_empty_cell nd hnd
      obtain ⟨-, hcc, -, -⟩ := dict_get_cell_ix_absent nd hnd.1 _ habs p0 hp0 hempty
      obtain ⟨f1, f2, -, -, -, -, -, -, -, g2, -, -, -⟩ := dict_append_fields nd _ hnd.1
        (dict_get_cell_ix nd (d.keys.getD i []) (hash_string (d.keys.getD i []))).1
        (d.keys.getD i []) (d.values.getD i 0) (hash_string (d.keys.getD i [])) hcc hroom
      refine ih (i + 1) _ (by omega) hwf2 (by rw [f1, hcount]) (by rw [f2, hcap]) ?_
      intro j hj
      rw [g2, hcount]
      by_cases hji : j = i
      · rw [if_pos hji, hji]
      · rw [if_neg hji]
        exact hkeys j (by omega)

theorem dict_item_capacity_grows (cap : Nat) (h0 : cap ≠ 0) :
    cap * 11744051 / 16777216 < cap * 2 * 11744051 / 16777216 := by
  rw [Nat.div_lt_iff_lt_mul (by decide)]
  have hq := Nat.div_add_mod (cap * 2 * 11744051) 16777216
  have hr := Nat.mod_lt (cap * 2 * 11744051) (show 16777216 > 0 by decide)
  generalize cap * 2 * 11744051 / 16777216 = q at *
  generalize cap * 2 * 11744051 % 16777216 = r at *
  omega

/-- A call of `dict_set_internal` that returns true in a table that keeps its cells keeps
the invariant. -/
theorem dict_set_internal_wf (fuel : Nat) (d : dict_t_) (hwf : dict_wf d) (ckey : List Nat)
    (mkey : Option (List Nat)) (value : Nat) (hm : mkey = none ∨ mkey = some ckey)
    (d2 : dict_t_) (h : dict_set_internal fuel d ckey mkey value = some (true, d2))
    (hcap : d2.cell_capacity ≠ 0) : dict_wf d2 := by
  cases fuel with
  | zero =>
    unfold dict_set_internal at h
    exact absurd h (by simp)
  | succ fuel =>
    cases hf : (dict_get_cell_ix d ckey (hash_string ckey)).2 with
    | true =>
      rw [dict_set_internal_found fuel d ckey mkey value hf] at h
      simp only [Option.some.injEq, Prod.mk.injEq, true_and] at h
      rw [← h]
      exact dict_wf_set_value d hwf _ _
    | false =>
      have habs := dict_not_found_absent d hwf.1 ckey hf
      by_cases hroom : d.count < d.item_capacity
      · rw [dict_set_internal_room fuel d ckey mkey value hm hf hroom] at h
        simp only [Option.some.injEq, Prod.mk.injEq, true_and] at h
        rw [← h]
        exact dict_append_wf d hwf ckey value habs hroom
      · rw [dict_set_internal_grow fuel d ckey mkey value hm hf (by omega)] at h
        obtain ⟨e, hcape, he⟩ := hwf.1.cap_pow
        unfold dict_grow_and_rehash_with at h
        simp only at h
        by_cases he30 : e ≤ 30
        · have hnew : d.cell_capacity * 2 % 2 ^ 32 = 2 ^ (e + 1) := by
            have : 2 ^ (e + 1) ≤ 2 ^ 31 := Nat.pow_le_pow_right (by decide) (by omega)
            rw [hcape, ← Nat.pow_succ]
            exact Nat.mod_eq_of_lt (by omega)
          rw [hnew] at h
          have hinit := dict_init_wf (e + 1) (by omega)
          rcases dict_rehash_loop_wf fuel d hwf d.count 0 (dict_init (2 ^ (e + 1)))
            (by omega) hinit rfl (by
              show 2 ^ (e + 1) = d.cell_capacity * 2
              rw [hcape, Nat.pow_succ]) (fun j hj => absurd hj (Nat.not_lt_zero _))
            with hl | ⟨nd2, hl, hwf2, hc2, hcap2, hk2⟩
          · rw [hl] at h
            exact absurd h (by simp)
          · rw [hl] at h
            simp only [not_true_eq_false, if_false, Option.some.injEq, Prod.mk.injEq,
              true_and] at h
            rw [← h]
            have habs2 : ∀ j, j < nd2.count → nd2.keys.getD j [] ≠ ckey := by
              intro j hj
              rw [hc2] at hj
              rw [hk2 j hj]
              exact habs j hj
            have hroom2 : nd2.count < nd2.item_capacity := by
              rw [hwf2.2.1, hcap2, hc2]
              have h1 := hwf.1.count_le
              have h2 := hwf.2.1
              have h3 := dict_item_capacity_grows d.cell_capacity
                (by have := (dict_ok_cap_pos d _ hwf.1).1; omega)
              omega
            exact dict_append_wf nd2 hwf2 ckey value habs2 hroom2
        · exfalso
          have hnew : d.cell_capacity * 2 % 2 ^ 32 = 0 := by
            have he31 : e = 31 := by omega
            rw [hcape, he31]
            rfl
          rw [hnew] at h
          cases hl : dict_rehash_loop (dict_set_internal fuel) d d.count 0 (dict_init 0) with
          | none => rw [hl] at h; exact absurd h (by simp)
          | some r3 =>
            have hr3 := dict_rehash_loop_cap_zero (dict_set_internal fuel)
              (fun nd k mk v r hnd hs => dict_set_internal_cap_zero fuel nd k mk v r hnd hs)
              d d.count 0 (dict_init 0) r3 rfl hl
            rw [hl] at h
            obtain ⟨ok3, nd3⟩ := r3
            simp only at h
            cases ok3
            · simp at h
            · simp only [not_true_eq_false, if_false, Option.some.injEq, Prod.mk.injEq,
                true_and] at h
              apply hcap
              rw [← h, dict_append_cap]
              exact hr3

/-- The dictionaries built by `dict_make_` and `dict_set` satisfy the invariant as long as
`cell_capacity` has not wrapped to 0. -/
theorem dict_built_wf (d : dict_t_) (hb : dict_built d) (hcap : d.cell_capacity ≠ 0) :
    dict_wf d := by
  induction hb with
  | make => exact dict_init_wf 5 (by decide)
  | set fuel d key value d2 _ hset ih =>
    have hd : d.cell_capacity ≠ 0 := by
      intro h0
      exact hcap (dict_set_internal_cap_zero fuel d key none value (true, d2) h0 hset)
    exact dict_set_internal_wf fuel d (ih hd) key none value (Or.inl rfl) d2 hset hcap

end collections

/-! ### Removal from the string dictionary -/

namespace collections

theorem u32_pred_of_pos (x : Nat) (h1 : 0 < x) (h2 : x ≤ 2 ^ 32) : u32_pred x = x - 1 := by
  unfold u32_pred
  rw [show x + 0xffffffff = (x - 1) + 2 ^ 32 by omega, Nat.add_mod_right]
  exact Nat.mod_eq_of_lt (by omega)

theorem dict_remove_item_eq (d : dict_t_) (j0 L : Nat) :
    (dict_remove_item d j0 L).count = u32_pred d.count
    ∧ (dict_remove_item d j0 L).cell_capacity = d.cell_capacity
    ∧ (dict_remove_item d j0 L).item_capacity = d.item_capacity
    ∧ (dict_remove_item d j0 L).cells
        = (if j0 < L then
            d.cells.set ((d.cell_ixs.set j0 (d.cell_ixs.getD L 0)).getD j0 0) j0
          else d.cells)
    ∧ (dict_remove_item d j0 L).keys
        = (if j0 < L then d.keys.set j0 (d.keys.getD L []) else d.keys)
    ∧ (dict_remove_item d j0 L).values
        = (if j0 < L then d.values.set j0 (d.values.getD L 0) else d.values)
    ∧ (dict_remove_item d j0 L).hashes
        = (if j0 < L then d.hashes.set j0 (d.hashes.getD L 0) else d.hashes)
    ∧ (dict_remove_item d j0 L).cell_ixs
        = (if j0 < L then d.cell_ixs.set j0 (d.cell_ixs.getD L 0) else d.cell_ixs) := by
  unfold dict_remove_item
  by_cases h : j0 < L
  · rw [if_pos h, if_pos h, if_pos h, if_pos h, if_pos h, if_pos h]
    exact ⟨rfl, rfl, rfl, rfl, rfl, rfl, rfl, rfl⟩
  · rw [if_neg h, if_neg h, if_neg h, if_neg h, if_neg h, if_neg h]
    exact ⟨rfl, rfl, rfl, rfl, rfl, rfl, rfl, rfl⟩

/-- What `dict_remove_item` leaves in the arrays, for an item `j0` in use. -/
theorem dict_remove_item_fields (d : dict_t_) (hok : dict_ok d d.cell_capacity) (j0 : Nat)
    (hj0 : j0 < d.count) (dA : dict_t_) (hdA : dA = dict_remove_item d j0 (d.count - 1)) :
    dA.count = d.count - 1
    ∧ dA.cell_capacity = d.cell_capacity
    ∧ dA.item_capacity = d.item_capacity
    ∧ dA.cells.length = d.cell_capacity
    ∧ dA.keys.length = d.item_capacity
    ∧ dA.values.length = d.item_capacity
    ∧ dA.hashes.length = d.item_capacity
    ∧ dA.cell_ixs.length = d.item_capacity
    ∧ (∀ p, dA.cells.getD p DICT_INVALID_IX
        = if j0 < d.count - 1 ∧ p = d.cell_ixs.getD (d.count - 1) 0 then j0
          else d.cells.getD p DICT_INVALID_IX)
    ∧ (∀ a, dA.keys.getD a []
        = if a = j0 then d.keys.getD (d.count - 1) [] else d.keys.getD a [])
    ∧ (∀ a, dA.values.getD a 0
        = if a = j0 then d.values.getD (d.count - 1) 0 else d.values.getD a 0)
    ∧ (∀ a, dA.hashes.getD a 0
        = if a = j0 then d.hashes.getD (d.count - 1) 0 else d.hashes.getD a 0)
    ∧ (∀ a, dA.cell_ixs.getD a 0
        = if a = j0 then d.cell_ixs.getD (d.count - 1) 0 else d.cell_ixs.getD a 0) := by
  have h1 := hok.count_le
  have h2 := hok.item_lt
  have h3 := (dict_ok_cap_pos d _ hok).2
  have hpred : u32_pred d.count = d.count - 1 := u32_pred_of_pos _ (by omega) (by omega)
  have hlast := hok.items_ok (d.count - 1) (by omega)
  obtain ⟨e1, e2, e3, e4, e5, e6, e7, e8⟩ := dict_remove_item_eq d j0 (d.count - 1)
  rw [hpred, ← hdA] at e1
  rw [← hdA] at e2 e3 e4 e5 e6 e7 e8
  by_cases hlt : j0 < d.count - 1
  · rw [if_pos hlt] at e4 e5 e6 e7 e8
    rw [e1, e2, e3, e4, e5, e6, e7, e8]
    have hcix : (d.cell_ixs.set j0 (d.cell_ixs.getD (d.count - 1) 0)).getD j0 0
        = d.cell_ixs.getD (d.count - 1) 0 :=
      getD_set_same _ _ _ _ (by rw [hok.cell_ixs_len]; omega)
    rw [hcix]
    refine ⟨rfl, rfl, rfl, ?_, ?_, ?_, ?_, ?_, ?_, ?_, ?_, ?_, ?_⟩
    · rw [List.length_set, hok.cells_len]
    · rw [List.length_set, hok.keys_len]
    · rw [List.length_set, hok.values_len]
    · rw [List.length_set, hok.hashes_len]
    · rw [List.length_set, hok.cell_ixs_len]
    · intro p
      rw [getD_set_ite _ _ _ _ _ (by rw [hok.cells_len]; exact hlast.1)]
      by_cases hp : p = d.cell_ixs.getD (d.count - 1) 0
      · rw [if_pos hp, if_pos ⟨hlt, hp⟩]
      · rw [if_neg hp, if_neg (fun h => hp h.2)]
    · intro a
      exact getD_set_ite _ _ _ _ _ (by rw [hok.keys_len]; omega)
    · intro a
      exact getD_set_ite _ _ _ _ _ (by rw [hok.values_len]; omega)
    · intro a
      exact getD_set_ite _ _ _ _ _ (by rw [hok.hashes_len]; omega)
    · intro a
      exact getD_set_ite _ _ _ _ _ (by rw [hok.cell_ixs_len]; omega)
  · rw [if_neg hlt] at e4 e5 e6 e7 e8
    rw [e1, e2, e3, e4, e5, e6, e7, e8]
    have hj : j0 = d.count - 1 := by omega
    refine ⟨rfl, rfl, rfl, hok.cells_len, hok.keys_len, hok.values_len, hok.hashes_len,
      hok.cell_ixs_len, ?_, ?_, ?_, ?_, ?_⟩
    · intro p
      rw [if_neg (fun h => hlt h.1)]
    · intro a
      split
      · next ha => rw [ha, hj]
      · rfl
    · intro a
      split
      · next ha => rw [ha, hj]
      · rfl
    · intro a
      split
      · next ha => rw [ha, hj]
      · rfl
    · intro a
      split
      · next ha => rw [ha, hj]
      · rfl

/-- After `dict_remove_item` the table satisfies the invariant with the cell of the removed
item as the hole; the key removed is the key of no item, and every other item is still
there. -/
theorem dict_remove_item_ok (d : dict_t_) (hok : dict_ok d d.cell_capacity) (j0 : Nat)
    (hj0 : j0 < d.count) (dA : dict_t_) (hdA : dA = dict_remove_item d j0 (d.count - 1)) :
    dict_ok dA (d.cell_ixs.getD j0 0)
    ∧ dA.cell_capacity = d.cell_capacity
    ∧ (∀ a, a < dA.count → dA.keys.getD a [] ≠ d.keys.getD j0 [])
    ∧ (∀ b, b < d.count → b ≠ j0 → ∃ a, a < dA.count
        ∧ dA.keys.getD a [] = d.keys.getD b []
        ∧ dA.values.getD a 0 = d.values.getD b 0)
    ∧ (∀ p, p ≠ d.cell_ixs.getD j0 0 → d.cells.getD p DICT_INVALID_IX = DICT_INVALID_IX →
        dA.cells.getD p DICT_INVALID_IX = DICT_INVALID_IX) := by
  obtain ⟨f1, f2, f3, f4, f5, f6, f7, f8, g1, g2, g3, g4, g5⟩ :=
    dict_remove_item_fields d hok j0 hj0 dA hdA
  clear hdA
  have hcL := hok.items_ok (d.count - 1) (by omega)
  have hc0 := hok.items_ok j0 hj0
  have hvalid : ∀ a, a < d.count → a ≠ DICT_INVALID_IX :=
    fun a ha => dict_ok_item_valid d _ hok a ha
  -- distinct items sit in distinct cells
  have hinj : ∀ a b, a < d.count → b < d.count →
      d.cell_ixs.getD a 0 = d.cell_ixs.getD b 0 → a = b := by
    intro a b ha hb hab
    have h1 := (hok.items_ok a ha).2.2.1
    have h2 := (hok.items_ok b hb).2.2.1
    rw [hab] at h1
    omega
  -- the item that slot `a` of the new table holds
  have hsrc : ∀ a, a < d.count - 1 → ∃ b, b < d.count ∧ b ≠ j0
      ∧ dA.keys.getD a [] = d.keys.getD b [] ∧ dA.values.getD a 0 = d.values.getD b 0
      ∧ dA.hashes.getD a 0 = d.hashes.getD b 0
      ∧ dA.cell_ixs.getD a 0 = d.cell_ixs.getD b 0
      ∧ (b = a ∨ (a = j0 ∧ b = d.count - 1)) := by
    intro a ha
    by_cases haj : a = j0
    · refine ⟨d.count - 1, by omega, by omega, ?_, ?_, ?_, ?_, Or.inr ⟨haj, rfl⟩⟩
      · rw [g2, if_pos haj]
      · rw [g3, if_pos haj]
      · rw [g4, if_pos haj]
      · rw [g5, if_pos haj]
    · refine ⟨a, by omega, haj, ?_, ?_, ?_, ?_, Or.inl rfl⟩
      · rw [g2, if_neg haj]
      · rw [g3, if_neg haj]
      · rw [g4, if_neg haj]
      · rw [g5, if_neg haj]
  have hcellA : ∀ a, a < d.count - 1 →
      dA.cells.getD (dA.cell_ixs.getD a 0) DICT_INVALID_IX = a := by
    intro a ha
    obtain ⟨b, hb, hbj, -, -, -, e4, hba⟩ := hsrc a ha
    rw [e4, g1]
    rcases hba with hba | ⟨haj, hbl⟩
    · rw [hba]
      rw [if_neg]
      · exact (hok.items_ok a (by omega)).2.2.1
      · intro hc
        have := hinj a (d.count - 1) (by omega) (by omega) hc.2
        omega
    · rw [hbl, if_pos ⟨by omega, rfl⟩, haj]
  refine ⟨⟨?_, ?_, ?_, ?_, ?_, ?_, ?_, ?_, ?_, ?_, ?_, ?_⟩, f2, ?_, ?_, ?_⟩
  · rw [f2]; exact hok.cap_pow
  · rw [f4, f2]
  · rw [f5, f3]
  · rw [f6, f3]
  · rw [f7, f3]
  · rw [f8, f3]
  · rw [f1, f3]
    have := hok.count_le
    omega
  · rw [f2, f3]; exact hok.item_lt
  · intro a ha
    rw [f1] at ha
    obtain ⟨b, hb, hbj, e1, e2, e3, e4, hba⟩ := hsrc a ha
    refine ⟨?_, ?_, hcellA a ha, ?_⟩
    · rw [f2, e4]; exact (hok.items_ok b hb).1
    · rw [e4]
      intro hc
      exact hbj (hinj b j0 hb hj0 hc)
    · rw [e3, e1]; exact (hok.items_ok b hb).2.2.2
  · intro p hp hph
    rw [f2] at hp
    rw [f1, g1]
    by_cases hcond : j0 < d.count - 1 ∧ p = d.cell_ixs.getD (d.count - 1) 0
    · right
      rw [if_pos hcond, g5, if_pos rfl]
      exact ⟨hcond.1, hcond.2.symm⟩
    · rw [if_neg hcond]
      rcases hok.cells_ok p hp (by omega) with h1 | ⟨h1, h2⟩
      · left; exact h1
      · right
        have hnj : d.cells.getD p DICT_INVALID_IX ≠ j0 := by
          intro hc
          rw [hc] at h2
          exact hph h2.symm
        have hnl : d.cells.getD p DICT_INVALID_IX ≠ d.count - 1 := by
          intro hc
          rw [hc] at h2
          by_cases hlt : j0 < d.count - 1
          · exact hcond ⟨hlt, h2.symm⟩
          · have : j0 = d.count - 1 := by omega
            rw [← this] at h2
            exact hph h2.symm
        refine ⟨by omega, ?_⟩
        rw [g5, if_neg hnj]
        exact h2
  · intro a b ha hb hk
    rw [f1] at ha hb
    obtain ⟨a2, ha2, -, e1, -, -, -, haa⟩ := hsrc a ha
    obtain ⟨b2, hb2, -, e1b, -, -, -, hbb⟩ := hsrc b hb
    rw [e1, e1b] at hk
    have := hok.distinct a2 b2 ha2 hb2 hk
    rcases haa with haa | ⟨haa1, haa2⟩ <;> rcases hbb with hbb | ⟨hbb1, hbb2⟩ <;> omega
  · intro a ha p hp hph hd
    rw [f1] at ha
    rw [f2] at hp hd
    obtain ⟨b, hb, hbj, e1, e2, e3, e4, hba⟩ := hsrc a ha
    have hhome : dict_home dA a = dict_home d b := by
      unfold dict_home
      rw [e3, f2]
    rw [hhome, e4] at hd
    have hocc := hok.path b hb p hp (by omega) hd
    rw [g1]
    split
    · exact hvalid j0 hj0
    · exact hocc
  · intro a ha hk
    rw [f1] at ha
    obtain ⟨b, hb, hbj, e1, -, -, -, -⟩ := hsrc a ha
    rw [e1] at hk
    exact hbj (hok.distinct b j0 hb hj0 hk)
  · intro b hb hbj
    rw [f1]
    by_cases hbl : b = d.count - 1
    · refine ⟨j0, by omega, ?_, ?_⟩
      · rw [g2, if_pos rfl, hbl]
      · rw [g3, if_pos rfl, hbl]
    · refine ⟨b, by omega, ?_, ?_⟩
      · rw [g2, if_neg hbj]
      · rw [g3, if_neg hbj]
  · intro p hp hempty
    rw [g1, if_neg]
    · exact hempty
    · intro hc
      have := hcL.2.2.1
      rw [← hc.2, hempty] at this
      exact hvalid (d.count - 1) (by omega) this.symm

end collections

namespace collections

theorem probe_dist_zero (cap i j : Nat) (hi : i < cap) (_hj : j < cap)
    (h : probe_dist cap i j = 0) : j = i := by
  unfold probe_dist at h
  split at h <;> omega

theorem probe_dist_self (cap i : Nat) : probe_dist cap i i = 0 := by
  unfold probe_dist
  rw [if_pos (le_refl _)]
  omega

theorem probe_dist_inj (cap i x y : Nat) (hi : i < cap) (hx : x < cap) (hy : y < cap)
    (h : probe_dist cap i x = probe_dist cap i y) : x = y := by
  unfold probe_dist at h
  split at h <;> split at h <;> omega

theorem probe_next (cap i j : Nat) (hi : i < cap) (hj : j < cap)
    (h : probe_dist cap i j + 1 < cap) :
    (j + 1) % cap < cap ∧ probe_dist cap i ((j + 1) % cap) = probe_dist cap i j + 1 := by
  rw [probe_mod_add cap j 1 hj (by omega)]
  unfold probe_dist at h ⊢
  split at h <;> split <;> split <;> omega

theorem probe_next_to (cap j p : Nat) (hj : j < cap) (hp : p < cap) (hne : p ≠ j) :
    probe_dist cap ((j + 1) % cap) p + 1 = probe_dist cap j p := by
  rw [probe_mod_add cap j 1 hj (by omega)]
  unfold probe_dist
  split <;> split <;> split <;> omega

theorem probe_between (cap h i x c : Nat) (hh : h < cap) (hi : i < cap) (_hx : x < cap)
    (hc : c < cap) (h1 : probe_dist cap h i < probe_dist cap h c)
    (h2 : probe_dist cap i x < probe_dist cap i c) :
    probe_dist cap h x < probe_dist cap h c := by
  unfold probe_dist at h1 h2 ⊢
  split at h1 <;> split at h1 <;> split at h2 <;> split at h2 <;> split <;> omega

/-- The test of `dict_remove` on the home cell `k` of the item in cell `j`: the hole `i`
lies between `k` and `j`. -/
theorem probe_cond_iff (cap i j k : Nat) (hi : i < cap) (hj : j < cap) (hk : k < cap) :
    ((j > i ∧ (k ≤ i ∨ k > j)) ∨ (j < i ∧ (k ≤ i ∧ k > j)))
      ↔ probe_dist cap k i < probe_dist cap k j := by
  unfold probe_dist
  split <;> split <;> omega

end collections

namespace collections

/-- A move of the loop of `dict_remove`: the item `a` of cell `nj`, whose path from its home
cell passes the hole `i`, goes to cell `i`, and `nj` is the hole. -/
theorem dict_remove_move_ok (d : dict_t_) (i nj a : Nat) (hok : dict_ok d i)
    (hi : i < d.cell_capacity) (_hnj : nj < d.cell_capacity) (hni : nj ≠ i)
    (ha : d.cells.getD nj DICT_INVALID_IX = a) (hac : a < d.count)
    (hax : d.cell_ixs.getD a 0 = nj)
    (hC : probe_dist d.cell_capacity (dict_home d a) i
      < probe_dist d.cell_capacity (dict_home d a) nj) :
    dict_ok
      { cells := d.cells.set i a, hashes := d.hashes, keys := d.keys, values := d.values,
        cell_ixs := d.cell_ixs.set a i, count := d.count, item_capacity := d.item_capacity,
        cell_capacity := d.cell_capacity } nj := by
  have hcA : ∀ p, (d.cells.set i a).getD p DICT_INVALID_IX
      = if p = i then a else d.cells.getD p DICT_INVALID_IX :=
    fun p => getD_set_ite d.cells i p a DICT_INVALID_IX (by rw [hok.cells_len]; exact hi)
  have hxA : ∀ b, (d.cell_ixs.set a i).getD b 0 = if b = a then i else d.cell_ixs.getD b 0 :=
    fun b => getD_set_ite d.cell_ixs a b i 0 (by
      rw [hok.cell_ixs_len]
      have := hok.count_le
      omega)
  have hav : a ≠ DICT_INVALID_IX := dict_ok_item_valid d i hok a hac
  refine ⟨hok.cap_pow, ?_, hok.keys_len, hok.values_len, hok.hashes_len, ?_, hok.count_le,
    hok.item_lt, ?_, ?_, hok.distinct, ?_⟩
  · show (d.cells.set i a).length = d.cell_capacity
    rw [List.length_set, hok.cells_len]
  · show (d.cell_ixs.set a i).length = d.item_capacity
    rw [List.length_set, hok.cell_ixs_len]
  · intro b hb
    show (d.cell_ixs.set a i).getD b 0 < d.cell_capacity
      ∧ (d.cell_ixs.set a i).getD b 0 ≠ nj
      ∧ (d.cells.set i a).getD ((d.cell_ixs.set a i).getD b 0) DICT_INVALID_IX = b
      ∧ d.hashes.getD b 0 = hash_string (d.keys.getD b [])
    obtain ⟨i1, i2, i3, i4⟩ := hok.items_ok b hb
    rw [hxA, hcA]
    by_cases hba : b = a
    · rw [if_pos hba, if_pos rfl]
      exact ⟨hi, fun h => hni h.symm, hba.symm, i4⟩
    · rw [if_neg hba, if_neg i2]
      refine ⟨i1, ?_, i3, i4⟩
      intro hc
      rw [hc, ha] at i3
      exact hba i3.symm
  · intro p hp hpn
    show (d.cells.set i a).getD p DICT_INVALID_IX = DICT_INVALID_IX
      ∨ ((d.cells.set i a).getD p DICT_INVALID_IX < d.count
        ∧ (d.cell_ixs.set a i).getD ((d.cells.set i a).getD p DICT_INVALID_IX) 0 = p)
    rw [hcA]
    by_cases hpi : p = i
    · right
      rw [if_pos hpi, hxA, if_pos rfl]
      exact ⟨hac, hpi.symm⟩
    · rw [if_neg hpi]
      rcases hok.cells_ok p hp hpi with h1 | ⟨h1, h2⟩
      · left; exact h1
      · right
        refine ⟨h1, ?_⟩
        rw [hxA, if_neg]
        · exact h2
        · intro hc
          rw [hc, hax] at h2
          exact hpn h2.symm
  · intro b hb p hp hpn hd
    show (d.cells.set i a).getD p DICT_INVALID_IX ≠ DICT_INVALID_IX
    have hd2 : probe_dist d.cell_capacity (dict_home d b) p
        < probe_dist d.cell_capacity (dict_home d b) ((d.cell_ixs.set a i).getD b 0) := hd
    rw [hcA]
    by_cases hpi : p = i
    · rw [if_pos hpi]; exact hav
    · rw [if_neg hpi]
      rw [hxA] at hd2
      by_cases hba : b = a
      · rw [if_pos hba] at hd2
        rw [hba] at hd2
        refine hok.path a hac p hp hpi ?_
        rw [hax]
        omega
      · rw [if_neg hba] at hd2
        exact hok.path b hb p hp hpi hd2

/-- The loop of `dict_remove`: at its end no item has the hole between its home cell and its
cell, and the items are as before. -/
theorem dict_remove_loop_ok :
    ∀ (n : Nat) (d : dict_t_) (i j : Nat), dict_ok d i → i < d.cell_capacity →
      j < d.cell_capacity →
      (∀ a, a < d.count → 0 < probe_dist d.cell_capacity i (d.cell_ixs.getD a 0) →
        probe_dist d.cell_capacity i (d.cell_ixs.getD a 0) ≤ probe_dist d.cell_capacity i j →
        ¬ hole_on_path d i a) →
      (∃ p0, p0 < d.cell_capacity ∧ d.cells.getD p0 DICT_INVALID_IX = DICT_INVALID_IX
        ∧ probe_dist d.cell_capacity i j < probe_dist d.cell_capacity i p0
        ∧ probe_dist d.cell_capacity j p0 ≤ n) →
      ∀ r, dict_remove_loop n d i j = r →
        dict_ok r.1 r.2 ∧ r.2 < d.cell_capacity
        ∧ (∀ a, a < d.count → ¬ hole_on_path r.1 r.2 a)
        ∧ r.1.keys = d.keys ∧ r.1.values = d.values ∧ r.1.count = d.count
        ∧ r.1.cell_capacity = d.cell_capacity := by
  intro n
  induction n with
  | zero =>
    intro d i j hok hi hj hscan hp
    obtain ⟨p0, hp0, hemp, hlt, hle⟩ := hp
    exfalso
    have := probe_dist_zero d.cell_capacity j p0 hj hp0 (by omega)
    rw [this] at hlt
    omega
  | succ n ih =>
    intro d i j hok hi hj hscan hp r hr
    obtain ⟨p0, hp0, hemp, hlt, hle⟩ := hp
    obtain ⟨e, hcap, he⟩ := hok.cap_pow
    have hdlt := probe_dist_lt d.cell_capacity i p0 hi hp0
    obtain ⟨hnj, hdn⟩ := probe_next d.cell_capacity i j hi hj (by omega)
    have hp0j : p0 ≠ j := by
      intro h
      rw [h] at hlt
      omega
    have hto := probe_next_to d.cell_capacity j p0 hj hp0 hp0j
    unfold dict_remove_loop at hr
    simp only [dict_mask_eq d.cell_capacity e _ hcap (by omega),
      dict_home_eq d.cell_capacity e _ hcap (by omega)] at hr
    generalize (j + 1) % d.cell_capacity = nj at hnj hdn hto hr
    have hni : nj ≠ i := by
      intro h
      rw [h, probe_dist_self] at hdn
      omega
    by_cases hcell : d.cells.getD nj DICT_INVALID_IX = DICT_INVALID_IX
    · rw [if_pos hcell] at hr
      rw [← hr]
      refine ⟨hok, hi, ?_, rfl, rfl, rfl, rfl⟩
      intro a ha hon
      obtain ⟨i1, i2, i3, i4⟩ := hok.items_ok a ha
      have hh := dict_home_lt d i hok a
      have hcpos : 0 < probe_dist d.cell_capacity i (d.cell_ixs.getD a 0) := by
        by_contra h0
        exact i2 (probe_dist_zero d.cell_capacity i _ hi i1 (by omega))
      by_cases hin : probe_dist d.cell_capacity i (d.cell_ixs.getD a 0)
          ≤ probe_dist d.cell_capacity i j
      · exact hscan a ha hcpos hin hon
      · by_cases hcn : d.cell_ixs.getD a 0 = nj
        · rw [← hcn, i3] at hcell
          exact dict_ok_item_valid d i hok a ha hcell
        · have hne : probe_dist d.cell_capacity i nj
              ≠ probe_dist d.cell_capacity i (d.cell_ixs.getD a 0) :=
            fun h => hcn (probe_dist_inj d.cell_capacity i nj _ hi hnj i1 h).symm
          have hb := probe_between d.cell_capacity (dict_home d a) i nj (d.cell_ixs.getD a 0)
            hh hi hnj i1 hon (by omega)
          exact hok.path a ha nj hnj hni hb hcell
    · rw [if_neg hcell] at hr
      rcases hok.cells_ok nj hnj hni with hc | ⟨hc1, hc2⟩
      · exact absurd hc hcell
      · generalize ha : d.cells.getD nj DICT_INVALID_IX = a at hr hcell hc1 hc2
        have hkdef : d.hashes.getD a 0 % d.cell_capacity = dict_home d a := rfl
        rw [hkdef] at hr
        have hk := dict_home_lt d i hok a
        have hiff := probe_cond_iff d.cell_capacity i nj (dict_home d a) hi hnj hk
        have hp0n : p0 ≠ nj := by
          intro h
          rw [h, ha] at hemp
          exact hcell hemp
        by_cases hC : probe_dist d.cell_capacity (dict_home d a) i
            < probe_dist d.cell_capacity (dict_home d a) nj
        · rw [if_pos (hiff.mpr hC)] at hr
          have hd2 := dict_remove_move_ok d i nj a hok hi hnj hni ha hc1 hc2 hC
          refine ih _ nj nj hd2 hnj hnj ?_ ⟨p0, hp0, ?_, ?_, ?_⟩ r hr
          · intro b hb h0 hle2
            exfalso
            have hz : probe_dist d.cell_capacity nj nj = 0 := probe_dist_self _ _
            have hle3 : probe_dist d.cell_capacity nj ((d.cell_ixs.set a i).getD b 0)
                ≤ probe_dist d.cell_capacity nj nj := hle2
            have h03 : 0 < probe_dist d.cell_capacity nj ((d.cell_ixs.set a i).getD b 0) := h0
            omega
          · show (d.cells.set i a).getD p0 DICT_INVALID_IX = DICT_INVALID_IX
            rw [getD_set_other]
            · exact hemp
            · intro h
              rw [← h, probe_dist_self] at hlt
              omega
          · show probe_dist d.cell_capacity nj nj < probe_dist d.cell_capacity nj p0
            rw [probe_dist_self]
            by_contra h0
            exact hp0n (probe_dist_zero d.cell_capacity nj p0 hnj hp0 (by omega))
          · show probe_dist d.cell_capacity nj p0 ≤ n
            omega
        · rw [if_neg (fun h => hC (hiff.mp h))] at hr
          refine ih d i nj hok hi hnj ?_ ⟨p0, hp0, hemp, ?_, by omega⟩ r hr
          · intro b hb h0 hle2
            by_cases hin : probe_dist d.cell_capacity i (d.cell_ixs.getD b 0)
                ≤ probe_dist d.cell_capacity i j
            · exact hscan b hb h0 hin
            · have heq : probe_dist d.cell_capacity i (d.cell_ixs.getD b 0)
                  = probe_dist d.cell_capacity i nj := by omega
              have hbn := probe_dist_inj d.cell_capacity i _ _ hi (hok.items_ok b hb).1 hnj heq
              have hba : b = a := by
                have := (hok.items_ok b hb).2.2.1
                rw [hbn, ha] at this
                exact this.symm
              rw [hba]
              unfold hole_on_path
              rw [hc2]
              exact hC
          · have hne : probe_dist d.cell_capacity i nj ≠ probe_dist d.cell_capacity i p0 :=
              fun h => hp0n (probe_dist_inj d.cell_capacity i nj p0 hi hnj hp0 h).symm
            omega

end collections

namespace collections

/-- The last statement of `dict_remove`: once no item has the hole on its path, the hole is
marked empty and the invariant holds without a hole. -/
theorem dict_fill_hole (d : dict_t_) (i : Nat) (hok : dict_ok d i) (hi : i < d.cell_capacity)
    (hno : ∀ a, a < d.count → ¬ hole_on_path d i a) :
    dict_ok { d with cells := d.cells.set i DICT_INVALID_IX } d.cell_capacity := by
  have hcA : ∀ p, (d.cells.set i DICT_INVALID_IX).getD p DICT_INVALID_IX
      = if p = i then DICT_INVALID_IX else d.cells.getD p DICT_INVALID_IX :=
    fun p => getD_set_ite d.cells i p _ DICT_INVALID_IX (by rw [hok.cells_len]; exact hi)
  refine ⟨hok.cap_pow, ?_, hok.keys_len, hok.values_len, hok.hashes_len, hok.cell_ixs_len,
    hok.count_le, hok.item_lt, ?_, ?_, hok.distinct, ?_⟩
  · show (d.cells.set i DICT_INVALID_IX).length = d.cell_capacity
    rw [List.length_set, hok.cells_len]
  · intro b hb
    obtain ⟨i1, i2, i3, i4⟩ := hok.items_ok b hb
    show d.cell_ixs.getD b 0 < d.cell_capacity ∧ d.cell_ixs.getD b 0 ≠ d.cell_capacity
      ∧ (d.cells.set i DICT_INVALID_IX).getD (d.cell_ixs.getD b 0) DICT_INVALID_IX = b
      ∧ d.hashes.getD b 0 = hash_string (d.keys.getD b [])
    rw [hcA, if_neg i2]
    exact ⟨i1, by omega, i3, i4⟩
  · intro p hp _
    show (d.cells.set i DICT_INVALID_IX).getD p DICT_INVALID_IX = DICT_INVALID_IX
      ∨ ((d.cells.set i DICT_INVALID_IX).getD p DICT_INVALID_IX < d.count
        ∧ d.cell_ixs.getD ((d.cells.set i DICT_INVALID_IX).getD p DICT_INVALID_IX) 0 = p)
    rw [hcA]
    by_cases hpi : p = i
    · left; rw [if_pos hpi]
    · rw [if_neg hpi]
      exact hok.cells_ok p hp hpi
  · intro b hb p hp _ hd
    show (d.cells.set i DICT_INVALID_IX).getD p DICT_INVALID_IX ≠ DICT_INVALID_IX
    have hd2 : probe_dist d.cell_capacity (dict_home d b) p
        < probe_dist d.cell_capacity (dict_home d b) (d.cell_ixs.getD b 0) := hd
    rw [hcA]
    by_cases hpi : p = i
    · rw [hpi] at hd2
      exact absurd hd2 (hno b hb)
    · rw [if_neg hpi]
      exact hok.path b hb p hp hpi hd2

theorem dict_remove_found (d : dict_t_) (key : List Nat) (c0 : Nat) (dA : dict_t_)
    (r : dict_t_ × Nat) (h : dict_get_cell_ix d key (hash_string key) = (c0, true))
    (hdA : dA = dict_remove_item d (d.cells.getD c0 DICT_INVALID_IX) (u32_pred d.count))
    (hr : r = dict_remove_loop (u32_pred dA.cell_capacity) dA c0 c0) :
    dict_remove d key = (true, { r.1 with cells := r.1.cells.set r.2 DICT_INVALID_IX }) := by
  unfold dict_remove
  dsimp only
  rw [h]
  dsimp only
  rw [if_neg (fun hn => hn rfl), ← hdA, ← hr]

/-- The removal of the key of item `j0`: `dict_remove` returns true, the table satisfies the
invariant, no item has the key, and every other item is still there with its value. -/
theorem dict_remove_spec (d : dict_t_) (hwf : dict_wf d) (j0 : Nat) (hj0 : j0 < d.count) :
    (dict_remove d (d.keys.getD j0 [])).1 = true
    ∧ dict_ok (dict_remove d (d.keys.getD j0 [])).2
        (dict_remove d (d.keys.getD j0 [])).2.cell_capacity
    ∧ (∀ a, a < (dict_remove d (d.keys.getD j0 [])).2.count →
        (dict_remove d (d.keys.getD j0 [])).2.keys.getD a [] ≠ d.keys.getD j0 [])
    ∧ (∀ b, b < d.count → b ≠ j0 → ∃ a, a < (dict_remove d (d.keys.getD j0 [])).2.count
        ∧ (dict_remove d (d.keys.getD j0 [])).2.keys.getD a [] = d.keys.getD b []
        ∧ (dict_remove d (d.keys.getD j0 [])).2.values.getD a 0 = d.values.getD b 0) := by
  have hok := hwf.1
  have hlook := dict_get_cell_ix_item d hok j0 hj0
  obtain ⟨i1, i2, i3, i4⟩ := hok.items_ok j0 hj0
  have h1 := hok.count_le
  have h2 := hok.item_lt
  have h3 := dict_ok_cap_pos d _ hok
  have hpred : u32_pred d.count = d.count - 1 := u32_pred_of_pos _ (by omega) (by omega)
  obtain ⟨dA, hdA⟩ : ∃ dA, dA = dict_remove_item d j0 (d.count - 1) := ⟨_, rfl⟩
  obtain ⟨a1, a2, a3, a4, a5⟩ := dict_remove_item_ok d hok j0 hj0 dA hdA
  obtain ⟨r, hr⟩ : ∃ r, r = dict_remove_loop (u32_pred dA.cell_capacity) dA
    (d.cell_ixs.getD j0 0) (d.cell_ixs.getD j0 0) := ⟨_, rfl⟩
  have hrem := dict_remove_found d (d.keys.getD j0 []) (d.cell_ixs.getD j0 0) dA r hlook
    (by rw [i3, hpred]; exact hdA) hr
  obtain ⟨p0, hp0, hemp⟩ := dict_wf_empty_cell d hwf
  have hp0c : p0 ≠ d.cell_ixs.getD j0 0 := by
    intro h
    rw [h, i3] at hemp
    exact dict_ok_item_valid d _ hok j0 hj0 hemp
  have hcapA : u32_pred dA.cell_capacity = d.cell_capacity - 1 := by
    rw [a2]
    exact u32_pred_of_pos _ h3.1 (by omega)
  rw [hcapA] at hr
  have hz : probe_dist d.cell_capacity (d.cell_ixs.getD j0 0) (d.cell_ixs.getD j0 0) = 0 :=
    probe_dist_self _ _
  have hpl := probe_dist_lt d.cell_capacity (d.cell_ixs.getD j0 0) p0 i1 hp0
  have hpp : 0 < probe_dist d.cell_capacity (d.cell_ixs.getD j0 0) p0 := by
    by_contra h0
    exact hp0c (probe_dist_zero d.cell_capacity _ p0 i1 hp0 (by omega))
  obtain ⟨l1, l2, l3, l4, l5, l6, l7⟩ := dict_remove_loop_ok (d.cell_capacity - 1) dA
    (d.cell_ixs.getD j0 0) (d.cell_ixs.getD j0 0) a1 (by rw [a2]; exact i1)
    (by rw [a2]; exact i1)
    (by
      intro a ha h0 hle
      rw [a2] at h0 hle
      rw [hz] at hle
      omega)
    ⟨p0, by rw [a2]; exact hp0, a5 p0 hp0c hemp, by rw [a2, hz]; exact hpp,
      by rw [a2]; omega⟩ r hr.symm
  have hfill := dict_fill_hole r.1 r.2 l1 (by rw [l7]; exact l2) (by rw [l6]; exact l3)
  rw [hrem]
  refine ⟨rfl, hfill, ?_, ?_⟩
  · intro a ha
    have ha2 : a < r.1.count := ha
    show r.1.keys.getD a [] ≠ _
    rw [l4]
    exact a3 a (by rw [← l6]; exact ha2)
  · intro b hb hbj
    obtain ⟨a, ha, e1, e2⟩ := a4 b hb hbj
    refine ⟨a, ?_, ?_, ?_⟩
    · show a < r.1.count
      rw [l6]; exact ha
    · show r.1.keys.getD a [] = _
      rw [l4]; exact e1
    · show r.1.values.getD a 0 = _
      rw [l5]; exact e2

/-- C38: let `d` be built by `dict_make_` and calls of `dict_set` that returned true, with
`cell_capacity` not wrapped to 0 in `unsigned int` (which takes more than 1.5e9 keys), and
let `k` and `k2` be distinct keys stored in `d`, `k2` with the value `v2`.  Then
`dict_remove(d, k)` returns true, and in the table it leaves `dict_get` gives `NULL` for
`k` and `v2` for `k2`, as it did before the removal; the table satisfies the invariant of
probing without a hole: from the home cell of every item to its cell every cell is in
use. -/
theorem C38_remove_keeps_others (d : dict_t_) (hbuilt : dict_built d)
    (hcap : d.cell_capacity ≠ 0) (k k2 : List Nat) (v v2 : Nat) (hne : k ≠ k2)
    (hk : dict_has d k v) (hk2 : dict_has d k2 v2) :
    (dict_remove d k).1 = true
    ∧ dict_get (dict_remove d k).2 k = 0
    ∧ dict_get d k2 = v2
    ∧ dict_get (dict_remove d k).2 k2 = v2
    ∧ dict_ok (dict_remove d k).2 (dict_remove d k).2.cell_capacity := by
  have hwf := dict_built_wf d hbuilt hcap
  obtain ⟨j0, hj0, hkj, -⟩ := hk
  obtain ⟨b, hb, hkb, hvb⟩ := hk2
  have hbj : b ≠ j0 := by
    intro h
    rw [h, hkj] at hkb
    exact hne hkb
  obtain ⟨s1, s2, s3, s4⟩ := dict_remove_spec d hwf j0 hj0
  rw [hkj] at s1 s2 s3 s4
  obtain ⟨a, ha, e1, e2⟩ := s4 b hb hbj
  refine ⟨s1, dict_get_absent _ s2 k s3, ?_, ?_, s2⟩
  · rw [← hkb, dict_get_item d hwf.1 b hb, hvb]
  · rw [← hkb, ← e1, dict_get_item _ s2 a ha, e2, hvb]

/-- C38 at a concrete input: "a", "A" and "b" in a table of 32 cells, where "A" and "b" sit
one cell after their home cells because of "a"; "a" is removed. -/
theorem C38_remove_keeps_others_witness :
    (dict_remove example_dict [97]).1 = true
    ∧ dict_get (dict_remove example_dict [97]).2 [97] = 0
    ∧ dict_get example_dict [65] = 2
    ∧ dict_get (dict_remove example_dict [97]).2 [65] = 2
    ∧ dict_ok (dict_remove example_dict [97]).2
        (dict_remove example_dict [97]).2.cell_capacity :=
  C38_remove_keeps_others example_dict
    (dict_built.set 2 example_dict_aA [98] 3 example_dict
      (dict_built.set 2 example_dict_a [65] 2 example_dict_aA
        (dict_built.set 2 dict_make_ [97] 1 example_dict_a dict_built.make (by decide!))
        (by decide!))
      (by decide!))
    (by decide!) [97] [65] 1 2 (by decide) ⟨0, by decide!, by decide!, by decide!⟩
    ⟨1, by decide!, by decide!, by decide!⟩

end collections

/-! ### Lookup along the probing path -/

/-- A report of "found" names a cell whose item has the hash looked for and a key equal
to the key looked for. -/
theorem get_cell_ix_loop_sound (cs : Bool) (d : valdict_t_) (k : object_t) (hash cell_ix : Nat) :
    ∀ (n i : Nat) (mem : gcmem_t),
      (valdict_get_cell_ix_loop cs d k hash cell_ix n i mem).2.1 = true →
      hash = d.hashes.getD
        (d.cells.getD (valdict_get_cell_ix_loop cs d k hash cell_ix n i mem).1
          VALDICT_INVALID_IX) 0
      ∧ (valdict_keys_are_equal cs mem d k (d.keys.getD
          (d.cells.getD (valdict_get_cell_ix_loop cs d k hash cell_ix n i mem).1
            VALDICT_INVALID_IX) { handle := 0 })).1 = true := by
  intro n
  induction n with
  | zero => intro i mem h; simp [valdict_get_cell_ix_loop] at h
  | succ n ih =>
    intro i mem
    unfold valdict_get_cell_ix_loop
    simp only
    split
    · intro h; simp at h
    · split
      · exact ih _ _
      · rename_i hh
        split
        · rename_i he
          intro _
          exact ⟨not_not.mp hh, he⟩
        · intro h
          obtain ⟨h1, h2⟩ := ih _ _ h
          refine ⟨h1, ?_⟩
          rw [valdict_keys_are_equal_congr cs mem _ (valdict_keys_are_equal_cache_eq cs mem d k _)]
          exact h2

/-- The probe loop reports "found" when its rounds reach a cell whose item matches
through cells in use. -/
theorem get_cell_ix_loop_hit (cs : Bool) (d : valdict_t_) (k : object_t) (hash cell_ix t : Nat) :
    ∀ (n i : Nat) (mem : gcmem_t), i ≤ t → t < i + n →
      (∀ s, i ≤ s → s < t →
        d.cells.getD (probe_pos d cell_ix s) VALDICT_INVALID_IX ≠ VALDICT_INVALID_IX) →
      d.cells.getD (probe_pos d cell_ix t) VALDICT_INVALID_IX ≠ VALDICT_INVALID_IX →
      hash = d.hashes.getD (d.cells.getD (probe_pos d cell_ix t) VALDICT_INVALID_IX) 0 →
      (valdict_keys_are_equal cs mem d k (d.keys.getD
        (d.cells.getD (probe_pos d cell_ix t) VALDICT_INVALID_IX) { handle := 0 })).1 = true →
      (valdict_get_cell_ix_loop cs d k hash cell_ix n i mem).2.1 = true := by
  intro n
  induction n with
  | zero => intro i mem h1 h2; omega
  | succ n ih =>
    intro i mem h1 h2 hs hc hh he
    unfold valdict_get_cell_ix_loop
    simp only
    by_cases hit : i = t
    · subst hit
      unfold probe_pos at hc hh he
      rw [if_neg hc, if_neg (not_not.mpr hh), if_pos he]
    · have hci := hs i (le_refl _) (by omega)
      unfold probe_pos at hci
      rw [if_neg hci]
      split
      · exact ih (i + 1) mem (by omega) (by omega) (fun s a b => hs s (by omega) b) hc hh he
      · split
        · rfl
        · apply ih (i + 1) _ (by omega) (by omega) (fun s a b => hs s (by omega) b) hc hh
          rw [← valdict_keys_are_equal_congr cs mem _
            (valdict_keys_are_equal_cache_eq cs mem d k _)]
          exact he

/-- A report of "not found" comes from the first empty cell on the path, unless every
round sees a cell in use. -/
theorem get_cell_ix_loop_stop (cs : Bool) (d : valdict_t_) (k : object_t) (hash cell_ix : Nat) :
    ∀ (n i : Nat) (mem : gcmem_t),
      (valdict_get_cell_ix_loop cs d k hash cell_ix n i mem).2.1 = false →
      (∃ t, i ≤ t ∧ t < i + n
        ∧ (valdict_get_cell_ix_loop cs d k hash cell_ix n i mem).1 = probe_pos d cell_ix t
        ∧ d.cells.getD (probe_pos d cell_ix t) VALDICT_INVALID_IX = VALDICT_INVALID_IX
        ∧ ∀ s, i ≤ s → s < t →
          d.cells.getD (probe_pos d cell_ix s) VALDICT_INVALID_IX ≠ VALDICT_INVALID_IX)
      ∨ ∀ s, i ≤ s → s < i + n →
          d.cells.getD (probe_pos d cell_ix s) VALDICT_INVALID_IX ≠ VALDICT_INVALID_IX := by
  intro n
  induction n with
  | zero => intro i mem _; right; intro s a b; omega
  | succ n ih =>
    intro i mem
    unfold valdict_get_cell_ix_loop
    simp only
    have hstep : ∀ (m : gcmem_t),
        d.cells.getD (probe_pos d cell_ix i) VALDICT_INVALID_IX ≠ VALDICT_INVALID_IX →
        (valdict_get_cell_ix_loop cs d k hash cell_ix n (i + 1) m).2.1 = false →
        (∃ t, i ≤ t ∧ t < i + (n + 1)
          ∧ (valdict_get_cell_ix_loop cs d k hash cell_ix n (i + 1) m).1 = probe_pos d cell_ix t
          ∧ d.cells.getD (probe_pos d cell_ix t) VALDICT_INVALID_IX = VALDICT_INVALID_IX
          ∧ ∀ s, i ≤ s → s < t →
            d.cells.getD (probe_pos d cell_ix s) VALDICT_INVALID_IX ≠ VALDICT_INVALID_IX)
        ∨ ∀ s, i ≤ s → s < i + (n + 1) →
            d.cells.getD (probe_pos d cell_ix s) VALDICT_INVALID_IX ≠ VALDICT_INVALID_IX := by
      intro m hci hf
      rcases ih (i + 1) m hf with ⟨t, a1, a2, a3, a4, a5⟩ | a
      · left
        refine ⟨t, by omega, by omega, a3, a4, ?_⟩
        intro s b1 b2
        by_cases hsi : s = i
        · rw [hsi]; exact hci
        · exact a5 s (by omega) b2
      · right
        intro s b1 b2
        by_cases hsi : s = i
        · rw [hsi]; exact hci
        · exact a s (by omega) (by omega)
    split
    · rename_i hc
      intro _
      left
      exact ⟨i, le_refl _, by omega, rfl, hc, fun s a b => by omega⟩
    · rename_i hc
      split
      · exact hstep mem hc
      · split
        · intro h; simp at h
        · exact hstep _ hc

theorem probe_pos_lt (d : valdict_t_) (cell_ix t e : Nat) (hcap : d.cell_capacity = 2 ^ e)
    (he : e ≤ 32) : probe_pos d cell_ix t < d.cell_capacity := by
  rw [probe_pos_eq d cell_ix t e hcap he]
  exact Nat.mod_lt _ (by rw [hcap]; exact Nat.pow_pos (by decide))

/-- With an empty cell left, a report of "not found" comes from the first empty cell on
the path. -/
theorem get_cell_ix_stop (cs : Bool) (mem : gcmem_t) (d : valdict_t_) (k : object_t)
    (hash e : Nat) (hcap : d.cell_capacity = 2 ^ e) (he : e ≤ 32)
    (hlen : d.cells.length = d.cell_capacity)
    (hempty : d.cells.count VALDICT_INVALID_IX > 0)
    (hf : (valdict_get_cell_ix cs mem d k hash).2.1 = false) :
    ∃ t, t < d.cell_capacity
      ∧ (valdict_get_cell_ix cs mem d k hash).1 = probe_pos d (valdict_home d hash) t
      ∧ d.cells.getD (probe_pos d (valdict_home d hash) t) VALDICT_INVALID_IX
          = VALDICT_INVALID_IX
      ∧ ∀ s, s < t →
        d.cells.getD (probe_pos d (valdict_home d hash) s) VALDICT_INVALID_IX
          ≠ VALDICT_INVALID_IX := by
  unfold valdict_get_cell_ix at hf ⊢
  simp only at hf ⊢
  rcases get_cell_ix_loop_stop cs d k hash _ d.cell_capacity 0 mem hf with
    ⟨t, _, a2, a3, a4, a5⟩ | a
  · exact ⟨t, by omega, a3, a4, fun s hs => a5 s (Nat.zero_le _) hs⟩
  · exfalso
    obtain ⟨idx, hidx, hget⟩ := exists_empty_cell d.cells VALDICT_INVALID_IX hempty
    rw [hlen] at hidx
    obtain ⟨t, ht, hte⟩ := mod_cover ((hash &&& u32_pred d.cell_capacity) % 2 ^ 32) idx
      d.cell_capacity hidx
    have := a t (Nat.zero_le _) (by omega)
    rw [probe_pos_eq d _ t e hcap he, hte] at this
    exact this hget

theorem valdict_wf_count_lt (cs : Bool) (mem : gcmem_t) (d : valdict_t_)
    (hwf : valdict_wf cs mem d) : d.count < 2 ^ 31 ∧ d.count ≠ VALDICT_INVALID_IX := by
  obtain ⟨_, _, _, _, _, w6, w7, w8, _, _⟩ := hwf
  have h1 : d.cell_capacity * 11744051 / 16777216 ≤ d.cell_capacity := by
    apply Nat.div_le_of_le_mul
    omega
  unfold VALDICT_INVALID_IX
  omega

/-- A key that matches the key of an item (same hash, equal by the equality function of
the dictionary) is found by the lookup, in an item whose key it matches. -/
theorem valdict_find_present (cs : Bool) (mem : gcmem_t) (d : valdict_t_) (k : object_t)
    (i : Nat) (hwf : valdict_wf cs mem d) (hp : valdict_probe_ok cs mem d) (hi : i < d.count)
    (hk : keys_collide cs mem d k (d.keys.getD i { handle := 0 })) :
    ∃ i2, valdict_find cs mem d k = some i2 ∧ i2 < d.count
      ∧ keys_collide cs mem d k (d.keys.getD i2 { handle := 0 }) := by
  have hcnt := valdict_wf_count_lt cs mem d hwf
  obtain ⟨_, _, _, _, _, _, _, _, w9, _⟩ := hwf
  have hc1 := valdict_hash_key_cache_eq cs mem d k
  have hhi : d.hashes.getD i 0 = (valdict_hash_key cs mem d k).1 := by
    rw [hp.2 i hi]; exact hk.1.symm
  obtain ⟨t, ht, hcell, hearlier⟩ := hp.1.2.2 i hi
  rw [hhi] at hcell hearlier
  have hine : i ≠ VALDICT_INVALID_IX := by
    have := hcnt.1
    unfold VALDICT_INVALID_IX
    omega
  have hflag : (valdict_get_cell_ix cs (valdict_hash_key cs mem d k).2 d k
      (valdict_hash_key cs mem d k).1).2.1 = true := by
    unfold valdict_get_cell_ix
    simp only
    unfold valdict_home at hcell hearlier
    apply get_cell_ix_loop_hit cs d k _ _ t d.cell_capacity 0 _ (Nat.zero_le _) (by omega)
      (fun s _ hs => hearlier s hs)
    · rw [hcell]; exact hine
    · rw [hcell, hhi]
    · rw [hcell, ← valdict_keys_are_equal_congr cs mem _ hc1]
      exact hk.2
  have hsound : (valdict_hash_key cs mem d k).1 = d.hashes.getD
        (d.cells.getD (valdict_get_cell_ix cs (valdict_hash_key cs mem d k).2 d k
          (valdict_hash_key cs mem d k).1).1 VALDICT_INVALID_IX) 0
      ∧ (valdict_keys_are_equal cs (valdict_hash_key cs mem d k).2 d k (d.keys.getD
          (d.cells.getD (valdict_get_cell_ix cs (valdict_hash_key cs mem d k).2 d k
            (valdict_hash_key cs mem d k).1).1 VALDICT_INVALID_IX) { handle := 0 })).1 = true := by
    unfold valdict_get_cell_ix at hflag ⊢
    exact get_cell_ix_loop_sound cs d k _ _ _ _ _ hflag
  have hfind : valdict_find cs mem d k
      = some (d.cells.getD (valdict_get_cell_ix cs (valdict_hash_key cs mem d k).2 d k
          (valdict_hash_key cs mem d k).1).1 VALDICT_INVALID_IX) := by
    rw [valdict_find_eq, if_pos hflag]
  have hlt := valdict_find_lt cs mem d k _ w9 hfind
  refine ⟨_, hfind, hlt, ?_, ?_⟩
  · rw [← hp.2 _ hlt]
    exact hsound.1
  · rw [valdict_keys_are_equal_congr cs mem _ hc1]
    exact hsound.2

/-- A key that matches the key of no item is not found by the lookup. -/
theorem valdict_find_absent (cs : Bool) (mem : gcmem_t) (d : valdict_t_) (k : object_t)
    (hwf : valdict_wf cs mem d) (hp : valdict_probe_ok cs mem d)
    (hk : ∀ j, j < d.count → ¬ keys_collide cs mem d k (d.keys.getD j { handle := 0 })) :
    valdict_find cs mem d k = none := by
  obtain ⟨_, _, _, _, _, _, _, _, w9, _⟩ := hwf
  have hc1 := valdict_hash_key_cache_eq cs mem d k
  have hflag : (valdict_get_cell_ix cs (valdict_hash_key cs mem d k).2 d k
      (valdict_hash_key cs mem d k).1).2.1 = false := by
    unfold valdict_get_cell_ix
    apply get_cell_ix_loop_miss
    intro c hc hne hh
    have hlt : c < d.count := by
      rcases w9 c hc with h | h
      · exact absurd h hne
      · exact h
    rw [← valdict_keys_are_equal_congr cs mem _ hc1]
    cases hval : (valdict_keys_are_equal cs mem d k (d.keys.getD c { handle := 0 })).1 with
    | false => rfl
    | true =>
      exfalso
      apply hk c hlt
      exact ⟨by rw [← hp.2 c hlt]; exact hh, hval⟩
  rw [valdict_find_eq, hflag]
  rfl

/-! ### The probing invariant is kept by `valdict_set` -/

theorem keys_collide_congr (cs : Bool) (mem mem2 : gcmem_t) (h : cache_eq cs mem mem2)
    (d d2 : valdict_t_) (hh : d2._hash_key = d._hash_key)
    (he : d2._keys_equals = d._keys_equals) (a b : object_t) :
    keys_collide cs mem2 d2 a b ↔ keys_collide cs mem d a b := by
  unfold keys_collide
  rw [valdict_hash_key_fn cs mem2 d d2 a hh, valdict_hash_key_fn cs mem2 d d2 b hh,
    valdict_keys_are_equal_fn cs mem2 d d2 a b he,
    ← valdict_hash_key_congr cs mem mem2 h d a, ← valdict_hash_key_congr cs mem mem2 h d b,
    ← valdict_keys_are_equal_congr cs mem mem2 h d a b]

/-- An item appended in the first empty cell of its probing path keeps every item
reached. -/
theorem valdict_paths_append (d d2 : valdict_t_) (k v : object_t) (hash c t : Nat)
    (hp : valdict_paths d) (hlen : d.cells.length = d.cell_capacity)
    (hhl : d.count < d.hashes.length) (hcnt : d.count < 2 ^ 31)
    (hcapl : d.cell_capacity ≤ 2 ^ 31) (ht : t < d.cell_capacity)
    (hc : c = probe_pos d (valdict_home d hash) t)
    (hcempty : d.cells.getD c VALDICT_INVALID_IX = VALDICT_INVALID_IX)
    (hearlier : ∀ s, s < t →
      d.cells.getD (probe_pos d (valdict_home d hash) s) VALDICT_INVALID_IX
        ≠ VALDICT_INVALID_IX)
    (hd2 : d2 = { d with
          count := d.count + 1
          cells := d.cells.set c d.count
          keys := d.keys.set d.count k
          values := d.values.set d.count v
          cell_ixs := d.cell_ixs.set d.count c
          hashes := d.hashes.set d.count hash }) :
    valdict_paths d2 := by
  obtain ⟨hpow, hcount, hreach⟩ := hp
  obtain ⟨e, hcap⟩ : ∃ e, d.cell_capacity = 2 ^ e := by
    rcases hpow with h | h
    · omega
    · exact h
  have he : e ≤ 32 := by
    by_contra hne
    have h2 : 2 ^ 33 ≤ 2 ^ e := Nat.pow_le_pow_right (by decide) (by omega)
    omega
  have hcntne : d.count ≠ VALDICT_INVALID_IX := by
    unfold VALDICT_INVALID_IX; omega
  have hclen : c < d.cells.length := by
    rw [hlen, hc]; exact probe_pos_lt d _ t e hcap he
  have hcnt2 : d2.count = d.count + 1 := by rw [hd2]
  have hcap2 : d2.cell_capacity = d.cell_capacity := by rw [hd2]
  have hsame : ∀ ix, d.cells.getD ix VALDICT_INVALID_IX ≠ VALDICT_INVALID_IX →
      d2.cells.getD ix VALDICT_INVALID_IX = d.cells.getD ix VALDICT_INVALID_IX := by
    intro ix hne
    rw [hd2]
    dsimp only
    apply getD_set_other
    intro hcx
    rw [← hcx] at hne
    exact hne hcempty
  have hcnew : d2.cells.getD c VALDICT_INVALID_IX = d.count := by
    rw [hd2]; dsimp only; exact getD_set_same _ _ _ _ hclen
  have hhnew : d2.hashes.getD d.count 0 = hash := by
    rw [hd2]; dsimp only; exact getD_set_same _ _ _ _ hhl
  have hhold : ∀ j, j < d.count → d2.hashes.getD j 0 = d.hashes.getD j 0 := by
    intro j hj
    rw [hd2]
    dsimp only
    exact getD_set_other _ _ _ _ _ (by omega)
  have hpos : ∀ h s, probe_pos d2 (valdict_home d2 h) s = probe_pos d (valdict_home d h) s := by
    intro h s
    unfold probe_pos valdict_home
    rw [hcap2]
  refine ⟨Or.inr ⟨e, by rw [hcap2]; exact hcap⟩, ?_, ?_⟩
  · rw [hcnt2, hcap2]
    have : d2.cells.count VALDICT_INVALID_IX + 1 = d.cells.count VALDICT_INVALID_IX := by
      rw [hd2]
      dsimp only
      rw [List.count_set _ _ _ _ hclen]
      have hg : d.cells[c] = VALDICT_INVALID_IX := by
        rw [← hcempty, List.getD_eq_getElem _ _ hclen]
      rw [hg]
      simp only [beq_self_eq_true, if_true]
      have hb : (d.count == VALDICT_INVALID_IX) = false := by
        simpa using hcntne
      rw [hb]
      simp only [Bool.false_eq_true, if_false]
      have hpos2 : 0 < d.cells.count VALDICT_INVALID_IX := by
        apply List.count_pos_iff.mpr
        rw [← hg]
        exact List.getElem_mem hclen
      omega
    omega
  · intro j hj
    rw [hcnt2] at hj
    unfold valdict_reached
    by_cases hjc : j = d.count
    · rw [hjc, hhnew]
      refine ⟨t, by rw [hcap2]; exact ht, ?_, ?_⟩
      · rw [hpos, ← hc]; exact hcnew
      · intro s hs
        rw [hpos, hsame _ (hearlier s hs)]
        exact hearlier s hs
    · have hj2 : j < d.count := by omega
      obtain ⟨tj, h1, h2, h3⟩ := hreach j hj2
      have hjne : j ≠ VALDICT_INVALID_IX := by
        unfold VALDICT_INVALID_IX; omega
      rw [hhold j hj2]
      refine ⟨tj, by rw [hcap2]; exact h1, ?_, ?_⟩
      · rw [hpos, hsame _ (by rw [h2]; exact hjne)]
        exact h2
      · intro s hs
        rw [hpos, hsame _ (h3 s hs)]
        exact h3 s hs

/-- The dictionary that `valdict_set` leaves for a key that matches no key, with room
left. -/
theorem valdict_set_aux_miss_eq (cs : Bool) (fuel : Nat) (mem : gcmem_t) (d : valdict_t_)
    (k v : object_t)
    (hmiss : ∀ c ∈ d.cells, c ≠ VALDICT_INVALID_IX →
      (valdict_hash_key cs mem d k).1 = d.hashes.getD c 0 →
      (valdict_keys_are_equal cs mem d k (d.keys.getD c { handle := 0 })).1 = false)
    (hroom : d.count < d.item_capacity) :
    (valdict_get_cell_ix cs (valdict_hash_key cs mem d k).2 d k
      (valdict_hash_key cs mem d k).1).2.1 = false
    ∧ (valdict_set_aux cs (fuel + 1) mem d k v).2.1
      = valdict_append d
          (valdict_get_cell_ix cs (valdict_hash_key cs mem d k).2 d k
            (valdict_hash_key cs mem d k).1).1 k v (valdict_hash_key cs mem d k).1 := by
  have hc1 := valdict_hash_key_cache_eq cs mem d k
  have hnf : (valdict_get_cell_ix cs (valdict_hash_key cs mem d k).2 d k
      (valdict_hash_key cs mem d k).1).2.1 = false := by
    unfold valdict_get_cell_ix
    apply get_cell_ix_loop_miss
    intro c hc hne hh
    rw [← valdict_keys_are_equal_congr cs mem _ hc1]
    exact hmiss c hc hne hh
  have hng : ¬ d.count ≥ d.item_capacity := by omega
  refine ⟨hnf, ?_⟩
  unfold valdict_set_aux
  simp only [hnf, Bool.false_eq_true, if_false, hng]

/-- `valdict_set` of a key that matches no key, with room left, keeps every item
reached. -/
theorem valdict_paths_set_miss (cs : Bool) (fuel : Nat) (mem : gcmem_t) (d : valdict_t_)
    (k v : object_t) (hp : valdict_paths d) (hlen : d.cells.length = d.cell_capacity)
    (hhl : d.hashes.length = d.item_capacity) (hic : d.item_capacity ≤ d.cell_capacity)
    (hcap : d.cell_capacity ≤ 2 ^ 31)
    (hmiss : ∀ c ∈ d.cells, c ≠ VALDICT_INVALID_IX →
      (valdict_hash_key cs mem d k).1 = d.hashes.getD c 0 →
      (valdict_keys_are_equal cs mem d k (d.keys.getD c { handle := 0 })).1 = false)
    (hroom : d.count < d.item_capacity) :
    valdict_paths (valdict_set_aux cs (fuel + 1) mem d k v).2.1 := by
  obtain ⟨hnf, heq⟩ := valdict_set_aux_miss_eq cs fuel mem d k v hmiss hroom
  obtain ⟨e, hcape⟩ : ∃ e, d.cell_capacity = 2 ^ e := by
    rcases hp.1 with h | h
    · omega
    · exact h
  have he : e ≤ 32 := by
    by_contra hne
    have h2 : 2 ^ 33 ≤ 2 ^ e := Nat.pow_le_pow_right (by decide) (by omega)
    omega
  have hempty : d.cells.count VALDICT_INVALID_IX > 0 := by
    have := hp.2.1
    omega
  obtain ⟨t, t1, t2, t3, t4⟩ := get_cell_ix_stop cs _ d k _ e hcape he hlen hempty hnf
  rw [heq]
  exact valdict_paths_append d _ k v _ _ t hp hlen (by omega) (by omega) hcap t1 t2
    (by rw [t2]; exact t3) t4 (valdict_append_eq d _ k v _ (by omega))

/-- In the copy loop of `valdict_grow_and_rehash`, the next key of the old dictionary
matches no key of the new one. -/
theorem rehash_next_miss (cs : Bool) (mem0 mem : gcmem_t) (D N : valdict_t_) (j : Nat)
    (hpair : ∀ i j, i < j → j < D.count →
      ¬ keys_collide cs mem0 D (D.keys.getD j { handle := 0 }) (D.keys.getD i { handle := 0 }))
    (hc : cache_eq cs mem0 mem) (hinv : rehash_inv cs mem0 D N j) (hjD : j < D.count) :
    (valdict_hash_key cs mem N (D.keys.getD j { handle := 0 })).1
        = (valdict_hash_key cs mem0 D (D.keys.getD j { handle := 0 })).1
    ∧ ∀ c ∈ N.cells, c ≠ VALDICT_INVALID_IX →
        (valdict_hash_key cs mem N (D.keys.getD j { handle := 0 })).1 = N.hashes.getD c 0 →
        (valdict_keys_are_equal cs mem N (D.keys.getD j { handle := 0 })
          (N.keys.getD c { handle := 0 })).1 = false := by
  have hhash : (valdict_hash_key cs mem N (D.keys.getD j { handle := 0 })).1
      = (valdict_hash_key cs mem0 D (D.keys.getD j { handle := 0 })).1 := by
    rw [valdict_hash_key_fn cs mem D N _ hinv.2.2.2.2.2.2.1,
      ← valdict_hash_key_congr cs mem0 mem hc]
  refine ⟨hhash, ?_⟩
  intro c hcm hne hh
  have hcj : c < j := by
    rcases hinv.2.2.2.2.2.2.2.2.1 c hcm with h | h
    · exact absurd h hne
    · exact h
  obtain ⟨hk, _, hhs⟩ := hinv.2.2.2.2.2.2.2.2.2 c hcj
  rw [hk, valdict_keys_are_equal_fn cs mem D N _ _ hinv.2.2.2.2.2.2.2.1,
    ← valdict_keys_are_equal_congr cs mem0 mem hc]
  have hnc := hpair c j hcj hjD
  unfold keys_collide at hnc
  rw [hhash, hhs] at hh
  cases hval : (valdict_keys_are_equal cs mem0 D (D.keys.getD j { handle := 0 })
      (D.keys.getD c { handle := 0 })).1 with
  | false => rfl
  | true => exact absurd ⟨hh, hval⟩ hnc

/-- The copy loop of `valdict_grow_and_rehash` leaves every item of the new dictionary
reached by probing. -/
theorem rehash_loop_paths (cs : Bool) (fuel : Nat) (mem0 : gcmem_t) (D : valdict_t_)
    (hpair : ∀ i j, i < j → j < D.count →
      ¬ keys_collide cs mem0 D (D.keys.getD j { handle := 0 }) (D.keys.getD i { handle := 0 })) :
    ∀ (n j : Nat) (N : valdict_t_) (mem : gcmem_t), cache_eq cs mem0 mem →
      rehash_inv cs mem0 D N j → valdict_paths N → j + n = D.count →
      D.count ≤ N.item_capacity → N.item_capacity ≤ N.cell_capacity →
      N.cell_capacity ≤ 2 ^ 31 →
      valdict_paths (valdict_rehash_loop (valdict_set_aux cs (fuel + 1)) D n j N mem).2.1 := by
  intro n
  induction n with
  | zero =>
    intro j N mem _ _ hp _ _ _ _
    exact hp
  | succ n ih =>
    intro j N mem hc hinv hp hjn hle hic hcap
    have hjD : j < D.count := by omega
    obtain ⟨hhash, hmiss⟩ := rehash_next_miss cs mem0 mem D N j hpair hc hinv hjD
    have hroom : N.count < N.item_capacity := by
      rw [hinv.1]; omega
    obtain ⟨hs1, ⟨c, hs2⟩, hs3⟩ := valdict_set_aux_miss cs fuel mem N
      (D.keys.getD j { handle := 0 }) (D.values.getD j { handle := 0 }) hmiss hroom
    have hpaths := valdict_paths_set_miss cs fuel mem N (D.keys.getD j { handle := 0 })
      (D.values.getD j { handle := 0 }) hp hinv.2.2.2.2.2.1 hinv.2.2.2.1 hic hcap hmiss hroom
    have hN : (valdict_set_aux cs (fuel + 1) mem N (D.keys.getD j { handle := 0 })
        (D.values.getD j { handle := 0 })).2.1
        = valdict_append N c (D.keys.getD j { handle := 0 }) (D.values.getD j { handle := 0 })
          (valdict_hash_key cs mem0 D (D.keys.getD j { handle := 0 })).1 := by
      rw [hs2, hhash]
    have hstep := rehash_inv_step cs mem0 D N j c hinv (by omega) (by omega)
    rw [← hN] at hstep
    have hic2 : (valdict_set_aux cs (fuel + 1) mem N (D.keys.getD j { handle := 0 })
        (D.values.getD j { handle := 0 })).2.1.item_capacity = N.item_capacity := by
      rw [hN, valdict_append_eq N c _ _ _ (by rw [hinv.1]; omega)]
    have hcc2 : (valdict_set_aux cs (fuel + 1) mem N (D.keys.getD j { handle := 0 })
        (D.values.getD j { handle := 0 })).2.1.cell_capacity = N.cell_capacity := by
      rw [hN, valdict_append_eq N c _ _ _ (by rw [hinv.1]; omega)]
    unfold valdict_rehash_loop
    simp only [hs1, if_true]
    exact ih (j + 1) _ _ (cache_eq_trans cs _ _ _ hc hs3) hstep hpaths (by omega)
      (by rw [hic2]; exact hle) (by rw [hic2, hcc2]; exact hic) (by rw [hcc2]; exact hcap)

/-- An empty dictionary has every item reached. -/
theorem valdict_paths_init (cap e : Nat) (hcap : cap = 2 ^ e) (D : valdict_t_) :
    valdict_paths
      { valdict_init cap with _keys_equals := D._keys_equals, _hash_key := D._hash_key } := by
  refine ⟨Or.inr ⟨e, hcap⟩, ?_, ?_⟩
  · show (List.replicate cap VALDICT_INVALID_IX).count VALDICT_INVALID_IX + 0 = cap
    rw [List.count_replicate_self]
    rfl
  · intro j hj
    exact absurd hj (Nat.not_lt_zero _)

theorem valdict_wf_congr (cs : Bool) (mem mem2 : gcmem_t) (h : cache_eq cs mem mem2)
    (d : valdict_t_) (hwf : valdict_wf cs mem d) : valdict_wf cs mem2 d := by
  obtain ⟨w1, w2, w3, w4, w5, w6, w7, w8, w9, w10⟩ := hwf
  refine ⟨w1, w2, w3, w4, w5, w6, w7, w8, w9, ?_⟩
  intro i j hij hj hc
  exact w10 i j hij hj ((keys_collide_congr cs mem mem2 h d d rfl rfl _ _).mp hc)

theorem valdict_probe_ok_congr (cs : Bool) (mem mem2 : gcmem_t) (h : cache_eq cs mem mem2)
    (d : valdict_t_) (hp : valdict_probe_ok cs mem d) : valdict_probe_ok cs mem2 d := by
  refine ⟨hp.1, ?_⟩
  intro j hj
  rw [hp.2 j hj]
  exact valdict_hash_key_congr cs mem mem2 h d _

/-- Replacing a value keeps both invariants. -/
theorem valdict_set_value_ok (cs : Bool) (mem : gcmem_t) (d : valdict_t_) (i : Nat)
    (v : object_t) (hwf : valdict_wf cs mem d) (hp : valdict_probe_ok cs mem d) :
    valdict_wf cs mem (valdict_set_value_at d i v).2
    ∧ valdict_probe_ok cs mem (valdict_set_value_at d i v).2 := by
  unfold valdict_set_value_at
  split
  · exact ⟨hwf, hp⟩
  · obtain ⟨w1, w2, w3, w4, w5, w6, w7, w8, w9, w10⟩ := hwf
    refine ⟨⟨w1, ?_, w3, w4, w5, w6, w7, w8, w9, ?_⟩, ⟨hp.1, ?_⟩⟩
    · show (d.values.set i v).length = d.item_capacity
      rw [List.length_set]; exact w2
    · intro a b hab hb hc
      exact w10 a b hab hb ((keys_collide_congr cs mem mem (cache_eq_refl cs mem) d _ rfl rfl
        _ _).mp hc)
    · intro j hj
      exact hp.2 j hj

/-- The dictionary with a key appended that matches no key satisfies both invariants:
`D` is the dictionary before the call and `N` the dictionary that receives the item, `D`
itself or the new table filled by `valdict_grow_and_rehash`. -/
theorem valdict_append_ok (cs : Bool) (mem m2 : gcmem_t) (D N : valdict_t_) (k v : object_t)
    (hm2 : cache_eq cs mem m2)
    (hinv : rehash_inv cs mem D N D.count) (hp : valdict_paths N)
    (hic : N.item_capacity = N.cell_capacity * 11744051 / 16777216)
    (hcap : N.cell_capacity < 2 ^ 31) (hroom : D.count < N.item_capacity)
    (hpair : ∀ i j, i < j → j < D.count →
      ¬ keys_collide cs mem D (D.keys.getD j { handle := 0 }) (D.keys.getD i { handle := 0 }))
    (hk : ∀ j, j < D.count → ¬ keys_collide cs mem D k (D.keys.getD j { handle := 0 })) :
    valdict_wf cs mem (valdict_append N
      (valdict_get_cell_ix cs m2 N k (valdict_hash_key cs mem D k).1).1 k v
      (valdict_hash_key cs mem D k).1)
    ∧ valdict_probe_ok cs mem (valdict_append N
      (valdict_get_cell_ix cs m2 N k (valdict_hash_key cs mem D k).1).1 k v
      (valdict_hash_key cs mem D k).1) := by
  obtain ⟨i1, i2, i3, i4, i5, i6, i7, i8, i9, i10⟩ := hinv
  have hicle : N.item_capacity ≤ N.cell_capacity := by
    rw [hic]
    apply Nat.div_le_of_le_mul
    omega
  obtain ⟨e, hcape⟩ : ∃ e, N.cell_capacity = 2 ^ e := by
    rcases hp.1 with h | h
    · omega
    · exact h
  have he : e ≤ 32 := by
    by_contra hne
    have h2 : 2 ^ 33 ≤ 2 ^ e := Nat.pow_le_pow_right (by decide) (by omega)
    omega
  have hempty : N.cells.count VALDICT_INVALID_IX > 0 := by
    have := hp.2.1
    omega
  have hnf : (valdict_get_cell_ix cs m2 N k (valdict_hash_key cs mem D k).1).2.1 = false := by
    unfold valdict_get_cell_ix
    apply get_cell_ix_loop_miss
    intro c hc hne hh
    have hlt : c < D.count := by
      rcases i9 c hc with h | h
      · exact absurd h hne
      · exact h
    obtain ⟨hkc, _, hhc⟩ := i10 c hlt
    rw [hkc, valdict_keys_are_equal_fn cs m2 D N _ _ i8,
      ← valdict_keys_are_equal_congr cs mem m2 hm2]
    cases hval : (valdict_keys_are_equal cs mem D k (D.keys.getD c { handle := 0 })).1 with
    | false => rfl
    | true =>
      exfalso
      apply hk c hlt
      exact ⟨by rw [← hhc]; exact hh, hval⟩
  obtain ⟨t, t1, t2, t3, t4⟩ := get_cell_ix_stop cs m2 N k _ e hcape he i6 hempty hnf
  have heq := valdict_append_eq N
    (valdict_get_cell_ix cs m2 N k (valdict_hash_key cs mem D k).1).1 k v
    (valdict_hash_key cs mem D k).1 (by omega)
  have hpaths := valdict_paths_append N _ k v _ _ t hp i6 (by omega) (by omega) (by omega) t1 t2
    (by rw [t2]; exact t3) t4 heq
  generalize valdict_append N
    (valdict_get_cell_ix cs m2 N k (valdict_hash_key cs mem D k).1).1 k v
    (valdict_hash_key cs mem D k).1 = d2 at heq hpaths ⊢
  generalize (valdict_get_cell_ix cs m2 N k (valdict_hash_key cs mem D k).1).1 = c at heq
  have hcnt2 : d2.count = D.count + 1 := by rw [heq, i1]
  have hkeys : ∀ j, j < D.count →
      d2.keys.getD j { handle := 0 } = D.keys.getD j { handle := 0 } := by
    intro j hj
    rw [heq]
    dsimp only
    rw [getD_set_other _ _ _ _ _ (by omega)]
    exact (i10 j hj).1
  have hknew : d2.keys.getD D.count { handle := 0 } = k := by
    rw [heq, i1]; dsimp only; exact getD_set_same _ _ _ _ (by omega)
  have hhashes : ∀ j, j < D.count → d2.hashes.getD j 0
      = (valdict_hash_key cs mem D (D.keys.getD j { handle := 0 })).1 := by
    intro j hj
    rw [heq]
    dsimp only
    rw [getD_set_other _ _ _ _ _ (by omega)]
    exact (i10 j hj).2.2
  have hhnew : d2.hashes.getD D.count 0 = (valdict_hash_key cs mem D k).1 := by
    rw [heq, i1]; dsimp only; exact getD_set_same _ _ _ _ (by omega)
  have hfn1 : d2._hash_key = D._hash_key := by rw [heq]; exact i7
  have hfn2 : d2._keys_equals = D._keys_equals := by rw [heq]; exact i8
  refine ⟨⟨?_, ?_, ?_, ?_, ?_, ?_, ?_, ?_, ?_, ?_⟩, ⟨hpaths, ?_⟩⟩
  · rw [heq]; dsimp only; rw [List.length_set]; exact i2
  · rw [heq]; dsimp only; rw [List.length_set]; exact i3
  · rw [heq]; dsimp only; rw [List.length_set]; exact i4
  · rw [heq]; dsimp only; rw [List.length_set]; exact i5
  · rw [heq]; dsimp only; rw [List.length_set]; exact i6
  · rw [heq]; dsimp only; omega
  · rw [heq]; exact hic
  · rw [heq]; exact hcap
  · intro x hx
    rw [hcnt2]
    rw [heq] at hx
    dsimp only at hx
    rcases mem_set_cases _ _ _ _ hx with h1 | h1
    · right; omega
    · rcases i9 x h1 with h2 | h2
      · left; exact h2
      · right; omega
  · intro a b hab hb hc
    rw [hcnt2] at hb
    rw [keys_collide_congr cs mem mem (cache_eq_refl cs mem) D d2 hfn1 hfn2] at hc
    by_cases hbc : b = D.count
    · rw [hbc, hknew, hkeys a (by omega)] at hc
      exact hk a (by omega) hc
    · rw [hkeys a (by omega), hkeys b (by omega)] at hc
      exact hpair a b hab (by omega) hc
  · intro j hj
    rw [hcnt2] at hj
    rw [valdict_hash_key_fn cs mem D d2 _ hfn1]
    by_cases hjc : j = D.count
    · rw [hjc, hknew, hhnew]
    · rw [hkeys j (by omega), hhashes j (by omega)]

theorem rehash_inv_congr (cs : Bool) (mem mem2 : gcmem_t) (h : cache_eq cs mem mem2)
    (D N : valdict_t_) (j : Nat) (hinv : rehash_inv cs mem2 D N j) :
    rehash_inv cs mem D N j := by
  obtain ⟨i1, i2, i3, i4, i5, i6, i7, i8, i9, i10⟩ := hinv
  refine ⟨i1, i2, i3, i4, i5, i6, i7, i8, i9, ?_⟩
  intro i hi
  obtain ⟨a, b, c⟩ := i10 i hi
  exact ⟨a, b, by rw [c]; exact (valdict_hash_key_congr cs mem mem2 h D _).symm⟩

/-- The dictionary that `valdict_set` leaves for a key that the lookup does not find:
the item is appended to the dictionary `N`, which is `d` itself or the table that
`valdict_grow_and_rehash` has filled with the items of `d`, in the cell where the lookup
in `N` ends. -/
theorem valdict_set_absent_form (cs : Bool) (mem : gcmem_t) (d : valdict_t_) (k v : object_t)
    (hwf : valdict_wf cs mem d) (hp : valdict_probe_ok cs mem d)
    (hcap : d.cell_capacity < 2 ^ 30) (hfind : valdict_find cs mem d k = none) :
    ∃ (N : valdict_t_) (m2 : gcmem_t),
      (valdict_set cs mem d k v).2.1
        = valdict_append N (valdict_get_cell_ix cs m2 N k (valdict_hash_key cs mem d k).1).1
            k v (valdict_hash_key cs mem d k).1
      ∧ cache_eq cs mem m2
      ∧ rehash_inv cs mem d N d.count
      ∧ valdict_paths N
      ∧ N.item_capacity = N.cell_capacity * 11744051 / 16777216
      ∧ N.cell_capacity < 2 ^ 31
      ∧ d.count < N.item_capacity := by
  obtain ⟨w1, w2, w3, w4, w5, w6, w7, w8, w9, w10⟩ := hwf
  rw [valdict_find_eq] at hfind
  have hf : (valdict_get_cell_ix cs (valdict_hash_key cs mem d k).2 d k
      (valdict_hash_key cs mem d k).1).2.1 = false := by
    cases h : (valdict_get_cell_ix cs (valdict_hash_key cs mem d k).2 d k
      (valdict_hash_key cs mem d k).1).2.1 with
    | false => rfl
    | true => rw [if_pos h] at hfind; exact absurd hfind (by simp)
  have hc1 := valdict_hash_key_cache_eq cs mem d k
  have hc2 : cache_eq cs (valdict_hash_key cs mem d k).2
      (valdict_get_cell_ix cs (valdict_hash_key cs mem d k).2 d k
        (valdict_hash_key cs mem d k).1).2.2 := by
    unfold valdict_get_cell_ix
    exact get_cell_ix_loop_cache_eq cs d k _ _ _ _ _
  have hc12 := cache_eq_trans cs _ _ _ hc1 hc2
  unfold valdict_set valdict_set_aux
  simp only [hf, Bool.false_eq_true, if_false]
  by_cases hg : d.count ≥ d.item_capacity
  · simp only [hg, if_true]
    have hcnt : d.count = d.item_capacity := by omega
    obtain ⟨e, hnc, hnewlt, hgrow⟩ : ∃ e, (if d.cell_capacity = 0 then DICT_INITIAL_SIZE
          else (d.cell_capacity * 2) % 2 ^ 32) = 2 ^ (e + 1)
        ∧ 2 ^ (e + 1) < 2 ^ 31
        ∧ d.cell_capacity * 11744051 / 16777216 < 2 ^ (e + 1) * 11744051 / 16777216 := by
      rcases hp.1.1 with h0 | ⟨e, hcape⟩
      · refine ⟨4, ?_, by decide, ?_⟩
        · rw [if_pos h0]; rfl
        · rw [h0]; decide
      · have h0 : d.cell_capacity ≠ 0 := by
          rw [hcape]; exact Nat.pos_iff_ne_zero.mp (Nat.pow_pos (by decide))
        refine ⟨e, ?_, ?_, ?_⟩
        · rw [if_neg h0, Nat.mod_eq_of_lt (by omega), hcape, Nat.pow_succ]
        · rw [Nat.pow_succ, ← hcape]; omega
        · have hg := (item_capacity_grows d.cell_capacity h0 w8).1
          rw [Nat.mod_eq_of_lt (show d.cell_capacity * 2 < 2 ^ 32 by omega), hcape,
            ← Nat.pow_succ] at hg
          rw [hcape]
          exact hg
    have hlt32 : 2 ^ (e + 1) * 11744051 / 16777216 < 2 ^ 32 := by
      have : 2 ^ (e + 1) * 11744051 / 16777216 ≤ 2 ^ (e + 1) := by
        apply Nat.div_le_of_le_mul
        omega
      omega
    have hpair0 : ∀ i j, i < j → j < d.count →
        ¬ keys_collide cs (valdict_get_cell_ix cs (valdict_hash_key cs mem d k).2 d k
            (valdict_hash_key cs mem d k).1).2.2 d
          (d.keys.getD j { handle := 0 }) (d.keys.getD i { handle := 0 }) := by
      intro i j hij hj hcol
      exact w10 i j hij hj ((keys_collide_congr cs mem _ hc12 d d rfl rfl _ _).mp hcol)
    have hloop := rehash_loop_inv cs d.count _ d hpair0 d.count 0
      { valdict_init (2 ^ (e + 1)) with
        _keys_equals := d._keys_equals, _hash_key := d._hash_key }
      _ (cache_eq_refl cs _) (rehash_inv_init cs _ d (2 ^ (e + 1))) (by omega)
      (by
        show d.count ≤ 2 ^ (e + 1) * 11744051 / 16777216
        omega)
      (by
        show 2 ^ (e + 1) * 11744051 / 16777216 < 2 ^ 32
        omega)
    have hpaths := rehash_loop_paths cs d.count _ d hpair0 d.count 0
      { valdict_init (2 ^ (e + 1)) with
        _keys_equals := d._keys_equals, _hash_key := d._hash_key }
      _ (cache_eq_refl cs _) (rehash_inv_init cs _ d (2 ^ (e + 1)))
      (valdict_paths_init (2 ^ (e + 1)) (e + 1) rfl d) (by omega)
      (by
        show d.count ≤ 2 ^ (e + 1) * 11744051 / 16777216
        omega)
      (by
        show 2 ^ (e + 1) * 11744051 / 16777216 ≤ 2 ^ (e + 1)
        apply Nat.div_le_of_le_mul
        omega)
      (by
        show 2 ^ (e + 1) ≤ 2 ^ 31
        omega)
    obtain ⟨l1, l2, l3, l4, l5⟩ := hloop
    unfold valdict_grow_and_rehash_with
    simp only [hnc, l1, if_true]
    refine ⟨_, _, rfl, cache_eq_trans cs _ _ _ hc12 l3,
      rehash_inv_congr cs mem _ hc12 d _ _ l2, hpaths, ?_, ?_, ?_⟩
    · rw [l4, l5]
      rfl
    · rw [l5]
      exact hnewlt
    · rw [l4]
      show d.count < 2 ^ (e + 1) * 11744051 / 16777216
      omega
  · simp only [hg, if_false]
    refine ⟨d, _, rfl, hc1, ?_, hp.1, w7, by omega, by omega⟩
    exact ⟨rfl, w1, w2, w3, w4, w5, rfl, rfl, w9, fun i hi => ⟨rfl, rfl, hp.2 i hi⟩⟩

/-- `valdict_set` keeps the representation invariant and the probing invariant of a
dictionary of fewer than `2 ^ 30` cells. -/
theorem valdict_set_keeps_ok (cs : Bool) (mem : gcmem_t) (d : valdict_t_) (k v : object_t)
    (hwf : valdict_wf cs mem d) (hp : valdict_probe_ok cs mem d)
    (hcap : d.cell_capacity < 2 ^ 30) :
    valdict_wf cs (valdict_set cs mem d k v).2.2 (valdict_set cs mem d k v).2.1
    ∧ valdict_probe_ok cs (valdict_set cs mem d k v).2.2 (valdict_set cs mem d k v).2.1 := by
  cases hfind : valdict_find cs mem d k with
  | some i2 =>
    obtain ⟨_, s2, s3⟩ := valdict_set_found cs mem d k v i2 hfind
    rw [s2]
    have h := valdict_set_value_ok cs mem d i2 v hwf hp
    exact ⟨valdict_wf_congr cs mem _ s3 _ h.1, valdict_probe_ok_congr cs mem _ s3 _ h.2⟩
  | none =>
    have hk : ∀ j, j < d.count → ¬ keys_collide cs mem d k (d.keys.getD j { handle := 0 }) := by
      intro j hj hc
      obtain ⟨i2, h1, _⟩ := valdict_find_present cs mem d k j hwf hp hj hc
      rw [hfind] at h1
      exact absurd h1 (by simp)
    obtain ⟨_, _, _, _, _, a6⟩ := valdict_set_absent cs mem d k v hwf hfind
    obtain ⟨N, m2, f1, f2, f3, f4, f5, f6, f7⟩ :=
      valdict_set_absent_form cs mem d k v hwf hp hcap hfind
    rw [f1]
    have h := valdict_append_ok cs mem m2 d N k v f2 f3 f4 f5 f6 f7 hwf.2.2.2.2.2.2.2.2.2 hk
    exact ⟨valdict_wf_congr cs mem _ a6 _ h.1, valdict_probe_ok_congr cs mem _ a6 _ h.2⟩

/-! ### Memories that show the same keys -/

theorem view_eq_refl (cs : Bool) (mem : gcmem_t) : view_eq cs mem mem :=
  fun _ => ⟨rfl, rfl, rfl, rfl⟩

theorem view_eq_symm (cs : Bool) (mem mem2 : gcmem_t) (h : view_eq cs mem mem2) :
    view_eq cs mem2 mem :=
  fun q => ⟨(h q).1.symm, (h q).2.1.symm, (h q).2.2.1.symm, (h q).2.2.2.symm⟩

theorem view_eq_trans (cs : Bool) (mem mem2 mem3 : gcmem_t) (h : view_eq cs mem mem2)
    (h2 : view_eq cs mem2 mem3) : view_eq cs mem mem3 :=
  fun q => ⟨(h q).1.trans (h2 q).1, (h q).2.1.trans (h2 q).2.1,
    (h q).2.2.1.trans (h2 q).2.2.1, (h q).2.2.2.trans (h2 q).2.2.2⟩

theorem cache_eq_view_eq (cs : Bool) (mem mem2 : gcmem_t) (h : cache_eq cs mem mem2) :
    view_eq cs mem mem2 := by
  intro q
  obtain ⟨v1, v2, v3⟩ := body_cache_eq_view cs _ _ (h q)
  exact ⟨(h q).1, v1, v2, v3⟩

/-- Writing the dictionary of a map body changes nothing that the readers of keys see. -/
theorem store_map_view_eq (cs : Bool) (mem : gcmem_t) (p : Nat) (d d2 : valdict_t_)
    (hp : (mem.deref p).payload = object_payload.map d) :
    view_eq cs mem (mem.store_map p d2) := by
  intro q
  unfold gcmem_t.store_map
  by_cases hq : q = p
  · subst hq
    rw [deref_store_same]
    simp only [object_data_t.string, hp, and_self]
  · rw [deref_store_other _ _ _ _ hq]
    exact ⟨rfl, rfl, rfl, rfl⟩

theorem view_eq_type (cs : Bool) (mem mem2 : gcmem_t) (h : view_eq cs mem mem2)
    (obj : object_t) : object_get_type mem obj = object_get_type mem2 obj := by
  unfold object_get_type
  rw [(h _).1]

theorem view_eq_string_hash (cs : Bool) (mem mem2 : gcmem_t) (h : view_eq cs mem mem2)
    (obj : object_t) :
    (object_get_string_hash cs mem obj).1 = (object_get_string_hash cs mem2 obj).1 := by
  rw [get_string_hash_fst, get_string_hash_fst, (h _).2.2.2]

theorem object_compare_view (cs : Bool) (mem mem2 : gcmem_t) (h : view_eq cs mem mem2)
    (a b : object_t) (ok : Bool) :
    (object_compare cs mem a b ok).1 = (object_compare cs mem2 a b ok).1
    ∧ (object_compare cs mem a b ok).2.1 = (object_compare cs mem2 a b ok).2.1 := by
  have hta := view_eq_type cs mem mem2 h a
  have htb := view_eq_type cs mem mem2 h b
  have hla : object_get_string_length mem a = object_get_string_length mem2 a := by
    unfold object_get_string_length; rw [(h _).2.2.1]
  have hlb : object_get_string_length mem b = object_get_string_length mem2 b := by
    unfold object_get_string_length; rw [(h _).2.2.1]
  have hha := view_eq_string_hash cs mem mem2 h a
  have h1 := cache_eq_view_eq cs _ _ (get_string_hash_cache_eq cs mem a)
  have h1' := cache_eq_view_eq cs _ _ (get_string_hash_cache_eq cs mem2 a)
  have hm : view_eq cs (object_get_string_hash cs mem a).2 (object_get_string_hash cs mem2 a).2 :=
    view_eq_trans cs _ _ _ (view_eq_symm cs _ _ h1) (view_eq_trans cs _ _ _ h h1')
  have hhb := view_eq_string_hash cs _ _ hm b
  have h2 := cache_eq_view_eq cs _ _
    (get_string_hash_cache_eq cs (object_get_string_hash cs mem a).2 b)
  have h2' := cache_eq_view_eq cs _ _
    (get_string_hash_cache_eq cs (object_get_string_hash cs mem2 a).2 b)
  have hm2 := view_eq_trans cs _ _ _ (view_eq_symm cs _ _ h2) (view_eq_trans cs _ _ _ hm h2')
  have hsa : object_get_string (object_get_string_hash cs (object_get_string_hash cs mem a).2 b).2 a
      = object_get_string (object_get_string_hash cs (object_get_string_hash cs mem2 a).2 b).2 a := by
    unfold object_get_string; rw [(hm2 _).2.1]
  have hsb : object_get_string (object_get_string_hash cs (object_get_string_hash cs mem a).2 b).2 b
      = object_get_string (object_get_string_hash cs (object_get_string_hash cs mem2 a).2 b).2 b := by
    unfold object_get_string; rw [(hm2 _).2.1]
  have hna : object_is_null mem a = object_is_null mem2 a := by
    unfold object_is_null; rw [hta]
  have hnb : object_is_null mem b = object_is_null mem2 b := by
    unfold object_is_null; rw [htb]
  unfold object_compare
  simp only [hta, htb, hla, hlb, hha, hhb, hsa, hsb, hna, hnb]
  split
  · exact ⟨rfl, rfl⟩
  · split
    · exact ⟨rfl, rfl⟩
    · split
      · split
        · exact ⟨rfl, rfl⟩
        · split <;> exact ⟨rfl, rfl⟩
      · split <;> exact ⟨rfl, rfl⟩

theorem keys_collide_view (cs : Bool) (mem mem2 : gcmem_t) (h : view_eq cs mem mem2)
    (d : valdict_t_) (a b : object_t) :
    keys_collide cs mem2 d a b ↔ keys_collide cs mem d a b := by
  have hh : ∀ x, (valdict_hash_key cs mem d x).1 = (valdict_hash_key cs mem2 d x).1 := by
    intro x
    unfold valdict_hash_key
    split
    · unfold object_hash
      rw [view_eq_type cs mem mem2 h x]
      split
      · rfl
      · rfl
      · exact view_eq_string_hash cs mem mem2 h x
      · rfl
    · rfl
  have he : (valdict_keys_are_equal cs mem d a b).1 = (valdict_keys_are_equal cs mem2 d a b).1 := by
    unfold valdict_keys_are_equal
    split
    · rw [object_equals_fst, object_equals_fst, view_eq_type cs mem mem2 h a,
        view_eq_type cs mem mem2 h b, (object_compare_view cs mem mem2 h a b false).1]
    · rfl
  unfold keys_collide
  rw [hh a, hh b, he]

theorem valdict_ok_view (cs : Bool) (mem mem2 : gcmem_t) (h : view_eq cs mem mem2)
    (d : valdict_t_) (hwf : valdict_wf cs mem d) (hp : valdict_probe_ok cs mem d) :
    valdict_wf cs mem2 d ∧ valdict_probe_ok cs mem2 d := by
  obtain ⟨w1, w2, w3, w4, w5, w6, w7, w8, w9, w10⟩ := hwf
  refine ⟨⟨w1, w2, w3, w4, w5, w6, w7, w8, w9, ?_⟩, ⟨hp.1, ?_⟩⟩
  · intro i j hij hj hc
    exact w10 i j hij hj ((keys_collide_view cs mem mem2 h d _ _).mp hc)
  · intro j hj
    rw [hp.2 j hj]
    unfold valdict_hash_key
    split
    · unfold object_hash
      rw [view_eq_type cs mem mem2 h _]
      split
      · rfl
      · rfl
      · exact view_eq_string_hash cs mem mem2 h _
      · rfl
    · rfl

/-- The map that `object_set_map_value` leaves satisfies the two invariants of its
dictionary again. -/
theorem map_set_keeps_ok (cs : Bool) (mem : gcmem_t) (m k v : object_t) (d : valdict_t_)
    (hm : map_at mem m d) (hwf : valdict_wf cs mem d) (hp : valdict_probe_ok cs mem d)
    (hcap : d.cell_capacity < 2 ^ 30) :
    map_at (object_set_map_value cs mem m k v).2 m (valdict_set cs mem d k v).2.1
    ∧ valdict_wf cs (object_set_map_value cs mem m k v).2 (valdict_set cs mem d k v).2.1
    ∧ valdict_probe_ok cs (object_set_map_value cs mem m k v).2
        (valdict_set cs mem d k v).2.1 := by
  have hd : (mem.deref (object_get_allocated_data m)).map = d := by
    simp only [object_data_t.map, hm.2]
  have hce : cache_eq cs mem (valdict_set cs mem d k v).2.2 := by
    cases hfind : valdict_find cs mem d k with
    | some i2 => exact (valdict_set_found cs mem d k v i2 hfind).2.2
    | none => exact (valdict_set_absent cs mem d k v hwf hfind).2.2.2.2.2
  have hpay : ((valdict_set cs mem d k v).2.2.deref (object_get_allocated_data m)).payload
      = object_payload.map d := by
    rcases (hce (object_get_allocated_data m)).2.2 with h | ⟨s, s2, e1, _⟩
    · rw [← h]; exact hm.2
    · rw [hm.2] at e1
      cases e1
  have hview := store_map_view_eq cs (valdict_set cs mem d k v).2.2
    (object_get_allocated_data m) d (valdict_set cs mem d k v).2.1 hpay
  have hmem : (object_set_map_value cs mem m k v).2
      = (valdict_set cs mem d k v).2.2.store_map (object_get_allocated_data m)
          (valdict_set cs mem d k v).2.1 := by
    unfold object_set_map_value
    simp only [hd]
  obtain ⟨k1, k2⟩ := valdict_set_keeps_ok cs mem d k v hwf hp hcap
  rw [hmem]
  refine ⟨⟨?_, ?_⟩, valdict_ok_view cs _ _ hview _ k1 k2⟩
  · rw [← view_eq_type cs _ _ hview m, ← cache_eq_type cs mem _ hce m]
    exact hm.1
  · unfold gcmem_t.store_map
    rw [deref_store_same]

/-- An empty table of `2 ^ e` cells, or of no cell, with any key functions, satisfies both
invariants. -/
theorem valdict_init_ok (cs : Bool) (mem : gcmem_t) (cap : Nat)
    (hcap : cap = 0 ∨ ∃ e, cap = 2 ^ e ∧ e ≤ 30)
    (hash_fn : collections_hash_fn) (equals_fn : collections_equals_fn) :
    valdict_wf cs mem
      (valdict_set_equals_function (valdict_set_hash_function (valdict_init cap) hash_fn)
        equals_fn)
    ∧ valdict_probe_ok cs mem
      (valdict_set_equals_function (valdict_set_hash_function (valdict_init cap) hash_fn)
        equals_fn) := by
  have hlt : cap < 2 ^ 31 := by
    rcases hcap with h | ⟨e, h, he⟩
    · rw [h]; decide
    · rw [h]
      exact lt_of_le_of_lt (Nat.pow_le_pow_right (by decide) he) (by decide)
  have hpow : cap = 0 ∨ ∃ e, cap = 2 ^ e := by
    rcases hcap with h | ⟨e, h, _⟩
    · exact Or.inl h
    · exact Or.inr ⟨e, h⟩
  refine ⟨⟨?_, ?_, ?_, ?_, ?_, ?_, rfl, hlt, ?_, ?_⟩, ⟨⟨hpow, ?_, ?_⟩, ?_⟩⟩
  · simp [valdict_set_equals_function, valdict_set_hash_function, valdict_init]
  · simp [valdict_set_equals_function, valdict_set_hash_function, valdict_init]
  · simp [valdict_set_equals_function, valdict_set_hash_function, valdict_init]
  · simp [valdict_set_equals_function, valdict_set_hash_function, valdict_init]
  · simp [valdict_set_equals_function, valdict_set_hash_function, valdict_init]
  · exact Nat.zero_le _
  · intro c hc
    left
    simp only [valdict_set_equals_function, valdict_set_hash_function, valdict_init] at hc
    exact List.eq_of_mem_replicate hc
  · intro i j _ hj
    exact absurd hj (Nat.not_lt_zero _)
  · show (List.replicate cap VALDICT_INVALID_IX).count VALDICT_INVALID_IX + 0 = cap
    rw [List.count_replicate_self]
    rfl
  · intro j hj
    exact absurd hj (Nat.not_lt_zero _)
  · intro j hj
    exact absurd hj (Nat.not_lt_zero _)

/-- The table of `object_make_map` has `2 ^ 6` cells. -/
theorem valdict_make_map_eq : valdict_make_with_capacity 32 = valdict_init (2 ^ 6) := by
  decide

/-- `valdict_clear`, which a map taken from the pool goes through, keeps both
invariants. -/
theorem valdict_clear_ok (cs : Bool) (mem : gcmem_t) (d : valdict_t_)
    (hwf : valdict_wf cs mem d) (hp : valdict_probe_ok cs mem d) :
    valdict_wf cs mem (valdict_clear d) ∧ valdict_probe_ok cs mem (valdict_clear d) := by
  obtain ⟨w1, w2, w3, w4, w5, w6, w7, w8, w9, w10⟩ := hwf
  unfold valdict_clear
  refine ⟨⟨w1, w2, w3, w4, ?_, Nat.zero_le _, w7, w8, ?_, ?_⟩, ⟨⟨hp.1.1, ?_, ?_⟩, ?_⟩⟩
  · simp
  · intro c hc
    left
    exact List.eq_of_mem_replicate hc
  · intro i j _ hj
    exact absurd hj (Nat.not_lt_zero _)
  · show (List.replicate d.cell_capacity VALDICT_INVALID_IX).count VALDICT_INVALID_IX + 0
      = d.cell_capacity
    rw [List.count_replicate_self]
    rfl
  · intro j hj
    exact absurd hj (Nat.not_lt_zero _)
  · intro j hj
    exact absurd hj (Nat.not_lt_zero _)

theorem dict_pair_wf : valdict_wf false mem_pair_map dict_pair := by
  unfold valdict_wf
  refine ⟨by decide, by decide, by decide, by decide, by decide, by decide, by decide,
    by decide, by decide, ?_⟩
  intro i j hij hj
  have h2 : dict_pair.count = 2 := by decide
  have hj1 : j = 1 := by omega
  have hi0 : i = 0 := by omega
  subst hj1 hi0
  unfold keys_collide
  decide

theorem dict_pair_probe_ok : valdict_probe_ok false mem_pair_map dict_pair := by
  have h2 : dict_pair.count = 2 := by decide
  refine ⟨⟨Or.inr ⟨2, by decide⟩, by decide, ?_⟩, ?_⟩
  · intro j hj
    have hj01 : j = 0 ∨ j = 1 := by omega
    rcases hj01 with h | h
    · subst h
      refine ⟨0, by decide, by decide, ?_⟩
      intro s hs
      omega
    · subst h
      refine ⟨1, by decide, by decide, ?_⟩
      intro s hs
      have hs0 : s = 0 := by omega
      subst hs0
      decide
  · intro j hj
    have hj01 : j = 0 ∨ j = 1 := by omega
    rcases hj01 with h | h
    · subst h; decide
    · subst h; decide

/-! ### The capacity of a new table -/

theorem testBit_log2_self (w : Nat) (hw : w ≠ 0) : w.testBit w.log2 = true := by
  obtain ⟨i, hi, hb⟩ := Nat.ge_two_pow_implies_high_bit_true (Nat.log2_self_le hw)
  by_cases h : i = w.log2
  · rw [← h]; exact hb
  · exfalso
    have hlt : w < 2 ^ i :=
      lt_of_lt_of_le Nat.lt_log2_self (Nat.pow_le_pow_right (by decide) (by omega))
    rw [Nat.testBit_lt_two_pow hlt] at hb
    exact Bool.noConfusion hb

/-- One statement `v |= v >> m` of `upper_power_of_two` doubles the window of bits of
`w` that set a bit of `v`. -/
theorem smear_step (w a m m2 : Nat) (hm : m2 = 2 * m)
    (h : ∀ i, a.testBit i = true ↔ ∃ j, j < m ∧ w.testBit (i + j) = true) :
    ∀ i, (a ||| (a >>> m)).testBit i = true ↔ ∃ j, j < m2 ∧ w.testBit (i + j) = true := by
  intro i
  rw [Nat.testBit_or, Nat.testBit_shiftRight, Bool.or_eq_true, h, h]
  constructor
  · rintro (⟨j, hj, hb⟩ | ⟨j, hj, hb⟩)
    · exact ⟨j, by omega, hb⟩
    · refine ⟨m + j, by omega, ?_⟩
      rw [show i + (m + j) = m + i + j by omega]
      exact hb
  · rintro ⟨j, hj, hb⟩
    by_cases hjm : j < m
    · left; exact ⟨j, hjm, hb⟩
    · right
      refine ⟨j - m, by omega, ?_⟩
      rw [show m + i + (j - m) = i + j by omega]
      exact hb

/-- Function `upper_power_of_two` gives a power of two, the least one that is not below
its argument `v`, for `1 <= v <= 2^31`. -/
theorem upper_power_of_two_pow (v : Nat) (h1 : 1 ≤ v) (h2 : v ≤ 2 ^ 31) :
    ∃ e, upper_power_of_two v = 2 ^ e ∧ v ≤ 2 ^ e ∧ 2 ^ e < 2 * v := by
  have hw : u32_pred v = v - 1 := by
    unfold u32_pred
    rw [show v + 0xffffffff = (v - 1) + 2 ^ 32 by omega, Nat.add_mod_right,
      Nat.mod_eq_of_lt (by omega)]
  unfold upper_power_of_two
  simp only [hw]
  by_cases h0 : v - 1 = 0
  · refine ⟨0, ?_, by omega, by omega⟩
    rw [h0]
    rfl
  · have s0 : ∀ i, (v - 1).testBit i = true ↔ ∃ j, j < 1 ∧ (v - 1).testBit (i + j) = true := by
      intro i
      constructor
      · intro h; exact ⟨0, by omega, h⟩
      · rintro ⟨j, hj, hb⟩
        have : j = 0 := by omega
        subst this
        exact hb
    have s1 := smear_step (v - 1) _ 1 2 rfl s0
    have s2 := smear_step (v - 1) _ 2 4 rfl s1
    have s3 := smear_step (v - 1) _ 4 8 rfl s2
    have s4 := smear_step (v - 1) _ 8 16 rfl s3
    have s5 := smear_step (v - 1) _ 16 32 rfl s4
    have hk : (v - 1).log2 < 31 := (Nat.log2_lt h0).mpr (by omega)
    have htop := testBit_log2_self (v - 1) h0
    have hlow : 2 ^ (v - 1).log2 ≤ v - 1 := Nat.log2_self_le h0
    have hhigh : v - 1 < 2 ^ ((v - 1).log2 + 1) := Nat.lt_log2_self
    generalize (v - 1).log2 = k at hk htop hlow hhigh
    have hsm : ((((((v - 1) ||| (v - 1) >>> 1) ||| ((v - 1) ||| (v - 1) >>> 1) >>> 2)
        ||| (((v - 1) ||| (v - 1) >>> 1) ||| ((v - 1) ||| (v - 1) >>> 1) >>> 2) >>> 4)
        ||| ((((v - 1) ||| (v - 1) >>> 1) ||| ((v - 1) ||| (v - 1) >>> 1) >>> 2)
          ||| (((v - 1) ||| (v - 1) >>> 1) ||| ((v - 1) ||| (v - 1) >>> 1) >>> 2) >>> 4) >>> 8)
        ||| (((((v - 1) ||| (v - 1) >>> 1) ||| ((v - 1) ||| (v - 1) >>> 1) >>> 2)
          ||| (((v - 1) ||| (v - 1) >>> 1) ||| ((v - 1) ||| (v - 1) >>> 1) >>> 2) >>> 4)
          ||| ((((v - 1) ||| (v - 1) >>> 1) ||| ((v - 1) ||| (v - 1) >>> 1) >>> 2)
            ||| (((v - 1) ||| (v - 1) >>> 1) ||| ((v - 1) ||| (v - 1) >>> 1) >>> 2) >>> 4) >>> 8)
          >>> 16)
        = 2 ^ (k + 1) - 1 := by
      apply Nat.eq_of_testBit_eq
      intro i
      rw [Nat.testBit_two_pow_sub_one]
      by_cases hi : i < k + 1
      · rw [decide_eq_true hi]
        apply (s5 i).mpr
        refine ⟨k - i, by omega, ?_⟩
        rw [show i + (k - i) = k by omega]
        exact htop
      · rw [decide_eq_false hi]
        apply Bool.eq_false_iff.mpr
        intro hb
        obtain ⟨j, _, hj⟩ := (s5 i).mp hb
        have hlt : v - 1 < 2 ^ (i + j) :=
          lt_of_lt_of_le hhigh (Nat.pow_le_pow_right (by decide) (by omega))
        rw [Nat.testBit_lt_two_pow hlt] at hj
        exact Bool.noConfusion hj
    rw [hsm]
    have hpos : 1 ≤ 2 ^ (k + 1) := Nat.one_le_two_pow
    have hle : 2 ^ (k + 1) ≤ 2 ^ 31 := Nat.pow_le_pow_right (by decide) (by omega)
    refine ⟨k + 1, ?_, by omega, ?_⟩
    · rw [show 2 ^ (k + 1) - 1 + 1 = 2 ^ (k + 1) by omega, Nat.mod_eq_of_lt (by omega)]
    · rw [Nat.pow_succ]
      omega

/-- The table of a new map, made by `valdict_make_with_capacity` for at most `2 ^ 29`
items and given the key functions, satisfies both invariants. -/
theorem valdict_make_ok (cs : Bool) (mem : gcmem_t) (min_capacity : Nat)
    (h : min_capacity ≤ 2 ^ 29)
    (hash_fn : collections_hash_fn) (equals_fn : collections_equals_fn) :
    valdict_wf cs mem
      (valdict_set_equals_function
        (valdict_set_hash_function (valdict_make_with_capacity min_capacity) hash_fn) equals_fn)
    ∧ valdict_probe_ok cs mem
      (valdict_set_equals_function
        (valdict_set_hash_function (valdict_make_with_capacity min_capacity) hash_fn)
        equals_fn) := by
  unfold valdict_make_with_capacity
  apply valdict_init_ok
  rw [Nat.mod_eq_of_lt (show min_capacity * 2 < 2 ^ 32 by omega)]
  by_cases h0 : min_capacity = 0
  · left
    rw [h0]
    decide
  · right
    obtain ⟨e, e1, e2, e3⟩ := upper_power_of_two_pow (min_capacity * 2) (by omega) (by omega)
    refine ⟨e, e1, ?_⟩
    by_contra hne
    have : 2 ^ 31 ≤ 2 ^ e := Nat.pow_le_pow_right (by decide) (by omega)
    omega

/-- C8 (amended): `object_set_map_value(m, k, v)` on a map `m` whose dictionary satisfies
the representation invariant and the probing invariant; the call returns true.  The key
`k` is present at iteration index `i` when it has the hash of the key at index `i` and is
equal to it by the equality function of the map.  If `k` is present at some index, the
number of entries and every key stay as they are and the value at exactly one index is
replaced, an index at which `k` is present: the index `i` when `k` is present at no other
index.  If `k` is present at no index, then `k` is appended at index `length(m)` with
value `v` and every earlier index keeps its key and value, also when the insertion makes
the table grow and rehash.  The map that the call leaves satisfies both invariants again
(for tables of fewer than `2 ^ 30` cells). -/
theorem C8_map_set_order (cs : Bool) (mem : gcmem_t) (m k v : object_t) (d : valdict_t_)
    (hm : map_at mem m d) (hwf : valdict_wf cs mem d) (hprobe : valdict_probe_ok cs mem d) :
    (object_set_map_value cs mem m k v).1 = true
    ∧ (∀ i, i < object_get_map_length mem m →
        keys_collide cs mem d k (object_get_map_key_at mem m i) →
        object_get_map_length (object_set_map_value cs mem m k v).2 m = object_get_map_length mem m
        ∧ (∀ j, object_get_map_key_at (object_set_map_value cs mem m k v).2 m j
            = object_get_map_key_at mem m j)
        ∧ ∃ i2, i2 < object_get_map_length mem m
          ∧ keys_collide cs mem d k (object_get_map_key_at mem m i2)
          ∧ object_get_map_value_at (object_set_map_value cs mem m k v).2 m i2 = v
          ∧ (∀ j, j ≠ i2 → object_get_map_value_at (object_set_map_value cs mem m k v).2 m j
              = object_get_map_value_at mem m j)
          ∧ ((∀ j, j < object_get_map_length mem m →
                keys_collide cs mem d k (object_get_map_key_at mem m j) → j = i) → i2 = i))
    ∧ ((∀ j, j < object_get_map_length mem m →
          ¬ keys_collide cs mem d k (object_get_map_key_at mem m j)) →
        object_get_map_length (object_set_map_value cs mem m k v).2 m
          = object_get_map_length mem m + 1
        ∧ object_get_map_key_at (object_set_map_value cs mem m k v).2 m
            (object_get_map_length mem m) = k
        ∧ object_get_map_value_at (object_set_map_value cs mem m k v).2 m
            (object_get_map_length mem m) = v
        ∧ (∀ j, j < object_get_map_length mem m →
            object_get_map_key_at (object_set_map_value cs mem m k v).2 m j
              = object_get_map_key_at mem m j
            ∧ object_get_map_value_at (object_set_map_value cs mem m k v).2 m j
              = object_get_map_value_at mem m j))
    ∧ (d.cell_capacity < 2 ^ 30 →
        ∃ d2, map_at (object_set_map_value cs mem m k v).2 m d2
          ∧ valdict_wf cs (object_set_map_value cs mem m k v).2 d2
          ∧ valdict_probe_ok cs (object_set_map_value cs mem m k v).2 d2) := by
  have hd : (mem.deref (object_get_allocated_data m)).map = d := by
    simp only [object_data_t.map, hm.2]
  obtain ⟨hmap, hok⟩ := map_after_set cs mem m k v d hm
  have hlen : object_get_map_length mem m = d.count := by
    unfold object_get_map_length valdict_count; rw [hd]
  have hlen2 : object_get_map_length (object_set_map_value cs mem m k v).2 m
      = (valdict_set cs mem d k v).2.1.count := by
    unfold object_get_map_length valdict_count; rw [hmap]
  have hkey := fun j => map_key_at_eq mem m d j hd
  have hkey2 := fun j => map_key_at_eq (object_set_map_value cs mem m k v).2 m _ j hmap
  have hval := fun j => map_value_at_eq mem m d j hd
  have hval2 := fun j => map_value_at_eq (object_set_map_value cs mem m k v).2 m _ j hmap
  have hkeylt : ∀ j, j < d.count →
      object_get_map_key_at mem m j = d.keys.getD j { handle := 0 } := by
    intro j hj
    rw [hkey, if_neg (by omega)]
  have hfound : ∀ i2, valdict_find cs mem d k = some i2 → i2 < d.count →
      (object_set_map_value cs mem m k v).1 = true
      ∧ object_get_map_length (object_set_map_value cs mem m k v).2 m
          = object_get_map_length mem m
      ∧ (∀ j, object_get_map_key_at (object_set_map_value cs mem m k v).2 m j
          = object_get_map_key_at mem m j)
      ∧ object_get_map_value_at (object_set_map_value cs mem m k v).2 m i2 = v
      ∧ (∀ j, j ≠ i2 → object_get_map_value_at (object_set_map_value cs mem m k v).2 m j
          = object_get_map_value_at mem m j) := by
    intro i2 hfind hi
    obtain ⟨s1, s2, _⟩ := valdict_set_found cs mem d k v i2 hfind
    have hni : ¬ i2 ≥ d.count := by omega
    have hs : (valdict_set cs mem d k v).2.1 = { d with values := d.values.set i2 v } := by
      rw [s2]; simp only [valdict_set_value_at, hni, if_false]
    refine ⟨by rw [hok, s1], ?_, ?_, ?_, ?_⟩
    · rw [hlen2, hlen, hs]
    · intro j; rw [hkey2, hkey, hs]
    · rw [hval2, hs]
      simp only [hni, if_false]
      exact getD_set_same _ _ _ _ (by rw [hwf.2.1]; have := hwf.2.2.2.2.2.1; omega)
    · intro j hj
      rw [hval2, hval, hs]
      simp only
      split
      · rfl
      · exact getD_set_other _ _ _ _ _ (fun h => hj h.symm)
  have habsent : valdict_find cs mem d k = none →
      (object_set_map_value cs mem m k v).1 = true
      ∧ object_get_map_length (object_set_map_value cs mem m k v).2 m
          = object_get_map_length mem m + 1
      ∧ object_get_map_key_at (object_set_map_value cs mem m k v).2 m
          (object_get_map_length mem m) = k
      ∧ object_get_map_value_at (object_set_map_value cs mem m k v).2 m
          (object_get_map_length mem m) = v
      ∧ (∀ j, j < object_get_map_length mem m →
          object_get_map_key_at (object_set_map_value cs mem m k v).2 m j
            = object_get_map_key_at mem m j
          ∧ object_get_map_value_at (object_set_map_value cs mem m k v).2 m j
            = object_get_map_value_at mem m j) := by
    intro hfind
    obtain ⟨a1, a2, a3, a4, a5, _⟩ := valdict_set_absent cs mem d k v hwf hfind
    refine ⟨by rw [hok, a1], ?_, ?_, ?_, ?_⟩
    · rw [hlen2, hlen, a2]
    · rw [hkey2, hlen, a2]
      have : ¬ d.count ≥ d.count + 1 := by omega
      simp only [this, if_false, a3]
    · rw [hval2, hlen, a2]
      have : ¬ d.count ≥ d.count + 1 := by omega
      simp only [this, if_false, a4]
    · intro j hj
      rw [hlen] at hj
      rw [hkey2, hkey, hval2, hval, a2]
      have h1 : ¬ j ≥ d.count + 1 := by omega
      have h2 : ¬ j ≥ d.count := by omega
      simp only [h1, h2, if_false, (a5 j hj).1, (a5 j hj).2, and_self]
  refine ⟨?_, ?_, ?_, fun hcap => ⟨_, map_set_keeps_ok cs mem m k v d hm hwf hprobe hcap⟩⟩
  · cases hfind : valdict_find cs mem d k with
    | some i2 =>
      exact (hfound i2 hfind (valdict_find_lt cs mem d k i2 hwf.2.2.2.2.2.2.2.2.1 hfind)).1
    | none => exact (habsent hfind).1
  · intro i hi hk
    rw [hlen] at hi
    rw [hkeylt i hi] at hk
    obtain ⟨i2, hfind, hi2, hk2⟩ := valdict_find_present cs mem d k i hwf hprobe hi hk
    obtain ⟨_, f2, f3, f4, f5⟩ := hfound i2 hfind hi2
    refine ⟨f2, f3, i2, by rw [hlen]; exact hi2, by rw [hkeylt i2 hi2]; exact hk2, f4, f5, ?_⟩
    intro huniq
    exact huniq i2 (by rw [hlen]; exact hi2) (by rw [hkeylt i2 hi2]; exact hk2)
  · intro hk
    have hfind := valdict_find_absent cs mem d k hwf hprobe (fun j hj hc =>
      hk j (by rw [hlen]; exact hj) (by rw [hkeylt j hj]; exact hc))
    exact (habsent hfind).2

/-- C8 at a concrete input: the map that holds the Numbers `key_small` and `key_small_neg`
in a table of 4 cells and 2 item slots.  Setting `key_small`, present at index 0 only,
replaces the value at index 0; setting the Number 1.0, present at no index, makes the
table grow and appends the key at index 2. -/
theorem C8_map_set_order_witness :
    (object_get_map_length (object_set_map_value false mem_pair_map
        (object_make_from_data OBJECT_MAP 4096) key_small
        (object_make_number 0x4008000000000000)).2 (object_make_from_data OBJECT_MAP 4096) = 2
      ∧ object_get_map_value_at (object_set_map_value false mem_pair_map
        (object_make_from_data OBJECT_MAP 4096) key_small
        (object_make_number 0x4008000000000000)).2 (object_make_from_data OBJECT_MAP 4096) 0
        = object_make_number 0x4008000000000000)
    ∧ (object_get_map_length (object_set_map_value false mem_pair_map
        (object_make_from_data OBJECT_MAP 4096) (object_make_number 0x3ff0000000000000)
        (object_make_number 0x4008000000000000)).2 (object_make_from_data OBJECT_MAP 4096) = 3
      ∧ object_get_map_key_at (object_set_map_value false mem_pair_map
        (object_make_from_data OBJECT_MAP 4096) (object_make_number 0x3ff0000000000000)
        (object_make_number 0x4008000000000000)).2 (object_make_from_data OBJECT_MAP 4096) 2
        = object_make_number 0x3ff0000000000000
      ∧ object_get_map_key_at (object_set_map_value false mem_pair_map
        (object_make_from_data OBJECT_MAP 4096) (object_make_number 0x3ff0000000000000)
        (object_make_number 0x4008000000000000)).2 (object_make_from_data OBJECT_MAP 4096) 1
        = key_small_neg) := by
  have hmap : map_at mem_pair_map (object_make_from_data OBJECT_MAP 4096) dict_pair := by
    constructor <;> decide
  have hlen : object_get_map_length mem_pair_map (object_make_from_data OBJECT_MAP 4096) = 2 := by
    decide
  have h1 := (C8_map_set_order false mem_pair_map (object_make_from_data OBJECT_MAP 4096)
    key_small (object_make_number 0x4008000000000000) dict_pair hmap dict_pair_wf
    dict_pair_probe_ok).2.1 0 (by decide) (by unfold keys_collide; decide)
  have h2 := (C8_map_set_order false mem_pair_map (object_make_from_data OBJECT_MAP 4096)
    (object_make_number 0x3ff0000000000000) (object_make_number 0x4008000000000000) dict_pair
    hmap dict_pair_wf dict_pair_probe_ok).2.2.1
  constructor
  · obtain ⟨a1, _, i2, _, _, a5, _, a7⟩ := h1
    rw [hlen] at a1 a7
    have hi2 : i2 = 0 := by
      apply a7
      intro j hj hc
      have hj01 : j = 0 ∨ j = 1 := by omega
      rcases hj01 with h | h
      · exact h
      · subst h
        exfalso
        revert hc
        unfold keys_collide
        decide
    rw [hi2] at a5
    exact ⟨a1, a5⟩
  · have habs : ∀ j, j < object_get_map_length mem_pair_map
        (object_make_from_data OBJECT_MAP 4096) →
        ¬ keys_collide false mem_pair_map dict_pair (object_make_number 0x3ff0000000000000)
          (object_get_map_key_at mem_pair_map (object_make_from_data OBJECT_MAP 4096) j) := by
      intro j hj
      rw [hlen] at hj
      have hj01 : j = 0 ∨ j = 1 := by omega
      rcases hj01 with h | h
      · subst h; unfold keys_collide; decide
      · subst h; unfold keys_collide; decide
    obtain ⟨b1, b2, _, b4⟩ := h2 habs
    rw [hlen] at b1 b2 b4
    refine ⟨b1, b2, ?_⟩
    rw [(b4 1 (by decide)).1]
    decide

/-- C8 as stated fails: the map holds the Numbers `key_small` and `key_small_neg`, at the
indices 0 and 1, with the values 1.0 and 2.0.  The Number `key_tiny` is neither of them; it
has their hash and is equal to each of them by `object_equals` (the difference is below
`DBL_EPSILON`), while they are not equal to each other.  `object_set_map_value` of
`key_tiny` with the value 3.0 appends nothing, the two keys stay, the value at index 0 is
replaced and the value at index 1, where the key is present too, stays 2.0. -/
theorem C8_counterexample :
    (object_get_map_key_at mem_pair_map (object_make_from_data OBJECT_MAP 4096) 0 = key_small
      ∧ object_get_map_key_at mem_pair_map (object_make_from_data OBJECT_MAP 4096) 1
          = key_small_neg
      ∧ object_get_map_length mem_pair_map (object_make_from_data OBJECT_MAP 4096) = 2)
    ∧ (key_tiny ≠ key_small ∧ key_tiny ≠ key_small_neg)
    ∧ (keys_collide false mem_pair_map dict_pair key_tiny key_small
      ∧ keys_collide false mem_pair_map dict_pair key_tiny key_small_neg
      ∧ (object_equals false mem_pair_map key_small key_small_neg).1 = false)
    ∧ (object_set_map_value false mem_pair_map (object_make_from_data OBJECT_MAP 4096) key_tiny
        (object_make_number 0x4008000000000000)).1 = true
    ∧ object_get_map_length (object_set_map_value false mem_pair_map
        (object_make_from_data OBJECT_MAP 4096) key_tiny
        (object_make_number 0x4008000000000000)).2 (object_make_from_data OBJECT_MAP 4096) = 2
    ∧ object_get_map_key_at (object_set_map_value false mem_pair_map
        (object_make_from_data OBJECT_MAP 4096) key_tiny
        (object_make_number 0x4008000000000000)).2 (object_make_from_data OBJECT_MAP 4096) 0
        = key_small
    ∧ object_get_map_key_at (object_set_map_value false mem_pair_map
        (object_make_from_data OBJECT_MAP 4096) key_tiny
        (object_make_number 0x4008000000000000)).2 (object_make_from_data OBJECT_MAP 4096) 1
        = key_small_neg
    ∧ object_get_map_value_at (object_set_map_value false mem_pair_map
        (object_make_from_data OBJECT_MAP 4096) key_tiny
        (object_make_number 0x4008000000000000)).2 (object_make_from_data OBJECT_MAP 4096) 0
        = object_make_number 0x4008000000000000
    ∧ object_get_map_value_at (object_set_map_value false mem_pair_map
        (object_make_from_data OBJECT_MAP 4096) key_tiny
        (object_make_number 0x4008000000000000)).2 (object_make_from_data OBJECT_MAP 4096) 1
        = object_make_number 0x4000000000000000 := by
  unfold keys_collide
  refine ⟨⟨by decide, by decide, by decide⟩, ⟨by decide, by decide⟩,
    ⟨by decide, by decide, by decide⟩, by decide, by decide, by decide, by decide, by decide,
    by decide⟩

end Ape
